import Mathlib

/-!
# svr_framework: a shallow embedding of the request lifecycle engine

Definitions are translated from the C++ sources (file and function named in
each doc comment).  Machine integers are natural numbers with an explicit
reduction modulo `2^32` or `2^64` wherever the C++ arithmetic can wrap.
Containers of the standard library are modelled by lists:

* `std::set<Timer>` is the list of its elements in iteration order (ascending
  for `Timer::operator<=>`);
* `std::unordered_map<K, V>` is an association list with at most one entry
  per key (iteration order is never observed by the code).

Callables stored by the program (timer tasks, continuations) are modelled by
a payload describing what the closure captured, and by an interpreter that
runs the payload on the ambient program state.
-/

namespace ua

/-! ## Machine integer ranges -/

/-- Number of values of a `uint32_t`. -/
def UINT32_MOD : Nat := 2 ^ 32

/-- Number of values of a `uint64_t` (and of `size_t` on the 64-bit target). -/
def UINT64_MOD : Nat := 2 ^ 64

/-! ## `std::unordered_map` (association list model) -/

/-- Lookup `unordered_map::find`: the mapped value of `k`, if any. -/
def mapFind {β : Type} (k : Nat) : List (Nat × β) → Option β
  | [] => none
  | (k1, v) :: rest => if k1 = k then some v else mapFind k rest

/-- Member function `unordered_map::contains`. -/
def mapContains {β : Type} (k : Nat) (m : List (Nat × β)) : Bool :=
  (mapFind k m).isSome

/-- Member function `unordered_map::emplace`: inserts only when the key is
absent; the flag is the `second` of the returned pair. -/
def mapEmplace {β : Type} (k : Nat) (v : β) (m : List (Nat × β)) : List (Nat × β) × Bool :=
  if mapContains k m then (m, false) else ((k, v) :: m, true)

/-- Member function `unordered_map::erase` by key. -/
def mapErase {β : Type} (k : Nat) : List (Nat × β) → List (Nat × β)
  | [] => []
  | (k1, v) :: rest => if k1 = k then mapErase k rest else (k1, v) :: mapErase k rest

/-! ## `common/timeout_queue.h`, `common/timeout_queue.cpp` -/

/-- Record `TimeoutQueue::Timer`.  The field `task` holds the payload of the
stored callable. -/
structure Timer (τ : Type) where
  seq_id : Nat
  interval_time : Nat
  expire_time : Nat
  task : τ

/-- Strict order induced by `Timer::operator<=>`: `expire_time` first, then
`seq_id`. -/
def Timer.less {τ : Type} (left right : Timer τ) : Bool :=
  if left.expire_time ≠ right.expire_time then decide (left.expire_time < right.expire_time)
  else decide (left.seq_id < right.seq_id)

/-- Member function `std::set<Timer>::emplace` / `insert`: ordered insertion,
refused (flag `false`) when an equivalent element is present. -/
def setEmplace {τ : Type} (t : Timer τ) : List (Timer τ) → List (Timer τ) × Bool
  | [] => ([t], true)
  | x :: xs =>
    if Timer.less t x then (t :: x :: xs, true)
    else if Timer.less x t then ((x :: (setEmplace t xs).1), (setEmplace t xs).2)
    else (x :: xs, false)

/-- Member function `std::set<Timer>::erase(key)`: removes the element
equivalent to the key (same `expire_time` and `seq_id`). -/
def setErase {τ : Type} (expire_time seq_id : Nat) : List (Timer τ) → List (Timer τ)
  | [] => []
  | x :: xs =>
    if x.expire_time = expire_time ∧ x.seq_id = seq_id then xs
    else x :: setErase expire_time seq_id xs

/-- Class `TimeoutQueue`: the ordered set, the id index and the id counter. -/
structure TimeoutQueue (τ : Type) where
  timer_queue_ : List (Timer τ)
  timer_id_index_ : List (Nat × Nat)
  base_id_ : Nat

/-- A default-constructed `TimeoutQueue`. -/
def TimeoutQueue.empty (τ : Type) : TimeoutQueue τ :=
  { timer_queue_ := [], timer_id_index_ := [], base_id_ := 0 }

/-- Function `TimeoutQueue::GenerateID`: pre-increment of the 64-bit counter,
skipping zero after a wrap. -/
def TimeoutQueue.GenerateID {τ : Type} (q : TimeoutQueue τ) : TimeoutQueue τ × Nat :=
  let b1 := (q.base_id_ + 1) % UINT64_MOD
  let b2 := if b1 = 0 then (b1 + 1) % UINT64_MOD else b1
  ({ q with base_id_ := b2 }, b2)

/-- Function `TimeoutQueue::Add`: returns the new id, or 0 on failure. -/
def TimeoutQueue.Add {τ : Type} (q : TimeoutQueue τ) (task : τ) (expire_time interval_time : Nat) :
    TimeoutQueue τ × Nat :=
  let q1 := q.GenerateID.1
  let new_id := q.GenerateID.2
  let r1 := mapEmplace new_id expire_time q1.timer_id_index_
  if r1.2 = false then (q1, 0)
  else
    let r2 := setEmplace
      { seq_id := new_id, interval_time := interval_time, expire_time := expire_time, task := task }
      q1.timer_queue_
    if r2.2 = false then
      ({ q1 with timer_id_index_ := mapErase new_id r1.1 }, 0)
    else
      ({ q1 with timer_id_index_ := r1.1, timer_queue_ := r2.1 }, new_id)

/-- Function `TimeoutQueue::Cancel`. -/
def TimeoutQueue.Cancel {τ : Type} (q : TimeoutQueue τ) (timer_id : Nat) : TimeoutQueue τ × Bool :=
  match mapFind timer_id q.timer_id_index_ with
  | none => (q, false)
  | some expire =>
    ({ q with
        timer_queue_ := setErase expire timer_id q.timer_queue_
        timer_id_index_ := mapErase timer_id q.timer_id_index_ }, true)

/-- Function `TimeoutQueue::Exist`. -/
def TimeoutQueue.Exist {τ : Type} (q : TimeoutQueue τ) (timer_id : Nat) : Bool :=
  mapContains timer_id q.timer_id_index_

/-- Function `TimeoutQueue::Clear`. -/
def TimeoutQueue.Clear {τ : Type} (q : TimeoutQueue τ) : TimeoutQueue τ :=
  { q with timer_queue_ := [], timer_id_index_ := [] }

/-- The part of one iteration of the loop of `TimeoutQueue::TimeOut` that
precedes the call of the task: the first timer `t` is removed from the index
and from the set and, when periodic, re-inserted with
`expire_time += interval_time` (64-bit addition). -/
def TimeoutQueue.popFront {τ : Type} (q : TimeoutQueue τ) (t : Timer τ) (rest : List (Timer τ)) :
    TimeoutQueue τ :=
  let q1 : TimeoutQueue τ :=
    { q with timer_id_index_ := mapErase t.seq_id q.timer_id_index_, timer_queue_ := rest }
  if t.interval_time > 0 then
    let tmp : Timer τ := { t with expire_time := (t.expire_time + t.interval_time) % UINT64_MOD }
    let r := mapEmplace tmp.seq_id tmp.expire_time q1.timer_id_index_
    if r.2 then { q1 with timer_id_index_ := r.1, timer_queue_ := (setEmplace tmp q1.timer_queue_).1 }
    else q1
  else q1

/-- Function `TimeoutQueue::TimeOut(now)`, as a loop on the ambient program
state `σ` in which the queue lives (`view` reads the queue, `put` writes it).
`run task timer_id interval_time` is the effect of invoking a stored task; it
acts on the whole state, so a task may add or cancel timers.  `count` is the
`uint32_t` counter of the loop.  The loop is bounded by `fuel`: `none` means
the bound was reached before the loop ended. -/
def TimeoutQueue.TimeOut {τ σ : Type} (view : σ → TimeoutQueue τ) (put : TimeoutQueue τ → σ → σ)
    (run : τ → Nat → Nat → σ → σ) (now : Nat) : Nat → σ → Nat → Option (σ × Nat)
  | 0, _, _ => none
  | fuel + 1, s, count =>
    match (view s).timer_queue_ with
    | [] => some (s, count)
    | t :: rest =>
      if t.expire_time > now then some (s, count)
      else
        let s1 := put ((view s).popFront t rest) s
        let s2 := run t.task t.seq_id t.interval_time s1
        TimeoutQueue.TimeOut view put run now fuel s2 ((count + 1) % UINT32_MOD)

/-! ### A `TimeoutQueue` whose tasks do not touch the queue -/

/-- Ambient state of a queue whose tasks do not touch it: the queue and the
record of the invocations, oldest first, each with the task that was invoked
and the `timer_id` it was passed. -/
abbrev PlainState (τ : Type) : Type := TimeoutQueue τ × List (τ × Nat)

/-- Effect of a task that does not touch the queue: the invocation is
recorded, the queue is left alone. -/
def plainRun {τ : Type} (task : τ) (timer_id _interval_time : Nat) (s : PlainState τ) :
    PlainState τ :=
  (s.1, s.2 ++ [(task, timer_id)])

/-- Function `TimeoutQueue::TimeOut(now)` for tasks that do not touch the
queue; the loop counter starts at 0. -/
def TimeOutPlain {τ : Type} (now fuel : Nat) (s : PlainState τ) : Option (PlainState τ × Nat) :=
  TimeoutQueue.TimeOut Prod.fst (fun q s => (q, s.2)) plainRun now fuel s 0

/-- One call on a `TimeoutQueue` with one-shot timers. -/
inductive QOp where
  | add (expire_time : Nat)
  | cancel (timer_id : Nat)
  | timeOut (now : Nat)
  deriving DecidableEq, Repr

/-- What a call returned; for `TimeOut` also the invocations the call made,
in order: each is the task, named by the deadline of the `Add` that stored
it, with the `timer_id` it was passed. -/
inductive QRes where
  | added (timer_id : Nat)
  | cancelled (ok : Bool)
  | fired (count : Nat) (calls : List (Nat × Nat))
  deriving DecidableEq, Repr

/-- Runs one call.  The task stored by `Add(task, expire_time)` is named by
its `expire_time`.  `TimeOut` gets as many loop iterations as it needs when
tasks do not touch the queue and timers are one-shot: one per live timer and
one to see the end. -/
def runOp (s : PlainState Nat) : QOp → Option (PlainState Nat × QRes)
  | .add e => some (((s.1.Add e e 0).1, s.2), .added (s.1.Add e e 0).2)
  | .cancel i => some (((s.1.Cancel i).1, s.2), .cancelled (s.1.Cancel i).2)
  | .timeOut now =>
    match TimeOutPlain now (s.1.timer_queue_.length + 1) s with
    | none => none
    | some (s1, n) => some (s1, .fired n (s1.2.drop s.2.length))

/-- Runs a sequence of calls, pairing each call with what it returned. -/
def runOps : List QOp → PlainState Nat → Option (PlainState Nat × List (QOp × QRes))
  | [], s => some (s, [])
  | op :: ops, s =>
    match runOp s op with
    | none => none
    | some (s1, r) =>
      match runOps ops s1 with
      | none => none
      | some (s2, rs) => some (s2, (op, r) :: rs)

/-- Number of `Add` calls in a sequence. -/
def countAdds : List QOp → Nat
  | [] => 0
  | .add _ :: ops => countAdds ops + 1
  | _ :: ops => countAdds ops

/-- Tells whether a later `TimeOut(now)` with `expire_time <= now` occurs. -/
def coveredIn (expire_time : Nat) : List (QOp × QRes) → Bool
  | [] => false
  | (.timeOut now, _) :: tr => decide (expire_time ≤ now) || coveredIn expire_time tr
  | _ :: tr => coveredIn expire_time tr

/-- Tells whether a `Cancel(timer_id)` that returned `true` occurs. -/
def cancelledIn (timer_id : Nat) : List (QOp × QRes) → Bool
  | [] => false
  | (.cancel i, .cancelled true) :: tr => decide (i = timer_id) || cancelledIn timer_id tr
  | _ :: tr => cancelledIn timer_id tr

/-- The ids that were added (a successful `Add`), not cancelled afterwards,
and whose deadline is at most the `now` of a `TimeOut` call made after they
were added; one entry per `Add`, in order of the `Add` calls. -/
def expectedFired : List (QOp × QRes) → List Nat
  | [] => []
  | (.add e, .added i) :: tr =>
    if i ≠ 0 ∧ coveredIn e tr = true ∧ cancelledIn i tr = false then i :: expectedFired tr
    else expectedFired tr
  | _ :: tr => expectedFired tr

/-- Every `TimeOut` of the sequence returned the number of tasks it invoked,
reduced modulo `2^32` (the return type is `uint32_t`). -/
def countsMatchMod : List (QOp × QRes) → Bool
  | [] => true
  | (_, .fired n calls) :: tr => decide (n = calls.length % UINT32_MOD) && countsMatchMod tr
  | _ :: tr => countsMatchMod tr

/-- Every `TimeOut` of the sequence returned exactly the number of tasks it
invoked. -/
def countsMatch : List (QOp × QRes) → Bool
  | [] => true
  | (_, .fired n calls) :: tr => decide (n = calls.length) && countsMatch tr
  | _ :: tr => countsMatch tr

/-! ## `core/rpc_error.h` -/

/-- Constant `RPC_SUCCESS`. -/
def RPC_SUCCESS : Int := 0

/-- Constant `RPC_SYS_ERR`. -/
def RPC_SYS_ERR : Int := -1

/-- Constant `RPC_TIME_OUT`. -/
def RPC_TIME_OUT : Int := -3

/-! ## `core/context.h`, `core/context_controller.cpp`, `PBService::DealResponse` -/

/-- Record `ClientContext` (with the `cmd` of `PBClientContext`).  `timer_id`
is a `uint32_t`.  `callback_` is `none` while no callback is stored; the
continuation that `Pending` stores in callback mode is described by the
`server_ctx` it captured. -/
structure ClientContext where
  ret_code : Int
  timer_id : Nat
  server_ctx : Nat
  cmd : Nat
  callback_ : Option Nat

/-- Class `ContextController`.  The task of a timer of `timeout_queue_` is the
`seq_id` captured by the lambda that `Pending` passes to `Add`;
`context_cache_` maps a `seq_id` to the address of a client context. -/
structure ContextController where
  timeout_queue_ : TimeoutQueue Nat
  context_cache_ : List (Nat × Nat)
  init_ : Bool
  use_coroutine_ : Bool

/-- The program state around a `ContextController`: the client contexts by
address, the `to_be_continue` flag of the server contexts by address, the
current server context of `ContextMgr`, two counters of `ServerStatistics`,
and the record `runs` of the continuations that `Context::Run` invoked, each
with the address of its client context and the `ret_code` it was passed. -/
structure World where
  ctrl : ContextController
  client : Nat → ClientContext
  to_be_continue : Nat → Bool
  curr_server_ctx : Nat
  rpc_time_out_num : Nat
  coro_pending_num_max : Nat
  runs : List (Nat × Int)

/-- Writes one client context. -/
def World.setClient (w : World) (p : Nat) (c : ClientContext) : World :=
  { w with client := fun a => if a = p then c else w.client a }

/-- Replaces the timer queue of the controller. -/
def World.putQueue (q : TimeoutQueue Nat) (w : World) : World :=
  { w with ctrl := { w.ctrl with timeout_queue_ := q } }

/-- Function `ContextController::PendingContextNum`. -/
def ContextController.PendingContextNum (c : ContextController) : Nat :=
  c.context_cache_.length

/-- Function `ContextController::Awake`: `none` is the null pointer. -/
def ContextController.Awake (w : World) (seq_id : Nat) (ret_code : Int) : World × Option Nat :=
  match mapFind seq_id w.ctrl.context_cache_ with
  | none => (w, none)
  | some client_ctx =>
    let w1 : World :=
      { w with ctrl := { w.ctrl with context_cache_ := mapErase seq_id w.ctrl.context_cache_ } }
    let w2 : World :=
      if ret_code ≠ RPC_TIME_OUT then
        w1.putQueue (w1.ctrl.timeout_queue_.Cancel (w1.client client_ctx).timer_id).1
      else
        { w1 with rpc_time_out_num := (w1.rpc_time_out_num + 1) % UINT32_MOD }
    (w2.setClient client_ctx { w2.client client_ctx with ret_code := ret_code, timer_id := 0 },
      some client_ctx)

/-- Function `Context::Run` on a client context whose callback is the
continuation stored by `Pending` in callback mode: the continuation clears
`to_be_continue` of the server context, makes it current and calls the user
callback with `ret_code`; the user callback, the completion of the server
context and the recycler are not interpreted, the invocation is recorded.
Without a stored callback nothing is invoked. -/
def Context.Run (w : World) (client_ctx : Nat) : World :=
  match (w.client client_ctx).callback_ with
  | none => w
  | some server_ctx =>
    { w with
      to_be_continue := fun a => if a = server_ctx then false else w.to_be_continue a
      curr_server_ctx := server_ctx
      runs := w.runs ++ [(client_ctx, (w.client client_ctx).ret_code)] }

/-- The task of the timer armed by `Pending`: `Awake(seq_id, RPC_TIME_OUT)`,
then `Run` on the context it returned, if any. -/
def ContextController.timeoutTask (seq_id : Nat) (_timer_id _interval_time : Nat) (w : World) :
    World :=
  match (ContextController.Awake w seq_id RPC_TIME_OUT).2 with
  | none => (ContextController.Awake w seq_id RPC_TIME_OUT).1
  | some p => Context.Run (ContextController.Awake w seq_id RPC_TIME_OUT).1 p

/-- Function `ContextController::ProcTimeOut`. -/
def ContextController.ProcTimeOut (w : World) (now fuel : Nat) : Option (World × Nat) :=
  TimeoutQueue.TimeOut (fun w => w.ctrl.timeout_queue_) World.putQueue
    ContextController.timeoutTask now fuel w 0

/-- Function `ContextController::Pending` in callback mode.  `now_ms` is
`Clock::CurrentMilliSec()` and `gen_seq` the value that
`IDGenerator::GenerateSeqID()` returns if called; `client_ctx = 0` is the null
pointer.  In coroutine mode the call suspends the running coroutine, which
this embedding does not describe: the result is `none`. -/
def ContextController.Pending (w : World) (now_ms gen_seq : Nat)
    (seq_id timeout client_ctx : Nat) : Option (World × Int) :=
  if client_ctx = 0 then some (w, RPC_SYS_ERR)
  else
    let seq := if seq_id = 0 then gen_seq else seq_id
    let expire_time := (now_ms + timeout) % UINT64_MOD
    let r := w.ctrl.timeout_queue_.Add seq expire_time 0
    let w1 := w.putQueue r.1
    if r.2 = 0 then some (w1, RPC_SYS_ERR)
    else
      let w2 := w1.setClient client_ctx { w1.client client_ctx with timer_id := r.2 % UINT32_MOD }
      let e := mapEmplace seq client_ctx w2.ctrl.context_cache_
      if e.2 = false then
        some (w2.putQueue (w2.ctrl.timeout_queue_.Cancel r.2).1, RPC_SYS_ERR)
      else
        let w3 : World :=
          { w2 with
            ctrl := { w2.ctrl with context_cache_ := e.1 }
            coro_pending_num_max := max w2.coro_pending_num_max (e.1.length % UINT32_MOD) }
        if w3.ctrl.use_coroutine_ then none
        else
          let server_ctx := (w3.client client_ctx).server_ctx
          let w4 := w3.setClient client_ctx
            { w3.client client_ctx with callback_ := some server_ctx }
          some ({ w4 with
                  to_be_continue := fun a => if a = server_ctx then true else w4.to_be_continue a
                  curr_server_ctx := 0 }, RPC_SUCCESS)

/-- Function `PBService::DealResponse` for a reply frame carrying `seq_id`,
`ret_code` and `cmd`. -/
def DealResponse (w : World) (seq_id : Nat) (ret_code : Int) (cmd : Nat) : World :=
  match (ContextController.Awake w seq_id ret_code).2 with
  | none => (ContextController.Awake w seq_id ret_code).1
  | some p =>
    let w1 := (ContextController.Awake w seq_id ret_code).1
    let w2 := if cmd ≠ (w1.client p).cmd then
        w1.setClient p { w1.client p with ret_code := RPC_SYS_ERR }
      else w1
    Context.Run w2 p

/-- What can happen to a pending call: a reply frame with its `seq_id`
arrives, or the loop calls `ProcTimeOut(now)`. -/
inductive CEvent where
  | reply (ret_code : Int) (cmd : Nat)
  | procTimeOut (now : Nat)
  deriving DecidableEq, Repr

/-- Runs the events that concern the pending call `seq_id`, in order.
`ProcTimeOut` gets one loop iteration per live timer and one to see the end. -/
def runEvents (seq_id : Nat) : List CEvent → World → Option World
  | [], w => some w
  | .reply ret_code cmd :: evs, w => runEvents seq_id evs (DealResponse w seq_id ret_code cmd)
  | .procTimeOut now :: evs, w =>
    match ContextController.ProcTimeOut w now (w.ctrl.timeout_queue_.timer_queue_.length + 1) with
    | none => none
    | some r => runEvents seq_id evs r.1

/-- The event ends the wait of a call with the given deadline: any reply, or
a `ProcTimeOut(now)` that reaches the deadline. -/
def CEvent.ends (deadline : Nat) : CEvent → Bool
  | .reply _ _ => true
  | .procTimeOut now => decide (deadline ≤ now)

/-- The `ret_code` with which the continuation is run by an event that ends
the wait: the reply's, replaced by `RPC_SYS_ERR` when the reply's `cmd` is not
the one of the call, or `RPC_TIME_OUT`. -/
def CEvent.retCode (cmd : Nat) : CEvent → Int
  | .reply ret_code c => if c ≠ cmd then RPC_SYS_ERR else ret_code
  | .procTimeOut _ => RPC_TIME_OUT

/-- The runs of the continuation of the client context at address `p`. -/
def World.runsOf (w : World) (p : Nat) : List (Nat × Int) :=
  w.runs.filter (fun e => decide (e.1 = p))

/-- A freshly constructed controller in callback mode, with no client context
in use. -/
def World.fresh : World :=
  { ctrl := { timeout_queue_ := TimeoutQueue.empty Nat, context_cache_ := [], init_ := true,
              use_coroutine_ := false }
    client := fun _ => { ret_code := 0, timer_id := 0, server_ctx := 9, cmd := 0, callback_ := none }
    to_be_continue := fun _ => false
    curr_server_ctx := 0
    rpc_time_out_num := 0
    coro_pending_num_max := 0
    runs := [] }

/-! ## `core/server_core.h`, `core/server_core.cpp` -/

/-- Record `SvrOption::FrameTimeLimit`; the fields are `uint32_t`. -/
structure FrameTimeLimit where
  max_proc_ms : Nat
  max_ctx_proc_ms : Nat
  min_on_proc_ms : Nat
  deriving DecidableEq, Repr

/-- Record `SvrOption::FlowControl`; the fields are `uint32_t`. -/
structure FlowControl where
  max_deal_pkg_num : Nat
  max_num : Nat
  min_num : Nat
  inc_delta : Nat
  dec_delta : Nat
  judge_range_ms : Nat
  deriving DecidableEq, Repr

/-- The options of `SvrOption` that `CheckOption` and `AdjustParam` read. -/
structure SvrOption where
  frame : FrameTimeLimit
  flow_ctrl : FlowControl
  deriving DecidableEq, Repr

/-- The fields of a `FlowControl` are in the range of `uint32_t`. -/
def FlowControl.InRange (f : FlowControl) : Prop :=
  f.max_deal_pkg_num < UINT32_MOD ∧ f.max_num < UINT32_MOD ∧ f.min_num < UINT32_MOD ∧
    f.inc_delta < UINT32_MOD ∧ f.dec_delta < UINT32_MOD ∧ f.judge_range_ms < UINT32_MOD

/-- Function `ServerCore::CheckOption`. -/
def CheckOption (option : SvrOption) : Bool :=
  if option.flow_ctrl.min_num > option.flow_ctrl.max_num then false
  else if option.flow_ctrl.max_deal_pkg_num > option.flow_ctrl.max_num ∨
      option.flow_ctrl.max_deal_pkg_num < option.flow_ctrl.min_num then false
  else if option.frame.min_on_proc_ms > option.frame.max_proc_ms then false
  else if option.frame.max_ctx_proc_ms > option.frame.max_proc_ms then false
  else true

/-- Function `ServerCore::AdjustParam` on the flow-control options.
`remain_ms` and `used_ms` are `uint64_t`: the sums with them are 64-bit; the
sums of two options and the product `judge_range_ms * 2` are 32-bit, as is
the updated `max_deal_pkg_num`. -/
def AdjustParam (f : FlowControl) (remain_ms used_ms : Nat) : FlowControl :=
  if used_ms > (remain_ms + f.judge_range_ms) % UINT64_MOD then
    if f.max_deal_pkg_num > (f.min_num + f.dec_delta) % UINT32_MOD then
      { f with max_deal_pkg_num := (f.max_deal_pkg_num + UINT32_MOD - f.dec_delta) % UINT32_MOD }
    else if f.max_deal_pkg_num > f.min_num then
      { f with max_deal_pkg_num := f.min_num }
    else f
  else if (used_ms + (f.judge_range_ms * 2) % UINT32_MOD) % UINT64_MOD < remain_ms then
    if (f.max_deal_pkg_num + f.inc_delta) % UINT32_MOD < f.max_num then
      { f with max_deal_pkg_num := (f.max_deal_pkg_num + f.inc_delta) % UINT32_MOD }
    else if f.max_deal_pkg_num < f.max_num then
      { f with max_deal_pkg_num := f.max_num }
    else f
  else f

/-- The value that the claim gives for `max_deal_pkg_num` after
`AdjustParam(remain_ms, used_ms)`, in unbounded arithmetic (the subtraction
stops at 0). -/
def adjustClaimed (f : FlowControl) (remain_ms used_ms : Nat) : Nat :=
  if used_ms > remain_ms + f.judge_range_ms then max f.min_num (f.max_deal_pkg_num - f.dec_delta)
  else if used_ms + 2 * f.judge_range_ms < remain_ms then
    min f.max_num (f.max_deal_pkg_num + f.inc_delta)
  else f.max_deal_pkg_num

/-- Options accepted by `CheckOption` whose `dec_delta` is close to `2^32`. -/
def overflowFlow : FlowControl :=
  { max_deal_pkg_num := 100, max_num := 100, min_num := 10, inc_delta := 5,
    dec_delta := 4294967291, judge_range_ms := 2 }

/-- The options of scenario 3 of the spec. -/
def scenarioFlow : FlowControl :=
  { max_deal_pkg_num := 100, max_num := 100, min_num := 10, inc_delta := 5, dec_delta := 20,
    judge_range_ms := 2 }

/-! ## `pb/common_context.h`, `pb/pkg_flag_type.h`, `PBService::MethodFinish` -/

/-- Constant `FLAG_RSP_PKG`. -/
def FLAG_RSP_PKG : Nat := 0x0001

/-- Constant `FLAG_DONT_RSP`. -/
def FLAG_DONT_RSP : Nat := 0x0002

/-- Constant `PBService::MAX_TRANSPORT_NUM`. -/
def MAX_TRANSPORT_NUM : Nat := 10

/-- Record `PBContextHead`. -/
structure PBContextHead where
  gid : Nat
  seq_id : Nat
  cmd : Nat
  src : Nat
  dst : Nat
  pkg_flag : Nat
  timeout : Nat
  deriving DecidableEq, Repr

/-- Record `PBContext`, with the members of `ServerContext` and `Context` that
`MethodFinish` reads or writes. -/
structure PBContext where
  head : PBContextHead
  transport_index : Nat
  ignore : Bool
  ret_code : Int
  start_time : Nat
  end_time : Nat
  deriving DecidableEq, Repr

/-- The header fields of a `SendCodec`, as its setters leave them. -/
structure SendCodec where
  src : Nat
  dst : Nat
  timeout : Nat
  gid : Nat
  seq_id : Nat
  cmd : Nat
  ret_code : Int
  flag : Nat
  deriving DecidableEq, Repr

/-- Function `SendCodec::Reset`. -/
def SendCodec.Reset : SendCodec :=
  { src := 0, dst := 0, timeout := 0, gid := 0, seq_id := 0, cmd := 0, ret_code := 0, flag := 0 }

/-- An `IChannel`: its `MyID()` and the frames that were passed to `Send`,
each with its destination and the header it was encoded from. -/
structure IChannel where
  my_id : Nat
  sent : List (Nat × SendCodec)
  deriving DecidableEq, Repr

/-- Record `TransportInfo`: the channel and the send codec. -/
structure TransportInfo where
  channel : IChannel
  send_codec : SendCodec
  deriving DecidableEq, Repr

/-- The members of `PBService` and of the singletons that `MethodFinish`
uses: the transports by index, the reply interceptors (each may change the
context and tells whether it intercepted), the gids reported to the scheduler
by `OnResponse` (`none` without a scheduler), the calls of
`ServerStatistics::SetCoroRunTime` and whether `ContextMgr` has a current
server context. -/
structure PBService where
  transport_infos_ : Nat → TransportInfo
  rsp_intercepters : List (PBContext → PBContext × Bool)
  scheduler_ : Option (List Nat)
  coro_run_times : List (Nat × Nat × Int)
  has_curr_server_ctx : Bool

/-- Function `PBService::InterceptRsp`: every interceptor runs, the results
are or-ed. -/
def InterceptRsp : List (PBContext → PBContext × Bool) → PBContext → PBContext × Bool
  | [], context => (context, false)
  | f :: fs, context =>
    ((InterceptRsp fs (f context).1).1, (f context).2 || (InterceptRsp fs (f context).1).2)

/-- Function `ServerContext::Duration`. -/
def PBContext.Duration (c : PBContext) : Nat :=
  (c.end_time + UINT64_MOD - c.start_time) % UINT32_MOD

/-- Function `PBService::MethodFinish`; `now` is `Clock::CurrentMilliSec()`.
The header of the reply is written into the send codec of the transport; the
source has no call that encodes or sends it (the call of `SendMessage` is
commented out). -/
def MethodFinish (svc : PBService) (context : PBContext) (now : Nat) : PBService × PBContext :=
  let r := InterceptRsp svc.rsp_intercepters context
  let ctx1 := r.1
  let be_intercept := r.2
  let svc1 : PBService :=
    if !ctx1.ignore && (ctx1.head.pkg_flag &&& FLAG_DONT_RSP) = 0 && !be_intercept then
      let info := svc.transport_infos_ ctx1.transport_index
      let send_codec : SendCodec :=
        { SendCodec.Reset with
          src := info.channel.my_id
          dst := ctx1.head.src
          timeout := 0
          gid := ctx1.head.gid
          seq_id := ctx1.head.seq_id
          cmd := ctx1.head.cmd
          ret_code := ctx1.ret_code
          flag := ctx1.head.pkg_flag ||| FLAG_DONT_RSP ||| FLAG_RSP_PKG }
      { svc with
        transport_infos_ := fun i =>
          if i = ctx1.transport_index then { info with send_codec := send_codec }
          else svc.transport_infos_ i }
    else svc
  let ctx2 : PBContext := { ctx1 with end_time := now }
  ({ svc1 with
      coro_run_times := svc1.coro_run_times ++ [(ctx2.head.cmd, ctx2.Duration, ctx2.ret_code)]
      scheduler_ := svc1.scheduler_.map (fun l => l ++ [ctx2.head.gid])
      has_curr_server_ctx := false }, ctx2)

/-- The engine of scenario 1 of the spec: one loopback transport with id 1 at
index 0, no interceptor, no scheduler. -/
def echoService : PBService :=
  { transport_infos_ := fun _ => { channel := { my_id := 1, sent := [] }, send_codec := SendCodec.Reset }
    rsp_intercepters := []
    scheduler_ := none
    coro_run_times := []
    has_curr_server_ctx := true }

/-- The server context of the request of scenario 1: `seq_id = 42`, `gid = 7`,
`cmd = 0x1001`, from endpoint 5, no flag set, handler finished with
`ret_code = 0`. -/
def echoContext : PBContext :=
  { head := { gid := 7, seq_id := 42, cmd := 0x1001, src := 5, dst := 1, pkg_flag := 0,
              timeout := 0 }
    transport_index := 0
    ignore := false
    ret_code := 0
    start_time := 0
    end_time := 0 }

/-! ## `containers/inner/base_struct.h`, `containers/fixed_mem_pool.h` -/

/-- Record `Link<size_t>`: a node of a doubly linked list of indices. -/
structure Link where
  prev : Nat
  next : Nat
  deriving DecidableEq, Repr

/-- Size in bytes of `FixedMemPool::MemHeader`: eleven `size_t`. -/
def SIZEOF_MEM_HEADER : Nat := 88

/-- Size in bytes of `Link<size_t>`. -/
def SIZEOF_LINK_NODE : Nat := 16

/-- Template parameter `BLOCK_ALIGN`, at its default `alignof(size_t)`. -/
def BLOCK_ALIGN : Nat := 8

/-- Constant `FixedMemPool::HEADER_MAGIC_NUM`. -/
def HEADER_MAGIC_NUM : Nat := 0x9E370001

/-- Constant `FixedMemPool::VERSION`. -/
def VERSION : Nat := 1

/-- Record `FixedMemPool::MemHeader`. -/
structure MemHeader where
  version : Nat
  mem_size : Nat
  raw_t_size : Nat
  t_size : Nat
  max_num : Nat
  used_num : Nat
  raw_used_num : Nat
  link_head_offset : Nat
  value_offset : Nat
  reclaim_list : Nat
  magic_num : Nat
  deriving DecidableEq, Repr

/-- A `FixedMemPool` attached to a memory region: `mem` is the address of the
region (the value of `m_header`), `m_header` the header stored at its start
and `link` the array of link nodes that follows it, by index.  The payload
bytes of the slots and the `assert`s of the methods are not represented; the
indices the `assert`s test are shown to be in range in `alloc_inv`. -/
structure FixedMemPool where
  mem : Nat
  m_header : MemHeader
  link : Nat → Link

/-- Writes one link node. -/
def setLink (link : Nat → Link) (i : Nat) (v : Link) : Nat → Link :=
  fun j => if j = i then v else link j

/-- Function `FixedMemPool::align_bytes`, in `size_t` arithmetic:
`(bytes + BLOCK_ALIGN - 1) & ~(BLOCK_ALIGN - 1)`. -/
def align_bytes (bytes : Nat) : Nat :=
  (bytes + BLOCK_ALIGN - 1) % UINT64_MOD / BLOCK_ALIGN * BLOCK_ALIGN

/-- Function `FixedMemPool::calc_need_size`, in `size_t` arithmetic. -/
def calc_need_size (max_node_num node_size : Nat) : Nat :=
  (align_bytes ((SIZEOF_MEM_HEADER + (max_node_num + 1) % UINT64_MOD * SIZEOF_LINK_NODE
      % UINT64_MOD) % UINT64_MOD)
    + max_node_num * align_bytes node_size % UINT64_MOD) % UINT64_MOD

/-- Function `FixedMemPool::init_header`. -/
def FixedMemPool.init_header (pool : FixedMemPool) (size max_node_num node_size raw_node_size : Nat) :
    FixedMemPool :=
  { pool with
    m_header :=
      { version := VERSION
        mem_size := size
        raw_t_size := raw_node_size
        t_size := node_size
        max_num := max_node_num
        used_num := 0
        raw_used_num := 0
        link_head_offset := SIZEOF_MEM_HEADER
        value_offset := align_bytes ((SIZEOF_MEM_HEADER + (max_node_num + 1) % UINT64_MOD
          * SIZEOF_LINK_NODE % UINT64_MOD) % UINT64_MOD)
        reclaim_list := 0
        magic_num := HEADER_MAGIC_NUM }
    link := setLink pool.link 0 { prev := 0, next := 0 } }

/-- Function `FixedMemPool::init(mem, size, max_node_num, node_size, check)`.
`region` is the memory as found: its address, and the header and link nodes
its bytes hold; `sizeof_T` is `sizeof(T)`.  Returns the result and the pool
as attached. -/
def FixedMemPool.init (region : FixedMemPool) (size max_node_num node_size sizeof_T : Nat)
    (check : Bool) : Bool × FixedMemPool :=
  if region.mem = 0 ∨ node_size < sizeof_T then (false, region)
  else if calc_need_size max_node_num node_size > size then (false, region)
  else
    let pool := if check then region
      else region.init_header (calc_need_size max_node_num node_size) max_node_num
        (align_bytes node_size) node_size
    if pool.m_header.magic_num ≠ HEADER_MAGIC_NUM ∨ pool.m_header.version ≠ VERSION ∨
        pool.m_header.mem_size ≠ calc_need_size max_node_num node_size ∨
        pool.m_header.max_num ≠ max_node_num ∨ pool.m_header.raw_t_size ≠ node_size ∨
        pool.m_header.t_size ≠ align_bytes node_size then (false, pool)
    else (true, pool)

/-- Function `FixedMemPool::full`. -/
def FixedMemPool.full (pool : FixedMemPool) : Bool :=
  decide (pool.m_header.used_num ≥ pool.m_header.max_num)

/-- Function `FixedMemPool::empty` (named after what it tests). -/
def FixedMemPool.isEmpty (pool : FixedMemPool) : Bool :=
  decide (pool.m_header.used_num = 0)

/-- Function `FixedMemPool::capacity`. -/
def FixedMemPool.capacity (pool : FixedMemPool) : Nat :=
  pool.m_header.max_num

/-- Function `FixedMemPool::size`. -/
def FixedMemPool.size (pool : FixedMemPool) : Nat :=
  pool.m_header.used_num

/-- Function `FixedMemPool::get_value` (`int_2_ptr`): the address of slot
`index`. -/
def FixedMemPool.get_value (pool : FixedMemPool) (index : Nat) : Nat :=
  pool.mem + pool.m_header.value_offset + (index - 1) * pool.m_header.t_size

/-- Function `FixedMemPool::ptr_2_int`. -/
def FixedMemPool.ptr_2_int (pool : FixedMemPool) (p : Nat) : Nat :=
  if p < pool.mem + pool.m_header.value_offset then 0
  else if (p - pool.mem - pool.m_header.value_offset) % pool.m_header.t_size ≠ 0 then 0
  else ((p - pool.mem - pool.m_header.value_offset) / pool.m_header.t_size + 1) % UINT64_MOD

/-- Function `FixedMemPool::alloc`: the pool and the returned pointer, `none`
for the null pointer. -/
def FixedMemPool.alloc (pool : FixedMemPool) : FixedMemPool × Option Nat :=
  if pool.full then (pool, none)
  else
    let h := pool.m_header
    let index := if h.reclaim_list ≠ 0 then h.reclaim_list else h.raw_used_num + 1
    let h1 : MemHeader :=
      if h.reclaim_list ≠ 0 then { h with reclaim_list := (pool.link h.reclaim_list).next }
      else { h with raw_used_num := h.raw_used_num + 1 }
    let head_next := (pool.link 0).next
    let l1 := setLink pool.link index { prev := 0, next := head_next }
    let l2 := setLink l1 head_next { l1 head_next with prev := index }
    let l3 := setLink l2 0 { l2 0 with next := index }
    ({ pool with m_header := { h1 with used_num := h1.used_num + 1 }, link := l3 },
      some (pool.get_value index))

/-- The link nodes after `free` has taken node `index` out of the active list
and pushed it on the reclaim stack. -/
def unlinked (link : Nat → Link) (index marker reclaim : Nat) : Nat → Link :=
  let del := link index
  let l1 := setLink link del.prev { link del.prev with next := del.next }
  let l2 := setLink l1 del.next { l1 del.next with prev := (l1 index).prev }
  let l3 := setLink l2 index { l2 index with prev := marker }
  setLink l3 index { l3 index with next := reclaim }

/-- Function `FixedMemPool::free`. -/
def FixedMemPool.free (pool : FixedMemPool) (p : Nat) : FixedMemPool × Bool :=
  if pool.isEmpty then (pool, false)
  else if pool.ptr_2_int p = 0 ∨ pool.ptr_2_int p > pool.m_header.max_num then (pool, false)
  else if pool.ptr_2_int p > pool.m_header.raw_used_num then (pool, false)
  else if (pool.link (pool.ptr_2_int p)).prev > pool.m_header.max_num then (pool, false)
  else
    ({ pool with
        m_header :=
          { pool.m_header with
            reclaim_list := pool.ptr_2_int p
            used_num := pool.m_header.used_num - 1 }
        link := unlinked pool.link (pool.ptr_2_int p)
          ((pool.m_header.max_num + 1) % UINT64_MOD) pool.m_header.reclaim_list }, true)

/-- Iteration from an iterator at `index` to `end()` by `operator++`: the
indices visited, `none` if `fuel` steps do not reach `end()`. -/
def FixedMemPool.walk (pool : FixedMemPool) : Nat → Nat → Option (List Nat)
  | _, 0 => some []
  | 0, _ + 1 => none
  | fuel + 1, i + 1 => (FixedMemPool.walk pool fuel (pool.link (i + 1)).next).map (fun l => (i + 1) :: l)

/-- Iteration from `begin()` to `end()`: the addresses of the slots visited,
in order. -/
def FixedMemPool.iterate (pool : FixedMemPool) (fuel : Nat) : Option (List Nat) :=
  (pool.walk fuel (pool.link 0).next).map (fun l => l.map pool.get_value)

/-- One call on a `FixedMemPool`. -/
inductive POp where
  | alloc
  | free (p : Nat)
  deriving DecidableEq, Repr

/-- What a call on a `FixedMemPool` returned. -/
inductive PRes where
  | allocated (p : Option Nat)
  | freed (ok : Bool)
  deriving DecidableEq, Repr

/-- The argument of the call, if any, is a pointer: an address below `2^64`. -/
def POp.isPtr : POp → Bool
  | .alloc => true
  | .free p => decide (p < UINT64_MOD)

/-- Runs a sequence of calls, pairing each call with what it returned. -/
def runPool : List POp → FixedMemPool → FixedMemPool × List (POp × PRes)
  | [], pool => (pool, [])
  | .alloc :: ops, pool =>
    ((runPool ops pool.alloc.1).1, (POp.alloc, PRes.allocated pool.alloc.2) :: (runPool ops pool.alloc.1).2)
  | .free p :: ops, pool =>
    ((runPool ops (pool.free p).1).1,
      (POp.free p, PRes.freed (pool.free p).2) :: (runPool ops (pool.free p).1).2)

/-- The outstanding slots after a record of calls, oldest allocation first:
`acc` holds those outstanding before; a successful `alloc` appends its slot, a
successful `free` removes its slot. -/
def outstandingFrom (acc : List Nat) : List (POp × PRes) → List Nat
  | [] => acc
  | (.alloc, .allocated (some p)) :: tr => outstandingFrom (acc ++ [p]) tr
  | (.free p, .freed true) :: tr => outstandingFrom (acc.erase p) tr
  | _ :: tr => outstandingFrom acc tr

/-- The index of the node `alloc` takes: the top of the reclaim stack if
there is one, else the first node never used. -/
def FixedMemPool.allocIndex (pool : FixedMemPool) : Nat :=
  if pool.m_header.reclaim_list ≠ 0 then pool.m_header.reclaim_list
  else pool.m_header.raw_used_num + 1

/-- The link nodes after `alloc` has put node `index` at the front of the
active list. -/
def linkedFront (link : Nat → Link) (index : Nat) : Nat → Link :=
  let head_next := (link 0).next
  let l1 := setLink link index { prev := 0, next := head_next }
  let l2 := setLink l1 head_next { l1 head_next with prev := index }
  setLink l2 0 { l2 0 with next := index }

/-- The nodes `l` form a doubly linked path from node `a` to node `z`: `next`
leads from `a` through `l` to `z`, `prev` leads back. -/
def Chain (link : Nat → Link) : Nat → List Nat → Nat → Prop
  | a, [], z => (link a).next = z ∧ (link z).prev = a
  | a, b :: l, z => (link a).next = b ∧ (link b).prev = a ∧ Chain link b l z

/-- The nodes `fs` form the reclaim stack with top `r`: each carries the
marker in `prev` and the node below it (0 at the bottom) in `next`. -/
def Stack (link : Nat → Link) (marker : Nat) : Nat → List Nat → Prop
  | r, [] => r = 0
  | r, f :: fs => r = f ∧ (link f).prev = marker ∧ Stack link marker (link f).next fs

/-- Invariant of a `FixedMemPool`: `L` are the indices of the outstanding
slots, most recently allocated first, and `F` the indices on the reclaim
stack, top first.  Together they are the indices `1..raw_used_num`, each
once; the active list is the circular list `0, L, 0`. -/
structure PoolInv (pool : FixedMemPool) (L F : List Nat) : Prop where
  cap : pool.m_header.max_num + 1 < UINT64_MOD
  mem_pos : 0 < pool.mem
  ts : 0 < pool.m_header.t_size
  used : pool.m_header.used_num = L.length
  used_le : pool.m_header.used_num ≤ pool.m_header.max_num
  raw_le : pool.m_header.raw_used_num ≤ pool.m_header.max_num
  cover : ∀ i, (1 ≤ i ∧ i ≤ pool.m_header.raw_used_num) ↔ (i ∈ L ∨ i ∈ F)
  nodup : (L ++ F).Nodup
  chain : Chain pool.link 0 L 0
  stack : Stack pool.link (pool.m_header.max_num + 1) pool.m_header.reclaim_list F

/-- A memory region at address 4096 holding arbitrary bytes (here zeros). -/
def rawRegion : FixedMemPool :=
  { mem := 4096
    m_header := { version := 0, mem_size := 0, raw_t_size := 0, t_size := 0, max_num := 0,
                  used_num := 0, raw_used_num := 0, link_head_offset := 0, value_offset := 0,
                  reclaim_list := 0, magic_num := 0 }
    link := fun _ => { prev := 0, next := 0 } }

/-! ### Well-formedness of a `TimeoutQueue` -/

/-- The ordered set is strictly ascending for `Timer::operator<=>`. -/
def SortedTimers {τ : Type} (l : List (Timer τ)) : Prop :=
  l.Pairwise (fun a b => Timer.less a b = true)

/-- The id index and the ordered set describe the same timers. -/
def IndexAgrees {τ : Type} (q : TimeoutQueue τ) : Prop :=
  ∀ i e, mapFind i q.timer_id_index_ = some e ↔
    ∃ t ∈ q.timer_queue_, t.seq_id = i ∧ t.expire_time = e

/-- Consistent state of a `TimeoutQueue` holding one-shot timers: the set is
ascending, the index agrees with it, ids are distinct. -/
structure QueueWF {τ : Type} (q : TimeoutQueue τ) : Prop where
  sorted : SortedTimers q.timer_queue_
  index : IndexAgrees q
  nodup : (q.timer_queue_.map Timer.seq_id).Nodup
  oneshot : ∀ t ∈ q.timer_queue_, t.interval_time = 0

/-- State of a `TimeoutQueue` holding one-shot timers whose id counter has not
wrapped: the set is ascending, the index agrees with it, ids are distinct,
non-zero and at most the counter. -/
structure OneShotWF {τ : Type} (q : TimeoutQueue τ) : Prop where
  sorted : SortedTimers q.timer_queue_
  index : IndexAgrees q
  nodup : (q.timer_queue_.map Timer.seq_id).Nodup
  ids : ∀ t ∈ q.timer_queue_, 0 < t.seq_id ∧ t.seq_id ≤ q.base_id_
  oneshot : ∀ t ∈ q.timer_queue_, t.interval_time = 0

/-- The invocations the calls of a sequence made, in order. -/
def firedCalls : List (QOp × QRes) → List (Nat × Nat)
  | [] => []
  | (_, .fired _ calls) :: tr => calls ++ firedCalls tr
  | _ :: tr => firedCalls tr

/-- The ids whose task the calls of a sequence invoked, in order of
invocation. -/
def firedIds (tr : List (QOp × QRes)) : List Nat :=
  (firedCalls tr).map Prod.snd

/-- Erases a list of keys from the id index, one `erase` per key. -/
def eraseIds (ids : List Nat) (m : List (Nat × Nat)) : List (Nat × Nat) :=
  ids.foldl (fun acc i => mapErase i acc) m

/-- The invocation that firing a timer records: its task and its id. -/
def Timer.call {τ : Type} (t : Timer τ) : τ × Nat :=
  (t.task, t.seq_id)

/-- Loop condition of `TimeoutQueue::TimeOut`: the timer is due at `now`. -/
def Timer.due {τ : Type} (now : Nat) (t : Timer τ) : Bool :=
  decide (t.expire_time ≤ now)

/-- Among the timers `l` live at the start of a sequence of calls, the ids of
those that a `TimeOut` of the sequence covers and no `Cancel` of the sequence
removed. -/
def liveFired {τ : Type} (l : List (Timer τ)) (tr : List (QOp × QRes)) : List Nat :=
  (l.filter (fun t => coveredIn t.expire_time tr && !cancelledIn t.seq_id tr)).map Timer.seq_id

/-- Invariant of the invocation record: no id was invoked twice, and an
invoked id is neither live nor beyond the id counter. -/
def LogInv {τ : Type} (s : PlainState τ) : Prop :=
  (s.2.map Prod.snd).Nodup ∧
    ∀ i ∈ s.2.map Prod.snd, i ≤ s.1.base_id_ ∧ ∀ t ∈ s.1.timer_queue_, t.seq_id ≠ i

/-- What a run of a sequence of calls from state `s` to state `s1` with
record `tr` satisfies. -/
structure TraceFacts (s s1 : PlainState Nat) (tr : List (QOp × QRes)) (ops : List QOp) :
    Prop where
  ops_eq : tr.map Prod.fst = ops
  counts : countsMatchMod tr = true
  log_eq : s1.2 = s.2 ++ firedCalls tr
  perm : List.Perm (firedIds tr) (liveFired s.1.timer_queue_ tr ++ expectedFired tr)
  notCancelled : ∀ x, x ≤ s.1.base_id_ → (∀ t ∈ s.1.timer_queue_, t.seq_id ≠ x) →
    cancelledIn x tr = false
  nodup : (s1.2.map Prod.snd).Nodup
  wf : OneShotWF s1.1
  base : s1.1.base_id_ = s.1.base_id_ + countAdds ops

/-- The ordered set after `n` calls `Add(task, 0)` on a fresh queue: ids
`1..n` in ascending order, all with deadline 0. -/
def zeroTimers (n : Nat) : List (Timer Nat) :=
  (List.range n).map (fun k => Timer.mk (k + 1) 0 0 0)

/-- The id index after `n` calls `Add(task, 0)` on a fresh queue. -/
def zeroIndex : Nat → List (Nat × Nat)
  | 0 => []
  | n + 1 => (n + 1, 0) :: zeroIndex n

/-- The queue after `n` calls `Add(task, 0)` on a fresh queue. -/
def zeroQueue (n : Nat) : TimeoutQueue Nat :=
  { timer_queue_ := zeroTimers n, timer_id_index_ := zeroIndex n, base_id_ := n }

/-- The record of `n` calls `Add(task, 0)` made when the id counter is `m`. -/
def zeroRecs (m : Nat) : Nat → List (QOp × QRes)
  | 0 => []
  | n + 1 => (QOp.add 0, QRes.added (m + 1)) :: zeroRecs (m + 1) n

/-- The `seq_id` under which `Pending` registers a call: the one passed in,
or a generated one when 0 is passed. -/
def pendingSeq (seq_id gen_seq : Nat) : Nat :=
  if seq_id = 0 then gen_seq else seq_id

/-- The deadline of the timer that `Pending` arms: `now + timeout`, a 64-bit
sum. -/
def pendingDeadline (now_ms timeout : Nat) : Nat :=
  (now_ms + timeout) % UINT64_MOD

/-- The tasks of the timers that one `ProcTimeOut` fires, run in order. -/
def ContextController.timeoutAll : List Nat → World → World
  | [], w => w
  | s :: ss, w => ContextController.timeoutAll ss (ContextController.timeoutTask s 0 0 w)

/-- The call `seq` is pending on the client context at address `p`: its row
is in the table, no other row refers to `p`, the continuation is stored, and
the runs of the continuation so far are `R`. -/
structure RowLive (w : World) (seq p cmd : Nat) (R : List (Nat × Int)) : Prop where
  row : mapFind seq w.ctrl.context_cache_ = some p
  only : ∀ k, mapFind k w.ctrl.context_cache_ = some p → k = seq
  cb : ((w.client p).callback_).isSome = true
  cmd_eq : (w.client p).cmd = cmd
  runs_eq : w.runsOf p = R

/-- The call `seq` is over: the table has no row for it and no row refers to
the client context at address `p`; the runs of the continuation are `R`. -/
structure RowDone (w : World) (seq p : Nat) (R : List (Nat × Int)) : Prop where
  norow : mapFind seq w.ctrl.context_cache_ = none
  noalias : ∀ k, mapFind k w.ctrl.context_cache_ ≠ some p
  runs_eq : w.runsOf p = R

/-! ### Any timers, one-shot or periodic -/

/-- Consistent state of a `TimeoutQueue` holding any timers, one-shot or
periodic: the set is ascending, the index agrees with it, ids are distinct. -/
structure TimerWF {τ : Type} (q : TimeoutQueue τ) : Prop where
  sorted : SortedTimers q.timer_queue_
  index : IndexAgrees q
  nodup : (q.timer_queue_.map Timer.seq_id).Nodup

/-- Ambient state of a queue whose tasks do not touch it, with the full record
of the invocations, oldest first: the task invoked and the `timer_id` and
`interval_time` it was passed. -/
abbrev RecState (τ : Type) : Type := TimeoutQueue τ × List (τ × Nat × Nat)

/-- Effect of a task that does not touch the queue: the invocation and its
two arguments are recorded. -/
def recRun {τ : Type} (task : τ) (timer_id interval_time : Nat) (s : RecState τ) : RecState τ :=
  (s.1, s.2 ++ [(task, timer_id, interval_time)])

/-- Function `TimeoutQueue::TimeOut(now)` for tasks that do not touch the
queue, recording both arguments of each invocation. -/
def TimeOutRec {τ : Type} (now fuel : Nat) (s : RecState τ) : Option (RecState τ × Nat) :=
  TimeoutQueue.TimeOut Prod.fst (fun q s => (q, s.2)) recRun now fuel s 0

/-- Successive calls `TimeOut(now)`, each with its own bound on the loop. -/
def timeOutsRec {τ : Type} : List (Nat × Nat) → RecState τ → Option (RecState τ)
  | [], s => some s
  | (now, fuel) :: cs, s =>
    match TimeOutRec now fuel s with
    | none => none
    | some (s1, _) => timeOutsRec cs s1

/-- Number of times `TimeOut(now)` fires a timer when no deadline wraps: not
at all before its deadline, once if one-shot, else once per period elapsed. -/
def Timer.fires {τ : Type} (now : Nat) (t : Timer τ) : Nat :=
  if t.expire_time > now then 0
  else if t.interval_time = 0 then 1
  else (now - t.expire_time) / t.interval_time + 1

/-- Number of iterations of the loop of `TimeOut(now)` when no deadline
wraps. -/
def totalFires {τ : Type} (now : Nat) (l : List (Timer τ)) : Nat :=
  (l.map (Timer.fires now)).sum

/-- No periodic timer of the queue can wrap its deadline while it is due at
`now`. -/
def NoWrap {τ : Type} (now : Nat) (l : List (Timer τ)) : Prop :=
  ∀ t ∈ l, 0 < t.interval_time → now + t.interval_time < UINT64_MOD

/-- The invocations of a record that were passed `timer_id`. -/
def callsOf {τ : Type} (timer_id : Nat) (log : List (τ × Nat × Nat)) : List (τ × Nat × Nat) :=
  log.filter (fun c => decide (c.2.1 = timer_id))

/-- A queue holding one periodic timer: id 1, period 1, deadline
`expire_time`. -/
def tickQueue (expire_time : Nat) : TimeoutQueue Nat :=
  { timer_queue_ := [Timer.mk 1 1 expire_time 0]
    timer_id_index_ := [(1, expire_time)]
    base_id_ := 1 }

/-- A queue after `Add(task 7, deadline 10, interval 3)` and
`Add(task 8, deadline 5)` on a fresh queue: a periodic timer with id 1 and a
one-shot timer with id 2. -/
def demoQueue : TimeoutQueue Nat :=
  (((TimeoutQueue.empty Nat).Add 7 10 3).1.Add 8 5 0).1

/-! ## `containers/inner/base_mem_set.h`, `containers/inner/mem_set_data.h` -/

/-- Record `Pair<KEY, VALUE>` of `base_struct.h`, the element type of
`MemLRUMap`; `std::hash` and `IsEqual` are specialised to look at `first`
only.  An element of a set of plain keys is a `Pair` whose `second` is not
used. -/
structure Pair where
  first : Nat
  second : Nat
  deriving DecidableEq, Repr

/-- Writes one element of an array. -/
def arraySet {α : Type} (a : Nat → α) (i : Nat) (v : α) : Nat → α :=
  fun j => if j = i then v else a j

/-- Data of a `BaseMemSet` (`SetData`): the counters, the capacity and the
number of buckets (template constants or header fields), the arrays
`m_buckets`, `m_next` and `m_value`, and the hash functor.  The counters are
of the unsigned type `IntType`, which holds `m_max_num`; they are natural
numbers here, since the code keeps them at most `m_max_num`. -/
structure BaseMemSet where
  m_used : Nat
  m_raw_used : Nat
  m_free_index : Nat
  m_max_num : Nat
  m_buckets_num : Nat
  m_buckets : Nat → Nat
  m_next : Nat → Nat
  m_value : Nat → Pair
  hash : Nat → Nat

/-- Function `SetData::get_bucket_index`: `HASH{}(key) % buckets_num`. -/
def BaseMemSet.get_bucket_index (s : BaseMemSet) (key : Nat) : Nat :=
  s.hash key % s.m_buckets_num

/-- Function `BaseMemSet::empty` (named after what it tests). -/
def BaseMemSet.isEmpty (s : BaseMemSet) : Bool :=
  decide (s.m_used = 0) && decide (s.m_max_num > 0)

/-- Function `BaseMemSet::full`. -/
def BaseMemSet.full (s : BaseMemSet) : Bool :=
  decide (s.m_used = s.m_max_num)

/-- Function `BaseMemSet::size`. -/
def BaseMemSet.size (s : BaseMemSet) : Nat :=
  s.m_used

/-- Function `BaseMemSet::capacity`. -/
def BaseMemSet.capacity (s : BaseMemSet) : Nat :=
  s.m_max_num

/-- Function `BaseMemSet::deref`: `index_2_value(index - 1)`. -/
def BaseMemSet.deref (s : BaseMemSet) (index : Nat) : Pair :=
  s.m_value (index - 1)

/-- The loop of `BaseMemSet::find_index_impl` from `index` on: the first
index of the chain whose element is equal to `key`, 0 at the end of the chain,
`none` if `fuel` iterations do not end the loop. -/
def BaseMemSet.find_loop (s : BaseMemSet) (key : Nat) : Nat → Nat → Option Nat
  | _, 0 => some 0
  | 0, _ + 1 => none
  | fuel + 1, i + 1 =>
    if (s.m_value i).first = key then some (i + 1)
    else BaseMemSet.find_loop s key fuel (s.m_next i)

/-- Function `BaseMemSet::find_index_impl`. -/
def BaseMemSet.find_index_impl (s : BaseMemSet) (fuel bucket_index key : Nat) : Option Nat :=
  s.find_loop key fuel (s.m_buckets bucket_index)

/-- Function `BaseMemSet::find_index`. -/
def BaseMemSet.find_index (s : BaseMemSet) (fuel key : Nat) : Option Nat :=
  s.find_index_impl fuel (s.get_bucket_index key) key

/-- Function `BaseMemSet::insert_impl`: the set and the index taken. -/
def BaseMemSet.insert_impl (s : BaseMemSet) (bucket_index : Nat) (value : Pair) :
    BaseMemSet × Nat :=
  let empty_index := if s.m_free_index = 0 then s.m_raw_used + 1 else s.m_free_index
  let s1 : BaseMemSet :=
    if s.m_free_index = 0 then { s with m_raw_used := s.m_raw_used + 1 }
    else { s with m_free_index := s.m_next (s.m_free_index - 1) }
  ({ s1 with
      m_next := arraySet s1.m_next (empty_index - 1) (s1.m_buckets bucket_index)
      m_buckets := arraySet s1.m_buckets bucket_index empty_index
      m_used := s1.m_used + 1
      m_value := arraySet s1.m_value (empty_index - 1) value }, empty_index)

/-- Function `BaseMemSet::insert2`: the set, the index of the element and
whether it was inserted. -/
def BaseMemSet.insert2 (s : BaseMemSet) (fuel : Nat) (value : Pair) :
    Option (BaseMemSet × Nat × Bool) :=
  match s.find_index_impl fuel (s.get_bucket_index value.first) value.first with
  | none => none
  | some index =>
    if index ≠ 0 then some (s, index, false)
    else if s.full then some (s, 0, false)
    else
      some ((s.insert_impl (s.get_bucket_index value.first) value).1,
        (s.insert_impl (s.get_bucket_index value.first) value).2, true)

/-- The place `pre` of the loop of `BaseMemSet::erase` points to: a bucket or
an element of `m_next`. -/
inductive SetSlot where
  | bucket (bucket_index : Nat)
  | next (i : Nat)
  deriving DecidableEq, Repr

/-- Assignment `*pre = v`. -/
def BaseMemSet.store (s : BaseMemSet) (pre : SetSlot) (v : Nat) : BaseMemSet :=
  match pre with
  | .bucket b => { s with m_buckets := arraySet s.m_buckets b v }
  | .next i => { s with m_next := arraySet s.m_next i v }

/-- The body of the loop of `BaseMemSet::erase` for the element found at
`index = i + 1`: it is taken out of its chain and pushed on the free list. -/
def BaseMemSet.unchain (s : BaseMemSet) (pre : SetSlot) (i : Nat) : BaseMemSet :=
  let s1 := s.store pre (s.m_next i)
  { s1 with
    m_next := arraySet s1.m_next i s1.m_free_index
    m_free_index := i + 1
    m_used := s1.m_used - 1 }

/-- The loop of `BaseMemSet::erase`. -/
def BaseMemSet.erase_loop (s : BaseMemSet) (key : Nat) : Nat → SetSlot → Nat → Option (BaseMemSet × Nat)
  | _, _, 0 => some (s, 0)
  | 0, _, _ + 1 => none
  | fuel + 1, pre, i + 1 =>
    if (s.m_value i).first = key then some (s.unchain pre i, i + 1)
    else BaseMemSet.erase_loop s key fuel (SetSlot.next i) (s.m_next i)

/-- Function `BaseMemSet::erase(key)`: the set and the index erased, 0 if
none. -/
def BaseMemSet.erase (s : BaseMemSet) (fuel key : Nat) : Option (BaseMemSet × Nat) :=
  if s.m_used = 0 then some (s, 0)
  else if s.m_buckets (s.get_bucket_index key) = 0 then some (s, 0)
  else s.erase_loop key fuel (SetSlot.bucket (s.get_bucket_index key))
    (s.m_buckets (s.get_bucket_index key))

/-- Function `BaseMemSet::clear`, for a trivially copyable element type. -/
def BaseMemSet.clear (s : BaseMemSet) : BaseMemSet :=
  { s with
    m_next := fun j => if j < s.m_max_num then 0 else s.m_next j
    m_used := 0
    m_raw_used := 0
    m_free_index := 0
    m_buckets := fun b => if b < s.m_buckets_num then 0 else s.m_buckets b }

/-! ## `containers/inner/base_mem_lru_set.h`, `containers/inner/mem_lru_set_data.h` -/

/-- Data of a `BaseMemLRUSet` (`LRUSetData`): the recency links, with the
anchor at index 0, and the hash set. -/
structure LRUSet where
  m_active_link : Nat → Link
  m_base : BaseMemSet

/-- Function `LRUSetData::clear`. -/
def LRUSet.clear (s : LRUSet) : LRUSet :=
  { m_base := s.m_base.clear
    m_active_link := setLink s.m_active_link 0 { prev := 0, next := 0 } }

/-- Function `BaseMemLRUSet::find(key)`: the index of the iterator. -/
def LRUSet.find (s : LRUSet) (fuel key : Nat) : Option Nat :=
  s.m_base.find_index fuel key

/-- The four assignments of `BaseMemLRUSet::insert` and `active` that put
node `index` at the head of the recency list. -/
def lruFront (link : Nat → Link) (index : Nat) : Nat → Link :=
  let l1 := setLink link (link 0).next { link (link 0).next with prev := index }
  let l2 := setLink l1 index { l1 index with prev := 0 }
  let l3 := setLink l2 index { l2 index with next := (l2 0).next }
  setLink l3 0 { l3 0 with next := index }

/-- The assignments of `BaseMemLRUSet::erase` and `active` that take node
`index` out of the recency list. -/
def lruUnlink (link : Nat → Link) (index : Nat) : Nat → Link :=
  let next := (link index).next
  let prev := (link index).prev
  let l1 := setLink link prev { link prev with next := next }
  setLink l1 next { l1 next with prev := prev }

/-- Function `BaseMemLRUSet::erase(key)`. -/
def LRUSet.erase (s : LRUSet) (fuel key : Nat) : Option LRUSet :=
  match s.m_base.erase fuel key with
  | none => none
  | some (base, index) =>
    if index > 0 then
      some { m_base := base
             m_active_link := setLink (lruUnlink s.m_active_link index) index { prev := 0, next := 0 } }
    else some { s with m_base := base }

/-- Function `BaseMemLRUSet::active(key)`: the set and the index of the
iterator returned. -/
def LRUSet.active (s : LRUSet) (fuel key : Nat) : Option (LRUSet × Nat) :=
  match s.m_base.find_index fuel key with
  | none => none
  | some index =>
    if index ≠ 0 then
      some ({ s with m_active_link := lruFront (lruUnlink s.m_active_link index) index }, index)
    else some (s, index)

/-- The test `cb && !cb(element)` of `BaseMemLRUSet::disuse`, negated: whether
the callback lets the element go; `none` is a null callback, which lets every
element go. -/
def cbAccepts (cb : Option (Pair → Bool)) (p : Pair) : Bool :=
  match cb with
  | some f => f p
  | none => true

/-- Function `BaseMemLRUSet::disuse(num, cb)` from iteration `i` on, with
`n = num - i` iterations left; `cb` is `none` for a null callback.  The
callback is taken to leave the element as it is. -/
def LRUSet.disuse_loop (fuel : Nat) (cb : Option (Pair → Bool)) :
    Nat → Nat → LRUSet → Option (LRUSet × Nat)
  | 0, i, s => some (s, i)
  | n + 1, i, s =>
    if s.m_base.isEmpty then some (s, i)
    else if cbAccepts cb (s.m_base.deref (s.m_active_link 0).prev) = false then some (s, i)
    else
      match s.erase fuel (s.m_base.deref (s.m_active_link 0).prev).first with
      | none => none
      | some s1 => LRUSet.disuse_loop fuel cb n (i + 1) s1

/-- Function `BaseMemLRUSet::disuse(num, cb)`: the set and the number
returned. -/
def LRUSet.disuse (s : LRUSet) (fuel num : Nat) (cb : Option (Pair → Bool)) :
    Option (LRUSet × Nat) :=
  LRUSet.disuse_loop fuel cb num 0 s

/-- The part of `BaseMemLRUSet::insert` after the test for a full set:
`insert2`, and the new node put at the head of the recency list. -/
def LRUSet.place (s : LRUSet) (fuel : Nat) (value : Pair) : Option (LRUSet × Nat × Bool) :=
  match s.m_base.insert2 fuel value with
  | none => none
  | some (base, index, ok) =>
    if ok then
      some ({ m_base := base, m_active_link := lruFront s.m_active_link index }, index, true)
    else some ({ s with m_base := base }, index, false)

/-- Function `BaseMemLRUSet::insert(value, force, cb)`: the set, the index of
the iterator returned (0 for `end()`) and the flag. -/
def LRUSet.insert (s : LRUSet) (fuel : Nat) (value : Pair) (force : Bool)
    (cb : Option (Pair → Bool)) : Option (LRUSet × Nat × Bool) :=
  if s.m_base.full then
    match s.find fuel value.first with
    | none => none
    | some iter =>
      if iter ≠ 0 then some (s, iter, false)
      else if force = false then some (s, 0, false)
      else
        match s.disuse fuel 1 cb with
        | none => none
        | some (s1, n) => if n = 0 then some (s1, 0, false) else s1.place fuel value
  else s.place fuel value

/-- Iteration by `operator++` from an iterator at `index` to `end()`: the
indices visited, `none` if `fuel` steps do not reach `end()`. -/
def LRUSet.walk (s : LRUSet) : Nat → Nat → Option (List Nat)
  | _, 0 => some []
  | 0, _ + 1 => none
  | fuel + 1, i + 1 => (LRUSet.walk s fuel (s.m_active_link (i + 1)).next).map (fun l => (i + 1) :: l)

/-- Iteration by `operator--` from `end()` back to `begin()`, continued until
the anchor is met again: the indices visited from the index `index` on. -/
def LRUSet.walkBack (s : LRUSet) : Nat → Nat → Option (List Nat)
  | _, 0 => some []
  | 0, _ + 1 => none
  | fuel + 1, i + 1 =>
    (LRUSet.walkBack s fuel (s.m_active_link (i + 1)).prev).map (fun l => (i + 1) :: l)

/-- The elements met from `begin()` to `end()`, most recent first. -/
def LRUSet.order (s : LRUSet) (fuel : Nat) : Option (List Pair) :=
  (s.walk fuel (s.m_active_link 0).next).map (fun l => l.map s.m_base.deref)

/-- The elements met going back from `end()`, least recent first. -/
def LRUSet.orderBack (s : LRUSet) (fuel : Nat) : Option (List Pair) :=
  (s.walkBack fuel (s.m_active_link 0).prev).map (fun l => l.map s.m_base.deref)

/-- One call on an LRU set. -/
inductive LOp where
  | insert (value : Pair) (force : Bool) (cb : Option (Pair → Bool))
  | erase (key : Nat)
  | active (key : Nat)
  | disuse (num : Nat) (cb : Option (Pair → Bool))
  | clear

/-- Runs one call. -/
def LRUSet.step (s : LRUSet) (fuel : Nat) : LOp → Option LRUSet
  | .insert value force cb => (s.insert fuel value force cb).map (fun r => r.1)
  | .erase key => s.erase fuel key
  | .active key => (s.active fuel key).map (fun r => r.1)
  | .disuse num cb => (s.disuse fuel num cb).map (fun r => r.1)
  | .clear => some s.clear

/-- Runs a sequence of calls. -/
def runLRU (fuel : Nat) : List LOp → LRUSet → Option LRUSet
  | [], s => some s
  | op :: ops, s =>
    match s.step fuel op with
    | none => none
    | some s1 => runLRU fuel ops s1

/-- An `LRUSet` of capacity 3 with one bucket whose memory holds arbitrary
data (here zeros), as before the first `clear()`. -/
def rawLRU : LRUSet :=
  { m_active_link := fun _ => { prev := 0, next := 0 }
    m_base :=
      { m_used := 0, m_raw_used := 0, m_free_index := 0, m_max_num := 3, m_buckets_num := 1
        m_buckets := fun _ => 0, m_next := fun _ => 0
        m_value := fun _ => { first := 0, second := 0 }
        hash := fun k => k } }

/-! ### Invariant of a `BaseMemSet` and of an LRU set -/

/-- The indices `l` form the chain that starts at index `h` and follows
`m_next`: `m_next[i - 1]` is the successor of index `i`, 0 ends the chain. -/
def HChain (next : Nat → Nat) : Nat → List Nat → Prop
  | h, [] => h = 0
  | h, i :: l => h = i ∧ i ≠ 0 ∧ HChain next (next (i - 1)) l

/-- The key of the element at index `i`. -/
def BaseMemSet.key (s : BaseMemSet) (i : Nat) : Nat :=
  (s.deref i).first

/-- Invariant of a `BaseMemSet`: `A` are the indices in use and `Fr` the free
list, top first.  Together they are the indices `1..m_raw_used`, each once;
the elements in use have distinct keys, and the chain of every bucket holds
the indices in use whose key hashes to it. -/
structure SetInv (s : BaseMemSet) (A Fr : List Nat) : Prop where
  bn : 0 < s.m_buckets_num
  used : s.m_used = A.length
  raw_le : s.m_raw_used ≤ s.m_max_num
  cover : ∀ i, (1 ≤ i ∧ i ≤ s.m_raw_used) ↔ (i ∈ A ∨ i ∈ Fr)
  nodup : (A ++ Fr).Nodup
  free : HChain s.m_next s.m_free_index Fr
  keys : ∀ i ∈ A, ∀ j ∈ A, s.key i = s.key j → i = j
  chains : ∀ b, b < s.m_buckets_num → ∃ l, HChain s.m_next (s.m_buckets b) l ∧ l.Nodup ∧
    ∀ i, i ∈ l ↔ (i ∈ A ∧ s.get_bucket_index (s.key i) = b)

/-- Invariant of an LRU set: `R` are the indices in use, most recent first;
the recency list is the circular list `0, R, 0`. -/
def LRUInv (s : LRUSet) (R : List Nat) : Prop :=
  (∃ Fr, SetInv s.m_base R Fr) ∧ Chain s.m_active_link 0 R 0

/-- The place that holds the link to the element that follows the chain
segment `l1`: the place `pre` itself if `l1` is empty, else `m_next` of the
last index of `l1`. -/
def slotBefore (pre : SetSlot) (l1 : List Nat) : SetSlot :=
  match l1.getLast? with
  | none => pre
  | some j => SetSlot.next (j - 1)

/-- The number of elements `disuse(num, cb)` is to remove, given the elements
least recent first: those of the first `num` that come before the first one
the callback keeps. -/
def disuseCount (cb : Option (Pair → Bool)) (num : Nat) (oldest_first : List Pair) : Nat :=
  ((oldest_first.take num).takeWhile (cbAccepts cb)).length

/-- A state of an LRU set that satisfies the invariant, of capacity at least
1, with `fuel` above the capacity. -/
def LRUOk (s : LRUSet) (fuel : Nat) : Prop :=
  (∃ R, LRUInv s R) ∧ 0 < s.m_base.m_max_num ∧ s.m_base.m_max_num < fuel

/-! ## `containers/hash_mem_pool.h` -/

/-- Record `HashMemPool::HashNode`: the key `first`, the value kept in
`extend` (`second` of `Node`) and the index `next` of the next node of the
bucket. -/
structure HashNode where
  first : Nat
  second : Nat
  next : Nat
  deriving DecidableEq, Repr

/-- Record `HashMemPool::HashHeader`. -/
structure HashHeader where
  bucket_num : Nat
  max_node : Nat
  deriving DecidableEq, Repr

/-- Size in bytes of `HashMemPool::HashHeader`: two `size_t`. -/
def SIZEOF_HASH_HEADER : Nat := 16

/-- A `HashMemPool` attached to a memory region: the header, the bucket
array, the inner pool, the contents `node` of the slots of the pool, by
address, and the hash functor. -/
structure HashMemPool where
  m_header : HashHeader
  m_buckets : Nat → Nat
  m_pool : FixedMemPool
  node : Nat → HashNode
  hash : Nat → Nat

/-- Function `HashMemPool::calc_mem_size`, in `size_t` arithmetic;
`sizeof_HashNode` is `sizeof(HashNode)`. -/
def calc_mem_size (max_node bucket_num sizeof_HashNode : Nat) : Nat :=
  ((SIZEOF_HASH_HEADER + 8 * bucket_num % UINT64_MOD) % UINT64_MOD
    + calc_need_size max_node sizeof_HashNode) % UINT64_MOD

/-- Function `HashMemPool::init(mem, max_node, bucket_num, mem_size, check)`.
`region` is the memory as found, `mem` its address; `sizeof_InnerNode` and
`sizeof_HashNode` are `sizeof(InnerNode)` and `sizeof(HashNode)`.  Returns the
result and the pool as attached. -/
def HashMemPool.init (region : HashMemPool) (mem max_node bucket_num mem_size : Nat)
    (check : Bool) (sizeof_InnerNode sizeof_HashNode : Nat) : Bool × HashMemPool :=
  if mem = 0 ∨ calc_mem_size max_node bucket_num sizeof_HashNode < mem_size then (false, region)
  else if check = true ∧
      (region.m_header.bucket_num ≠ bucket_num ∨ region.m_header.max_node ≠ max_node) then
    (false, region)
  else
    let r1 : HashMemPool :=
      if check then region
      else
        { region with
          m_buckets := fun b => if b < bucket_num then 0 else region.m_buckets b
          m_header := { bucket_num := bucket_num, max_node := max_node } }
    let pr := FixedMemPool.init
      { r1.m_pool with mem := mem + SIZEOF_HASH_HEADER + 8 * bucket_num }
      (calc_need_size max_node sizeof_HashNode) max_node sizeof_HashNode sizeof_InnerNode check
    (pr.1, { r1 with m_pool := pr.2 })

/-- Function `HashMemPool::size`. -/
def HashMemPool.size (h : HashMemPool) : Nat :=
  h.m_pool.size

/-- Function `HashMemPool::full`. -/
def HashMemPool.full (h : HashMemPool) : Bool :=
  h.m_pool.full

/-- Function `HashMemPool::bucket_index`. -/
def HashMemPool.bucket_index (h : HashMemPool) (key : Nat) : Nat :=
  h.hash key % h.m_header.bucket_num

/-- Function `HashMemPool::deref(pos)`: the node at `int_2_ptr(pos)`. -/
def HashMemPool.deref (h : HashMemPool) (pos : Nat) : HashNode :=
  h.node (h.m_pool.get_value pos)

/-- The loop of `HashMemPool::find_ref` from `ref` on: the first index of the
chain whose key is `key`, 0 at the end of the chain, `none` if `fuel`
iterations do not end the loop. -/
def HashMemPool.find_loop (h : HashMemPool) (key : Nat) : Nat → Nat → Option Nat
  | _, 0 => some 0
  | 0, _ + 1 => none
  | fuel + 1, r + 1 =>
    if (h.deref (r + 1)).first = key then some (r + 1)
    else HashMemPool.find_loop h key fuel (h.deref (r + 1)).next

/-- Function `HashMemPool::find_ref`; `find(key)` is the iterator at this
index, `end()` for 0. -/
def HashMemPool.find_ref (h : HashMemPool) (fuel key : Nat) : Option Nat :=
  h.find_loop key fuel (h.m_buckets (h.bucket_index key))

/-- Function `HashMemPool::insert(key)`: the pool, the index of the iterator
returned (0 for `end()`) and the flag. -/
def HashMemPool.insert (h : HashMemPool) (fuel key : Nat) : Option (HashMemPool × Nat × Bool) :=
  if h.full then some (h, 0, false)
  else
    match h.find_ref fuel key with
    | none => none
    | some node_ref =>
      if node_ref ≠ 0 then some (h, node_ref, false)
      else
        match h.m_pool.alloc with
        | (pool, none) => some ({ h with m_pool := pool }, 0, false)
        | (pool, some p) =>
          some ({ h with
                  m_pool := pool
                  node := arraySet h.node p
                    { first := key, second := 0, next := h.m_buckets (h.bucket_index key) }
                  m_buckets := arraySet h.m_buckets (h.bucket_index key) (pool.ptr_2_int p) },
            pool.ptr_2_int p, true)

/-- Function `HashMemPool::insert(key, value)`. -/
def HashMemPool.insertValue (h : HashMemPool) (fuel key value : Nat) :
    Option (HashMemPool × Nat × Bool) :=
  match h.insert fuel key with
  | none => none
  | some (h1, it, ok) =>
    if ok then
      some ({ h1 with
              node := arraySet h1.node (h1.m_pool.get_value it)
                { h1.node (h1.m_pool.get_value it) with second := value } }, it, true)
    else some (h1, it, false)

/-- The place `pre` of the loop of `HashMemPool::erase` points to: a bucket or
the field `next` of the node at an address. -/
inductive HashSlot where
  | bucket (index : Nat)
  | next (addr : Nat)
  deriving DecidableEq, Repr

/-- Assignment `*pre = v`. -/
def HashMemPool.store (h : HashMemPool) (pre : HashSlot) (v : Nat) : HashMemPool :=
  match pre with
  | .bucket b => { h with m_buckets := arraySet h.m_buckets b v }
  | .next a => { h with node := arraySet h.node a { h.node a with next := v } }

/-- The body of the loop of `HashMemPool::erase` for the node found at index
`ref`: it is taken out of its chain and its slot is freed. -/
def HashMemPool.unchain (h : HashMemPool) (pre : HashSlot) (ref : Nat) : HashMemPool :=
  let h1 := h.store pre (h.deref ref).next
  { h1 with m_pool := (h1.m_pool.free (h.m_pool.get_value ref)).1 }

/-- The loop of `HashMemPool::erase`. -/
def HashMemPool.erase_loop (h : HashMemPool) (key : Nat) :
    Nat → HashSlot → Nat → Option (HashMemPool × Bool)
  | _, _, 0 => some (h, false)
  | 0, _, _ + 1 => none
  | fuel + 1, pre, r + 1 =>
    if (h.deref (r + 1)).first = key then some (h.unchain pre (r + 1), true)
    else
      HashMemPool.erase_loop h key fuel (HashSlot.next (h.m_pool.get_value (r + 1)))
        (h.deref (r + 1)).next

/-- Function `HashMemPool::erase(key)`. -/
def HashMemPool.erase (h : HashMemPool) (fuel key : Nat) : Option (HashMemPool × Bool) :=
  h.erase_loop key fuel (HashSlot.bucket (h.bucket_index key)) (h.m_buckets (h.bucket_index key))

/-- One call on a `HashMemPool`. -/
inductive HOp where
  | insert (key : Nat)
  | insertValue (key value : Nat)
  | erase (key : Nat)
  deriving DecidableEq, Repr

/-- What a call on a `HashMemPool` returned: the flag, and for an insertion
the index of the iterator. -/
inductive HRes where
  | inserted (it : Nat) (ok : Bool)
  | erased (ok : Bool)
  deriving DecidableEq, Repr

/-- Runs one call. -/
def HashMemPool.step (h : HashMemPool) (fuel : Nat) : HOp → Option (HashMemPool × HRes)
  | .insert key => (h.insert fuel key).map (fun r => (r.1, HRes.inserted r.2.1 r.2.2))
  | .insertValue key value =>
    (h.insertValue fuel key value).map (fun r => (r.1, HRes.inserted r.2.1 r.2.2))
  | .erase key => (h.erase fuel key).map (fun r => (r.1, HRes.erased r.2))

/-- Runs a sequence of calls, pairing each call with what it returned. -/
def runHash (fuel : Nat) : List HOp → HashMemPool → Option (HashMemPool × List (HOp × HRes))
  | [], h => some (h, [])
  | op :: ops, h =>
    match h.step fuel op with
    | none => none
    | some (h1, r) =>
      match runHash fuel ops h1 with
      | none => none
      | some (h2, tr) => some (h2, (op, r) :: tr)

/-- The entries a record of calls leaves, as an association list from key to
value: `acc` holds those present before; a successful `insert(key)` adds the
key with a zeroed value, a successful `insert(key, value)` adds the key with
the value, a successful `erase(key)` removes the key. -/
def contentFrom (acc : List (Nat × Nat)) : List (HOp × HRes) → List (Nat × Nat)
  | [] => acc
  | (.insert key, .inserted _ true) :: tr => contentFrom ((key, 0) :: acc) tr
  | (.insertValue key value, .inserted _ true) :: tr => contentFrom ((key, value) :: acc) tr
  | (.erase key, .erased true) :: tr => contentFrom (mapErase key acc) tr
  | _ :: tr => contentFrom acc tr

/-- The number of successful insertions of a record of calls. -/
def countInserted : List (HOp × HRes) → Nat
  | [] => 0
  | (_, .inserted _ true) :: tr => countInserted tr + 1
  | _ :: tr => countInserted tr

/-- The number of successful erasures of a record of calls. -/
def countErased : List (HOp × HRes) → Nat
  | [] => 0
  | (_, .erased true) :: tr => countErased tr + 1
  | _ :: tr => countErased tr

/-- A memory region for a `HashMemPool` that holds arbitrary bytes (here
zeros); the hash functor is the identity, as `std::hash<int>`. -/
def rawHash : HashMemPool :=
  { m_header := { bucket_num := 0, max_node := 0 }
    m_buckets := fun _ => 0
    m_pool := rawRegion
    node := fun _ => { first := 0, second := 0, next := 0 }
    hash := fun k => k }

/-- The field `next` of the node at index `j + 1`, as an array over the node
indices less one. -/
def HashMemPool.nextOf (h : HashMemPool) (j : Nat) : Nat :=
  (h.deref (j + 1)).next

/-- The slot `pre` of the loop of `HashMemPool::erase` after the loop has
walked the nodes `l` from the slot `pre`. -/
def hashSlotBefore (h : HashMemPool) (pre : HashSlot) (l : List Nat) : HashSlot :=
  match l.getLast? with
  | none => pre
  | some j => HashSlot.next (h.m_pool.get_value j)

/-- The entries of a `HashMemPool` whose nodes are at the indices `L`: the
key and the value of each. -/
def HashMemPool.entries (h : HashMemPool) (L : List Nat) : List (Nat × Nat) :=
  L.map (fun i => ((h.deref i).first, (h.deref i).second))

/-- Well-formedness of a `HashMemPool` whose nodes are at the indices `L`, the
outstanding slots of the inner pool: the nodes hold distinct keys, and the
chain of every bucket holds exactly the nodes whose key hashes to it. -/
structure HashInv (h : HashMemPool) (L : List Nat) : Prop where
  bn : 0 < h.m_header.bucket_num
  pool : ∃ F, PoolInv h.m_pool L F
  keys : ∀ i ∈ L, ∀ j ∈ L, (h.deref i).first = (h.deref j).first → i = j
  chains : ∀ b, b < h.m_header.bucket_num →
    ∃ l, HChain h.nextOf (h.m_buckets b) l ∧ l.Nodup ∧
      ∀ i, i ∈ l ↔ (i ∈ L ∧ h.bucket_index (h.deref i).first = b)

/-- The pool `h2` has the header, the hash functor and the capacity of `h`,
and the nodes at the indices `L` hold the same keys and values in both. -/
def HashFrame (h h2 : HashMemPool) (L : List Nat) : Prop :=
  h2.m_header = h.m_header ∧ h2.hash = h.hash ∧
  h2.m_pool.m_header.max_num = h.m_pool.m_header.max_num ∧
  ∀ x ∈ L, (h2.deref x).first = (h.deref x).first ∧ (h2.deref x).second = (h.deref x).second

/-- A `HashMemPool` of three nodes and two buckets, freshly initialised in a
region at address 4096, with 8-byte `InnerNode` and 16-byte `HashNode`. -/
def demoHashInit : Bool × HashMemPool :=
  HashMemPool.init rawHash 4096 3 2 (calc_mem_size 3 2 16) false 8 16

/-- A `HashMemPool` of one node and one bucket, freshly initialised. -/
def tinyHashInit : Bool × HashMemPool :=
  HashMemPool.init rawHash 4096 1 1 (calc_mem_size 1 1 16) false 8 16

/-! ## `containers/unfixed_ring_buf.h`, `containers/inner/ring_buf_data.h` -/

/-- The bytes of the value `v` of an unsigned integer type of `w` bytes, least
significant first. -/
def encodeLE : Nat → Nat → List Nat
  | 0, _ => []
  | w + 1, v => v % 256 :: encodeLE w (v / 256)

/-- The value of an unsigned integer whose bytes are `bs`, least significant
first. -/
def decodeLE : List Nat → Nat
  | [] => 0
  | b :: bs => b + 256 * decodeLE bs

/-- The `n` bytes of `buf` from address `p`. -/
def readBytes (buf : Nat → Nat) (p n : Nat) : List Nat :=
  (List.range n).map (fun i => buf (p + i))

/-- The memory `buf` after the bytes `bs` have been stored from address `p`
(`memcpy`). -/
def writeBytes (buf : Nat → Nat) (p : Nat) (bs : List Nat) : Nat → Nat :=
  fun a => if p ≤ a ∧ a < p + bs.length then bs.getD (a - p) 0 else buf a

/-- An `UnfixedRingBuf`: the fields of `UnfixedRingBufData` (`m_size` stands
for `MAX_SIZE` in the variant sized at compile time), the bytes `m_buf`, and
`int_bytes`, the size in bytes of `IntType`. -/
structure UnfixedRingBuf where
  m_start : Nat
  m_end : Nat
  m_used_size : Nat
  m_item_num : Nat
  m_size : Nat
  m_buf : Nat → Nat
  int_bytes : Nat

/-- The number of values of `IntType`. -/
def UnfixedRingBuf.INT_MOD (s : UnfixedRingBuf) : Nat :=
  2 ^ (8 * s.int_bytes)

/-- The modulus of the arithmetic on two operands of `IntType`: they are
promoted to a type of at least 32 bits. -/
def UnfixedRingBuf.PROMOTED_MOD (s : UnfixedRingBuf) : Nat :=
  max s.INT_MOD UINT32_MOD

/-- Size in bytes of `UnfixedRingBuf::ItemHeader`: the byte `m_flag`, padding,
and `m_len` of type `IntType` at offset `int_bytes`. -/
def UnfixedRingBuf.SIZEOF_ITEM_HEADER (s : UnfixedRingBuf) : Nat :=
  2 * s.int_bytes

/-- Function `UnfixedRingBufData::set_start`. -/
def UnfixedRingBuf.set_start (s : UnfixedRingBuf) (v : Nat) : UnfixedRingBuf :=
  { s with m_start := v % s.INT_MOD }

/-- Function `UnfixedRingBufData::set_end`. -/
def UnfixedRingBuf.set_end (s : UnfixedRingBuf) (v : Nat) : UnfixedRingBuf :=
  { s with m_end := v % s.INT_MOD }

/-- Function `UnfixedRingBufData::set_used_size`. -/
def UnfixedRingBuf.set_used_size (s : UnfixedRingBuf) (v : Nat) : UnfixedRingBuf :=
  { s with m_used_size := v % s.INT_MOD }

/-- Function `UnfixedRingBufData::set_item_num`. -/
def UnfixedRingBuf.set_item_num (s : UnfixedRingBuf) (v : Nat) : UnfixedRingBuf :=
  { s with m_item_num := v % s.INT_MOD }

/-- Function `UnfixedRingBuf::clear`. -/
def UnfixedRingBuf.clear (s : UnfixedRingBuf) : UnfixedRingBuf :=
  (((s.set_start 0).set_end 0).set_used_size 0).set_item_num 0

/-- Function `UnfixedRingBuf::empty` (named after what it tests). -/
def UnfixedRingBuf.isEmpty (s : UnfixedRingBuf) : Bool :=
  decide (s.m_used_size = 0 ∧ s.m_size > 0)

/-- Function `UnfixedRingBuf::full`. -/
def UnfixedRingBuf.full (s : UnfixedRingBuf) : Bool :=
  decide (s.m_used_size ≥ s.m_size)

/-- Function `UnfixedRingBuf::get_num`. -/
def UnfixedRingBuf.get_num (s : UnfixedRingBuf) : Nat :=
  s.m_item_num

/-- The field `m_flag` of the `ItemHeader` at offset `p` of the buffer. -/
def UnfixedRingBuf.flag_at (s : UnfixedRingBuf) (p : Nat) : Nat :=
  s.m_buf p

/-- The field `m_len` of the `ItemHeader` at offset `p` of the buffer. -/
def UnfixedRingBuf.len_at (s : UnfixedRingBuf) (p : Nat) : Nat :=
  decodeLE (readBytes s.m_buf (p + s.int_bytes) s.int_bytes)

/-- The assignments `h->m_len = len; h->m_flag = flag;` to the `ItemHeader` at
offset `p` of the buffer. -/
def UnfixedRingBuf.set_header (s : UnfixedRingBuf) (p len flag : Nat) : UnfixedRingBuf :=
  { s with
    m_buf := writeBytes (writeBytes s.m_buf (p + s.int_bytes)
      (encodeLE s.int_bytes (len % s.INT_MOD))) p [flag % 256] }

/-- Function `UnfixedRingBuf::need_skip_bytes`. -/
def UnfixedRingBuf.need_skip_bytes (s : UnfixedRingBuf) (cur_pos : Nat) : Nat :=
  if (cur_pos + s.SIZEOF_ITEM_HEADER) % UINT64_MOD > s.m_size then
    (s.m_size + s.PROMOTED_MOD - cur_pos) % s.PROMOTED_MOD % s.INT_MOD
  else 0

/-- Function `UnfixedRingBuf::pop_padding`. -/
def UnfixedRingBuf.pop_padding (s : UnfixedRingBuf) : UnfixedRingBuf :=
  if s.flag_at s.m_start = 1 then
    let len := s.len_at s.m_start
    let s1 := s.set_start ((s.m_start + s.SIZEOF_ITEM_HEADER + len) % UINT64_MOD % s.m_size)
    s1.set_used_size
      ((s1.m_used_size + UINT64_MOD - (s.SIZEOF_ITEM_HEADER + len) % UINT64_MOD) % UINT64_MOD)
  else s

/-- The statements of `UnfixedRingBuf::pop` that take the record at `m_start`
out: `set_start`, `set_used_size` and `set_item_num`. -/
def UnfixedRingBuf.pop_item (s : UnfixedRingBuf) : UnfixedRingBuf :=
  let len := s.len_at s.m_start
  let s1 := s.set_start ((s.m_start + s.SIZEOF_ITEM_HEADER + len) % UINT64_MOD % s.m_size)
  let s2 := s1.set_used_size
    ((s1.m_used_size + UINT64_MOD - (s.SIZEOF_ITEM_HEADER + len) % UINT64_MOD) % UINT64_MOD)
  s2.set_item_num ((s2.m_item_num + s.PROMOTED_MOD - 1) % s.PROMOTED_MOD)

/-- The statement `if (skip_bytes > 0) ... else if (!empty()) pop_padding();`
of `UnfixedRingBuf::pop`. -/
def UnfixedRingBuf.pop_gap (s : UnfixedRingBuf) : UnfixedRingBuf :=
  if s.need_skip_bytes s.m_start > 0 then
    let s1 := s.set_start
      ((s.m_start + s.need_skip_bytes s.m_start) % s.PROMOTED_MOD % s.m_size)
    s1.set_used_size
      ((s1.m_used_size + s.PROMOTED_MOD - s.need_skip_bytes s.m_start) % s.PROMOTED_MOD)
  else if s.isEmpty = false then s.pop_padding
  else s

/-- The statement `if (empty()) { set_start(0); set_end(0); }` of
`UnfixedRingBuf::pop`. -/
def UnfixedRingBuf.pop_reset (s : UnfixedRingBuf) : UnfixedRingBuf :=
  if s.isEmpty then (s.set_start 0).set_end 0 else s

/-- Function `UnfixedRingBuf::pop`: the buffer afterwards and the records
handed to the callback (the bytes at the pointer, of the length passed).  The
`assert` statements of the class are left out. -/
def UnfixedRingBuf.pop (s : UnfixedRingBuf) : UnfixedRingBuf × List (List Nat) :=
  if s.isEmpty then (s, [])
  else
    (s.pop_item.pop_gap.pop_reset,
      [readBytes s.m_buf (s.m_start + s.SIZEOF_ITEM_HEADER) (s.len_at s.m_start)])

/-- Function `UnfixedRingBuf::find_start`, the loop from `item_start` on for
`index` more records. -/
def UnfixedRingBuf.find_start_loop (s : UnfixedRingBuf) : Nat → Nat → Nat
  | 0, item_start => item_start
  | index + 1, item_start =>
    let p1 := (item_start + s.SIZEOF_ITEM_HEADER + s.len_at item_start) % UINT64_MOD % s.m_size
    let skip := s.need_skip_bytes p1
    let p2 :=
      if skip > 0 then (p1 + skip) % s.PROMOTED_MOD % s.m_size
      else if p1 ≠ s.m_end then
        if s.flag_at p1 = 1 then
          (p1 + s.SIZEOF_ITEM_HEADER + s.len_at p1) % UINT64_MOD % s.m_size
        else p1
      else p1
    if p2 = s.m_end then s.m_size else UnfixedRingBuf.find_start_loop s index p2

/-- Function `UnfixedRingBuf::find_start`. -/
def UnfixedRingBuf.find_start (s : UnfixedRingBuf) (index : Nat) : Nat :=
  if s.isEmpty ∨ index ≥ s.m_item_num then s.m_size
  else if index = 0 then s.m_start
  else s.find_start_loop index s.m_start

/-- Function `UnfixedRingBuf::front(len, index)`: the bytes at the pointer
returned, of the length stored in `len`; `none` for the null pointer. -/
def UnfixedRingBuf.front (s : UnfixedRingBuf) (index : Nat) : Option (List Nat) :=
  if s.find_start index = s.m_size then none
  else
    some (readBytes s.m_buf (s.find_start index + s.SIZEOF_ITEM_HEADER)
      (s.len_at (s.find_start index)))

/-- The writes of `write_item` and `write_item_no_wrap` to the buffer: the
header and the bytes of the record at `m_end`. -/
def UnfixedRingBuf.store_item (s : UnfixedRingBuf) (data : List Nat) (total_len : Nat) :
    UnfixedRingBuf :=
  let s1 := s.set_header s.m_end total_len 0
  { s1 with m_buf := writeBytes s1.m_buf (s.m_end + s.SIZEOF_ITEM_HEADER) data }

/-- The statements `set_end`, `set_used_size` and `set_item_num` of
`write_item` that follow the writes to the buffer. -/
def UnfixedRingBuf.commit_item (s : UnfixedRingBuf) (need_len : Nat) : UnfixedRingBuf :=
  let s2 := s.set_end ((s.m_end + need_len) % UINT64_MOD % s.m_size)
  let s3 := s2.set_used_size ((s2.m_used_size + need_len) % UINT64_MOD)
  s3.set_item_num ((s3.m_item_num + 1) % s.PROMOTED_MOD)

/-- The last statements of `write_item`: `m_end` skips the end of the buffer
when no header fits there. -/
def UnfixedRingBuf.skip_end (s : UnfixedRingBuf) : UnfixedRingBuf :=
  let s5 := s.set_end ((s.m_end + s.need_skip_bytes s.m_end) % s.PROMOTED_MOD % s.m_size)
  s5.set_used_size ((s5.m_used_size + s.need_skip_bytes s.m_end) % s.PROMOTED_MOD)

/-- Function `UnfixedRingBuf::write_item`. -/
def UnfixedRingBuf.write_item (s : UnfixedRingBuf) (data : List Nat) (total_len need_len : Nat) :
    UnfixedRingBuf :=
  ((s.store_item data total_len).commit_item need_len).skip_end

/-- Function `UnfixedRingBuf::write_item_no_wrap`. -/
def UnfixedRingBuf.write_item_no_wrap (s : UnfixedRingBuf) (data : List Nat)
    (total_len need_len : Nat) : UnfixedRingBuf :=
  let s1 := s.store_item data total_len
  let s2 := s1.set_end ((s1.m_end + need_len) % UINT64_MOD)
  let s3 := s2.set_used_size ((s2.m_used_size + need_len) % UINT64_MOD)
  s3.set_item_num ((s3.m_item_num + 1) % s.PROMOTED_MOD)

/-- Function `UnfixedRingBuf::push_padding`. -/
def UnfixedRingBuf.push_padding (s : UnfixedRingBuf) : UnfixedRingBuf :=
  let s1 := s.set_header s.m_end
    (((s.m_size + s.PROMOTED_MOD - s.m_end) % s.PROMOTED_MOD + UINT64_MOD
      - s.SIZEOF_ITEM_HEADER) % UINT64_MOD) 1
  let s2 := s1.set_used_size
    ((s1.m_used_size + (s1.m_size + s.PROMOTED_MOD - s1.m_end) % s.PROMOTED_MOD)
      % s.PROMOTED_MOD)
  s2.set_end 0

/-- A loop `while (cond) pop(cb);`: the buffer afterwards and the records
handed to the callback, `none` if `fuel` iterations do not end the loop. -/
def UnfixedRingBuf.pop_while (cond : UnfixedRingBuf → Bool) :
    Nat → UnfixedRingBuf → Option (UnfixedRingBuf × List (List Nat))
  | 0, s => if cond s then none else some (s, [])
  | fuel + 1, s =>
    if cond s then
      (UnfixedRingBuf.pop_while cond fuel s.pop.1).map (fun r => (r.1, s.pop.2 ++ r.2))
    else some (s, [])

/-- The condition `!empty() && get_start() < need_len` of the first loop of
`push_impl`. -/
def UnfixedRingBuf.start_below (need_len : Nat) (s : UnfixedRingBuf) : Bool :=
  !s.isEmpty && decide (s.m_start < need_len)

/-- The condition `get_end() < get_start() && get_end() + need_len >
get_start()` of the second loop of `push_impl`. -/
def UnfixedRingBuf.overlaps (need_len : Nat) (s : UnfixedRingBuf) : Bool :=
  decide (s.m_end < s.m_start) && decide ((s.m_end + need_len) % UINT64_MOD > s.m_start)

/-- The condition `get_end() < get_start()` of the loop `do { pop(cb); } while
(...)` of `push_impl`. -/
def UnfixedRingBuf.wrapped (s : UnfixedRingBuf) : Bool :=
  decide (s.m_end < s.m_start)

/-- What `push` returns and does: the buffer afterwards, the result, and the
records handed to the callback. -/
structure PushResult where
  buf : UnfixedRingBuf
  ok : Bool
  popped : List (List Nat)

/-- The records `log` were handed to the callback before those of `r`. -/
def PushResult.after (log : List (List Nat)) (r : PushResult) : PushResult :=
  { r with popped := log ++ r.popped }

/-- Function `UnfixedRingBuf::push_impl` from the test `if (get_end() >=
get_start())` on; `again` stands for the recursive call and `fuel` bounds the
iterations of each loop. -/
def UnfixedRingBuf.push_place (again : UnfixedRingBuf → Option PushResult) (fuel : Nat)
    (s : UnfixedRingBuf) (data : List Nat) (total_len need_len : Nat) (over_write : Bool) :
    Option PushResult :=
  if s.m_end ≥ s.m_start then
    if (s.m_end + need_len) % UINT64_MOD ≤ s.m_size then
      some { buf := s.write_item data total_len need_len, ok := true, popped := [] }
    else if over_write = false ∧ s.m_start < need_len then
      some { buf := s, ok := false, popped := [] }
    else if over_write then
      match UnfixedRingBuf.pop_while (UnfixedRingBuf.start_below need_len) fuel s.push_padding with
      | none => none
      | some (s1, log) => (again s1).map (PushResult.after log)
    else again s.push_padding
  else
    if (s.m_end + need_len) % UINT64_MOD ≤ s.m_start then
      some { buf := s.write_item_no_wrap data total_len need_len, ok := true, popped := [] }
    else if over_write = false then some { buf := s, ok := false, popped := [] }
    else if (s.m_end + need_len) % UINT64_MOD ≤ s.m_size then
      match UnfixedRingBuf.pop_while (UnfixedRingBuf.overlaps need_len) fuel s with
      | none => none
      | some (s1, log) => (again s1).map (PushResult.after log)
    else
      match UnfixedRingBuf.pop_while UnfixedRingBuf.wrapped fuel s.pop.1 with
      | none => none
      | some (s1, log) => (again s1.push_padding).map (PushResult.after (s.pop.2 ++ log))

/-- Function `UnfixedRingBuf::push_impl`; `none` if `fuel` does not suffice for
the recursion or for a loop. -/
def UnfixedRingBuf.push_impl (data : List Nat) (total_len need_len : Nat) (over_write : Bool) :
    Nat → UnfixedRingBuf → Option PushResult
  | 0, _ => none
  | fuel + 1, s =>
    if s.full then
      if over_write = false then some { buf := s, ok := false, popped := [] }
      else
        (UnfixedRingBuf.push_place (UnfixedRingBuf.push_impl data total_len need_len over_write fuel)
          fuel s.pop.1 data total_len need_len over_write).map (PushResult.after s.pop.2)
    else
      UnfixedRingBuf.push_place (UnfixedRingBuf.push_impl data total_len need_len over_write fuel)
        fuel s data total_len need_len over_write

/-- Function `UnfixedRingBuf::push(data, len, over_write, cb)`. -/
def UnfixedRingBuf.push (s : UnfixedRingBuf) (fuel : Nat) (data : List Nat) (over_write : Bool) :
    Option PushResult :=
  if (data.length % UINT64_MOD + s.SIZEOF_ITEM_HEADER) % UINT64_MOD > s.m_size then
    some { buf := s, ok := false, popped := [] }
  else
    UnfixedRingBuf.push_impl data (data.length % UINT64_MOD)
      ((data.length % UINT64_MOD + s.SIZEOF_ITEM_HEADER) % UINT64_MOD) over_write fuel s

/-- The field `m_len` of an `ItemHeader` at offset `p` of the bytes `buf`, for
an `IntType` of `w` bytes. -/
def lenAt (w : Nat) (buf : Nat → Nat) (p : Nat) : Nat :=
  decodeLE (readBytes buf (p + w) w)

/-- The bytes `buf` hold at offset `p` the record `d`: a header with flag 0 and
the length of `d`, followed by the bytes of `d`. -/
def IsRec (w : Nat) (buf : Nat → Nat) (p : Nat) (d : List Nat) : Prop :=
  buf p = 0 ∧ lenAt w buf p = d.length ∧ readBytes buf (p + 2 * w) d.length = d

/-- The bytes `buf` hold the records `ds`, one after the other, from offset `p`
to offset `q`. -/
def Contig (w : Nat) (buf : Nat → Nat) : Nat → List (List Nat) → Nat → Prop
  | p, [], q => p = q
  | p, d :: ds, q => IsRec w buf p d ∧ Contig w buf (p + 2 * w + d.length) ds q

/-- The end of the buffer from offset `t` on holds no record: it is too short
for a header, or it holds a padding header (flag 1) that spans it. -/
def GapAt (w : Nat) (buf : Nat → Nat) (size t : Nat) : Prop :=
  t ≤ size ∧ (t + 2 * w ≤ size → buf t = 1 ∧ lenAt w buf t = size - t - 2 * w)

/-- The sizes for which the arithmetic of an `UnfixedRingBuf` is exact: an
`IntType` of 1 to 8 bytes that holds the size of the buffer, a size that is
not 0 and whose double is a `size_t`. -/
structure RingStatic (s : UnfixedRingBuf) : Prop where
  w_pos : 1 ≤ s.int_bytes
  w_le : s.int_bytes ≤ 8
  size_pos : 0 < s.m_size
  size_int : s.m_size < s.INT_MOD
  size_u64 : s.m_size + s.m_size < UINT64_MOD

/-- The records `ds` lie between `m_start` and `m_end` without a wrap. -/
structure RingA (s : UnfixedRingBuf) (ds : List (List Nat)) : Prop where
  start_le : s.m_start ≤ s.m_end
  contig : Contig s.int_bytes s.m_buf s.m_start ds s.m_end
  room : ds ≠ [] → s.m_end + 2 * s.int_bytes ≤ s.m_size
  used : s.m_used_size + s.m_start = s.m_end
  reset : ds = [] → s.m_start = 0

/-- The records wrap: `upper` lie from `m_start` to `t`, the end of the buffer
from `t` on is a gap, and `lower` lie from 0 to `m_end`. -/
structure RingB (s : UnfixedRingBuf) (upper lower : List (List Nat)) (t : Nat) : Prop where
  upper_ne : upper ≠ []
  up : Contig s.int_bytes s.m_buf s.m_start upper t
  gap : GapAt s.int_bytes s.m_buf s.m_size t
  low : Contig s.int_bytes s.m_buf 0 lower s.m_end
  end_le : s.m_end ≤ s.m_start
  used : s.m_used_size + s.m_start = s.m_size + s.m_end

/-- Well-formedness of an `UnfixedRingBuf` that holds the records `ds`, oldest
first. -/
def RingInv (s : UnfixedRingBuf) (ds : List (List Nat)) : Prop :=
  RingStatic s ∧ s.m_item_num = ds.length ∧
    (RingA s ds ∨ ∃ upper lower t, ds = upper ++ lower ∧ RingB s upper lower t)

/-- The buffer `s2` has the bytes, the size and the `IntType` of `s`, and the
offsets and counters `a`, `b`, `c`, `n`. -/
def RingFields (s2 s : UnfixedRingBuf) (a b c n : Nat) : Prop :=
  s2.m_start = a ∧ s2.m_end = b ∧ s2.m_used_size = c ∧ s2.m_item_num = n ∧
    s2.m_size = s.m_size ∧ s2.m_buf = s.m_buf ∧ s2.int_bytes = s.int_bytes

/-- What a `push` with `over_write` of the record `d` into a buffer of size
`size` that holds the records `ds` does: it returns `true`, hands a run of the
oldest records to the callback, oldest first, and leaves the other records in
order, followed by `d`. -/
def PushSpec (r : PushResult) (size w : Nat) (ds : List (List Nat)) (d : List Nat) : Prop :=
  r.ok = true ∧ r.buf.m_size = size ∧ r.buf.int_bytes = w ∧
    ∃ k, r.popped = ds.take k ∧ RingInv r.buf (ds.drop k ++ [d])

/-- One call on an `UnfixedRingBuf`: `push(data, len, over_write, cb)` or
`pop(cb)`. -/
inductive ROp where
  | push (data : List Nat) (over_write : Bool)
  | pop
  deriving DecidableEq, Repr

/-- The length of the record a call pushes, 0 for `pop`. -/
def ROp.dataLen : ROp → Nat
  | .push data _ => data.length
  | .pop => 0

/-- The call is not a `push` with `over_write`. -/
def ROp.plain : ROp → Bool
  | .push _ over_write => !over_write
  | .pop => true

/-- What a call on an `UnfixedRingBuf` returned and handed to its callback; for
`pop`, also what `front(len, 0)` returned just before the call. -/
inductive RRes where
  | pushed (ok : Bool) (records : List (List Nat))
  | popped (front : Option (List Nat)) (records : List (List Nat))
  deriving DecidableEq, Repr

/-- Runs a sequence of calls, pairing each call with what it returned. -/
def runRing (fuel : Nat) :
    List ROp → UnfixedRingBuf → Option (UnfixedRingBuf × List (ROp × RRes))
  | [], s => some (s, [])
  | .pop :: ops, s =>
    (runRing fuel ops s.pop.1).map
      (fun r => (r.1, (ROp.pop, RRes.popped (s.front 0) s.pop.2) :: r.2))
  | .push data over_write :: ops, s =>
    match s.push fuel data over_write with
    | none => none
    | some p =>
      (runRing fuel ops p.buf).map
        (fun r => (r.1, (ROp.push data over_write, RRes.pushed p.ok p.popped) :: r.2))

/-- The records whose `push` returned `true`, in the order of the calls. -/
def acceptedBy : List (ROp × RRes) → List (List Nat)
  | [] => []
  | (.push data _, .pushed true _) :: tr => data :: acceptedBy tr
  | _ :: tr => acceptedBy tr

/-- The records handed to the callbacks of the `pop` calls, in order. -/
def deliveredBy : List (ROp × RRes) → List (List Nat)
  | [] => []
  | (.pop, .popped _ records) :: tr => records ++ deliveredBy tr
  | _ :: tr => deliveredBy tr

/-- The records handed to the callbacks of all calls, in order. -/
def handedOutBy : List (ROp × RRes) → List (List Nat)
  | [] => []
  | (_, .popped _ records) :: tr => records ++ handedOutBy tr
  | (_, .pushed _ records) :: tr => records ++ handedOutBy tr

/-- Every `pop` of the record of calls handed to its callback the record that
`front(len, 0)` returned just before, and nothing when `front` returned null. -/
def frontsMatch : List (ROp × RRes) → Bool
  | [] => true
  | (_, .popped front records) :: tr => decide (records = front.toList) && frontsMatch tr
  | _ :: tr => frontsMatch tr

/-- The records that `n` calls of `pop` hand to the callback. -/
def drainN : Nat → UnfixedRingBuf → List (List Nat)
  | 0, _ => []
  | n + 1, s => s.pop.2 ++ drainN n s.pop.1

/-- The records that popping every item of the buffer hands to the callback:
the contents of the buffer, oldest first. -/
def UnfixedRingBuf.drain (s : UnfixedRingBuf) : List (List Nat) :=
  drainN s.m_item_num s

/-- A buffer of 12 bytes with a 1-byte `IntType` (`UnfixedRingBuf<12>`), whose
bytes and counters are zero. -/
def rawRing : UnfixedRingBuf :=
  { m_start := 0, m_end := 0, m_used_size := 0, m_item_num := 0, m_size := 12,
    m_buf := fun _ => 0, int_bytes := 1 }

/-! ### Call sequences on a `TimeoutQueue` with timers of any kind -/

/-- One call on a `TimeoutQueue` whose tasks do not touch the queue;
`timeOut` carries the bound on the iterations of its loop. -/
inductive TCall (τ : Type) where
  | add (task : τ) (expire_time interval_time : Nat)
  | cancel (timer_id : Nat)
  | timeOut (now fuel : Nat)
  | clear

/-- Runs one call; `none` means that the loop of `TimeOut` reached its
bound. -/
def runCall {τ : Type} (s : RecState τ) : TCall τ → Option (RecState τ)
  | .add task e i => some ((s.1.Add task e i).1, s.2)
  | .cancel i => some ((s.1.Cancel i).1, s.2)
  | .timeOut now fuel => (TimeOutRec now fuel s).map Prod.fst
  | .clear => some (s.1.Clear, s.2)

/-- Runs a sequence of calls. -/
def runCalls {τ : Type} : List (TCall τ) → RecState τ → Option (RecState τ)
  | [], s => some s
  | c :: cs, s =>
    match runCall s c with
    | none => none
    | some s1 => runCalls cs s1

/-- A queue without timers whose id counter `base_id_` has the given
value. -/
def TimeoutQueue.withCounter (τ : Type) (base_id : Nat) : TimeoutQueue τ :=
  { timer_queue_ := [], timer_id_index_ := [], base_id_ := base_id }
/-- The controller after `Pending(seq_id 7, timeout 100)` for the client
context at address 1, called at time 0 on a fresh controller. -/
def World.onePending : World :=
  match ContextController.Pending World.fresh 0 555 7 100 1 with
  | some r => r.1
  | none => World.fresh

/-- A controller in callback mode whose timer queue has handed out
`2^32 - 1` ids and holds no timer. -/
def World.manyCalls : World :=
  World.putQueue (TimeoutQueue.withCounter Nat (2 ^ 32 - 1)) World.fresh

/-- The controller after `Pending(seq_id 7, timeout 100)` for the client
context at address 1, called at time 0 on `World.manyCalls`. -/
def World.manyCallsPending : World :=
  match ContextController.Pending World.manyCalls 0 555 7 100 1 with
  | some r => r.1
  | none => World.fresh
/-! ### `ServerCore::SvrInit`, `ServerCore::SvrProc`, `ServerCore::SvrStopReady` -/

/-- Function `ServerCore::SvrInit`.  The outcomes of the steps that follow
`CheckOption` (`IDGenerator::Init`, `ContextController::Init`, `OnInit` and
`SystemInit`) are parameters; `InitPBService` always returns `true`. -/
def SvrInit (option : SvrOption)
    (id_generator_ok context_ctrl_ok on_init_ok system_init_ok : Bool) : Bool :=
  if !CheckOption option then false
  else if !id_generator_ok then false
  else if !context_ctrl_ok then false
  else if !on_init_ok then false
  else if !system_init_ok then false
  else true

/-- An `IScheduler` as `ServerCore` uses it: the number of frames that
`LoopOnce(proc_num)` reports, and the flag written by `SetStop`. -/
structure IScheduler where
  LoopOnce : Nat → Nat
  stopped : Bool

/-- The members of `ServerCore` that `SvrProc`, `SvrStopReady` and
`SvrNtfQuit` use.  `service_mesh_` is described by what `Process()` returns,
`default_channel` by what `Loop(one_loop_num)` of the channel of
`DefaultTransportInfo()` returns; it is `none` when there is no default
transport or it has no channel. -/
structure ServerCore where
  stop_ : Bool
  context_ctrl_ : ContextController
  req_scheduler_ : Option IScheduler
  service_mesh_ : Option Nat
  default_channel : Option (Nat → Nat)
  option_ : SvrOption

/-- What one call of `SvrProc` gets from its surroundings: the results of the
two `ProcTimeOut` calls of phase 0 and of the hooks `OnProc` and `SystemProc`,
and the four readings of `utils::CurrentRealMilliSec()`, taken at the end of
phase 0, of phase 1, of phase 2 and after `AdjustParam`.  The readings are
`uint64_t` values. -/
structure ProcEnv where
  ctx_count : Nat
  timeout_count : Nat
  end_ms : Nat
  on_proc : Nat
  system_proc : Nat
  end_ms1 : Nat
  end_ms2 : Nat
  end_ms3 : Nat

/-- What one call of `SvrProc` handed to the hooks, the scheduler, the
default channel and `AdjustParam` (`none`: not called), which of the four
timeout counters of the statistics it incremented, and what it returned. -/
structure ProcRecord where
  on_proc_args : Nat × Nat × Bool
  system_proc_args : Nat × Nat × Bool
  loop_once_arg : Option Nat
  loop_arg : Option Nat
  adjust_args : Nat × Nat
  proc_timeout_0 : Bool
  proc_timeout_1 : Bool
  proc_timeout_2 : Bool
  proc_total_timeout : Bool
  ret : Nat
  deriving DecidableEq, Repr

/-- The value of `remain_ms` in `SvrProc`: the sums and the difference are
64-bit. -/
def remainMs (frame : FrameTimeLimit) (begin_ms end_ms : Nat) : Nat :=
  if (end_ms + frame.min_on_proc_ms) % UINT64_MOD > (frame.max_proc_ms + begin_ms) % UINT64_MOD then
    frame.min_on_proc_ms
  else ((frame.max_proc_ms + begin_ms) % UINT64_MOD + UINT64_MOD - end_ms) % UINT64_MOD

/-- The value of `one_loop_num` in `SvrProc` when `deal_pkg_count` frames
were drained from the scheduler: the sum and the difference are 32-bit. -/
def oneLoopNum (f : FlowControl) (deal_pkg_count : Nat) : Nat :=
  if f.max_deal_pkg_num > (deal_pkg_count + f.min_num) % UINT32_MOD then
    (f.max_deal_pkg_num + UINT32_MOD - deal_pkg_count) % UINT32_MOD
  else f.min_num

/-- The value of `deal_scheduler_count` in `SvrProc`: what
`LoopOnce(max_deal_pkg_num)` of the scheduler returned, 0 without a
scheduler. -/
def dealSchedulerCount (core : ServerCore) : Nat :=
  match core.req_scheduler_ with
  | some sch => sch.LoopOnce core.option_.flow_ctrl.max_deal_pkg_num % UINT32_MOD
  | none => 0

/-- Function `ServerCore::SvrProc`.  The effects of phase 0, of the hooks, of
the scheduler and of the channel on the rest of the program are not
described; the result is the engine with the options that `AdjustParam`
left, and the record of the call.  The counters are `uint32_t`, the times
`uint64_t`. -/
def SvrProc (core : ServerCore) (now_ms : Nat) (env : ProcEnv) : ServerCore × ProcRecord :=
  let begin_ms := now_ms
  let ctx_count := env.ctx_count % UINT32_MOD
  let timeout_count := if core.stop_ then 0 else env.timeout_count % UINT32_MOD
  let end_ms := env.end_ms
  let proc_timeout_0 :=
    decide (end_ms > (begin_ms + core.option_.frame.max_ctx_proc_ms) % UINT64_MOD)
  let remain_ms := remainMs core.option_.frame begin_ms end_ms
  let proc_count1 := env.on_proc % UINT32_MOD
  let proc_count2 := (proc_count1 + env.system_proc % UINT32_MOD) % UINT32_MOD
  let proc_count :=
    match core.service_mesh_ with
    | some n => (proc_count2 + n % UINT32_MOD) % UINT32_MOD
    | none => proc_count2
  let end_ms1 := env.end_ms1
  let proc_timeout_1 := decide (end_ms1 > (end_ms + remain_ms) % UINT64_MOD)
  let deal_scheduler_count := dealSchedulerCount core
  let one_loop_num := oneLoopNum core.option_.flow_ctrl deal_scheduler_count
  let loop_arg : Option Nat :=
    if core.req_scheduler_.isSome || !core.stop_ then
      match core.default_channel with
      | some _ => some one_loop_num
      | none => none
    else none
  let deal_pkg_count :=
    if core.req_scheduler_.isSome || !core.stop_ then
      match core.default_channel with
      | some loop => (deal_scheduler_count + loop one_loop_num % UINT32_MOD) % UINT32_MOD
      | none => deal_scheduler_count
    else deal_scheduler_count
  let end_ms2 := env.end_ms2
  let proc_timeout_2 := decide (end_ms2 > (end_ms + remain_ms) % UINT64_MOD)
  let used_ms := (end_ms2 + UINT64_MOD - end_ms) % UINT64_MOD
  let flow := AdjustParam core.option_.flow_ctrl remain_ms used_ms
  let proc_total_timeout :=
    decide (env.end_ms3 > (begin_ms + core.option_.frame.max_proc_ms) % UINT64_MOD)
  ({ core with option_ := { core.option_ with flow_ctrl := flow } },
   { on_proc_args := (now_ms, remain_ms, core.stop_)
     system_proc_args := (now_ms, remain_ms, core.stop_)
     loop_once_arg := core.req_scheduler_.map (fun _ => core.option_.flow_ctrl.max_deal_pkg_num)
     loop_arg := loop_arg
     adjust_args := (remain_ms, used_ms)
     proc_timeout_0 := proc_timeout_0
     proc_timeout_1 := proc_timeout_1
     proc_timeout_2 := proc_timeout_2
     proc_total_timeout := proc_total_timeout
     ret := (((ctx_count + timeout_count) % UINT32_MOD + proc_count) % UINT32_MOD
        + deal_pkg_count) % UINT32_MOD })

/-- Function `ServerCore::SvrStopReady`.  `last_log_time` is the static
variable of the function and `now` the clock reading it takes when calls are
pending; the result is the returned flag, the new `last_log_time` and whether
the warning was logged. -/
def SvrStopReady (core : ServerCore) (last_log_time now : Nat) : Bool × Nat × Bool :=
  if core.stop_ then
    if core.context_ctrl_.PendingContextNum = 0 then (true, last_log_time, false)
    else if (last_log_time + 200) % UINT64_MOD < now then (false, now, true)
    else (false, last_log_time, false)
  else (false, last_log_time, false)

/-- Function `ServerCore::SvrNtfQuit`. -/
def SvrNtfQuit (core : ServerCore) : ServerCore :=
  if !core.stop_ then
    { core with
      stop_ := true
      req_scheduler_ := core.req_scheduler_.map (fun sch => { sch with stopped := true }) }
  else core

/-- The frame limits and flow-control options of scenario 3 of the spec. -/
def scenarioOption : SvrOption :=
  { frame := { max_proc_ms := 10, max_ctx_proc_ms := 5, min_on_proc_ms := 1 }
    flow_ctrl := scenarioFlow }

/-- An engine with the given options, stop flag and scheduler, a default
channel that drains as many frames as it is asked to, no service mesh and no
pending call. -/
def demoCore (option : SvrOption) (stop : Bool) (scheduler : Option IScheduler) : ServerCore :=
  { stop_ := stop
    context_ctrl_ := World.fresh.ctrl
    req_scheduler_ := scheduler
    service_mesh_ := none
    default_channel := some (fun n => n)
    option_ := option }

/-- Readings of an idle call: nothing fired, the hooks did nothing, the clock
stood at `clock`. -/
def idleEnv (clock : Nat) : ProcEnv :=
  { ctx_count := 0, timeout_count := 0, end_ms := clock, on_proc := 0, system_proc := 0,
    end_ms1 := clock, end_ms2 := clock, end_ms3 := clock }

/-- Options that `CheckOption` accepts, with `min_num` above `2^31`. -/
def wideOption : SvrOption :=
  { frame := { max_proc_ms := 10, max_ctx_proc_ms := 5, min_on_proc_ms := 1 }
    flow_ctrl := { max_deal_pkg_num := 4294967295, max_num := 4294967295, min_num := 2147483649,
                   inc_delta := 5, dec_delta := 20, judge_range_ms := 2 } }

/-- A scheduler whose `LoopOnce` reports the given number of frames, or
`proc_num` if that is less. -/
def drainingScheduler (frames : Nat) : IScheduler :=
  { LoopOnce := fun proc_num => min frames proc_num, stopped := false }
/-! ### `PBService::OnRecv` and the crash-fingerprint region, `PBService::SendMessage` -/

/-- Constant `FLAG_IS_BROADCAST`. -/
def FLAG_IS_BROADCAST : Nat := 0x0008

/-- Constant `RPC_SEND_MSG_TOO_LONG`. -/
def RPC_SEND_MSG_TOO_LONG : Int := -4

/-- Constant `RPC_MSG_SERIALIZE_ERR`. -/
def RPC_MSG_SERIALIZE_ERR : Int := -5

/-- The header fields of a decoded `ReadCodec` that `OnRecv` reads. -/
structure ReadCodec where
  gid : Nat
  seq_id : Nat
  cmd : Nat
  flag : Nat
  deriving DecidableEq, Repr

/-- Record `PBService::CheckHead`, the content of the crash-fingerprint
region. -/
structure CheckHead where
  gid : Nat
  seq_id : Nat
  cmd_id : Nat
  deriving DecidableEq, Repr

/-- What `OnRecv` did with a frame that passed the watchdog: a receive
interceptor took it, or it was handed to the scheduler (`OnRequest`), to
`DealRequest` or to `DealResponse`. -/
inductive RecvAction where
  | intercepted
  | scheduled
  | request
  | response
  deriving DecidableEq, Repr

/-- The members of `PBService` that `OnRecv` uses: the region
`shm_pkg_head_` (`none` is the null pointer: no region attached), whether a
scheduler is attached, the verdict of the receive interceptors on a frame,
and the record of the frames that went past the watchdog, oldest first, each
with what was done with it and the content of the region at that time.  The
interceptors and handlers do not touch the region. -/
structure RecvState where
  shm_pkg_head_ : Option CheckHead
  has_scheduler : Bool
  recv_intercept : ReadCodec → Bool
  handled : List (ReadCodec × RecvAction × Option CheckHead)

/-- Function `PBService::CheckPkgMem`: the region after the call and the
returned flag. -/
def CheckPkgMem (shm_pkg_head_ : Option CheckHead) (codec : ReadCodec) :
    Option CheckHead × Bool :=
  match shm_pkg_head_ with
  | none => (none, true)
  | some head =>
    if head.gid = codec.gid ∧ head.seq_id = codec.seq_id ∧ head.cmd_id = codec.cmd then
      (some head, false)
    else (some { gid := codec.gid, seq_id := codec.seq_id, cmd_id := codec.cmd }, true)

/-- Function `PBService::ClearPkgMem`. -/
def ClearPkgMem (shm_pkg_head_ : Option CheckHead) : Option CheckHead :=
  match shm_pkg_head_ with
  | none => none
  | some _ => some { gid := 0, seq_id := 0, cmd_id := 0 }

/-- The part of `PBService::OnRecv` between the watchdog step and the final
`ClearPkgMem`: what is done with a frame that passed the watchdog. -/
def RecvState.dispatch (s : RecvState) (recv_codec : ReadCodec) : RecvAction :=
  let is_rsp := decide ((recv_codec.flag &&& FLAG_RSP_PKG) ≠ 0)
  if !s.recv_intercept recv_codec then
    if !is_rsp then
      if s.has_scheduler then RecvAction.scheduled else RecvAction.request
    else RecvAction.response
  else RecvAction.intercepted

/-- Function `PBService::OnRecv`; `decoded` is the header that
`recv_codec->Decode` produced, `none` when it failed. -/
def OnRecv (s : RecvState) (decoded : Option ReadCodec) : RecvState × Int :=
  match decoded with
  | none => (s, RPC_SYS_ERR)
  | some recv_codec =>
    let r := CheckPkgMem s.shm_pkg_head_ recv_codec
    if !r.2 then ({ s with shm_pkg_head_ := ClearPkgMem r.1 }, RPC_SUCCESS)
    else
      ({ s with
          handled := s.handled ++ [(recv_codec, s.dispatch recv_codec, r.1)]
          shm_pkg_head_ := ClearPkgMem r.1 }, RPC_SUCCESS)

/-- The triple of a frame that the watchdog compares. -/
def ReadCodec.triple (codec : ReadCodec) : CheckHead :=
  { gid := codec.gid, seq_id := codec.seq_id, cmd_id := codec.cmd }

/-- An engine of scenario 4 of the spec: the region holds
`{gid = 1, seq_id = 2, cmd = 3}`, no scheduler, no interceptor. -/
def crashedService : RecvState :=
  { shm_pkg_head_ := some { gid := 1, seq_id := 2, cmd_id := 3 }
    has_scheduler := false
    recv_intercept := fun _ => false
    handled := [] }

/-- An engine with a zeroed region, no scheduler and no interceptor. -/
def cleanService : RecvState :=
  { shm_pkg_head_ := some { gid := 0, seq_id := 0, cmd_id := 0 }
    has_scheduler := false
    recv_intercept := fun _ => false
    handled := [] }

/-- What one call of `SendMessage` did: the returned code, whether the
message about 85% of the buffer was logged, whether the serializer was
invoked, the body length set on the codec (`none`: not set) and whether the
frame was handed to the channel. -/
structure SendResult where
  ret : Int
  warned : Bool
  serialized : Bool
  body_len : Option Nat
  handed_to_channel : Bool
  deriving DecidableEq, Repr

/-- Function `PBService::SendMessage`.  `byte_size` is `msg.ByteSizeLong()`,
`max_buf_len` the capacity that `GetBodyBuf` reports and `flag` the flag of
the send codec; `written` is the number of bytes the serializer wrote
(`none` when it returned a null pointer), `intercept` the verdict of the send
interceptors, `encode_ok` the result of `Encode`, `send_ret` and
`broadcast_ret` what `info.Send()` and `info.Broadcast()` return.  `len` and
the product `max_buf_len * 85` are 32-bit. -/
def SendMessage (byte_size max_buf_len flag : Nat) (written : Option Nat)
    (intercept encode_ok : Bool) (send_ret broadcast_ret : Int) : SendResult :=
  let len := byte_size % UINT32_MOD
  let warned := decide (len ≥ (max_buf_len * 85) % UINT32_MOD / 100)
  if warned && decide (len ≥ max_buf_len) then
    { ret := RPC_SEND_MSG_TOO_LONG, warned := warned, serialized := false, body_len := none,
      handed_to_channel := false }
  else
    match written with
    | none =>
      { ret := RPC_MSG_SERIALIZE_ERR, warned := warned, serialized := true, body_len := none,
        handed_to_channel := false }
    | some n =>
      if n % UINT32_MOD ≠ len then
        { ret := RPC_MSG_SERIALIZE_ERR, warned := warned, serialized := true, body_len := none,
          handed_to_channel := false }
      else if intercept then
        { ret := RPC_SUCCESS, warned := warned, serialized := true, body_len := some len,
          handed_to_channel := false }
      else if !encode_ok then
        { ret := RPC_SYS_ERR, warned := warned, serialized := true, body_len := some len,
          handed_to_channel := false }
      else
        let ret := if (flag &&& FLAG_IS_BROADCAST) ≠ 0 then broadcast_ret else send_ret
        if ret ≠ 0 then
          { ret := ret, warned := warned, serialized := true, body_len := some len,
            handed_to_channel := true }
        else
          { ret := RPC_SUCCESS, warned := warned, serialized := true, body_len := some len,
            handed_to_channel := true }

/-! ## `core/server_statistics.h`: `GetCostBucket` -/

/-- Constant `kLowerCostTime`: the lower edges of the cost buckets, in
milliseconds. -/
def kLowerCostTime : List Nat := [0, 50, 100, 500, 1000, 3000, 5000, 60000]

/-- Function `std::lower_bound` on an ascending range: the position of the
first element that is not less than `value`, the length of the range if there
is none. -/
def lowerBound (value : Nat) : List Nat → Nat
  | [] => 0
  | x :: xs => if x < value then lowerBound value xs + 1 else 0

/-- Function `ServerStatistics::GetCostBucket`. -/
def GetCostBucket (duration : Nat) : Nat :=
  let d := if duration = 0 then 1 else duration
  let iter := lowerBound d kLowerCostTime
  if iter = 0 then 0 else kLowerCostTime.getD (iter - 1) 0

/-- The largest edge of `kLowerCostTime` that is at most `d`, as the spec
words it (0 if there is none). -/
def largestEdgeAtMost (d : Nat) : Nat :=
  (kLowerCostTime.filter (fun e => decide (e ≤ d))).foldl max 0

/-- The largest edge of `kLowerCostTime` that is strictly smaller than `d`
(0 if there is none). -/
def largestEdgeBelow (d : Nat) : Nat :=
  (kLowerCostTime.filter (fun e => decide (e < d))).foldl max 0

/-! ## `common/id_generator.cpp` -/

/-- Class `IDGenerator`: the 64-bit counter `base_seq_id_`. -/
structure IDGenerator where
  base_seq_id_ : Nat
  deriving DecidableEq, Repr

/-- Function `IDGenerator::Init`; `current_sec` is what
`Clock::CurrentSec()` returns, a `uint64_t`.  The shift is a 64-bit one. -/
def IDGenerator.Init (current_sec : Nat) : IDGenerator :=
  { base_seq_id_ := (current_sec * 2 ^ 32 % UINT64_MOD) &&& 0xFFFFFFFF00000000 }

/-- Function `IDGenerator::GenerateSeqID`: `fetch_add(1) + 1` on the 64-bit
counter. -/
def IDGenerator.GenerateSeqID (g : IDGenerator) : IDGenerator × Nat :=
  ({ base_seq_id_ := (g.base_seq_id_ + 1) % UINT64_MOD }, (g.base_seq_id_ + 1) % UINT64_MOD)

/-- The ids returned by `n` successive calls of `GenerateSeqID`, in order. -/
def IDGenerator.generate (g : IDGenerator) : Nat → List Nat
  | 0 => []
  | n + 1 => g.GenerateSeqID.2 :: IDGenerator.generate g.GenerateSeqID.1 n
/-! ## `containers/fixed_ring_buf.h`, `FixedRingBufData` of `containers/inner/ring_buf_data.h` -/

/-- The number of values of `FixIntType<size>::IntType`: the narrowest of
`uint8_t`, `uint16_t`, `uint32_t` and `size_t` with as many bits as the binary
representation of `size`, rounded up to whole bytes. -/
def fixIntMod (size : Nat) : Nat :=
  if size < 2 ^ 8 then 2 ^ 8
  else if size < 2 ^ 16 then 2 ^ 16
  else if size < 2 ^ 32 then 2 ^ 32
  else 2 ^ 64

/-- A `FixedRingBuf<T, MAX_SIZE>` with `MAX_SIZE > 0`: the fields of
`FixedRingBufData`, of type `IntType`, and the array `m_buf`. -/
structure FixedRingBuf (α : Type) where
  MAX_SIZE : Nat
  m_start : Nat
  m_end : Nat
  m_used_num : Nat
  m_buf : Nat → α

/-- The number of values of `IntType`. -/
def FixedRingBuf.INT_MOD {α : Type} (s : FixedRingBuf α) : Nat :=
  fixIntMod s.MAX_SIZE

/-- The modulus of the arithmetic on operands of `IntType`: they are promoted
to a type of at least 32 bits. -/
def FixedRingBuf.PROMOTED_MOD {α : Type} (s : FixedRingBuf α) : Nat :=
  max s.INT_MOD UINT32_MOD

/-- Function `FixedRingBufData::set_start`. -/
def FixedRingBuf.set_start {α : Type} (s : FixedRingBuf α) (v : Nat) : FixedRingBuf α :=
  { s with m_start := v % s.INT_MOD }

/-- Function `FixedRingBufData::set_end`. -/
def FixedRingBuf.set_end {α : Type} (s : FixedRingBuf α) (v : Nat) : FixedRingBuf α :=
  { s with m_end := v % s.INT_MOD }

/-- Function `FixedRingBufData::set_used_num`. -/
def FixedRingBuf.set_used_num {α : Type} (s : FixedRingBuf α) (v : Nat) : FixedRingBuf α :=
  { s with m_used_num := v % s.INT_MOD }

/-- Function `FixedRingBuf::clear`. -/
def FixedRingBuf.clear {α : Type} (s : FixedRingBuf α) : FixedRingBuf α :=
  ((s.set_start 0).set_end 0).set_used_num 0

/-- Function `FixedRingBuf::empty` (named after what it tests). -/
def FixedRingBuf.isEmpty {α : Type} (s : FixedRingBuf α) : Bool :=
  decide (s.m_used_num = 0) && decide (s.MAX_SIZE > 0)

/-- Function `FixedRingBuf::full`. -/
def FixedRingBuf.full {α : Type} (s : FixedRingBuf α) : Bool :=
  decide (s.m_used_num = s.MAX_SIZE)

/-- Function `FixedRingBuf::size`. -/
def FixedRingBuf.size {α : Type} (s : FixedRingBuf α) : Nat :=
  s.m_used_num

/-- Function `FixedRingBuf::capacity`. -/
def FixedRingBuf.capacity {α : Type} (s : FixedRingBuf α) : Nat :=
  s.MAX_SIZE

/-- Function `FixedRingBuf::pop`. -/
def FixedRingBuf.pop {α : Type} (s : FixedRingBuf α) : FixedRingBuf α :=
  if !s.isEmpty then
    let s1 := s.set_start ((s.m_start + 1) % s.PROMOTED_MOD % s.MAX_SIZE)
    s1.set_used_num ((s1.m_used_num + s.PROMOTED_MOD - 1) % s.PROMOTED_MOD)
  else s

/-- Function `FixedRingBuf::push`. -/
def FixedRingBuf.push {α : Type} (s : FixedRingBuf α) (value : α) (over_write : Bool) :
    FixedRingBuf α × Bool :=
  if s.full && !over_write then (s, false)
  else
    let s1 := if s.full then s.pop else s
    let s2 : FixedRingBuf α := { s1 with m_buf := arraySet s1.m_buf s1.m_end value }
    let s3 := s2.set_end ((s2.m_end + 1) % s.PROMOTED_MOD % s.MAX_SIZE)
    (s3.set_used_num ((s3.m_used_num + 1) % s.PROMOTED_MOD), true)

/-- Function `FixedRingBuf::front(index)`; `index` is a `size_t`, the sum is a
64-bit one. -/
def FixedRingBuf.front {α : Type} (s : FixedRingBuf α) (index : Nat) : α :=
  s.m_buf ((s.m_start + index) % UINT64_MOD % s.MAX_SIZE)

/-- Function `FixedRingBuf::back(index)`: `get_end() + get_max_num() - 1` is
computed in the promoted type of `IntType`, the subtraction of the `size_t`
`index` is a 64-bit one. -/
def FixedRingBuf.back {α : Type} (s : FixedRingBuf α) (index : Nat) : α :=
  s.m_buf ((((s.m_end + s.MAX_SIZE) % s.PROMOTED_MOD + s.PROMOTED_MOD - 1) % s.PROMOTED_MOD
    + UINT64_MOD - index) % UINT64_MOD % s.MAX_SIZE)

/-- A default-constructed `FixedRingBuf<T, MAX_SIZE>` over an array holding
`buf`. -/
def FixedRingBuf.fresh {α : Type} (max_size : Nat) (buf : Nat → α) : FixedRingBuf α :=
  { MAX_SIZE := max_size, m_start := 0, m_end := 0, m_used_num := 0, m_buf := buf }

/-- One call on a `FixedRingBuf`. -/
inductive FOp (α : Type) where
  | push (value : α) (over_write : Bool)
  | pop

/-- Runs a sequence of calls; the result holds what each `push` returned. -/
def runFixedRing {α : Type} : List (FOp α) → FixedRingBuf α → FixedRingBuf α × List Bool
  | [], s => (s, [])
  | .push v ow :: ops, s =>
    ((runFixedRing ops (s.push v ow).1).1, (s.push v ow).2 :: (runFixedRing ops (s.push v ow).1).2)
  | .pop :: ops, s => runFixedRing ops s.pop

/-- A FIFO queue bounded by `n`, as the claim words it: the retained
elements, oldest first.  `push` on a full queue is refused, or drops the
oldest element when `over_write` is set; `pop` drops the oldest element, if
any. -/
def fifoStep {α : Type} (n : Nat) (l : List α) : FOp α → List α × Option Bool
  | .push v ow =>
    if l.length = n then
      if ow then (l.tail ++ [v], some true) else (l, some false)
    else (l ++ [v], some true)
  | .pop => (l.tail, none)

/-- Runs a sequence of calls on the bounded FIFO queue. -/
def runFifo {α : Type} (n : Nat) : List (FOp α) → List α → List α × List Bool
  | [], l => (l, [])
  | op :: ops, l =>
    match (fifoStep n l op).2 with
    | some b => ((runFifo n ops (fifoStep n l op).1).1, b :: (runFifo n ops (fifoStep n l op).1).2)
    | none => runFifo n ops (fifoStep n l op).1

/-! ## `containers/queue_lock_free.h` -/

/-- Constant `LockFreeErr::QueueFull`. -/
def QueueFull : Int := -1

/-- Constant `LockFreeErr::Again`. -/
def Again : Int := -2

/-- Constant `LockFreeErr::TryMax`. -/
def TryMax : Int := -3

/-- Constant `MAX_TRY_TIMES`. -/
def MAX_TRY_TIMES : Nat := 100

/-- Record `FreeLockQueue::Index`; both fields are `uint32_t`. -/
structure Index where
  version : Nat
  index : Nat
  deriving DecidableEq, Repr

/-- A `FreeLockQueue<DATA_TYPE, QUEUE_SIZE>` as a single thread sees it. -/
structure FreeLockQueue (α : Type) where
  QUEUE_SIZE : Nat
  data_ : Nat → α
  data_flag_ : Nat → Bool
  head_index_ : Index
  tail_index_ : Index

/-- Function `FreeLockQueue::IsEmpty`. -/
def FreeLockQueue.IsEmpty {α : Type} (q : FreeLockQueue α) : Bool :=
  decide (q.tail_index_.index = q.head_index_.index)

/-- Function `FreeLockQueue::IsFull`; the sum is a 32-bit one. -/
def FreeLockQueue.IsFull {α : Type} (q : FreeLockQueue α) : Bool :=
  decide ((q.tail_index_.index + 1) % UINT32_MOD % q.QUEUE_SIZE = q.head_index_.index)

/-- The loop of `FreeLockQueue::Push` in a single thread.  `tries_left` is
`MAX_TRY_TIMES - try_times`; `spurious` is the number of times in a row that
`compare_exchange_weak` fails although `tail_index_` holds the expected value
(no other thread changes it), which the weak form is allowed to do.  The
result is the error code returned from inside the loop, or the queue after
the exchange together with `old_tail`. -/
def FreeLockQueue.claim {α : Type} (q : FreeLockQueue α) :
    Nat → Nat → Except Int (FreeLockQueue α × Index)
  | 0, _ => .error TryMax
  | tries_left + 1, spurious =>
    if q.IsFull then .error QueueFull
    else
      match spurious with
      | 0 =>
        .ok ({ q with
                tail_index_ :=
                  { index := (q.tail_index_.index + 1) % UINT32_MOD % q.QUEUE_SIZE
                    version := (q.tail_index_.version + 1) % UINT32_MOD } }, q.tail_index_)
      | k + 1 => FreeLockQueue.claim q tries_left k

/-- Function `FreeLockQueue::Push` in a single thread: the queue and the
returned code. -/
def FreeLockQueue.Push {α : Type} (q : FreeLockQueue α) (data : α) (spurious : Nat) :
    FreeLockQueue α × Int :=
  match q.claim MAX_TRY_TIMES spurious with
  | .error e => (q, e)
  | .ok (q1, old_tail) =>
    ({ q1 with
        data_ := arraySet q1.data_ old_tail.index data
        data_flag_ := arraySet q1.data_flag_ old_tail.index true }, 0)

/-- Function `FreeLockQueue::Pop`: the queue, the returned code and the value
stored through the reference, if any. -/
def FreeLockQueue.Pop {α : Type} (q : FreeLockQueue α) : FreeLockQueue α × Int × Option α :=
  if q.IsEmpty then (q, QueueFull, none)
  else if !q.data_flag_ q.head_index_.index then (q, Again, none)
  else
    ({ q with
        data_flag_ := arraySet q.data_flag_ q.head_index_.index false
        head_index_ :=
          { index := (q.head_index_.index + 1) % UINT32_MOD % q.QUEUE_SIZE
            version := (q.head_index_.version + 1) % UINT32_MOD } },
      0, some (q.data_ q.head_index_.index))

/-- A default-constructed `FreeLockQueue<DATA_TYPE, QUEUE_SIZE>` over an array
holding `data`. -/
def FreeLockQueue.fresh {α : Type} (queue_size : Nat) (data : Nat → α) : FreeLockQueue α :=
  { QUEUE_SIZE := queue_size, data_ := data, data_flag_ := fun _ => false,
    head_index_ := { version := 0, index := 0 }, tail_index_ := { version := 0, index := 0 } }

/-- One call on a `FreeLockQueue` in a single thread; `push` carries the
number of spurious failures of its exchange. -/
inductive LQOp (α : Type) where
  | push (data : α) (spurious : Nat)
  | pop

/-- What a call on a `FreeLockQueue` returned: the code, and for `Pop` the
value it stored. -/
abbrev LQRes (α : Type) : Type := Int × Option α

/-- Runs one call. -/
def FreeLockQueue.step {α : Type} (q : FreeLockQueue α) : LQOp α → FreeLockQueue α × LQRes α
  | .push data spurious => ((q.Push data spurious).1, ((q.Push data spurious).2, none))
  | .pop => (q.Pop.1, q.Pop.2)

/-- Runs a sequence of calls, collecting what each returned. -/
def runLockFree {α : Type} : List (LQOp α) → FreeLockQueue α → FreeLockQueue α × List (LQRes α)
  | [], q => (q, [])
  | op :: ops, q => ((runLockFree ops (q.step op).1).1, (q.step op).2 :: (runLockFree ops (q.step op).1).2)

/-- A FIFO queue holding at most `n - 1` items, as the claim words it: `Push`
returns 0 and stores the item while fewer than `n - 1` items are held and
returns `QueueFull` otherwise; `Pop` returns the oldest item held, and fails
on an empty queue. -/
def lockFreeSpec {α : Type} (n : Nat) (l : List α) : LQOp α → List α × LQRes α
  | .push data _ => if l.length < n - 1 then (l ++ [data], (0, none)) else (l, (QueueFull, none))
  | .pop =>
    match l with
    | [] => ([], (QueueFull, none))
    | x :: t => (t, (0, some x))

/-- Runs a sequence of calls on the FIFO of the claim. -/
def runLockFreeSpec {α : Type} (n : Nat) : List (LQOp α) → List α → List α × List (LQRes α)
  | [], l => (l, [])
  | op :: ops, l =>
    ((runLockFreeSpec n ops (lockFreeSpec n l op).1).1,
      (lockFreeSpec n l op).2 :: (runLockFreeSpec n ops (lockFreeSpec n l op).1).2)

/-- Every `Push` of the sequence sees fewer than `MAX_TRY_TIMES` spurious
failures of its exchange. -/
def fewSpurious {α : Type} : List (LQOp α) → Bool
  | [] => true
  | .push _ spurious :: ops => decide (spurious < MAX_TRY_TIMES) && fewSpurious ops
  | .pop :: ops => fewSpurious ops
/-! ### Invariants of the two circular buffers -/

/-- The elements of `l` are stored in `buf` at the `l.length` positions that
follow `start`, modulo `n`. -/
def Window {α : Type} (buf : Nat → α) (n start : Nat) (l : List α) : Prop :=
  ∀ i, i < l.length → l[i]? = some (buf ((start + i) % n))

/-- Invariant of a `FixedRingBuf` that retains the elements `l`, oldest
first. -/
structure FixedInv {α : Type} (s : FixedRingBuf α) (l : List α) : Prop where
  pos : 0 < s.MAX_SIZE
  small : s.MAX_SIZE + s.MAX_SIZE ≤ s.PROMOTED_MOD
  start : s.m_start < s.MAX_SIZE
  used : s.m_used_num = l.length
  le : l.length ≤ s.MAX_SIZE
  stop : s.m_end = (s.m_start + l.length) % s.MAX_SIZE
  win : Window s.m_buf s.MAX_SIZE s.m_start l

/-- Invariant of a `FreeLockQueue` that holds the items `l`, oldest first. -/
structure LockFreeInv {α : Type} (q : FreeLockQueue α) (l : List α) : Prop where
  pos : 0 < q.QUEUE_SIZE
  lt32 : q.QUEUE_SIZE < UINT32_MOD
  head : q.head_index_.index < q.QUEUE_SIZE
  len : l.length < q.QUEUE_SIZE
  tail : q.tail_index_.index = (q.head_index_.index + l.length) % q.QUEUE_SIZE
  win : Window q.data_ q.QUEUE_SIZE q.head_index_.index l
  flags : ∀ i, i < l.length → q.data_flag_ ((q.head_index_.index + i) % q.QUEUE_SIZE) = true
/-! ## `core/system_mgr.h`, `core/system_mgr.cpp` -/

/-- Enumeration `SystemPriority`, without the count `Max_`. -/
inductive SystemPriority where
  | Low
  | Mid
  | High
  deriving DecidableEq, Repr

/-- The value of a `SystemPriority`. -/
def SystemPriority.toNat : SystemPriority → Nat
  | .Low => 0
  | .Mid => 1
  | .High => 2

/-- Enumerator `SystemPriority::Max_`, the number of priorities. -/
def SystemPriority.Max_ : Nat := 3

/-- Constant `SystemMgr::kMaxSystemsNum`. -/
def kMaxSystemsNum : Nat := 50

/-- Class `SystemMgr` over modules of type `μ`: the slots `systems_` (`none`
is a null pointer) and the vectors `sys_index_vec_`, one per priority. -/
structure SystemMgr (μ : Type) where
  systems_ : Nat → Option μ
  sys_index_vec_ : Nat → List Nat

/-- A default-constructed `SystemMgr`. -/
def SystemMgr.fresh {μ : Type} : SystemMgr μ :=
  { systems_ := fun _ => none, sys_index_vec_ := fun _ => [] }

/-- Function `SystemMgr::AddSystem<T>`; `sys_id` is
`AutoGenTypeID<SystemMgr>::GetID<T>()`. -/
def SystemMgr.AddSystem {μ : Type} (m : SystemMgr μ) (sys_id : Nat) (sys : Option μ)
    (priority : SystemPriority) : SystemMgr μ × Bool :=
  match sys with
  | none => (m, false)
  | some obj =>
    if sys_id ≥ kMaxSystemsNum then (m, false)
    else if (m.systems_ sys_id).isSome then (m, false)
    else
      ({ systems_ := arraySet m.systems_ sys_id (some obj)
         sys_index_vec_ :=
           arraySet m.sys_index_vec_ priority.toNat (m.sys_index_vec_ priority.toNat ++ [sys_id]) },
        true)

/-- Function `SystemMgr::RemoveSystem<T>`; `std::erase(vec, sys_id)` removes
every element equal to `sys_id`. -/
def SystemMgr.RemoveSystem {μ : Type} (m : SystemMgr μ) (sys_id : Nat) : SystemMgr μ × Bool :=
  if sys_id ≥ kMaxSystemsNum then (m, false)
  else if (m.systems_ sys_id).isNone then (m, false)
  else
    ({ systems_ := arraySet m.systems_ sys_id none
       sys_index_vec_ := fun p =>
         if p < SystemPriority.Max_ then (m.sys_index_vec_ p).filter (fun i => i != sys_id)
         else m.sys_index_vec_ p },
      true)

/-- Function `SystemMgr::GetSystem<T>`. -/
def SystemMgr.GetSystem {μ : Type} (m : SystemMgr μ) (id : Nat) : Option μ :=
  if id ≥ kMaxSystemsNum ∨ (m.systems_ id).isNone then none else m.systems_ id

/-- The priorities in the order of the outer loops, from `rbegin()` to
`rend()` of `sys_index_vec_`. -/
def SystemMgr.rorder : List Nat :=
  (List.range SystemPriority.Max_).reverse

/-- The inner loop of `SystemMgr::SystemInit` over one vector.  The hook
`OnInit` acts on a state `ω` that it shares with the other hooks; the flag
is `false` when the function has returned `false`. -/
def SystemMgr.initVec {μ ω : Type} (m : SystemMgr μ) (OnInit : ω → μ → ω × Bool) :
    List Nat → ω → ω × Bool
  | [], w => (w, true)
  | index :: rest, w =>
    match m.systems_ index with
    | some sys =>
      if !(OnInit w sys).2 then ((OnInit w sys).1, false)
      else SystemMgr.initVec m OnInit rest (OnInit w sys).1
    | none => SystemMgr.initVec m OnInit rest w

/-- The outer loop of `SystemMgr::SystemInit`. -/
def SystemMgr.initLoop {μ ω : Type} (m : SystemMgr μ) (OnInit : ω → μ → ω × Bool) :
    List Nat → ω → ω × Bool
  | [], w => (w, true)
  | p :: ps, w =>
    if !(m.initVec OnInit (m.sys_index_vec_ p) w).2 then
      ((m.initVec OnInit (m.sys_index_vec_ p) w).1, false)
    else SystemMgr.initLoop m OnInit ps (m.initVec OnInit (m.sys_index_vec_ p) w).1

/-- Function `SystemMgr::SystemInit`. -/
def SystemMgr.SystemInit {μ ω : Type} (m : SystemMgr μ) (OnInit : ω → μ → ω × Bool) (w : ω) :
    ω × Bool :=
  m.initLoop OnInit SystemMgr.rorder w

/-- The inner loop of `SystemTick` and `SystemFinish` over one vector: the
hook of every slot that is not null. -/
def SystemMgr.eachVec {μ ω : Type} (m : SystemMgr μ) (hook : ω → μ → ω) : List Nat → ω → ω
  | [], w => w
  | index :: rest, w =>
    match m.systems_ index with
    | some sys => SystemMgr.eachVec m hook rest (hook w sys)
    | none => SystemMgr.eachVec m hook rest w

/-- The outer loop of `SystemTick` and `SystemFinish`. -/
def SystemMgr.eachLoop {μ ω : Type} (m : SystemMgr μ) (hook : ω → μ → ω) : List Nat → ω → ω
  | [], w => w
  | p :: ps, w => SystemMgr.eachLoop m hook ps (m.eachVec hook (m.sys_index_vec_ p) w)

/-- Function `SystemMgr::SystemTick`. -/
def SystemMgr.SystemTick {μ ω : Type} (m : SystemMgr μ) (OnTick : ω → μ → Nat → Nat → ω)
    (now_ms tick_count : Nat) (w : ω) : ω :=
  m.eachLoop (fun w sys => OnTick w sys now_ms tick_count) SystemMgr.rorder w

/-- Function `SystemMgr::SystemFinish`; the result of `OnFinish` is
dropped. -/
def SystemMgr.SystemFinish {μ ω : Type} (m : SystemMgr μ) (OnFinish : ω → μ → ω × Bool)
    (w : ω) : ω :=
  m.eachLoop (fun w sys => (OnFinish w sys).1) SystemMgr.rorder w

/-- The lambda of `SystemMgr::SystemProc` that computes `active_count`. -/
def SystemMgr.active_count {μ : Type} (m : SystemMgr μ) : Nat :=
  let count :=
    (List.range SystemPriority.Max_).foldl
      (fun count p => (count + (m.sys_index_vec_ p).length) % UINT64_MOD) 0
  if count > 0 then count else 1

/-- The value `sys_per_ms` of `SystemMgr::SystemProc`. -/
def SystemMgr.sys_per_ms {μ : Type} (m : SystemMgr μ) (remain_ms : Nat) : Nat :=
  if remain_ms > 0 then max (remain_ms / m.active_count) 1 else 1

/-- One call of `OnProc` in `SystemMgr::SystemProc`: the state of the hooks
and `proc_count`, a `size_t`. -/
def SystemMgr.procOne {μ ω : Type} (OnProc : ω → μ → Nat → Nat → Bool → ω × Nat)
    (now_ms per_ms : Nat) (stop : Bool) (wc : ω × Nat) (sys : μ) : ω × Nat :=
  ((OnProc wc.1 sys now_ms per_ms stop).1,
    (wc.2 + (OnProc wc.1 sys now_ms per_ms stop).2 % UINT64_MOD) % UINT64_MOD)

/-- Function `SystemMgr::SystemProc`: the state of the hooks and the returned
`proc_count`. -/
def SystemMgr.SystemProc {μ ω : Type} (m : SystemMgr μ)
    (OnProc : ω → μ → Nat → Nat → Bool → ω × Nat) (now_ms remain_ms : Nat) (stop : Bool)
    (w : ω) : ω × Nat :=
  m.eachLoop (SystemMgr.procOne OnProc now_ms (m.sys_per_ms remain_ms) stop) SystemMgr.rorder
    (w, 0)

/-- One call that changes the set of modules of a `SystemMgr`. -/
inductive MOp (μ : Type) where
  | add (sys_id : Nat) (sys : Option μ) (priority : SystemPriority)
  | remove (sys_id : Nat)

/-- Runs one call. -/
def SystemMgr.step {μ : Type} (m : SystemMgr μ) : MOp μ → SystemMgr μ × Bool
  | .add sys_id sys priority => m.AddSystem sys_id sys priority
  | .remove sys_id => m.RemoveSystem sys_id

/-- Runs a sequence of calls. -/
def runMgr {μ : Type} (ops : List (MOp μ)) (m : SystemMgr μ) : SystemMgr μ :=
  ops.foldl (fun m op => (m.step op).1) m

/-- A registered module, as the claim words it: its type id, its priority
and the module. -/
structure Registered (μ : Type) where
  sys_id : Nat
  priority : SystemPriority
  sys : μ

/-- The registered modules after one call, in the order of registration: a
module is registered unless it is null, its id is out of range or a module
of its type is registered already; a removed module is not registered any
more. -/
def regStep {μ : Type} (reg : List (Registered μ)) : MOp μ → List (Registered μ)
  | .add sys_id (some obj) priority =>
    if sys_id < kMaxSystemsNum ∧ reg.all (fun r => r.sys_id != sys_id) then
      reg ++ [{ sys_id := sys_id, priority := priority, sys := obj }]
    else reg
  | .add _ none _ => reg
  | .remove sys_id => reg.filter (fun r => r.sys_id != sys_id)

/-- The registered modules after a sequence of calls. -/
def registered {μ : Type} (ops : List (MOp μ)) : List (Registered μ) :=
  ops.foldl regStep []

/-- The registered modules of one priority, in the order of registration. -/
def ofPriority {μ : Type} (reg : List (Registered μ)) (p : SystemPriority) :
    List (Registered μ) :=
  reg.filter (fun r => decide (r.priority = p))

/-- The order in which the claim has the hooks invoked: all modules of
priority `High`, then all of `Mid`, then all of `Low`, each group in the
order of registration. -/
def hookOrder {μ : Type} (reg : List (Registered μ)) : List μ :=
  (ofPriority reg .High ++ ofPriority reg .Mid ++ ofPriority reg .Low).map (fun r => r.sys)

/-- Invokes `OnInit` on the modules of a list in turn until one returns
`false`. -/
def initInOrder {μ ω : Type} (OnInit : ω → μ → ω × Bool) : List μ → ω → ω × Bool
  | [], w => (w, true)
  | sys :: rest, w =>
    if (OnInit w sys).2 then initInOrder OnInit rest (OnInit w sys).1
    else ((OnInit w sys).1, false)

/-- Hooks that record the modules they are invoked on. -/
def recordHook {μ : Type} (w : List μ) (sys : μ) : List μ := w ++ [sys]

/-- Invariant of a `SystemMgr` whose registered modules are `reg`. -/
structure MgrInv {μ : Type} (m : SystemMgr μ) (reg : List (Registered μ)) : Prop where
  vec : ∀ p : SystemPriority,
    m.sys_index_vec_ p.toNat = (ofPriority reg p).map (fun r => r.sys_id)
  slot : ∀ r ∈ reg, r.sys_id < kMaxSystemsNum ∧ m.systems_ r.sys_id = some r.sys
  free : ∀ id, (∀ r ∈ reg, r.sys_id ≠ id) → m.systems_ id = none
/-! ### A `TimeoutQueue` whose tasks call back into the queue -/

/-- A call that a task makes on the queue that holds it. -/
inductive QCall (τ : Type) where
  | add (task : τ) (expire_time interval_time : Nat)
  | cancel (timer_id : Nat)
  | clear

/-- Runs a call of a task on the queue; the results are dropped. -/
def TimeoutQueue.call {τ : Type} (q : TimeoutQueue τ) : QCall τ → TimeoutQueue τ
  | .add task expire_time interval_time => (q.Add task expire_time interval_time).1
  | .cancel timer_id => (q.Cancel timer_id).1
  | .clear => q.Clear

/-- Ambient state of a queue whose tasks call back into it: the queue and
the rest of the program state. -/
abbrev TaskState (τ ω : Type) : Type := TimeoutQueue τ × ω

/-- Effect of invoking a stored task.  `plan` is the body of the task: from
the two arguments of the invocation, the queue and the rest of the state as
it finds them, it yields the new rest of the state and the calls that it
makes on the queue, in order. -/
def taskRun {τ ω : Type} (plan : τ → Nat → Nat → TaskState τ ω → ω × List (QCall τ))
    (task : τ) (timer_id interval_time : Nat) (s : TaskState τ ω) : TaskState τ ω :=
  ((plan task timer_id interval_time s).2.foldl TimeoutQueue.call s.1,
    (plan task timer_id interval_time s).1)

/-- Function `TimeoutQueue::TimeOut(now)` for tasks that call back into the
queue: the state and the returned count, `none` when the loop reaches its
bound. -/
def TimeOutTasks {τ ω : Type} (plan : τ → Nat → Nat → TaskState τ ω → ω × List (QCall τ))
    (now fuel : Nat) (s : TaskState τ ω) : Option (TaskState τ ω × Nat) :=
  TimeoutQueue.TimeOut Prod.fst (fun q s => (q, s.2)) (taskRun plan) now fuel s 0

/-- Runs one call of the program on the queue. -/
def runTaskCall {τ ω : Type} (plan : τ → Nat → Nat → TaskState τ ω → ω × List (QCall τ))
    (s : TaskState τ ω) : TCall τ → Option (TaskState τ ω)
  | .add task e i => some ((s.1.Add task e i).1, s.2)
  | .cancel i => some ((s.1.Cancel i).1, s.2)
  | .timeOut now fuel => (TimeOutTasks plan now fuel s).map Prod.fst
  | .clear => some (s.1.Clear, s.2)

/-- Runs a sequence of calls of the program on the queue. -/
def runTaskCalls {τ ω : Type} (plan : τ → Nat → Nat → TaskState τ ω → ω × List (QCall τ)) :
    List (TCall τ) → TaskState τ ω → Option (TaskState τ ω)
  | [], s => some s
  | c :: cs, s =>
    match runTaskCall plan s c with
    | none => none
    | some s1 => runTaskCalls plan cs s1

/-- The number of timers of the ordered set with a given id. -/
def TimeoutQueue.timersWithId {τ : Type} (q : TimeoutQueue τ) (timer_id : Nat) : Nat :=
  (q.timer_queue_.filter (fun t => decide (t.seq_id = timer_id))).length

/-- Three tasks: task 1 cancels the timer it was invoked for, task 2 adds a
one-shot timer for task 3 at time 50 and a periodic timer for task 1 at time 0,
any other task leaves the queue alone.  The rest of the state counts the
invocations. -/
def demoPlan (task timer_id _interval_time : Nat) (s : TaskState Nat Nat) :
    Nat × List (QCall Nat) :=
  (s.2 + 1,
    if task = 1 then [QCall.cancel timer_id]
    else if task = 2 then [QCall.add 3 50 0, QCall.add 1 0 7]
    else [])

/-! ## `containers/mem_set.h`: a `MemSet` of numbers -/

/-- Function `BaseMemSet::insert(value)`: the set, the index of the iterator
returned (0 for `end()`) and the flag. -/
def BaseMemSet.insert (s : BaseMemSet) (fuel : Nat) (value : Pair) :
    Option (BaseMemSet × Nat × Bool) :=
  match s.find_index_impl fuel (s.get_bucket_index value.first) value.first with
  | none => none
  | some index =>
    if index ≠ 0 then some (s, index, false)
    else if s.full then some (s, 0, false)
    else
      some ((s.insert_impl (s.get_bucket_index value.first) value).1,
        (s.insert_impl (s.get_bucket_index value.first) value).2, true)

/-- Function `BaseMemSet::find(key)`: the index of the iterator returned. -/
def BaseMemSet.find (s : BaseMemSet) (fuel key : Nat) : Option Nat :=
  s.find_index_impl fuel (s.get_bucket_index key) key

/-- Function `BaseMemSet::exist(key)`: `find(key) != end()`. -/
def BaseMemSet.exist (s : BaseMemSet) (fuel key : Nat) : Option Bool :=
  (s.find fuel key).map (fun index => decide (index ≠ 0))

/-- The search for a bucket in use, from bucket `i` on, with `n` buckets
left: the head of the first chain that is not empty, 0 if there is none.  It
is the loop of `find_first_used_bucket` and the inner loop of
`Iterator::operator++`. -/
def BaseMemSet.scan_buckets (s : BaseMemSet) : Nat → Nat → Nat
  | 0, _ => 0
  | n + 1, i =>
    if s.m_buckets i ≠ 0 then s.m_buckets i else BaseMemSet.scan_buckets s n (i + 1)

/-- Function `BaseMemSet::find_first_used_bucket`, the index of `begin()`. -/
def BaseMemSet.find_first_used_bucket (s : BaseMemSet) : Nat :=
  s.scan_buckets s.m_buckets_num 0

/-- Function `Iterator::operator++` on an iterator at `m_index`: the index
of the iterator afterwards. -/
def BaseMemSet.iter_next (s : BaseMemSet) (m_index : Nat) : Nat :=
  if s.m_next (m_index - 1) = 0 then
    s.scan_buckets (s.m_buckets_num - (s.get_bucket_index (s.deref m_index).first + 1))
      (s.get_bucket_index (s.deref m_index).first + 1)
  else s.m_next (m_index - 1)

/-- Iteration from an iterator at `index` to `end()` by `operator++`: the
indices visited, `none` if `fuel` steps do not reach `end()`. -/
def BaseMemSet.walk (s : BaseMemSet) : Nat → Nat → Option (List Nat)
  | _, 0 => some []
  | 0, _ + 1 => none
  | fuel + 1, i + 1 =>
    (BaseMemSet.walk s fuel (s.iter_next (i + 1))).map (fun l => (i + 1) :: l)

/-- Iteration from `begin()` to `end()`: the elements visited, in order. -/
def BaseMemSet.iterate (s : BaseMemSet) (fuel : Nat) : Option (List Nat) :=
  (s.walk fuel s.find_first_used_bucket).map (fun l => l.map (fun i => (s.deref i).first))

/-- A default-constructed `MemSet<T, MAX_SIZE>` with `buckets_num` buckets
(`BUCKETS_SIZE`) over an array `m_value` holding `value`. -/
def BaseMemSet.fresh (max_num buckets_num : Nat) (hash : Nat → Nat) (value : Nat → Pair) :
    BaseMemSet :=
  { m_used := 0, m_raw_used := 0, m_free_index := 0, m_max_num := max_num,
    m_buckets_num := buckets_num, m_buckets := fun _ => 0, m_next := fun _ => 0,
    m_value := value, hash := hash }

/-- One call on a `MemSet` of numbers. -/
inductive SOp where
  | insert (value : Nat)
  | erase (key : Nat)
  deriving DecidableEq, Repr

/-- Runs one call on a `MemSet` of numbers; the number `x` is the element
whose field `first` is `x`.  The flag is the one `insert` returns, and for
`erase` whether the index returned is not 0. -/
def BaseMemSet.stepSet (s : BaseMemSet) (fuel : Nat) : SOp → Option (BaseMemSet × Bool)
  | .insert value =>
    (s.insert fuel { first := value, second := 0 }).map (fun r => (r.1, r.2.2))
  | .erase key => (s.erase fuel key).map (fun r => (r.1, decide (r.2 ≠ 0)))

/-- Runs a sequence of calls, collecting the flags. -/
def runMemSet (fuel : Nat) : List SOp → BaseMemSet → Option (BaseMemSet × List Bool)
  | [], s => some (s, [])
  | op :: ops, s =>
    match s.stepSet fuel op with
    | none => none
    | some (s1, r) =>
      match runMemSet fuel ops s1 with
      | none => none
      | some (s2, rs) => some (s2, r :: rs)

/-- A finite set bounded by `n`, as the claim words it: `insert` of a
present value or into a full set returns `false` and leaves the set as it
is, `insert` of a new value adds it; `erase` removes the value and leaves
the others. -/
def setStep (n : Nat) (m : Finset Nat) : SOp → Finset Nat × Bool
  | .insert x =>
    if x ∈ m then (m, false)
    else if m.card = n then (m, false)
    else (insert x m, true)
  | .erase x => (m.erase x, decide (x ∈ m))

/-- Runs a sequence of calls on the finite set. -/
def runSetSpec (n : Nat) : List SOp → Finset Nat → Finset Nat × List Bool
  | [], m => (m, [])
  | op :: ops, m =>
    ((runSetSpec n ops (setStep n m op).1).1,
      (setStep n m op).2 :: (runSetSpec n ops (setStep n m op).1).2)

/-- A sequence of calls on a `MemSet` of capacity 3: a repeated value, a
value refused by the full set, an erased value and an absent one. -/
def demoSetOps : List SOp :=
  [SOp.insert 5, SOp.insert 8, SOp.insert 5, SOp.insert 7, SOp.insert 9, SOp.erase 8,
    SOp.erase 4, SOp.insert 9]

/-- A `BaseMemSet` of capacity `n` holds the numbers of the finite set
`m`. -/
structure SetRel (s : BaseMemSet) (n : Nat) (m : Finset Nat) : Prop where
  ex : ∃ A Fr, SetInv s A Fr ∧ m = (A.map s.key).toFinset
  max : s.m_max_num = n

/-! # Theorems -/

/-! ## Association lists -/

theorem mapFind_erase {β : Type} (k i : Nat) (m : List (Nat × β)) :
    mapFind i (mapErase k m) = if i = k then none else mapFind i m := by
  induction m with
  | nil => simp [mapErase, mapFind]
  | cons p m ih =>
    obtain ⟨k1, v⟩ := p
    by_cases h1 : k1 = k
    · subst h1
      by_cases h2 : i = k1
      · subst h2; simpa [mapErase] using ih
      · have h3 : ¬ k1 = i := fun h => h2 h.symm
        simpa [mapErase, mapFind, h2, h3] using ih
    · by_cases h2 : k1 = i
      · subst h2
        simp [mapErase, mapFind, h1]
      · simp [mapErase, mapFind, h1, h2, ih]

theorem mapFind_cons {β : Type} (k i : Nat) (v : β) (m : List (Nat × β)) :
    mapFind i ((k, v) :: m) = if k = i then some v else mapFind i m := rfl

theorem mapContains_eq_false {β : Type} (k : Nat) (m : List (Nat × β)) :
    mapContains k m = false ↔ mapFind k m = none := by
  unfold mapContains
  cases mapFind k m <;> simp

/-! ## The order of timers -/

theorem Timer.less_iff {τ : Type} (a b : Timer τ) :
    Timer.less a b = true ↔
      a.expire_time < b.expire_time ∨ (a.expire_time = b.expire_time ∧ a.seq_id < b.seq_id) := by
  unfold Timer.less
  by_cases h : a.expire_time = b.expire_time
  · simp [h]
  · simp [h]

theorem Timer.less_trans {τ : Type} {a b c : Timer τ}
    (h1 : Timer.less a b = true) (h2 : Timer.less b c = true) : Timer.less a c = true := by
  rw [Timer.less_iff] at *
  omega

theorem Timer.not_less_self_key {τ : Type} {a b : Timer τ}
    (h1 : a.expire_time = b.expire_time) (h2 : a.seq_id = b.seq_id) : Timer.less a b = false := by
  cases h : Timer.less a b
  · rfl
  · rw [Timer.less_iff] at h
    omega

theorem Timer.key_eq_of_not_less {τ : Type} {a b : Timer τ}
    (h1 : Timer.less a b = false) (h2 : Timer.less b a = false) :
    a.expire_time = b.expire_time ∧ a.seq_id = b.seq_id := by
  have e1 : ¬ (Timer.less a b = true) := by simp [h1]
  have e2 : ¬ (Timer.less b a = true) := by simp [h2]
  rw [Timer.less_iff] at e1 e2
  omega

/-! ## The ordered set -/

theorem setEmplace_cons_lt {τ : Type} {t x : Timer τ} (xs : List (Timer τ))
    (h : Timer.less t x = true) : setEmplace t (x :: xs) = (t :: x :: xs, true) := by
  simp [setEmplace, h]

theorem setEmplace_cons_gt {τ : Type} {t x : Timer τ} (xs : List (Timer τ))
    (h1 : Timer.less t x = false) (h2 : Timer.less x t = true) :
    setEmplace t (x :: xs) = (x :: (setEmplace t xs).1, (setEmplace t xs).2) := by
  simp [setEmplace, h1, h2]

theorem setEmplace_cons_eq {τ : Type} {t x : Timer τ} (xs : List (Timer τ))
    (h1 : Timer.less t x = false) (h2 : Timer.less x t = false) :
    setEmplace t (x :: xs) = (x :: xs, false) := by
  simp [setEmplace, h1, h2]

theorem setEmplace_perm {τ : Type} (t : Timer τ) (l : List (Timer τ))
    (h : (setEmplace t l).2 = true) : List.Perm (setEmplace t l).1 (t :: l) := by
  induction l with
  | nil => simp [setEmplace]
  | cons x xs ih =>
    cases h1 : Timer.less t x
    · cases h2 : Timer.less x t
      · rw [setEmplace_cons_eq xs h1 h2] at h
        simp at h
      · rw [setEmplace_cons_gt xs h1 h2] at h ⊢
        exact ((ih h).cons x).trans (List.Perm.swap t x xs)
    · rw [setEmplace_cons_lt xs h1]

theorem setEmplace_ok {τ : Type} (t : Timer τ) (l : List (Timer τ))
    (h : ∀ x ∈ l, x.seq_id ≠ t.seq_id) : (setEmplace t l).2 = true := by
  induction l with
  | nil => simp [setEmplace]
  | cons x xs ih =>
    cases h1 : Timer.less t x
    · cases h2 : Timer.less x t
      · exfalso
        have hk := Timer.key_eq_of_not_less h1 h2
        exact h x (List.mem_cons_self _ _) hk.2.symm
      · rw [setEmplace_cons_gt xs h1 h2]
        exact ih (fun y hy => h y (List.mem_cons_of_mem _ hy))
    · rw [setEmplace_cons_lt xs h1]

theorem setEmplace_mem {τ : Type} (t : Timer τ) (l : List (Timer τ)) :
    ∀ y ∈ (setEmplace t l).1, y = t ∨ y ∈ l := by
  induction l with
  | nil => simp [setEmplace]
  | cons x xs ih =>
    intro y hy
    cases h1 : Timer.less t x
    · cases h2 : Timer.less x t
      · rw [setEmplace_cons_eq xs h1 h2] at hy
        exact Or.inr hy
      · rw [setEmplace_cons_gt xs h1 h2] at hy
        rcases List.mem_cons.1 hy with h | h
        · exact Or.inr (h ▸ List.mem_cons_self _ _)
        · rcases ih y h with h3 | h3
          · exact Or.inl h3
          · exact Or.inr (List.mem_cons_of_mem _ h3)
    · rw [setEmplace_cons_lt xs h1] at hy
      simpa using hy

theorem setEmplace_sorted {τ : Type} (t : Timer τ) (l : List (Timer τ))
    (hs : SortedTimers l) : SortedTimers (setEmplace t l).1 := by
  induction l with
  | nil => simp [setEmplace, SortedTimers]
  | cons x xs ih =>
    unfold SortedTimers at hs ih ⊢
    rw [List.pairwise_cons] at hs
    cases h1 : Timer.less t x
    · cases h2 : Timer.less x t
      · rw [setEmplace_cons_eq xs h1 h2]
        exact List.pairwise_cons.2 hs
      · rw [setEmplace_cons_gt xs h1 h2]
        show List.Pairwise _ (x :: (setEmplace t xs).1)
        rw [List.pairwise_cons]
        refine ⟨?_, ih hs.2⟩
        intro y hy
        rcases setEmplace_mem t xs y hy with h | h
        · exact h ▸ h2
        · exact hs.1 y h
    · rw [setEmplace_cons_lt xs h1]
      show List.Pairwise _ (t :: x :: xs)
      rw [List.pairwise_cons]
      refine ⟨?_, List.pairwise_cons.2 hs⟩
      intro y hy
      rcases List.mem_cons.1 hy with h | h
      · exact h ▸ h1
      · exact Timer.less_trans h1 (hs.1 y h)

theorem setErase_eq_filter {τ : Type} (e i : Nat) (l : List (Timer τ))
    (hn : (l.map Timer.seq_id).Nodup)
    (he : ∀ t ∈ l, t.seq_id = i → t.expire_time = e) :
    setErase e i l = l.filter (fun t => decide (t.seq_id ≠ i)) := by
  induction l with
  | nil => simp [setErase]
  | cons x xs ih =>
    rw [List.map_cons, List.nodup_cons] at hn
    have ih1 := ih hn.2 (fun t ht => he t (List.mem_cons_of_mem _ ht))
    by_cases h1 : x.seq_id = i
    · have h2 := he x (List.mem_cons_self _ _) h1
      have h3 : ∀ t ∈ xs, t.seq_id ≠ i := by
        intro t ht h4
        exact hn.1 (List.mem_map.2 ⟨t, ht, h4.trans h1.symm⟩)
      have h5 : xs.filter (fun t => decide (t.seq_id ≠ i)) = xs := by
        rw [List.filter_eq_self]
        intro t ht
        simpa using h3 t ht
      have h6 : (x :: xs).filter (fun t => decide (t.seq_id ≠ i)) = xs := by
        rw [List.filter_cons_of_neg (by simpa using h1)]
        exact h5
      rw [h6]
      simp [setErase, h1, h2]
    · have h6 : (x :: xs).filter (fun t => decide (t.seq_id ≠ i))
          = x :: xs.filter (fun t => decide (t.seq_id ≠ i)) := by
        rw [List.filter_cons_of_pos (by simpa using h1)]
      rw [h6, ← ih1]
      simp [setErase, h1]

theorem map_call_snd {τ : Type} (l : List (Timer τ)) :
    (l.map Timer.call).map Prod.snd = l.map Timer.seq_id := by
  simp [List.map_map, Function.comp_def, Timer.call]

theorem sorted_takeWhile_due {τ : Type} (now : Nat) (l : List (Timer τ)) (hs : SortedTimers l) :
    l.takeWhile (Timer.due now) = l.filter (Timer.due now) ∧
    l.dropWhile (Timer.due now) = l.filter (fun t => !Timer.due now t) := by
  induction l with
  | nil => simp
  | cons x xs ih =>
    unfold SortedTimers at hs ih
    rw [List.pairwise_cons] at hs
    have ih1 := ih hs.2
    cases hd : Timer.due now x
    · have hx : ¬ x.expire_time ≤ now := by simpa [Timer.due] using hd
      have hall : ∀ y ∈ xs, Timer.due now y = false := by
        intro y hy
        have := (Timer.less_iff x y).1 (hs.1 y hy)
        simp only [Timer.due, decide_eq_false_iff_not]
        omega
      have h1 : xs.filter (Timer.due now) = [] := by
        rw [List.filter_eq_nil_iff]
        intro y hy
        simp [hall y hy]
      have h2 : xs.filter (fun t => !Timer.due now t) = xs := by
        rw [List.filter_eq_self]
        intro y hy
        simp [hall y hy]
      simp [List.takeWhile_cons, List.dropWhile_cons, List.filter_cons, hd, h1, h2]
    · simp [List.takeWhile_cons, List.dropWhile_cons, List.filter_cons, hd, ih1.1, ih1.2]

/-! ## One step of each operation on a queue of one-shot timers -/

theorem popFront_oneshot {τ : Type} (q : TimeoutQueue τ) (t : Timer τ) (rest : List (Timer τ))
    (h : t.interval_time = 0) :
    q.popFront t rest =
      { q with timer_id_index_ := mapErase t.seq_id q.timer_id_index_, timer_queue_ := rest } := by
  simp [TimeoutQueue.popFront, h]

theorem TimeOut_plain_loop {τ : Type} (now : Nat) :
    ∀ (fuel : Nat) (q : TimeoutQueue τ) (log : List (τ × Nat)) (count : Nat),
      (∀ t ∈ q.timer_queue_, t.interval_time = 0) → q.timer_queue_.length < fuel →
      count < UINT32_MOD →
      TimeoutQueue.TimeOut Prod.fst (fun (q : TimeoutQueue τ) (s : PlainState τ) => (q, s.2))
          plainRun now fuel (q, log) count =
        some (({ q with
                  timer_queue_ := q.timer_queue_.dropWhile (Timer.due now)
                  timer_id_index_ :=
                    eraseIds ((q.timer_queue_.takeWhile (Timer.due now)).map Timer.seq_id)
                      q.timer_id_index_ },
               log ++ (q.timer_queue_.takeWhile (Timer.due now)).map Timer.call),
              (count + (q.timer_queue_.takeWhile (Timer.due now)).length) % UINT32_MOD) := by
  intro fuel
  induction fuel with
  | zero => intro q log count _ h; simp at h
  | succ n ih =>
    intro q log count h1 h2 h3
    obtain ⟨tq, idx, b⟩ := q
    cases tq with
    | nil =>
      simp [TimeoutQueue.TimeOut, eraseIds, Nat.mod_eq_of_lt h3]
    | cons t rest =>
      simp only [TimeoutQueue.TimeOut]
      by_cases hd : t.expire_time > now
      · have hd2 : Timer.due now t = false := by simp [Timer.due]; omega
        simp [hd, List.takeWhile_cons, List.dropWhile_cons, hd2, eraseIds, Nat.mod_eq_of_lt h3]
      · have hd2 : Timer.due now t = true := by simp [Timer.due]; omega
        have h0 : t.interval_time = 0 := h1 t (List.mem_cons_self _ _)
        simp only [hd, if_false]
        rw [popFront_oneshot _ _ _ h0]
        simp only [plainRun]
        rw [ih _ _ _ (fun y hy => h1 y (List.mem_cons_of_mem _ hy))
          (by simpa using h2) (Nat.mod_lt _ (by decide))]
        simp [List.takeWhile_cons, List.dropWhile_cons, hd2, eraseIds, Nat.add_assoc,
          Nat.add_comm 1, Timer.call]

theorem mapFind_eraseIds (ids : List Nat) (i : Nat) (m : List (Nat × Nat)) :
    mapFind i (eraseIds ids m) = if i ∈ ids then none else mapFind i m := by
  induction ids generalizing m with
  | nil => simp [eraseIds]
  | cons k ks ih =>
    have : eraseIds (k :: ks) m = eraseIds ks (mapErase k m) := rfl
    rw [this, ih, mapFind_erase]
    by_cases h1 : i ∈ ks
    · simp [h1]
    · by_cases h2 : i = k
      · simp [h2]
      · simp [h1, h2]

theorem GenerateID_no_wrap {τ : Type} (q : TimeoutQueue τ) (h : q.base_id_ + 1 < UINT64_MOD) :
    q.GenerateID = ({ q with base_id_ := q.base_id_ + 1 }, q.base_id_ + 1) := by
  simp [TimeoutQueue.GenerateID, Nat.mod_eq_of_lt h]

theorem OneShotWF.fresh_id {τ : Type} {q : TimeoutQueue τ} (w : OneShotWF q) (i : Nat)
    (h : q.base_id_ < i) : mapFind i q.timer_id_index_ = none := by
  cases hf : mapFind i q.timer_id_index_ with
  | none => rfl
  | some e =>
    obtain ⟨t, ht, h1, _⟩ := (w.index i e).1 hf
    have := (w.ids t ht).2
    omega

theorem Add_oneshot {τ : Type} (q : TimeoutQueue τ) (task : τ) (e : Nat) (w : OneShotWF q)
    (h : q.base_id_ + 1 < UINT64_MOD) :
    (q.Add task e 0).2 = q.base_id_ + 1 ∧
    (q.Add task e 0).1.base_id_ = q.base_id_ + 1 ∧
    List.Perm (q.Add task e 0).1.timer_queue_
      ({ seq_id := q.base_id_ + 1, interval_time := 0, expire_time := e, task := task }
        :: q.timer_queue_) ∧
    OneShotWF (q.Add task e 0).1 := by
  have hf := w.fresh_id (q.base_id_ + 1) (Nat.lt_succ_self _)
  have hc : mapContains (q.base_id_ + 1) q.timer_id_index_ = false :=
    (mapContains_eq_false _ _).2 hf
  have hne : ∀ x ∈ q.timer_queue_, x.seq_id ≠ q.base_id_ + 1 := by
    intro x hx
    have := (w.ids x hx).2
    omega
  let t : Timer τ := { seq_id := q.base_id_ + 1, interval_time := 0, expire_time := e, task := task }
  have hok : (setEmplace t q.timer_queue_).2 = true := setEmplace_ok t _ hne
  have hadd : q.Add task e 0 =
      ({ timer_queue_ := (setEmplace t q.timer_queue_).1
         timer_id_index_ := (q.base_id_ + 1, e) :: q.timer_id_index_
         base_id_ := q.base_id_ + 1 }, q.base_id_ + 1) := by
    simp only [TimeoutQueue.Add, GenerateID_no_wrap q h, mapEmplace, hc]
    simp [hok, t]
  have hperm := setEmplace_perm t q.timer_queue_ hok
  rw [hadd]
  refine ⟨rfl, rfl, hperm, ?_⟩
  constructor
  · exact setEmplace_sorted t _ w.sorted
  · intro i e1
    show mapFind i ((q.base_id_ + 1, e) :: q.timer_id_index_) = some e1 ↔
      ∃ x ∈ (setEmplace t q.timer_queue_).1, x.seq_id = i ∧ x.expire_time = e1
    rw [mapFind_cons]
    by_cases hi : q.base_id_ + 1 = i
    · simp only [hi, if_true, Option.some.injEq]
      constructor
      · intro he
        exact ⟨t, hperm.symm.subset (List.mem_cons_self _ _), hi, he⟩
      · rintro ⟨x, hx, h1, h2⟩
        rcases List.mem_cons.1 (hperm.subset hx) with h3 | h3
        · rw [← h2, h3]
        · exact absurd (h1.trans hi.symm) (hne x h3)
    · simp only [hi, if_false]
      rw [w.index i e1]
      constructor
      · rintro ⟨x, hx, h1, h2⟩
        exact ⟨x, hperm.symm.subset (List.mem_cons_of_mem _ hx), h1, h2⟩
      · rintro ⟨x, hx, h1, h2⟩
        rcases List.mem_cons.1 (hperm.subset hx) with h3 | h3
        · exact absurd (by rw [← h1, h3]) hi
        · exact ⟨x, h3, h1, h2⟩
  · show ((setEmplace t q.timer_queue_).1.map Timer.seq_id).Nodup
    have hp := hperm.map Timer.seq_id
    rw [hp.nodup_iff, List.map_cons, List.nodup_cons]
    refine ⟨?_, w.nodup⟩
    intro hm
    obtain ⟨x, hx, h1⟩ := List.mem_map.1 hm
    exact hne x hx h1
  · intro x hx
    show 0 < x.seq_id ∧ x.seq_id ≤ q.base_id_ + 1
    rcases List.mem_cons.1 (hperm.subset hx) with h3 | h3
    · rw [h3]; exact ⟨Nat.succ_pos _, Nat.le_refl _⟩
    · have := w.ids x h3
      omega
  · intro x hx
    rcases List.mem_cons.1 (hperm.subset hx) with h3 | h3
    · rw [h3]
    · exact w.oneshot x h3

theorem OneShotWF.toQueueWF {τ : Type} {q : TimeoutQueue τ} (w : OneShotWF q) : QueueWF q :=
  ⟨w.sorted, w.index, w.nodup, w.oneshot⟩

theorem OneShotWF.of {τ : Type} {q : TimeoutQueue τ} (w : QueueWF q)
    (h : ∀ t ∈ q.timer_queue_, 0 < t.seq_id ∧ t.seq_id ≤ q.base_id_) : OneShotWF q :=
  ⟨w.sorted, w.index, w.nodup, h, w.oneshot⟩

theorem QueueWF.filter {τ : Type} {q : TimeoutQueue τ} (w : QueueWF q)
    (p : Timer τ → Bool) (idx : List (Nat × Nat))
    (hidx : ∀ i e, mapFind i idx = some e ↔
      ∃ t ∈ q.timer_queue_.filter p, t.seq_id = i ∧ t.expire_time = e) :
    QueueWF { q with timer_queue_ := q.timer_queue_.filter p, timer_id_index_ := idx } := by
  constructor
  · exact List.Pairwise.sublist (List.filter_sublist _) w.sorted
  · exact hidx
  · exact List.Nodup.sublist (List.Sublist.map _ (List.filter_sublist _)) w.nodup
  · intro t ht
    exact w.oneshot t (List.mem_filter.1 ht).1

theorem QueueWF.expire_unique {τ : Type} {q : TimeoutQueue τ} (w : QueueWF q)
    {t : Timer τ} (ht : t ∈ q.timer_queue_) {e : Nat}
    (hf : mapFind t.seq_id q.timer_id_index_ = some e) : t.expire_time = e := by
  have h1 : mapFind t.seq_id q.timer_id_index_ = some t.expire_time :=
    (w.index _ _).2 ⟨t, ht, rfl, rfl⟩
  rw [h1] at hf
  exact Option.some.inj hf

theorem Cancel_wf {τ : Type} (q : TimeoutQueue τ) (i : Nat) (w : QueueWF q) :
    ((q.Cancel i).2 = true ↔ ∃ t ∈ q.timer_queue_, t.seq_id = i) ∧
    (q.Cancel i).1.timer_queue_ = q.timer_queue_.filter (fun t => decide (t.seq_id ≠ i)) ∧
    (q.Cancel i).1.base_id_ = q.base_id_ ∧
    QueueWF (q.Cancel i).1 := by
  cases hf : mapFind i q.timer_id_index_ with
  | none =>
    have hno : ∀ t ∈ q.timer_queue_, t.seq_id ≠ i := by
      intro t ht h1
      have := (w.index i t.expire_time).2 ⟨t, ht, h1, rfl⟩
      rw [hf] at this
      cases this
    have hfil : q.timer_queue_.filter (fun t => decide (t.seq_id ≠ i)) = q.timer_queue_ := by
      rw [List.filter_eq_self]
      intro t ht
      simpa using hno t ht
    have hc : q.Cancel i = (q, false) := by simp [TimeoutQueue.Cancel, hf]
    rw [hc]
    refine ⟨?_, hfil.symm, rfl, w⟩
    constructor
    · intro h; cases h
    · rintro ⟨t, ht, h1⟩
      exact absurd h1 (hno t ht)
  | some e =>
    obtain ⟨t0, ht0, h01, h02⟩ := (w.index i e).1 hf
    have hexp : ∀ t ∈ q.timer_queue_, t.seq_id = i → t.expire_time = e := by
      intro t ht h1
      exact w.expire_unique ht (h1 ▸ hf)
    have hc : q.Cancel i =
        ({ q with
            timer_queue_ := q.timer_queue_.filter (fun t => decide (t.seq_id ≠ i))
            timer_id_index_ := mapErase i q.timer_id_index_ }, true) := by
      simp only [TimeoutQueue.Cancel, hf]
      rw [setErase_eq_filter e i _ w.nodup hexp]
    rw [hc]
    refine ⟨⟨fun _ => ⟨t0, ht0, h01⟩, fun _ => rfl⟩, rfl, rfl, ?_⟩
    apply w.filter
    intro j e1
    rw [mapFind_erase]
    by_cases hj : j = i
    · simp only [hj, if_true]
      constructor
      · intro h; cases h
      · rintro ⟨t, ht, h1, _⟩
        have := (List.mem_filter.1 ht).2
        simp [h1] at this
    · simp only [hj, if_false]
      rw [w.index j e1]
      constructor
      · rintro ⟨t, ht, h1, h2⟩
        refine ⟨t, List.mem_filter.2 ⟨ht, ?_⟩, h1, h2⟩
        simp [h1, hj]
      · rintro ⟨t, ht, h1, h2⟩
        exact ⟨t, (List.mem_filter.1 ht).1, h1, h2⟩

theorem QueueWF.drain {τ : Type} {q : TimeoutQueue τ} (w : QueueWF q) (now : Nat) :
    QueueWF { q with
      timer_queue_ := q.timer_queue_.filter (fun t => !Timer.due now t)
      timer_id_index_ :=
        eraseIds ((q.timer_queue_.filter (Timer.due now)).map Timer.seq_id) q.timer_id_index_ } := by
  apply w.filter
  intro j e1
  rw [mapFind_eraseIds]
  by_cases hj : j ∈ (q.timer_queue_.filter (Timer.due now)).map Timer.seq_id
  · simp only [hj, if_true]
    constructor
    · intro h; cases h
    · rintro ⟨t, ht, h3, _⟩
      exfalso
      obtain ⟨t1, ht1, h4⟩ := List.mem_map.1 hj
      have hm1 := List.mem_filter.1 ht1
      have hm := List.mem_filter.1 ht
      have heq : t1 = t := List.inj_on_of_nodup_map w.nodup hm1.1 hm.1 (h4.trans h3.symm)
      rw [heq] at hm1
      have := hm.2
      simp [hm1.2] at this
  · simp only [hj, if_false]
    rw [w.index j e1]
    constructor
    · rintro ⟨t, ht, h3, h4⟩
      refine ⟨t, List.mem_filter.2 ⟨ht, ?_⟩, h3, h4⟩
      cases hd : Timer.due now t
      · rfl
      · exact absurd (List.mem_map.2 ⟨t, List.mem_filter.2 ⟨ht, hd⟩, h3⟩) hj
    · rintro ⟨t, ht, h3, h4⟩
      exact ⟨t, (List.mem_filter.1 ht).1, h3, h4⟩

theorem Cancel_oneshot {τ : Type} (q : TimeoutQueue τ) (i : Nat) (w : OneShotWF q) :
    ((q.Cancel i).2 = true ↔ ∃ t ∈ q.timer_queue_, t.seq_id = i) ∧
    (q.Cancel i).1.timer_queue_ = q.timer_queue_.filter (fun t => decide (t.seq_id ≠ i)) ∧
    (q.Cancel i).1.base_id_ = q.base_id_ ∧
    OneShotWF (q.Cancel i).1 := by
  obtain ⟨h1, h2, h3, h4⟩ := Cancel_wf q i w.toQueueWF
  refine ⟨h1, h2, h3, OneShotWF.of h4 ?_⟩
  intro t ht
  rw [h2] at ht
  rw [h3]
  exact w.ids t (List.mem_filter.1 ht).1

theorem TimeOut_oneshot {τ : Type} (q : TimeoutQueue τ) (log : List (τ × Nat)) (now : Nat)
    (w : OneShotWF q) :
    ∃ q1 : TimeoutQueue τ,
      TimeOutPlain now (q.timer_queue_.length + 1) (q, log) =
        some ((q1, log ++ (q.timer_queue_.filter (Timer.due now)).map Timer.call),
          (q.timer_queue_.filter (Timer.due now)).length % UINT32_MOD) ∧
      q1.timer_queue_ = q.timer_queue_.filter (fun t => !Timer.due now t) ∧
      q1.base_id_ = q.base_id_ ∧ OneShotWF q1 := by
  have hl := TimeOut_plain_loop now (q.timer_queue_.length + 1) q log 0 w.oneshot
    (Nat.lt_succ_self _) (by decide)
  obtain ⟨h1, h2⟩ := sorted_takeWhile_due now q.timer_queue_ w.sorted
  rw [h1, h2, Nat.zero_add] at hl
  refine ⟨_, hl, rfl, rfl, OneShotWF.of (w.toQueueWF.drain now) ?_⟩
  intro t ht
  exact w.ids t (List.mem_filter.1 ht).1

/-! ## Sequences of calls on a queue of one-shot timers -/

theorem liveFired_perm {τ : Type} {l1 l2 : List (Timer τ)} (h : List.Perm l1 l2)
    (tr : List (QOp × QRes)) : List.Perm (liveFired l1 tr) (liveFired l2 tr) :=
  (h.filter _).map _

theorem liveFired_congr {τ : Type} (l : List (Timer τ)) (tr1 tr2 : List (QOp × QRes))
    (h : ∀ t ∈ l, (coveredIn t.expire_time tr1 && !cancelledIn t.seq_id tr1) =
      (coveredIn t.expire_time tr2 && !cancelledIn t.seq_id tr2)) :
    liveFired l tr1 = liveFired l tr2 := by
  unfold liveFired
  congr 1
  apply List.filter_congr
  intro t ht
  exact h t ht

theorem runOps_cons_some (op : QOp) (ops : List QOp) (s s1 s2 : PlainState Nat) (r : QRes)
    (tr : List (QOp × QRes)) (h1 : runOp s op = some (s1, r))
    (h2 : runOps ops s1 = some (s2, tr)) : runOps (op :: ops) s = some (s2, (op, r) :: tr) := by
  simp [runOps, h1, h2]

theorem runOps_add (e : Nat) (ops : List QOp) (s : PlainState Nat) (w : OneShotWF s.1)
    (li : LogInv s) (hb : s.1.base_id_ + countAdds (QOp.add e :: ops) < UINT64_MOD)
    (ih : ∀ s : PlainState Nat, OneShotWF s.1 → LogInv s →
      s.1.base_id_ + countAdds ops < UINT64_MOD →
      ∃ s1 tr, runOps ops s = some (s1, tr) ∧ TraceFacts s s1 tr ops) :
    ∃ s1 tr, runOps (QOp.add e :: ops) s = some (s1, tr) ∧
      TraceFacts s s1 tr (QOp.add e :: ops) := by
  have hb1 : s.1.base_id_ + 1 + countAdds ops < UINT64_MOD := by
    simp only [countAdds] at hb; omega
  obtain ⟨hid, hbase, hperm, w1⟩ := Add_oneshot s.1 e e w (by omega)
  have li1 : LogInv ((s.1.Add e e 0).1, s.2) := by
    refine ⟨li.1, ?_⟩
    intro i hi
    have h1 := li.2 i hi
    refine ⟨by simp only [hbase]; omega, ?_⟩
    intro t ht
    rcases List.mem_cons.1 (hperm.subset ht) with h | h
    · rw [h]; show s.1.base_id_ + 1 ≠ i; omega
    · exact h1.2 t h
  obtain ⟨s1, tr, hrun, f⟩ := ih ((s.1.Add e e 0).1, s.2) w1 li1 (by simp only [hbase]; omega)
  refine ⟨s1, (QOp.add e, QRes.added (s.1.Add e e 0).2) :: tr,
    runOps_cons_some _ _ _ _ _ _ _ rfl hrun, ?_⟩
  have hlf : liveFired s.1.timer_queue_ ((QOp.add e, QRes.added (s.1.Add e e 0).2) :: tr)
      = liveFired s.1.timer_queue_ tr :=
    liveFired_congr _ _ _ (fun t _ => by simp [coveredIn, cancelledIn])
  constructor
  · simp [f.ops_eq]
  · simpa [countsMatchMod] using f.counts
  · simpa [firedCalls] using f.log_eq
  · show List.Perm (firedIds tr) _
    rw [hlf, hid]
    have hp := f.perm.trans ((liveFired_perm hperm tr).append_right _)
    by_cases hc : coveredIn e tr = true ∧ cancelledIn (s.1.base_id_ + 1) tr = false
    · have h1 : liveFired (Timer.mk (s.1.base_id_ + 1) 0 e e :: s.1.timer_queue_) tr
          = (s.1.base_id_ + 1) :: liveFired s.1.timer_queue_ tr := by
        simp [liveFired, List.filter_cons, hc.1, hc.2]
      have h2 : expectedFired ((QOp.add e, QRes.added (s.1.base_id_ + 1)) :: tr)
          = (s.1.base_id_ + 1) :: expectedFired tr := by
        simp [expectedFired, hc.1, hc.2]
      rw [h1] at hp
      rw [h2]
      exact hp.trans (List.perm_middle.symm)
    · have h1 : liveFired (Timer.mk (s.1.base_id_ + 1) 0 e e :: s.1.timer_queue_) tr
          = liveFired s.1.timer_queue_ tr := by
        have : (coveredIn e tr && !cancelledIn (s.1.base_id_ + 1) tr) = false := by
          cases h3 : coveredIn e tr <;> cases h4 : cancelledIn (s.1.base_id_ + 1) tr <;>
            simp_all
        simp [liveFired, List.filter_cons, this]
      have h2 : expectedFired ((QOp.add e, QRes.added (s.1.base_id_ + 1)) :: tr)
          = expectedFired tr := by
        have : ¬ (s.1.base_id_ + 1 ≠ 0 ∧ coveredIn e tr = true ∧
            cancelledIn (s.1.base_id_ + 1) tr = false) := fun h => hc h.2
        simp only [expectedFired, this, if_false]
      rw [h1] at hp
      rw [h2]
      exact hp
  · intro x hx hnl
    have := f.notCancelled x (by simp only [hbase]; omega) (by
      intro t ht
      rcases List.mem_cons.1 (hperm.subset ht) with h | h
      · rw [h]; show s.1.base_id_ + 1 ≠ x; omega
      · exact hnl t h)
    simpa [cancelledIn] using this
  · exact f.nodup
  · exact f.wf
  · rw [f.base]; simp only [hbase, countAdds]; omega

theorem runOps_cancel (i : Nat) (ops : List QOp) (s : PlainState Nat) (w : OneShotWF s.1)
    (li : LogInv s) (hb : s.1.base_id_ + countAdds (QOp.cancel i :: ops) < UINT64_MOD)
    (ih : ∀ s : PlainState Nat, OneShotWF s.1 → LogInv s →
      s.1.base_id_ + countAdds ops < UINT64_MOD →
      ∃ s1 tr, runOps ops s = some (s1, tr) ∧ TraceFacts s s1 tr ops) :
    ∃ s1 tr, runOps (QOp.cancel i :: ops) s = some (s1, tr) ∧
      TraceFacts s s1 tr (QOp.cancel i :: ops) := by
  obtain ⟨hok, hq, hbase, w1⟩ := Cancel_oneshot s.1 i w
  have li1 : LogInv ((s.1.Cancel i).1, s.2) := by
    refine ⟨li.1, ?_⟩
    intro j hj
    have h1 := li.2 j hj
    refine ⟨by simp only [hbase]; exact h1.1, ?_⟩
    intro t ht
    simp only [hq] at ht
    exact h1.2 t (List.mem_filter.1 ht).1
  obtain ⟨s1, tr, hrun, f⟩ := ih ((s.1.Cancel i).1, s.2) w1 li1 (by
    simp only [hbase]; simpa [countAdds] using hb)
  refine ⟨s1, (QOp.cancel i, QRes.cancelled (s.1.Cancel i).2) :: tr,
    runOps_cons_some _ _ _ _ _ _ _ rfl hrun, ?_⟩
  have hcov : ∀ e, coveredIn e ((QOp.cancel i, QRes.cancelled (s.1.Cancel i).2) :: tr)
      = coveredIn e tr := fun e => by simp [coveredIn]
  have hcan : ∀ x, cancelledIn x ((QOp.cancel i, QRes.cancelled (s.1.Cancel i).2) :: tr)
      = (((s.1.Cancel i).2 && decide (i = x)) || cancelledIn x tr) := by
    intro x
    cases (s.1.Cancel i).2 <;> simp [cancelledIn]
  constructor
  · simp [f.ops_eq]
  · simpa [countsMatchMod] using f.counts
  · simpa [firedCalls] using f.log_eq
  · show List.Perm (firedIds tr) (_ ++ expectedFired tr)
    refine f.perm.trans (List.Perm.append_right _ (List.Perm.of_eq ?_))
    show liveFired (s.1.Cancel i).1.timer_queue_ tr = _
    rw [hq]
    unfold liveFired
    rw [List.filter_filter]
    congr 1
    apply List.filter_congr
    intro t ht
    rw [hcov, hcan]
    by_cases h1 : t.seq_id = i
    · have : (s.1.Cancel i).2 = true := hok.2 ⟨t, ht, h1⟩
      simp [h1, this]
    · have h2 : ¬ i = t.seq_id := fun h => h1 h.symm
      simp [h1, h2]
  · intro x hx hnl
    rw [hcan]
    have h1 := f.notCancelled x (by simp only [hbase]; exact hx) (by
      intro t ht
      simp only [hq] at ht
      exact hnl t (List.mem_filter.1 ht).1)
    rw [h1]
    cases hc : (s.1.Cancel i).2
    · simp
    · obtain ⟨t, ht, h2⟩ := hok.1 hc
      have : ¬ i = x := fun h => hnl t ht (h2.trans h)
      simp [this]
  · exact f.nodup
  · exact f.wf
  · rw [f.base]; simp only [hbase, countAdds]

theorem runOps_timeOut (now : Nat) (ops : List QOp) (s : PlainState Nat) (w : OneShotWF s.1)
    (li : LogInv s) (hb : s.1.base_id_ + countAdds (QOp.timeOut now :: ops) < UINT64_MOD)
    (ih : ∀ s : PlainState Nat, OneShotWF s.1 → LogInv s →
      s.1.base_id_ + countAdds ops < UINT64_MOD →
      ∃ s1 tr, runOps ops s = some (s1, tr) ∧ TraceFacts s s1 tr ops) :
    ∃ s1 tr, runOps (QOp.timeOut now :: ops) s = some (s1, tr) ∧
      TraceFacts s s1 tr (QOp.timeOut now :: ops) := by
  obtain ⟨q, log⟩ := s
  obtain ⟨q1, hto, hq, hbase, w1⟩ := TimeOut_oneshot q log now w
  have hdue_notlive : ∀ t ∈ q.timer_queue_.filter (Timer.due now),
      ∀ t1 ∈ q1.timer_queue_, t1.seq_id ≠ t.seq_id := by
    intro t ht t1 ht1 heq
    rw [hq] at ht1
    have hm := List.mem_filter.1 ht
    have hm1 := List.mem_filter.1 ht1
    have : t1 = t := List.inj_on_of_nodup_map w.nodup hm1.1 hm.1 heq
    rw [this] at hm1
    have := hm1.2
    simp [hm.2] at this
  have li1 : LogInv (q1, log ++ (q.timer_queue_.filter (Timer.due now)).map Timer.call) := by
    unfold LogInv
    simp only [List.map_append, map_call_snd]
    constructor
    · rw [List.nodup_append]
      refine ⟨li.1, List.Nodup.sublist (List.Sublist.map _ (List.filter_sublist _)) w.nodup, ?_⟩
      intro a ha hb
      obtain ⟨t, ht, h1⟩ := List.mem_map.1 hb
      exact (li.2 a ha).2 t (List.mem_filter.1 ht).1 h1
    · intro j hj
      rcases List.mem_append.1 hj with h | h
      · have h1 := li.2 j h
        refine ⟨by simp only [hbase]; exact h1.1, ?_⟩
        intro t ht
        simp only [hq] at ht
        exact h1.2 t (List.mem_filter.1 ht).1
      · obtain ⟨t, ht, h1⟩ := List.mem_map.1 h
        refine ⟨?_, ?_⟩
        · simp only [hbase]
          rw [← h1]
          exact (w.ids t (List.mem_filter.1 ht).1).2
        · intro t1 ht1
          rw [← h1]
          exact hdue_notlive t ht t1 ht1
  obtain ⟨s1, tr, hrun, f⟩ := ih _ w1 li1 (by
    simp only [hbase]; simpa [countAdds] using hb)
  have hop : runOp (q, log) (QOp.timeOut now) =
      some ((q1, log ++ (q.timer_queue_.filter (Timer.due now)).map Timer.call),
        QRes.fired ((q.timer_queue_.filter (Timer.due now)).length % UINT32_MOD)
          ((q.timer_queue_.filter (Timer.due now)).map Timer.call)) := by
    simp [runOp, hto]
  refine ⟨s1, _, runOps_cons_some _ _ _ _ _ _ _ hop hrun, ?_⟩
  have hcan : ∀ x r, cancelledIn x ((QOp.timeOut now, r) :: tr) = cancelledIn x tr := by
    intro x r; simp [cancelledIn]
  have hcov : ∀ e r, coveredIn e ((QOp.timeOut now, r) :: tr)
      = (decide (e ≤ now) || coveredIn e tr) := by
    intro e r; simp [coveredIn]
  constructor
  · simp [f.ops_eq]
  · simpa [countsMatchMod] using f.counts
  · simpa [firedCalls, List.append_assoc] using f.log_eq
  · show List.Perm (firedIds (_ :: tr)) (_ ++ expectedFired tr)
    have hfi : firedIds ((QOp.timeOut now,
        QRes.fired ((q.timer_queue_.filter (Timer.due now)).length % UINT32_MOD)
          ((q.timer_queue_.filter (Timer.due now)).map Timer.call)) :: tr)
        = (q.timer_queue_.filter (Timer.due now)).map Timer.seq_id ++ firedIds tr := by
      simp only [firedIds, firedCalls, List.map_append, map_call_snd]
    rw [hfi]
    have hsplit : List.Perm (liveFired q.timer_queue_ ((QOp.timeOut now,
        QRes.fired ((q.timer_queue_.filter (Timer.due now)).length % UINT32_MOD)
          ((q.timer_queue_.filter (Timer.due now)).map Timer.call)) :: tr))
        ((q.timer_queue_.filter (Timer.due now)).map Timer.seq_id
          ++ liveFired q1.timer_queue_ tr) := by
      have hp : List.Perm q.timer_queue_
          (q.timer_queue_.filter (Timer.due now) ++
            q.timer_queue_.filter (fun t => !Timer.due now t)) :=
        (List.filter_append_perm (Timer.due now) q.timer_queue_).symm
      refine (liveFired_perm hp _).trans (List.Perm.of_eq ?_)
      unfold liveFired
      rw [List.filter_append, List.map_append, hq]
      congr 2
      · rw [List.filter_eq_self]
        intro t ht
        have hm := List.mem_filter.1 ht
        have hd : t.expire_time ≤ now := by simpa [Timer.due] using hm.2
        have hnc := f.notCancelled t.seq_id
          (by simp only [hbase]; exact (w.ids t hm.1).2)
          (fun t1 ht1 => hdue_notlive t ht t1 ht1)
        rw [hcov, hcan, hnc]
        simp [hd]
      · apply List.filter_congr
        intro t ht
        have hm := List.mem_filter.1 ht
        have hd : ¬ t.expire_time ≤ now := by simpa [Timer.due] using hm.2
        rw [hcov, hcan]
        simp [hd]
    refine List.Perm.trans ?_ (hsplit.symm.append_right _)
    rw [List.append_assoc]
    exact f.perm.append_left _
  · intro x hx hnl
    rw [hcan]
    exact f.notCancelled x (by simp only [hbase]; exact hx) (by
      intro t ht
      simp only [hq] at ht
      exact hnl t (List.mem_filter.1 ht).1)
  · exact f.nodup
  · exact f.wf
  · rw [f.base]; simp only [hbase, countAdds]

theorem runOps_facts (ops : List QOp) :
    ∀ s : PlainState Nat, OneShotWF s.1 → LogInv s →
      s.1.base_id_ + countAdds ops < UINT64_MOD →
      ∃ s1 tr, runOps ops s = some (s1, tr) ∧ TraceFacts s s1 tr ops := by
  induction ops with
  | nil =>
    intro s w li _
    refine ⟨s, [], rfl, ?_⟩
    constructor
    · rfl
    · rfl
    · simp [firedCalls]
    · simp [firedIds, firedCalls, liveFired, coveredIn, expectedFired]
    · intro x _ _; rfl
    · exact li.1
    · exact w
    · simp [countAdds]
  | cons op ops ih =>
    intro s w li hb
    cases op with
    | add e => exact runOps_add e ops s w li hb ih
    | cancel i => exact runOps_cancel i ops s w li hb ih
    | timeOut now => exact runOps_timeOut now ops s w li hb ih

theorem oneShotWF_empty (τ : Type) : OneShotWF (TimeoutQueue.empty τ) := by
  constructor
  · exact List.Pairwise.nil
  · intro i e
    simp [TimeoutQueue.empty, mapFind]
  · simp [TimeoutQueue.empty]
  · intro t ht; simp [TimeoutQueue.empty] at ht
  · intro t ht; simp [TimeoutQueue.empty] at ht

/-! ## A run that wraps the counters -/

theorem setEmplace_last {τ : Type} (t : Timer τ) (l : List (Timer τ))
    (h : ∀ x ∈ l, Timer.less x t = true) : setEmplace t l = (l ++ [t], true) := by
  induction l with
  | nil => rfl
  | cons x xs ih =>
    have h1 : Timer.less x t = true := h x (List.mem_cons_self _ _)
    have h2 : Timer.less t x = false := by
      cases h3 : Timer.less t x
      · rfl
      · rw [Timer.less_iff] at h1 h3
        omega
    rw [setEmplace_cons_gt xs h2 h1, ih (fun y hy => h y (List.mem_cons_of_mem _ hy))]
    rfl

theorem zeroTimers_succ (n : Nat) :
    zeroTimers (n + 1) = zeroTimers n ++ [Timer.mk (n + 1) 0 0 0] := by
  simp [zeroTimers, List.range_succ]

theorem mapFind_zeroIndex (n i : Nat) (h : n < i) : mapFind i (zeroIndex n) = none := by
  induction n with
  | zero => rfl
  | succ k ih =>
    have h1 : ¬ k + 1 = i := by omega
    simp only [zeroIndex, mapFind, h1, if_false]
    exact ih (by omega)

theorem zeroQueue_add (n : Nat) (h : n + 1 < UINT64_MOD) :
    (zeroQueue n).Add 0 0 0 = (zeroQueue (n + 1), n + 1) := by
  have hc : mapContains (n + 1) (zeroIndex n) = false :=
    (mapContains_eq_false _ _).2 (mapFind_zeroIndex n (n + 1) (Nat.lt_succ_self _))
  have hs : setEmplace (Timer.mk (n + 1) 0 0 0) (zeroTimers n)
      = (zeroTimers (n + 1), true) := by
    rw [zeroTimers_succ]
    apply setEmplace_last
    intro x hx
    obtain ⟨k, hk, rfl⟩ := List.mem_map.1 hx
    rw [Timer.less_iff]
    have := List.mem_range.1 hk
    right
    exact ⟨rfl, by show k + 1 < n + 1; omega⟩
  have hg : (zeroQueue n).GenerateID = ({ zeroQueue n with base_id_ := n + 1 }, n + 1) :=
    GenerateID_no_wrap (zeroQueue n) h
  simp only [TimeoutQueue.Add, hg, mapEmplace]
  simp [zeroQueue, hc, hs, zeroIndex]

theorem runOps_zero_adds (n : Nat) :
    ∀ (m : Nat) (log : List (Nat × Nat)) (rest : List QOp), m + n < UINT64_MOD →
      runOps (List.replicate n (QOp.add 0) ++ rest) (zeroQueue m, log) =
        (runOps rest (zeroQueue (m + n), log)).map (fun r => (r.1, zeroRecs m n ++ r.2)) := by
  induction n with
  | zero =>
    intro m log rest _
    cases h : runOps rest (zeroQueue m, log) <;> simp [zeroRecs, h]
  | succ k ih =>
    intro m log rest hm
    have ha := zeroQueue_add m (by omega)
    have hop : runOp (zeroQueue m, log) (QOp.add 0)
        = some ((zeroQueue (m + 1), log), QRes.added (m + 1)) := by
      simp [runOp, ha]
    have ih1 := ih (m + 1) log rest (by omega)
    have e1 : m + 1 + k = m + (k + 1) := by omega
    rw [e1] at ih1
    rw [List.replicate_succ, List.cons_append]
    simp only [runOps, hop, ih1]
    cases h : runOps rest (zeroQueue (m + (k + 1)), log) <;> simp [zeroRecs]

theorem zeroTimers_all_due (n : Nat) :
    (zeroTimers n).takeWhile (Timer.due 0) = zeroTimers n ∧
    (zeroTimers n).dropWhile (Timer.due 0) = [] := by
  have hall : ∀ t ∈ zeroTimers n, Timer.due 0 t = true := by
    intro t ht
    obtain ⟨k, _, rfl⟩ := List.mem_map.1 ht
    rfl
  constructor
  · rw [List.takeWhile_eq_self_iff]
    exact hall
  · rw [List.dropWhile_eq_nil_iff]
    exact hall

theorem zeroTimers_ids (n : Nat) :
    (zeroTimers n).map Timer.seq_id = (List.range n).map (fun k => k + 1) := by
  simp [zeroTimers, List.map_map, Function.comp_def]

theorem countsMatch_zeroRecs (m n : Nat) (tr : List (QOp × QRes)) :
    countsMatch (zeroRecs m n ++ tr) = countsMatch tr := by
  induction n generalizing m with
  | zero => rfl
  | succ k ih => simpa [zeroRecs, countsMatch] using ih (m + 1)

theorem firedCalls_zeroRecs (m n : Nat) (tr : List (QOp × QRes)) :
    firedCalls (zeroRecs m n ++ tr) = firedCalls tr := by
  induction n generalizing m with
  | zero => rfl
  | succ k ih => simpa [zeroRecs, firedCalls] using ih (m + 1)

theorem wrap_run (n : Nat) (h1 : 1 ≤ n) (hN : n + 1 = UINT64_MOD) :
    (runOps (List.replicate n (QOp.add 0) ++ [QOp.timeOut 0, QOp.add 0, QOp.timeOut 0])
        (TimeoutQueue.empty Nat, [])).map
      (fun r => (countsMatch r.2, (firedIds r.2).count 1))
      = some (decide (n % UINT32_MOD = n), 2) := by
  have h0 : (TimeoutQueue.empty Nat, ([] : List (Nat × Nat))) = (zeroQueue 0, []) := by
    simp [TimeoutQueue.empty, zeroQueue, zeroTimers, zeroIndex]
  rw [h0, runOps_zero_adds n 0 [] _ (by omega), Nat.zero_add]
  -- the first `TimeOut(0)` fires every timer
  obtain ⟨htk, hdr⟩ := zeroTimers_all_due n
  have hlen : (zeroTimers n).length = n := by simp [zeroTimers]
  have hl := TimeOut_plain_loop 0 ((zeroQueue n).timer_queue_.length + 1) (zeroQueue n) [] 0
    (by intro t ht; obtain ⟨k, _, rfl⟩ := List.mem_map.1 ht; rfl) (Nat.lt_succ_self _)
    (by decide)
  have hq : (zeroQueue n).timer_queue_ = zeroTimers n := rfl
  rw [hq, htk, hdr, hlen, Nat.zero_add, List.nil_append] at hl
  have hop1 : runOp (zeroQueue n, []) (QOp.timeOut 0) = some
      (({ timer_queue_ := [],
          timer_id_index_ := eraseIds ((zeroTimers n).map Timer.seq_id) (zeroIndex n),
          base_id_ := n }, (zeroTimers n).map Timer.call),
        QRes.fired (n % UINT32_MOD) ((zeroTimers n).map Timer.call)) := by
    simp only [runOp, TimeOutPlain, hq, hlen]
    rw [hl]
    simp [zeroQueue]
  -- the next `Add` wraps the id counter and hands out id 1 again
  have hmem1 : 1 ∈ (zeroTimers n).map Timer.seq_id := by
    rw [zeroTimers_ids]
    exact List.mem_map.2 ⟨0, List.mem_range.2 (by omega), rfl⟩
  have hc : mapContains 1 (eraseIds ((zeroTimers n).map Timer.seq_id) (zeroIndex n)) = false := by
    rw [mapContains_eq_false, mapFind_eraseIds]
    simp [hmem1]
  have hadd : (TimeoutQueue.mk ([] : List (Timer Nat))
        (eraseIds ((zeroTimers n).map Timer.seq_id) (zeroIndex n)) n).Add 0 0 0
      = ({ timer_queue_ := [Timer.mk 1 0 0 0],
           timer_id_index_ := (1, 0) :: eraseIds ((zeroTimers n).map Timer.seq_id) (zeroIndex n),
           base_id_ := 1 }, 1) := by
    have hg : (n + 1) % UINT64_MOD = 0 := by rw [hN]; exact Nat.mod_self _
    have h1m : (0 + 1) % UINT64_MOD = 1 := by decide
    simp [TimeoutQueue.Add, TimeoutQueue.GenerateID, hg, h1m, mapEmplace, hc, setEmplace]
  have hop2 : runOp (TimeoutQueue.mk ([] : List (Timer Nat))
        (eraseIds ((zeroTimers n).map Timer.seq_id) (zeroIndex n)) n,
        (zeroTimers n).map Timer.call) (QOp.add 0)
      = some ((TimeoutQueue.mk [Timer.mk 1 0 0 0]
           ((1, 0) :: eraseIds ((zeroTimers n).map Timer.seq_id) (zeroIndex n)) 1,
           (zeroTimers n).map Timer.call), QRes.added 1) := by
    simp only [runOp, hadd]
  -- the second `TimeOut(0)` invokes the task of id 1 a second time
  have hop3 : runOp (TimeoutQueue.mk [Timer.mk 1 0 0 0]
        ((1, 0) :: eraseIds ((zeroTimers n).map Timer.seq_id) (zeroIndex n)) 1,
        (zeroTimers n).map Timer.call) (QOp.timeOut 0)
      = some ((TimeoutQueue.mk []
           (mapErase 1 ((1, 0) :: eraseIds ((zeroTimers n).map Timer.seq_id) (zeroIndex n))) 1,
           (zeroTimers n).map Timer.call ++ [(0, 1)]),
          QRes.fired 1 [(0, 1)]) := by
    have h1m : (0 + 1) % UINT32_MOD = 1 := by decide
    simp [runOp, TimeOutPlain, TimeoutQueue.TimeOut, TimeoutQueue.popFront, plainRun, h1m]
  simp only [runOps, hop1, hop2, hop3, Option.map_some']
  rw [countsMatch_zeroRecs]
  simp only [firedIds, firedCalls_zeroRecs]
  simp only [countsMatch, firedCalls, List.length_map, hlen, List.append_nil, List.map_append,
    map_call_snd, List.map_cons, List.map_nil, decide_True, Bool.and_true, List.length_cons,
    List.length_nil]
  have hc1 : ((zeroTimers n).map Timer.seq_id).count 1 = 1 := by
    rw [zeroTimers_ids]
    apply List.count_eq_one_of_mem
    · exact (List.nodup_range n).map (fun a b h => by simpa using h)
    · exact List.mem_map.2 ⟨0, List.mem_range.2 (by omega), rfl⟩
  rw [List.count_append, hc1]
  simp

theorem countsMatch_of_mod (tr : List (QOp × QRes)) (h1 : countsMatchMod tr = true)
    (h2 : (firedCalls tr).length < UINT32_MOD) : countsMatch tr = true := by
  induction tr with
  | nil => rfl
  | cons x tr ih =>
    obtain ⟨op, r⟩ := x
    cases r with
    | added i => exact ih h1 h2
    | cancelled ok => exact ih h1 h2
    | fired n calls =>
      simp only [countsMatchMod, Bool.and_eq_true, decide_eq_true_eq] at h1
      simp only [firedCalls, List.length_append] at h2
      simp only [countsMatch, Bool.and_eq_true, decide_eq_true_eq]
      refine ⟨?_, ih h1.2 (by omega)⟩
      rw [h1.1]
      exact Nat.mod_eq_of_lt (by omega)

/-! ## C2: which ids a sequence of calls fires -/

/-- C2 (amended).  For every sequence of `Add` (one-shot), `Cancel` and
`TimeOut` calls with fewer than `2^64` `Add` calls, made on a fresh
`TimeoutQueue` whose tasks do not touch the queue: every call returns; the
ids whose task was invoked are, as a multiset, the ids that were added, not
cancelled afterwards, and whose deadline is at most the `now` of a later
`TimeOut`; no id is invoked twice; and each `TimeOut` returns the number of
tasks it invoked modulo `2^32`, which is that number itself whenever fewer
than `2^32` tasks were invoked in all. -/
theorem C2_fired_ids_of_call_sequence (ops : List QOp) (h : countAdds ops < UINT64_MOD) :
    ∃ s tr, runOps ops (TimeoutQueue.empty Nat, []) = some (s, tr) ∧
      tr.map Prod.fst = ops ∧ s.2 = firedCalls tr ∧
      Multiset.ofList (firedIds tr) = Multiset.ofList (expectedFired tr) ∧
      (firedIds tr).Nodup ∧ countsMatchMod tr = true ∧
      ((firedCalls tr).length < UINT32_MOD → countsMatch tr = true) := by
  have li : LogInv (TimeoutQueue.empty Nat, ([] : List (Nat × Nat))) := by
    constructor
    · exact List.nodup_nil
    · intro i hi; simp at hi
  obtain ⟨s, tr, hrun, f⟩ := runOps_facts ops (TimeoutQueue.empty Nat, [])
    (oneShotWF_empty Nat) li (by simpa [TimeoutQueue.empty] using h)
  have hlog : s.2 = firedCalls tr := by simpa using f.log_eq
  refine ⟨s, tr, hrun, f.ops_eq, hlog, ?_, ?_, f.counts, countsMatch_of_mod tr f.counts⟩
  · apply Multiset.coe_eq_coe.2
    have := f.perm
    simpa [liveFired, TimeoutQueue.empty] using this
  · have := f.nodup
    rw [hlog] at this
    exact this

/-- C2, an instance of the amended statement: two timers, one of them
cancelled, a third added late with an earlier deadline. -/
theorem C2_fired_ids_of_call_sequence_witness :
    countAdds [QOp.add 100, QOp.add 200, QOp.timeOut 50, QOp.timeOut 100, QOp.add 30,
        QOp.cancel 2, QOp.timeOut 200, QOp.cancel 1] < UINT64_MOD ∧
    ∃ s tr, runOps [QOp.add 100, QOp.add 200, QOp.timeOut 50, QOp.timeOut 100, QOp.add 30,
        QOp.cancel 2, QOp.timeOut 200, QOp.cancel 1] (TimeoutQueue.empty Nat, [])
        = some (s, tr) ∧
      tr.map Prod.fst = [QOp.add 100, QOp.add 200, QOp.timeOut 50, QOp.timeOut 100, QOp.add 30,
        QOp.cancel 2, QOp.timeOut 200, QOp.cancel 1] ∧ s.2 = firedCalls tr ∧
      Multiset.ofList (firedIds tr) = Multiset.ofList (expectedFired tr) ∧
      (firedIds tr).Nodup ∧ countsMatchMod tr = true ∧
      ((firedCalls tr).length < UINT32_MOD → countsMatch tr = true) :=
  ⟨by decide, C2_fired_ids_of_call_sequence _ (by decide)⟩

/-- C2 fails as stated: after `2^64 - 1` calls `Add(task, 0)` on a fresh
queue, `TimeOut(0)` invokes `2^64 - 1` tasks and returns `2^32 - 1`; the next
`Add` wraps the id counter and hands out id 1 again, so that the next
`TimeOut(0)` invokes a task under id 1 a second time. -/
theorem C2_counterexample_counters_wrap :
    (runOps (List.replicate (2 ^ 64 - 1) (QOp.add 0)
          ++ [QOp.timeOut 0, QOp.add 0, QOp.timeOut 0])
        (TimeoutQueue.empty Nat, [])).map
      (fun r => (countsMatch r.2, (firedIds r.2).count 1))
      = some (false, 2) := by
  have h := wrap_run (2 ^ 64 - 1) (by norm_num) (by norm_num [UINT64_MOD])
  rw [h]
  have : decide ((2 ^ 64 - 1) % UINT32_MOD = 2 ^ 64 - 1) = false := by
    norm_num [UINT32_MOD]
  rw [this]

/-! ## C3: the order of invocations -/

theorem Awake_none (w : World) (seq : Nat) (rc : Int)
    (h : mapFind seq w.ctrl.context_cache_ = none) :
    ContextController.Awake w seq rc = (w, none) := by
  simp [ContextController.Awake, h]

theorem Awake_timeout_some (w : World) (seq p : Nat)
    (h : mapFind seq w.ctrl.context_cache_ = some p) :
    ContextController.Awake w seq RPC_TIME_OUT =
      (World.setClient
        { w with
          ctrl := { w.ctrl with context_cache_ := mapErase seq w.ctrl.context_cache_ }
          rpc_time_out_num := (w.rpc_time_out_num + 1) % UINT32_MOD }
        p { w.client p with ret_code := RPC_TIME_OUT, timer_id := 0 }, some p) := by
  simp [ContextController.Awake, h]

theorem runsOf_Run_other (w : World) (p q : Nat) (h : q ≠ p) :
    (Context.Run w q).runsOf p = w.runsOf p := by
  unfold Context.Run World.runsOf
  cases (w.client q).callback_ with
  | none => rfl
  | some sc => simp [List.filter_append, h]

theorem runsOf_Run_self (w : World) (p : Nat) (h : ((w.client p).callback_).isSome = true) :
    (Context.Run w p).runsOf p = w.runsOf p ++ [(p, (w.client p).ret_code)] := by
  unfold Context.Run World.runsOf
  cases hc : (w.client p).callback_ with
  | none => simp [hc] at h
  | some sc => simp [List.filter_append]

theorem Run_cache (w : World) (q : Nat) : (Context.Run w q).ctrl = w.ctrl := by
  unfold Context.Run
  cases (w.client q).callback_ <;> rfl

theorem Run_client (w : World) (q : Nat) : (Context.Run w q).client = w.client := by
  unfold Context.Run
  cases (w.client q).callback_ <;> rfl

theorem timeoutTask_queue (s a b : Nat) (w : World) :
    (ContextController.timeoutTask s a b w).ctrl.timeout_queue_ = w.ctrl.timeout_queue_ := by
  unfold ContextController.timeoutTask
  cases h : mapFind s w.ctrl.context_cache_ with
  | none => simp [Awake_none w s _ h]
  | some p => simp [Awake_timeout_some w s p h, Run_cache, World.setClient]

theorem timeoutTask_putQueue (s a b : Nat) (q : TimeoutQueue Nat) (w : World) :
    ContextController.timeoutTask s a b (World.putQueue q w) =
      World.putQueue q (ContextController.timeoutTask s a b w) := by
  unfold ContextController.timeoutTask
  cases h : mapFind s w.ctrl.context_cache_ with
  | none =>
    have h1 : mapFind s (World.putQueue q w).ctrl.context_cache_ = none := h
    simp [Awake_none _ s _ h1, Awake_none w s _ h]
  | some p =>
    have h1 : mapFind s (World.putQueue q w).ctrl.context_cache_ = some p := h
    simp only [Awake_timeout_some _ s p h1, Awake_timeout_some w s p h]
    unfold Context.Run World.setClient World.putQueue
    simp only [if_true]
    cases (w.client p).callback_ <;> rfl

theorem timeoutAll_putQueue (l : List Nat) (q : TimeoutQueue Nat) (w : World) :
    ContextController.timeoutAll l (World.putQueue q w) =
      World.putQueue q (ContextController.timeoutAll l w) := by
  induction l generalizing w with
  | nil => rfl
  | cons s ss ih =>
    simp only [ContextController.timeoutAll, timeoutTask_putQueue, ih]

theorem timeoutAll_queue (l : List Nat) (w : World) :
    (ContextController.timeoutAll l w).ctrl.timeout_queue_ = w.ctrl.timeout_queue_ := by
  induction l generalizing w with
  | nil => rfl
  | cons s ss ih =>
    simp only [ContextController.timeoutAll, ih, timeoutTask_queue]

theorem putQueue_putQueue (q1 q2 : TimeoutQueue Nat) (w : World) :
    World.putQueue q1 (World.putQueue q2 w) = World.putQueue q1 w := rfl

theorem timeoutTask_args (s a b : Nat) (w : World) :
    ContextController.timeoutTask s a b w = ContextController.timeoutTask s 0 0 w := rfl

theorem putQueue_self (w : World) : World.putQueue w.ctrl.timeout_queue_ w = w := rfl

theorem ProcTimeOut_loop (now : Nat) :
    ∀ (fuel : Nat) (q : TimeoutQueue Nat) (w : World) (count : Nat),
      (∀ t ∈ q.timer_queue_, t.interval_time = 0) →
      q.timer_queue_.length < fuel → count < UINT32_MOD →
      TimeoutQueue.TimeOut (fun w => w.ctrl.timeout_queue_) World.putQueue
          ContextController.timeoutTask now fuel (World.putQueue q w) count =
        some (World.putQueue
            { q with
              timer_queue_ := q.timer_queue_.dropWhile (Timer.due now)
              timer_id_index_ :=
                eraseIds ((q.timer_queue_.takeWhile (Timer.due now)).map Timer.seq_id)
                  q.timer_id_index_ }
            (ContextController.timeoutAll
              ((q.timer_queue_.takeWhile (Timer.due now)).map Timer.task) w),
          (count + (q.timer_queue_.takeWhile (Timer.due now)).length) % UINT32_MOD) := by
  intro fuel
  induction fuel with
  | zero => intro q w count _ h; simp at h
  | succ n ih =>
    intro q w count h1 h2 h3
    obtain ⟨tq, idx, b⟩ := q
    cases tq with
    | nil =>
      simp [TimeoutQueue.TimeOut, World.putQueue, eraseIds, ContextController.timeoutAll,
        Nat.mod_eq_of_lt h3]
    | cons t rest =>
      have hview : (World.putQueue (TimeoutQueue.mk (t :: rest) idx b) w).ctrl.timeout_queue_
          = TimeoutQueue.mk (t :: rest) idx b := rfl
      simp only [TimeoutQueue.TimeOut, hview]
      by_cases hd : t.expire_time > now
      · have hd2 : Timer.due now t = false := by simp [Timer.due]; omega
        simp [hd, List.takeWhile_cons, List.dropWhile_cons, hd2, eraseIds,
          ContextController.timeoutAll, Nat.mod_eq_of_lt h3]
      · have hd2 : Timer.due now t = true := by simp [Timer.due]; omega
        have h0 : t.interval_time = 0 := h1 t (List.mem_cons_self _ _)
        simp only [hd, if_false]
        rw [popFront_oneshot _ _ _ h0, putQueue_putQueue, timeoutTask_putQueue, timeoutTask_args]
        rw [ih _ _ _ (fun y hy => h1 y (List.mem_cons_of_mem _ hy))
          (by simpa using h2) (Nat.mod_lt _ (by decide))]
        simp [List.takeWhile_cons, List.dropWhile_cons, hd2, eraseIds,
          ContextController.timeoutAll, Nat.add_assoc, Nat.add_comm 1]

theorem rowLive_putQueue {w : World} {seq p cmd : Nat} {R : List (Nat × Int)}
    (h : RowLive w seq p cmd R) (q : TimeoutQueue Nat) : RowLive (World.putQueue q w) seq p cmd R :=
  ⟨h.row, h.only, h.cb, h.cmd_eq, h.runs_eq⟩

theorem rowDone_putQueue {w : World} {seq p : Nat} {R : List (Nat × Int)}
    (h : RowDone w seq p R) (q : TimeoutQueue Nat) : RowDone (World.putQueue q w) seq p R :=
  ⟨h.norow, h.noalias, h.runs_eq⟩

theorem timeoutTask_other_live {w : World} {seq p cmd : Nat} {R : List (Nat × Int)}
    (h : RowLive w seq p cmd R) (s a b : Nat) (hs : s ≠ seq) :
    RowLive (ContextController.timeoutTask s a b w) seq p cmd R := by
  unfold ContextController.timeoutTask
  cases hf : mapFind s w.ctrl.context_cache_ with
  | none => simpa [Awake_none w s _ hf] using h
  | some q =>
    have hq : q ≠ p := fun e => hs (h.only s (e ▸ hf))
    have hpq : ¬ p = q := fun e => hq e.symm
    have hseq : ¬ seq = s := fun e => hs e.symm
    simp only [Awake_timeout_some w s q hf]
    constructor
    · rw [Run_cache]
      simp only [World.setClient, mapFind_erase, hseq, if_false]
      exact h.row
    · intro k hk
      rw [Run_cache] at hk
      simp only [World.setClient, mapFind_erase] at hk
      by_cases hks : k = s
      · simp [hks] at hk
      · simp only [hks, if_false] at hk
        exact h.only k hk
    · rw [Run_client]
      simp only [World.setClient, hpq, if_false]
      exact h.cb
    · rw [Run_client]
      simp only [World.setClient, hpq, if_false]
      exact h.cmd_eq
    · rw [runsOf_Run_other _ _ _ hq]
      exact h.runs_eq

theorem timeoutTask_self_live {w : World} {seq p cmd : Nat} {R : List (Nat × Int)}
    (h : RowLive w seq p cmd R) (h0 : ∀ k, mapFind k w.ctrl.context_cache_ = some p → k = seq)
    (a b : Nat) :
    RowDone (ContextController.timeoutTask seq a b w) seq p (R ++ [(p, RPC_TIME_OUT)]) := by
  unfold ContextController.timeoutTask
  simp only [Awake_timeout_some w seq p h.row]
  constructor
  · rw [Run_cache]
    simp [World.setClient, mapFind_erase]
  · intro k hk
    rw [Run_cache] at hk
    simp only [World.setClient, mapFind_erase] at hk
    by_cases hks : k = seq
    · simp [hks] at hk
    · simp only [hks, if_false] at hk
      exact hks (h0 k hk)
  · rw [runsOf_Run_self]
    · have : (World.setClient
          { w with
            ctrl := { w.ctrl with context_cache_ := mapErase seq w.ctrl.context_cache_ }
            rpc_time_out_num := (w.rpc_time_out_num + 1) % UINT32_MOD }
          p { w.client p with ret_code := RPC_TIME_OUT, timer_id := 0 }).runsOf p = w.runsOf p :=
        rfl
      rw [this, h.runs_eq]
      simp [World.setClient]
    · simpa [World.setClient] using h.cb

theorem timeoutTask_done {w : World} {seq p : Nat} {R : List (Nat × Int)}
    (h : RowDone w seq p R) (s a b : Nat) :
    RowDone (ContextController.timeoutTask s a b w) seq p R := by
  unfold ContextController.timeoutTask
  cases hf : mapFind s w.ctrl.context_cache_ with
  | none => simpa [Awake_none w s _ hf] using h
  | some q =>
    have hq : q ≠ p := fun e => h.noalias s (e ▸ hf)
    simp only [Awake_timeout_some w s q hf]
    constructor
    · rw [Run_cache]
      simp only [World.setClient, mapFind_erase]
      by_cases hks : seq = s
      · simp [hks]
      · simp only [hks, if_false]
        exact h.norow
    · intro k hk
      rw [Run_cache] at hk
      simp only [World.setClient, mapFind_erase] at hk
      by_cases hks : k = s
      · simp [hks] at hk
      · simp only [hks, if_false] at hk
        exact h.noalias k hk
    · rw [runsOf_Run_other _ _ _ hq]
      exact h.runs_eq

theorem timeoutAll_done {seq p : Nat} {R : List (Nat × Int)} (l : List Nat) :
    ∀ w : World, RowDone w seq p R → RowDone (ContextController.timeoutAll l w) seq p R := by
  induction l with
  | nil => intro w h; exact h
  | cons s ss ih =>
    intro w h
    exact ih _ (timeoutTask_done h s 0 0)

theorem timeoutAll_live {seq p cmd : Nat} {R : List (Nat × Int)} (l : List Nat) :
    ∀ w : World, RowLive w seq p cmd R →
      (seq ∉ l → RowLive (ContextController.timeoutAll l w) seq p cmd R) ∧
      (seq ∈ l → RowDone (ContextController.timeoutAll l w) seq p (R ++ [(p, RPC_TIME_OUT)])) := by
  induction l with
  | nil =>
    intro w h
    exact ⟨fun _ => h, fun hm => by simp at hm⟩
  | cons s ss ih =>
    intro w h
    by_cases hs : s = seq
    · subst hs
      have hd := timeoutTask_self_live h h.only 0 0
      exact ⟨fun hn => absurd (List.mem_cons_self _ _) hn, fun _ => timeoutAll_done ss _ hd⟩
    · have hl := timeoutTask_other_live h s 0 0 hs
      obtain ⟨i1, i2⟩ := ih _ hl
      refine ⟨fun hn => i1 (fun hm => hn (List.mem_cons_of_mem _ hm)), fun hm => ?_⟩
      rcases List.mem_cons.1 hm with e | e
      · exact absurd e.symm hs
      · exact i2 e

theorem Add_wf {τ : Type} (q : TimeoutQueue τ) (task : τ) (e : Nat) (w : QueueWF q)
    (h : (q.Add task e 0).2 ≠ 0) :
    QueueWF (q.Add task e 0).1 ∧
    List.Perm (q.Add task e 0).1.timer_queue_
      (Timer.mk (q.Add task e 0).2 0 e task :: q.timer_queue_) ∧
    (∀ t ∈ q.timer_queue_, t.seq_id ≠ (q.Add task e 0).2) := by
  cases hc : mapContains q.GenerateID.2 q.timer_id_index_ with
  | true =>
    exfalso
    apply h
    simp [TimeoutQueue.Add, TimeoutQueue.GenerateID, mapEmplace] at hc ⊢
    simp [hc]
  | false =>
    have hf : mapFind q.GenerateID.2 q.timer_id_index_ = none := (mapContains_eq_false _ _).1 hc
    have hne : ∀ x ∈ q.timer_queue_, x.seq_id ≠ q.GenerateID.2 := by
      intro x hx hx1
      have := (w.index q.GenerateID.2 x.expire_time).2 ⟨x, hx, hx1, rfl⟩
      rw [hf] at this
      cases this
    have hok : (setEmplace (Timer.mk q.GenerateID.2 0 e task) q.timer_queue_).2 = true :=
      setEmplace_ok _ _ hne
    have hadd : q.Add task e 0 =
        ({ timer_queue_ := (setEmplace (Timer.mk q.GenerateID.2 0 e task) q.timer_queue_).1
           timer_id_index_ := (q.GenerateID.2, e) :: q.timer_id_index_
           base_id_ := q.GenerateID.1.base_id_ }, q.GenerateID.2) := by
      have hc1 : mapContains q.GenerateID.2 q.GenerateID.1.timer_id_index_ = false := hc
      have hok1 : (setEmplace (Timer.mk q.GenerateID.2 0 e task)
          q.GenerateID.1.timer_queue_).2 = true := hok
      simp only [TimeoutQueue.Add, mapEmplace, hc1]
      simp only [hok1]
      rfl
    have hperm := setEmplace_perm _ q.timer_queue_ hok
    rw [hadd]
    refine ⟨?_, hperm, hne⟩
    constructor
    · exact setEmplace_sorted _ _ w.sorted
    · intro i e1
      show mapFind i ((q.GenerateID.2, e) :: q.timer_id_index_) = some e1 ↔
        ∃ x ∈ (setEmplace (Timer.mk q.GenerateID.2 0 e task) q.timer_queue_).1,
          x.seq_id = i ∧ x.expire_time = e1
      rw [mapFind_cons]
      by_cases hi : i = q.GenerateID.2
      · subst hi
        simp only [if_true, Option.some.injEq]
        constructor
        · intro he
          exact ⟨_, hperm.symm.subset (List.mem_cons_self _ _), rfl, he⟩
        · rintro ⟨x, hx, h1, h2⟩
          rcases List.mem_cons.1 (hperm.subset hx) with h3 | h3
          · rw [← h2, h3]
          · exact absurd h1 (hne x h3)
      · have hi2 : ¬ q.GenerateID.2 = i := fun h => hi h.symm
        simp only [hi2, if_false]
        rw [w.index i e1]
        constructor
        · rintro ⟨x, hx, h1, h2⟩
          exact ⟨x, hperm.symm.subset (List.mem_cons_of_mem _ hx), h1, h2⟩
        · rintro ⟨x, hx, h1, h2⟩
          rcases List.mem_cons.1 (hperm.subset hx) with h3 | h3
          · exact absurd (by rw [← h1, h3]) hi
          · exact ⟨x, h3, h1, h2⟩
    · show ((setEmplace (Timer.mk q.GenerateID.2 0 e task) q.timer_queue_).1.map
        Timer.seq_id).Nodup
      have hp := hperm.map Timer.seq_id
      rw [hp.nodup_iff, List.map_cons, List.nodup_cons]
      refine ⟨?_, w.nodup⟩
      intro hm
      obtain ⟨x, hx, h1⟩ := List.mem_map.1 hm
      exact hne x hx h1
    · intro x hx
      rcases List.mem_cons.1 (hperm.subset hx) with h3 | h3
      · rw [h3]
      · exact w.oneshot x h3

theorem Awake_some (w : World) (seq p : Nat) (rc : Int)
    (h : mapFind seq w.ctrl.context_cache_ = some p) :
    (ContextController.Awake w seq rc).2 = some p ∧
    (ContextController.Awake w seq rc).1.ctrl.context_cache_
      = mapErase seq w.ctrl.context_cache_ ∧
    (ContextController.Awake w seq rc).1.client
      = (fun a => if a = p then { w.client p with ret_code := rc, timer_id := 0 }
          else w.client a) ∧
    (ContextController.Awake w seq rc).1.runs = w.runs ∧
    (ContextController.Awake w seq rc).1.ctrl.timeout_queue_
      = (if rc ≠ RPC_TIME_OUT then (w.ctrl.timeout_queue_.Cancel (w.client p).timer_id).1
          else w.ctrl.timeout_queue_) := by
  by_cases hrc : rc = RPC_TIME_OUT
  · simp [ContextController.Awake, h, hrc, World.setClient]
  · simp [ContextController.Awake, h, hrc, World.setClient, World.putQueue]

theorem DealResponse_done {w : World} {seq p : Nat} {R : List (Nat × Int)}
    (h : RowDone w seq p R) (rc : Int) (c : Nat) : DealResponse w seq rc c = w := by
  simp [DealResponse, Awake_none w seq rc h.norow]

theorem DealResponse_live {w : World} {seq p cmd : Nat} {R : List (Nat × Int)}
    (h : RowLive w seq p cmd R) (hq : QueueWF w.ctrl.timeout_queue_) (rc : Int) (c : Nat) :
    RowDone (DealResponse w seq rc c) seq p
        (R ++ [(p, if c ≠ cmd then RPC_SYS_ERR else rc)]) ∧
      QueueWF (DealResponse w seq rc c).ctrl.timeout_queue_ := by
  obtain ⟨a1, a2, a3, a4, a5⟩ := Awake_some w seq p rc h.row
  have hcmd : ((ContextController.Awake w seq rc).1.client p).cmd = cmd := by
    rw [a3]; simpa using h.cmd_eq
  have hcb : (((ContextController.Awake w seq rc).1.client p).callback_).isSome = true := by
    rw [a3]; simpa using h.cb
  have hret : ((ContextController.Awake w seq rc).1.client p).ret_code = rc := by
    rw [a3]; simp
  have hruns : (ContextController.Awake w seq rc).1.runsOf p = R := by
    unfold World.runsOf
    rw [a4]
    exact h.runs_eq
  have hqa : QueueWF (ContextController.Awake w seq rc).1.ctrl.timeout_queue_ := by
    rw [a5]
    by_cases hrc : rc = RPC_TIME_OUT
    · simpa [hrc] using hq
    · simp only [ne_eq, hrc, not_false_eq_true, if_true]
      exact (Cancel_wf _ _ hq).2.2.2
  have hcache : ∀ k, mapFind k (ContextController.Awake w seq rc).1.ctrl.context_cache_
      = if k = seq then none else mapFind k w.ctrl.context_cache_ := by
    intro k
    rw [a2, mapFind_erase]
  simp only [DealResponse, a1]
  by_cases hc : c = cmd
  · have e1 : ¬ c ≠ ((ContextController.Awake w seq rc).1.client p).cmd := by
      rw [hcmd]; simpa using hc
    have e2 : ¬ c ≠ cmd := by simpa using hc
    simp only [e1, e2, if_false]
    refine ⟨⟨?_, ?_, ?_⟩, ?_⟩
    · rw [Run_cache, hcache]; exact if_pos rfl
    · intro k hk
      rw [Run_cache, hcache] at hk
      by_cases hks : k = seq
      · simp [hks] at hk
      · simp only [hks, if_false] at hk
        exact hks (h.only k hk)
    · rw [runsOf_Run_self _ _ hcb, hruns, hret]
    · rw [Run_cache]; exact hqa
  · have e1 : c ≠ ((ContextController.Awake w seq rc).1.client p).cmd := by
      rw [hcmd]; exact hc
    have e2 : c ≠ cmd := hc
    rw [if_pos e1, if_pos e2]
    refine ⟨⟨?_, ?_, ?_⟩, ?_⟩
    · rw [Run_cache]
      show mapFind seq (ContextController.Awake w seq rc).1.ctrl.context_cache_ = none
      rw [hcache]; simp
    · intro k hk
      rw [Run_cache] at hk
      have hk1 : mapFind k (ContextController.Awake w seq rc).1.ctrl.context_cache_ = some p := hk
      rw [hcache] at hk1
      by_cases hks : k = seq
      · simp [hks] at hk1
      · simp only [hks, if_false] at hk1
        exact hks (h.only k hk1)
    · rw [runsOf_Run_self]
      · have : (World.setClient (ContextController.Awake w seq rc).1 p
            { (ContextController.Awake w seq rc).1.client p with ret_code := RPC_SYS_ERR }).runsOf p
            = (ContextController.Awake w seq rc).1.runsOf p := rfl
        rw [this, hruns]
        simp [World.setClient]
      · simpa [World.setClient] using hcb
    · rw [Run_cache]; exact hqa

theorem ProcTimeOut_wf (w : World) (now : Nat) (hq : QueueWF w.ctrl.timeout_queue_) :
    ∃ (q1 : TimeoutQueue Nat) (n : Nat),
      ContextController.ProcTimeOut w now (w.ctrl.timeout_queue_.timer_queue_.length + 1) =
        some (World.putQueue q1 (ContextController.timeoutAll
          ((w.ctrl.timeout_queue_.timer_queue_.filter (Timer.due now)).map Timer.task) w), n) ∧
      q1.timer_queue_ = w.ctrl.timeout_queue_.timer_queue_.filter (fun t => !Timer.due now t) ∧
      QueueWF q1 := by
  have hl := ProcTimeOut_loop now (w.ctrl.timeout_queue_.timer_queue_.length + 1)
    w.ctrl.timeout_queue_ w 0 hq.oneshot (Nat.lt_succ_self _) (by decide)
  obtain ⟨h1, h2⟩ := sorted_takeWhile_due now w.ctrl.timeout_queue_.timer_queue_ hq.sorted
  rw [h1, h2, putQueue_self] at hl
  exact ⟨_, _, hl, rfl, hq.drain now⟩

theorem done_events {seq p : Nat} {R : List (Nat × Int)} (evs : List CEvent) :
    ∀ w : World, RowDone w seq p R → QueueWF w.ctrl.timeout_queue_ →
      ∃ w2, runEvents seq evs w = some w2 ∧ RowDone w2 seq p R := by
  induction evs with
  | nil => intro w h _; exact ⟨w, rfl, h⟩
  | cons e evs ih =>
    intro w h hq
    cases e with
    | reply rc c =>
      simp only [runEvents, DealResponse_done h rc c]
      exact ih w h hq
    | procTimeOut now =>
      obtain ⟨q1, n, hp, _, hq1⟩ := ProcTimeOut_wf w now hq
      simp only [runEvents, hp]
      exact ih _ (rowDone_putQueue (timeoutAll_done _ w h) q1) hq1

theorem live_events {seq p cmd deadline : Nat} {R : List (Nat × Int)} (evs : List CEvent) :
    ∀ w : World, RowLive w seq p cmd R → QueueWF w.ctrl.timeout_queue_ →
      (∃ t ∈ w.ctrl.timeout_queue_.timer_queue_, t.task = seq ∧ t.expire_time = deadline) →
      (∀ t ∈ w.ctrl.timeout_queue_.timer_queue_, t.task = seq → t.expire_time = deadline) →
      ∃ w2, runEvents seq evs w = some w2 ∧
        w2.runsOf p = R ++ (match evs.find? (CEvent.ends deadline) with
          | none => []
          | some e => [(p, e.retCode cmd)]) ∧
        (evs.any (CEvent.ends deadline) = true → mapFind seq w2.ctrl.context_cache_ = none) := by
  induction evs with
  | nil =>
    intro w h _ _ _
    exact ⟨w, rfl, by simpa using h.runs_eq, fun hh => by simp at hh⟩
  | cons e evs ih =>
    intro w h hq hex hall
    cases e with
    | reply rc c =>
      obtain ⟨hd, hq1⟩ := DealResponse_live h hq rc c
      obtain ⟨w2, hr, hd2⟩ := done_events evs _ hd hq1
      refine ⟨w2, by simpa only [runEvents] using hr, ?_, fun _ => hd2.norow⟩
      rw [hd2.runs_eq]
      simp [List.find?, CEvent.ends, CEvent.retCode]
    | procTimeOut now =>
      obtain ⟨q1, n, hp, hq1e, hq1⟩ := ProcTimeOut_wf w now hq
      by_cases hd : deadline ≤ now
      · have hmem : seq ∈ (w.ctrl.timeout_queue_.timer_queue_.filter (Timer.due now)).map
            Timer.task := by
          obtain ⟨t, ht, h1, h2⟩ := hex
          refine List.mem_map.2 ⟨t, List.mem_filter.2 ⟨ht, ?_⟩, h1⟩
          simp only [Timer.due, h2, decide_eq_true_eq]
          exact hd
        have hdone := rowDone_putQueue ((timeoutAll_live _ w h).2 hmem) q1
        obtain ⟨w2, hr, hd2⟩ := done_events evs _ hdone hq1
        refine ⟨w2, by simpa only [runEvents, hp] using hr, ?_, fun _ => hd2.norow⟩
        rw [hd2.runs_eq]
        simp [List.find?, CEvent.ends, CEvent.retCode, hd]
      · have hnot : seq ∉ (w.ctrl.timeout_queue_.timer_queue_.filter (Timer.due now)).map
            Timer.task := by
          intro hm
          obtain ⟨t, ht, h1⟩ := List.mem_map.1 hm
          have hm1 := List.mem_filter.1 ht
          have h2 := hall t hm1.1 h1
          have : t.expire_time ≤ now := by simpa [Timer.due] using hm1.2
          omega
        have hlive := rowLive_putQueue ((timeoutAll_live _ w h).1 hnot) q1
        have hex1 : ∃ t ∈ (World.putQueue q1 (ContextController.timeoutAll
            ((w.ctrl.timeout_queue_.timer_queue_.filter (Timer.due now)).map Timer.task)
            w)).ctrl.timeout_queue_.timer_queue_, t.task = seq ∧ t.expire_time = deadline := by
          obtain ⟨t, ht, h1, h2⟩ := hex
          refine ⟨t, ?_, h1, h2⟩
          show t ∈ q1.timer_queue_
          rw [hq1e]
          refine List.mem_filter.2 ⟨ht, ?_⟩
          simp only [Timer.due, h2, Bool.not_eq_true', decide_eq_false_iff_not]
          exact hd
        have hall1 : ∀ t ∈ (World.putQueue q1 (ContextController.timeoutAll
            ((w.ctrl.timeout_queue_.timer_queue_.filter (Timer.due now)).map Timer.task)
            w)).ctrl.timeout_queue_.timer_queue_, t.task = seq → t.expire_time = deadline := by
          intro t ht
          have ht1 : t ∈ q1.timer_queue_ := ht
          rw [hq1e] at ht1
          exact hall t (List.mem_filter.1 ht1).1
        obtain ⟨w2, hr, hruns, hno⟩ := ih _ hlive hq1 hex1 hall1
        refine ⟨w2, by simpa only [runEvents, hp] using hr, ?_, ?_⟩
        · rw [hruns]
          simp [List.find?, CEvent.ends, hd]
        · intro hany
          apply hno
          simpa [List.any, CEvent.ends, hd] using hany

theorem Pending_success (w0 w1 : World) (now_ms gen_seq seq_id timeout p : Nat)
    (h : ContextController.Pending w0 now_ms gen_seq seq_id timeout p = some (w1, RPC_SUCCESS)) :
    (w0.ctrl.timeout_queue_.Add (pendingSeq seq_id gen_seq)
        (pendingDeadline now_ms timeout) 0).2 ≠ 0 ∧
    w1.ctrl.timeout_queue_ = (w0.ctrl.timeout_queue_.Add (pendingSeq seq_id gen_seq)
        (pendingDeadline now_ms timeout) 0).1 ∧
    mapFind (pendingSeq seq_id gen_seq) w0.ctrl.context_cache_ = none ∧
    w1.ctrl.context_cache_ = (pendingSeq seq_id gen_seq, p) :: w0.ctrl.context_cache_ ∧
    (w1.client p).timer_id = (w0.ctrl.timeout_queue_.Add (pendingSeq seq_id gen_seq)
        (pendingDeadline now_ms timeout) 0).2 % UINT32_MOD ∧
    ((w1.client p).callback_).isSome = true ∧
    (w1.client p).cmd = (w0.client p).cmd ∧
    w1.runs = w0.runs := by
  unfold ContextController.Pending at h
  have hne : RPC_SYS_ERR ≠ RPC_SUCCESS := by decide
  by_cases h1 : p = 0
  · simp [h1, hne] at h
  · simp only [h1, if_false] at h
    by_cases h2 : (w0.ctrl.timeout_queue_.Add (pendingSeq seq_id gen_seq)
        (pendingDeadline now_ms timeout) 0).2 = 0
    · exfalso
      simp only [pendingSeq, pendingDeadline] at h2
      simp [h2, hne] at h
    · have h2' := h2
      simp only [pendingSeq, pendingDeadline] at h2'
      simp only [h2', if_false] at h
      cases h3 : mapContains (pendingSeq seq_id gen_seq) w0.ctrl.context_cache_ with
      | true =>
        exfalso
        simp only [pendingSeq] at h3
        simp [mapEmplace, World.setClient, World.putQueue, h3, hne] at h
      | false =>
        have h3' := h3
        simp only [pendingSeq] at h3'
        simp only [mapEmplace, World.setClient, World.putQueue, h3'] at h
        by_cases h4 : w0.ctrl.use_coroutine_ = true
        · simp [h4] at h
        · simp only [h4] at h
          simp only [Bool.false_eq_true, Bool.true_eq_false, if_false, if_true,
            Option.some.injEq, Prod.mk.injEq, and_true] at h
          subst h
          refine ⟨h2, rfl, (mapContains_eq_false _ _).1 h3, rfl, ?_, ?_, ?_, rfl⟩
          · simp [pendingSeq, pendingDeadline]
          · simp
          · simp

theorem queueWF_empty (τ : Type) : QueueWF (TimeoutQueue.empty τ) :=
  (oneShotWF_empty τ).toQueueWF

/-! ## C1: the continuation of an outgoing RPC runs exactly once -/

/-- C1.  Let `Pending` register a call in callback mode (it returns
`RPC_SUCCESS`) on a controller whose timer queue is consistent, with a
`seq_id` that no live timer refers to and a client context that no row refers
to.  Then for every later sequence of replies carrying that `seq_id` and of
`ProcTimeOut` calls, every call returns and the continuation stored in the
client context has run exactly once if some event ended the wait (a reply, or
a `ProcTimeOut(now)` that reaches the deadline) and not at all otherwise: it
was run by the first such event, with the `ret_code` of that event, and
afterwards the table has no row for the `seq_id`, so that `Awake` returns
null and changes nothing. -/
theorem C1_continuation_runs_exactly_once (w0 : World)
    (now_ms gen_seq seq_id timeout p : Nat) (evs : List CEvent)
    (hq : QueueWF w0.ctrl.timeout_queue_)
    (hfresh : ∀ t ∈ w0.ctrl.timeout_queue_.timer_queue_, t.task ≠ pendingSeq seq_id gen_seq)
    (halias : ∀ k, mapFind k w0.ctrl.context_cache_ ≠ some p)
    (hp : (ContextController.Pending w0 now_ms gen_seq seq_id timeout p).map Prod.snd
      = some RPC_SUCCESS) :
    ∃ w1 w2, ContextController.Pending w0 now_ms gen_seq seq_id timeout p
        = some (w1, RPC_SUCCESS) ∧
      runEvents (pendingSeq seq_id gen_seq) evs w1 = some w2 ∧
      w2.runsOf p = w0.runsOf p ++
        (match evs.find? (CEvent.ends (pendingDeadline now_ms timeout)) with
          | none => []
          | some e => [(p, e.retCode (w0.client p).cmd)]) ∧
      (evs.any (CEvent.ends (pendingDeadline now_ms timeout)) = true →
        ∀ rc, ContextController.Awake w2 (pendingSeq seq_id gen_seq) rc = (w2, none)) := by
  cases hpe : ContextController.Pending w0 now_ms gen_seq seq_id timeout p with
  | none => simp [hpe] at hp
  | some r =>
    obtain ⟨w1, rc1⟩ := r
    have hrc : rc1 = RPC_SUCCESS := by simpa [hpe] using hp
    subst hrc
    obtain ⟨a1, a2, a3, a4, _, a6, a7, a8⟩ :=
      Pending_success w0 w1 now_ms gen_seq seq_id timeout p hpe
    obtain ⟨b1, b2, _⟩ := Add_wf w0.ctrl.timeout_queue_ (pendingSeq seq_id gen_seq)
      (pendingDeadline now_ms timeout) hq a1
    have hlive : RowLive w1 (pendingSeq seq_id gen_seq) p (w0.client p).cmd (w0.runsOf p) := by
      constructor
      · rw [a4, mapFind_cons]; simp
      · intro k hk
        rw [a4, mapFind_cons] at hk
        by_cases hks : pendingSeq seq_id gen_seq = k
        · exact hks.symm
        · simp only [hks, if_false] at hk
          exact absurd hk (halias k)
      · exact a6
      · exact a7
      · unfold World.runsOf; rw [a8]
    have hq1 : QueueWF w1.ctrl.timeout_queue_ := by rw [a2]; exact b1
    have hex : ∃ t ∈ w1.ctrl.timeout_queue_.timer_queue_,
        t.task = pendingSeq seq_id gen_seq ∧ t.expire_time = pendingDeadline now_ms timeout := by
      rw [a2]
      exact ⟨_, b2.symm.subset (List.mem_cons_self _ _), rfl, rfl⟩
    have hall : ∀ t ∈ w1.ctrl.timeout_queue_.timer_queue_,
        t.task = pendingSeq seq_id gen_seq → t.expire_time = pendingDeadline now_ms timeout := by
      rw [a2]
      intro t ht hts
      rcases List.mem_cons.1 (b2.subset ht) with h1 | h1
      · rw [h1]
      · exact absurd hts (hfresh t h1)
    obtain ⟨w2, hr, hruns, hno⟩ := live_events evs w1 hlive hq1 hex hall
    exact ⟨w1, w2, rfl, hr, hruns, fun hany rc => Awake_none w2 _ rc (hno hany)⟩

/-- C1, an instance: a call registered on a fresh controller with a timeout of
100 ms, then a `ProcTimeOut` before the deadline, the reply, a `ProcTimeOut`
after the deadline and a second reply. -/
theorem C1_continuation_runs_exactly_once_witness :
    QueueWF World.fresh.ctrl.timeout_queue_ ∧
    (∀ t ∈ World.fresh.ctrl.timeout_queue_.timer_queue_, t.task ≠ pendingSeq 7 555) ∧
    (∀ k, mapFind k World.fresh.ctrl.context_cache_ ≠ some 1) ∧
    (ContextController.Pending World.fresh 0 555 7 100 1).map Prod.snd = some RPC_SUCCESS ∧
    ∃ w1 w2, ContextController.Pending World.fresh 0 555 7 100 1 = some (w1, RPC_SUCCESS) ∧
      runEvents (pendingSeq 7 555)
        [CEvent.procTimeOut 50, CEvent.reply 0 0, CEvent.procTimeOut 100, CEvent.reply 0 0] w1
        = some w2 ∧
      w2.runsOf 1 = World.fresh.runsOf 1 ++
        (match [CEvent.procTimeOut 50, CEvent.reply 0 0, CEvent.procTimeOut 100,
            CEvent.reply 0 0].find? (CEvent.ends (pendingDeadline 0 100)) with
          | none => []
          | some e => [(1, e.retCode (World.fresh.client 1).cmd)]) ∧
      ([CEvent.procTimeOut 50, CEvent.reply 0 0, CEvent.procTimeOut 100,
            CEvent.reply 0 0].any (CEvent.ends (pendingDeadline 0 100)) = true →
        ∀ rc, ContextController.Awake w2 (pendingSeq 7 555) rc = (w2, none)) :=
  ⟨queueWF_empty Nat, by intro t ht; simp [World.fresh, TimeoutQueue.empty] at ht,
    by intro k; simp [World.fresh, mapFind], by decide,
    C1_continuation_runs_exactly_once World.fresh 0 555 7 100 1 _ (queueWF_empty Nat)
      (by intro t ht; simp [World.fresh, TimeoutQueue.empty] at ht)
      (by intro k; simp [World.fresh, mapFind]) (by decide)⟩

/-! ## C4: a reply cancels the timer of its call -/

theorem timeoutTask_other_client {w : World} {seq p cmd : Nat} {R : List (Nat × Int)}
    (h : RowLive w seq p cmd R) (s a b : Nat) (hs : s ≠ seq) :
    (ContextController.timeoutTask s a b w).client p = w.client p := by
  unfold ContextController.timeoutTask
  cases hf : mapFind s w.ctrl.context_cache_ with
  | none => simp [Awake_none w s _ hf]
  | some q =>
    have hq : q ≠ p := fun e => hs (h.only s (e ▸ hf))
    have hpq : ¬ p = q := fun e => hq e.symm
    simp only [Awake_timeout_some w s q hf, Run_client]
    simp [World.setClient, hpq]

theorem timeoutAll_client {seq p cmd : Nat} {R : List (Nat × Int)} (l : List Nat) :
    ∀ w : World, RowLive w seq p cmd R → seq ∉ l →
      (ContextController.timeoutAll l w).client p = w.client p := by
  induction l with
  | nil => intro w _ _; rfl
  | cons s ss ih =>
    intro w h hn
    have hs : s ≠ seq := fun e => hn (e ▸ List.mem_cons_self _ _)
    have h1 := ih _ (timeoutTask_other_live h s 0 0 hs)
      (fun hm => hn (List.mem_cons_of_mem _ hm))
    simp only [ContextController.timeoutAll]
    rw [h1, timeoutTask_other_client h s 0 0 hs]

theorem quiet_timeouts {seq p cmd : Nat} {R : List (Nat × Int)} (T : Timer Nat)
    (nows : List Nat) :
    ∀ w : World, RowLive w seq p cmd R → QueueWF w.ctrl.timeout_queue_ →
      T ∈ w.ctrl.timeout_queue_.timer_queue_ →
      (∀ t ∈ w.ctrl.timeout_queue_.timer_queue_, t.task = seq → t = T) →
      (∀ now ∈ nows, now < T.expire_time) →
      ∃ w2, runEvents seq (nows.map CEvent.procTimeOut) w = some w2 ∧
        RowLive w2 seq p cmd R ∧ QueueWF w2.ctrl.timeout_queue_ ∧
        T ∈ w2.ctrl.timeout_queue_.timer_queue_ ∧
        (∀ t ∈ w2.ctrl.timeout_queue_.timer_queue_, t.task = seq → t = T) ∧
        w2.client p = w.client p := by
  induction nows with
  | nil => intro w h hq hin hall _; exact ⟨w, rfl, h, hq, hin, hall, rfl⟩
  | cons now nows ih =>
    intro w h hq hin hall hlt
    obtain ⟨q1, n, hp, hq1e, hq1⟩ := ProcTimeOut_wf w now hq
    have hnow : now < T.expire_time := hlt now (List.mem_cons_self _ _)
    have hnot : seq ∉ (w.ctrl.timeout_queue_.timer_queue_.filter (Timer.due now)).map
        Timer.task := by
      intro hm
      obtain ⟨t, ht, h1⟩ := List.mem_map.1 hm
      have hm1 := List.mem_filter.1 ht
      have h2 := hall t hm1.1 h1
      have : t.expire_time ≤ now := by simpa [Timer.due] using hm1.2
      rw [h2] at this
      omega
    have hlive := rowLive_putQueue ((timeoutAll_live _ w h).1 hnot) q1
    have hin1 : T ∈ q1.timer_queue_ := by
      rw [hq1e]
      refine List.mem_filter.2 ⟨hin, ?_⟩
      simp only [Timer.due, Bool.not_eq_true', decide_eq_false_iff_not]
      omega
    have hall1 : ∀ t ∈ q1.timer_queue_, t.task = seq → t = T := by
      intro t ht
      rw [hq1e] at ht
      exact hall t (List.mem_filter.1 ht).1
    obtain ⟨w2, hr, c1, c2, c3, c4, c5⟩ := ih _ hlive hq1 hin1 hall1
      (fun x hx => hlt x (List.mem_cons_of_mem _ hx))
    refine ⟨w2, ?_, c1, c2, c3, c4, ?_⟩
    · simpa only [List.map_cons, runEvents, hp] using hr
    · rw [c5]
      exact timeoutAll_client _ w h hnot

/-- C4 (amended).  Let `Pending` register a call in callback mode on a
controller whose timer queue is consistent, with a `seq_id` that no live
timer refers to and a client context that no row refers to, and let the id of
the timer it armed be below `2^32`.  After any number of `ProcTimeOut` calls
that do not reach the deadline, `Awake(seq_id, ret_code)` with a `ret_code`
other than `RPC_TIME_OUT` returns the client context of the row, and
afterwards the timer is not live (`Exist` is false) and the queue holds no
timer for that `seq_id`. -/
theorem C4_reply_cancels_timer (w0 : World)
    (now_ms gen_seq seq_id timeout p : Nat) (nows : List Nat) (rc : Int)
    (hq : QueueWF w0.ctrl.timeout_queue_)
    (hfresh : ∀ t ∈ w0.ctrl.timeout_queue_.timer_queue_, t.task ≠ pendingSeq seq_id gen_seq)
    (halias : ∀ k, mapFind k w0.ctrl.context_cache_ ≠ some p)
    (hp : (ContextController.Pending w0 now_ms gen_seq seq_id timeout p).map Prod.snd
      = some RPC_SUCCESS)
    (htid : (w0.ctrl.timeout_queue_.Add (pendingSeq seq_id gen_seq)
      (pendingDeadline now_ms timeout) 0).2 < UINT32_MOD)
    (hnows : ∀ now ∈ nows, now < pendingDeadline now_ms timeout)
    (hrc : rc ≠ RPC_TIME_OUT) :
    ∃ w1 w2, ContextController.Pending w0 now_ms gen_seq seq_id timeout p
        = some (w1, RPC_SUCCESS) ∧
      runEvents (pendingSeq seq_id gen_seq) (nows.map CEvent.procTimeOut) w1 = some w2 ∧
      (ContextController.Awake w2 (pendingSeq seq_id gen_seq) rc).2 = some p ∧
      (ContextController.Awake w2 (pendingSeq seq_id gen_seq) rc).1.ctrl.timeout_queue_.Exist
        (w0.ctrl.timeout_queue_.Add (pendingSeq seq_id gen_seq)
          (pendingDeadline now_ms timeout) 0).2 = false ∧
      ∀ t ∈ (ContextController.Awake w2 (pendingSeq seq_id gen_seq)
          rc).1.ctrl.timeout_queue_.timer_queue_,
        t.task ≠ pendingSeq seq_id gen_seq := by
  cases hpe : ContextController.Pending w0 now_ms gen_seq seq_id timeout p with
  | none => simp [hpe] at hp
  | some r =>
    obtain ⟨w1, rc1⟩ := r
    have hrc1 : rc1 = RPC_SUCCESS := by simpa [hpe] using hp
    subst hrc1
    obtain ⟨a1, a2, a3, a4, a5, a6, a7, a8⟩ :=
      Pending_success w0 w1 now_ms gen_seq seq_id timeout p hpe
    obtain ⟨b1, b2, b3⟩ := Add_wf w0.ctrl.timeout_queue_ (pendingSeq seq_id gen_seq)
      (pendingDeadline now_ms timeout) hq a1
    have hlive : RowLive w1 (pendingSeq seq_id gen_seq) p (w0.client p).cmd (w0.runsOf p) := by
      constructor
      · rw [a4, mapFind_cons]; simp
      · intro k hk
        rw [a4, mapFind_cons] at hk
        by_cases hks : pendingSeq seq_id gen_seq = k
        · exact hks.symm
        · simp only [hks, if_false] at hk
          exact absurd hk (halias k)
      · exact a6
      · exact a7
      · unfold World.runsOf; rw [a8]
    have hq1 : QueueWF w1.ctrl.timeout_queue_ := by rw [a2]; exact b1
    obtain ⟨w2, hr, c1, c2, c3, c4, c5⟩ := quiet_timeouts
      (Timer.mk (w0.ctrl.timeout_queue_.Add (pendingSeq seq_id gen_seq)
        (pendingDeadline now_ms timeout) 0).2 0 (pendingDeadline now_ms timeout)
        (pendingSeq seq_id gen_seq)) nows w1 hlive hq1
      (by rw [a2]; exact b2.symm.subset (List.mem_cons_self _ _))
      (by
        rw [a2]
        intro t ht hts
        rcases List.mem_cons.1 (b2.subset ht) with h1 | h1
        · exact h1
        · exact absurd hts (hfresh t h1))
      hnows
    obtain ⟨d1, _, _, _, d5⟩ := Awake_some w2 (pendingSeq seq_id gen_seq) p rc c1.row
    have htimer : (w2.client p).timer_id = (w0.ctrl.timeout_queue_.Add
        (pendingSeq seq_id gen_seq) (pendingDeadline now_ms timeout) 0).2 := by
      rw [c5, a5]
      exact Nat.mod_eq_of_lt htid
    obtain ⟨_, e2, _, e4⟩ := Cancel_wf w2.ctrl.timeout_queue_ (w2.client p).timer_id c2
    have hqueue : (ContextController.Awake w2 (pendingSeq seq_id gen_seq)
        rc).1.ctrl.timeout_queue_ = (w2.ctrl.timeout_queue_.Cancel (w2.client p).timer_id).1 := by
      rw [d5]; simp [hrc]
    refine ⟨w1, w2, rfl, hr, d1, ?_, ?_⟩
    · rw [hqueue]
      unfold TimeoutQueue.Exist
      rw [mapContains_eq_false]
      cases hf : mapFind _ (w2.ctrl.timeout_queue_.Cancel (w2.client p).timer_id).1.timer_id_index_
        with
      | none => rfl
      | some e =>
        exfalso
        obtain ⟨t, ht, h1, _⟩ := (e4.index _ e).1 hf
        rw [e2] at ht
        have := (List.mem_filter.1 ht).2
        rw [htimer] at this
        simp [h1] at this
    · intro t ht hts
      rw [hqueue, e2] at ht
      have hm := List.mem_filter.1 ht
      have := c4 t hm.1 hts
      have h2 := hm.2
      rw [this, htimer] at h2
      simp at h2

/-- C4, an instance of the amended statement: a call registered on a fresh
controller, one `ProcTimeOut` before the deadline, then a successful reply. -/
theorem C4_reply_cancels_timer_witness :
    QueueWF World.fresh.ctrl.timeout_queue_ ∧
    (∀ t ∈ World.fresh.ctrl.timeout_queue_.timer_queue_, t.task ≠ pendingSeq 7 555) ∧
    (∀ k, mapFind k World.fresh.ctrl.context_cache_ ≠ some 1) ∧
    (ContextController.Pending World.fresh 0 555 7 100 1).map Prod.snd = some RPC_SUCCESS ∧
    (World.fresh.ctrl.timeout_queue_.Add (pendingSeq 7 555) (pendingDeadline 0 100) 0).2
      < UINT32_MOD ∧
    (∀ now ∈ [50], now < pendingDeadline 0 100) ∧
    (0 : Int) ≠ RPC_TIME_OUT ∧
    ∃ w1 w2, ContextController.Pending World.fresh 0 555 7 100 1 = some (w1, RPC_SUCCESS) ∧
      runEvents (pendingSeq 7 555) ([50].map CEvent.procTimeOut) w1 = some w2 ∧
      (ContextController.Awake w2 (pendingSeq 7 555) 0).2 = some 1 ∧
      (ContextController.Awake w2 (pendingSeq 7 555) 0).1.ctrl.timeout_queue_.Exist
        (World.fresh.ctrl.timeout_queue_.Add (pendingSeq 7 555) (pendingDeadline 0 100) 0).2
          = false ∧
      ∀ t ∈ (ContextController.Awake w2 (pendingSeq 7 555) 0).1.ctrl.timeout_queue_.timer_queue_,
        t.task ≠ pendingSeq 7 555 :=
  ⟨queueWF_empty Nat, by intro t ht; simp [World.fresh, TimeoutQueue.empty] at ht,
    by intro k; simp [World.fresh, mapFind], by decide, by decide, by decide, by decide,
    C4_reply_cancels_timer World.fresh 0 555 7 100 1 [50] 0 (queueWF_empty Nat)
      (by intro t ht; simp [World.fresh, TimeoutQueue.empty] at ht)
      (by intro k; simp [World.fresh, mapFind]) (by decide) (by decide) (by decide)
      (by decide)⟩

/-- C4 fails as stated for `ret_code = RPC_TIME_OUT`: after `Pending` on a
fresh controller (the timer gets id 1), `Awake(7, -3)` returns the client
context of the row, yet the timer is still live and a later
`ProcTimeOut(100)` fires it. -/
theorem C4_counterexample_timeout_ret_code :
    (ContextController.Pending World.fresh 0 555 7 100 1).map
      (fun r =>
        ((ContextController.Awake r.1 7 RPC_TIME_OUT).2,
         (ContextController.Awake r.1 7 RPC_TIME_OUT).1.ctrl.timeout_queue_.Exist 1,
         (ContextController.ProcTimeOut (ContextController.Awake r.1 7 RPC_TIME_OUT).1
            100 2).map Prod.snd))
      = some (some 1, true, some 1) := by
  decide

/-! ## C5, C6: adaptive flow control -/

theorem CheckOption_range (option : SvrOption) (h : CheckOption option = true) :
    option.flow_ctrl.min_num ≤ option.flow_ctrl.max_deal_pkg_num ∧
    option.flow_ctrl.max_deal_pkg_num ≤ option.flow_ctrl.max_num := by
  unfold CheckOption at h
  split_ifs at h with h1 h2 h3 h4
  omega

theorem AdjustParam_no_overflow (f : FlowControl) (remain_ms used_ms : Nat)
    (hr : f.min_num ≤ f.max_deal_pkg_num ∧ f.max_deal_pkg_num ≤ f.max_num)
    (h1 : f.min_num + f.dec_delta < UINT32_MOD)
    (h2 : f.max_deal_pkg_num + f.inc_delta < UINT32_MOD)
    (h3 : f.judge_range_ms * 2 < UINT32_MOD)
    (h4 : remain_ms + f.judge_range_ms < UINT64_MOD)
    (h5 : used_ms + f.judge_range_ms * 2 < UINT64_MOD) :
    (AdjustParam f remain_ms used_ms).max_deal_pkg_num = adjustClaimed f remain_ms used_ms ∧
    f.min_num ≤ (AdjustParam f remain_ms used_ms).max_deal_pkg_num ∧
    (AdjustParam f remain_ms used_ms).max_deal_pkg_num ≤ f.max_num := by
  have hM : UINT32_MOD = 4294967296 := by decide
  unfold AdjustParam adjustClaimed
  rw [Nat.mod_eq_of_lt h4, Nat.mod_eq_of_lt h1, Nat.mod_eq_of_lt h2, Nat.mod_eq_of_lt h3,
    Nat.mod_eq_of_lt h5]
  have e2 : 2 * f.judge_range_ms = f.judge_range_ms * 2 := Nat.mul_comm _ _
  rw [e2]
  by_cases c1 : used_ms > remain_ms + f.judge_range_ms
  · simp only [c1, if_true]
    by_cases c2 : f.max_deal_pkg_num > f.min_num + f.dec_delta
    · simp only [c2, if_true]
      have e : (f.max_deal_pkg_num + UINT32_MOD - f.dec_delta) % UINT32_MOD
          = f.max_deal_pkg_num - f.dec_delta := by
        have : f.max_deal_pkg_num + UINT32_MOD - f.dec_delta
            = (f.max_deal_pkg_num - f.dec_delta) + UINT32_MOD := by omega
        rw [this, Nat.add_mod_right]
        exact Nat.mod_eq_of_lt (by omega)
      rw [e]
      omega
    · simp only [c2, if_false]
      by_cases c3 : f.max_deal_pkg_num > f.min_num
      · simp only [c3, if_true]; omega
      · simp only [c3, if_false]; omega
  · simp only [c1, if_false]
    by_cases c4 : used_ms + f.judge_range_ms * 2 < remain_ms
    · simp only [c4, if_true]
      by_cases c5 : f.max_deal_pkg_num + f.inc_delta < f.max_num
      · simp only [c5, if_true]; omega
      · simp only [c5, if_false]
        by_cases c6 : f.max_deal_pkg_num < f.max_num
        · simp only [c6, if_true]; omega
        · simp only [c6, if_false]; omega
    · simp only [c4, if_false]
      exact ⟨trivial, hr⟩

/-- C5 at the options of scenario 3: an overloaded tick takes
`max_deal_pkg_num` from 100 to 80 and an idle one from 80 to 85, as the claim
says; and at options with `dec_delta = 2^32 - 5` (and
`min_num <= max_deal_pkg_num <= max_num`) an overloaded tick takes it from 100
to 105, where the claim says `max(min_num, max_deal_pkg_num - dec_delta)`,
which is 10: the 32-bit sum `min_num + dec_delta` wraps to 5. -/
theorem C5_adjust_param_overflow :
    (AdjustParam scenarioFlow 1 20).max_deal_pkg_num = 80 ∧
    (AdjustParam (AdjustParam scenarioFlow 1 20) 10 0).max_deal_pkg_num = 85 ∧
    overflowFlow.InRange ∧
    overflowFlow.min_num ≤ overflowFlow.max_deal_pkg_num ∧
    overflowFlow.max_deal_pkg_num ≤ overflowFlow.max_num ∧
    20 > 1 + overflowFlow.judge_range_ms ∧
    (AdjustParam overflowFlow 1 20).max_deal_pkg_num = 105 ∧
    adjustClaimed overflowFlow 1 20 = 10 := by
  unfold FlowControl.InRange
  decide

/-- C6 at options that `CheckOption` accepts, with `dec_delta = 2^32 - 5`:
before the call `min_num <= max_deal_pkg_num <= max_num` holds, and one
`AdjustParam` call on an overloaded tick leaves `max_deal_pkg_num = 105`
above `max_num = 100`. -/
theorem C6_adjust_param_breaks_range :
    CheckOption { frame := { max_proc_ms := 10, max_ctx_proc_ms := 5, min_on_proc_ms := 1 },
                  flow_ctrl := overflowFlow } = true ∧
    overflowFlow.InRange ∧
    overflowFlow.min_num ≤ overflowFlow.max_deal_pkg_num ∧
    overflowFlow.max_deal_pkg_num ≤ overflowFlow.max_num ∧
    (AdjustParam overflowFlow 1 20).max_deal_pkg_num = 105 ∧
    ¬ ((AdjustParam overflowFlow 1 20).max_deal_pkg_num ≤ (AdjustParam overflowFlow 1 20).max_num)
    := by
  unfold FlowControl.InRange
  decide

/-! ## C7: the reply of an inbound request -/

theorem MethodFinish_sends_nothing (svc : PBService) (context : PBContext) (now i : Nat) :
    ((MethodFinish svc context now).1.transport_infos_ i).channel.sent
      = (svc.transport_infos_ i).channel.sent := by
  unfold MethodFinish
  simp only
  split_ifs with h1
  · show (if i = _ then _ else _ : TransportInfo).channel.sent = _
    split_ifs with h2
    · rw [h2]
    · rfl
  · rfl

/-- C7 at the request of scenario 1 (not ignored, no `DONT_RSP`, no
interceptor): `MethodFinish` writes the header of the reply into the send
codec (destination 5, `seq_id` 42, `cmd` 0x1001, `ret_code` 0, flags
`DONT_RSP | RSP`), and the channel has been handed no frame. -/
theorem C7_method_finish_sends_no_frame :
    echoContext.ignore = false ∧
    (echoContext.head.pkg_flag &&& FLAG_DONT_RSP) = 0 ∧
    (InterceptRsp echoService.rsp_intercepters echoContext).2 = false ∧
    ((MethodFinish echoService echoContext 3).1.transport_infos_ 0).send_codec
      = { src := 1, dst := 5, timeout := 0, gid := 7, seq_id := 42, cmd := 0x1001, ret_code := 0,
          flag := 3 } ∧
    ((MethodFinish echoService echoContext 3).1.transport_infos_ 0).channel.sent = [] := by
  decide

/-! ## The fixed pool: active list and reclaim stack -/

theorem linkedFront_self (link : Nat → Link) (i : Nat) (hi : i ≠ 0)
    (hn : (link 0).next ≠ i) : linkedFront link i i = { prev := 0, next := (link 0).next } := by
  unfold linkedFront setLink
  dsimp only
  split_ifs <;> first | rfl | cc

theorem linkedFront_next (link : Nat → Link) (i x : Nat) (hx : x ≠ i) (hx0 : x ≠ 0) :
    (linkedFront link i x).next = (link x).next := by
  unfold linkedFront setLink
  dsimp only
  split_ifs <;> first | rfl | cc

theorem linkedFront_prev (link : Nat → Link) (i x : Nat) (hx : x ≠ i)
    (hn : x ≠ (link 0).next) : (linkedFront link i x).prev = (link x).prev := by
  unfold linkedFront setLink
  dsimp only
  split_ifs <;> first | rfl | cc

theorem linkedFront_head_next (link : Nat → Link) (i : Nat) :
    (linkedFront link i 0).next = i := by
  simp [linkedFront, setLink]

theorem linkedFront_next_prev (link : Nat → Link) (i : Nat)
    (hn : (link 0).next ≠ i) : (linkedFront link i (link 0).next).prev = i := by
  unfold linkedFront setLink
  dsimp only
  split_ifs <;> first | rfl | cc

theorem unlinked_self (link : Nat → Link) (i m r : Nat) :
    unlinked link i m r i = { prev := m, next := r } := by
  simp [unlinked, setLink]

theorem unlinked_next (link : Nat → Link) (i m r x : Nat) (hx : x ≠ i) :
    (unlinked link i m r x).next
      = if x = (link i).prev then (link i).next else (link x).next := by
  unfold unlinked setLink
  dsimp only
  split_ifs <;> first | rfl | cc

theorem unlinked_prev (link : Nat → Link) (i m r x : Nat) (hx : x ≠ i) :
    (unlinked link i m r x).prev
      = if x = (link i).next then (link i).prev else (link x).prev := by
  unfold unlinked setLink
  dsimp only
  split_ifs <;> first | rfl | cc

theorem linkedFront_other (link : Nat → Link) (i x : Nat) (hx : x ≠ i) (hx0 : x ≠ 0)
    (hn : x ≠ (link 0).next) : linkedFront link i x = link x := by
  unfold linkedFront setLink
  dsimp only
  split_ifs <;> first | rfl | cc

theorem linkedFront_head_prev (link : Nat → Link) (i : Nat) (hn : (link 0).next = 0) :
    (linkedFront link i 0).prev = i := by
  unfold linkedFront setLink
  dsimp only
  split_ifs <;> first | rfl | cc

theorem unlinked_other (link : Nat → Link) (i m r x : Nat) (hx : x ≠ i)
    (hp : x ≠ (link i).prev) (hn : x ≠ (link i).next) : unlinked link i m r x = link x := by
  unfold unlinked setLink
  dsimp only
  split_ifs <;> first | rfl | cc

theorem chain_congr (link link2 : Nat → Link) (z : Nat) :
    ∀ (l : List Nat) (a : Nat), (∀ x ∈ a :: l, (link2 x).next = (link x).next) →
      (∀ x ∈ l ++ [z], (link2 x).prev = (link x).prev) →
      Chain link a l z → Chain link2 a l z := by
  intro l
  induction l with
  | nil =>
    intro a hn hp h
    exact ⟨(hn a (by simp)).trans h.1, (hp z (by simp)).trans h.2⟩
  | cons b l ih =>
    intro a hn hp h
    refine ⟨(hn a (by simp)).trans h.1, (hp b (by simp)).trans h.2.1, ?_⟩
    exact ih b (fun x hx => hn x (List.mem_cons_of_mem _ hx))
      (fun x hx => hp x (by simp only [List.cons_append]; exact List.mem_cons_of_mem _ hx)) h.2.2

theorem chain_prev_mem (link : Nat → Link) (z : Nat) :
    ∀ (l : List Nat) (a i : Nat), Chain link a l z → i ∈ l → (link i).prev ∈ a :: l := by
  intro l
  induction l with
  | nil => intro a i _ hi; simp at hi
  | cons b l ih =>
    intro a i h hi
    rcases List.mem_cons.1 hi with e | hi2
    · subst e
      rw [h.2.1]
      simp
    · exact List.mem_cons_of_mem _ (ih b i h.2.2 hi2)

theorem chain_next_mem (link : Nat → Link) (z : Nat) :
    ∀ (l : List Nat) (a i : Nat), Chain link a l z → i ∈ a :: l → (link i).next ∈ l ++ [z] := by
  intro l
  induction l with
  | nil =>
    intro a i h hi
    simp only [List.mem_singleton] at hi
    subst hi
    simp [h.1]
  | cons b l ih =>
    intro a i h hi
    rcases List.mem_cons.1 hi with e | hi2
    · subst e
      rw [h.1]
      simp
    · simp only [List.cons_append]
      exact List.mem_cons_of_mem _ (ih b i h.2.2 hi2)

theorem stack_congr (link link2 : Nat → Link) (m : Nat) :
    ∀ (F : List Nat) (r : Nat), (∀ x ∈ F, link2 x = link x) →
      Stack link m r F → Stack link2 m r F := by
  intro F
  induction F with
  | nil => intro r _ h; exact h
  | cons f fs ih =>
    intro r hx h
    have e : link2 f = link f := hx f (by simp)
    refine ⟨h.1, by rw [e]; exact h.2.1, ?_⟩
    rw [e]
    exact ih _ (fun x hx2 => hx x (List.mem_cons_of_mem _ hx2)) h.2.2

theorem stack_prev (link : Nat → Link) (m : Nat) :
    ∀ (F : List Nat) (r i : Nat), Stack link m r F → i ∈ F → (link i).prev = m := by
  intro F
  induction F with
  | nil => intro r i _ hi; simp at hi
  | cons f fs ih =>
    intro r i h hi
    rcases List.mem_cons.1 hi with e | hi2
    · subst e
      exact h.2.1
    · exact ih _ i h.2.2 hi2

theorem stack_top (link : Nat → Link) (m r : Nat) (F : List Nat) (h : Stack link m r F)
    (h0 : 0 ∉ F) : (r = 0 ∧ F = []) ∨ (r ≠ 0 ∧ ∃ fs, F = r :: fs ∧ (link r).prev = m ∧
      Stack link m (link r).next fs) := by
  cases F with
  | nil => exact Or.inl ⟨h, rfl⟩
  | cons f fs =>
    right
    have e : r = f := h.1
    subst e
    refine ⟨?_, fs, rfl, h.2.1, h.2.2⟩
    intro e0
    apply h0
    simp [e0]

theorem chain_alloc (link : Nat → Link) (L : List Nat) (i : Nat) (h : Chain link 0 L 0)
    (hi0 : i ≠ 0) (hiL : i ∉ L) (h0 : 0 ∉ L) (hnd : L.Nodup) :
    Chain (linkedFront link i) 0 (i :: L) 0 := by
  cases L with
  | nil =>
    have hn : (link 0).next = 0 := h.1
    have hne : (link 0).next ≠ i := by rw [hn]; exact fun e => hi0 e.symm
    refine ⟨linkedFront_head_next link i, ?_, ?_, linkedFront_head_prev link i hn⟩
    · rw [linkedFront_self link i hi0 hne]
    · rw [linkedFront_self link i hi0 hne]
      exact hn
  | cons b l =>
    have hn : (link 0).next = b := h.1
    have hib : i ≠ b := fun e => hiL (by simp [e])
    have hb0 : b ≠ 0 := fun e => h0 (by simp [e])
    have hne : (link 0).next ≠ i := by rw [hn]; exact fun e => hib e.symm
    have hbl : b ∉ l := (List.nodup_cons.1 hnd).1
    refine ⟨linkedFront_head_next link i, ?_, ?_, ?_, ?_⟩
    · rw [linkedFront_self link i hi0 hne]
    · rw [linkedFront_self link i hi0 hne]
      exact hn
    · have e := linkedFront_next_prev link i hne
      rw [hn] at e
      exact e
    · refine chain_congr link (linkedFront link i) 0 l b ?_ ?_ h.2.2
      · intro x hx
        refine linkedFront_next link i x ?_ ?_
        · intro e
          exact hiL (e ▸ hx)
        · intro e
          exact h0 (e ▸ hx)
      · intro x hx
        rcases List.mem_append.1 hx with hx1 | hx1
        · refine linkedFront_prev link i x ?_ ?_
          · intro e
            exact hiL (e ▸ List.mem_cons_of_mem _ hx1)
          · rw [hn]
            intro e
            exact hbl (e ▸ hx1)
        · simp only [List.mem_singleton] at hx1
          subst hx1
          refine linkedFront_prev link i 0 (fun e => hi0 e.symm) ?_
          rw [hn]
          exact fun e => hb0 e.symm

theorem chain_unlink (link : Nat → Link) (i m r z : Nat) :
    ∀ (l : List Nat) (a : Nat), Chain link a l z → i ∈ l → (a :: l).Nodup → z ∉ l →
      Chain (unlinked link i m r) a (l.erase i) z := by
  intro l
  induction l with
  | nil => intro a _ hi; simp at hi
  | cons b l ih =>
    intro a h hi hnd hz
    have hab : a ≠ b := fun e => (List.nodup_cons.1 hnd).1 (by simp [e])
    have hal : a ∉ l := fun e => (List.nodup_cons.1 hnd).1 (List.mem_cons_of_mem _ e)
    have hnd2 : (b :: l).Nodup := (List.nodup_cons.1 hnd).2
    have hbl : b ∉ l := (List.nodup_cons.1 hnd2).1
    have hzb : z ≠ b := fun e => hz (by simp [e])
    have hzl : z ∉ l := fun e => hz (List.mem_cons_of_mem _ e)
    by_cases e : b = i
    · subst e
      rw [List.erase_cons_head]
      cases l with
      | nil =>
        have h2 : (link b).next = z ∧ (link z).prev = b := h.2.2
        refine ⟨?_, ?_⟩
        · rw [unlinked_next link b m r a hab, h.2.1, if_pos rfl, h2.1]
        · rw [unlinked_prev link b m r z hzb, h2.1, if_pos rfl, h.2.1]
      | cons c l2 =>
        have h2 : (link b).next = c ∧ (link c).prev = b ∧ Chain link c l2 z := h.2.2
        have hcb : c ≠ b := fun e => hbl (by simp [e])
        have hac : a ≠ c := fun e => hal (by simp [e])
        refine ⟨?_, ?_, ?_⟩
        · rw [unlinked_next link b m r a hab, h.2.1, if_pos rfl, h2.1]
        · rw [unlinked_prev link b m r c hcb, h2.1, if_pos rfl, h.2.1]
        · refine chain_congr link _ z l2 c ?_ ?_ h2.2.2
          · intro x hx
            have hxb : x ≠ b := fun e => hbl (e ▸ hx)
            have hxa : x ≠ a := fun e => hal (e ▸ hx)
            rw [unlinked_next link b m r x hxb, h.2.1, if_neg hxa]
          · intro x hx
            have hxb : x ≠ b := by
              rcases List.mem_append.1 hx with hx1 | hx1
              · exact fun e => hbl (e ▸ List.mem_cons_of_mem _ hx1)
              · simp only [List.mem_singleton] at hx1
                rw [hx1]
                exact hzb
            have hxc : x ≠ c := by
              rcases List.mem_append.1 hx with hx1 | hx1
              · exact fun e => (List.nodup_cons.1 (List.nodup_cons.1 hnd2).2).1 (e ▸ hx1)
              · simp only [List.mem_singleton] at hx1
                rw [hx1]
                exact fun e => hzl (by simp [e])
            rw [unlinked_prev link b m r x hxb, h2.1, if_neg hxc]
    · have hil : i ∈ l := by
        rcases List.mem_cons.1 hi with e2 | e2
        · exact absurd e2.symm e
        · exact e2
      have hne : ¬ (b == i) = true := by simpa using e
      rw [List.erase_cons_tail hne]
      have hai : a ≠ i := fun e2 => hal (e2 ▸ hil)
      have hp : (link i).prev ∈ b :: l := chain_prev_mem link z l b i h.2.2 hil
      have hn : (link i).next ∈ l ++ [z] :=
        chain_next_mem link z l b i h.2.2 (List.mem_cons_of_mem _ hil)
      have hap : a ≠ (link i).prev := by
        intro e2
        rw [← e2] at hp
        rcases List.mem_cons.1 hp with e3 | e3
        · exact hab e3
        · exact hal e3
      have hbn : b ≠ (link i).next := by
        intro e2
        rw [← e2] at hn
        rcases List.mem_append.1 hn with e3 | e3
        · exact hbl e3
        · simp only [List.mem_singleton] at e3
          exact hzb e3.symm
      refine ⟨?_, ?_, ih b h.2.2 hil hnd2 hzl⟩
      · rw [unlinked_next link i m r a hai, if_neg hap, h.1]
      · rw [unlinked_prev link i m r b e, if_neg hbn, h.2.1]

theorem ptr_2_int_get_value (pool : FixedMemPool) (i : Nat) (hi : 1 ≤ i) (hi2 : i < UINT64_MOD)
    (ht : 0 < pool.m_header.t_size) : pool.ptr_2_int (pool.get_value i) = i := by
  unfold FixedMemPool.ptr_2_int FixedMemPool.get_value
  have e : pool.mem + pool.m_header.value_offset + (i - 1) * pool.m_header.t_size - pool.mem
      - pool.m_header.value_offset = (i - 1) * pool.m_header.t_size := by omega
  rw [e, if_neg (by omega), Nat.mul_mod_left, if_neg (by simp), Nat.mul_div_cancel _ ht,
    Nat.mod_eq_of_lt (by omega)]
  omega

theorem get_value_ptr_2_int (pool : FixedMemPool) (p : Nat) (hp : p < UINT64_MOD)
    (hm : 0 < pool.mem) (h : pool.ptr_2_int p ≠ 0) : pool.get_value (pool.ptr_2_int p) = p := by
  unfold FixedMemPool.ptr_2_int at h ⊢
  unfold FixedMemPool.get_value
  split_ifs at h ⊢ with h1 h2
  · exact absurd rfl h
  · exact absurd rfl h
  · have h3 : (p - pool.mem - pool.m_header.value_offset) % pool.m_header.t_size = 0 := by
      by_contra h4
      exact h2 h4
    have h4 : (p - pool.mem - pool.m_header.value_offset) / pool.m_header.t_size
        ≤ p - pool.mem - pool.m_header.value_offset := Nat.div_le_self _ _
    rw [Nat.mod_eq_of_lt (by omega), Nat.add_sub_cancel, Nat.div_mul_cancel (Nat.dvd_of_mod_eq_zero h3)]
    omega

theorem covered_le_length (L : List Nat) (n : Nat) (h : ∀ i, 1 ≤ i → i ≤ n → i ∈ L) :
    n ≤ L.length := by
  have h1 : Finset.Icc 1 n ⊆ L.toFinset := by
    intro x hx
    rw [Finset.mem_Icc] at hx
    exact List.mem_toFinset.2 (h x hx.1 hx.2)
  have h2 := Finset.card_le_card h1
  rw [Nat.card_Icc] at h2
  have h3 := List.toFinset_card_le L
  omega

theorem alloc_full (pool : FixedMemPool) (h : pool.full = true) : pool.alloc = (pool, none) := by
  simp [FixedMemPool.alloc, h]

theorem alloc_not_full (pool : FixedMemPool) (h : pool.full = false) :
    pool.alloc.2 = some (pool.get_value pool.allocIndex) ∧
    pool.alloc.1.link = linkedFront pool.link pool.allocIndex ∧
    pool.alloc.1.mem = pool.mem ∧
    pool.alloc.1.m_header.max_num = pool.m_header.max_num ∧
    pool.alloc.1.m_header.t_size = pool.m_header.t_size ∧
    pool.alloc.1.m_header.value_offset = pool.m_header.value_offset ∧
    pool.alloc.1.m_header.used_num = pool.m_header.used_num + 1 ∧
    pool.alloc.1.m_header.reclaim_list
      = (if pool.m_header.reclaim_list ≠ 0 then (pool.link pool.m_header.reclaim_list).next
          else pool.m_header.reclaim_list) ∧
    pool.alloc.1.m_header.raw_used_num
      = (if pool.m_header.reclaim_list ≠ 0 then pool.m_header.raw_used_num
          else pool.m_header.raw_used_num + 1) := by
  unfold FixedMemPool.alloc FixedMemPool.allocIndex linkedFront
  rw [if_neg (by simp [h])]
  dsimp only
  split_ifs <;> exact ⟨rfl, rfl, rfl, rfl, rfl, rfl, rfl, rfl, rfl⟩

theorem alloc_get_value (pool : FixedMemPool) (x : Nat) :
    pool.alloc.1.get_value x = pool.get_value x := by
  cases h : pool.full
  · have a := alloc_not_full pool h
    unfold FixedMemPool.get_value
    rw [a.2.2.1, a.2.2.2.2.1, a.2.2.2.2.2.1]
  · rw [alloc_full pool h]

theorem PoolInv.pos_of_mem {pool : FixedMemPool} {L F : List Nat} (h : PoolInv pool L F)
    {i : Nat} (hi : i ∈ L ∨ i ∈ F) : 1 ≤ i ∧ i ≤ pool.m_header.raw_used_num :=
  (h.cover i).2 hi

theorem PoolInv.zero_not_mem {pool : FixedMemPool} {L F : List Nat} (h : PoolInv pool L F) :
    0 ∉ L ∧ 0 ∉ F := by
  constructor
  · intro h0
    have := (h.pos_of_mem (Or.inl h0)).1
    omega
  · intro h0
    have := (h.pos_of_mem (Or.inr h0)).1
    omega

theorem alloc_inv (pool : FixedMemPool) (L F : List Nat) (h : PoolInv pool L F)
    (hf : pool.full = false) :
    pool.allocIndex ∉ L ∧ 1 ≤ pool.allocIndex ∧ pool.allocIndex ≤ pool.m_header.max_num ∧
      ∃ F2, PoolInv pool.alloc.1 (pool.allocIndex :: L) F2 := by
  have a := alloc_not_full pool hf
  have hz := h.zero_not_mem
  have hlt : pool.m_header.used_num < pool.m_header.max_num := by
    unfold FixedMemPool.full at hf
    simpa using hf
  have hLF : L.Nodup ∧ F.Nodup ∧ ∀ x, x ∈ L → x ∈ F → False := by
    have := List.nodup_append.1 h.nodup
    exact ⟨this.1, this.2.1, fun x h1 h2 => this.2.2 h1 h2⟩
  rcases stack_top pool.link _ _ F h.stack hz.2 with ⟨hr, hF⟩ | ⟨hr, fs, hF, _, hst⟩
  · have hidx : pool.allocIndex = pool.m_header.raw_used_num + 1 := by
      unfold FixedMemPool.allocIndex
      rw [if_neg (by simp [hr])]
    subst hF
    have hraw : pool.m_header.raw_used_num ≤ L.length :=
      covered_le_length L _ (fun i h1 h2 => by
        rcases (h.cover i).1 ⟨h1, h2⟩ with h3 | h3
        · exact h3
        · simp at h3)
    have huse := h.used
    have hnot : pool.allocIndex ∉ L := by
      intro hm
      have := (h.pos_of_mem (Or.inl hm)).2
      omega
    refine ⟨hnot, by omega, by omega, [], ?_⟩
    refine ⟨?_, ?_, ?_, ?_, ?_, ?_, ?_, ?_, ?_, ?_⟩
    · rw [a.2.2.2.1]; exact h.cap
    · rw [a.2.2.1]; exact h.mem_pos
    · rw [a.2.2.2.2.1]; exact h.ts
    · rw [a.2.2.2.2.2.2.1, List.length_cons, h.used]
    · rw [a.2.2.2.2.2.2.1, a.2.2.2.1]; omega
    · rw [a.2.2.2.2.2.2.2.2, a.2.2.2.1, if_neg (by simp [hr])]; omega
    · intro i
      rw [a.2.2.2.2.2.2.2.2, if_neg (by simp [hr]), hidx]
      have hc := h.cover i
      simp only [List.mem_cons, List.not_mem_nil, or_false] at hc ⊢
      constructor
      · intro h1
        by_cases e : i = pool.m_header.raw_used_num + 1
        · exact Or.inl e
        · exact Or.inr (hc.1 ⟨h1.1, by omega⟩)
      · rintro (e | e)
        · omega
        · have := hc.2 e
          omega
    · simp only [List.append_nil]
      exact List.nodup_cons.2 ⟨hnot, hLF.1⟩
    · rw [a.2.1]
      exact chain_alloc pool.link L _ h.chain (by omega) hnot hz.1 hLF.1
    · rw [a.2.2.2.2.2.2.2.1, if_neg (by simp [hr])]
      exact hr
  · have hidx : pool.allocIndex = pool.m_header.reclaim_list := by
      unfold FixedMemPool.allocIndex
      rw [if_pos hr]
    have hrF : pool.m_header.reclaim_list ∈ F := by rw [hF]; simp
    have hnot : pool.allocIndex ∉ L := by
      rw [hidx]
      exact fun hm => hLF.2.2 _ hm hrF
    have hpos := h.pos_of_mem (Or.inr hrF)
    have hraw := h.raw_le
    refine ⟨hnot, by omega, by omega, fs, ?_⟩
    have hnd : (pool.m_header.reclaim_list :: (L ++ fs)).Nodup := by
      have := h.nodup
      rw [hF] at this
      exact (List.perm_middle.nodup_iff).1 this
    refine ⟨?_, ?_, ?_, ?_, ?_, ?_, ?_, ?_, ?_, ?_⟩
    · rw [a.2.2.2.1]; exact h.cap
    · rw [a.2.2.1]; exact h.mem_pos
    · rw [a.2.2.2.2.1]; exact h.ts
    · rw [a.2.2.2.2.2.2.1, List.length_cons, h.used]
    · rw [a.2.2.2.2.2.2.1, a.2.2.2.1]; omega
    · rw [a.2.2.2.2.2.2.2.2, a.2.2.2.1, if_pos hr]; exact h.raw_le
    · intro i
      rw [a.2.2.2.2.2.2.2.2, if_pos hr, hidx, h.cover i, hF]
      simp only [List.mem_cons]
      tauto
    · rw [hidx]
      exact hnd
    · rw [a.2.1]
      exact chain_alloc pool.link L _ h.chain (by omega) hnot hz.1 hLF.1
    · rw [a.2.2.2.2.2.2.2.1, if_pos hr, a.2.1, a.2.2.2.1, hidx]
      refine stack_congr pool.link _ _ fs _ ?_ hst
      intro x hx
      have hxF : x ∈ F := by rw [hF]; exact List.mem_cons_of_mem _ hx
      have hx0 : x ≠ 0 := fun e => hz.2 (e ▸ hxF)
      have hxL : x ∉ L := fun e => hLF.2.2 x e hxF
      have hxr : x ≠ pool.m_header.reclaim_list := by
        intro e
        have := (List.nodup_cons.1 hnd).1
        exact this (List.mem_append.2 (Or.inr (e ▸ hx)))
      refine linkedFront_other pool.link _ x hxr hx0 ?_
      intro e
      have hn := chain_next_mem pool.link 0 L 0 0 h.chain (by simp)
      rw [← e] at hn
      rcases List.mem_append.1 hn with h1 | h1
      · exact hxL h1
      · simp only [List.mem_singleton] at h1
        exact hx0 h1

theorem free_fail (pool : FixedMemPool) (p : Nat) (h : (pool.free p).2 = false) :
    (pool.free p).1 = pool := by
  unfold FixedMemPool.free at h ⊢
  split_ifs at h ⊢ <;> rfl

theorem free_ok (pool : FixedMemPool) (p : Nat) (h : (pool.free p).2 = true) :
    (pool.free p).1.link = unlinked pool.link (pool.ptr_2_int p)
        ((pool.m_header.max_num + 1) % UINT64_MOD) pool.m_header.reclaim_list ∧
    (pool.free p).1.mem = pool.mem ∧
    (pool.free p).1.m_header.max_num = pool.m_header.max_num ∧
    (pool.free p).1.m_header.t_size = pool.m_header.t_size ∧
    (pool.free p).1.m_header.value_offset = pool.m_header.value_offset ∧
    (pool.free p).1.m_header.used_num = pool.m_header.used_num - 1 ∧
    (pool.free p).1.m_header.reclaim_list = pool.ptr_2_int p ∧
    (pool.free p).1.m_header.raw_used_num = pool.m_header.raw_used_num := by
  unfold FixedMemPool.free at h ⊢
  split_ifs at h ⊢
  exact ⟨rfl, rfl, rfl, rfl, rfl, rfl, rfl, rfl⟩

theorem free_get_value (pool : FixedMemPool) (p x : Nat) :
    (pool.free p).1.get_value x = pool.get_value x := by
  cases h : (pool.free p).2
  · rw [free_fail pool p h]
  · have a := free_ok pool p h
    unfold FixedMemPool.get_value
    rw [a.2.1, a.2.2.2.1, a.2.2.2.2.1]

theorem free_true_iff (pool : FixedMemPool) (L F : List Nat) (h : PoolInv pool L F) (p : Nat) :
    (pool.free p).2 = true ↔ pool.ptr_2_int p ∈ L := by
  have hLF : ∀ x, x ∈ L → x ∈ F → False := by
    have := List.nodup_append.1 h.nodup
    exact fun x h1 h2 => this.2.2 h1 h2
  have hraw := h.raw_le
  constructor
  · intro ht
    unfold FixedMemPool.free at ht
    split_ifs at ht with h1 h2 h3 h4
    rcases (h.cover (pool.ptr_2_int p)).1 ⟨by omega, by omega⟩ with h5 | h5
    · exact h5
    · have := stack_prev pool.link _ F _ _ h.stack h5
      omega
  · intro hm
    have hpos := h.pos_of_mem (Or.inl hm)
    have hprev := chain_prev_mem pool.link 0 L 0 _ h.chain hm
    have hle : (pool.link (pool.ptr_2_int p)).prev ≤ pool.m_header.max_num := by
      rcases List.mem_cons.1 hprev with e | e
      · omega
      · have := (h.pos_of_mem (Or.inl e)).2
        omega
    have hne : pool.isEmpty = false := by
      unfold FixedMemPool.isEmpty
      have := h.used
      have : 0 < L.length := List.length_pos_of_mem hm
      simp only [decide_eq_false_iff_not]
      omega
    unfold FixedMemPool.free
    rw [if_neg (by simp [hne]), if_neg (by omega), if_neg (by omega), if_neg (by omega)]

theorem free_inv (pool : FixedMemPool) (L F : List Nat) (h : PoolInv pool L F) (p : Nat)
    (hm : pool.ptr_2_int p ∈ L) :
    PoolInv (pool.free p).1 (L.erase (pool.ptr_2_int p)) (pool.ptr_2_int p :: F) := by
  have a := free_ok pool p ((free_true_iff pool L F h p).2 hm)
  have hz := h.zero_not_mem
  have hnd := List.nodup_append.1 h.nodup
  have hLF : ∀ x, x ∈ L → x ∈ F → False := fun x h1 h2 => hnd.2.2 h1 h2
  have hmark : (pool.m_header.max_num + 1) % UINT64_MOD = pool.m_header.max_num + 1 :=
    Nat.mod_eq_of_lt h.cap
  have hlen : 0 < L.length := List.length_pos_of_mem hm
  refine ⟨?_, ?_, ?_, ?_, ?_, ?_, ?_, ?_, ?_, ?_⟩
  · rw [a.2.2.1]; exact h.cap
  · rw [a.2.1]; exact h.mem_pos
  · rw [a.2.2.2.1]; exact h.ts
  · rw [a.2.2.2.2.2.1, List.length_erase_of_mem hm, h.used]
  · rw [a.2.2.2.2.2.1, a.2.2.1]
    have := h.used_le
    omega
  · rw [a.2.2.2.2.2.2.2, a.2.2.1]; exact h.raw_le
  · intro i
    rw [a.2.2.2.2.2.2.2, h.cover i]
    simp only [List.mem_cons]
    by_cases e : i = pool.ptr_2_int p
    · subst e
      simp [hm]
    · rw [List.mem_erase_of_ne e]
      simp [e]
  · have h1 : (pool.ptr_2_int p :: (L.erase (pool.ptr_2_int p) ++ F)).Nodup := by
      refine List.nodup_cons.2 ⟨?_, ?_⟩
      · intro hx
        rcases List.mem_append.1 hx with h2 | h2
        · exact (List.Nodup.not_mem_erase hnd.1) h2
        · exact hLF _ hm h2
      · exact List.nodup_append.2 ⟨hnd.1.erase _, hnd.2.1,
          fun x hx1 hx2 => hLF x (List.mem_of_mem_erase hx1) hx2⟩
    exact (List.perm_middle.nodup_iff).2 h1
  · rw [a.1]
    exact chain_unlink pool.link _ _ _ 0 L 0 h.chain hm (List.nodup_cons.2 ⟨hz.1, hnd.1⟩) hz.1
  · rw [a.1, a.2.2.2.2.2.2.1, a.2.2.1, hmark]
    refine ⟨rfl, ?_, ?_⟩
    · rw [unlinked_self]
    · rw [unlinked_self]
      refine stack_congr pool.link _ _ F _ ?_ h.stack
      intro x hx
      have hx0 : x ≠ 0 := fun e => hz.2 (e ▸ hx)
      have hxL : x ∉ L := fun e => hLF x e hx
      refine unlinked_other pool.link _ _ _ x (fun e => hxL (e ▸ hm)) ?_ ?_
      · intro e
        have hp := chain_prev_mem pool.link 0 L 0 _ h.chain hm
        rw [← e] at hp
        rcases List.mem_cons.1 hp with h2 | h2
        · exact hx0 h2
        · exact hxL h2
      · intro e
        have hn := chain_next_mem pool.link 0 L 0 _ h.chain (List.mem_cons_of_mem _ hm)
        rw [← e] at hn
        rcases List.mem_append.1 hn with h2 | h2
        · exact hxL h2
        · simp only [List.mem_singleton] at h2
          exact hx0 h2

theorem init_inv (region : FixedMemPool) (size max_node_num node_size sizeof_T : Nat)
    (hinit : (FixedMemPool.init region size max_node_num node_size sizeof_T false).1 = true)
    (hT : 1 ≤ sizeof_T) (hns : node_size + 7 < UINT64_MOD)
    (hN : max_node_num + 1 < UINT64_MOD) :
    PoolInv (FixedMemPool.init region size max_node_num node_size sizeof_T false).2 [] [] := by
  simp only [FixedMemPool.init, Bool.false_eq_true, if_false] at hinit ⊢
  split_ifs at hinit ⊢ with h1 h2 h3
  have hm : region.mem ≠ 0 := fun e => h1 (Or.inl e)
  have hn : sizeof_T ≤ node_size := by
    by_contra e
    exact h1 (Or.inr (by omega))
  refine ⟨hN, Nat.pos_of_ne_zero hm, ?_, rfl, Nat.zero_le _, Nat.zero_le _, ?_, List.nodup_nil,
    ⟨rfl, rfl⟩, rfl⟩
  · show 0 < align_bytes node_size
    unfold align_bytes BLOCK_ALIGN
    unfold UINT64_MOD at hns ⊢
    omega
  · intro i
    show (1 ≤ i ∧ i ≤ 0) ↔ _
    simp
    omega

theorem walk_zero (pool : FixedMemPool) (fuel : Nat) : pool.walk fuel 0 = some [] := by
  cases fuel <;> rfl

theorem walk_chain (pool : FixedMemPool) :
    ∀ (l : List Nat) (a fuel : Nat), Chain pool.link a l 0 → 0 ∉ l → l.length ≤ fuel →
      pool.walk fuel (pool.link a).next = some l := by
  intro l
  induction l with
  | nil =>
    intro a fuel h _ _
    rw [h.1]
    exact walk_zero pool fuel
  | cons b l ih =>
    intro a fuel h h0 hf
    rw [h.1]
    have hb : b ≠ 0 := fun e => h0 (by simp [e])
    obtain ⟨k, rfl⟩ := Nat.exists_eq_succ_of_ne_zero hb
    cases fuel with
    | zero => simp at hf
    | succ f =>
      show (pool.walk f (pool.link (k + 1)).next).map (fun l => (k + 1) :: l) = _
      rw [ih (k + 1) f h.2.2 (fun e => h0 (List.mem_cons_of_mem _ e))
        (by simp only [List.length_cons] at hf; omega)]
      rfl

theorem map_reverse_erase (f : Nat → Nat) :
    ∀ (L : List Nat) (i : Nat), L.Nodup → (∀ x ∈ L, ∀ y ∈ L, f x = f y → x = y) → i ∈ L →
      (L.reverse.map f).erase (f i) = (L.erase i).reverse.map f := by
  intro L
  induction L with
  | nil => intro i _ _ hi; simp at hi
  | cons b l ih =>
    intro i hnd hinj hi
    have hbl : b ∉ l := (List.nodup_cons.1 hnd).1
    rw [List.reverse_cons, List.map_append]
    by_cases e : b = i
    · subst e
      rw [List.erase_cons_head]
      have hnot : f b ∉ l.reverse.map f := by
        intro hm
        obtain ⟨x, hx, hfx⟩ := List.mem_map.1 hm
        have hxl : x ∈ l := List.mem_reverse.1 hx
        have := hinj x (List.mem_cons_of_mem _ hxl) b (by simp) hfx
        exact hbl (this ▸ hxl)
      rw [List.erase_append_right _ hnot]
      simp
    · have hil : i ∈ l := by
        rcases List.mem_cons.1 hi with e2 | e2
        · exact absurd e2.symm e
        · exact e2
      have hne : ¬ (b == i) = true := by simpa using e
      rw [List.erase_cons_tail hne, List.reverse_cons, List.map_append]
      have hin : f i ∈ l.reverse.map f :=
        List.mem_map.2 ⟨i, List.mem_reverse.2 hil, rfl⟩
      rw [List.erase_append_left _ hin,
        ih i (List.nodup_cons.1 hnd).2
          (fun x hx y hy => hinj x (List.mem_cons_of_mem _ hx) y (List.mem_cons_of_mem _ hy)) hil]

theorem PoolInv.get_value_inj {pool : FixedMemPool} {L F : List Nat} (h : PoolInv pool L F) :
    ∀ x ∈ L, ∀ y ∈ L, pool.get_value x = pool.get_value y → x = y := by
  intro x hx y hy e
  have hx1 := h.pos_of_mem (Or.inl hx)
  have hy1 := h.pos_of_mem (Or.inl hy)
  have hr := h.raw_le
  have hc := h.cap
  have e1 := ptr_2_int_get_value pool x hx1.1 (by omega) h.ts
  have e2 := ptr_2_int_get_value pool y hy1.1 (by omega) h.ts
  rw [← e1, ← e2, e]

theorem PoolInv.mem_outstanding {pool : FixedMemPool} {L F : List Nat} (h : PoolInv pool L F)
    (p : Nat) (hp : p < UINT64_MOD) :
    pool.ptr_2_int p ∈ L ↔ p ∈ L.reverse.map pool.get_value := by
  constructor
  · intro hm
    have h1 := (h.pos_of_mem (Or.inl hm)).1
    have e := get_value_ptr_2_int pool p hp h.mem_pos (by omega)
    exact List.mem_map.2 ⟨_, List.mem_reverse.2 hm, e⟩
  · intro hm
    obtain ⟨x, hx, hfx⟩ := List.mem_map.1 hm
    have hxl : x ∈ L := List.mem_reverse.1 hx
    have hx1 := h.pos_of_mem (Or.inl hxl)
    have hr := h.raw_le
    have hc := h.cap
    rw [← hfx, ptr_2_int_get_value pool x hx1.1 (by omega) h.ts]
    exact hxl

theorem runPool_inv :
    ∀ (ops : List POp) (pool : FixedMemPool) (L F : List Nat) (acc : List Nat),
      PoolInv pool L F → (∀ op ∈ ops, op.isPtr = true) → acc = L.reverse.map pool.get_value →
      ∃ L2 F2, PoolInv (runPool ops pool).1 L2 F2 ∧
        outstandingFrom acc (runPool ops pool).2
          = L2.reverse.map (runPool ops pool).1.get_value := by
  intro ops
  induction ops with
  | nil =>
    intro pool L F acc h _ hacc
    exact ⟨L, F, h, hacc⟩
  | cons op ops ih =>
    intro pool L F acc h hops hacc
    have hops2 : ∀ o ∈ ops, o.isPtr = true := fun o ho => hops o (List.mem_cons_of_mem _ ho)
    cases op with
    | alloc =>
      show ∃ L2 F2, PoolInv (runPool ops pool.alloc.1).1 L2 F2 ∧
        outstandingFrom acc ((POp.alloc, PRes.allocated pool.alloc.2) :: (runPool ops pool.alloc.1).2)
          = L2.reverse.map (runPool ops pool.alloc.1).1.get_value
      have hgv : pool.alloc.1.get_value = pool.get_value := funext (alloc_get_value pool)
      cases hf : pool.full
      · obtain ⟨_, _, _, F2, hinv⟩ := alloc_inv pool L F h hf
        rw [(alloc_not_full pool hf).1]
        refine ih pool.alloc.1 (pool.allocIndex :: L) F2 _ hinv hops2 ?_
        rw [hgv, hacc, List.reverse_cons, List.map_append]
        rfl
      · have e := alloc_full pool hf
        have e1 : pool.alloc.1 = pool := by rw [e]
        have e2 : pool.alloc.2 = none := by rw [e]
        rw [e2, e1]
        exact ih pool L F acc h hops2 hacc
    | free p =>
      show ∃ L2 F2, PoolInv (runPool ops (pool.free p).1).1 L2 F2 ∧
        outstandingFrom acc ((POp.free p, PRes.freed (pool.free p).2) :: (runPool ops (pool.free p).1).2)
          = L2.reverse.map (runPool ops (pool.free p).1).1.get_value
      have hgv : (pool.free p).1.get_value = pool.get_value := funext (free_get_value pool p)
      have hp : p < UINT64_MOD := by
        have := hops (POp.free p) (by simp)
        simpa [POp.isPtr] using this
      cases hf : (pool.free p).2
      · rw [free_fail pool p hf]
        exact ih pool L F acc h hops2 hacc
      · have hm : pool.ptr_2_int p ∈ L := (free_true_iff pool L F h p).1 hf
        have hinv := free_inv pool L F h p hm
        have h1 := (h.pos_of_mem (Or.inl hm)).1
        have e := get_value_ptr_2_int pool p hp h.mem_pos (by omega)
        refine ih (pool.free p).1 _ _ (acc.erase p) hinv hops2 ?_
        rw [hgv, hacc]
        nth_rewrite 1 [← e]
        exact map_reverse_erase pool.get_value L _ (List.nodup_append.1 h.nodup).1
          h.get_value_inj hm

theorem runPool_reachable (region : FixedMemPool) (size max_node_num node_size sizeof_T : Nat)
    (ops : List POp)
    (hinit : (FixedMemPool.init region size max_node_num node_size sizeof_T false).1 = true)
    (hT : 1 ≤ sizeof_T) (hns : node_size + 7 < UINT64_MOD)
    (hN : max_node_num + 1 < UINT64_MOD) (hops : ∀ op ∈ ops, op.isPtr = true) :
    ∃ L F, PoolInv (runPool ops
        (FixedMemPool.init region size max_node_num node_size sizeof_T false).2).1 L F ∧
      outstandingFrom [] (runPool ops
        (FixedMemPool.init region size max_node_num node_size sizeof_T false).2).2
        = L.reverse.map (runPool ops
          (FixedMemPool.init region size max_node_num node_size sizeof_T false).2).1.get_value :=
  runPool_inv ops _ [] [] [] (init_inv region size max_node_num node_size sizeof_T hinit hT hns hN)
    hops rfl

/-- C8: after any sequence of `alloc` and `free` calls on a freshly initialised
`FixedMemPool`, `size()` is the number of slots handed out by `alloc` and not
yet successfully freed, it is at most `capacity()`, and the next `alloc`
returns null exactly when `size()` equals `capacity()`. -/
theorem C8_size_counts_outstanding (region : FixedMemPool)
    (size max_node_num node_size sizeof_T : Nat) (ops : List POp)
    (hinit : (FixedMemPool.init region size max_node_num node_size sizeof_T false).1 = true)
    (hT : 1 ≤ sizeof_T) (hns : node_size + 7 < UINT64_MOD)
    (hN : max_node_num + 1 < UINT64_MOD) (hops : ∀ op ∈ ops, op.isPtr = true) :
    (runPool ops (FixedMemPool.init region size max_node_num node_size sizeof_T false).2).1.size
        = (outstandingFrom [] (runPool ops
            (FixedMemPool.init region size max_node_num node_size sizeof_T false).2).2).length ∧
      (runPool ops (FixedMemPool.init region size max_node_num node_size sizeof_T false).2).1.size
        ≤ (runPool ops
            (FixedMemPool.init region size max_node_num node_size sizeof_T false).2).1.capacity ∧
      ((runPool ops
          (FixedMemPool.init region size max_node_num node_size sizeof_T false).2).1.alloc.2 = none ↔
        (runPool ops (FixedMemPool.init region size max_node_num node_size sizeof_T false).2).1.size
          = (runPool ops
              (FixedMemPool.init region size max_node_num node_size sizeof_T false).2).1.capacity) := by
  obtain ⟨L, F, hinv, hout⟩ :=
    runPool_reachable region size max_node_num node_size sizeof_T ops hinit hT hns hN hops
  generalize (runPool ops
    (FixedMemPool.init region size max_node_num node_size sizeof_T false).2) = r at hinv hout ⊢
  have hle := hinv.used_le
  refine ⟨?_, hle, ?_⟩
  · rw [hout, List.length_map, List.length_reverse]
    exact hinv.used
  · unfold FixedMemPool.size FixedMemPool.capacity
    cases hf : r.1.full
    · rw [(alloc_not_full r.1 hf).1]
      unfold FixedMemPool.full at hf
      simp only [decide_eq_false_iff_not] at hf
      constructor
      · intro e
        exact absurd e (by simp)
      · intro e
        omega
    · rw [alloc_full r.1 hf]
      unfold FixedMemPool.full at hf
      simp only [decide_eq_true_eq] at hf
      constructor
      · intro _
        omega
      · intro _
        rfl

/-- C9 (amended): after any sequence of `alloc` and `free` calls on a freshly
initialised `FixedMemPool`, iterating from `begin()` to `end()` reaches
`end()` within `size()` steps and visits exactly the outstanding slots, each
once and no freed one, most recently allocated first: the reverse of the
order of allocation. -/
theorem C9_iteration_reverse_allocation_order (region : FixedMemPool)
    (size max_node_num node_size sizeof_T : Nat) (ops : List POp) (fuel : Nat)
    (hinit : (FixedMemPool.init region size max_node_num node_size sizeof_T false).1 = true)
    (hT : 1 ≤ sizeof_T) (hns : node_size + 7 < UINT64_MOD)
    (hN : max_node_num + 1 < UINT64_MOD) (hops : ∀ op ∈ ops, op.isPtr = true)
    (hfuel : (runPool ops
      (FixedMemPool.init region size max_node_num node_size sizeof_T false).2).1.size ≤ fuel) :
    (runPool ops
        (FixedMemPool.init region size max_node_num node_size sizeof_T false).2).1.iterate fuel
      = some (outstandingFrom [] (runPool ops
          (FixedMemPool.init region size max_node_num node_size sizeof_T false).2).2).reverse ∧
      (outstandingFrom [] (runPool ops
        (FixedMemPool.init region size max_node_num node_size sizeof_T false).2).2).Nodup := by
  obtain ⟨L, F, hinv, hout⟩ :=
    runPool_reachable region size max_node_num node_size sizeof_T ops hinit hT hns hN hops
  generalize (runPool ops
    (FixedMemPool.init region size max_node_num node_size sizeof_T false).2) = r
    at hinv hout hfuel ⊢
  have hL : L.Nodup := (List.nodup_append.1 hinv.nodup).1
  constructor
  · unfold FixedMemPool.iterate
    have hlen : L.length ≤ fuel := by
      have := hinv.used
      unfold FixedMemPool.size at hfuel
      omega
    rw [walk_chain r.1 L 0 fuel hinv.chain hinv.zero_not_mem.1 hlen, hout, ← List.map_reverse,
      List.reverse_reverse]
    rfl
  · rw [hout]
    exact List.Nodup.map_on
      (fun x hx y hy => hinv.get_value_inj x (List.mem_reverse.1 hx) y (List.mem_reverse.1 hy))
      (List.nodup_reverse.2 hL)

/-- C10: after any sequence of `alloc` and `free` calls on a freshly
initialised `FixedMemPool`, `free(p)` returns true exactly when `p` is the
address of an outstanding slot, and for every other pointer it leaves the
pool as it was. -/
theorem C10_free_true_iff_outstanding (region : FixedMemPool)
    (size max_node_num node_size sizeof_T : Nat) (ops : List POp) (p : Nat)
    (hinit : (FixedMemPool.init region size max_node_num node_size sizeof_T false).1 = true)
    (hT : 1 ≤ sizeof_T) (hns : node_size + 7 < UINT64_MOD)
    (hN : max_node_num + 1 < UINT64_MOD) (hops : ∀ op ∈ ops, op.isPtr = true)
    (hp : p < UINT64_MOD) :
    (((runPool ops
        (FixedMemPool.init region size max_node_num node_size sizeof_T false).2).1.free p).2 = true ↔
      p ∈ outstandingFrom [] (runPool ops
        (FixedMemPool.init region size max_node_num node_size sizeof_T false).2).2) ∧
    (p ∉ outstandingFrom [] (runPool ops
        (FixedMemPool.init region size max_node_num node_size sizeof_T false).2).2 →
      ((runPool ops
        (FixedMemPool.init region size max_node_num node_size sizeof_T false).2).1.free p).2 = false ∧
      ((runPool ops
        (FixedMemPool.init region size max_node_num node_size sizeof_T false).2).1.free p).1
        = (runPool ops
            (FixedMemPool.init region size max_node_num node_size sizeof_T false).2).1) := by
  obtain ⟨L, F, hinv, hout⟩ :=
    runPool_reachable region size max_node_num node_size sizeof_T ops hinit hT hns hN hops
  generalize (runPool ops
    (FixedMemPool.init region size max_node_num node_size sizeof_T false).2) = r at hinv hout ⊢
  have hiff : (r.1.free p).2 = true ↔ p ∈ outstandingFrom [] r.2 := by
    rw [hout, ← hinv.mem_outstanding p hp]
    exact free_true_iff r.1 L F hinv p
  refine ⟨hiff, ?_⟩
  intro hn
  have hf : (r.1.free p).2 = false := by
    cases h : (r.1.free p).2
    · rfl
    · exact absurd (hiff.1 h) hn
  exact ⟨hf, free_fail r.1 p hf⟩

/-- C8, an instance: a pool of five 4-byte slots in a 224-byte region, two
allocations, a free of the first slot, another allocation and a free of an
address outside the region. -/
theorem C8_size_counts_outstanding_witness :
    (FixedMemPool.init rawRegion 224 5 4 4 false).1 = true ∧
    (runPool [POp.alloc, POp.alloc, POp.free 4280, POp.alloc, POp.free 99]
        (FixedMemPool.init rawRegion 224 5 4 4 false).2).1.size
      = (outstandingFrom [] (runPool [POp.alloc, POp.alloc, POp.free 4280, POp.alloc, POp.free 99]
          (FixedMemPool.init rawRegion 224 5 4 4 false).2).2).length ∧
    (runPool [POp.alloc, POp.alloc, POp.free 4280, POp.alloc, POp.free 99]
        (FixedMemPool.init rawRegion 224 5 4 4 false).2).1.size
      ≤ (runPool [POp.alloc, POp.alloc, POp.free 4280, POp.alloc, POp.free 99]
          (FixedMemPool.init rawRegion 224 5 4 4 false).2).1.capacity ∧
    ((runPool [POp.alloc, POp.alloc, POp.free 4280, POp.alloc, POp.free 99]
        (FixedMemPool.init rawRegion 224 5 4 4 false).2).1.alloc.2 = none ↔
      (runPool [POp.alloc, POp.alloc, POp.free 4280, POp.alloc, POp.free 99]
        (FixedMemPool.init rawRegion 224 5 4 4 false).2).1.size
        = (runPool [POp.alloc, POp.alloc, POp.free 4280, POp.alloc, POp.free 99]
            (FixedMemPool.init rawRegion 224 5 4 4 false).2).1.capacity) :=
  ⟨by decide,
    C8_size_counts_outstanding rawRegion 224 5 4 4
      [POp.alloc, POp.alloc, POp.free 4280, POp.alloc, POp.free 99]
      (by decide) (by decide) (by decide) (by decide) (by decide)⟩

/-- C9, an instance of the amended statement: three allocations and a free of
the second slot; iteration with three steps of fuel. -/
theorem C9_iteration_reverse_allocation_order_witness :
    (FixedMemPool.init rawRegion 224 5 4 4 false).1 = true ∧
    (runPool [POp.alloc, POp.alloc, POp.alloc, POp.free 4288]
        (FixedMemPool.init rawRegion 224 5 4 4 false).2).1.size ≤ 3 ∧
    (runPool [POp.alloc, POp.alloc, POp.alloc, POp.free 4288]
        (FixedMemPool.init rawRegion 224 5 4 4 false).2).1.iterate 3
      = some (outstandingFrom [] (runPool [POp.alloc, POp.alloc, POp.alloc, POp.free 4288]
          (FixedMemPool.init rawRegion 224 5 4 4 false).2).2).reverse ∧
    (outstandingFrom [] (runPool [POp.alloc, POp.alloc, POp.alloc, POp.free 4288]
      (FixedMemPool.init rawRegion 224 5 4 4 false).2).2).Nodup :=
  ⟨by decide, by decide,
    C9_iteration_reverse_allocation_order rawRegion 224 5 4 4
      [POp.alloc, POp.alloc, POp.alloc, POp.free 4288] 3
      (by decide) (by decide) (by decide) (by decide) (by decide) (by decide)⟩

/-- C9 fails as stated: `alloc` links the new slot at the head of the active
list, so after two allocations on a fresh pool of five 4-byte slots (the
slots at 4280 and then 4288) iteration from `begin()` visits 4288 first and
4280 second, the reverse of the order of allocation. -/
theorem C9_counterexample_iteration_order :
    (FixedMemPool.init rawRegion 224 5 4 4 false).1 = true ∧
    (runPool [POp.alloc, POp.alloc] (FixedMemPool.init rawRegion 224 5 4 4 false).2).2
      = [(POp.alloc, PRes.allocated (some 4280)), (POp.alloc, PRes.allocated (some 4288))] ∧
    outstandingFrom [] (runPool [POp.alloc, POp.alloc]
      (FixedMemPool.init rawRegion 224 5 4 4 false).2).2 = [4280, 4288] ∧
    (runPool [POp.alloc, POp.alloc]
      (FixedMemPool.init rawRegion 224 5 4 4 false).2).1.iterate 2 = some [4288, 4280] ∧
    (runPool [POp.alloc, POp.alloc]
      (FixedMemPool.init rawRegion 224 5 4 4 false).2).1.iterate 2
      ≠ some (outstandingFrom [] (runPool [POp.alloc, POp.alloc]
          (FixedMemPool.init rawRegion 224 5 4 4 false).2).2) := by
  decide

/-- C10, an instance: after two allocations and a free of the first slot, a
second free of that slot (address 4280). -/
theorem C10_free_true_iff_outstanding_witness :
    (FixedMemPool.init rawRegion 224 5 4 4 false).1 = true ∧
    (((runPool [POp.alloc, POp.alloc, POp.free 4280]
        (FixedMemPool.init rawRegion 224 5 4 4 false).2).1.free 4280).2 = true ↔
      4280 ∈ outstandingFrom [] (runPool [POp.alloc, POp.alloc, POp.free 4280]
        (FixedMemPool.init rawRegion 224 5 4 4 false).2).2) ∧
    (4280 ∉ outstandingFrom [] (runPool [POp.alloc, POp.alloc, POp.free 4280]
        (FixedMemPool.init rawRegion 224 5 4 4 false).2).2 →
      ((runPool [POp.alloc, POp.alloc, POp.free 4280]
        (FixedMemPool.init rawRegion 224 5 4 4 false).2).1.free 4280).2 = false ∧
      ((runPool [POp.alloc, POp.alloc, POp.free 4280]
        (FixedMemPool.init rawRegion 224 5 4 4 false).2).1.free 4280).1
        = (runPool [POp.alloc, POp.alloc, POp.free 4280]
            (FixedMemPool.init rawRegion 224 5 4 4 false).2).1) :=
  ⟨by decide,
    C10_free_true_iff_outstanding rawRegion 224 5 4 4
      [POp.alloc, POp.alloc, POp.free 4280] 4280
      (by decide) (by decide) (by decide) (by decide) (by decide) (by decide)⟩


/-! ## Queues of any timers -/

theorem TimerWF.of_queueWF {τ : Type} {q : TimeoutQueue τ} (w : QueueWF q) : TimerWF q :=
  ⟨w.sorted, w.index, w.nodup⟩

theorem timerWF_empty (τ : Type) : TimerWF (TimeoutQueue.empty τ) :=
  ⟨List.Pairwise.nil, by intro i e; simp [TimeoutQueue.empty, mapFind], List.nodup_nil⟩

theorem TimerWF.no_id {τ : Type} {q : TimeoutQueue τ} (w : TimerWF q) {i : Nat}
    (h : mapFind i q.timer_id_index_ = none) : ∀ t ∈ q.timer_queue_, t.seq_id ≠ i := by
  intro t ht h1
  have := (w.index i t.expire_time).2 ⟨t, ht, h1, rfl⟩
  rw [h] at this
  cases this

theorem TimerWF.exist_iff {τ : Type} {q : TimeoutQueue τ} (w : TimerWF q) (i : Nat) :
    q.Exist i = true ↔ ∃ t ∈ q.timer_queue_, t.seq_id = i := by
  unfold TimeoutQueue.Exist mapContains
  constructor
  · intro h
    obtain ⟨e, he⟩ := Option.isSome_iff_exists.1 h
    obtain ⟨t, ht, h1, _⟩ := (w.index i e).1 he
    exact ⟨t, ht, h1⟩
  · rintro ⟨t, ht, h1⟩
    rw [(w.index i t.expire_time).2 ⟨t, ht, h1, rfl⟩]
    rfl

theorem TimerWF.insert {τ : Type} {q : TimeoutQueue τ} (w : TimerWF q) (t : Timer τ) (b : Nat)
    (hne : ∀ x ∈ q.timer_queue_, x.seq_id ≠ t.seq_id) :
    TimerWF (TimeoutQueue.mk (setEmplace t q.timer_queue_).1
      ((t.seq_id, t.expire_time) :: q.timer_id_index_) b) ∧
    List.Perm (setEmplace t q.timer_queue_).1 (t :: q.timer_queue_) := by
  have hok : (setEmplace t q.timer_queue_).2 = true := setEmplace_ok _ _ hne
  have hperm := setEmplace_perm _ q.timer_queue_ hok
  refine ⟨⟨setEmplace_sorted _ _ w.sorted, ?_, ?_⟩, hperm⟩
  · intro i e1
    show mapFind i ((t.seq_id, t.expire_time) :: q.timer_id_index_) = some e1 ↔
      ∃ x ∈ (setEmplace t q.timer_queue_).1, x.seq_id = i ∧ x.expire_time = e1
    rw [mapFind_cons]
    by_cases hi : t.seq_id = i
    · rw [if_pos hi]
      constructor
      · intro he
        exact ⟨t, hperm.symm.subset (List.mem_cons_self _ _), hi, Option.some.inj he⟩
      · rintro ⟨x, hx, h1, h2⟩
        rcases List.mem_cons.1 (hperm.subset hx) with h3 | h3
        · rw [← h2, h3]
        · exact absurd (h1.trans hi.symm) (hne x h3)
    · rw [if_neg hi, w.index i e1]
      constructor
      · rintro ⟨x, hx, h1, h2⟩
        exact ⟨x, hperm.symm.subset (List.mem_cons_of_mem _ hx), h1, h2⟩
      · rintro ⟨x, hx, h1, h2⟩
        rcases List.mem_cons.1 (hperm.subset hx) with h3 | h3
        · exact absurd (by rw [← h1, h3]) hi
        · exact ⟨x, h3, h1, h2⟩
  · show ((setEmplace t q.timer_queue_).1.map Timer.seq_id).Nodup
    have hp := hperm.map Timer.seq_id
    rw [hp.nodup_iff, List.map_cons, List.nodup_cons]
    refine ⟨?_, w.nodup⟩
    intro hm
    obtain ⟨x, hx, h1⟩ := List.mem_map.1 hm
    exact hne x hx h1

theorem TimerWF.remove {τ : Type} {q : TimeoutQueue τ} (w : TimerWF q) (i : Nat) :
    TimerWF (TimeoutQueue.mk (q.timer_queue_.filter (fun t => decide (t.seq_id ≠ i)))
      (mapErase i q.timer_id_index_) q.base_id_) := by
  refine ⟨List.Pairwise.sublist (List.filter_sublist _) w.sorted, ?_,
    List.Nodup.sublist (List.Sublist.map _ (List.filter_sublist _)) w.nodup⟩
  intro j e1
  show mapFind j (mapErase i q.timer_id_index_) = some e1 ↔
    ∃ t ∈ q.timer_queue_.filter (fun t => decide (t.seq_id ≠ i)), t.seq_id = j ∧ t.expire_time = e1
  rw [mapFind_erase]
  by_cases hj : j = i
  · rw [if_pos hj]
    constructor
    · intro h; cases h
    · rintro ⟨t, ht, h1, _⟩
      have := (List.mem_filter.1 ht).2
      simp [h1, hj] at this
  · rw [if_neg hj, w.index j e1]
    constructor
    · rintro ⟨t, ht, h1, h2⟩
      refine ⟨t, List.mem_filter.2 ⟨ht, ?_⟩, h1, h2⟩
      simp [h1, hj]
    · rintro ⟨t, ht, h1, h2⟩
      exact ⟨t, (List.mem_filter.1 ht).1, h1, h2⟩

theorem Cancel_any {τ : Type} (q : TimeoutQueue τ) (i : Nat) (w : TimerWF q) :
    ((q.Cancel i).2 = true ↔ ∃ t ∈ q.timer_queue_, t.seq_id = i) ∧
    (q.Cancel i).1.timer_queue_ = q.timer_queue_.filter (fun t => decide (t.seq_id ≠ i)) ∧
    (q.Cancel i).1.base_id_ = q.base_id_ ∧
    ((q.Cancel i).2 = false → (q.Cancel i).1 = q) ∧
    TimerWF (q.Cancel i).1 := by
  cases hf : mapFind i q.timer_id_index_ with
  | none =>
    have hno := w.no_id hf
    have hfil : q.timer_queue_.filter (fun t => decide (t.seq_id ≠ i)) = q.timer_queue_ := by
      rw [List.filter_eq_self]
      intro t ht
      simpa using hno t ht
    have hc : q.Cancel i = (q, false) := by simp [TimeoutQueue.Cancel, hf]
    rw [hc]
    refine ⟨?_, hfil.symm, rfl, fun _ => rfl, w⟩
    constructor
    · intro h; cases h
    · rintro ⟨t, ht, h1⟩
      exact absurd h1 (hno t ht)
  | some e =>
    obtain ⟨t0, ht0, h01, h02⟩ := (w.index i e).1 hf
    have hexp : ∀ t ∈ q.timer_queue_, t.seq_id = i → t.expire_time = e := by
      intro t ht h1
      have h2 : mapFind i q.timer_id_index_ = some t.expire_time :=
        (w.index _ _).2 ⟨t, ht, h1, rfl⟩
      rw [hf] at h2
      exact (Option.some.inj h2).symm
    have hc : q.Cancel i =
        (TimeoutQueue.mk (q.timer_queue_.filter (fun t => decide (t.seq_id ≠ i)))
          (mapErase i q.timer_id_index_) q.base_id_, true) := by
      simp only [TimeoutQueue.Cancel, hf]
      rw [setErase_eq_filter e i _ w.nodup hexp]
    rw [hc]
    refine ⟨⟨fun _ => ⟨t0, ht0, h01⟩, fun _ => rfl⟩, rfl, rfl, ?_, w.remove i⟩
    intro h
    cases h

theorem popFront_any {τ : Type} (q : TimeoutQueue τ) (t : Timer τ) (rest : List (Timer τ))
    (w : TimerWF q) (hq : q.timer_queue_ = t :: rest) :
    TimerWF (q.popFront t rest) ∧ (q.popFront t rest).base_id_ = q.base_id_ ∧
    (0 < t.interval_time →
      List.Perm (q.popFront t rest).timer_queue_
        (Timer.mk t.seq_id t.interval_time ((t.expire_time + t.interval_time) % UINT64_MOD) t.task
          :: rest)) ∧
    (t.interval_time = 0 → (q.popFront t rest).timer_queue_ = rest) := by
  have hnd : (t.seq_id :: rest.map Timer.seq_id).Nodup := by
    have := w.nodup
    rw [hq] at this
    exact this
  have hne : ∀ x ∈ rest, x.seq_id ≠ t.seq_id := by
    intro x hx h1
    exact (List.nodup_cons.1 hnd).1 (h1 ▸ List.mem_map_of_mem _ hx)
  have hfil : q.timer_queue_.filter (fun u => decide (u.seq_id ≠ t.seq_id)) = rest := by
    rw [hq, List.filter_cons_of_neg (by simp), List.filter_eq_self]
    intro x hx
    simpa using hne x hx
  have w1 : TimerWF (TimeoutQueue.mk rest (mapErase t.seq_id q.timer_id_index_) q.base_id_) := by
    have := w.remove t.seq_id
    rw [hfil] at this
    exact this
  by_cases hi : 0 < t.interval_time
  · have hcont : mapContains t.seq_id (mapErase t.seq_id q.timer_id_index_) = false := by
      rw [mapContains_eq_false, mapFind_erase, if_pos rfl]
    have hpop : q.popFront t rest =
        TimeoutQueue.mk
          (setEmplace (Timer.mk t.seq_id t.interval_time
            ((t.expire_time + t.interval_time) % UINT64_MOD) t.task) rest).1
          ((t.seq_id, (t.expire_time + t.interval_time) % UINT64_MOD)
            :: mapErase t.seq_id q.timer_id_index_) q.base_id_ := by
      simp only [TimeoutQueue.popFront, gt_iff_lt, hi, if_true, mapEmplace, hcont]
      rfl
    have h2 := w1.insert (Timer.mk t.seq_id t.interval_time
      ((t.expire_time + t.interval_time) % UINT64_MOD) t.task) q.base_id_ hne
    rw [hpop]
    exact ⟨h2.1, rfl, fun _ => h2.2, fun h0 => absurd h0 (by omega)⟩
  · have hpop : q.popFront t rest =
        TimeoutQueue.mk rest (mapErase t.seq_id q.timer_id_index_) q.base_id_ := by
      simp only [TimeoutQueue.popFront, gt_iff_lt, hi, if_false]
    rw [hpop]
    exact ⟨w1, rfl, fun h0 => absurd h0 hi, fun _ => rfl⟩

theorem TimeOut_rec_step {τ : Type} (now fuel count : Nat) (q : TimeoutQueue τ)
    (log : List (τ × Nat × Nat)) (t : Timer τ) (rest : List (Timer τ))
    (hq : q.timer_queue_ = t :: rest) (hd : t.expire_time ≤ now) :
    TimeoutQueue.TimeOut Prod.fst (fun q (s : RecState τ) => (q, s.2)) recRun now (fuel + 1)
        (q, log) count
      = TimeoutQueue.TimeOut Prod.fst (fun q (s : RecState τ) => (q, s.2)) recRun now fuel
          (q.popFront t rest, log ++ [(t.task, t.seq_id, t.interval_time)])
          ((count + 1) % UINT32_MOD) := by
  simp only [TimeoutQueue.TimeOut, hq]
  rw [if_neg (by omega)]
  rfl

theorem TimeOut_rec_stop {τ : Type} (now fuel count : Nat) (q : TimeoutQueue τ)
    (log : List (τ × Nat × Nat))
    (hq : ∀ t ∈ q.timer_queue_.head?, now < t.expire_time) :
    TimeoutQueue.TimeOut Prod.fst (fun q (s : RecState τ) => (q, s.2)) recRun now (fuel + 1)
        (q, log) count = some ((q, log), count) := by
  cases h : q.timer_queue_ with
  | nil => simp only [TimeoutQueue.TimeOut, h]
  | cons t rest =>
    have := hq t (by simp [h])
    simp only [TimeoutQueue.TimeOut, h]
    rw [if_pos (by omega)]

theorem TimeOut_rec_safe {τ : Type} (now : Nat) :
    ∀ (fuel count : Nat) (q : TimeoutQueue τ) (log : List (τ × Nat × Nat))
      (s1 : RecState τ) (c : Nat), TimerWF q →
      TimeoutQueue.TimeOut Prod.fst (fun q (s : RecState τ) => (q, s.2)) recRun now fuel
        (q, log) count = some (s1, c) →
      TimerWF s1.1 ∧ s1.1.base_id_ = q.base_id_ ∧
      (∀ u ∈ s1.1.timer_queue_, ∃ t ∈ q.timer_queue_, u.seq_id = t.seq_id) ∧
      ∃ new, s1.2 = log ++ new ∧ ∀ e ∈ new, ∃ t ∈ q.timer_queue_, e.2.1 = t.seq_id := by
  intro fuel
  induction fuel with
  | zero =>
    intro count q log s1 c _ h
    simp [TimeoutQueue.TimeOut] at h
  | succ fuel ih =>
    intro count q log s1 c w h
    cases hq : q.timer_queue_ with
    | nil =>
      rw [TimeOut_rec_stop now fuel count q log (by simp [hq])] at h
      cases h
      exact ⟨w, rfl, fun u hu => by rw [hq] at hu; simp at hu, [], by simp, by simp⟩
    | cons t rest =>
      by_cases hd : t.expire_time ≤ now
      · rw [TimeOut_rec_step now fuel count q log t rest hq hd] at h
        have hp := popFront_any q t rest w hq
        obtain ⟨w1, hb, hids, new, hnew, hcalls⟩ := ih _ _ _ _ _ hp.1 h
        have hsub : ∀ u ∈ (q.popFront t rest).timer_queue_,
            ∃ x ∈ t :: rest, u.seq_id = x.seq_id := by
          intro u hu
          by_cases hi : 0 < t.interval_time
          · rcases List.mem_cons.1 ((hp.2.2.1 hi).subset hu) with h1 | h1
            · exact ⟨t, List.mem_cons_self _ _, by rw [h1]⟩
            · exact ⟨u, List.mem_cons_of_mem _ h1, rfl⟩
          · rw [hp.2.2.2 (by omega)] at hu
            exact ⟨u, List.mem_cons_of_mem _ hu, rfl⟩
        refine ⟨w1, hb.trans hp.2.1, ?_, (t.task, t.seq_id, t.interval_time) :: new, ?_, ?_⟩
        · intro u hu
          obtain ⟨x, hx, h1⟩ := hids u hu
          obtain ⟨y, hy, h2⟩ := hsub x hx
          exact ⟨y, hy, h1.trans h2⟩
        · rw [hnew]
          simp
        · intro e he
          rcases List.mem_cons.1 he with h1 | h1
          · exact ⟨t, List.mem_cons_self _ _, by rw [h1]⟩
          · obtain ⟨x, hx, h2⟩ := hcalls e h1
            obtain ⟨y, hy, h3⟩ := hsub x hx
            exact ⟨y, hy, h2.trans h3⟩
      · rw [TimeOut_rec_stop now fuel count q log
          (by intro u hu; simp [hq] at hu; subst hu; omega)] at h
        cases h
        refine ⟨w, rfl, fun u hu => ⟨u, ?_, rfl⟩, [], by simp, by simp⟩
        rw [hq] at hu
        exact hu

theorem timeOutsRec_safe {τ : Type} :
    ∀ (calls : List (Nat × Nat)) (q : TimeoutQueue τ) (log : List (τ × Nat × Nat))
      (s1 : RecState τ), TimerWF q → timeOutsRec calls (q, log) = some s1 →
      TimerWF s1.1 ∧ s1.1.base_id_ = q.base_id_ ∧
      (∀ u ∈ s1.1.timer_queue_, ∃ t ∈ q.timer_queue_, u.seq_id = t.seq_id) ∧
      ∃ new, s1.2 = log ++ new ∧ ∀ e ∈ new, ∃ t ∈ q.timer_queue_, e.2.1 = t.seq_id := by
  intro calls
  induction calls with
  | nil =>
    intro q log s1 w h
    simp only [timeOutsRec, Option.some.injEq] at h
    subst h
    exact ⟨w, rfl, fun u hu => ⟨u, hu, rfl⟩, [], by simp, by simp⟩
  | cons call calls ih =>
    intro q log s1 w h
    obtain ⟨now, fuel⟩ := call
    simp only [timeOutsRec] at h
    cases hr : TimeOutRec now fuel (q, log) with
    | none => rw [hr] at h; cases h
    | some r =>
      obtain ⟨⟨q2, log2⟩, c⟩ := r
      rw [hr] at h
      obtain ⟨w2, hb2, hids2, new2, hnew2, hcalls2⟩ :=
        TimeOut_rec_safe now fuel 0 q log (q2, log2) c w hr
      obtain ⟨w3, hb3, hids3, new3, hnew3, hcalls3⟩ := ih q2 log2 s1 w2 h
      refine ⟨w3, hb3.trans hb2, ?_, new2 ++ new3, ?_, ?_⟩
      · intro u hu
        obtain ⟨x, hx, h1⟩ := hids3 u hu
        obtain ⟨y, hy, h2⟩ := hids2 x hx
        exact ⟨y, hy, h1.trans h2⟩
      · rw [hnew3]
        show log2 ++ new3 = _
        have : log2 = log ++ new2 := hnew2
        rw [this, List.append_assoc]
      · intro e he
        rcases List.mem_append.1 he with h1 | h1
        · exact hcalls2 e h1
        · obtain ⟨x, hx, h2⟩ := hcalls3 e h1
          obtain ⟨y, hy, h3⟩ := hids2 x hx
          exact ⟨y, hy, h2.trans h3⟩

theorem fires_rearm {τ : Type} (now i I e : Nat) (T : τ) (hI : 0 < I) (hd : e ≤ now) :
    Timer.fires now (Timer.mk i I (e + I) T) + 1 = Timer.fires now (Timer.mk i I e T) := by
  unfold Timer.fires
  dsimp only
  have hI0 : ¬ I = 0 := by omega
  have hd0 : ¬ e > now := by omega
  simp only [hI0, hd0, if_false]
  by_cases h : e + I > now
  · rw [if_pos h]
    have : (now - e) / I = 0 := Nat.div_eq_of_lt (by omega)
    omega
  · rw [if_neg h]
    have e1 : now - e = (now - (e + I)) + I := by omega
    rw [e1, Nat.add_div_right _ hI]

theorem fires_not_due {τ : Type} (now : Nat) (t : Timer τ) (h : now < t.expire_time) :
    Timer.fires now t = 0 := by
  unfold Timer.fires
  rw [if_pos h]

theorem fires_pos {τ : Type} (now : Nat) (t : Timer τ) (h : t.expire_time ≤ now) :
    0 < Timer.fires now t := by
  unfold Timer.fires
  rw [if_neg (by omega)]
  split_ifs
  · exact Nat.one_pos
  · exact Nat.succ_pos _

theorem fires_deadline {τ : Type} (now : Nat) (t : Timer τ) (hI : 0 < t.interval_time) :
    now < t.expire_time + Timer.fires now t * t.interval_time ∧
    (t.expire_time ≤ now →
      t.expire_time + Timer.fires now t * t.interval_time ≤ now + t.interval_time) := by
  unfold Timer.fires
  by_cases h : t.expire_time > now
  · rw [if_pos h]
    omega
  · rw [if_neg h, if_neg (by omega)]
    have h1 := Nat.div_add_mod (now - t.expire_time) t.interval_time
    have h2 := Nat.mod_lt (now - t.expire_time) hI
    have h3 : ((now - t.expire_time) / t.interval_time + 1) * t.interval_time
        = t.interval_time * ((now - t.expire_time) / t.interval_time) + t.interval_time := by
      ring
    rw [h3]
    omega

theorem totalFires_perm {τ : Type} (now : Nat) {l1 l2 : List (Timer τ)} (h : List.Perm l1 l2) :
    totalFires now l1 = totalFires now l2 :=
  (h.map _).sum_eq

theorem callsOf_append {τ : Type} (i : Nat) (a b : List (τ × Nat × Nat)) :
    callsOf i (a ++ b) = callsOf i a ++ callsOf i b := by
  simp [callsOf]

theorem sorted_head_not_due {τ : Type} (now : Nat) (t : Timer τ) (rest : List (Timer τ))
    (hs : SortedTimers (t :: rest)) (h : now < t.expire_time) :
    ∀ u ∈ t :: rest, now < u.expire_time := by
  intro u hu
  rcases List.mem_cons.1 hu with h1 | h1
  · rw [h1]; exact h
  · have := (List.pairwise_cons.1 hs).1 u h1
    rw [Timer.less_iff] at this
    omega

theorem TimeOut_rec_total {τ : Type} (now : Nat) :
    ∀ (fuel count : Nat) (q : TimeoutQueue τ) (log : List (τ × Nat × Nat)),
      TimerWF q → NoWrap now q.timer_queue_ → totalFires now q.timer_queue_ < fuel →
      ∃ s1 c new,
        TimeoutQueue.TimeOut Prod.fst (fun q (s : RecState τ) => (q, s.2)) recRun now fuel
          (q, log) count = some (s1, c) ∧
        s1.2 = log ++ new ∧ TimerWF s1.1 ∧
        ∀ t ∈ q.timer_queue_, 0 < t.interval_time →
          Timer.mk t.seq_id t.interval_time
              (t.expire_time + Timer.fires now t * t.interval_time) t.task ∈ s1.1.timer_queue_ ∧
            callsOf t.seq_id new
              = List.replicate (Timer.fires now t) (t.task, t.seq_id, t.interval_time) := by
  intro fuel
  induction fuel with
  | zero =>
    intro count q log _ _ h
    omega
  | succ fuel ih =>
    intro count q log w hnw hf
    cases hq : q.timer_queue_ with
    | nil =>
      refine ⟨(q, log), count, [], TimeOut_rec_stop now fuel count q log (by simp [hq]), by simp,
        w, ?_⟩
      intro t ht
      simp at ht
    | cons f rest =>
      by_cases hd : f.expire_time ≤ now
      · rw [TimeOut_rec_step now fuel count q log f rest hq hd]
        have hp := popFront_any q f rest w hq
        have hnd : (f.seq_id :: rest.map Timer.seq_id).Nodup := by
          have := w.nodup
          rw [hq] at this
          exact this
        have hne : ∀ x ∈ rest, x.seq_id ≠ f.seq_id := by
          intro x hx h1
          exact (List.nodup_cons.1 hnd).1 (h1 ▸ List.mem_map_of_mem _ hx)
        have hfpos := fires_pos now f hd
        have htot : totalFires now (f :: rest) = Timer.fires now f + totalFires now rest := by
          simp [totalFires]
        rw [hq] at hf hnw
        by_cases hi : 0 < f.interval_time
        · have hwrap : (f.expire_time + f.interval_time) % UINT64_MOD
              = f.expire_time + f.interval_time := by
            apply Nat.mod_eq_of_lt
            have := hnw f (List.mem_cons_self _ _) hi
            omega
          have hperm := hp.2.2.1 hi
          rw [hwrap] at hperm
          have hre := fires_rearm now f.seq_id f.interval_time f.expire_time f.task hi hd
          have hnw1 : NoWrap now (q.popFront f rest).timer_queue_ := by
            intro u hu hu0
            rcases List.mem_cons.1 (hperm.subset hu) with h1 | h1
            · rw [h1] at hu0 ⊢
              exact hnw f (List.mem_cons_self _ _) hi
            · exact hnw u (List.mem_cons_of_mem _ h1) hu0
          have hf1 : totalFires now (q.popFront f rest).timer_queue_ < fuel := by
            rw [totalFires_perm now hperm]
            have : totalFires now (Timer.mk f.seq_id f.interval_time
                (f.expire_time + f.interval_time) f.task :: rest)
                = Timer.fires now (Timer.mk f.seq_id f.interval_time
                    (f.expire_time + f.interval_time) f.task) + totalFires now rest := by
              simp [totalFires]
            rw [this]
            have hfe : Timer.fires now (Timer.mk f.seq_id f.interval_time f.expire_time f.task)
                = Timer.fires now f := rfl
            omega
          obtain ⟨s1, c, new, hrun, hlog, w1, htr⟩ :=
            ih ((count + 1) % UINT32_MOD) (q.popFront f rest)
              (log ++ [(f.task, f.seq_id, f.interval_time)]) hp.1 hnw1 hf1
          refine ⟨s1, c, (f.task, f.seq_id, f.interval_time) :: new, hrun, ?_, w1, ?_⟩
          · rw [hlog]
            simp
          · intro t ht ht0
            rcases List.mem_cons.1 ht with h1 | h1
            · subst h1
              have hin : Timer.mk t.seq_id t.interval_time (t.expire_time + t.interval_time) t.task
                  ∈ (q.popFront t rest).timer_queue_ :=
                hperm.symm.subset (List.mem_cons_self _ _)
              have h2 := htr _ hin ht0
              have hfe : Timer.fires now t = Timer.fires now (Timer.mk t.seq_id t.interval_time
                  (t.expire_time + t.interval_time) t.task) + 1 := hre.symm
              dsimp only at h2
              constructor
              · have e1 : t.expire_time + Timer.fires now t * t.interval_time
                    = t.expire_time + t.interval_time + Timer.fires now (Timer.mk t.seq_id
                        t.interval_time (t.expire_time + t.interval_time) t.task)
                      * t.interval_time := by
                  rw [hfe]
                  ring
                rw [e1]
                exact h2.1
              · rw [hfe, List.replicate_succ]
                show callsOf t.seq_id ([(t.task, t.seq_id, t.interval_time)] ++ new) = _
                rw [callsOf_append, h2.2]
                simp [callsOf]
            · have hin : t ∈ (q.popFront f rest).timer_queue_ :=
                hperm.symm.subset (List.mem_cons_of_mem _ h1)
              have h2 := htr t hin ht0
              refine ⟨h2.1, ?_⟩
              show callsOf t.seq_id ([(f.task, f.seq_id, f.interval_time)] ++ new) = _
              rw [callsOf_append, h2.2]
              have : f.seq_id ≠ t.seq_id := fun e => hne t h1 e.symm
              simp [callsOf, this]
        · have hrest := hp.2.2.2 (by omega)
          have hnw1 : NoWrap now (q.popFront f rest).timer_queue_ := by
            rw [hrest]
            intro u hu hu0
            exact hnw u (List.mem_cons_of_mem _ hu) hu0
          have hf1 : totalFires now (q.popFront f rest).timer_queue_ < fuel := by
            rw [hrest]
            omega
          obtain ⟨s1, c, new, hrun, hlog, w1, htr⟩ :=
            ih ((count + 1) % UINT32_MOD) (q.popFront f rest)
              (log ++ [(f.task, f.seq_id, f.interval_time)]) hp.1 hnw1 hf1
          refine ⟨s1, c, (f.task, f.seq_id, f.interval_time) :: new, hrun, ?_, w1, ?_⟩
          · rw [hlog]
            simp
          · intro t ht ht0
            rcases List.mem_cons.1 ht with h1 | h1
            · subst h1
              exact absurd ht0 hi
            · have hin : t ∈ (q.popFront f rest).timer_queue_ := by
                rw [hrest]
                exact h1
              have h2 := htr t hin ht0
              refine ⟨h2.1, ?_⟩
              show callsOf t.seq_id ([(f.task, f.seq_id, f.interval_time)] ++ new) = _
              rw [callsOf_append, h2.2]
              have : f.seq_id ≠ t.seq_id := fun e => hne t h1 e.symm
              simp [callsOf, this]
      · have hnot : now < f.expire_time := by omega
        have hs : SortedTimers (f :: rest) := by
          have := w.sorted
          rw [hq] at this
          exact this
        refine ⟨(q, log), count, [], TimeOut_rec_stop now fuel count q log
          (by intro u hu; simp [hq] at hu; subst hu; exact hnot), by simp, w, ?_⟩
        intro t ht _
        have hnd := sorted_head_not_due now f rest hs hnot t ht
        rw [fires_not_due now t hnd]
        refine ⟨?_, by simp [callsOf]⟩
        simp only [Nat.zero_mul, Nat.add_zero]
        show t ∈ q.timer_queue_
        rw [hq]
        exact ht

theorem Add_any {τ : Type} (q : TimeoutQueue τ) (task : τ) (e I : Nat) (w : TimerWF q) :
    TimerWF (q.Add task e I).1 := by
  have w1 : TimerWF q.GenerateID.1 := ⟨w.sorted, w.index, w.nodup⟩
  cases hc : mapContains q.GenerateID.2 q.timer_id_index_ with
  | true =>
    have hc1 : mapContains q.GenerateID.2 q.GenerateID.1.timer_id_index_ = true := hc
    have : q.Add task e I = (q.GenerateID.1, 0) := by
      simp only [TimeoutQueue.Add, mapEmplace, hc1]
      rfl
    rw [this]
    exact w1
  | false =>
    have hf : mapFind q.GenerateID.2 q.timer_id_index_ = none := (mapContains_eq_false _ _).1 hc
    have hne : ∀ x ∈ q.timer_queue_, x.seq_id ≠ q.GenerateID.2 := w.no_id hf
    have hok : (setEmplace (Timer.mk q.GenerateID.2 I e task) q.timer_queue_).2 = true :=
      setEmplace_ok _ _ hne
    have hadd : q.Add task e I =
        (TimeoutQueue.mk (setEmplace (Timer.mk q.GenerateID.2 I e task) q.timer_queue_).1
           ((q.GenerateID.2, e) :: q.timer_id_index_) q.GenerateID.1.base_id_, q.GenerateID.2) := by
      have hc1 : mapContains q.GenerateID.2 q.GenerateID.1.timer_id_index_ = false := hc
      have hok1 : (setEmplace (Timer.mk q.GenerateID.2 I e task)
          q.GenerateID.1.timer_queue_).2 = true := hok
      simp only [TimeoutQueue.Add, mapEmplace, hc1]
      simp only [hok1]
      rfl
    rw [hadd]
    exact (w.insert (Timer.mk q.GenerateID.2 I e task) _ hne).1

theorem TimerWF.unique {τ : Type} {q : TimeoutQueue τ} (w : TimerWF q) {a b : Timer τ}
    (ha : a ∈ q.timer_queue_) (hb : b ∈ q.timer_queue_) (h : a.seq_id = b.seq_id) : a = b :=
  List.inj_on_of_nodup_map w.nodup ha hb h

theorem tick_diverges :
    ∀ (fuel e count : Nat) (log : List (Nat × Nat × Nat)), e < UINT64_MOD →
      TimeoutQueue.TimeOut Prod.fst (fun q (s : RecState Nat) => (q, s.2)) recRun
        (UINT64_MOD - 1) fuel (tickQueue e, log) count = none := by
  intro fuel
  induction fuel with
  | zero => intro e count log _; rfl
  | succ fuel ih =>
    intro e count log he
    rw [TimeOut_rec_step (UINT64_MOD - 1) fuel count (tickQueue e) log (Timer.mk 1 1 e 0) [] rfl
      (by show e ≤ UINT64_MOD - 1; omega)]
    have hpop : (tickQueue e).popFront (Timer.mk 1 1 e 0) [] = tickQueue ((e + 1) % UINT64_MOD) := by
      simp [TimeoutQueue.popFront, tickQueue, mapErase, mapEmplace, mapContains, mapFind, setEmplace]
    rw [hpop]
    exact ih _ _ _ (Nat.mod_lt _ (by unfold UINT64_MOD; norm_num))

/-- C19: on a consistent queue of one-shot and periodic timers, `Cancel(id)`
returns true exactly when a timer with that id is live (when `Exist(id)`
holds); afterwards `Exist(id)` is false, the ordered set is the old one
without that timer, so that every other timer keeps its id, deadline, interval
and task and stays live; a `Cancel` that returns false, such as a second
`Cancel(id)`, leaves the queue as it was; and no later `TimeOut` invokes a
task under the cancelled id. -/
theorem C19_cancel_removes_live_timer {τ : Type} (q : TimeoutQueue τ) (i : Nat)
    (log : List (τ × Nat × Nat)) (w : TimerWF q) :
    ((q.Cancel i).2 = true ↔ ∃ t ∈ q.timer_queue_, t.seq_id = i) ∧
    (q.Cancel i).2 = q.Exist i ∧
    (q.Cancel i).1.Exist i = false ∧
    (q.Cancel i).1.timer_queue_ = q.timer_queue_.filter (fun t => decide (t.seq_id ≠ i)) ∧
    (∀ j, j ≠ i → (q.Cancel i).1.Exist j = q.Exist j) ∧
    ((q.Cancel i).2 = false → (q.Cancel i).1 = q) ∧
    ((q.Cancel i).1.Cancel i).2 = false ∧
    ((q.Cancel i).1.Cancel i).1 = (q.Cancel i).1 ∧
    (∀ calls s1, timeOutsRec calls ((q.Cancel i).1, log) = some s1 →
      ∃ new, s1.2 = log ++ new ∧ callsOf i new = []) ∧
    (∀ now fuel, NoWrap now (q.Cancel i).1.timer_queue_ →
      totalFires now (q.Cancel i).1.timer_queue_ < fuel →
      (TimeOutRec now fuel ((q.Cancel i).1, log)).isSome = true) := by
  obtain ⟨hiff, hfil, _, hfalse, w1⟩ := Cancel_any q i w
  have hgone : ∀ t ∈ (q.Cancel i).1.timer_queue_, t.seq_id ≠ i := by
    intro t ht
    rw [hfil] at ht
    simpa using (List.mem_filter.1 ht).2
  have hex : (q.Cancel i).1.Exist i = false := by
    cases h : (q.Cancel i).1.Exist i
    · rfl
    · obtain ⟨t, ht, h1⟩ := (w1.exist_iff i).1 h
      exact absurd h1 (hgone t ht)
  have hsecond : ((q.Cancel i).1.Cancel i).2 = false := by
    cases h : ((q.Cancel i).1.Cancel i).2
    · rfl
    · obtain ⟨t, ht, h1⟩ := (Cancel_any (q.Cancel i).1 i w1).1.1 h
      exact absurd h1 (hgone t ht)
  refine ⟨hiff, ?_, hex, hfil, ?_, hfalse, hsecond,
    (Cancel_any (q.Cancel i).1 i w1).2.2.2.1 hsecond, ?_, ?_⟩
  · rw [Bool.eq_iff_iff, hiff, w.exist_iff i]
  · intro j hj
    rw [Bool.eq_iff_iff, w1.exist_iff j, w.exist_iff j, hfil]
    constructor
    · rintro ⟨t, ht, h1⟩
      exact ⟨t, (List.mem_filter.1 ht).1, h1⟩
    · rintro ⟨t, ht, h1⟩
      exact ⟨t, List.mem_filter.2 ⟨ht, by simp [h1, hj]⟩, h1⟩
  · intro calls s1 h
    obtain ⟨_, _, _, new, hnew, hcalls⟩ := timeOutsRec_safe calls _ log s1 w1 h
    refine ⟨new, hnew, ?_⟩
    unfold callsOf
    rw [List.filter_eq_nil_iff]
    intro e he
    obtain ⟨t, ht, h1⟩ := hcalls e he
    have := hgone t ht
    simp [h1, this]
  · intro now fuel hnw hf
    obtain ⟨s1, c, new, hrun, _⟩ := TimeOut_rec_total now fuel 0 _ log w1 hnw hf
    unfold TimeOutRec
    rw [hrun]
    rfl

/-- C20 (amended): on a consistent queue, for a periodic timer with deadline
`d` at most `now`, and provided `now + interval` stays below `2^64` for the
periodic timers of the queue: a firing removes the timer and re-inserts it
under the same id with deadline `d + interval` before the task runs;
`TimeOut(now)` returns, and afterwards the timer is still live, with the same
id, interval and task and the deadline `d + k * interval`, the first one
above `now`; its task has been invoked `k` times, `k` at least 1, each time
with the timer's id and interval. -/
theorem C20_periodic_timer_rearms {τ : Type} (q : TimeoutQueue τ) (t : Timer τ)
    (now fuel : Nat) (log : List (τ × Nat × Nat)) (w : TimerWF q)
    (ht : t ∈ q.timer_queue_) (hI : 0 < t.interval_time) (hd : t.expire_time ≤ now)
    (hnw : NoWrap now q.timer_queue_) (hfuel : totalFires now q.timer_queue_ < fuel) :
    (∀ rest, q.timer_queue_ = t :: rest →
      (q.popFront t rest).Exist t.seq_id = true ∧
      ∀ u ∈ (q.popFront t rest).timer_queue_, u.seq_id = t.seq_id →
        u = Timer.mk t.seq_id t.interval_time (t.expire_time + t.interval_time) t.task) ∧
    ∃ s1 c new, TimeOutRec now fuel (q, log) = some (s1, c) ∧ s1.2 = log ++ new ∧
      s1.1.Exist t.seq_id = true ∧
      (∀ u ∈ s1.1.timer_queue_, u.seq_id = t.seq_id →
        u = Timer.mk t.seq_id t.interval_time
          (t.expire_time + Timer.fires now t * t.interval_time) t.task) ∧
      now < t.expire_time + Timer.fires now t * t.interval_time ∧
      t.expire_time + Timer.fires now t * t.interval_time ≤ now + t.interval_time ∧
      1 ≤ Timer.fires now t ∧
      callsOf t.seq_id new
        = List.replicate (Timer.fires now t) (t.task, t.seq_id, t.interval_time) := by
  constructor
  · intro rest hq
    have hp := popFront_any q t rest w hq
    have hwrap : (t.expire_time + t.interval_time) % UINT64_MOD
        = t.expire_time + t.interval_time := by
      apply Nat.mod_eq_of_lt
      have := hnw t ht hI
      omega
    have hperm := hp.2.2.1 hI
    rw [hwrap] at hperm
    have hin : Timer.mk t.seq_id t.interval_time (t.expire_time + t.interval_time) t.task
        ∈ (q.popFront t rest).timer_queue_ := hperm.symm.subset (List.mem_cons_self _ _)
    refine ⟨(hp.1.exist_iff _).2 ⟨_, hin, rfl⟩, ?_⟩
    intro u hu h1
    exact hp.1.unique hu hin h1
  · obtain ⟨s1, c, new, hrun, hlog, w1, htr⟩ := TimeOut_rec_total now fuel 0 q log w hnw hfuel
    obtain ⟨hin, hcalls⟩ := htr t ht hI
    have hdl := fires_deadline now t hI
    refine ⟨s1, c, new, hrun, hlog, (w1.exist_iff _).2 ⟨_, hin, rfl⟩, ?_, hdl.1, hdl.2 hd,
      fires_pos now t hd, hcalls⟩
    intro u hu h1
    exact w1.unique hu hin h1

theorem demoQueue_wf : TimerWF demoQueue :=
  Add_any _ 8 5 0 (Add_any _ 7 10 3 (timerWF_empty Nat))

theorem demoQueue_timers :
    demoQueue.timer_queue_ = [Timer.mk 2 0 5 8, Timer.mk 1 3 10 7] := rfl

theorem demoQueue_noWrap : NoWrap 20 demoQueue.timer_queue_ := by
  intro t ht hI
  rw [demoQueue_timers] at ht
  simp only [List.mem_cons, List.mem_singleton, List.not_mem_nil, or_false] at ht
  rcases ht with h | h <;> subst h <;> simp [UINT64_MOD]

/-- C19, an instance: cancelling the periodic timer (id 1) of a queue that
also holds a one-shot timer. -/
theorem C19_cancel_removes_live_timer_witness :
    ((demoQueue.Cancel 1).2 = true ↔ ∃ t ∈ demoQueue.timer_queue_, t.seq_id = 1) ∧
    (demoQueue.Cancel 1).2 = demoQueue.Exist 1 ∧
    (demoQueue.Cancel 1).1.Exist 1 = false ∧
    (demoQueue.Cancel 1).1.timer_queue_
      = demoQueue.timer_queue_.filter (fun t => decide (t.seq_id ≠ 1)) ∧
    (∀ j, j ≠ 1 → (demoQueue.Cancel 1).1.Exist j = demoQueue.Exist j) ∧
    ((demoQueue.Cancel 1).2 = false → (demoQueue.Cancel 1).1 = demoQueue) ∧
    ((demoQueue.Cancel 1).1.Cancel 1).2 = false ∧
    ((demoQueue.Cancel 1).1.Cancel 1).1 = (demoQueue.Cancel 1).1 ∧
    (∀ calls s1, timeOutsRec calls ((demoQueue.Cancel 1).1, []) = some s1 →
      ∃ new, s1.2 = [] ++ new ∧ callsOf 1 new = []) ∧
    (∀ now fuel, NoWrap now (demoQueue.Cancel 1).1.timer_queue_ →
      totalFires now (demoQueue.Cancel 1).1.timer_queue_ < fuel →
      (TimeOutRec now fuel ((demoQueue.Cancel 1).1, [])).isSome = true) :=
  C19_cancel_removes_live_timer demoQueue 1 [] demoQueue_wf

/-- C20, an instance of the amended statement: the periodic timer with id 1,
deadline 10 and interval 3, and `TimeOut(20)`: four firings, new deadline
22. -/
theorem C20_periodic_timer_rearms_witness :
    Timer.fires 20 (Timer.mk 1 3 10 7) = 4 ∧
    (∀ rest, demoQueue.timer_queue_ = Timer.mk 1 3 10 7 :: rest →
      (demoQueue.popFront (Timer.mk 1 3 10 7) rest).Exist 1 = true ∧
      ∀ u ∈ (demoQueue.popFront (Timer.mk 1 3 10 7) rest).timer_queue_, u.seq_id = 1 →
        u = Timer.mk 1 3 (10 + 3) 7) ∧
    ∃ s1 c new, TimeOutRec 20 6 (demoQueue, []) = some (s1, c) ∧ s1.2 = [] ++ new ∧
      s1.1.Exist 1 = true ∧
      (∀ u ∈ s1.1.timer_queue_, u.seq_id = 1 →
        u = Timer.mk 1 3 (10 + Timer.fires 20 (Timer.mk 1 3 10 7) * 3) 7) ∧
      20 < 10 + Timer.fires 20 (Timer.mk 1 3 10 7) * 3 ∧
      10 + Timer.fires 20 (Timer.mk 1 3 10 7) * 3 ≤ 20 + 3 ∧
      1 ≤ Timer.fires 20 (Timer.mk 1 3 10 7) ∧
      callsOf 1 new = List.replicate (Timer.fires 20 (Timer.mk 1 3 10 7)) (7, 1, 3) :=
  ⟨by decide,
    C20_periodic_timer_rearms demoQueue (Timer.mk 1 3 10 7) 20 6 [] demoQueue_wf
      (by rw [demoQueue_timers]; simp) (by decide) (by decide) demoQueue_noWrap (by decide)⟩

/-- C20 fails as stated: with `now = 2^64 - 1` no deadline is above `now`;
the periodic timer of `Add(task, 5, 1)` on a fresh queue is re-armed and
fired again for ever, and `TimeOut(2^64 - 1)` does not return, whatever the
bound on the number of iterations. -/
theorem C20_counterexample_deadline_wraps :
    ((TimeoutQueue.empty Nat).Add 0 5 1).1 = tickQueue 5 ∧
    (tickQueue 5).Exist 1 = true ∧
    ∀ fuel, TimeOutRec (UINT64_MOD - 1) fuel (tickQueue 5, []) = none :=
  ⟨rfl, rfl, fun fuel => tick_diverges fuel 5 0 [] (by decide)⟩


/-! ## The hash set: chains of buckets and free list -/

theorem arraySet_self {α : Type} (a : Nat → α) (i : Nat) (v : α) : arraySet a i v i = v := by
  simp [arraySet]

theorem arraySet_other {α : Type} (a : Nat → α) (i j : Nat) (v : α) (h : j ≠ i) :
    arraySet a i v j = a j := by
  simp [arraySet, h]

theorem hchain_congr (next next2 : Nat → Nat) :
    ∀ (l : List Nat) (h : Nat), (∀ i ∈ l, next2 (i - 1) = next (i - 1)) →
      HChain next h l → HChain next2 h l := by
  intro l
  induction l with
  | nil => intro h _ hc; exact hc
  | cons i l ih =>
    intro h hx hc
    refine ⟨hc.1, hc.2.1, ?_⟩
    rw [hx i (List.mem_cons_self _ _)]
    exact ih _ (fun j hj => hx j (List.mem_cons_of_mem _ hj)) hc.2.2

theorem hchain_pos (next : Nat → Nat) :
    ∀ (l : List Nat) (h : Nat), HChain next h l → ∀ i ∈ l, i ≠ 0 := by
  intro l
  induction l with
  | nil => intro h _ i hi; simp at hi
  | cons j l ih =>
    intro h hc i hi
    rcases List.mem_cons.1 hi with e | e
    · rw [e]; exact hc.2.1
    · exact ih _ hc.2.2 i e

theorem find_loop_chain (s : BaseMemSet) (key : Nat) :
    ∀ (l : List Nat) (h fuel : Nat), HChain s.m_next h l → l.length < fuel →
      s.find_loop key fuel h = some ((l.find? (fun i => decide (s.key i = key))).getD 0) := by
  intro l
  induction l with
  | nil =>
    intro h fuel hc _
    have : h = 0 := hc
    subst this
    cases fuel <;> rfl
  | cons i l ih =>
    intro h fuel hc hf
    have hi : h = i := hc.1
    subst hi
    obtain ⟨k, rfl⟩ := Nat.exists_eq_succ_of_ne_zero hc.2.1
    cases fuel with
    | zero => simp at hf
    | succ fuel =>
      have hkey : s.key (k + 1) = (s.m_value k).first := rfl
      by_cases e : (s.m_value k).first = key
      · simp only [BaseMemSet.find_loop, e, if_true, List.find?_cons, hkey, decide_True]
        rfl
      · have hl : l.length < fuel := by simp only [List.length_cons] at hf; omega
        simp only [BaseMemSet.find_loop, e, if_false, List.find?_cons, hkey, decide_False]
        exact ih _ fuel hc.2.2 hl

theorem nodup_range_length (L : List Nat) (n : Nat) (hnd : L.Nodup)
    (h : ∀ i ∈ L, 1 ≤ i ∧ i ≤ n) : L.length ≤ n := by
  have h1 : L.toFinset ⊆ Finset.Icc 1 n := by
    intro x hx
    rw [Finset.mem_Icc]
    exact h x (List.mem_toFinset.1 hx)
  have h2 := Finset.card_le_card h1
  rw [Nat.card_Icc, List.toFinset_card_of_nodup hnd] at h2
  omega

theorem SetInv.length_le {s : BaseMemSet} {A Fr : List Nat} (h : SetInv s A Fr) :
    A.length ≤ s.m_raw_used :=
  nodup_range_length A _ (List.nodup_append.1 h.nodup).1
    (fun i hi => (h.cover i).2 (Or.inl hi))

theorem SetInv.pos {s : BaseMemSet} {A Fr : List Nat} (h : SetInv s A Fr) {i : Nat}
    (hi : i ∈ A ∨ i ∈ Fr) : 1 ≤ i ∧ i ≤ s.m_raw_used :=
  (h.cover i).2 hi

theorem SetInv.find_index {s : BaseMemSet} {A Fr : List Nat} (h : SetInv s A Fr)
    (fuel key : Nat) (hf : s.m_max_num < fuel) :
    ∃ r, s.find_index fuel key = some r ∧
      ((r ≠ 0 ∧ r ∈ A ∧ s.key r = key) ∨ (r = 0 ∧ ∀ i ∈ A, s.key i ≠ key)) := by
  have hb : s.get_bucket_index key < s.m_buckets_num := Nat.mod_lt _ h.bn
  obtain ⟨l, hc, hnd, hl⟩ := h.chains _ hb
  have hsub : l ⊆ A := fun i hi => ((hl i).1 hi).1
  have hlen : l.length ≤ A.length := (List.subperm_of_subset hnd hsub).length_le
  have hA := h.length_le
  have hraw := h.raw_le
  refine ⟨_, find_loop_chain s key l _ fuel hc (by omega), ?_⟩
  cases hfind : l.find? (fun i => decide (s.key i = key)) with
  | none =>
    right
    refine ⟨rfl, ?_⟩
    intro i hi hk
    have hil : i ∈ l := (hl i).2 ⟨hi, by rw [hk]⟩
    have := List.find?_eq_none.1 hfind i hil
    simp [hk] at this
  | some r =>
    left
    have hr := List.mem_of_find?_eq_some hfind
    have hk := List.find?_some hfind
    refine ⟨hchain_pos _ l _ hc r hr, hsub hr, by simpa using hk⟩

theorem slotBefore_nil (pre : SetSlot) : slotBefore pre [] = pre := rfl

theorem slotBefore_cons (pre : SetSlot) (a : Nat) (l : List Nat) :
    slotBefore pre (a :: l) = slotBefore (SetSlot.next (a - 1)) l := by
  cases l with
  | nil => rfl
  | cons b l =>
    simp only [slotBefore, List.getLast?_cons_cons]
    rw [List.getLast?_eq_getLast _ (List.cons_ne_nil b l)]

theorem erase_loop_miss (s : BaseMemSet) (key : Nat) :
    ∀ (l : List Nat) (h fuel : Nat) (pre : SetSlot), HChain s.m_next h l → l.length < fuel →
      (∀ j ∈ l, s.key j ≠ key) → s.erase_loop key fuel pre h = some (s, 0) := by
  intro l
  induction l with
  | nil =>
    intro h fuel pre hc _ _
    have : h = 0 := hc
    subst this
    cases fuel <;> rfl
  | cons i l ih =>
    intro h fuel pre hc hf hk
    have hi : h = i := hc.1
    subst hi
    obtain ⟨k, rfl⟩ := Nat.exists_eq_succ_of_ne_zero hc.2.1
    cases fuel with
    | zero => simp at hf
    | succ fuel =>
      have e : ¬ (s.m_value k).first = key := hk (k + 1) (List.mem_cons_self _ _)
      have hl : l.length < fuel := by simp only [List.length_cons] at hf; omega
      simp only [BaseMemSet.erase_loop, e, if_false]
      exact ih _ fuel _ hc.2.2 hl (fun j hj => hk j (List.mem_cons_of_mem _ hj))

theorem erase_loop_hit (s : BaseMemSet) (key i : Nat) (l2 : List Nat) (hki : s.key i = key) :
    ∀ (l1 : List Nat) (h fuel : Nat) (pre : SetSlot), HChain s.m_next h (l1 ++ i :: l2) →
      (l1 ++ i :: l2).length < fuel → (∀ j ∈ l1, s.key j ≠ key) →
      s.erase_loop key fuel pre h = some (s.unchain (slotBefore pre l1) (i - 1), i) := by
  intro l1
  induction l1 with
  | nil =>
    intro h fuel pre hc hf _
    have hi : h = i := hc.1
    subst hi
    obtain ⟨k, rfl⟩ := Nat.exists_eq_succ_of_ne_zero hc.2.1
    cases fuel with
    | zero => simp at hf
    | succ fuel =>
      have e : (s.m_value k).first = key := hki
      simp only [BaseMemSet.erase_loop, e, if_true, slotBefore_nil]
      rfl
  | cons a l1 ih =>
    intro h fuel pre hc hf hk
    have hi : h = a := hc.1
    subst hi
    obtain ⟨k, rfl⟩ := Nat.exists_eq_succ_of_ne_zero hc.2.1
    cases fuel with
    | zero => simp at hf
    | succ fuel =>
      have e : ¬ (s.m_value k).first = key := hk (k + 1) (List.mem_cons_self _ _)
      have hl : (l1 ++ i :: l2).length < fuel := by
        simp only [List.cons_append, List.length_cons] at hf
        omega
      simp only [BaseMemSet.erase_loop, e, if_false]
      rw [slotBefore_cons]
      exact ih _ fuel _ hc.2.2 hl (fun j hj => hk j (List.mem_cons_of_mem _ hj))

theorem split_first_match (p : Nat → Prop) [DecidablePred p] :
    ∀ (l : List Nat), (∃ i ∈ l, p i) →
      ∃ l1 i l2, l = l1 ++ i :: l2 ∧ (∀ j ∈ l1, ¬ p j) ∧ p i := by
  intro l
  induction l with
  | nil => rintro ⟨i, hi, _⟩; simp at hi
  | cons a l ih =>
    rintro ⟨i, hi, hp⟩
    by_cases ha : p a
    · exact ⟨[], a, l, rfl, by simp, ha⟩
    · have : ∃ i ∈ l, p i := by
        rcases List.mem_cons.1 hi with e | e
        · exact absurd (e ▸ hp) ha
        · exact ⟨i, e, hp⟩
      obtain ⟨l1, j, l2, h1, h2, h3⟩ := ih this
      refine ⟨a :: l1, j, l2, by rw [h1]; rfl, ?_, h3⟩
      intro x hx
      rcases List.mem_cons.1 hx with e | e
      · rw [e]; exact ha
      · exact h2 x e

theorem hchain_zero (next : Nat → Nat) (l : List Nat) (h : HChain next 0 l) : l = [] := by
  cases l with
  | nil => rfl
  | cons i l => exact absurd h.1.symm h.2.1

theorem pred_ne {x y : Nat} (hx : x ≠ 0) (hy : y ≠ 0) (h : x ≠ y) : x - 1 ≠ y - 1 := by
  omega

theorem hchain_skip_head (next : Nat → Nat) (i fr : Nat) (l2 : List Nat)
    (hc : HChain next i (i :: l2)) (hnd : (i :: l2).Nodup) :
    HChain (arraySet next (i - 1) fr) (next (i - 1)) l2 := by
  refine hchain_congr next _ l2 _ ?_ hc.2.2
  intro x hx
  have hx0 := hchain_pos next l2 _ hc.2.2 x hx
  have hxi : x ≠ i := fun e => (List.nodup_cons.1 hnd).1 (e ▸ hx)
  exact arraySet_other _ _ _ _ (pred_ne hx0 hc.2.1 hxi)

theorem hchain_skip_inner (next : Nat → Nat) (i fr : Nat) (l2 : List Nat) :
    ∀ (l1 : List Nat) (h j : Nat), l1.getLast? = some j → HChain next h (l1 ++ i :: l2) →
      (l1 ++ i :: l2).Nodup →
      HChain (arraySet (arraySet next (j - 1) (next (i - 1))) (i - 1) fr) h (l1 ++ l2) := by
  intro l1
  induction l1 with
  | nil => intro h j hj; simp at hj
  | cons a l1 ih =>
    intro h j hj hc hnd
    have ha0 : a ≠ 0 := hc.2.1
    have hall := hchain_pos next _ _ hc
    have hi0 : i ≠ 0 := hall i (by simp)
    have hnd2 : (l1 ++ i :: l2).Nodup := (List.nodup_cons.1 hnd).2
    have hain : a ∉ l1 ++ i :: l2 := (List.nodup_cons.1 hnd).1
    have hai : a ≠ i := fun e => hain (by simp [e])
    refine ⟨hc.1, ha0, ?_⟩
    cases l1 with
    | nil =>
      simp only [List.getLast?_singleton, Option.some.injEq] at hj
      subst hj
      have hc2 : HChain next (next (a - 1)) (i :: l2) := hc.2.2
      rw [arraySet_other _ _ _ _ (pred_ne ha0 hi0 hai), arraySet_self]
      refine hchain_congr next _ l2 _ ?_ hc2.2.2
      intro x hx
      have hx0 := hchain_pos next l2 _ hc2.2.2 x hx
      have hxi : x ≠ i := fun e => (List.nodup_cons.1 hnd2).1 (e ▸ hx)
      have hxa : x ≠ a := fun e => hain (by simp [← e, hx])
      rw [arraySet_other _ _ _ _ (pred_ne hx0 hi0 hxi),
        arraySet_other _ _ _ _ (pred_ne hx0 ha0 hxa)]
    | cons b l1 =>
      rw [List.getLast?_cons_cons] at hj
      have hjm : j ∈ b :: l1 := List.mem_of_mem_getLast? hj
      have haj : a ≠ j := fun e => hain (by rw [e]; exact List.mem_append_left _ hjm)
      have hj0 : j ≠ 0 := hall j (List.mem_cons_of_mem _ (List.mem_append_left _ hjm))
      rw [arraySet_other _ _ _ _ (pred_ne ha0 hi0 hai),
        arraySet_other _ _ _ _ (pred_ne ha0 hj0 haj)]
      exact ih _ j hj hc.2.2 hnd2

theorem unchain_common (s : BaseMemSet) (pre : SetSlot) (i : Nat) :
    (s.unchain pre i).m_value = s.m_value ∧ (s.unchain pre i).hash = s.hash ∧
    (s.unchain pre i).m_buckets_num = s.m_buckets_num ∧
    (s.unchain pre i).m_max_num = s.m_max_num ∧
    (s.unchain pre i).m_raw_used = s.m_raw_used ∧
    (s.unchain pre i).m_used = s.m_used - 1 ∧
    (s.unchain pre i).m_free_index = i + 1 := by
  cases pre <;> exact ⟨rfl, rfl, rfl, rfl, rfl, rfl, rfl⟩

theorem unchain_bucket (s : BaseMemSet) (b i : Nat) :
    (s.unchain (SetSlot.bucket b) i).m_buckets = arraySet s.m_buckets b (s.m_next i) ∧
    (s.unchain (SetSlot.bucket b) i).m_next = arraySet s.m_next i s.m_free_index :=
  ⟨rfl, rfl⟩

theorem unchain_next (s : BaseMemSet) (j i : Nat) :
    (s.unchain (SetSlot.next j) i).m_buckets = s.m_buckets ∧
    (s.unchain (SetSlot.next j) i).m_next
      = arraySet (arraySet s.m_next j (s.m_next i)) i s.m_free_index :=
  ⟨rfl, rfl⟩

theorem unchain_inv (s : BaseMemSet) (A Fr : List Nat) (h : SetInv s A Fr) (b : Nat)
    (hb : b < s.m_buckets_num) (l1 : List Nat) (i : Nat) (l2 : List Nat)
    (hc : HChain s.m_next (s.m_buckets b) (l1 ++ i :: l2)) (hnd : (l1 ++ i :: l2).Nodup)
    (hl : ∀ x, x ∈ l1 ++ i :: l2 ↔ (x ∈ A ∧ s.get_bucket_index (s.key x) = b)) :
    SetInv (s.unchain (slotBefore (SetSlot.bucket b) l1) (i - 1)) (A.erase i) (i :: Fr) := by
  have hiA : i ∈ A := ((hl i).1 (by simp)).1
  have hib : s.get_bucket_index (s.key i) = b := ((hl i).1 (by simp)).2
  have hi1 := (h.pos (Or.inl hiA)).1
  have hi0 : i ≠ 0 := by omega
  have hii : i - 1 + 1 = i := by omega
  have hndA := List.nodup_append.1 h.nodup
  have hAF : ∀ x, x ∈ A → x ∈ Fr → False := fun x h1 h2 => hndA.2.2 h1 h2
  have hpos := hchain_pos _ _ _ hc
  obtain ⟨hv, hh, hbn, hmax, hraw, hused, hfree⟩ :=
    unchain_common s (slotBefore (SetSlot.bucket b) l1) (i - 1)
  have hkey : ∀ x, (s.unchain (slotBefore (SetSlot.bucket b) l1) (i - 1)).key x = s.key x := by
    intro x
    unfold BaseMemSet.key BaseMemSet.deref
    rw [hv]
  have hgbi : ∀ k, (s.unchain (slotBefore (SetSlot.bucket b) l1) (i - 1)).get_bucket_index k
      = s.get_bucket_index k := by
    intro k
    unfold BaseMemSet.get_bucket_index
    rw [hh, hbn]
  -- the arrays after the call
  have harr : (∀ x, x ≠ 0 → x ∉ l1 ++ i :: l2 →
        (s.unchain (slotBefore (SetSlot.bucket b) l1) (i - 1)).m_next (x - 1) = s.m_next (x - 1)) ∧
      (s.unchain (slotBefore (SetSlot.bucket b) l1) (i - 1)).m_next (i - 1) = s.m_free_index ∧
      (∀ b2, b2 ≠ b →
        (s.unchain (slotBefore (SetSlot.bucket b) l1) (i - 1)).m_buckets b2 = s.m_buckets b2) ∧
      HChain (s.unchain (slotBefore (SetSlot.bucket b) l1) (i - 1)).m_next
        ((s.unchain (slotBefore (SetSlot.bucket b) l1) (i - 1)).m_buckets b) (l1 ++ l2) := by
    cases hlast : l1.getLast? with
    | none =>
      have hl1 : l1 = [] := List.getLast?_eq_none_iff.1 hlast
      subst hl1
      have hs : slotBefore (SetSlot.bucket b) [] = SetSlot.bucket b := rfl
      rw [hs, (unchain_bucket s b (i - 1)).1, (unchain_bucket s b (i - 1)).2]
      refine ⟨?_, arraySet_self _ _ _, ?_, ?_⟩
      · intro x hx0 hx
        have hxi : x ≠ i := fun e => hx (by simp [e])
        exact arraySet_other _ _ _ _ (pred_ne hx0 hi0 hxi)
      · intro b2 hb2
        exact arraySet_other _ _ _ _ hb2
      · rw [arraySet_self]
        have hci : s.m_buckets b = i := hc.1
        rw [hci] at hc
        exact hchain_skip_head s.m_next i s.m_free_index l2 hc hnd
    | some j =>
      have hs : slotBefore (SetSlot.bucket b) l1 = SetSlot.next (j - 1) := by
        unfold slotBefore
        rw [hlast]
      have hjm : j ∈ l1 := List.mem_of_mem_getLast? hlast
      have hj0 : j ≠ 0 := hpos j (List.mem_append_left _ hjm)
      have hji : j ≠ i := by
        intro e
        exact (List.nodup_append.1 hnd).2.2 hjm (by rw [e]; exact List.mem_cons_self i l2)
      rw [hs, (unchain_next s (j - 1) (i - 1)).1, (unchain_next s (j - 1) (i - 1)).2]
      refine ⟨?_, arraySet_self _ _ _, fun _ _ => rfl, ?_⟩
      · intro x hx0 hx
        have hxi : x ≠ i := fun e => hx (by simp [e])
        have hxj : x ≠ j := fun e => hx (by rw [e]; exact List.mem_append_left _ hjm)
        rw [arraySet_other _ _ _ _ (pred_ne hx0 hi0 hxi),
          arraySet_other _ _ _ _ (pred_ne hx0 hj0 hxj)]
      · exact hchain_skip_inner s.m_next i s.m_free_index l2 l1 _ j hlast hc hnd
  obtain ⟨hN, hNi, hB, hCh⟩ := harr
  have hmem12 : ∀ x, x ∈ l1 ++ l2 ↔ (x ∈ l1 ++ i :: l2 ∧ x ≠ i) := by
    intro x
    have hnot : i ∉ l1 ++ l2 := by
      intro hx
      rcases List.mem_append.1 hx with e | e
      · exact (List.nodup_append.1 hnd).2.2 e (List.mem_cons_self i l2)
      · exact (List.nodup_cons.1 (List.nodup_append.1 hnd).2.1).1 e
    constructor
    · intro hx
      refine ⟨?_, fun e => hnot (e ▸ hx)⟩
      rcases List.mem_append.1 hx with e | e
      · exact List.mem_append_left _ e
      · exact List.mem_append_right _ (List.mem_cons_of_mem _ e)
    · rintro ⟨hx, hxi⟩
      rcases List.mem_append.1 hx with e | e
      · exact List.mem_append_left _ e
      · rcases List.mem_cons.1 e with e2 | e2
        · exact absurd e2 hxi
        · exact List.mem_append_right _ e2
  refine ⟨?_, ?_, ?_, ?_, ?_, ?_, ?_, ?_⟩
  · rw [hbn]; exact h.bn
  · rw [hused, List.length_erase_of_mem hiA, h.used]
  · rw [hraw, hmax]; exact h.raw_le
  · intro x
    rw [hraw, h.cover x]
    simp only [List.mem_cons]
    by_cases e : x = i
    · subst e
      simp [hiA]
    · rw [List.mem_erase_of_ne e]
      simp [e]
  · have h1 : (i :: (A.erase i ++ Fr)).Nodup := by
      refine List.nodup_cons.2 ⟨?_, ?_⟩
      · intro hx
        rcases List.mem_append.1 hx with h2 | h2
        · exact (List.Nodup.not_mem_erase hndA.1) h2
        · exact hAF _ hiA h2
      · exact List.nodup_append.2 ⟨hndA.1.erase _, hndA.2.1,
          fun x hx1 hx2 => hAF x (List.mem_of_mem_erase hx1) hx2⟩
    exact (List.perm_middle.nodup_iff).2 h1
  · rw [hfree, hii]
    refine ⟨rfl, hi0, ?_⟩
    rw [hNi]
    refine hchain_congr s.m_next _ Fr _ ?_ h.free
    intro x hx
    have hx1 := (h.pos (Or.inr hx)).1
    refine hN x (by omega) ?_
    intro hx2
    exact hAF x ((hl x).1 hx2).1 hx
  · intro x hx y hy hk
    rw [hkey, hkey] at hk
    exact h.keys x (List.mem_of_mem_erase hx) y (List.mem_of_mem_erase hy) hk
  · intro b2 hb2
    rw [hbn] at hb2
    by_cases e : b2 = b
    · subst e
      refine ⟨l1 ++ l2, hCh, ?_, ?_⟩
      · exact List.Nodup.sublist (List.Sublist.append_left
          (List.sublist_cons_self i l2) l1) hnd
      · intro x
        rw [hmem12, hl, hkey, hgbi, List.Nodup.mem_erase_iff hndA.1]
        tauto
    · obtain ⟨l, hcl, hndl, hml⟩ := h.chains b2 hb2
      refine ⟨l, ?_, hndl, ?_⟩
      · rw [hB b2 e]
        refine hchain_congr s.m_next _ l _ ?_ hcl
        intro x hx
        refine hN x (hchain_pos _ _ _ hcl x hx) ?_
        intro hx2
        have h1 := ((hml x).1 hx).2
        have h2 := ((hl x).1 hx2).2
        exact e (h1.symm.trans h2)
      · intro x
        rw [hml, hkey, hgbi, List.Nodup.mem_erase_iff hndA.1]
        constructor
        · rintro ⟨h1, h2⟩
          refine ⟨⟨?_, h1⟩, h2⟩
          intro e2
          rw [e2] at h2
          exact e (h2.symm.trans hib)
        · rintro ⟨⟨_, h1⟩, h2⟩
          exact ⟨h1, h2⟩

theorem SetInv.erase {s : BaseMemSet} {A Fr : List Nat} (h : SetInv s A Fr)
    (fuel key : Nat) (hf : s.m_max_num < fuel) :
    ∃ s2 r, s.erase fuel key = some (s2, r) ∧
      ((r ≠ 0 ∧ r ∈ A ∧ s.key r = key ∧ SetInv s2 (A.erase r) (r :: Fr) ∧
          s2.m_value = s.m_value ∧ s2.m_max_num = s.m_max_num ∧
          s2.m_buckets_num = s.m_buckets_num ∧ s2.hash = s.hash) ∨
        (r = 0 ∧ s2 = s ∧ ∀ i ∈ A, s.key i ≠ key)) := by
  have hb : s.get_bucket_index key < s.m_buckets_num := Nat.mod_lt _ h.bn
  obtain ⟨l, hc, hnd, hl⟩ := h.chains _ hb
  have hsub : l ⊆ A := fun i hi => ((hl i).1 hi).1
  have hlen : l.length ≤ A.length := (List.subperm_of_subset hnd hsub).length_le
  have hA := h.length_le
  have hraw := h.raw_le
  have hmiss : (∀ j ∈ l, s.key j ≠ key) → ∀ i ∈ A, s.key i ≠ key := by
    intro hm i hi hk
    exact hm i ((hl i).2 ⟨hi, by rw [hk]⟩) hk
  unfold BaseMemSet.erase
  by_cases hu : s.m_used = 0
  · rw [if_pos hu]
    refine ⟨s, 0, rfl, Or.inr ⟨rfl, rfl, ?_⟩⟩
    intro i hi
    have : A.length = 0 := by rw [← h.used]; exact hu
    rw [List.length_eq_zero] at this
    rw [this] at hi
    simp at hi
  · rw [if_neg hu]
    by_cases hz : s.m_buckets (s.get_bucket_index key) = 0
    · rw [if_pos hz]
      refine ⟨s, 0, rfl, Or.inr ⟨rfl, rfl, ?_⟩⟩
      rw [hz] at hc
      have := hchain_zero _ _ hc
      subst this
      exact hmiss (by simp)
    · rw [if_neg hz]
      by_cases hex : ∃ i ∈ l, s.key i = key
      · obtain ⟨l1, i, l2, hsplit, hno, hki⟩ := split_first_match (fun i => s.key i = key) l hex
        subst hsplit
        have hiA : i ∈ A := hsub (by simp)
        refine ⟨_, i, erase_loop_hit s key i l2 hki l1 _ fuel _ hc (by omega) hno, Or.inl ?_⟩
        obtain ⟨hv, hh, hbn, hmax, _⟩ :=
          unchain_common s (slotBefore (SetSlot.bucket (s.get_bucket_index key)) l1) (i - 1)
        exact ⟨hchain_pos _ _ _ hc i (by simp), hiA, hki,
          unchain_inv s A Fr h _ hb l1 i l2 hc hnd hl, hv, hmax, hbn, hh⟩
      · have hno : ∀ j ∈ l, s.key j ≠ key := fun j hj hk => hex ⟨j, hj, hk⟩
        exact ⟨s, 0, erase_loop_miss s key l _ fuel _ hc (by omega) hno,
          Or.inr ⟨rfl, rfl, hmiss hno⟩⟩

theorem clear_inv (s : BaseMemSet) (hb : 0 < s.m_buckets_num) : SetInv s.clear [] [] := by
  refine ⟨hb, rfl, Nat.zero_le _, ?_, List.nodup_nil, rfl, ?_, ?_⟩
  · intro i
    show (1 ≤ i ∧ i ≤ 0) ↔ _
    simp
    omega
  · intro i hi
    simp at hi
  · intro b hb2
    refine ⟨[], ?_, List.nodup_nil, ?_⟩
    · have hb3 : b < s.m_buckets_num := hb2
      exact if_pos hb3
    · intro i
      simp

theorem insert_impl_inv (s : BaseMemSet) (A Fr : List Nat) (h : SetInv s A Fr) (value : Pair)
    (hfull : s.full = false) (hnew : ∀ i ∈ A, s.key i ≠ value.first) :
    (s.insert_impl (s.get_bucket_index value.first) value).2 ∉ A ∧
    (s.insert_impl (s.get_bucket_index value.first) value).2 ≠ 0 ∧
    (∃ Fr2, SetInv (s.insert_impl (s.get_bucket_index value.first) value).1
      ((s.insert_impl (s.get_bucket_index value.first) value).2 :: A) Fr2) ∧
    (s.insert_impl (s.get_bucket_index value.first) value).1.deref
      (s.insert_impl (s.get_bucket_index value.first) value).2 = value ∧
    (∀ i ∈ A, (s.insert_impl (s.get_bucket_index value.first) value).1.deref i = s.deref i) ∧
    (s.insert_impl (s.get_bucket_index value.first) value).1.m_max_num = s.m_max_num ∧
    (s.insert_impl (s.get_bucket_index value.first) value).1.m_buckets_num = s.m_buckets_num ∧
    (s.insert_impl (s.get_bucket_index value.first) value).1.hash = s.hash := by
  have hb : s.get_bucket_index value.first < s.m_buckets_num := Nat.mod_lt _ h.bn
  have hndA := List.nodup_append.1 h.nodup
  have hAF : ∀ x, x ∈ A → x ∈ Fr → False := fun x h1 h2 => hndA.2.2 h1 h2
  have hne : s.m_used ≠ s.m_max_num := by
    unfold BaseMemSet.full at hfull
    simpa using hfull
  have hraw := h.raw_le
  have hlen := h.length_le
  have hused := h.used
  generalize hbk : s.get_bucket_index value.first = b at hb ⊢
  -- the index taken and the new free list
  have hidx : ∃ e Fr2, (s.insert_impl b value).2 = e ∧ e ≠ 0 ∧ e ∉ A ∧ e ∉ Fr2 ∧
      (s.insert_impl b value).1.m_next = arraySet s.m_next (e - 1) (s.m_buckets b) ∧
      (s.insert_impl b value).1.m_buckets = arraySet s.m_buckets b e ∧
      (s.insert_impl b value).1.m_value = arraySet s.m_value (e - 1) value ∧
      (s.insert_impl b value).1.m_used = s.m_used + 1 ∧
      (s.insert_impl b value).1.m_max_num = s.m_max_num ∧
      (s.insert_impl b value).1.m_buckets_num = s.m_buckets_num ∧
      (s.insert_impl b value).1.hash = s.hash ∧
      (s.insert_impl b value).1.m_raw_used ≤ s.m_max_num ∧
      (∀ i, (1 ≤ i ∧ i ≤ (s.insert_impl b value).1.m_raw_used) ↔ (i ∈ e :: A ∨ i ∈ Fr2)) ∧
      (e :: A ++ Fr2).Nodup ∧
      HChain s.m_next (s.insert_impl b value).1.m_free_index Fr2 ∧
      (∀ x ∈ Fr2, x ∈ Fr) := by
    by_cases hz : s.m_free_index = 0
    · have hFr : Fr = [] := by
        have := h.free
        rw [hz] at this
        exact hchain_zero _ _ this
      subst hFr
      have hcov : s.m_raw_used ≤ A.length :=
        covered_le_length A _ (fun i h1 h2 => by
          rcases (h.cover i).1 ⟨h1, h2⟩ with h3 | h3
          · exact h3
          · simp at h3)
      have hnot : s.m_raw_used + 1 ∉ A := by
        intro hm
        have := (h.pos (Or.inl hm)).2
        omega
      have heq : s.insert_impl b value =
          (BaseMemSet.mk (s.m_used + 1) (s.m_raw_used + 1) s.m_free_index s.m_max_num
            s.m_buckets_num (arraySet s.m_buckets b (s.m_raw_used + 1))
            (arraySet s.m_next (s.m_raw_used + 1 - 1) (s.m_buckets b))
            (arraySet s.m_value (s.m_raw_used + 1 - 1) value) s.hash, s.m_raw_used + 1) := by
        unfold BaseMemSet.insert_impl
        simp only [hz, if_true]
      rw [heq]
      refine ⟨s.m_raw_used + 1, [], rfl, by omega, hnot, by simp, rfl, rfl, rfl, rfl, rfl, rfl, rfl,
        ?_, ?_, ?_, hz, by simp⟩
      · show s.m_raw_used + 1 ≤ s.m_max_num
        omega
      · intro i
        show (1 ≤ i ∧ i ≤ s.m_raw_used + 1) ↔ _
        have hc := h.cover i
        simp only [List.mem_cons, List.not_mem_nil, or_false] at hc ⊢
        constructor
        · intro h1
          by_cases e : i = s.m_raw_used + 1
          · exact Or.inl e
          · exact Or.inr (hc.1 ⟨h1.1, by omega⟩)
        · rintro (e | e)
          · omega
          · have := hc.2 e
            omega
      · simp only [List.append_nil]
        exact List.nodup_cons.2 ⟨hnot, hndA.1⟩
    · cases hFr : Fr with
      | nil =>
        have := h.free
        rw [hFr] at this
        exact absurd this hz
      | cons f fs =>
        have hfree := h.free
        rw [hFr] at hfree
        have hf : s.m_free_index = f := hfree.1
        have hfF : f ∈ Fr := by rw [hFr]; simp
        have hnd2 : (f :: (A ++ fs)).Nodup := by
          have := h.nodup
          rw [hFr] at this
          exact (List.perm_middle.nodup_iff).1 this
        have hfA : f ∉ A := fun e => hAF f e hfF
        have heq : s.insert_impl b value =
            (BaseMemSet.mk (s.m_used + 1) s.m_raw_used (s.m_next (f - 1)) s.m_max_num
              s.m_buckets_num (arraySet s.m_buckets b f)
              (arraySet s.m_next (f - 1) (s.m_buckets b))
              (arraySet s.m_value (f - 1) value) s.hash, f) := by
          unfold BaseMemSet.insert_impl
          simp only [hz, if_false]
          rw [hf]
        rw [heq]
        refine ⟨f, fs, rfl, hfree.2.1, hfA, ?_, rfl, rfl, rfl, rfl, rfl, rfl, rfl, hraw, ?_, hnd2,
          hfree.2.2, ?_⟩
        · intro e
          exact (List.nodup_cons.1 hnd2).1 (List.mem_append_right _ e)
        · intro i
          show (1 ≤ i ∧ i ≤ s.m_raw_used) ↔ _
          rw [h.cover i, hFr]
          simp only [List.mem_cons]
          tauto
        · intro x hx
          exact List.mem_cons_of_mem _ hx
  obtain ⟨e, Fr2, he, he0, heA, heF, hN, hB, hV, hU, hM, hBn, hH, hR, hCov, hNd, hFree, hFsub⟩ :=
    hidx
  rw [he]
  have hderef : ∀ i ∈ A, (s.insert_impl b value).1.deref i = s.deref i := by
    intro i hi
    have hi1 := (h.pos (Or.inl hi)).1
    unfold BaseMemSet.deref
    rw [hV]
    exact arraySet_other _ _ _ _ (pred_ne (by omega) he0 (fun e2 => heA (e2 ▸ hi)))
  have hderefe : (s.insert_impl b value).1.deref e = value := by
    unfold BaseMemSet.deref
    rw [hV]
    exact arraySet_self _ _ _
  have hkey : ∀ i ∈ A, (s.insert_impl b value).1.key i = s.key i := by
    intro i hi
    unfold BaseMemSet.key
    rw [hderef i hi]
  have hkeye : (s.insert_impl b value).1.key e = value.first := by
    unfold BaseMemSet.key
    rw [hderefe]
  have hgbi : ∀ k, (s.insert_impl b value).1.get_bucket_index k = s.get_bucket_index k := by
    intro k
    unfold BaseMemSet.get_bucket_index
    rw [hH, hBn]
  have hnext : ∀ x, x ≠ 0 → x ≠ e →
      (s.insert_impl b value).1.m_next (x - 1) = s.m_next (x - 1) := by
    intro x hx0 hxe
    rw [hN]
    exact arraySet_other _ _ _ _ (pred_ne hx0 he0 hxe)
  refine ⟨heA, he0, ⟨Fr2, ?_⟩, hderefe, hderef, hM, hBn, hH⟩
  refine ⟨?_, ?_, ?_, hCov, hNd, ?_, ?_, ?_⟩
  · rw [hBn]; exact h.bn
  · rw [hU, List.length_cons, h.used]
  · rw [hM]; exact hR
  · refine hchain_congr s.m_next _ Fr2 _ ?_ hFree
    intro x hx
    have hx1 := (h.pos (Or.inr (hFsub x hx))).1
    exact hnext x (by omega) (fun e2 => heF (e2 ▸ hx))
  · intro x hx y hy hk
    rcases List.mem_cons.1 hx with e1 | e1 <;> rcases List.mem_cons.1 hy with e2 | e2
    · rw [e1, e2]
    · rw [e1, hkeye, hkey y e2] at hk
      exact absurd hk.symm (hnew y e2)
    · rw [e2, hkeye, hkey x e1] at hk
      exact absurd hk (hnew x e1)
    · rw [hkey x e1, hkey y e2] at hk
      exact h.keys x e1 y e2 hk
  · intro b2 hb2
    rw [hBn] at hb2
    obtain ⟨l, hcl, hndl, hml⟩ := h.chains b2 hb2
    have hel : e ∉ l := fun e2 => heA ((hml e).1 e2).1
    have hcl2 : HChain (s.insert_impl b value).1.m_next (s.m_buckets b2) l := by
      refine hchain_congr s.m_next _ l _ ?_ hcl
      intro x hx
      exact hnext x (hchain_pos _ _ _ hcl x hx) (fun e2 => hel (e2 ▸ hx))
    by_cases e2 : b2 = b
    · subst e2
      refine ⟨e :: l, ?_, List.nodup_cons.2 ⟨hel, hndl⟩, ?_⟩
      · refine ⟨?_, he0, ?_⟩
        · rw [hB]; exact arraySet_self _ _ _
        · have : (s.insert_impl b2 value).1.m_next (e - 1) = s.m_buckets b2 := by
            rw [hN]; exact arraySet_self _ _ _
          rw [this]
          exact hcl2
      · intro x
        simp only [List.mem_cons]
        constructor
        · rintro (e3 | e3)
          · subst e3
            exact ⟨Or.inl rfl, by rw [hgbi, hkeye]; exact hbk⟩
          · have := (hml x).1 e3
            exact ⟨Or.inr this.1, by rw [hgbi, hkey x this.1]; exact this.2⟩
        · rintro ⟨e3 | e3, h2⟩
          · exact Or.inl e3
          · rw [hgbi, hkey x e3] at h2
            exact Or.inr ((hml x).2 ⟨e3, h2⟩)
    · refine ⟨l, ?_, hndl, ?_⟩
      · have : (s.insert_impl b value).1.m_buckets b2 = s.m_buckets b2 := by
          rw [hB]; exact arraySet_other _ _ _ _ e2
        rw [this]
        exact hcl2
      · intro x
        simp only [List.mem_cons]
        constructor
        · intro e3
          have := (hml x).1 e3
          exact ⟨Or.inr this.1, by rw [hgbi, hkey x this.1]; exact this.2⟩
        · rintro ⟨e3 | e3, h2⟩
          · subst e3
            rw [hgbi, hkeye, hbk] at h2
            exact absurd h2.symm e2
          · rw [hgbi, hkey x e3] at h2
            exact (hml x).2 ⟨e3, h2⟩

/-! ## The recency list of an LRU set -/

theorem lruFront_eq (link : Nat → Link) (i : Nat) (hi : i ≠ 0) (hn : (link 0).next ≠ i) :
    lruFront link i = linkedFront link i := by
  funext x
  unfold lruFront linkedFront setLink
  dsimp only
  split_ifs <;> first | rfl | cc

theorem lruUnlink_other (link : Nat → Link) (i m r x : Nat) (hx : x ≠ i) :
    lruUnlink link i x = unlinked link i m r x := by
  unfold lruUnlink unlinked setLink
  dsimp only
  split_ifs <;> first | rfl | cc

theorem chain_zero_next_mem (link : Nat → Link) (R : List Nat) (h : Chain link 0 R 0) :
    (link 0).next ∈ R ++ [0] :=
  chain_next_mem link 0 R 0 0 h (List.mem_cons_self _ _)

theorem chain_lru_front (link : Nat → Link) (R : List Nat) (i : Nat) (h : Chain link 0 R 0)
    (hi0 : i ≠ 0) (hiR : i ∉ R) (h0 : 0 ∉ R) (hnd : R.Nodup) :
    Chain (lruFront link i) 0 (i :: R) 0 := by
  have hn : (link 0).next ≠ i := by
    intro e
    have := chain_zero_next_mem link R h
    rw [e] at this
    rcases List.mem_append.1 this with h1 | h1
    · exact hiR h1
    · simp only [List.mem_singleton] at h1
      exact hi0 h1
  rw [lruFront_eq link i hi0 hn]
  exact chain_alloc link R i h hi0 hiR h0 hnd

theorem chain_lru_unlink (link : Nat → Link) (R : List Nat) (i : Nat) (h : Chain link 0 R 0)
    (hiR : i ∈ R) (h0 : 0 ∉ R) (hnd : R.Nodup) :
    Chain (lruUnlink link i) 0 (R.erase i) 0 := by
  have h1 := chain_unlink link i 0 0 0 R 0 h hiR (List.nodup_cons.2 ⟨h0, hnd⟩) h0
  have hi0 : i ≠ 0 := fun e => h0 (e ▸ hiR)
  have hnot : i ∉ R.erase i := List.Nodup.not_mem_erase hnd
  refine chain_congr (unlinked link i 0 0) _ 0 (R.erase i) 0 ?_ ?_ h1
  · intro x hx
    have hxi : x ≠ i := by
      rcases List.mem_cons.1 hx with e | e
      · rw [e]; exact fun e2 => hi0 e2.symm
      · exact fun e2 => hnot (e2 ▸ e)
    rw [lruUnlink_other link i 0 0 x hxi]
  · intro x hx
    have hxi : x ≠ i := by
      rcases List.mem_append.1 hx with e | e
      · exact fun e2 => hnot (e2 ▸ e)
      · simp only [List.mem_singleton] at e
        rw [e]; exact fun e2 => hi0 e2.symm
    rw [lruUnlink_other link i 0 0 x hxi]

theorem chain_lru_erase (link : Nat → Link) (R : List Nat) (i : Nat) (h : Chain link 0 R 0)
    (hiR : i ∈ R) (h0 : 0 ∉ R) (hnd : R.Nodup) :
    Chain (setLink (lruUnlink link i) i { prev := 0, next := 0 }) 0 (R.erase i) 0 := by
  have h1 := chain_lru_unlink link R i h hiR h0 hnd
  have hi0 : i ≠ 0 := fun e => h0 (e ▸ hiR)
  have hnot : i ∉ R.erase i := List.Nodup.not_mem_erase hnd
  refine chain_congr (lruUnlink link i) _ 0 (R.erase i) 0 ?_ ?_ h1
  · intro x hx
    have hxi : x ≠ i := by
      rcases List.mem_cons.1 hx with e | e
      · rw [e]; exact fun e2 => hi0 e2.symm
      · exact fun e2 => hnot (e2 ▸ e)
    simp [setLink, hxi]
  · intro x hx
    have hxi : x ≠ i := by
      rcases List.mem_append.1 hx with e | e
      · exact fun e2 => hnot (e2 ▸ e)
      · simp only [List.mem_singleton] at e
        rw [e]; exact fun e2 => hi0 e2.symm
    simp [setLink, hxi]

theorem chain_snoc (link : Nat → Link) (z : Nat) :
    ∀ (l : List Nat) (a b : Nat), Chain link a (l ++ [b]) z ↔
      (Chain link a l b ∧ (link b).next = z ∧ (link z).prev = b) := by
  intro l
  induction l with
  | nil =>
    intro a b
    show ((link a).next = b ∧ (link b).prev = a ∧ (link b).next = z ∧ (link z).prev = b) ↔
      (((link a).next = b ∧ (link b).prev = a) ∧ (link b).next = z ∧ (link z).prev = b)
    tauto
  | cons c l ih =>
    intro a b
    show ((link a).next = c ∧ (link c).prev = a ∧ Chain link c (l ++ [b]) z) ↔
      (((link a).next = c ∧ (link c).prev = a ∧ Chain link c l b) ∧ _)
    rw [ih c b]
    tauto

theorem lru_walk_zero (s : LRUSet) (fuel : Nat) : s.walk fuel 0 = some [] := by
  cases fuel <;> rfl

theorem lru_walkBack_zero (s : LRUSet) (fuel : Nat) : s.walkBack fuel 0 = some [] := by
  cases fuel <;> rfl

theorem lru_walk_chain (s : LRUSet) :
    ∀ (l : List Nat) (a fuel : Nat), Chain s.m_active_link a l 0 → 0 ∉ l → l.length ≤ fuel →
      s.walk fuel (s.m_active_link a).next = some l := by
  intro l
  induction l with
  | nil =>
    intro a fuel h _ _
    rw [h.1]
    exact lru_walk_zero s fuel
  | cons b l ih =>
    intro a fuel h h0 hf
    rw [h.1]
    have hb : b ≠ 0 := fun e => h0 (by simp [e])
    obtain ⟨k, rfl⟩ := Nat.exists_eq_succ_of_ne_zero hb
    cases fuel with
    | zero => simp at hf
    | succ f =>
      show (s.walk f (s.m_active_link (k + 1)).next).map (fun l => (k + 1) :: l) = _
      rw [ih (k + 1) f h.2.2 (fun e => h0 (List.mem_cons_of_mem _ e))
        (by simp only [List.length_cons] at hf; omega)]
      rfl

theorem lru_walkBack_chain (s : LRUSet) :
    ∀ (l : List Nat) (z fuel : Nat), Chain s.m_active_link 0 l.reverse z → 0 ∉ l →
      l.length ≤ fuel → s.walkBack fuel (s.m_active_link z).prev = some l := by
  intro l
  induction l with
  | nil =>
    intro z fuel h _ _
    have : (s.m_active_link z).prev = 0 := h.2
    rw [this]
    exact lru_walkBack_zero s fuel
  | cons b l ih =>
    intro z fuel h h0 hf
    rw [List.reverse_cons, chain_snoc] at h
    rw [h.2.2]
    have hb : b ≠ 0 := fun e => h0 (by simp [e])
    obtain ⟨k, rfl⟩ := Nat.exists_eq_succ_of_ne_zero hb
    cases fuel with
    | zero => simp at hf
    | succ f =>
      show (s.walkBack f (s.m_active_link (k + 1)).prev).map (fun l => (k + 1) :: l) = _
      rw [ih (k + 1) f h.1 (fun e => h0 (List.mem_cons_of_mem _ e))
        (by simp only [List.length_cons] at hf; omega)]
      rfl

theorem LRUInv.nodup {s : LRUSet} {R : List Nat} (h : LRUInv s R) : R.Nodup := by
  obtain ⟨⟨Fr, hs⟩, _⟩ := h
  exact (List.nodup_append.1 hs.nodup).1

theorem LRUInv.lru_zero_not_mem {s : LRUSet} {R : List Nat} (h : LRUInv s R) : 0 ∉ R := by
  obtain ⟨⟨Fr, hs⟩, _⟩ := h
  intro h0
  have := (hs.pos (Or.inl h0)).1
  omega

theorem LRUInv.lru_length_le {s : LRUSet} {R : List Nat} (h : LRUInv s R) :
    R.length ≤ s.m_base.m_max_num := by
  obtain ⟨⟨Fr, hs⟩, _⟩ := h
  have := hs.length_le
  have := hs.raw_le
  omega

theorem LRUInv.size {s : LRUSet} {R : List Nat} (h : LRUInv s R) :
    s.m_base.size = R.length := by
  obtain ⟨⟨Fr, hs⟩, _⟩ := h
  exact hs.used

theorem LRUInv.deref_inj {s : LRUSet} {R : List Nat} (h : LRUInv s R) :
    ∀ i ∈ R, ∀ j ∈ R, s.m_base.deref i = s.m_base.deref j → i = j := by
  obtain ⟨⟨Fr, hs⟩, _⟩ := h
  intro i hi j hj e
  exact hs.keys i hi j hj (by unfold BaseMemSet.key; rw [e])

theorem LRUInv.order {s : LRUSet} {R : List Nat} (h : LRUInv s R) (fuel : Nat)
    (hf : R.length ≤ fuel) :
    s.order fuel = some (R.map s.m_base.deref) ∧
    s.orderBack fuel = some (R.reverse.map s.m_base.deref) := by
  constructor
  · unfold LRUSet.order
    rw [lru_walk_chain s R 0 fuel h.2 h.lru_zero_not_mem hf]
    rfl
  · unfold LRUSet.orderBack
    have hc : Chain s.m_active_link 0 R.reverse.reverse 0 := by
      rw [List.reverse_reverse]
      exact h.2
    rw [lru_walkBack_chain s R.reverse 0 fuel hc
      (by rw [List.mem_reverse]; exact h.lru_zero_not_mem) (by rw [List.length_reverse]; exact hf)]
    rfl

theorem lru_clear_inv (s : LRUSet) (hb : 0 < s.m_base.m_buckets_num) : LRUInv s.clear [] :=
  ⟨⟨[], clear_inv s.m_base hb⟩, by simp [LRUSet.clear, Chain, setLink]⟩

theorem LRUInv.find {s : LRUSet} {R : List Nat} (h : LRUInv s R) (fuel key : Nat)
    (hf : s.m_base.m_max_num < fuel) :
    ∃ r, s.find fuel key = some r ∧
      ((r ≠ 0 ∧ r ∈ R ∧ s.m_base.key r = key) ∨ (r = 0 ∧ ∀ i ∈ R, s.m_base.key i ≠ key)) := by
  obtain ⟨⟨Fr, hs⟩, _⟩ := h
  exact hs.find_index fuel key hf

theorem LRUInv.lru_erase {s : LRUSet} {R : List Nat} (h : LRUInv s R) (fuel key : Nat)
    (hf : s.m_base.m_max_num < fuel) :
    ∃ s2, s.erase fuel key = some s2 ∧
      ((∃ r, r ∈ R ∧ s.m_base.key r = key ∧ LRUInv s2 (R.erase r)) ∨
        (s2 = s ∧ ∀ i ∈ R, s.m_base.key i ≠ key)) ∧
      s2.m_base.m_value = s.m_base.m_value ∧ s2.m_base.m_max_num = s.m_base.m_max_num ∧
      s2.m_base.m_buckets_num = s.m_base.m_buckets_num ∧ s2.m_base.hash = s.m_base.hash := by
  obtain ⟨⟨Fr, hs⟩, hc⟩ := h
  have hR : R.Nodup := (List.nodup_append.1 hs.nodup).1
  have h0 : 0 ∉ R := by
    intro h0
    have := (hs.pos (Or.inl h0)).1
    omega
  obtain ⟨b2, r, hrun, hcase⟩ := hs.erase fuel key hf
  unfold LRUSet.erase
  rw [hrun]
  rcases hcase with ⟨hr0, hrR, hk, hinv, hv, hm, hbn, hh⟩ | ⟨hr0, hb2, hno⟩
  · have hpos : r > 0 := by omega
    simp only [hpos, if_true]
    exact ⟨_, rfl, Or.inl ⟨r, hrR, hk, ⟨_, hinv⟩, chain_lru_erase _ R r hc hrR h0 hR⟩,
      hv, hm, hbn, hh⟩
  · subst hr0
    subst hb2
    simp only [gt_iff_lt, Nat.lt_irrefl, if_false]
    exact ⟨s, rfl, Or.inr ⟨rfl, hno⟩, rfl, rfl, rfl, rfl⟩

theorem LRUInv.place_new {s : LRUSet} {R : List Nat} (h : LRUInv s R) (fuel : Nat) (value : Pair)
    (hf : s.m_base.m_max_num < fuel) (hfull : s.m_base.full = false)
    (hnew : ∀ i ∈ R, s.m_base.key i ≠ value.first) :
    ∃ s2 idx, s.place fuel value = some (s2, idx, true) ∧ LRUInv s2 (idx :: R) ∧
      s2.m_base.deref idx = value ∧ (∀ i ∈ R, s2.m_base.deref i = s.m_base.deref i) ∧
      s2.m_base.m_max_num = s.m_base.m_max_num ∧
      s2.m_base.m_buckets_num = s.m_base.m_buckets_num ∧ s2.m_base.hash = s.m_base.hash := by
  obtain ⟨⟨Fr, hs⟩, hc⟩ := h
  have hR : R.Nodup := (List.nodup_append.1 hs.nodup).1
  have h0 : 0 ∉ R := by
    intro h0
    have := (hs.pos (Or.inl h0)).1
    omega
  obtain ⟨r, hfind, hcase⟩ := hs.find_index fuel value.first hf
  have hr0 : r = 0 := by
    rcases hcase with ⟨_, hrR, hk⟩ | ⟨hr, _⟩
    · exact absurd hk (hnew r hrR)
    · exact hr
  subst hr0
  obtain ⟨hnot, hne, ⟨Fr2, hinv⟩, hd, hds, hm, hbn, hh⟩ :=
    insert_impl_inv s.m_base R Fr hs value hfull hnew
  have hfind2 : s.m_base.find_index_impl fuel (s.m_base.get_bucket_index value.first)
      value.first = some 0 := hfind
  unfold LRUSet.place BaseMemSet.insert2
  rw [hfind2]
  simp only [ne_eq, not_true_eq_false, if_false, hfull, Bool.false_eq_true, if_true]
  exact ⟨_, _, rfl, ⟨⟨Fr2, hinv⟩, chain_lru_front _ R _ hc hne hnot h0 hR⟩, hd, hds, hm, hbn, hh⟩

theorem LRUInv.place_old {s : LRUSet} {R : List Nat} (h : LRUInv s R) (fuel : Nat) (value : Pair)
    (hf : s.m_base.m_max_num < fuel) (r : Nat) (hr : r ∈ R)
    (hk : s.m_base.key r = value.first) :
    s.place fuel value = some (s, r, false) := by
  obtain ⟨⟨Fr, hs⟩, hc⟩ := h
  obtain ⟨r2, hfind, hcase⟩ := hs.find_index fuel value.first hf
  have hr2 : r2 = r ∧ r ≠ 0 := by
    rcases hcase with ⟨h0, hrR, hk2⟩ | ⟨_, hno⟩
    · have := hs.keys r2 hrR r hr (hk2.trans hk.symm)
      exact ⟨this, this ▸ h0⟩
    · exact absurd hk (hno r hr)
  obtain ⟨e, hr0⟩ := hr2
  subst e
  have hfind2 : s.m_base.find_index_impl fuel (s.m_base.get_bucket_index value.first)
      value.first = some r2 := hfind
  unfold LRUSet.place BaseMemSet.insert2
  rw [hfind2]
  simp only [ne_eq, hr0, not_false_eq_true, if_true, Bool.false_eq_true, if_false]

theorem LRUInv.active {s : LRUSet} {R : List Nat} (h : LRUInv s R) (fuel key : Nat)
    (hf : s.m_base.m_max_num < fuel) :
    (∀ r ∈ R, s.m_base.key r = key →
      s.active fuel key
          = some ({ s with m_active_link := lruFront (lruUnlink s.m_active_link r) r }, r) ∧
        LRUInv { s with m_active_link := lruFront (lruUnlink s.m_active_link r) r }
          (r :: R.erase r)) ∧
    ((∀ i ∈ R, s.m_base.key i ≠ key) → s.active fuel key = some (s, 0)) := by
  have hR := h.nodup
  have h0 := h.lru_zero_not_mem
  obtain ⟨⟨Fr, hs⟩, hc⟩ := h
  obtain ⟨r2, hfind, hcase⟩ := hs.find_index fuel key hf
  constructor
  · intro r hr hk
    have hr2 : r2 = r ∧ r ≠ 0 := by
      rcases hcase with ⟨h00, hrR, hk2⟩ | ⟨_, hno⟩
      · have := hs.keys r2 hrR r hr (hk2.trans hk.symm)
        exact ⟨this, this ▸ h00⟩
      · exact absurd hk (hno r hr)
    obtain ⟨e, hr0⟩ := hr2
    subst e
    constructor
    · unfold LRUSet.active
      rw [hfind]
      simp only [ne_eq, hr0, not_false_eq_true, if_true]
    · have hperm : List.Perm (r2 :: R.erase r2) R := (List.perm_cons_erase hr).symm
      refine ⟨⟨Fr, ?_⟩, ?_⟩
      · refine ⟨hs.bn, ?_, hs.raw_le, ?_, ?_, hs.free, ?_, ?_⟩
        · rw [hs.used]
          exact hperm.length_eq.symm
        · intro i
          rw [hs.cover i, hperm.mem_iff]
        · exact ((hperm.append_right Fr).nodup_iff).2 hs.nodup
        · intro i hi j hj
          exact hs.keys i (hperm.subset hi) j (hperm.subset hj)
        · intro b hb
          obtain ⟨l, h1, h2, h3⟩ := hs.chains b hb
          refine ⟨l, h1, h2, ?_⟩
          intro i
          rw [h3 i, hperm.mem_iff]
      · exact chain_lru_front _ (R.erase r2) r2 (chain_lru_unlink _ R r2 hc hr h0 hR) hr0
          (List.Nodup.not_mem_erase hR) (fun e => h0 (List.mem_of_mem_erase e)) (hR.erase _)
  · intro hno
    have hr2 : r2 = 0 := by
      rcases hcase with ⟨_, hrR, hk2⟩ | ⟨hr, _⟩
      · exact absurd hk2 (hno r2 hrR)
      · exact hr
    subst hr2
    unfold LRUSet.active
    rw [hfind]
    simp only [ne_eq, not_true_eq_false, if_false]

theorem LRUInv.isEmpty {s : LRUSet} {R : List Nat} (h : LRUInv s R)
    (hm : 0 < s.m_base.m_max_num) : s.m_base.isEmpty = true ↔ R = [] := by
  obtain ⟨⟨Fr, hs⟩, _⟩ := h
  unfold BaseMemSet.isEmpty
  rw [hs.used]
  simp [hm, List.length_eq_zero]

theorem LRUInv.tail {s : LRUSet} {Rb : List Nat} {t : Nat} (h : LRUInv s (t :: Rb).reverse) :
    (s.m_active_link 0).prev = t := by
  have := h.2
  rw [List.reverse_cons, chain_snoc] at this
  exact this.2.2

theorem disuse_loop_spec (fuel : Nat) (cb : Option (Pair → Bool)) :
    ∀ (n i : Nat) (s : LRUSet) (Rb : List Nat), LRUInv s Rb.reverse →
      0 < s.m_base.m_max_num → s.m_base.m_max_num < fuel →
      ∃ s2, LRUSet.disuse_loop fuel cb n i s
          = some (s2, i + disuseCount cb n (Rb.map s.m_base.deref)) ∧
        LRUInv s2 (Rb.drop (disuseCount cb n (Rb.map s.m_base.deref))).reverse ∧
        s2.m_base.m_value = s.m_base.m_value ∧ s2.m_base.m_max_num = s.m_base.m_max_num ∧
        s2.m_base.m_buckets_num = s.m_base.m_buckets_num ∧ s2.m_base.hash = s.m_base.hash ∧
        (disuseCount cb n (Rb.map s.m_base.deref) = 0 → s2 = s) := by
  intro n
  induction n with
  | zero =>
    intro i s Rb h _ _
    exact ⟨s, rfl, h, rfl, rfl, rfl, rfl, fun _ => rfl⟩
  | succ n ih =>
    intro i s Rb h hm hf
    cases Rb with
    | nil =>
      have he : s.m_base.isEmpty = true := (h.isEmpty hm).2 rfl
      refine ⟨s, ?_, h, rfl, rfl, rfl, rfl, fun _ => rfl⟩
      simp only [LRUSet.disuse_loop, he, if_true]
      rfl
    | cons t Rb =>
      have he : s.m_base.isEmpty = false := by
        cases hx : s.m_base.isEmpty
        · rfl
        · have := (h.isEmpty hm).1 hx
          simp at this
      have htail := h.tail
      by_cases hacc : cbAccepts cb (s.m_base.deref t) = true
      · have htR : t ∈ (t :: Rb).reverse := by simp
        obtain ⟨s1, hrun, hcase, hv, hmx, hbn, hh⟩ :=
          h.lru_erase fuel (s.m_base.deref t).first hf
        have hinv1 : LRUInv s1 Rb.reverse := by
          rcases hcase with ⟨r, hr, hk, hinv⟩ | ⟨_, hno⟩
          · obtain ⟨⟨Fr, hs⟩, _⟩ := h
            have hrt : r = t := hs.keys r hr t htR hk
            subst hrt
            have hnd : (r :: Rb).reverse.Nodup := (List.nodup_append.1 hs.nodup).1
            have herase : (r :: Rb).reverse.erase r = Rb.reverse := by
              rw [List.reverse_cons] at hnd ⊢
              have hnot : r ∉ Rb.reverse := by
                intro e
                exact (List.nodup_append.1 hnd).2.2 e (List.mem_singleton_self r)
              rw [List.erase_append_right _ hnot]
              simp
            rw [herase] at hinv
            exact hinv
          · exact absurd rfl (hno t htR)
        have hd : ∀ x, s1.m_base.deref x = s.m_base.deref x := by
          intro x
          unfold BaseMemSet.deref
          rw [hv]
        have hdm : Rb.map s1.m_base.deref = Rb.map s.m_base.deref :=
          List.map_congr_left (fun x _ => hd x)
        obtain ⟨s2, hrun2, hinv2, hv2, hmx2, hbn2, hh2, _⟩ :=
          ih (i + 1) s1 Rb hinv1 (by rw [hmx]; exact hm) (by rw [hmx]; exact hf)
        have hcount : disuseCount cb (n + 1) ((t :: Rb).map s.m_base.deref)
            = disuseCount cb n (Rb.map s.m_base.deref) + 1 := by
          unfold disuseCount
          simp only [List.map_cons, List.take_succ_cons, List.takeWhile_cons, hacc, if_true,
            List.length_cons]
        rw [hcount]
        rw [hdm] at hrun2 hinv2
        refine ⟨s2, ?_, ?_, hv2.trans hv, hmx2.trans hmx, hbn2.trans hbn, hh2.trans hh, ?_⟩
        · simp only [LRUSet.disuse_loop, he, Bool.false_eq_true, if_false]
          rw [htail, if_neg (by rw [hacc]; exact Bool.noConfusion), hrun]
          simp only []
          rw [hrun2, show i + 1 + disuseCount cb n (Rb.map s.m_base.deref)
            = i + (disuseCount cb n (Rb.map s.m_base.deref) + 1) from by omega]
        · rw [List.drop_succ_cons]
          exact hinv2
        · intro e
          exact absurd e (Nat.succ_ne_zero _)
      · have hacc2 : cbAccepts cb (s.m_base.deref t) = false := by
          cases hx : cbAccepts cb (s.m_base.deref t)
          · rfl
          · exact absurd hx hacc
        have hcount : disuseCount cb (n + 1) ((t :: Rb).map s.m_base.deref) = 0 := by
          unfold disuseCount
          simp only [List.map_cons, List.take_succ_cons, List.takeWhile_cons, hacc2,
            Bool.false_eq_true, if_false, List.length_nil]
        rw [hcount]
        refine ⟨s, ?_, h, rfl, rfl, rfl, rfl, fun _ => rfl⟩
        simp only [LRUSet.disuse_loop, he, Bool.false_eq_true, if_false]
        rw [htail, if_pos hacc2]
        rfl

theorem LRUInv.disuse {s : LRUSet} {R : List Nat} (h : LRUInv s R) (fuel num : Nat)
    (cb : Option (Pair → Bool)) (hm : 0 < s.m_base.m_max_num) (hf : s.m_base.m_max_num < fuel) :
    ∃ s2, s.disuse fuel num cb
        = some (s2, disuseCount cb num (R.reverse.map s.m_base.deref)) ∧
      LRUInv s2 (R.reverse.drop (disuseCount cb num (R.reverse.map s.m_base.deref))).reverse ∧
      s2.m_base.m_value = s.m_base.m_value ∧ s2.m_base.m_max_num = s.m_base.m_max_num ∧
      s2.m_base.m_buckets_num = s.m_base.m_buckets_num ∧ s2.m_base.hash = s.m_base.hash ∧
      (disuseCount cb num (R.reverse.map s.m_base.deref) = 0 → s2 = s) := by
  have h2 : LRUInv s R.reverse.reverse := by rw [List.reverse_reverse]; exact h
  obtain ⟨s2, hrun, hrest⟩ := disuse_loop_spec fuel cb num 0 s R.reverse h2 hm hf
  refine ⟨s2, ?_, hrest⟩
  unfold LRUSet.disuse
  rw [hrun, Nat.zero_add]

theorem LRUInv.insert_present {s : LRUSet} {R : List Nat} (h : LRUInv s R) (fuel : Nat)
    (value : Pair) (force : Bool) (cb : Option (Pair → Bool))
    (hf : s.m_base.m_max_num < fuel) (r : Nat) (hr : r ∈ R)
    (hk : s.m_base.key r = value.first) :
    s.insert fuel value force cb = some (s, r, false) := by
  unfold LRUSet.insert
  cases hfull : s.m_base.full
  · simp only [Bool.false_eq_true, if_false]
    exact h.place_old fuel value hf r hr hk
  · obtain ⟨r2, hfind, hcase⟩ := h.find fuel value.first hf
    have hr2 : r2 = r ∧ r ≠ 0 := by
      obtain ⟨⟨Fr, hs⟩, _⟩ := h
      rcases hcase with ⟨h0, hrR, hk2⟩ | ⟨_, hno⟩
      · have := hs.keys r2 hrR r hr (hk2.trans hk.symm)
        exact ⟨this, this ▸ h0⟩
      · exact absurd hk (hno r hr)
    obtain ⟨e, hr0⟩ := hr2
    subst e
    simp only [if_true, hfind, ne_eq, hr0, not_false_eq_true]

theorem LRUInv.insert_room {s : LRUSet} {R : List Nat} (h : LRUInv s R) (fuel : Nat)
    (value : Pair) (force : Bool) (cb : Option (Pair → Bool))
    (hf : s.m_base.m_max_num < fuel) (hfull : s.m_base.full = false)
    (hnew : ∀ i ∈ R, s.m_base.key i ≠ value.first) :
    ∃ s2 idx, s.insert fuel value force cb = some (s2, idx, true) ∧ LRUInv s2 (idx :: R) ∧
      s2.m_base.deref idx = value ∧ (∀ i ∈ R, s2.m_base.deref i = s.m_base.deref i) ∧
      s2.m_base.m_max_num = s.m_base.m_max_num ∧
      s2.m_base.m_buckets_num = s.m_base.m_buckets_num ∧ s2.m_base.hash = s.m_base.hash := by
  have : s.insert fuel value force cb = s.place fuel value := by
    unfold LRUSet.insert
    simp only [hfull, Bool.false_eq_true, if_false]
  rw [this]
  exact h.place_new fuel value hf hfull hnew

theorem LRUInv.full_nonempty {s : LRUSet} {R : List Nat} (h : LRUInv s R)
    (hm : 0 < s.m_base.m_max_num) (hfull : s.m_base.full = true) :
    ∃ t Rb, R = (t :: Rb).reverse := by
  obtain ⟨⟨Fr, hs⟩, _⟩ := h
  have hlen : R.length = s.m_base.m_max_num := by
    unfold BaseMemSet.full at hfull
    rw [← hs.used]
    simpa using hfull
  cases hrev : R.reverse with
  | nil =>
    have : R = [] := List.reverse_eq_nil_iff.1 hrev
    rw [this] at hlen
    simp at hlen
    omega
  | cons t Rb =>
    refine ⟨t, Rb, ?_⟩
    rw [← hrev, List.reverse_reverse]

theorem LRUInv.insert_full {s : LRUSet} {Rb : List Nat} {t : Nat}
    (h : LRUInv s (t :: Rb).reverse) (fuel : Nat)
    (value : Pair) (cb : Option (Pair → Bool)) (hm : 0 < s.m_base.m_max_num)
    (hf : s.m_base.m_max_num < fuel) (hfull : s.m_base.full = true)
    (hnew : ∀ i ∈ (t :: Rb).reverse, s.m_base.key i ≠ value.first) :
    s.insert fuel value false cb = some (s, 0, false) ∧
    (cbAccepts cb (s.m_base.deref t) = false →
      s.insert fuel value true cb = some (s, 0, false)) ∧
    (cbAccepts cb (s.m_base.deref t) = true →
      ∃ s2 idx, s.insert fuel value true cb = some (s2, idx, true) ∧
        LRUInv s2 (idx :: Rb.reverse) ∧ s2.m_base.deref idx = value ∧
        (∀ i ∈ Rb.reverse, s2.m_base.deref i = s.m_base.deref i) ∧
        s2.m_base.m_max_num = s.m_base.m_max_num ∧
        s2.m_base.m_buckets_num = s.m_base.m_buckets_num ∧ s2.m_base.hash = s.m_base.hash) := by
  obtain ⟨r2, hfind, hcase⟩ := h.find fuel value.first hf
  have hr2 : r2 = 0 := by
    rcases hcase with ⟨_, hrR, hk2⟩ | ⟨hr, _⟩
    · exact absurd hk2 (hnew r2 hrR)
    · exact hr
  subst hr2
  obtain ⟨s1, hdis, hinv1, hv1, hm1, hbn1, hh1, hsame⟩ := h.disuse fuel 1 cb hm hf
  have hrev : (t :: Rb).reverse.reverse = t :: Rb := List.reverse_reverse _
  rw [hrev] at hdis hinv1 hsame
  refine ⟨?_, ?_, ?_⟩
  · unfold LRUSet.insert
    simp only [hfull, if_true, hfind, ne_eq, not_true_eq_false, if_false]
  · intro hacc
    have hc : disuseCount cb 1 ((t :: Rb).map s.m_base.deref) = 0 := by
      unfold disuseCount
      simp only [List.map_cons, List.take_succ_cons, List.take_zero, List.takeWhile_cons, hacc,
        Bool.false_eq_true, if_false, List.length_nil]
    rw [hc] at hdis hsame
    have := hsame rfl
    subst this
    unfold LRUSet.insert
    simp only [hfull, if_true, hfind, ne_eq, not_true_eq_false, if_false, Bool.true_eq_false,
      hdis]
  · intro hacc
    have hc : disuseCount cb 1 ((t :: Rb).map s.m_base.deref) = 1 := by
      unfold disuseCount
      simp only [List.map_cons, List.take_succ_cons, List.take_zero, List.takeWhile_cons, hacc,
        if_true, List.takeWhile_nil, List.length_cons, List.length_nil]
    rw [hc] at hdis hinv1
    rw [List.drop_succ_cons, List.drop_zero] at hinv1
    have hd : ∀ x, s1.m_base.deref x = s.m_base.deref x := by
      intro x
      unfold BaseMemSet.deref
      rw [hv1]
    have hfull1 : s1.m_base.full = false := by
      obtain ⟨⟨Fr, hs⟩, _⟩ := h
      obtain ⟨⟨Fr1, hs1⟩, _⟩ := hinv1
      unfold BaseMemSet.full at hfull ⊢
      have h1 := hs.used
      have h2 := hs1.used
      simp only [List.length_reverse, List.length_cons] at h1 h2
      simp only [decide_eq_true_eq] at hfull
      simp only [decide_eq_false_iff_not]
      omega
    have hnew1 : ∀ i ∈ Rb.reverse, s1.m_base.key i ≠ value.first := by
      intro i hi
      have : s1.m_base.key i = s.m_base.key i := by
        unfold BaseMemSet.key
        rw [hd]
      rw [this]
      exact hnew i (by rw [List.reverse_cons]; exact List.mem_append_left _ hi)
    obtain ⟨s2, idx, hpl, hinv2, hd2, hds2, hm2, hbn2, hh2⟩ :=
      hinv1.place_new fuel value (by rw [hm1]; exact hf) hfull1 hnew1
    refine ⟨s2, idx, ?_, hinv2, hd2, ?_, hm2.trans hm1, hbn2.trans hbn1, hh2.trans hh1⟩
    · unfold LRUSet.insert
      simp only [hfull, if_true, hfind, ne_eq, not_true_eq_false, if_false, Bool.true_eq_false,
        hdis, Nat.one_ne_zero]
      exact hpl
    · intro i hi
      rw [hds2 i hi, hd]

theorem LRUInv.insert_some {s : LRUSet} {R : List Nat} (h : LRUInv s R) (fuel : Nat)
    (value : Pair) (force : Bool) (cb : Option (Pair → Bool)) (hm : 0 < s.m_base.m_max_num)
    (hf : s.m_base.m_max_num < fuel) :
    ∃ s2 idx ok, s.insert fuel value force cb = some (s2, idx, ok) ∧ (∃ R2, LRUInv s2 R2) ∧
      s2.m_base.m_max_num = s.m_base.m_max_num := by
  by_cases hex : ∃ r ∈ R, s.m_base.key r = value.first
  · obtain ⟨r, hr, hk⟩ := hex
    exact ⟨s, r, false, h.insert_present fuel value force cb hf r hr hk, ⟨R, h⟩, rfl⟩
  · have hnew : ∀ i ∈ R, s.m_base.key i ≠ value.first := fun i hi hk => hex ⟨i, hi, hk⟩
    cases hfull : s.m_base.full
    · obtain ⟨s2, idx, hrun, hinv, _, _, hmx, _⟩ :=
        h.insert_room fuel value force cb hf hfull hnew
      exact ⟨s2, idx, true, hrun, ⟨_, hinv⟩, hmx⟩
    · obtain ⟨t, Rb, hR⟩ := h.full_nonempty hm hfull
      subst hR
      obtain ⟨h1, h2, h3⟩ := h.insert_full fuel value cb hm hf hfull hnew
      cases force
      · exact ⟨s, 0, false, h1, ⟨_, h⟩, rfl⟩
      · cases hacc : cbAccepts cb (s.m_base.deref t)
        · exact ⟨s, 0, false, h2 hacc, ⟨_, h⟩, rfl⟩
        · obtain ⟨s2, idx, hrun, hinv, _, _, hmx, _⟩ := h3 hacc
          exact ⟨s2, idx, true, hrun, ⟨_, hinv⟩, hmx⟩

theorem LRUOk.step {s : LRUSet} {fuel : Nat} (h : LRUOk s fuel) (op : LOp) :
    ∃ s2, s.step fuel op = some s2 ∧ LRUOk s2 fuel := by
  obtain ⟨⟨R, hinv⟩, hm, hf⟩ := h
  cases op with
  | insert value force cb =>
    obtain ⟨s2, idx, ok, hrun, hinv2, hmx⟩ := hinv.insert_some fuel value force cb hm hf
    refine ⟨s2, ?_, hinv2, by rw [hmx]; exact hm, by rw [hmx]; exact hf⟩
    simp only [LRUSet.step, hrun, Option.map_some']
  | erase key =>
    obtain ⟨s2, hrun, hcase, _, hmx, _⟩ := hinv.lru_erase fuel key hf
    refine ⟨s2, hrun, ?_, by rw [hmx]; exact hm, by rw [hmx]; exact hf⟩
    rcases hcase with ⟨r, _, _, hinv2⟩ | ⟨e, _⟩
    · exact ⟨_, hinv2⟩
    · rw [e]; exact ⟨_, hinv⟩
  | active key =>
    obtain ⟨ha, hb⟩ := hinv.active fuel key hf
    by_cases hex : ∃ r ∈ R, s.m_base.key r = key
    · obtain ⟨r, hr, hk⟩ := hex
      obtain ⟨hrun, hinv2⟩ := ha r hr hk
      refine ⟨_, ?_, ⟨_, hinv2⟩, hm, hf⟩
      simp only [LRUSet.step, hrun, Option.map_some']
    · have hrun := hb (fun i hi hk => hex ⟨i, hi, hk⟩)
      refine ⟨s, ?_, ⟨_, hinv⟩, hm, hf⟩
      simp only [LRUSet.step, hrun, Option.map_some']
  | disuse num cb =>
    obtain ⟨s2, hrun, hinv2, _, hmx, _⟩ := hinv.disuse fuel num cb hm hf
    refine ⟨s2, ?_, ⟨_, hinv2⟩, by rw [hmx]; exact hm, by rw [hmx]; exact hf⟩
    simp only [LRUSet.step, hrun, Option.map_some']
  | clear =>
    obtain ⟨⟨Fr, hs⟩, _⟩ := hinv
    exact ⟨s.clear, rfl, ⟨[], lru_clear_inv s hs.bn⟩, hm, hf⟩

theorem runLRU_ok (fuel : Nat) :
    ∀ (ops : List LOp) (s : LRUSet), LRUOk s fuel →
      ∃ s2, runLRU fuel ops s = some s2 ∧ LRUOk s2 fuel := by
  intro ops
  induction ops with
  | nil => intro s h; exact ⟨s, rfl, h⟩
  | cons op ops ih =>
    intro s h
    obtain ⟨s1, hrun, h1⟩ := h.step op
    obtain ⟨s2, hrun2, h2⟩ := ih s1 h1
    refine ⟨s2, ?_, h2⟩
    simp only [runLRU, hrun]
    exact hrun2

theorem lru_clear_ok (s0 : LRUSet) (fuel : Nat) (hb : 0 < s0.m_base.m_buckets_num)
    (hm : 0 < s0.m_base.m_max_num) (hf : s0.m_base.m_max_num < fuel) : LRUOk s0.clear fuel :=
  ⟨⟨[], lru_clear_inv s0 hb⟩, hm, hf⟩

theorem map_erase_inj (f : Nat → Pair) :
    ∀ (R : List Nat) (r : Nat), (∀ i ∈ R, ∀ j ∈ R, f i = f j → i = j) → r ∈ R →
      (R.map f).erase (f r) = (R.erase r).map f := by
  intro R
  induction R with
  | nil => intro r _ hr; simp at hr
  | cons a R ih =>
    intro r hinj hr
    by_cases e : a = r
    · subst e
      simp
    · have hrR : r ∈ R := by
        rcases List.mem_cons.1 hr with e2 | e2
        · exact absurd e2.symm e
        · exact e2
      have hfa : f a ≠ f r := fun e2 =>
        e (hinj a (List.mem_cons_self _ _) r (List.mem_cons_of_mem _ hrR) e2)
      rw [List.map_cons, List.erase_cons_tail (by simpa using hfa),
        List.erase_cons_tail (by simpa using e), List.map_cons,
        ih r (fun i hi j hj => hinj i (List.mem_cons_of_mem _ hi) j (List.mem_cons_of_mem _ hj))
          hrR]

theorem disuseCount_none (num : Nat) (l : List Pair) :
    disuseCount none num l = min num l.length := by
  unfold disuseCount
  have : (l.take num).takeWhile (cbAccepts none) = l.take num := by
    rw [List.takeWhile_eq_self_iff]
    intro x _
    rfl
  rw [this, List.length_take]

theorem LRUOk.view {s : LRUSet} {fuel : Nat} (h : LRUOk s fuel) :
    ∃ R, LRUInv s R ∧ s.order fuel = some (R.map s.m_base.deref) ∧
      s.orderBack fuel = some (R.reverse.map s.m_base.deref) := by
  obtain ⟨⟨R, hinv⟩, hm, hf⟩ := h
  have := hinv.lru_length_le
  exact ⟨R, hinv, hinv.order fuel (by omega)⟩

theorem order_of_inv {s : LRUSet} {R : List Nat} (h : LRUInv s R) (fuel : Nat)
    (hf : s.m_base.m_max_num < fuel) : s.order fuel = some (R.map s.m_base.deref) := by
  have := h.lru_length_le
  exact (h.order fuel (by omega)).1

/-- C13 (amended): in every state reached from `clear()` by `insert`, `erase`,
`active`, `disuse` and `clear`, with `l` the elements from `begin()` to
`end()`: an `insert` of an absent key into a set that is not full returns an
iterator to the new element and true, and the new element is at `begin()`, in
front of `l`; an `insert` of a present key returns an iterator to the element
present and false, and leaves the set, and with it the recency order, as it
was; `active` of a present key returns an iterator to its element and moves
it to `begin()`, the other elements keeping their order. -/
theorem C13_insert_and_active_recency (s0 : LRUSet) (ops : List LOp) (fuel : Nat)
    (hb : 0 < s0.m_base.m_buckets_num) (hm : 0 < s0.m_base.m_max_num)
    (hf : s0.m_base.m_max_num < fuel) :
    ∃ s l, runLRU fuel ops s0.clear = some s ∧ s.order fuel = some l ∧
      (∀ value force cb, s.m_base.full = false → (∀ p ∈ l, p.first ≠ value.first) →
        ∃ s2 idx, s.insert fuel value force cb = some (s2, idx, true) ∧ idx ≠ 0 ∧
          (s2.m_active_link 0).next = idx ∧ s2.m_base.deref idx = value ∧
          s2.order fuel = some (value :: l)) ∧
      (∀ value force cb p, p ∈ l → p.first = value.first →
        ∃ idx, s.insert fuel value force cb = some (s, idx, false) ∧ idx ≠ 0 ∧
          s.m_base.deref idx = p) ∧
      (∀ key p, p ∈ l → p.first = key →
        ∃ s2 idx, s.active fuel key = some (s2, idx) ∧ idx ≠ 0 ∧
          (s2.m_active_link 0).next = idx ∧ s2.m_base.deref idx = p ∧
          s2.order fuel = some (p :: l.erase p)) := by
  obtain ⟨s, hrun, hok⟩ := runLRU_ok fuel ops s0.clear (lru_clear_ok s0 fuel hb hm hf)
  obtain ⟨R, hinv, hord, _⟩ := hok.view
  have hmf := hok.2.2
  refine ⟨s, _, hrun, hord, ?_, ?_, ?_⟩
  · intro value force cb hfull hnew
    have hnew2 : ∀ i ∈ R, s.m_base.key i ≠ value.first :=
      fun i hi => hnew _ (List.mem_map_of_mem _ hi)
    obtain ⟨s2, idx, hins, hinv2, hd, hds, hmx, _⟩ :=
      hinv.insert_room fuel value force cb hmf hfull hnew2
    refine ⟨s2, idx, hins, ?_, hinv2.2.1, hd, ?_⟩
    · exact fun e => hinv2.lru_zero_not_mem (by simp [e])
    · rw [order_of_inv hinv2 fuel (by rw [hmx]; exact hmf), List.map_cons, hd]
      rw [List.map_congr_left hds]
  · intro value force cb p hp hk
    obtain ⟨r, hr, hrp⟩ := List.mem_map.1 hp
    have hkr : s.m_base.key r = value.first := by
      unfold BaseMemSet.key
      rw [hrp, hk]
    exact ⟨r, hinv.insert_present fuel value force cb hmf r hr hkr,
      fun e => hinv.lru_zero_not_mem (e ▸ hr), hrp⟩
  · intro key p hp hk
    obtain ⟨r, hr, hrp⟩ := List.mem_map.1 hp
    have hkr : s.m_base.key r = key := by
      unfold BaseMemSet.key
      rw [hrp, hk]
    obtain ⟨hact, hinv2⟩ := (hinv.active fuel key hmf).1 r hr hkr
    refine ⟨_, r, hact, fun e => hinv.lru_zero_not_mem (e ▸ hr), hinv2.2.1, hrp, ?_⟩
    rw [order_of_inv hinv2 fuel hmf, List.map_cons]
    show some (s.m_base.deref r :: (R.erase r).map s.m_base.deref) = _
    rw [← map_erase_inj s.m_base.deref R r hinv.deref_inj hr, hrp]

/-- C14: in every state reached from `clear()`, with `l` the elements from
`begin()` to `end()`: `disuse(num, cb)` returns the number of elements among
the `num` least recent that come before the first one the callback keeps (all
of them, `min(num, size)`, for a null callback), and removes exactly those:
what is left is `l` without that many elements at its least-recent end. -/
theorem C14_disuse_removes_least_recent (s0 : LRUSet) (ops : List LOp) (fuel num : Nat)
    (cb : Option (Pair → Bool))
    (hb : 0 < s0.m_base.m_buckets_num) (hm : 0 < s0.m_base.m_max_num)
    (hf : s0.m_base.m_max_num < fuel) :
    ∃ s l s2, runLRU fuel ops s0.clear = some s ∧ s.order fuel = some l ∧
      s.disuse fuel num cb = some (s2, disuseCount cb num l.reverse) ∧
      s2.orderBack fuel = some (l.reverse.drop (disuseCount cb num l.reverse)) ∧
      s2.order fuel = some (l.take (l.length - disuseCount cb num l.reverse)) ∧
      s2.m_base.size = s.m_base.size - disuseCount cb num l.reverse ∧
      (cb = none → disuseCount cb num l.reverse = min num s.m_base.size) := by
  obtain ⟨s, hrun, hok⟩ := runLRU_ok fuel ops s0.clear (lru_clear_ok s0 fuel hb hm hf)
  obtain ⟨R, hinv, hord, _⟩ := hok.view
  have hmf := hok.2.2
  obtain ⟨s2, hdis, hinv2, hv, hmx, _, _, _⟩ := hinv.disuse fuel num cb hok.2.1 hmf
  have hl : (R.map s.m_base.deref).reverse = R.reverse.map s.m_base.deref :=
    (List.map_reverse _ _).symm
  have hd : ∀ x, s2.m_base.deref x = s.m_base.deref x := by
    intro x
    unfold BaseMemSet.deref
    rw [hv]
  have hdf : s2.m_base.deref = s.m_base.deref := funext hd
  have hlen2 := hinv2.lru_length_le
  have hob := (hinv2.order fuel (by omega)).2
  rw [List.reverse_reverse, hdf, List.map_drop] at hob
  have ho := (hinv2.order fuel (by omega)).1
  rw [hdf, List.map_reverse, List.map_drop, List.reverse_drop, ← hl, List.reverse_reverse,
    List.length_reverse] at ho
  refine ⟨s, _, s2, hrun, hord, ?_, ?_, ?_, ?_, ?_⟩
  · rw [hl]; exact hdis
  · rw [hl]; exact hob
  · exact ho
  · rw [hinv2.size, hinv.size, hl, List.length_reverse, List.length_drop, List.length_reverse]
  · intro hcb
    subst hcb
    rw [disuseCount_none, List.length_reverse, List.length_map, hinv.size]

/-- C16: in every state reached from `clear()` by `insert`, `erase`, `active`,
`disuse` and `clear`, following `next` from the anchor visits a list `R` of
distinct indices, none of them the anchor, before it returns to the anchor;
following `prev` visits the same indices in the reverse order; `R` has
`size()` members, and its members are exactly the indices `find` returns:
the live entries. -/
theorem C16_recency_chain_holds_live_entries (s0 : LRUSet) (ops : List LOp) (fuel : Nat)
    (hb : 0 < s0.m_base.m_buckets_num) (hm : 0 < s0.m_base.m_max_num)
    (hf : s0.m_base.m_max_num < fuel) :
    ∃ s R, runLRU fuel ops s0.clear = some s ∧
      s.walk fuel (s.m_active_link 0).next = some R ∧
      s.walkBack fuel (s.m_active_link 0).prev = some R.reverse ∧
      R.Nodup ∧ 0 ∉ R ∧ R.length = s.m_base.size ∧
      (∀ key, ∃ idx, s.find fuel key = some idx ∧
        (idx ≠ 0 → idx ∈ R ∧ (s.m_base.deref idx).first = key) ∧
        (idx = 0 → ∀ i ∈ R, (s.m_base.deref i).first ≠ key)) ∧
      (∀ i ∈ R, s.find fuel (s.m_base.deref i).first = some i) := by
  obtain ⟨s, hrun, hok⟩ := runLRU_ok fuel ops s0.clear (lru_clear_ok s0 fuel hb hm hf)
  obtain ⟨⟨R, hinv⟩, hm2, hmf⟩ := hok
  have hlen := hinv.lru_length_le
  have h0 := hinv.lru_zero_not_mem
  have hfind : ∀ key, ∃ idx, s.find fuel key = some idx ∧
      (idx ≠ 0 → idx ∈ R ∧ (s.m_base.deref idx).first = key) ∧
      (idx = 0 → ∀ i ∈ R, (s.m_base.deref i).first ≠ key) := by
    intro key
    obtain ⟨r, hfind, hcase⟩ := hinv.find fuel key hmf
    refine ⟨r, hfind, ?_, ?_⟩
    · intro hr
      rcases hcase with ⟨_, h1, h2⟩ | ⟨e, _⟩
      · exact ⟨h1, h2⟩
      · exact absurd e hr
    · intro hr
      rcases hcase with ⟨e, _, _⟩ | ⟨_, h1⟩
      · exact absurd hr e
      · exact h1
  refine ⟨s, R, hrun, lru_walk_chain s R 0 fuel hinv.2 h0 (by omega), ?_, hinv.nodup, h0,
    hinv.size.symm, hfind, ?_⟩
  · have hc : Chain s.m_active_link 0 R.reverse.reverse 0 := by
      rw [List.reverse_reverse]
      exact hinv.2
    exact lru_walkBack_chain s R.reverse 0 fuel hc
      (by rw [List.mem_reverse]; exact h0) (by rw [List.length_reverse]; omega)
  · intro i hi
    obtain ⟨idx, hf2, h1, h2⟩ := hfind (s.m_base.deref i).first
    by_cases e : idx = 0
    · exact absurd rfl (h2 e i hi)
    · have := h1 e
      have hi2 : idx = i := hinv.deref_inj idx this.1 i hi (by
        obtain ⟨⟨Fr, hs⟩, _⟩ := hinv
        have hk := hs.keys idx this.1 i hi this.2
        rw [hk])
      rw [hf2, hi2]

/-- C13, an instance of the amended statement: a set of capacity 3 after
`insert(1)`, `insert(2)`. -/
theorem C13_insert_and_active_recency_witness :
    ∃ s l, runLRU 4 [LOp.insert (Pair.mk 1 0) false none, LOp.insert (Pair.mk 2 0) false none]
        rawLRU.clear = some s ∧ s.order 4 = some l ∧
      (∀ value force cb, s.m_base.full = false → (∀ p ∈ l, p.first ≠ value.first) →
        ∃ s2 idx, s.insert 4 value force cb = some (s2, idx, true) ∧ idx ≠ 0 ∧
          (s2.m_active_link 0).next = idx ∧ s2.m_base.deref idx = value ∧
          s2.order 4 = some (value :: l)) ∧
      (∀ value force cb p, p ∈ l → p.first = value.first →
        ∃ idx, s.insert 4 value force cb = some (s, idx, false) ∧ idx ≠ 0 ∧
          s.m_base.deref idx = p) ∧
      (∀ key p, p ∈ l → p.first = key →
        ∃ s2 idx, s.active 4 key = some (s2, idx) ∧ idx ≠ 0 ∧
          (s2.m_active_link 0).next = idx ∧ s2.m_base.deref idx = p ∧
          s2.order 4 = some (p :: l.erase p)) :=
  C13_insert_and_active_recency rawLRU
    [LOp.insert (Pair.mk 1 0) false none, LOp.insert (Pair.mk 2 0) false none] 4
    (by decide) (by decide) (by decide)

/-- C13 fails as stated for a key already present: after `insert(1)` and
`insert(2)` the order from `begin()` is 2, 1; a second `insert(1)` returns
false and an iterator to 1, and the order is still 2, 1: the key 1 is not the
most recent entry. -/
theorem C13_counterexample_insert_present_keeps_order :
    (runLRU 4 [LOp.insert (Pair.mk 1 0) false none, LOp.insert (Pair.mk 2 0) false none]
        rawLRU.clear).bind (fun s => s.order 4) = some [Pair.mk 2 0, Pair.mk 1 0] ∧
    (runLRU 4 [LOp.insert (Pair.mk 1 0) false none, LOp.insert (Pair.mk 2 0) false none]
        rawLRU.clear).bind (fun s => (s.insert 4 (Pair.mk 1 0) false none).bind
          (fun r => (r.1.order 4).map (fun l => (r.2.2, r.1.m_base.deref r.2.1, l))))
      = some (false, Pair.mk 1 0, [Pair.mk 2 0, Pair.mk 1 0]) := by
  decide

/-- C14, the instance of the claim: keys 1, 2, 3 inserted in this order, then
`disuse(5, k != 2)`: one element is to go. -/
theorem C14_disuse_removes_least_recent_witness :
    disuseCount (some (fun p => p.first != 2)) 5 [Pair.mk 1 0, Pair.mk 2 0, Pair.mk 3 0] = 1 ∧
    ∃ s l s2, runLRU 4 [LOp.insert (Pair.mk 1 0) false none, LOp.insert (Pair.mk 2 0) false none,
        LOp.insert (Pair.mk 3 0) false none] rawLRU.clear = some s ∧ s.order 4 = some l ∧
      s.disuse 4 5 (some (fun p => p.first != 2))
        = some (s2, disuseCount (some (fun p => p.first != 2)) 5 l.reverse) ∧
      s2.orderBack 4
        = some (l.reverse.drop (disuseCount (some (fun p => p.first != 2)) 5 l.reverse)) ∧
      s2.order 4
        = some (l.take (l.length - disuseCount (some (fun p => p.first != 2)) 5 l.reverse)) ∧
      s2.m_base.size
        = s.m_base.size - disuseCount (some (fun p => p.first != 2)) 5 l.reverse ∧
      ((some (fun (p : Pair) => p.first != 2) : Option (Pair → Bool)) = none →
        disuseCount (some (fun p => p.first != 2)) 5 l.reverse = min 5 s.m_base.size) :=
  ⟨by decide,
    C14_disuse_removes_least_recent rawLRU
      [LOp.insert (Pair.mk 1 0) false none, LOp.insert (Pair.mk 2 0) false none,
        LOp.insert (Pair.mk 3 0) false none] 4 5 (some (fun p => p.first != 2))
      (by decide) (by decide) (by decide)⟩

/-- C16, an instance: a set of capacity 3 after inserts, an `active`, an
`erase`, a forced `insert` and a `disuse`. -/
theorem C16_recency_chain_holds_live_entries_witness :
    ∃ s R, runLRU 4 [LOp.insert (Pair.mk 1 0) false none, LOp.insert (Pair.mk 2 0) false none,
        LOp.active 1, LOp.insert (Pair.mk 3 0) false none, LOp.erase 2,
        LOp.insert (Pair.mk 4 0) true none, LOp.insert (Pair.mk 5 0) true none,
        LOp.disuse 1 none] rawLRU.clear = some s ∧
      s.walk 4 (s.m_active_link 0).next = some R ∧
      s.walkBack 4 (s.m_active_link 0).prev = some R.reverse ∧
      R.Nodup ∧ 0 ∉ R ∧ R.length = s.m_base.size ∧
      (∀ key, ∃ idx, s.find 4 key = some idx ∧
        (idx ≠ 0 → idx ∈ R ∧ (s.m_base.deref idx).first = key) ∧
        (idx = 0 → ∀ i ∈ R, (s.m_base.deref i).first ≠ key)) ∧
      (∀ i ∈ R, s.find 4 (s.m_base.deref i).first = some i) :=
  C16_recency_chain_holds_live_entries rawLRU
    [LOp.insert (Pair.mk 1 0) false none, LOp.insert (Pair.mk 2 0) false none,
      LOp.active 1, LOp.insert (Pair.mk 3 0) false none, LOp.erase 2,
      LOp.insert (Pair.mk 4 0) true none, LOp.insert (Pair.mk 5 0) true none,
      LOp.disuse 1 none] 4 (by decide) (by decide) (by decide)


/-! ## The chained hash table of `HashMemPool` -/

theorem get_value_inj_pos (pool : FixedMemPool) (ht : 0 < pool.m_header.t_size) (i j : Nat)
    (hi : 1 ≤ i) (hj : 1 ≤ j) (e : pool.get_value i = pool.get_value j) : i = j := by
  unfold FixedMemPool.get_value at e
  have h1 : (i - 1) * pool.m_header.t_size = (j - 1) * pool.m_header.t_size := by omega
  have h2 := Nat.eq_of_mul_eq_mul_right ht h1
  omega

theorem hash_find_loop_chain (h : HashMemPool) (key : Nat) :
    ∀ (l : List Nat) (r fuel : Nat), HChain h.nextOf r l → l.length < fuel →
      h.find_loop key fuel r
        = some ((l.find? (fun i => decide ((h.deref i).first = key))).getD 0) := by
  intro l
  induction l with
  | nil =>
    intro r fuel hc _
    have : r = 0 := hc
    subst this
    cases fuel <;> rfl
  | cons i l ih =>
    intro r fuel hc hf
    have hi : r = i := hc.1
    subst hi
    obtain ⟨k, rfl⟩ := Nat.exists_eq_succ_of_ne_zero hc.2.1
    cases fuel with
    | zero => simp at hf
    | succ fuel =>
      by_cases e : (h.deref (k + 1)).first = key
      · simp only [HashMemPool.find_loop, e, if_true, List.find?_cons, decide_True]
        rfl
      · have hl : l.length < fuel := by simp only [List.length_cons] at hf; omega
        simp only [HashMemPool.find_loop, e, if_false, List.find?_cons, decide_False]
        exact ih _ fuel hc.2.2 hl

theorem HashInv.length_le_max {h : HashMemPool} {L : List Nat} (hinv : HashInv h L) :
    L.length ≤ h.m_pool.m_header.max_num := by
  obtain ⟨F, hp⟩ := hinv.pool
  rw [← hp.used]
  exact hp.used_le

theorem HashInv.index_pos {h : HashMemPool} {L : List Nat} (hinv : HashInv h L) {i : Nat}
    (hi : i ∈ L) : 1 ≤ i := by
  obtain ⟨F, hp⟩ := hinv.pool
  exact (hp.pos_of_mem (Or.inl hi)).1

theorem HashInv.size_eq {h : HashMemPool} {L : List Nat} (hinv : HashInv h L) :
    h.size = L.length := by
  obtain ⟨F, hp⟩ := hinv.pool
  exact hp.used

theorem HashInv.find_ref_spec {h : HashMemPool} {L : List Nat} (hinv : HashInv h L)
    (fuel key : Nat) (hf : h.m_pool.m_header.max_num < fuel) :
    ∃ r, h.find_ref fuel key = some r ∧
      ((r ≠ 0 ∧ r ∈ L ∧ (h.deref r).first = key) ∨
        (r = 0 ∧ ∀ i ∈ L, (h.deref i).first ≠ key)) := by
  have hb : h.bucket_index key < h.m_header.bucket_num := Nat.mod_lt _ hinv.bn
  obtain ⟨l, hc, hnd, hl⟩ := hinv.chains _ hb
  have hsub : l ⊆ L := fun i hi => ((hl i).1 hi).1
  have hlen : l.length ≤ L.length := (List.subperm_of_subset hnd hsub).length_le
  have hA := hinv.length_le_max
  refine ⟨_, hash_find_loop_chain h key l _ fuel hc (by omega), ?_⟩
  cases hfind : l.find? (fun i => decide ((h.deref i).first = key)) with
  | none =>
    right
    refine ⟨rfl, ?_⟩
    intro i hi hk
    have hil : i ∈ l := (hl i).2 ⟨hi, by rw [hk]⟩
    have := List.find?_eq_none.1 hfind i hil
    simp [hk] at this
  | some r =>
    left
    have hr := List.mem_of_find?_eq_some hfind
    have hk := List.find?_some hfind
    refine ⟨hchain_pos _ l _ hc r hr, hsub hr, by simpa using hk⟩

theorem hashSlotBefore_nil (h : HashMemPool) (pre : HashSlot) : hashSlotBefore h pre [] = pre :=
  rfl

theorem hashSlotBefore_cons (h : HashMemPool) (pre : HashSlot) (a : Nat) (l : List Nat) :
    hashSlotBefore h pre (a :: l) = hashSlotBefore h (HashSlot.next (h.m_pool.get_value a)) l := by
  cases l with
  | nil => rfl
  | cons b l =>
    simp only [hashSlotBefore, List.getLast?_cons_cons]
    rw [List.getLast?_eq_getLast _ (List.cons_ne_nil b l)]

theorem hash_erase_loop_miss (h : HashMemPool) (key : Nat) :
    ∀ (l : List Nat) (r fuel : Nat) (pre : HashSlot), HChain h.nextOf r l → l.length < fuel →
      (∀ j ∈ l, (h.deref j).first ≠ key) → h.erase_loop key fuel pre r = some (h, false) := by
  intro l
  induction l with
  | nil =>
    intro r fuel pre hc _ _
    have : r = 0 := hc
    subst this
    cases fuel <;> rfl
  | cons i l ih =>
    intro r fuel pre hc hf hk
    have hi : r = i := hc.1
    subst hi
    obtain ⟨k, rfl⟩ := Nat.exists_eq_succ_of_ne_zero hc.2.1
    cases fuel with
    | zero => simp at hf
    | succ fuel =>
      have e : ¬ (h.deref (k + 1)).first = key := hk (k + 1) (List.mem_cons_self _ _)
      have hl : l.length < fuel := by simp only [List.length_cons] at hf; omega
      simp only [HashMemPool.erase_loop, e, if_false]
      exact ih _ fuel _ hc.2.2 hl (fun j hj => hk j (List.mem_cons_of_mem _ hj))

theorem hash_erase_loop_hit (h : HashMemPool) (key i : Nat) (l2 : List Nat)
    (hki : (h.deref i).first = key) :
    ∀ (l1 : List Nat) (r fuel : Nat) (pre : HashSlot), HChain h.nextOf r (l1 ++ i :: l2) →
      (l1 ++ i :: l2).length < fuel → (∀ j ∈ l1, (h.deref j).first ≠ key) →
      h.erase_loop key fuel pre r = some (h.unchain (hashSlotBefore h pre l1) i, true) := by
  intro l1
  induction l1 with
  | nil =>
    intro r fuel pre hc hf _
    have hi : r = i := hc.1
    subst hi
    obtain ⟨k, rfl⟩ := Nat.exists_eq_succ_of_ne_zero hc.2.1
    cases fuel with
    | zero => simp at hf
    | succ fuel =>
      simp only [HashMemPool.erase_loop, hki, if_true, hashSlotBefore_nil]
  | cons a l1 ih =>
    intro r fuel pre hc hf hk
    have hi : r = a := hc.1
    subst hi
    obtain ⟨k, rfl⟩ := Nat.exists_eq_succ_of_ne_zero hc.2.1
    cases fuel with
    | zero => simp at hf
    | succ fuel =>
      have e : ¬ (h.deref (k + 1)).first = key := hk (k + 1) (List.mem_cons_self _ _)
      have hl : (l1 ++ i :: l2).length < fuel := by
        simp only [List.cons_append, List.length_cons] at hf
        omega
      simp only [HashMemPool.erase_loop, e, if_false]
      rw [hashSlotBefore_cons]
      exact ih _ fuel _ hc.2.2 hl (fun j hj => hk j (List.mem_cons_of_mem _ hj))

theorem hchain_skip_inner_keep (next : Nat → Nat) (i : Nat) (l2 : List Nat)
    (l1 : List Nat) (h j : Nat) (hj : l1.getLast? = some j)
    (hc : HChain next h (l1 ++ i :: l2)) (hnd : (l1 ++ i :: l2).Nodup) :
    HChain (arraySet next (j - 1) (next (i - 1))) h (l1 ++ l2) := by
  have h1 := hchain_skip_inner next i 0 l2 l1 h j hj hc hnd
  have hpos := hchain_pos _ _ _ hc
  refine hchain_congr _ _ _ _ ?_ h1
  intro x hx
  have hxi : x ≠ i := by
    intro e
    subst e
    rcases List.mem_append.1 hx with e | e
    · exact (List.nodup_append.1 hnd).2.2 e (List.mem_cons_self x l2)
    · exact (List.nodup_cons.1 (List.nodup_append.1 hnd).2.1).1 e
  have hx0 : x ≠ 0 := by
    rcases List.mem_append.1 hx with e | e
    · exact hpos x (List.mem_append_left _ e)
    · exact hpos x (List.mem_append_right _ (List.mem_cons_of_mem _ e))
  have hi0 : i ≠ 0 := hpos i (by simp)
  exact (arraySet_other _ _ _ _ (pred_ne hx0 hi0 hxi)).symm

theorem get_value_congr (p q : FixedMemPool) (hmem : p.mem = q.mem)
    (hts : p.m_header.t_size = q.m_header.t_size)
    (hvo : p.m_header.value_offset = q.m_header.value_offset) (x : Nat) :
    p.get_value x = q.get_value x := by
  unfold FixedMemPool.get_value
  rw [hmem, hts, hvo]

theorem hash_unchain_inv (h : HashMemPool) (L : List Nat) (hinv : HashInv h L) (b : Nat)
    (hb : b < h.m_header.bucket_num) (l1 : List Nat) (i : Nat) (l2 : List Nat)
    (hc : HChain h.nextOf (h.m_buckets b) (l1 ++ i :: l2)) (hnd : (l1 ++ i :: l2).Nodup)
    (hl : ∀ x, x ∈ l1 ++ i :: l2 ↔ (x ∈ L ∧ h.bucket_index (h.deref x).first = b)) :
    HashInv (h.unchain (hashSlotBefore h (HashSlot.bucket b) l1) i) (L.erase i) ∧
      HashFrame h (h.unchain (hashSlotBefore h (HashSlot.bucket b) l1) i) L := by
  obtain ⟨F, hp⟩ := hinv.pool
  have hiL : i ∈ L := ((hl i).1 (by simp)).1
  have hib : h.bucket_index (h.deref i).first = b := ((hl i).1 (by simp)).2
  have hi1 : 1 ≤ i := hinv.index_pos hiL
  have hi0 : i ≠ 0 := by omega
  have hii : i - 1 + 1 = i := by omega
  have hcap := hp.cap
  have hraw := hp.raw_le
  have hi2 := (hp.pos_of_mem (Or.inl hiL)).2
  have hptr : h.m_pool.ptr_2_int (h.m_pool.get_value i) = i :=
    ptr_2_int_get_value _ i hi1 (by omega) hp.ts
  have hfree : (h.m_pool.free (h.m_pool.get_value i)).2 = true :=
    (free_true_iff _ L F hp _).2 (by rw [hptr]; exact hiL)
  have hpinv := free_inv _ L F hp (h.m_pool.get_value i) (by rw [hptr]; exact hiL)
  rw [hptr] at hpinv
  obtain ⟨_, hmem, hmax, hts, hvo, _, _, _⟩ := free_ok _ _ hfree
  have hgv : ∀ x, (h.m_pool.free (h.m_pool.get_value i)).1.get_value x = h.m_pool.get_value x :=
    get_value_congr _ _ hmem hts hvo
  have hndL := (List.nodup_append.1 hp.nodup).1
  have hpos := hchain_pos _ _ _ hc
  have hnextii : h.nextOf (i - 1) = (h.deref i).next := by
    unfold HashMemPool.nextOf
    rw [hii]
  -- the fields after the call
  have harr : (h.unchain (hashSlotBefore h (HashSlot.bucket b) l1) i).m_header = h.m_header ∧
      (h.unchain (hashSlotBefore h (HashSlot.bucket b) l1) i).hash = h.hash ∧
      (h.unchain (hashSlotBefore h (HashSlot.bucket b) l1) i).m_pool
        = (h.m_pool.free (h.m_pool.get_value i)).1 ∧
      (∀ a, ((h.unchain (hashSlotBefore h (HashSlot.bucket b) l1) i).node a).first
          = (h.node a).first ∧
        ((h.unchain (hashSlotBefore h (HashSlot.bucket b) l1) i).node a).second
          = (h.node a).second) ∧
      (∀ x, x ≠ 0 → x ∉ l1 ++ i :: l2 →
        ((h.unchain (hashSlotBefore h (HashSlot.bucket b) l1) i).node
          (h.m_pool.get_value x)).next = (h.node (h.m_pool.get_value x)).next) ∧
      (∀ b2, b2 ≠ b →
        (h.unchain (hashSlotBefore h (HashSlot.bucket b) l1) i).m_buckets b2 = h.m_buckets b2) ∧
      HChain (fun x => ((h.unchain (hashSlotBefore h (HashSlot.bucket b) l1) i).node
          (h.m_pool.get_value (x + 1))).next)
        ((h.unchain (hashSlotBefore h (HashSlot.bucket b) l1) i).m_buckets b) (l1 ++ l2) := by
    cases hlast : l1.getLast? with
    | none =>
      have hl1 : l1 = [] := List.getLast?_eq_none_iff.1 hlast
      subst hl1
      have hs : hashSlotBefore h (HashSlot.bucket b) [] = HashSlot.bucket b := rfl
      rw [hs]
      refine ⟨rfl, rfl, rfl, fun _ => ⟨rfl, rfl⟩, fun _ _ _ => rfl, ?_, ?_⟩
      · intro b2 hb2
        exact arraySet_other _ _ _ _ hb2
      · have e1 : (h.unchain (HashSlot.bucket b) i).m_buckets b = (h.deref i).next :=
          arraySet_self _ _ _
        rw [e1, ← hnextii]
        exact hc.2.2
    | some j =>
      have hs : hashSlotBefore h (HashSlot.bucket b) l1
          = HashSlot.next (h.m_pool.get_value j) := by
        unfold hashSlotBefore
        rw [hlast]
      have hjm : j ∈ l1 := List.mem_of_mem_getLast? hlast
      have hj0 : j ≠ 0 := hpos j (List.mem_append_left _ hjm)
      have hjj : j - 1 + 1 = j := by omega
      rw [hs]
      have hnode : (h.unchain (HashSlot.next (h.m_pool.get_value j)) i).node
          = arraySet h.node (h.m_pool.get_value j)
              { h.node (h.m_pool.get_value j) with next := (h.deref i).next } := rfl
      refine ⟨rfl, rfl, rfl, ?_, ?_, fun _ _ => rfl, ?_⟩
      · intro a
        rw [hnode]
        by_cases e : a = h.m_pool.get_value j
        · subst e
          rw [arraySet_self]
          exact ⟨rfl, rfl⟩
        · rw [arraySet_other _ _ _ _ e]
          exact ⟨rfl, rfl⟩
      · intro x hx0 hx
        have hxj : x ≠ j := fun e => hx (by rw [e]; exact List.mem_append_left _ hjm)
        have hne : h.m_pool.get_value x ≠ h.m_pool.get_value j := fun e =>
          hxj (get_value_inj_pos _ hp.ts x j (by omega) (by omega) e)
        rw [hnode, arraySet_other _ _ _ _ hne]
      · have h1 := hchain_skip_inner_keep h.nextOf i l2 l1 _ j hlast hc hnd
        have hb1 : (h.unchain (HashSlot.next (h.m_pool.get_value j)) i).m_buckets b
            = h.m_buckets b := rfl
        rw [hb1]
        refine hchain_congr _ _ _ _ ?_ h1
        intro x hx
        have hx0 : x ≠ 0 := by
          rcases List.mem_append.1 hx with e | e
          · exact hpos x (List.mem_append_left _ e)
          · exact hpos x (List.mem_append_right _ (List.mem_cons_of_mem _ e))
        have hxx : x - 1 + 1 = x := by omega
        show ((h.unchain (HashSlot.next (h.m_pool.get_value j)) i).node
          (h.m_pool.get_value (x - 1 + 1))).next = _
        rw [hxx, hnode]
        by_cases e : x = j
        · subst e
          rw [arraySet_self, arraySet_self, hnextii]
        · have hne : h.m_pool.get_value x ≠ h.m_pool.get_value j := fun e2 =>
            e (get_value_inj_pos _ hp.ts x j (by omega) (by omega) e2)
          rw [arraySet_other _ _ _ _ hne, arraySet_other _ _ _ _ (pred_ne hx0 hj0 e)]
          unfold HashMemPool.nextOf HashMemPool.deref
          rw [hxx]
  obtain ⟨hH, hhash, hpool, hN, hX, hB, hCh⟩ := harr
  have hderef : ∀ x, ((h.unchain (hashSlotBefore h (HashSlot.bucket b) l1) i).deref x).first
        = (h.deref x).first ∧
      ((h.unchain (hashSlotBefore h (HashSlot.bucket b) l1) i).deref x).second
        = (h.deref x).second := by
    intro x
    unfold HashMemPool.deref
    rw [hpool, hgv]
    exact hN _
  have hnextOf : ∀ x, (h.unchain (hashSlotBefore h (HashSlot.bucket b) l1) i).nextOf x
      = ((h.unchain (hashSlotBefore h (HashSlot.bucket b) l1) i).node
          (h.m_pool.get_value (x + 1))).next := by
    intro x
    unfold HashMemPool.nextOf HashMemPool.deref
    rw [hpool, hgv]
  have hfun : (h.unchain (hashSlotBefore h (HashSlot.bucket b) l1) i).nextOf
      = fun x => ((h.unchain (hashSlotBefore h (HashSlot.bucket b) l1) i).node
          (h.m_pool.get_value (x + 1))).next := funext hnextOf
  have hbi : ∀ k, (h.unchain (hashSlotBefore h (HashSlot.bucket b) l1) i).bucket_index k
      = h.bucket_index k := by
    intro k
    unfold HashMemPool.bucket_index
    rw [hH, hhash]
  have hmem12 : ∀ x, x ∈ l1 ++ l2 ↔ (x ∈ l1 ++ i :: l2 ∧ x ≠ i) := by
    intro x
    have hnot : i ∉ l1 ++ l2 := by
      intro hx
      rcases List.mem_append.1 hx with e | e
      · exact (List.nodup_append.1 hnd).2.2 e (List.mem_cons_self i l2)
      · exact (List.nodup_cons.1 (List.nodup_append.1 hnd).2.1).1 e
    constructor
    · intro hx
      refine ⟨?_, fun e => hnot (e ▸ hx)⟩
      rcases List.mem_append.1 hx with e | e
      · exact List.mem_append_left _ e
      · exact List.mem_append_right _ (List.mem_cons_of_mem _ e)
    · rintro ⟨hx, hxi⟩
      rcases List.mem_append.1 hx with e | e
      · exact List.mem_append_left _ e
      · rcases List.mem_cons.1 e with e2 | e2
        · exact absurd e2 hxi
        · exact List.mem_append_right _ e2
  refine ⟨⟨?_, ?_, ?_, ?_⟩, hH, hhash, ?_, fun x _ => hderef x⟩
  · rw [hH]; exact hinv.bn
  · rw [hpool]; exact ⟨_, hpinv⟩
  · intro x hx y hy hk
    rw [(hderef x).1, (hderef y).1] at hk
    exact hinv.keys x (List.mem_of_mem_erase hx) y (List.mem_of_mem_erase hy) hk
  · intro b2 hb2
    rw [hH] at hb2
    rw [hfun]
    by_cases e : b2 = b
    · subst e
      refine ⟨l1 ++ l2, hCh, ?_, ?_⟩
      · exact List.Nodup.sublist (List.Sublist.append_left
          (List.sublist_cons_self i l2) l1) hnd
      · intro x
        rw [hmem12, hl, (hderef x).1, hbi, List.Nodup.mem_erase_iff hndL]
        tauto
    · obtain ⟨l, hcl, hndl, hml⟩ := hinv.chains b2 hb2
      refine ⟨l, ?_, hndl, ?_⟩
      · rw [hB b2 e]
        refine hchain_congr h.nextOf _ l _ ?_ hcl
        intro x hx
        have hx0 := hchain_pos _ _ _ hcl x hx
        have hxx : x - 1 + 1 = x := by omega
        show ((h.unchain (hashSlotBefore h (HashSlot.bucket b) l1) i).node
          (h.m_pool.get_value (x - 1 + 1))).next = h.nextOf (x - 1)
        rw [hxx]
        unfold HashMemPool.nextOf HashMemPool.deref
        rw [hxx]
        refine hX x hx0 ?_
        intro hx2
        have h1 := ((hml x).1 hx).2
        have h2 := ((hl x).1 hx2).2
        exact e (h1.symm.trans h2)
      · intro x
        rw [hml, (hderef x).1, hbi, List.Nodup.mem_erase_iff hndL]
        constructor
        · rintro ⟨h1, h2⟩
          refine ⟨⟨?_, h1⟩, h2⟩
          intro e2
          rw [e2] at h2
          exact e (h2.symm.trans hib)
        · rintro ⟨⟨_, h1⟩, h2⟩
          exact ⟨h1, h2⟩
  · rw [hpool]; exact hmax

theorem HashInv.erase_spec {h : HashMemPool} {L : List Nat} (hinv : HashInv h L)
    (fuel key : Nat) (hf : h.m_pool.m_header.max_num < fuel) :
    ∃ h2 ok, h.erase fuel key = some (h2, ok) ∧
      ((ok = true ∧ ∃ r, r ∈ L ∧ (h.deref r).first = key ∧ HashInv h2 (L.erase r) ∧
          HashFrame h h2 L) ∨
        (ok = false ∧ h2 = h ∧ ∀ i ∈ L, (h.deref i).first ≠ key)) := by
  have hb : h.bucket_index key < h.m_header.bucket_num := Nat.mod_lt _ hinv.bn
  obtain ⟨l, hc, hnd, hl⟩ := hinv.chains _ hb
  have hsub : l ⊆ L := fun i hi => ((hl i).1 hi).1
  have hlen : l.length ≤ L.length := (List.subperm_of_subset hnd hsub).length_le
  have hA := hinv.length_le_max
  have hmiss : (∀ j ∈ l, (h.deref j).first ≠ key) → ∀ i ∈ L, (h.deref i).first ≠ key := by
    intro hm i hi hk
    exact hm i ((hl i).2 ⟨hi, by rw [hk]⟩) hk
  unfold HashMemPool.erase
  by_cases hex : ∃ i ∈ l, (h.deref i).first = key
  · obtain ⟨l1, i, l2, hsplit, hno, hki⟩ :=
      split_first_match (fun i => (h.deref i).first = key) l hex
    subst hsplit
    have hiL : i ∈ L := hsub (by simp)
    have hu := hash_unchain_inv h L hinv _ hb l1 i l2 hc hnd hl
    exact ⟨_, true, hash_erase_loop_hit h key i l2 hki l1 _ fuel _ hc (by omega) hno,
      Or.inl ⟨rfl, i, hiL, hki, hu.1, hu.2⟩⟩
  · have hno : ∀ j ∈ l, (h.deref j).first ≠ key := fun j hj hk => hex ⟨j, hj, hk⟩
    exact ⟨h, false, hash_erase_loop_miss h key l _ fuel _ hc (by omega) hno,
      Or.inr ⟨rfl, rfl, hmiss hno⟩⟩

theorem hash_insert_full (h : HashMemPool) (fuel key : Nat) (hfull : h.full = true) :
    h.insert fuel key = some (h, 0, false) := by
  unfold HashMemPool.insert
  rw [if_pos hfull]

theorem hash_insert_present (h : HashMemPool) (fuel key r : Nat) (hfull : h.full = false)
    (hfind : h.find_ref fuel key = some r) (hr : r ≠ 0) :
    h.insert fuel key = some (h, r, false) := by
  unfold HashMemPool.insert
  rw [if_neg (by rw [hfull]; exact Bool.noConfusion), hfind]
  simp only [hr, ne_eq, not_false_eq_true, if_true]

theorem HashInv.insert_new {h : HashMemPool} {L : List Nat} (hinv : HashInv h L)
    (fuel key : Nat) (hfull : h.full = false) (hfind : h.find_ref fuel key = some 0)
    (habs : ∀ i ∈ L, (h.deref i).first ≠ key) :
    ∃ h2 idx, h.insert fuel key = some (h2, idx, true) ∧ idx ≠ 0 ∧ idx ∉ L ∧
      HashInv h2 (idx :: L) ∧ HashFrame h h2 L ∧
      h2.deref idx = { first := key, second := 0, next := h.m_buckets (h.bucket_index key) } := by
  obtain ⟨F, hp⟩ := hinv.pool
  have hfull2 : h.m_pool.full = false := hfull
  obtain ⟨ha2, _, hmem, hmax, hts, hvo, _⟩ := alloc_not_full h.m_pool hfull2
  obtain ⟨hnotin, hidx1, hidx2, F2, hp2⟩ := alloc_inv h.m_pool L F hp hfull2
  have hcap := hp.cap
  have hgv : ∀ x, h.m_pool.alloc.1.get_value x = h.m_pool.get_value x :=
    get_value_congr _ _ hmem hts hvo
  have hptr : h.m_pool.alloc.1.ptr_2_int (h.m_pool.get_value h.m_pool.allocIndex)
      = h.m_pool.allocIndex := by
    rw [← hgv]
    exact ptr_2_int_get_value _ _ hidx1 (by omega) hp2.ts
  have hb : h.bucket_index key < h.m_header.bucket_num := Nat.mod_lt _ hinv.bn
  have hins : h.insert fuel key = some ({ h with
        m_pool := h.m_pool.alloc.1
        node := arraySet h.node (h.m_pool.get_value h.m_pool.allocIndex)
          { first := key, second := 0, next := h.m_buckets (h.bucket_index key) }
        m_buckets := arraySet h.m_buckets (h.bucket_index key) h.m_pool.allocIndex },
      h.m_pool.allocIndex, true) := by
    unfold HashMemPool.insert
    rw [if_neg (by rw [hfull]; exact Bool.noConfusion), hfind]
    simp only [ne_eq, not_true_eq_false, if_false]
    cases hal : h.m_pool.alloc with
    | mk pool o =>
      rw [hal] at ha2 hptr
      simp only at ha2 hptr
      subst ha2
      simp only [hptr]
  obtain ⟨h2, hh2⟩ : ∃ h2 : HashMemPool, h2 = { h with
      m_pool := h.m_pool.alloc.1
      node := arraySet h.node (h.m_pool.get_value h.m_pool.allocIndex)
        { first := key, second := 0, next := h.m_buckets (h.bucket_index key) }
      m_buckets := arraySet h.m_buckets (h.bucket_index key) h.m_pool.allocIndex } := ⟨_, rfl⟩
  rw [← hh2] at hins
  have eH : h2.m_header = h.m_header := by rw [hh2]
  have ehash : h2.hash = h.hash := by rw [hh2]
  have epool : h2.m_pool = h.m_pool.alloc.1 := by rw [hh2]
  have enode : h2.node = arraySet h.node (h.m_pool.get_value h.m_pool.allocIndex)
      { first := key, second := 0, next := h.m_buckets (h.bucket_index key) } := by rw [hh2]
  have eb : h2.m_buckets = arraySet h.m_buckets (h.bucket_index key) h.m_pool.allocIndex := by
    rw [hh2]
  have hd_new : h2.deref h.m_pool.allocIndex
      = { first := key, second := 0, next := h.m_buckets (h.bucket_index key) } := by
    unfold HashMemPool.deref
    rw [epool, hgv, enode, arraySet_self]
  have hd_old : ∀ x, 1 ≤ x → x ≠ h.m_pool.allocIndex → h2.deref x = h.deref x := by
    intro x hx1 hx
    have hne : h.m_pool.get_value x ≠ h.m_pool.get_value h.m_pool.allocIndex := fun e =>
      hx (get_value_inj_pos _ hp.ts x _ hx1 hidx1 e)
    unfold HashMemPool.deref
    rw [epool, hgv, enode, arraySet_other _ _ _ _ hne]
  have hd_L : ∀ x ∈ L, h2.deref x = h.deref x := by
    intro x hx
    exact hd_old x (hinv.index_pos hx) (fun e => hnotin (e ▸ hx))
  have hn_old : ∀ x ∈ L, h2.nextOf (x - 1) = h.nextOf (x - 1) := by
    intro x hx
    have hx1 := hinv.index_pos hx
    have hxx : x - 1 + 1 = x := by omega
    unfold HashMemPool.nextOf
    rw [hxx, hd_L x hx]
  have hn_new : h2.nextOf (h.m_pool.allocIndex - 1) = h.m_buckets (h.bucket_index key) := by
    have hxx : h.m_pool.allocIndex - 1 + 1 = h.m_pool.allocIndex := by omega
    unfold HashMemPool.nextOf
    rw [hxx, hd_new]
  have hbi : ∀ k, h2.bucket_index k = h.bucket_index k := by
    intro k
    unfold HashMemPool.bucket_index
    rw [eH, ehash]
  refine ⟨h2, _, hins, by omega, hnotin, ⟨?_, ?_, ?_, ?_⟩, ⟨eH, ehash, ?_, ?_⟩, hd_new⟩
  · rw [eH]; exact hinv.bn
  · rw [epool]; exact ⟨F2, hp2⟩
  · intro x hx y hy hk
    rcases List.mem_cons.1 hx with ex | ex <;> rcases List.mem_cons.1 hy with ey | ey
    · rw [ex, ey]
    · rw [ex, hd_new, hd_L y ey] at hk
      exact absurd hk.symm (habs y ey)
    · rw [ey, hd_new, hd_L x ex] at hk
      exact absurd hk (habs x ex)
    · rw [hd_L x ex, hd_L y ey] at hk
      exact hinv.keys x ex y ey hk
  · intro b2 hb2
    rw [eH] at hb2
    obtain ⟨l, hcl, hndl, hml⟩ := hinv.chains b2 hb2
    have hsub : ∀ x ∈ l, x ∈ L := fun x hx => ((hml x).1 hx).1
    have hcl2 : HChain h2.nextOf (h.m_buckets b2) l :=
      hchain_congr h.nextOf _ l _ (fun x hx => hn_old x (hsub x hx)) hcl
    by_cases e : b2 = h.bucket_index key
    · subst e
      refine ⟨h.m_pool.allocIndex :: l, ?_, ?_, ?_⟩
      · refine ⟨?_, by omega, ?_⟩
        · rw [eb, arraySet_self]
        · rw [hn_new]
          exact hcl2
      · exact List.nodup_cons.2 ⟨fun hx => hnotin (hsub _ hx), hndl⟩
      · intro x
        simp only [List.mem_cons]
        constructor
        · rintro (ex | ex)
          · subst ex
            rw [hd_new, hbi]
            exact ⟨Or.inl rfl, rfl⟩
          · have := (hml x).1 ex
            rw [hd_L x this.1, hbi]
            exact ⟨Or.inr this.1, this.2⟩
        · rintro ⟨ex | ex, hx2⟩
          · exact Or.inl ex
          · rw [hd_L x ex, hbi] at hx2
            exact Or.inr ((hml x).2 ⟨ex, hx2⟩)
    · refine ⟨l, ?_, hndl, ?_⟩
      · rw [eb, arraySet_other _ _ _ _ e]
        exact hcl2
      · intro x
        simp only [List.mem_cons]
        constructor
        · intro hx
          have := (hml x).1 hx
          rw [hd_L x this.1, hbi]
          exact ⟨Or.inr this.1, this.2⟩
        · rintro ⟨ex | ex, hx2⟩
          · subst ex
            rw [hd_new, hbi] at hx2
            exact absurd hx2.symm e
          · rw [hd_L x ex, hbi] at hx2
            exact (hml x).2 ⟨ex, hx2⟩
  · rw [epool]; exact hmax
  · intro x hx
    rw [hd_L x hx]
    exact ⟨rfl, rfl⟩

theorem HashInv.set_second {h : HashMemPool} {L : List Nat} (hinv : HashInv h L)
    (i v : Nat) (hi : 1 ≤ i) (h3 : HashMemPool)
    (e3 : h3 = { h with
      node := arraySet h.node (h.m_pool.get_value i)
        { h.node (h.m_pool.get_value i) with second := v } }) :
    HashInv h3 L ∧ h3.m_header = h.m_header ∧ h3.hash = h.hash ∧ h3.m_pool = h.m_pool ∧
      (h3.deref i).first = (h.deref i).first ∧ (h3.deref i).second = v ∧
      ∀ x, 1 ≤ x → x ≠ i → h3.deref x = h.deref x := by
  obtain ⟨F, hp⟩ := hinv.pool
  have eH : h3.m_header = h.m_header := by rw [e3]
  have ehash : h3.hash = h.hash := by rw [e3]
  have epool : h3.m_pool = h.m_pool := by rw [e3]
  have eb : h3.m_buckets = h.m_buckets := by rw [e3]
  have enode : h3.node = arraySet h.node (h.m_pool.get_value i)
      { h.node (h.m_pool.get_value i) with second := v } := by rw [e3]
  have hall : ∀ a, (h3.node a).first = (h.node a).first ∧ (h3.node a).next = (h.node a).next := by
    intro a
    rw [enode]
    by_cases e : a = h.m_pool.get_value i
    · subst e
      rw [arraySet_self]
      exact ⟨rfl, rfl⟩
    · rw [arraySet_other _ _ _ _ e]
      exact ⟨rfl, rfl⟩
  have hfirst : ∀ x, (h3.deref x).first = (h.deref x).first := by
    intro x
    unfold HashMemPool.deref
    rw [epool]
    exact (hall _).1
  have hnext : h3.nextOf = h.nextOf := by
    funext x
    unfold HashMemPool.nextOf HashMemPool.deref
    rw [epool]
    exact (hall _).2
  have hbi : ∀ k, h3.bucket_index k = h.bucket_index k := by
    intro k
    unfold HashMemPool.bucket_index
    rw [eH, ehash]
  refine ⟨⟨?_, ?_, ?_, ?_⟩, eH, ehash, epool, hfirst i, ?_, ?_⟩
  · rw [eH]; exact hinv.bn
  · rw [epool]; exact ⟨F, hp⟩
  · intro x hx y hy hk
    rw [hfirst, hfirst] at hk
    exact hinv.keys x hx y hy hk
  · intro b hb
    rw [eH] at hb
    obtain ⟨l, hcl, hndl, hml⟩ := hinv.chains b hb
    refine ⟨l, ?_, hndl, ?_⟩
    · rw [hnext, eb]; exact hcl
    · intro x
      rw [hfirst, hbi]
      exact hml x
  · unfold HashMemPool.deref
    rw [epool, enode, arraySet_self]
  · intro x hx hxi
    have hne : h.m_pool.get_value x ≠ h.m_pool.get_value i := fun e =>
      hxi (get_value_inj_pos _ hp.ts x i hx hi e)
    unfold HashMemPool.deref
    rw [epool, enode, arraySet_other _ _ _ _ hne]

theorem hash_insertValue_keep (h : HashMemPool) (fuel key value it : Nat)
    (hins : h.insert fuel key = some (h, it, false)) :
    h.insertValue fuel key value = some (h, it, false) := by
  unfold HashMemPool.insertValue
  rw [hins]
  rfl

theorem HashInv.insertValue_new {h : HashMemPool} {L : List Nat} (hinv : HashInv h L)
    (fuel key value : Nat) (hfull : h.full = false) (hfind : h.find_ref fuel key = some 0)
    (habs : ∀ i ∈ L, (h.deref i).first ≠ key) :
    ∃ h2 idx, h.insertValue fuel key value = some (h2, idx, true) ∧ idx ≠ 0 ∧ idx ∉ L ∧
      HashInv h2 (idx :: L) ∧ HashFrame h h2 L ∧
      (h2.deref idx).first = key ∧ (h2.deref idx).second = value := by
  obtain ⟨h1, idx, hins, hidx, hnotin, hinv1, hfr, hd⟩ :=
    hinv.insert_new fuel key hfull hfind habs
  obtain ⟨hinv3, eH, ehash, epool, hf3, hs3, hold⟩ :=
    hinv1.set_second idx value (by omega) _ rfl
  refine ⟨_, idx, ?_, hidx, hnotin, hinv3, ⟨?_, ?_, ?_, ?_⟩, ?_, hs3⟩
  · unfold HashMemPool.insertValue
    rw [hins]
    rfl
  · rw [eH]; exact hfr.1
  · rw [ehash]; exact hfr.2.1
  · rw [epool]; exact hfr.2.2.1
  · intro x hx
    rw [hold x (hinv.index_pos hx) (fun e => hnotin (e ▸ hx))]
    exact hfr.2.2.2 x hx
  · rw [hf3, hd]

theorem init_max_num (region : FixedMemPool) (size max_node_num node_size sizeof_T : Nat)
    (check : Bool)
    (hinit : (FixedMemPool.init region size max_node_num node_size sizeof_T check).1 = true) :
    (FixedMemPool.init region size max_node_num node_size sizeof_T check).2.m_header.max_num
      = max_node_num := by
  unfold FixedMemPool.init at hinit ⊢
  simp only at hinit ⊢
  split_ifs at hinit ⊢
  all_goals
    rename_i h3
    simp only [not_or, ne_eq, not_not] at h3
    exact h3.2.2.2.1

theorem hash_init_inv (region : HashMemPool) (mem max_node bucket_num mem_size : Nat)
    (sizeof_InnerNode sizeof_HashNode : Nat)
    (hinit : (HashMemPool.init region mem max_node bucket_num mem_size false
      sizeof_InnerNode sizeof_HashNode).1 = true)
    (hb : 0 < bucket_num) (hT : 1 ≤ sizeof_InnerNode) (hns : sizeof_HashNode + 7 < UINT64_MOD)
    (hN : max_node + 1 < UINT64_MOD) :
    HashInv (HashMemPool.init region mem max_node bucket_num mem_size false
        sizeof_InnerNode sizeof_HashNode).2 [] ∧
      (HashMemPool.init region mem max_node bucket_num mem_size false
        sizeof_InnerNode sizeof_HashNode).2.m_pool.m_header.max_num = max_node ∧
      (HashMemPool.init region mem max_node bucket_num mem_size false
        sizeof_InnerNode sizeof_HashNode).2.hash = region.hash := by
  unfold HashMemPool.init at hinit ⊢
  by_cases h1 : mem = 0 ∨ calc_mem_size max_node bucket_num sizeof_HashNode < mem_size
  · rw [if_pos h1] at hinit
    exact absurd hinit Bool.noConfusion
  · rw [if_neg h1] at hinit ⊢
    simp only [Bool.false_eq_true, false_and, if_false] at hinit ⊢
    have hpi := init_inv _ _ _ _ _ hinit hT hns hN
    have hmax := init_max_num _ _ _ _ _ _ hinit
    refine ⟨⟨hb, ⟨[], hpi⟩, ?_, ?_⟩, hmax, trivial⟩
    · intro i hi
      simp at hi
    · intro b hb2
      refine ⟨[], ?_, List.nodup_nil, ?_⟩
      · show (if b < bucket_num then 0 else region.m_buckets b) = 0
        rw [if_pos hb2]
      · intro i
        simp

theorem entries_frame (h h2 : HashMemPool) (L : List Nat) (hfr : HashFrame h h2 L) :
    h2.entries L = h.entries L := by
  unfold HashMemPool.entries
  refine List.map_congr_left ?_
  intro x hx
  rw [(hfr.2.2.2 x hx).1, (hfr.2.2.2 x hx).2]

theorem mapFind_entries_absent (h : HashMemPool) (key : Nat) :
    ∀ (L : List Nat), (∀ i ∈ L, (h.deref i).first ≠ key) → mapFind key (h.entries L) = none := by
  intro L
  induction L with
  | nil => intro _; rfl
  | cons a L ih =>
    intro hk
    have ha := hk a (List.mem_cons_self _ _)
    simp only [HashMemPool.entries, List.map_cons, mapFind, ha, if_false]
    exact ih (fun i hi => hk i (List.mem_cons_of_mem _ hi))

theorem mapFind_entries_present (h : HashMemPool) (key r : Nat) (hr : (h.deref r).first = key) :
    ∀ (L : List Nat), r ∈ L →
      (∀ i ∈ L, ∀ j ∈ L, (h.deref i).first = (h.deref j).first → i = j) →
      mapFind key (h.entries L) = some (h.deref r).second := by
  intro L
  induction L with
  | nil => intro hm; simp at hm
  | cons a L ih =>
    intro hm hinj
    by_cases e : (h.deref a).first = key
    · have har : a = r := hinj a (List.mem_cons_self _ _) r hm (by rw [e, hr])
      subst har
      simp only [HashMemPool.entries, List.map_cons, mapFind, e, if_true]
    · have hrL : r ∈ L := by
        rcases List.mem_cons.1 hm with e2 | e2
        · rw [e2] at hr
          exact absurd hr e
        · exact e2
      simp only [HashMemPool.entries, List.map_cons, mapFind, e, if_false]
      exact ih hrL (fun i hi j hj => hinj i (List.mem_cons_of_mem _ hi) j (List.mem_cons_of_mem _ hj))

theorem mapErase_entries_absent (h : HashMemPool) (key : Nat) :
    ∀ (L : List Nat), (∀ i ∈ L, (h.deref i).first ≠ key) →
      mapErase key (h.entries L) = h.entries L := by
  intro L
  induction L with
  | nil => intro _; rfl
  | cons a L ih =>
    intro hk
    have ha := hk a (List.mem_cons_self _ _)
    have hrec := ih (fun i hi => hk i (List.mem_cons_of_mem _ hi))
    simp only [HashMemPool.entries, List.map_cons, mapErase, ha, if_false] at hrec ⊢
    rw [hrec]

theorem mapErase_entries (h : HashMemPool) (key r : Nat) (hr : (h.deref r).first = key) :
    ∀ (L : List Nat), r ∈ L → L.Nodup →
      (∀ i ∈ L, ∀ j ∈ L, (h.deref i).first = (h.deref j).first → i = j) →
      mapErase key (h.entries L) = h.entries (L.erase r) := by
  intro L
  induction L with
  | nil => intro hm; simp at hm
  | cons a L ih =>
    intro hm hnd hinj
    have hinj2 : ∀ i ∈ L, ∀ j ∈ L, (h.deref i).first = (h.deref j).first → i = j :=
      fun i hi j hj => hinj i (List.mem_cons_of_mem _ hi) j (List.mem_cons_of_mem _ hj)
    by_cases e : (h.deref a).first = key
    · have har : a = r := hinj a (List.mem_cons_self _ _) r hm (by rw [e, hr])
      subst har
      have hnot : ∀ i ∈ L, (h.deref i).first ≠ key := by
        intro i hi hk
        have : i = a := hinj i (List.mem_cons_of_mem _ hi) a (List.mem_cons_self _ _)
          (by rw [hk, e])
        exact (List.nodup_cons.1 hnd).1 (this ▸ hi)
      have h1 := mapErase_entries_absent h key L hnot
      rw [List.erase_cons_head]
      simp only [HashMemPool.entries, List.map_cons, mapErase, e, if_true] at h1 ⊢
      exact h1
    · have hne : a ≠ r := fun e2 => e (e2 ▸ hr)
      have hrL : r ∈ L := by
        rcases List.mem_cons.1 hm with e2 | e2
        · exact absurd e2.symm hne
        · exact e2
      have hbeq : ¬ (a == r) = true := by simpa using hne
      have h1 := ih hrL (List.nodup_cons.1 hnd).2 hinj2
      rw [List.erase_cons_tail hbeq]
      simp only [HashMemPool.entries, List.map_cons, mapErase, e, if_false] at h1 ⊢
      rw [h1]

theorem HashInv.nodup_nodes {h : HashMemPool} {L : List Nat} (hinv : HashInv h L) : L.Nodup := by
  obtain ⟨F, hp⟩ := hinv.pool
  exact (List.nodup_append.1 hp.nodup).1

theorem HashInv.step_spec {h : HashMemPool} {L : List Nat} (hinv : HashInv h L)
    (fuel : Nat) (hf : h.m_pool.m_header.max_num < fuel) (op : HOp) :
    ∃ h1 r L1, h.step fuel op = some (h1, r) ∧ HashInv h1 L1 ∧
      h1.m_pool.m_header.max_num = h.m_pool.m_header.max_num ∧
      ∀ tr, contentFrom (h.entries L) ((op, r) :: tr) = contentFrom (h1.entries L1) tr ∧
        countInserted ((op, r) :: tr) + L.length + countErased tr
          = countInserted tr + countErased ((op, r) :: tr) + L1.length := by
  cases op with
  | insert key =>
    cases hfull : h.full with
    | true =>
      have hins := hash_insert_full h fuel key hfull
      refine ⟨h, HRes.inserted 0 false, L, ?_, hinv, rfl, fun tr => ⟨rfl, ?_⟩⟩
      · simp only [HashMemPool.step, hins, Option.map_some']
      · simp only [countInserted, countErased]
        omega
    | false =>
      obtain ⟨r, hfind, hr | hr⟩ := hinv.find_ref_spec fuel key hf
      · have hins := hash_insert_present h fuel key r hfull hfind hr.1
        refine ⟨h, HRes.inserted r false, L, ?_, hinv, rfl, fun tr => ⟨rfl, ?_⟩⟩
        · simp only [HashMemPool.step, hins, Option.map_some']
        · simp only [countInserted, countErased]
          omega
      · rw [hr.1] at hfind
        obtain ⟨h2, idx, hins, _, _, hinv2, hfr, hd⟩ := hinv.insert_new fuel key hfull hfind hr.2
        refine ⟨h2, HRes.inserted idx true, idx :: L, ?_, hinv2, hfr.2.2.1, fun tr => ⟨?_, ?_⟩⟩
        · simp only [HashMemPool.step, hins, Option.map_some']
        · have e1 : h2.entries (idx :: L) = (key, 0) :: h.entries L := by
            rw [← entries_frame h h2 L hfr]
            simp only [HashMemPool.entries, List.map_cons, hd]
          rw [e1]
          rfl
        · simp only [countInserted, countErased, List.length_cons]
          omega
  | insertValue key value =>
    cases hfull : h.full with
    | true =>
      have hins := hash_insertValue_keep h fuel key value 0 (hash_insert_full h fuel key hfull)
      refine ⟨h, HRes.inserted 0 false, L, ?_, hinv, rfl, fun tr => ⟨rfl, ?_⟩⟩
      · simp only [HashMemPool.step, hins, Option.map_some']
      · simp only [countInserted, countErased]
        omega
    | false =>
      obtain ⟨r, hfind, hr | hr⟩ := hinv.find_ref_spec fuel key hf
      · have hins := hash_insertValue_keep h fuel key value r
          (hash_insert_present h fuel key r hfull hfind hr.1)
        refine ⟨h, HRes.inserted r false, L, ?_, hinv, rfl, fun tr => ⟨rfl, ?_⟩⟩
        · simp only [HashMemPool.step, hins, Option.map_some']
        · simp only [countInserted, countErased]
          omega
      · rw [hr.1] at hfind
        obtain ⟨h2, idx, hins, _, _, hinv2, hfr, hd1, hd2⟩ :=
          hinv.insertValue_new fuel key value hfull hfind hr.2
        refine ⟨h2, HRes.inserted idx true, idx :: L, ?_, hinv2, hfr.2.2.1, fun tr => ⟨?_, ?_⟩⟩
        · simp only [HashMemPool.step, hins, Option.map_some']
        · have e1 : h2.entries (idx :: L) = (key, value) :: h.entries L := by
            rw [← entries_frame h h2 L hfr]
            simp only [HashMemPool.entries, List.map_cons, hd1, hd2]
          rw [e1]
          rfl
        · simp only [countInserted, countErased, List.length_cons]
          omega
  | erase key =>
    obtain ⟨h2, ok, her, hc | hc⟩ := hinv.erase_spec fuel key hf
    · obtain ⟨hok, r, hrL, hkr, hinv2, hfr⟩ := hc
      subst hok
      refine ⟨h2, HRes.erased true, L.erase r, ?_, hinv2, hfr.2.2.1, fun tr => ⟨?_, ?_⟩⟩
      · simp only [HashMemPool.step, her, Option.map_some']
      · have hsub : HashFrame h h2 (L.erase r) :=
          ⟨hfr.1, hfr.2.1, hfr.2.2.1, fun x hx => hfr.2.2.2 x (List.mem_of_mem_erase hx)⟩
        have e1 : h2.entries (L.erase r) = mapErase key (h.entries L) := by
          rw [entries_frame h h2 _ hsub]
          exact (mapErase_entries h key r hkr L hrL hinv.nodup_nodes hinv.keys).symm
        rw [e1]
        rfl
      · have := List.length_erase_of_mem hrL
        have hpos : 0 < L.length := List.length_pos_of_mem hrL
        simp only [countInserted, countErased]
        omega
    · obtain ⟨hok, e2, _⟩ := hc
      subst hok
      subst e2
      refine ⟨h2, HRes.erased false, L, ?_, hinv, rfl, fun tr => ⟨rfl, ?_⟩⟩
      · simp only [HashMemPool.step, her, Option.map_some']
      · simp only [countInserted, countErased]
        omega

theorem runHash_inv (fuel : Nat) :
    ∀ (ops : List HOp) (h : HashMemPool) (L : List Nat), HashInv h L →
      h.m_pool.m_header.max_num < fuel →
      ∃ h2 tr L2, runHash fuel ops h = some (h2, tr) ∧ HashInv h2 L2 ∧
        h2.m_pool.m_header.max_num = h.m_pool.m_header.max_num ∧
        contentFrom (h.entries L) tr = h2.entries L2 ∧
        countInserted tr + L.length = countErased tr + L2.length := by
  intro ops
  induction ops with
  | nil =>
    intro h L hinv _
    exact ⟨h, [], L, rfl, hinv, rfl, rfl, by simp [countInserted, countErased]⟩
  | cons op ops ih =>
    intro h L hinv hf
    obtain ⟨h1, r, L1, hstep, hinv1, hmax1, hall⟩ := hinv.step_spec fuel hf op
    obtain ⟨h2, tr, L2, hrun, hinv2, hmax2, hcont, hcount⟩ := ih h1 L1 hinv1 (by omega)
    refine ⟨h2, (op, r) :: tr, L2, ?_, hinv2, by omega, ?_, ?_⟩
    · simp only [runHash, hstep, hrun]
    · rw [(hall tr).1, hcont]
    · have := (hall tr).2
      omega

theorem runHash_reachable (region : HashMemPool) (mem max_node bucket_num mem_size : Nat)
    (sizeof_InnerNode sizeof_HashNode : Nat) (ops : List HOp) (fuel : Nat)
    (hinit : (HashMemPool.init region mem max_node bucket_num mem_size false
      sizeof_InnerNode sizeof_HashNode).1 = true)
    (hb : 0 < bucket_num) (hT : 1 ≤ sizeof_InnerNode) (hns : sizeof_HashNode + 7 < UINT64_MOD)
    (hN : max_node + 1 < UINT64_MOD) (hf : max_node < fuel) :
    ∃ h tr L, runHash fuel ops (HashMemPool.init region mem max_node bucket_num mem_size false
        sizeof_InnerNode sizeof_HashNode).2 = some (h, tr) ∧ HashInv h L ∧
      h.m_pool.m_header.max_num < fuel ∧ contentFrom [] tr = h.entries L ∧
      countInserted tr = countErased tr + L.length := by
  obtain ⟨hinv, hmax, _⟩ := hash_init_inv region mem max_node bucket_num mem_size
    sizeof_InnerNode sizeof_HashNode hinit hb hT hns hN
  obtain ⟨h, tr, L, hrun, hinv2, hmax2, hcont, hcount⟩ :=
    runHash_inv fuel ops _ [] hinv (by rw [hmax]; exact hf)
  refine ⟨h, tr, L, hrun, hinv2, by rw [hmax2, hmax]; exact hf, hcont, ?_⟩
  simpa using hcount

theorem HashInv.find_ref_content {h : HashMemPool} {L : List Nat} (hinv : HashInv h L)
    (fuel key : Nat) (hf : h.m_pool.m_header.max_num < fuel) :
    ∃ r, h.find_ref fuel key = some r ∧ (r ≠ 0 ↔ mapContains key (h.entries L) = true) ∧
      (r ≠ 0 → r ∈ L ∧ (h.deref r).first = key ∧
        mapFind key (h.entries L) = some (h.deref r).second) ∧
      (r = 0 → ∀ i ∈ L, (h.deref i).first ≠ key) := by
  obtain ⟨r, hfind, hr | hr⟩ := hinv.find_ref_spec fuel key hf
  · have hm := mapFind_entries_present h key r hr.2.2 L hr.2.1 hinv.keys
    refine ⟨r, hfind, ?_, fun _ => ⟨hr.2.1, hr.2.2, hm⟩, fun e => absurd e hr.1⟩
    unfold mapContains
    rw [hm]
    simp [hr.1]
  · have hm := mapFind_entries_absent h key L hr.2
    refine ⟨r, hfind, ?_, fun e => absurd hr.1 e, fun _ => hr.2⟩
    unfold mapContains
    rw [hm]
    simp [hr.1]

theorem HashInv.erase_effect {h : HashMemPool} {L : List Nat} (hinv : HashInv h L)
    (fuel key r : Nat) (hf : h.m_pool.m_header.max_num < fuel)
    (hfind : h.find_ref fuel key = some r) :
    ∃ h2 ok, h.erase fuel key = some (h2, ok) ∧ (ok = true ↔ r ≠ 0) ∧
      h2.find_ref fuel key = some 0 ∧
      h2.size = h.size - (if ok = true then 1 else 0) ∧
      ∀ key2 r2, key2 ≠ key → r2 ≠ 0 → h.find_ref fuel key2 = some r2 →
        h2.find_ref fuel key2 = some r2 ∧ (h2.deref r2).first = key2 ∧
        (h2.deref r2).second = (h.deref r2).second := by
  obtain ⟨r0, hfind0, hr0⟩ := hinv.find_ref_spec fuel key hf
  have er : r0 = r := by
    rw [hfind] at hfind0
    exact (Option.some.inj hfind0).symm
  subst er
  obtain ⟨h2, ok, her, hc | hc⟩ := hinv.erase_spec fuel key hf
  · obtain ⟨hok, x, hxL, hkx, hinv2, hfr⟩ := hc
    subst hok
    have hf2 : h2.m_pool.m_header.max_num < fuel := by rw [hfr.2.2.1]; exact hf
    have hnd := hinv.nodup_nodes
    refine ⟨h2, true, her, ?_, ?_, ?_, ?_⟩
    · rcases hr0 with hr | hr
      · simp [hr.1]
      · exact absurd hkx (hr.2 x hxL)
    · obtain ⟨r1, hfind1, hr1 | hr1⟩ := hinv2.find_ref_spec fuel key hf2
      · have hr1L : r1 ∈ L := List.mem_of_mem_erase hr1.2.1
        have hk1 : (h.deref r1).first = key := by
          rw [← (hfr.2.2.2 r1 hr1L).1]; exact hr1.2.2
        have e1 : r1 = x := hinv.keys r1 hr1L x hxL (by rw [hk1, hkx])
        rw [e1] at hr1
        exact absurd hr1.2.1 (List.Nodup.not_mem_erase hnd)
      · rw [hr1.1] at hfind1
        exact hfind1
    · rw [hinv2.size_eq, hinv.size_eq, List.length_erase_of_mem hxL]
      simp
    · intro key2 r2 hne hr2 hfind2
      obtain ⟨r3, hfind3, hr3⟩ := hinv.find_ref_spec fuel key2 hf
      have e3 : r3 = r2 := by
        rw [hfind2] at hfind3
        exact (Option.some.inj hfind3).symm
      subst e3
      rcases hr3 with hr3 | hr3
      · have hx3 : r3 ≠ x := by
          intro e
          rw [e, hkx] at hr3
          exact hne hr3.2.2.symm
        have hmem : r3 ∈ L.erase x := (List.Nodup.mem_erase_iff hnd).2 ⟨hx3, hr3.2.1⟩
        have hfr3 := hfr.2.2.2 r3 hr3.2.1
        refine ⟨?_, by rw [hfr3.1]; exact hr3.2.2, hfr3.2⟩
        obtain ⟨r4, hfind4, hr4 | hr4⟩ := hinv2.find_ref_spec fuel key2 hf2
        · have hr4L : r4 ∈ L := List.mem_of_mem_erase hr4.2.1
          have hk4 : (h.deref r4).first = key2 := by
            rw [← (hfr.2.2.2 r4 hr4L).1]; exact hr4.2.2
          have e4 : r4 = r3 := hinv.keys r4 hr4L r3 hr3.2.1 (by rw [hk4, hr3.2.2])
          rw [e4] at hfind4
          exact hfind4
        · have := hr4.2 r3 hmem
          rw [hfr3.1] at this
          exact absurd hr3.2.2 this
      · exact absurd hr3.1 hr2
  · obtain ⟨hok, e2, habs⟩ := hc
    subst hok
    subst e2
    have hr : r0 = 0 := by
      rcases hr0 with hr | hr
      · exact absurd hr.2.2 (habs r0 hr.2.1)
      · exact hr.1
    subst hr
    refine ⟨h2, false, her, by simp, hfind, by simp, ?_⟩
    intro key2 r2 _ hr2 hfind2
    obtain ⟨r3, hfind3, hr3⟩ := hinv.find_ref_spec fuel key2 hf
    have e3 : r3 = r2 := by
      rw [hfind2] at hfind3
      exact (Option.some.inj hfind3).symm
    subst e3
    rcases hr3 with hr3 | hr3
    · exact ⟨hfind2, hr3.2.2, rfl⟩
    · exact absurd hr3.1 hr2

/-- C11 (amended): after any sequence of `insert` and `erase` calls on a freshly
initialised `HashMemPool`, every key is looked up by `find`, it is found exactly
when it is among the entries the calls left, and for a key that is found both
`insert(key)` and `insert(key, value)` return `false` and leave the pool as it
was; the iterator they return is the one of the existing entry when the pool is
not full, and `end()` when the pool is full. -/
theorem C11_insert_present_key (region : HashMemPool) (mem max_node bucket_num mem_size : Nat)
    (sizeof_InnerNode sizeof_HashNode : Nat) (ops : List HOp) (fuel : Nat)
    (hinit : (HashMemPool.init region mem max_node bucket_num mem_size false
      sizeof_InnerNode sizeof_HashNode).1 = true)
    (hb : 0 < bucket_num) (hT : 1 ≤ sizeof_InnerNode) (hns : sizeof_HashNode + 7 < UINT64_MOD)
    (hN : max_node + 1 < UINT64_MOD) (hf : max_node < fuel) :
    ∃ h tr, runHash fuel ops (HashMemPool.init region mem max_node bucket_num mem_size false
        sizeof_InnerNode sizeof_HashNode).2 = some (h, tr) ∧
      ∀ key, ∃ r, h.find_ref fuel key = some r ∧
        (r ≠ 0 ↔ mapContains key (contentFrom [] tr) = true) ∧
        (r ≠ 0 → ∀ value,
          h.insert fuel key = some (h, (if h.full = true then 0 else r), false) ∧
          h.insertValue fuel key value = some (h, (if h.full = true then 0 else r), false)) := by
  obtain ⟨h, tr, L, hrun, hinv, hmax, hcont, _⟩ := runHash_reachable region mem max_node
    bucket_num mem_size sizeof_InnerNode sizeof_HashNode ops fuel hinit hb hT hns hN hf
  refine ⟨h, tr, hrun, ?_⟩
  intro key
  obtain ⟨r, hfind, hiff, _, _⟩ := hinv.find_ref_content fuel key hmax
  rw [hcont]
  refine ⟨r, hfind, hiff, ?_⟩
  intro hr value
  have hins : h.insert fuel key = some (h, (if h.full = true then 0 else r), false) := by
    cases hfull : h.full with
    | true => exact hash_insert_full h fuel key hfull
    | false =>
      simp only [Bool.false_eq_true, if_false]
      exact hash_insert_present h fuel key r hfull hfind hr
  exact ⟨hins, hash_insertValue_keep h fuel key value _ hins⟩

/-- C12: after any sequence of `insert` and `erase` calls on a freshly initialised
`HashMemPool`, `size()` is the number of successful insertions less the number of
successful erasures; for every key, `find` finds it exactly when it is among the
entries the calls left, `erase(key)` returns `true` exactly when `find` finds it,
after the erasure `find(key)` is `end()`, and every other key that was found is
still found at the same node, with its key and its value. -/
theorem C12_erase_and_size (region : HashMemPool) (mem max_node bucket_num mem_size : Nat)
    (sizeof_InnerNode sizeof_HashNode : Nat) (ops : List HOp) (fuel : Nat)
    (hinit : (HashMemPool.init region mem max_node bucket_num mem_size false
      sizeof_InnerNode sizeof_HashNode).1 = true)
    (hb : 0 < bucket_num) (hT : 1 ≤ sizeof_InnerNode) (hns : sizeof_HashNode + 7 < UINT64_MOD)
    (hN : max_node + 1 < UINT64_MOD) (hf : max_node < fuel) :
    ∃ h tr, runHash fuel ops (HashMemPool.init region mem max_node bucket_num mem_size false
        sizeof_InnerNode sizeof_HashNode).2 = some (h, tr) ∧
      countErased tr ≤ countInserted tr ∧ h.size = countInserted tr - countErased tr ∧
      ∀ key, ∃ r h2 ok, h.find_ref fuel key = some r ∧ h.erase fuel key = some (h2, ok) ∧
        (r ≠ 0 ↔ mapContains key (contentFrom [] tr) = true) ∧
        (ok = true ↔ r ≠ 0) ∧
        h2.find_ref fuel key = some 0 ∧
        h2.size = h.size - (if ok = true then 1 else 0) ∧
        ∀ key2 r2, key2 ≠ key → r2 ≠ 0 → h.find_ref fuel key2 = some r2 →
          h2.find_ref fuel key2 = some r2 ∧ (h2.deref r2).first = key2 ∧
          (h2.deref r2).second = (h.deref r2).second ∧
          mapFind key2 (contentFrom [] tr) = some (h.deref r2).second := by
  obtain ⟨h, tr, L, hrun, hinv, hmax, hcont, hcount⟩ := runHash_reachable region mem max_node
    bucket_num mem_size sizeof_InnerNode sizeof_HashNode ops fuel hinit hb hT hns hN hf
  refine ⟨h, tr, hrun, by omega, by rw [hinv.size_eq]; omega, ?_⟩
  intro key
  obtain ⟨r, hfind, hiff, _, _⟩ := hinv.find_ref_content fuel key hmax
  obtain ⟨h2, ok, her, hok, hgone, hsize, hrest⟩ := hinv.erase_effect fuel key r hmax hfind
  rw [hcont]
  refine ⟨r, h2, ok, hfind, her, hiff, hok, hgone, hsize, ?_⟩
  intro key2 r2 hne hr2 hfind2
  obtain ⟨h1, h3, h4⟩ := hrest key2 r2 hne hr2 hfind2
  obtain ⟨r3, hfind3, _, hpres, _⟩ := hinv.find_ref_content fuel key2 hmax
  have e3 : r3 = r2 := by
    rw [hfind2] at hfind3
    exact (Option.some.inj hfind3).symm
  subst e3
  exact ⟨h1, h3, h4, (hpres hr2).2.2⟩

/-- C11, a counterexample to the claim as written: in a full pool of one node
that holds the key 1, `find(1)` is the iterator at index 1, and `insert(1)`
returns `false` with the iterator `end()` (index 0), not the iterator of the
existing entry. -/
theorem C11_counterexample_full_pool_returns_end :
    tinyHashInit.1 = true ∧
    (runHash 2 [HOp.insertValue 1 100] tinyHashInit.2).bind (fun s => s.1.find_ref 2 1)
      = some 1 ∧
    (runHash 2 [HOp.insertValue 1 100] tinyHashInit.2).map (fun s => s.1.full) = some true ∧
    (runHash 2 [HOp.insertValue 1 100, HOp.insert 1, HOp.insertValue 1 7] tinyHashInit.2).map
        (fun s => s.2)
      = some [(HOp.insertValue 1 100, HRes.inserted 1 true),
          (HOp.insert 1, HRes.inserted 0 false),
          (HOp.insertValue 1 7, HRes.inserted 0 false)] := by
  decide

/-- C11, an instance of the amended statement: a pool of three nodes and two
buckets after three insertions and an erasure. -/
theorem C11_insert_present_key_witness :
    demoHashInit.1 = true ∧
    ∃ h tr, runHash 4 [HOp.insertValue 1 10, HOp.insertValue 2 20, HOp.insert 3, HOp.erase 2]
        demoHashInit.2 = some (h, tr) ∧
      ∀ key, ∃ r, h.find_ref 4 key = some r ∧
        (r ≠ 0 ↔ mapContains key (contentFrom [] tr) = true) ∧
        (r ≠ 0 → ∀ value,
          h.insert 4 key = some (h, (if h.full = true then 0 else r), false) ∧
          h.insertValue 4 key value = some (h, (if h.full = true then 0 else r), false)) :=
  ⟨by decide,
    C11_insert_present_key rawHash 4096 3 2 (calc_mem_size 3 2 16) 8 16
      [HOp.insertValue 1 10, HOp.insertValue 2 20, HOp.insert 3, HOp.erase 2] 4
      (by decide) (by decide) (by decide) (by decide) (by decide) (by decide)⟩

/-- C12, an instance: a pool of three nodes and two buckets after three
insertions, an erasure, a refused insertion and an erasure of an absent key. -/
theorem C12_erase_and_size_witness :
    demoHashInit.1 = true ∧
    ∃ h tr, runHash 4 [HOp.insertValue 1 10, HOp.insertValue 2 20, HOp.insert 3, HOp.erase 2,
          HOp.insert 1, HOp.erase 9] demoHashInit.2 = some (h, tr) ∧
      countErased tr ≤ countInserted tr ∧ h.size = countInserted tr - countErased tr ∧
      ∀ key, ∃ r h2 ok, h.find_ref 4 key = some r ∧ h.erase 4 key = some (h2, ok) ∧
        (r ≠ 0 ↔ mapContains key (contentFrom [] tr) = true) ∧
        (ok = true ↔ r ≠ 0) ∧
        h2.find_ref 4 key = some 0 ∧
        h2.size = h.size - (if ok = true then 1 else 0) ∧
        ∀ key2 r2, key2 ≠ key → r2 ≠ 0 → h.find_ref 4 key2 = some r2 →
          h2.find_ref 4 key2 = some r2 ∧ (h2.deref r2).first = key2 ∧
          (h2.deref r2).second = (h.deref r2).second ∧
          mapFind key2 (contentFrom [] tr) = some (h.deref r2).second :=
  ⟨by decide,
    C12_erase_and_size rawHash 4096 3 2 (calc_mem_size 3 2 16) 8 16
      [HOp.insertValue 1 10, HOp.insertValue 2 20, HOp.insert 3, HOp.erase 2,
        HOp.insert 1, HOp.erase 9] 4
      (by decide) (by decide) (by decide) (by decide) (by decide) (by decide)⟩


/-! ## The records of an `UnfixedRingBuf` -/

theorem readBytes_length (buf : Nat → Nat) (p n : Nat) : (readBytes buf p n).length = n := by
  simp [readBytes]

theorem readBytes_congr (buf buf2 : Nat → Nat) (p n : Nat)
    (h : ∀ a, p ≤ a → a < p + n → buf2 a = buf a) : readBytes buf2 p n = readBytes buf p n := by
  unfold readBytes
  refine List.map_congr_left ?_
  intro i hi
  rw [List.mem_range] at hi
  exact h (p + i) (by omega) (by omega)

theorem writeBytes_outside (buf : Nat → Nat) (p : Nat) (bs : List Nat) (a : Nat)
    (h : a < p ∨ p + bs.length ≤ a) : writeBytes buf p bs a = buf a := by
  unfold writeBytes
  rw [if_neg (by omega)]

theorem writeBytes_inside (buf : Nat → Nat) (p : Nat) (bs : List Nat) (i : Nat)
    (h : i < bs.length) : writeBytes buf p bs (p + i) = bs.getD i 0 := by
  unfold writeBytes
  rw [if_pos (by omega)]
  congr 1
  omega

theorem readBytes_writeBytes (buf : Nat → Nat) (p : Nat) (bs : List Nat) :
    readBytes (writeBytes buf p bs) p bs.length = bs := by
  refine List.ext_getElem (readBytes_length _ _ _) ?_
  intro i h1 h2
  simp only [readBytes, List.getElem_map, List.getElem_range]
  rw [writeBytes_inside buf p bs i h2, List.getD_eq_getElem _ _ h2]

theorem encodeLE_length : ∀ (w v : Nat), (encodeLE w v).length = w := by
  intro w
  induction w with
  | zero => intro v; rfl
  | succ w ih => intro v; simp [encodeLE, ih]

theorem decode_encode : ∀ (w v : Nat), decodeLE (encodeLE w v) = v % 256 ^ w := by
  intro w
  induction w with
  | zero => intro v; simp [encodeLE, decodeLE, Nat.mod_one]
  | succ w ih =>
    intro v
    simp only [encodeLE, decodeLE, ih]
    rw [pow_succ, Nat.mul_comm (256 ^ w) 256, Nat.mod_mul]

theorem int_mod_eq (s : UnfixedRingBuf) : s.INT_MOD = 256 ^ s.int_bytes := by
  unfold UnfixedRingBuf.INT_MOD
  rw [show (256 : Nat) = 2 ^ 8 from rfl, ← pow_mul]

theorem lenAt_congr (w : Nat) (buf buf2 : Nat → Nat) (p : Nat)
    (h : ∀ a, p + w ≤ a → a < p + 2 * w → buf2 a = buf a) : lenAt w buf2 p = lenAt w buf p := by
  unfold lenAt
  rw [readBytes_congr buf buf2 (p + w) w (fun a h1 h2 => h a h1 (by omega))]

theorem isRec_congr (w : Nat) (buf buf2 : Nat → Nat) (p : Nat) (d : List Nat) (hw : 1 ≤ w)
    (h : ∀ a, p ≤ a → a < p + 2 * w + d.length → buf2 a = buf a) (hr : IsRec w buf p d) :
    IsRec w buf2 p d := by
  obtain ⟨h1, h2, h3⟩ := hr
  refine ⟨?_, ?_, ?_⟩
  · rw [h p (le_refl _) (by omega)]; exact h1
  · rw [lenAt_congr w buf buf2 p (fun a ha1 ha2 => h a (by omega) (by omega))]; exact h2
  · rw [readBytes_congr buf buf2 _ _ (fun a ha1 ha2 => h a (by omega) (by omega))]; exact h3

theorem contig_le (w : Nat) (buf : Nat → Nat) :
    ∀ (ds : List (List Nat)) (p q : Nat), Contig w buf p ds q → p ≤ q := by
  intro ds
  induction ds with
  | nil => intro p q h; exact le_of_eq h
  | cons d ds ih =>
    intro p q h
    have := ih _ _ h.2
    omega

theorem contig_cons_le (w : Nat) (buf : Nat → Nat) (d : List Nat) (ds : List (List Nat))
    (p q : Nat) (h : Contig w buf p (d :: ds) q) : p + 2 * w + d.length ≤ q :=
  contig_le w buf ds _ q h.2

theorem contig_length_le (w : Nat) (buf : Nat → Nat) (hw : 1 ≤ w) :
    ∀ (ds : List (List Nat)) (p q : Nat), Contig w buf p ds q → p + ds.length ≤ q := by
  intro ds
  induction ds with
  | nil => intro p q h; simp only [List.length_nil]; exact le_of_eq h
  | cons d ds ih =>
    intro p q h
    have := ih _ _ h.2
    simp only [List.length_cons]
    omega

theorem contig_congr (w : Nat) (buf buf2 : Nat → Nat) (hw : 1 ≤ w) :
    ∀ (ds : List (List Nat)) (p q : Nat), (∀ a, p ≤ a → a < q → buf2 a = buf a) →
      Contig w buf p ds q → Contig w buf2 p ds q := by
  intro ds
  induction ds with
  | nil => intro p q _ h; exact h
  | cons d ds ih =>
    intro p q hb h
    have hle := contig_le w buf ds _ q h.2
    refine ⟨isRec_congr w buf buf2 p d hw (fun a h1 h2 => hb a h1 (by omega)) h.1, ?_⟩
    exact ih _ q (fun a h1 h2 => hb a (by omega) h2) h.2

theorem contig_snoc (w : Nat) (buf : Nat → Nat) (d : List Nat) :
    ∀ (ds : List (List Nat)) (p q : Nat), Contig w buf p ds q → IsRec w buf q d →
      Contig w buf p (ds ++ [d]) (q + 2 * w + d.length) := by
  intro ds
  induction ds with
  | nil =>
    intro p q h hr
    have : p = q := h
    subst this
    exact ⟨hr, rfl⟩
  | cons e ds ih =>
    intro p q h hr
    exact ⟨h.1, ih _ q h.2 hr⟩

theorem contig_nil_iff (w : Nat) (buf : Nat → Nat) (hw : 1 ≤ w) (ds : List (List Nat))
    (p : Nat) (h : Contig w buf p ds p) : ds = [] := by
  cases ds with
  | nil => rfl
  | cons d ds =>
    have := contig_cons_le w buf d ds p p h
    omega

theorem RingStatic.mods {s : UnfixedRingBuf} (h : RingStatic s) :
    s.INT_MOD ≤ s.PROMOTED_MOD ∧ s.PROMOTED_MOD ≤ UINT64_MOD ∧ s.INT_MOD ≤ UINT64_MOD ∧
      0 < s.INT_MOD := by
  have h1 : s.INT_MOD ≤ UINT64_MOD := by
    unfold UnfixedRingBuf.INT_MOD UINT64_MOD
    exact Nat.pow_le_pow_right (by decide) (by have := h.w_le; omega)
  have h2 : UINT32_MOD ≤ UINT64_MOD := by decide
  have h3 : 0 < s.INT_MOD := Nat.pow_pos (by decide)
  refine ⟨Nat.le_max_left _ _, Nat.max_le.2 ⟨h1, h2⟩, h1, h3⟩

theorem mod_id {a m : Nat} (h : a < m) : a % m = a := Nat.mod_eq_of_lt h

theorem set_header_spec (s : UnfixedRingBuf) (p len flag : Nat) (hw : 1 ≤ s.int_bytes)
    (hflag : flag < 256) :
    (s.set_header p len flag).m_buf p = flag ∧
    lenAt s.int_bytes (s.set_header p len flag).m_buf p = len % s.INT_MOD ∧
    (∀ a, a < p ∨ p + 2 * s.int_bytes ≤ a → (s.set_header p len flag).m_buf a = s.m_buf a) := by
  have hb : (s.set_header p len flag).m_buf
      = writeBytes (writeBytes s.m_buf (p + s.int_bytes)
          (encodeLE s.int_bytes (len % s.INT_MOD))) p [flag % 256] := rfl
  rw [hb]
  refine ⟨?_, ?_, ?_⟩
  · have := writeBytes_inside (writeBytes s.m_buf (p + s.int_bytes)
      (encodeLE s.int_bytes (len % s.INT_MOD))) p [flag % 256] 0 (by simp)
    simp only [Nat.add_zero] at this
    rw [this]
    simp [mod_id hflag]
  · unfold lenAt
    rw [readBytes_congr (writeBytes s.m_buf (p + s.int_bytes)
      (encodeLE s.int_bytes (len % s.INT_MOD))) _ (p + s.int_bytes) s.int_bytes
      (fun a h1 h2 => writeBytes_outside _ p _ a (by simp; omega))]
    have hl := encodeLE_length s.int_bytes (len % s.INT_MOD)
    have := readBytes_writeBytes s.m_buf (p + s.int_bytes) (encodeLE s.int_bytes (len % s.INT_MOD))
    rw [hl] at this
    rw [this, decode_encode, ← int_mod_eq, Nat.mod_mod]
  · intro a ha
    rw [writeBytes_outside _ p _ a (by simp; omega),
      writeBytes_outside _ _ _ a (by rw [encodeLE_length]; omega)]

theorem store_item_spec (s : UnfixedRingBuf) (d : List Nat) (hw : 1 ≤ s.int_bytes)
    (hd : d.length < s.INT_MOD) :
    IsRec s.int_bytes (s.store_item d d.length).m_buf s.m_end d ∧
    (∀ a, a < s.m_end ∨ s.m_end + 2 * s.int_bytes + d.length ≤ a →
      (s.store_item d d.length).m_buf a = s.m_buf a) := by
  obtain ⟨h1, h2, h3⟩ := set_header_spec s s.m_end d.length 0 hw (by decide)
  have hb : (s.store_item d d.length).m_buf
      = writeBytes (s.set_header s.m_end d.length 0).m_buf (s.m_end + 2 * s.int_bytes) d := rfl
  rw [hb]
  refine ⟨⟨?_, ?_, ?_⟩, ?_⟩
  · rw [writeBytes_outside _ _ _ _ (by omega)]
    exact h1
  · rw [lenAt_congr s.int_bytes (s.set_header s.m_end d.length 0).m_buf _ s.m_end
      (fun a ha1 ha2 => writeBytes_outside _ _ _ a (by omega))]
    rw [h2, mod_id hd]
  · exact readBytes_writeBytes _ _ _
  · intro a ha
    rw [writeBytes_outside _ _ _ a (by omega)]
    exact h3 a (by omega)

theorem ringFields_refl (s : UnfixedRingBuf) :
    RingFields s s s.m_start s.m_end s.m_used_size s.m_item_num :=
  ⟨rfl, rfl, rfl, rfl, rfl, rfl, rfl⟩

theorem RingFields.static {s2 s : UnfixedRingBuf} {a b c n : Nat} (h : RingFields s2 s a b c n)
    (hst : RingStatic s) : RingStatic s2 := by
  obtain ⟨_, _, _, _, h5, _, h7⟩ := h
  have hM : s2.INT_MOD = s.INT_MOD := by unfold UnfixedRingBuf.INT_MOD; rw [h7]
  exact ⟨by rw [h7]; exact hst.w_pos, by rw [h7]; exact hst.w_le, by rw [h5]; exact hst.size_pos,
    by rw [h5, hM]; exact hst.size_int, by rw [h5]; exact hst.size_u64⟩

theorem pop_item_spec (s : UnfixedRingBuf) (d : List Nat) (hst : RingStatic s)
    (hrec : IsRec s.int_bytes s.m_buf s.m_start d)
    (hp : s.m_start + 2 * s.int_bytes + d.length ≤ s.m_size)
    (hu : 2 * s.int_bytes + d.length ≤ s.m_used_size) (hus : s.m_used_size ≤ s.m_size)
    (hn : 1 ≤ s.m_item_num) (hns : s.m_item_num ≤ s.m_size) :
    RingFields s.pop_item s ((s.m_start + 2 * s.int_bytes + d.length) % s.m_size) s.m_end
      (s.m_used_size - (2 * s.int_bytes + d.length)) (s.m_item_num - 1) := by
  obtain ⟨hm1, hm2, hm3, hm4⟩ := hst.mods
  have hsz := hst.size_int
  have h64 := hst.size_u64
  have hpos := hst.size_pos
  have hlen : s.len_at s.m_start = d.length := hrec.2.1
  refine ⟨?_, rfl, ?_, ?_, rfl, rfl, rfl⟩
  · show ((s.m_start + s.SIZEOF_ITEM_HEADER + s.len_at s.m_start) % UINT64_MOD % s.m_size)
      % s.INT_MOD = _
    rw [hlen]
    unfold UnfixedRingBuf.SIZEOF_ITEM_HEADER
    rw [mod_id (show s.m_start + 2 * s.int_bytes + d.length < UINT64_MOD by omega)]
    have := Nat.mod_lt (s.m_start + 2 * s.int_bytes + d.length) hpos
    exact mod_id (by omega)
  · show ((s.m_used_size + UINT64_MOD - (s.SIZEOF_ITEM_HEADER + s.len_at s.m_start) % UINT64_MOD)
      % UINT64_MOD) % s.INT_MOD = _
    rw [hlen]
    unfold UnfixedRingBuf.SIZEOF_ITEM_HEADER
    rw [mod_id (show 2 * s.int_bytes + d.length < UINT64_MOD by omega)]
    have e : s.m_used_size + UINT64_MOD - (2 * s.int_bytes + d.length)
        = (s.m_used_size - (2 * s.int_bytes + d.length)) + UINT64_MOD := by omega
    rw [e, Nat.add_mod_right, mod_id (show s.m_used_size - (2 * s.int_bytes + d.length)
      < UINT64_MOD by omega)]
    exact mod_id (by omega)
  · show ((s.m_item_num + s.PROMOTED_MOD - 1) % s.PROMOTED_MOD) % s.INT_MOD = _
    have e : s.m_item_num + s.PROMOTED_MOD - 1 = (s.m_item_num - 1) + s.PROMOTED_MOD := by omega
    rw [e, Nat.add_mod_right, mod_id (show s.m_item_num - 1 < s.PROMOTED_MOD by omega)]
    exact mod_id (by omega)

theorem need_skip_fits (s : UnfixedRingBuf) (p : Nat) (hst : RingStatic s)
    (hp : p + 2 * s.int_bytes ≤ s.m_size) : s.need_skip_bytes p = 0 := by
  have h64 := hst.size_u64
  unfold UnfixedRingBuf.need_skip_bytes UnfixedRingBuf.SIZEOF_ITEM_HEADER
  rw [mod_id (show p + 2 * s.int_bytes < UINT64_MOD by omega), if_neg (by omega)]

theorem need_skip_short (s : UnfixedRingBuf) (p : Nat) (hst : RingStatic s)
    (hp : s.m_size < p + 2 * s.int_bytes) (hp2 : p ≤ s.m_size) :
    s.need_skip_bytes p = s.m_size - p := by
  obtain ⟨hm1, hm2, hm3, hm4⟩ := hst.mods
  have hsz := hst.size_int
  have h64 := hst.size_u64
  have hw := hst.w_le
  have hU : 64 ≤ UINT64_MOD := by decide
  unfold UnfixedRingBuf.need_skip_bytes UnfixedRingBuf.SIZEOF_ITEM_HEADER
  rw [mod_id (show p + 2 * s.int_bytes < UINT64_MOD by omega), if_pos (by omega)]
  have e : s.m_size + s.PROMOTED_MOD - p = (s.m_size - p) + s.PROMOTED_MOD := by omega
  rw [e, Nat.add_mod_right, mod_id (show s.m_size - p < s.PROMOTED_MOD by omega)]
  exact mod_id (by omega)

theorem isEmpty_iff (s : UnfixedRingBuf) (hpos : 0 < s.m_size) :
    s.isEmpty = true ↔ s.m_used_size = 0 := by
  unfold UnfixedRingBuf.isEmpty
  simp [hpos]

theorem isEmpty_false_iff (s : UnfixedRingBuf) (hpos : 0 < s.m_size) :
    s.isEmpty = false ↔ s.m_used_size ≠ 0 := by
  unfold UnfixedRingBuf.isEmpty
  simp [hpos]

theorem full_false_iff (s : UnfixedRingBuf) : s.full = false ↔ s.m_used_size < s.m_size := by
  unfold UnfixedRingBuf.full
  simp

theorem full_iff (s : UnfixedRingBuf) : s.full = true ↔ s.m_size ≤ s.m_used_size := by
  unfold UnfixedRingBuf.full
  simp

theorem pop_gap_keep (s : UnfixedRingBuf) (hst : RingStatic s)
    (hp : s.m_start + 2 * s.int_bytes ≤ s.m_size)
    (h : s.m_used_size = 0 ∨ s.m_buf s.m_start = 0) : s.pop_gap = s := by
  unfold UnfixedRingBuf.pop_gap
  rw [need_skip_fits s _ hst hp, if_neg (by omega)]
  rcases h with h | h
  · rw [if_neg]
    rw [(isEmpty_iff s hst.size_pos).2 h]
    exact Bool.noConfusion
  · by_cases he : s.isEmpty = false
    · rw [if_pos he]
      unfold UnfixedRingBuf.pop_padding UnfixedRingBuf.flag_at
      rw [if_neg (by rw [h]; decide)]
    · rw [if_neg he]

theorem pop_gap_padding (s : UnfixedRingBuf) (hst : RingStatic s)
    (hp : s.m_start + 2 * s.int_bytes ≤ s.m_size) (hflag : s.m_buf s.m_start = 1)
    (hlen : lenAt s.int_bytes s.m_buf s.m_start = s.m_size - s.m_start - 2 * s.int_bytes)
    (hu : s.m_size - s.m_start ≤ s.m_used_size) (hus : s.m_used_size ≤ s.m_size) :
    RingFields s.pop_gap s 0 s.m_end (s.m_used_size - (s.m_size - s.m_start)) s.m_item_num := by
  obtain ⟨hm1, hm2, hm3, hm4⟩ := hst.mods
  have hsz := hst.size_int
  have h64 := hst.size_u64
  have hw := hst.w_pos
  have hne : s.isEmpty = false := by
    rw [isEmpty_false_iff s hst.size_pos]
    omega
  have hl2 : s.len_at s.m_start = s.m_size - s.m_start - 2 * s.int_bytes := hlen
  have hsum : s.m_start + 2 * s.int_bytes + (s.m_size - s.m_start - 2 * s.int_bytes) = s.m_size := by
    omega
  have hsum2 : 2 * s.int_bytes + (s.m_size - s.m_start - 2 * s.int_bytes)
      = s.m_size - s.m_start := by omega
  unfold UnfixedRingBuf.pop_gap
  rw [need_skip_fits s _ hst hp, if_neg (by omega), if_pos hne]
  unfold UnfixedRingBuf.pop_padding UnfixedRingBuf.flag_at
  rw [if_pos hflag]
  refine ⟨?_, rfl, ?_, rfl, rfl, rfl, rfl⟩
  · show ((s.m_start + s.SIZEOF_ITEM_HEADER + s.len_at s.m_start) % UINT64_MOD % s.m_size)
      % s.INT_MOD = 0
    unfold UnfixedRingBuf.SIZEOF_ITEM_HEADER
    rw [hl2, hsum, mod_id (show s.m_size < UINT64_MOD by omega), Nat.mod_self]
    exact Nat.zero_mod _
  · show ((s.m_used_size + UINT64_MOD - (s.SIZEOF_ITEM_HEADER + s.len_at s.m_start) % UINT64_MOD)
      % UINT64_MOD) % s.INT_MOD = _
    unfold UnfixedRingBuf.SIZEOF_ITEM_HEADER
    rw [hl2, hsum2, mod_id (show s.m_size - s.m_start < UINT64_MOD by omega)]
    have e : s.m_used_size + UINT64_MOD - (s.m_size - s.m_start)
        = (s.m_used_size - (s.m_size - s.m_start)) + UINT64_MOD := by omega
    rw [e, Nat.add_mod_right, mod_id (show s.m_used_size - (s.m_size - s.m_start)
      < UINT64_MOD by omega)]
    exact mod_id (by omega)

theorem pop_gap_skip (s : UnfixedRingBuf) (hst : RingStatic s)
    (hp : s.m_size < s.m_start + 2 * s.int_bytes) (hp2 : s.m_start < s.m_size)
    (hu : s.m_size - s.m_start ≤ s.m_used_size) (hus : s.m_used_size ≤ s.m_size) :
    RingFields s.pop_gap s 0 s.m_end (s.m_used_size - (s.m_size - s.m_start)) s.m_item_num := by
  obtain ⟨hm1, hm2, hm3, hm4⟩ := hst.mods
  have hsz := hst.size_int
  have h64 := hst.size_u64
  have hsk := need_skip_short s s.m_start hst hp (by omega)
  unfold UnfixedRingBuf.pop_gap
  rw [hsk, if_pos (by omega)]
  refine ⟨?_, rfl, ?_, rfl, rfl, rfl, rfl⟩
  · show ((s.m_start + (s.m_size - s.m_start)) % s.PROMOTED_MOD % s.m_size) % s.INT_MOD = 0
    rw [show s.m_start + (s.m_size - s.m_start) = s.m_size by omega,
      mod_id (show s.m_size < s.PROMOTED_MOD by omega), Nat.mod_self]
    exact Nat.zero_mod _
  · show ((s.m_used_size + s.PROMOTED_MOD - (s.m_size - s.m_start)) % s.PROMOTED_MOD)
      % s.INT_MOD = _
    have e : s.m_used_size + s.PROMOTED_MOD - (s.m_size - s.m_start)
        = (s.m_used_size - (s.m_size - s.m_start)) + s.PROMOTED_MOD := by omega
    rw [e, Nat.add_mod_right, mod_id (show s.m_used_size - (s.m_size - s.m_start)
      < s.PROMOTED_MOD by omega)]
    exact mod_id (by omega)

theorem pop_reset_spec (s : UnfixedRingBuf) (hst : RingStatic s) :
    (s.m_used_size = 0 → RingFields s.pop_reset s 0 0 0 s.m_item_num) ∧
    (s.m_used_size ≠ 0 → s.pop_reset = s) := by
  obtain ⟨hm1, hm2, hm3, hm4⟩ := hst.mods
  constructor
  · intro h
    unfold UnfixedRingBuf.pop_reset
    rw [if_pos ((isEmpty_iff s hst.size_pos).2 h)]
    exact ⟨Nat.zero_mod _, Nat.zero_mod _, h, rfl, rfl, rfl, rfl⟩
  · intro h
    unfold UnfixedRingBuf.pop_reset
    rw [if_neg]
    rw [(isEmpty_false_iff s hst.size_pos).2 h]
    exact Bool.noConfusion

theorem RingFields.trans {s3 s2 s : UnfixedRingBuf} {a b c n a2 b2 c2 n2 : Nat}
    (h : RingFields s3 s2 a b c n) (h2 : RingFields s2 s a2 b2 c2 n2) :
    RingFields s3 s a b c n := by
  obtain ⟨h1, h2a, h3, h4, h5, h6, h7⟩ := h
  obtain ⟨_, _, _, _, g5, g6, g7⟩ := h2
  exact ⟨h1, h2a, h3, h4, h5.trans g5, h6.trans g6, h7.trans g7⟩

theorem RingFields.of_eq {s2 s : UnfixedRingBuf} (e : s2 = s) :
    RingFields s2 s s.m_start s.m_end s.m_used_size s.m_item_num := by
  subst e
  exact ringFields_refl _

theorem RingA.of_fields_flat {s2 s : UnfixedRingBuf} {a b c n : Nat} (ds : List (List Nat))
    (h : RingFields s2 s a b c n) (h1 : a ≤ b) (h2 : Contig s.int_bytes s.m_buf a ds b)
    (h3 : ds ≠ [] → b + 2 * s.int_bytes ≤ s.m_size) (h4 : c + a = b) (h5 : ds = [] → a = 0) :
    RingA s2 ds := by
  obtain ⟨e1, e2, e3, e4, e5, e6, e7⟩ := h
  refine ⟨?_, ?_, ?_, ?_, ?_⟩
  · rw [e1, e2]; exact h1
  · rw [e1, e2, e6, e7]; exact h2
  · rw [e2, e5, e7]; exact h3
  · rw [e1, e2, e3]; exact h4
  · rw [e1]; exact h5

theorem RingB.of_fields_wrapped {s2 s : UnfixedRingBuf} {a b c n : Nat} (upper lower : List (List Nat))
    (t : Nat) (h : RingFields s2 s a b c n) (h1 : upper ≠ [])
    (h2 : Contig s.int_bytes s.m_buf a upper t) (h3 : GapAt s.int_bytes s.m_buf s.m_size t)
    (h4 : Contig s.int_bytes s.m_buf 0 lower b) (h5 : b ≤ a) (h6 : c + a = s.m_size + b) :
    RingB s2 upper lower t := by
  obtain ⟨e1, e2, e3, e4, e5, e6, e7⟩ := h
  refine ⟨h1, ?_, ?_, ?_, ?_, ?_⟩
  · rw [e1, e6, e7]; exact h2
  · rw [e5, e6, e7]; exact h3
  · rw [e2, e6, e7]; exact h4
  · rw [e1, e2]; exact h5
  · rw [e1, e2, e3, e5]; exact h6

theorem pop_eq (s : UnfixedRingBuf) (d : List Nat) (hpos : 0 < s.m_size)
    (hu : s.m_used_size ≠ 0) (hrec : IsRec s.int_bytes s.m_buf s.m_start d) :
    s.pop = (s.pop_item.pop_gap.pop_reset, [d]) := by
  have hne := (isEmpty_false_iff s hpos).2 hu
  have hlen : s.len_at s.m_start = d.length := hrec.2.1
  unfold UnfixedRingBuf.pop
  rw [if_neg (by rw [hne]; exact Bool.noConfusion), hlen]
  unfold UnfixedRingBuf.SIZEOF_ITEM_HEADER
  rw [hrec.2.2]

theorem pop_ringA (s : UnfixedRingBuf) (d : List Nat) (rest : List (List Nat))
    (hst : RingStatic s) (hnum : s.m_item_num = (d :: rest).length) (h : RingA s (d :: rest)) :
    s.pop.2 = [d] ∧ RingA s.pop.1 rest ∧
      ∃ a b c, RingFields s.pop.1 s a b c rest.length ∧ c < s.m_used_size := by
  have hw := hst.w_pos
  have hrec : IsRec s.int_bytes s.m_buf s.m_start d := h.contig.1
  have hrest : Contig s.int_bytes s.m_buf (s.m_start + 2 * s.int_bytes + d.length) rest s.m_end :=
    h.contig.2
  have hle := contig_le _ _ _ _ _ hrest
  have hroom := h.room (List.cons_ne_nil _ _)
  have hused := h.used
  have hlen := contig_length_le _ _ hw _ _ _ h.contig
  simp only [List.length_cons] at hnum hlen
  have hp3 : (s.m_start + 2 * s.int_bytes + d.length) % s.m_size
      = s.m_start + 2 * s.int_bytes + d.length := mod_id (by omega)
  have h3 := pop_item_spec s d hst hrec (by omega) (by omega) (by omega) (by omega) (by omega)
  rw [hp3] at h3
  have hst3 := h3.static hst
  obtain ⟨e1, e2, e3, e4, e5, e6, e7⟩ := h3
  rw [pop_eq s d hst.size_pos (by omega) hrec]
  refine ⟨rfl, ?_⟩
  have hgap : s.pop_item.pop_gap = s.pop_item := by
    refine pop_gap_keep _ hst3 (by rw [e1, e7, e5]; omega) ?_
    cases rest with
    | nil =>
      left
      have : s.m_start + 2 * s.int_bytes + d.length = s.m_end := hrest
      rw [e3]; omega
    | cons d2 rest2 =>
      right
      rw [e1, e6]
      exact hrest.1.1
  show RingA s.pop_item.pop_gap.pop_reset rest ∧ _
  rw [hgap]
  cases rest with
  | nil =>
    have hpe : s.m_start + 2 * s.int_bytes + d.length = s.m_end := hrest
    have hu0 : s.pop_item.m_used_size = 0 := by rw [e3]; omega
    have h5 := ((pop_reset_spec _ hst3).1 hu0).trans ⟨e1, e2, e3, e4, e5, e6, e7⟩
    refine ⟨RingA.of_fields_flat [] h5 (le_refl _) rfl (fun hne => absurd rfl hne) rfl (fun _ => rfl),
      0, 0, 0, ?_, by omega⟩
    obtain ⟨g1, g2, g3, g4, g5, g6, g7⟩ := h5
    exact ⟨g1, g2, g3, by rw [g4, e4, hnum]; rfl, g5, g6, g7⟩
  | cons d2 rest2 =>
    have hle2 := contig_cons_le _ _ _ _ _ _ hrest
    have hu0 : s.pop_item.m_used_size ≠ 0 := by rw [e3]; omega
    rw [(pop_reset_spec _ hst3).2 hu0]
    have h5 : RingFields s.pop_item s (s.m_start + 2 * s.int_bytes + d.length) s.m_end
        (s.m_used_size - (2 * s.int_bytes + d.length)) (d2 :: rest2).length :=
      ⟨e1, e2, e3, by rw [e4, hnum]; rfl, e5, e6, e7⟩
    refine ⟨RingA.of_fields_flat _ h5 hle hrest (fun _ => hroom) (by omega)
      (fun hne => absurd hne (List.cons_ne_nil _ _)), _, _, _, h5, by omega⟩

theorem RingB.bounds_wrapped {s : UnfixedRingBuf} {upper lower : List (List Nat)} {t : Nat}
    (h : RingB s upper lower t) (hst : RingStatic s) :
    s.m_start + upper.length ≤ t ∧ t ≤ s.m_size ∧ lower.length ≤ s.m_end ∧
      s.m_used_size ≤ s.m_size ∧ s.m_start + 2 * s.int_bytes ≤ t := by
  have h1 := contig_length_le _ _ hst.w_pos _ _ _ h.up
  have h2 := contig_length_le _ _ hst.w_pos _ _ _ h.low
  have h3 := h.gap.1
  have h4 := h.end_le
  have h5 := h.used
  refine ⟨h1, h3, by omega, by omega, ?_⟩
  cases hu : upper with
  | nil => exact absurd hu h.upper_ne
  | cons u us =>
    have hup := h.up
    rw [hu] at hup
    have := contig_cons_le _ _ _ _ _ _ hup
    omega

theorem pop_ringB_mid (s : UnfixedRingBuf) (u u2 : List Nat) (us lower : List (List Nat))
    (t : Nat) (hst : RingStatic s) (hnum : s.m_item_num = (u :: u2 :: us ++ lower).length)
    (h : RingB s (u :: u2 :: us) lower t) :
    s.pop.2 = [u] ∧ RingB s.pop.1 (u2 :: us) lower t ∧
      RingFields s.pop.1 s (s.m_start + 2 * s.int_bytes + u.length) s.m_end
        (s.m_used_size - (2 * s.int_bytes + u.length)) (u2 :: us ++ lower).length := by
  have hw := hst.w_pos
  obtain ⟨hb1, hb2, hb3, hb4, hb5⟩ := h.bounds_wrapped hst
  have hrec : IsRec s.int_bytes s.m_buf s.m_start u := h.up.1
  have hrest : Contig s.int_bytes s.m_buf (s.m_start + 2 * s.int_bytes + u.length) (u2 :: us) t :=
    h.up.2
  have hle2 := contig_cons_le _ _ _ _ _ _ hrest
  have hused := h.used
  have hend := h.end_le
  simp only [List.length_cons, List.length_append, List.cons_append] at hnum hb1
  have hp3 : (s.m_start + 2 * s.int_bytes + u.length) % s.m_size
      = s.m_start + 2 * s.int_bytes + u.length := mod_id (by omega)
  have h3 := pop_item_spec s u hst hrec (by omega) (by omega) (by omega) (by omega) (by omega)
  rw [hp3] at h3
  have hst3 := h3.static hst
  obtain ⟨e1, e2, e3, e4, e5, e6, e7⟩ := h3
  rw [pop_eq s u hst.size_pos (by omega) hrec]
  refine ⟨rfl, ?_⟩
  have hgap : s.pop_item.pop_gap = s.pop_item := by
    refine pop_gap_keep _ hst3 (by rw [e1, e7, e5]; omega) (Or.inr ?_)
    rw [e1, e6]
    exact hrest.1.1
  have hu0 : s.pop_item.m_used_size ≠ 0 := by rw [e3]; omega
  show RingB s.pop_item.pop_gap.pop_reset _ _ _ ∧ RingFields s.pop_item.pop_gap.pop_reset _ _ _ _ _
  rw [hgap, (pop_reset_spec _ hst3).2 hu0]
  have h5 : RingFields s.pop_item s (s.m_start + 2 * s.int_bytes + u.length) s.m_end
      (s.m_used_size - (2 * s.int_bytes + u.length)) (u2 :: us ++ lower).length :=
    ⟨e1, e2, e3, by rw [e4, hnum]; simp, e5, e6, e7⟩
  exact ⟨RingB.of_fields_wrapped _ _ t h5 (List.cons_ne_nil _ _) hrest h.gap h.low (by omega) (by omega),
    h5⟩

theorem pop_reset_low (s4 s : UnfixedRingBuf) (e n : Nat) (hst : RingStatic s)
    (h : RingFields s4 s 0 e e n) : RingFields s4.pop_reset s 0 e e n := by
  have hst4 := h.static hst
  by_cases he : e = 0
  · subst he
    have := ((pop_reset_spec _ hst4).1 h.2.2.1).trans h
    obtain ⟨g1, g2, g3, g4, g5, g6, g7⟩ := this
    exact ⟨g1, g2, g3, g4.trans h.2.2.2.1, g5, g6, g7⟩
  · rw [(pop_reset_spec _ hst4).2 (by rw [h.2.2.1]; exact he)]
    exact h

theorem pop_ringB_last (s : UnfixedRingBuf) (u : List Nat) (lower : List (List Nat))
    (t : Nat) (hst : RingStatic s) (hnum : s.m_item_num = (u :: lower).length)
    (h : RingB s [u] lower t) :
    s.pop.2 = [u] ∧ RingA s.pop.1 lower ∧
      RingFields s.pop.1 s 0 s.m_end s.m_end lower.length := by
  have hw := hst.w_pos
  obtain ⟨hb1, hb2, hb3, hb4, hb5⟩ := h.bounds_wrapped hst
  have hrec : IsRec s.int_bytes s.m_buf s.m_start u := h.up.1
  have ht : s.m_start + 2 * s.int_bytes + u.length = t := h.up.2
  have hused := h.used
  have hend := h.end_le
  have hpos := hst.size_pos
  simp only [List.length_cons] at hnum
  have h3 := pop_item_spec s u hst hrec (by omega) (by omega) (by omega) (by omega) (by omega)
  rw [ht] at h3
  have hst3 := h3.static hst
  obtain ⟨e1, e2, e3, e4, e5, e6, e7⟩ := h3
  rw [pop_eq s u hst.size_pos (by omega) hrec]
  refine ⟨rfl, ?_⟩
  have hlow0 : lower ≠ [] → s.m_buf 0 = 0 := by
    intro hne
    cases lower with
    | nil => exact absurd rfl hne
    | cons l ls => exact h.low.1.1
  have hend0 : lower = [] → s.m_end = 0 := by
    intro e
    have hl := h.low
    rw [e] at hl
    exact hl.symm
  have h4 : RingFields s.pop_item.pop_gap s 0 s.m_end s.m_end lower.length := by
    by_cases hts : t = s.m_size
    · have hs0 : s.pop_item.m_start = 0 := by rw [e1, hts]; exact Nat.mod_self _
      have hgap : s.pop_item.pop_gap = s.pop_item := by
        refine pop_gap_keep _ hst3 (by rw [hs0, e7, e5]; omega) ?_
        by_cases hl : lower = []
        · left
          have := hend0 hl
          rw [e3]
          omega
        · right; rw [hs0, e6]; exact hlow0 hl
      rw [hgap]
      exact ⟨hs0, e2, by rw [e3]; omega, by rw [e4, hnum]; simp, e5, e6, e7⟩
    · have hs0 : s.pop_item.m_start = t := by rw [e1]; exact mod_id (by omega)
      by_cases hfit : t + 2 * s.int_bytes ≤ s.m_size
      · obtain ⟨hflag, hplen⟩ := h.gap.2 hfit
        have := pop_gap_padding s.pop_item hst3 (by rw [hs0, e7, e5]; exact hfit)
          (by rw [hs0, e6]; exact hflag) (by rw [hs0, e6, e7, e5]; exact hplen)
          (by rw [hs0, e5, e3]; omega) (by rw [e3, e5]; omega)
        obtain ⟨g1, g2, g3, g4, g5, g6, g7⟩ := this
        exact ⟨g1, g2.trans e2, by rw [g3, e3, e5, hs0]; omega, by rw [g4, e4, hnum]; simp,
          g5.trans e5, g6.trans e6, g7.trans e7⟩
      · have := pop_gap_skip s.pop_item hst3 (by rw [hs0, e7, e5]; omega)
          (by rw [hs0, e5]; omega) (by rw [hs0, e5, e3]; omega) (by rw [e3, e5]; omega)
        obtain ⟨g1, g2, g3, g4, g5, g6, g7⟩ := this
        exact ⟨g1, g2.trans e2, by rw [g3, e3, e5, hs0]; omega, by rw [g4, e4, hnum]; simp,
          g5.trans e5, g6.trans e6, g7.trans e7⟩
  have h5 := pop_reset_low _ s _ _ hst h4
  show RingA s.pop_item.pop_gap.pop_reset lower ∧ _
  exact ⟨RingA.of_fields_flat lower h5 (Nat.zero_le _) h.low (fun _ => by omega) rfl (fun _ => rfl), h5⟩

theorem RingInv.used_zero_iff {s : UnfixedRingBuf} {ds : List (List Nat)} (h : RingInv s ds) :
    s.m_used_size = 0 ↔ ds = [] := by
  obtain ⟨hst, hnum, hA | ⟨upper, lower, t, hds, hB⟩⟩ := h
  · constructor
    · intro hu
      have := hA.used
      have hse : s.m_start = s.m_end := by omega
      have hc := hA.contig
      rw [hse] at hc
      exact contig_nil_iff _ _ hst.w_pos _ _ hc
    · intro hd
      have h0 := hA.reset hd
      have hc := hA.contig
      rw [hd] at hc
      have : s.m_start = s.m_end := hc
      have := hA.used
      omega
  · obtain ⟨hb1, hb2, hb3, hb4, hb5⟩ := hB.bounds_wrapped hst
    have := hB.used
    have := hst.w_pos
    constructor
    · intro hu; omega
    · intro hd
      rw [hd] at hds
      have : upper = [] := (List.append_eq_nil.1 hds.symm).1
      exact absurd this hB.upper_ne

theorem RingInv.used_le {s : UnfixedRingBuf} {ds : List (List Nat)} (h : RingInv s ds) :
    s.m_used_size ≤ s.m_size := by
  obtain ⟨hst, hnum, hA | ⟨upper, lower, t, hds, hB⟩⟩ := h
  · have := hA.used
    by_cases hd : ds = []
    · have h0 := hA.reset hd
      have hc := hA.contig
      rw [hd] at hc
      have : s.m_start = s.m_end := hc
      omega
    · have := hA.room hd
      omega
  · exact (hB.bounds_wrapped hst).2.2.2.1

theorem RingInv.pop_nil {s : UnfixedRingBuf} (h : RingInv s []) : s.pop = (s, []) := by
  have hu := h.used_zero_iff.2 rfl
  unfold UnfixedRingBuf.pop
  rw [if_pos ((isEmpty_iff s h.1.size_pos).2 hu)]

theorem RingInv.pop_cons {s : UnfixedRingBuf} {d : List Nat} {rest : List (List Nat)}
    (h : RingInv s (d :: rest)) :
    s.pop.2 = [d] ∧ RingInv s.pop.1 rest ∧ s.pop.1.m_used_size < s.m_used_size ∧
      s.pop.1.m_size = s.m_size ∧ s.pop.1.int_bytes = s.int_bytes := by
  obtain ⟨hst, hnum, hA | ⟨upper, lower, t, hds, hB⟩⟩ := h
  · obtain ⟨h1, h2, a, b, c, h3, h4⟩ := pop_ringA s d rest hst hnum hA
    exact ⟨h1, ⟨h3.static hst, h3.2.2.2.1, Or.inl h2⟩, by rw [h3.2.2.1]; exact h4,
      h3.2.2.2.2.1, h3.2.2.2.2.2.2⟩
  · obtain ⟨hb1, hb2, hb3, hb4, hb5⟩ := hB.bounds_wrapped hst
    have hused := hB.used
    have hw := hst.w_pos
    cases upper with
    | nil => exact absurd rfl hB.upper_ne
    | cons u upper2 =>
      simp only [List.cons_append, List.cons.injEq] at hds
      obtain ⟨hdu, hrest⟩ := hds
      subst hdu
      cases upper2 with
      | nil =>
        simp only [List.nil_append] at hrest
        subst hrest
        obtain ⟨h1, h2, h3⟩ := pop_ringB_last s d rest t hst hnum hB
        have hle := contig_cons_le _ _ _ _ _ _ hB.up
        exact ⟨h1, ⟨h3.static hst, h3.2.2.2.1, Or.inl h2⟩, by rw [h3.2.2.1]; omega,
          h3.2.2.2.2.1, h3.2.2.2.2.2.2⟩
      | cons u2 us =>
        subst hrest
        obtain ⟨h1, h2, h3⟩ := pop_ringB_mid s d u2 us lower t hst hnum hB
        exact ⟨h1, ⟨h3.static hst, h3.2.2.2.1, Or.inr ⟨_, _, t, rfl, h2⟩⟩,
          by rw [h3.2.2.1]; omega, h3.2.2.2.2.1, h3.2.2.2.2.2.2⟩

theorem store_item_fields (s : UnfixedRingBuf) (d : List Nat) (tl : Nat) :
    (s.store_item d tl).m_start = s.m_start ∧ (s.store_item d tl).m_end = s.m_end ∧
    (s.store_item d tl).m_used_size = s.m_used_size ∧
    (s.store_item d tl).m_item_num = s.m_item_num ∧ (s.store_item d tl).m_size = s.m_size ∧
    (s.store_item d tl).int_bytes = s.int_bytes :=
  ⟨rfl, rfl, rfl, rfl, rfl, rfl⟩

theorem commit_item_spec (s : UnfixedRingBuf) (need : Nat) (hst : RingStatic s)
    (h1 : s.m_end + need ≤ s.m_size) (h2 : s.m_used_size + need ≤ s.m_size)
    (h3 : s.m_item_num + 1 ≤ s.m_size) :
    RingFields (s.commit_item need) s s.m_start ((s.m_end + need) % s.m_size)
      (s.m_used_size + need) (s.m_item_num + 1) := by
  obtain ⟨hm1, hm2, hm3, hm4⟩ := hst.mods
  have hsz := hst.size_int
  have h64 := hst.size_u64
  have hpos := hst.size_pos
  refine ⟨rfl, ?_, ?_, ?_, rfl, rfl, rfl⟩
  · show ((s.m_end + need) % UINT64_MOD % s.m_size) % s.INT_MOD = _
    rw [mod_id (show s.m_end + need < UINT64_MOD by omega)]
    have := Nat.mod_lt (s.m_end + need) hpos
    exact mod_id (by omega)
  · show ((s.m_used_size + need) % UINT64_MOD) % s.INT_MOD = _
    rw [mod_id (show s.m_used_size + need < UINT64_MOD by omega)]
    exact mod_id (by omega)
  · show ((s.m_item_num + 1) % s.PROMOTED_MOD) % s.INT_MOD = _
    rw [mod_id (show s.m_item_num + 1 < s.PROMOTED_MOD by omega)]
    exact mod_id (by omega)

theorem skip_end_fits (s : UnfixedRingBuf) (hst : RingStatic s)
    (h1 : s.m_end + 2 * s.int_bytes ≤ s.m_size) (h2 : s.m_used_size ≤ s.m_size) :
    RingFields s.skip_end s s.m_start s.m_end s.m_used_size s.m_item_num := by
  obtain ⟨hm1, hm2, hm3, hm4⟩ := hst.mods
  have hsz := hst.size_int
  have hw := hst.w_pos
  have hsk := need_skip_fits s s.m_end hst h1
  refine ⟨rfl, ?_, ?_, rfl, rfl, rfl, rfl⟩
  · show ((s.m_end + s.need_skip_bytes s.m_end) % s.PROMOTED_MOD % s.m_size) % s.INT_MOD = _
    rw [hsk, Nat.add_zero, mod_id (show s.m_end < s.PROMOTED_MOD by omega),
      mod_id (show s.m_end < s.m_size by omega)]
    exact mod_id (by omega)
  · show ((s.m_used_size + s.need_skip_bytes s.m_end) % s.PROMOTED_MOD) % s.INT_MOD = _
    rw [hsk, Nat.add_zero, mod_id (show s.m_used_size < s.PROMOTED_MOD by omega)]
    exact mod_id (by omega)

theorem skip_end_short (s : UnfixedRingBuf) (hst : RingStatic s)
    (h1 : s.m_size < s.m_end + 2 * s.int_bytes) (h2 : s.m_end < s.m_size)
    (h3 : s.m_used_size ≤ s.m_end) :
    RingFields s.skip_end s s.m_start 0 (s.m_used_size + (s.m_size - s.m_end))
      s.m_item_num := by
  obtain ⟨hm1, hm2, hm3, hm4⟩ := hst.mods
  have hsz := hst.size_int
  have hsk := need_skip_short s s.m_end hst h1 (by omega)
  refine ⟨rfl, ?_, ?_, rfl, rfl, rfl, rfl⟩
  · show ((s.m_end + s.need_skip_bytes s.m_end) % s.PROMOTED_MOD % s.m_size) % s.INT_MOD = _
    rw [hsk, show s.m_end + (s.m_size - s.m_end) = s.m_size by omega,
      mod_id (show s.m_size < s.PROMOTED_MOD by omega), Nat.mod_self]
    exact Nat.zero_mod _
  · show ((s.m_used_size + s.need_skip_bytes s.m_end) % s.PROMOTED_MOD) % s.INT_MOD = _
    rw [hsk, mod_id (show s.m_used_size + (s.m_size - s.m_end) < s.PROMOTED_MOD by omega)]
    exact mod_id (by omega)

theorem RingA.bounds_flat {s : UnfixedRingBuf} {ds : List (List Nat)} (h : RingA s ds)
    (hst : RingStatic s) :
    s.m_start + ds.length ≤ s.m_end ∧ s.m_end ≤ s.m_size ∧ s.m_used_size ≤ s.m_end := by
  have h1 := contig_length_le _ _ hst.w_pos _ _ _ h.contig
  have h2 := h.used
  refine ⟨h1, ?_, by omega⟩
  by_cases hd : ds = []
  · have h0 := h.reset hd
    have hc := h.contig
    rw [hd] at hc
    have : s.m_start = s.m_end := hc
    omega
  · have := h.room hd
    omega

theorem write_item_ringA (s : UnfixedRingBuf) (ds : List (List Nat)) (d : List Nat)
    (hst : RingStatic s) (hnum : s.m_item_num = ds.length) (hA : RingA s ds)
    (hfit : s.m_end + (d.length + 2 * s.int_bytes) ≤ s.m_size) :
    RingInv (s.write_item d d.length (d.length + 2 * s.int_bytes)) (ds ++ [d]) := by
  obtain ⟨hm1, hm2, hm3, hm4⟩ := hst.mods
  have hw := hst.w_pos
  have hsz := hst.size_int
  obtain ⟨hb1, hb2, hb3⟩ := hA.bounds_flat hst
  have hused := hA.used
  obtain ⟨hrec, hframe⟩ := store_item_spec s d hw (by omega)
  have hf1 : RingFields (s.store_item d d.length) (s.store_item d d.length) s.m_start s.m_end
      s.m_used_size s.m_item_num := ⟨rfl, rfl, rfl, rfl, rfl, rfl, rfl⟩
  have hst1 : RingStatic (s.store_item d d.length) :=
    ⟨hst.w_pos, hst.w_le, hst.size_pos, hst.size_int, hst.size_u64⟩
  have hcon : Contig s.int_bytes (s.store_item d d.length).m_buf s.m_start (ds ++ [d])
      (s.m_end + 2 * s.int_bytes + d.length) :=
    contig_snoc _ _ d ds _ _
      (contig_congr _ _ _ hw ds _ _ (fun a _ ha => hframe a (Or.inl ha)) hA.contig) hrec
  have h2 := commit_item_spec (s.store_item d d.length) (d.length + 2 * s.int_bytes) hst1
    hfit (show s.m_used_size + _ ≤ s.m_size by omega) (show s.m_item_num + 1 ≤ s.m_size by omega)
  have hst2 := h2.static hst1
  obtain ⟨e1, e2, e3, e4, e5, e6, e7⟩ := h2
  have e1b : ((s.store_item d d.length).commit_item (d.length + 2 * s.int_bytes)).m_start
      = s.m_start := e1
  have e2b : ((s.store_item d d.length).commit_item (d.length + 2 * s.int_bytes)).m_end
      = (s.m_end + (d.length + 2 * s.int_bytes)) % s.m_size := e2
  have e3b : ((s.store_item d d.length).commit_item (d.length + 2 * s.int_bytes)).m_used_size
      = s.m_used_size + (d.length + 2 * s.int_bytes) := e3
  have e4b : ((s.store_item d d.length).commit_item (d.length + 2 * s.int_bytes)).m_item_num
      = s.m_item_num + 1 := e4
  have e5b : ((s.store_item d d.length).commit_item (d.length + 2 * s.int_bytes)).m_size
      = s.m_size := e5
  have e7b : ((s.store_item d d.length).commit_item (d.length + 2 * s.int_bytes)).int_bytes
      = s.int_bytes := e7
  have hnum2 : s.m_item_num + 1 = (ds ++ [d]).length := by
    rw [hnum]; simp
  have hne : ds ++ [d] ≠ [] := by simp
  unfold UnfixedRingBuf.write_item
  by_cases hfull : s.m_end + (d.length + 2 * s.int_bytes) = s.m_size
  · have hend0 : ((s.store_item d d.length).commit_item (d.length + 2 * s.int_bytes)).m_end = 0 := by
      rw [e2b, hfull]; exact Nat.mod_self _
    have h3 := skip_end_fits _ hst2 (by rw [hend0, e7b, e5b]; omega) (by rw [e3b, e5b]; omega)
    have hst3 := h3.static hst2
    obtain ⟨g1, g2, g3, g4, g5, g6, g7⟩ := h3
    refine ⟨hst3, by rw [g4, e4b, hnum2], Or.inr ⟨ds ++ [d], [], s.m_size, by simp, ?_⟩⟩
    refine RingB.of_fields_wrapped (s := (s.store_item d d.length)) _ _ _
      ⟨g1.trans e1b, g2.trans hend0, g3.trans e3b, g4.trans e4b, g5.trans e5b, g6.trans e6,
        g7.trans e7b⟩ hne ?_ ⟨le_refl _, fun h => by omega⟩ rfl (Nat.zero_le _) ?_
    · have : s.m_end + 2 * s.int_bytes + d.length = s.m_size := by omega
      rw [← this]
      exact hcon
    · show s.m_used_size + (d.length + 2 * s.int_bytes) + s.m_start = s.m_size + 0
      omega
  · have hendp : ((s.store_item d d.length).commit_item (d.length + 2 * s.int_bytes)).m_end
        = s.m_end + 2 * s.int_bytes + d.length := by
      rw [e2b, mod_id (by omega)]; omega
    by_cases hshort : s.m_size < s.m_end + (d.length + 2 * s.int_bytes) + 2 * s.int_bytes
    · have h3 := skip_end_short _ hst2 (by rw [hendp, e7b, e5b]; omega) (by rw [hendp, e5b]; omega)
        (by rw [hendp, e3b]; omega)
      have hst3 := h3.static hst2
      obtain ⟨g1, g2, g3, g4, g5, g6, g7⟩ := h3
      refine ⟨hst3, by rw [g4, e4b, hnum2], Or.inr ⟨ds ++ [d], [],
        s.m_end + 2 * s.int_bytes + d.length, by simp, ?_⟩⟩
      refine RingB.of_fields_wrapped (s := (s.store_item d d.length)) _ _ _
        ⟨g1.trans e1b, g2, g3, g4.trans e4b, g5.trans e5b, g6.trans e6,
          g7.trans e7b⟩ hne hcon ⟨by show _ ≤ s.m_size; omega, fun h => ?_⟩ rfl
          (Nat.zero_le _) ?_
      · exfalso
        have h' : s.m_end + 2 * s.int_bytes + d.length + 2 * s.int_bytes ≤ s.m_size := h
        omega
      · rw [e3b, e5b, hendp]
        show s.m_used_size + (d.length + 2 * s.int_bytes)
          + (s.m_size - (s.m_end + 2 * s.int_bytes + d.length)) + s.m_start = s.m_size + 0
        omega
    · have h3 := skip_end_fits _ hst2 (by rw [hendp, e7b, e5b]; omega) (by rw [e3b, e5b]; omega)
      have hst3 := h3.static hst2
      obtain ⟨g1, g2, g3, g4, g5, g6, g7⟩ := h3
      refine ⟨hst3, by rw [g4, e4b, hnum2], Or.inl ?_⟩
      refine RingA.of_fields_flat (s := (s.store_item d d.length)) _
        ⟨g1.trans e1b, g2.trans hendp, g3.trans e3b, g4.trans e4b, g5.trans e5b, g6.trans e6,
          g7.trans e7b⟩ (by omega) hcon (fun _ => ?_) (by omega) (fun h => absurd h hne)
      show s.m_end + 2 * s.int_bytes + d.length + 2 * s.int_bytes ≤ s.m_size
      omega

theorem gapAt_congr (w : Nat) (buf buf2 : Nat → Nat) (size t : Nat)
    (h : ∀ a, t ≤ a → buf2 a = buf a) (hg : GapAt w buf size t) : GapAt w buf2 size t := by
  refine ⟨hg.1, fun hfit => ?_⟩
  obtain ⟨h1, h2⟩ := hg.2 hfit
  refine ⟨by rw [h t (le_refl _)]; exact h1, ?_⟩
  rw [lenAt_congr w buf buf2 t (fun a ha _ => h a (by omega))]
  exact h2

theorem write_item_no_wrap_ringB (s : UnfixedRingBuf) (upper lower : List (List Nat)) (t : Nat)
    (d : List Nat) (hst : RingStatic s) (hnum : s.m_item_num = (upper ++ lower).length)
    (hB : RingB s upper lower t)
    (hfit : s.m_end + (d.length + 2 * s.int_bytes) ≤ s.m_start) :
    RingInv (s.write_item_no_wrap d d.length (d.length + 2 * s.int_bytes))
      (upper ++ lower ++ [d]) := by
  obtain ⟨hm1, hm2, hm3, hm4⟩ := hst.mods
  have hw := hst.w_pos
  have hsz := hst.size_int
  have h64 := hst.size_u64
  obtain ⟨hb1, hb2, hb3, hb4, hb5⟩ := hB.bounds_wrapped hst
  have hused := hB.used
  simp only [List.length_append] at hnum
  obtain ⟨hrec, hframe⟩ := store_item_spec s d hw (by omega)
  have hf : RingFields (s.write_item_no_wrap d d.length (d.length + 2 * s.int_bytes))
      (s.store_item d d.length) s.m_start (s.m_end + 2 * s.int_bytes + d.length)
      (s.m_used_size + (d.length + 2 * s.int_bytes)) (s.m_item_num + 1) := by
    refine ⟨rfl, ?_, ?_, ?_, rfl, rfl, rfl⟩
    · show ((s.m_end + (d.length + 2 * s.int_bytes)) % UINT64_MOD) % s.INT_MOD = _
      rw [mod_id (show s.m_end + (d.length + 2 * s.int_bytes) < UINT64_MOD by omega),
        mod_id (show s.m_end + (d.length + 2 * s.int_bytes) < s.INT_MOD by omega)]
      omega
    · show ((s.m_used_size + (d.length + 2 * s.int_bytes)) % UINT64_MOD) % s.INT_MOD = _
      rw [mod_id (show s.m_used_size + (d.length + 2 * s.int_bytes) < UINT64_MOD by omega)]
      exact mod_id (by omega)
    · show ((s.m_item_num + 1) % s.PROMOTED_MOD) % s.INT_MOD = _
      rw [mod_id (show s.m_item_num + 1 < s.PROMOTED_MOD by omega)]
      exact mod_id (by omega)
  have hst1 : RingStatic (s.store_item d d.length) :=
    ⟨hst.w_pos, hst.w_le, hst.size_pos, hst.size_int, hst.size_u64⟩
  refine ⟨hf.static hst1, by rw [hf.2.2.2.1, hnum]; simp; omega,
    Or.inr ⟨upper, lower ++ [d], t, by simp, ?_⟩⟩
  refine RingB.of_fields_wrapped _ _ t hf hB.upper_ne ?_ ?_ ?_ (by omega) ?_
  · exact contig_congr _ _ _ hw upper _ _
      (fun a ha _ => hframe a (Or.inr (by omega))) hB.up
  · exact gapAt_congr _ _ _ _ t (fun a ha => hframe a (Or.inr (by omega))) hB.gap
  · exact contig_snoc _ _ d lower _ _
      (contig_congr _ _ _ hw lower _ _ (fun a _ ha => hframe a (Or.inl ha)) hB.low) hrec
  · show s.m_used_size + (d.length + 2 * s.int_bytes) + s.m_start
      = s.m_size + (s.m_end + 2 * s.int_bytes + d.length)
    omega

theorem push_padding_ringA (s : UnfixedRingBuf) (ds : List (List Nat)) (hst : RingStatic s)
    (hnum : s.m_item_num = ds.length) (hA : RingA s ds) (hne : ds ≠ []) :
    RingB s.push_padding ds [] s.m_end ∧ RingStatic s.push_padding ∧
      s.push_padding.m_item_num = ds.length ∧ s.push_padding.m_start = s.m_start ∧
      s.push_padding.m_end = 0 ∧ s.push_padding.m_size = s.m_size ∧
      s.push_padding.int_bytes = s.int_bytes ∧
      s.push_padding.m_used_size + s.m_start = s.m_size := by
  obtain ⟨hm1, hm2, hm3, hm4⟩ := hst.mods
  have hw := hst.w_pos
  have hw8 := hst.w_le
  have hsz := hst.size_int
  have h64 := hst.size_u64
  obtain ⟨hb1, hb2, hb3⟩ := hA.bounds_flat hst
  have hroom := hA.room hne
  have hused := hA.used
  have hU : 64 ≤ UINT64_MOD := by decide
  have hlen : ((s.m_size + s.PROMOTED_MOD - s.m_end) % s.PROMOTED_MOD + UINT64_MOD
      - s.SIZEOF_ITEM_HEADER) % UINT64_MOD = s.m_size - s.m_end - 2 * s.int_bytes := by
    unfold UnfixedRingBuf.SIZEOF_ITEM_HEADER
    have e : s.m_size + s.PROMOTED_MOD - s.m_end = (s.m_size - s.m_end) + s.PROMOTED_MOD := by
      omega
    rw [e, Nat.add_mod_right, mod_id (show s.m_size - s.m_end < s.PROMOTED_MOD by omega)]
    have e2 : s.m_size - s.m_end + UINT64_MOD - 2 * s.int_bytes
        = (s.m_size - s.m_end - 2 * s.int_bytes) + UINT64_MOD := by omega
    rw [e2, Nat.add_mod_right]
    exact mod_id (by omega)
  obtain ⟨hflag, hplen, hframe⟩ := set_header_spec s s.m_end
    (s.m_size - s.m_end - 2 * s.int_bytes) 1 hw (by decide)
  rw [mod_id (show s.m_size - s.m_end - 2 * s.int_bytes < s.INT_MOD by omega)] at hplen
  have hf : RingFields s.push_padding
      (s.set_header s.m_end (s.m_size - s.m_end - 2 * s.int_bytes) 1) s.m_start 0
      (s.m_used_size + (s.m_size - s.m_end)) s.m_item_num := by
    unfold UnfixedRingBuf.push_padding
    rw [hlen]
    refine ⟨rfl, Nat.zero_mod _, ?_, rfl, rfl, rfl, rfl⟩
    show ((s.m_used_size + (s.m_size + s.PROMOTED_MOD - s.m_end) % s.PROMOTED_MOD)
      % s.PROMOTED_MOD) % s.INT_MOD = _
    have e : s.m_size + s.PROMOTED_MOD - s.m_end = (s.m_size - s.m_end) + s.PROMOTED_MOD := by
      omega
    rw [e, Nat.add_mod_right, mod_id (show s.m_size - s.m_end < s.PROMOTED_MOD by omega),
      mod_id (show s.m_used_size + (s.m_size - s.m_end) < s.PROMOTED_MOD by omega)]
    exact mod_id (by omega)
  have hst1 : RingStatic (s.set_header s.m_end (s.m_size - s.m_end - 2 * s.int_bytes) 1) :=
    ⟨hst.w_pos, hst.w_le, hst.size_pos, hst.size_int, hst.size_u64⟩
  refine ⟨?_, hf.static hst1, hf.2.2.2.1.trans hnum, hf.1, hf.2.1, hf.2.2.2.2.1,
    hf.2.2.2.2.2.2, ?_⟩
  · refine RingB.of_fields_wrapped _ _ s.m_end hf hne ?_ ⟨hb2, fun _ => ⟨hflag, hplen⟩⟩ rfl
      (Nat.zero_le _) ?_
    · exact contig_congr _ _ _ hw ds _ _ (fun a _ ha => hframe a (Or.inl ha)) hA.contig
    · show s.m_used_size + (s.m_size - s.m_end) + s.m_start = s.m_size + 0
      omega
  · rw [hf.2.2.1]
    omega

theorem pop_while_stop (c : UnfixedRingBuf → Bool) (fuel : Nat) (s : UnfixedRingBuf)
    (h : c s = false) : UnfixedRingBuf.pop_while c fuel s = some (s, []) := by
  cases fuel <;> simp [UnfixedRingBuf.pop_while, h]

theorem pop_while_step (c : UnfixedRingBuf → Bool) (fuel : Nat) (s : UnfixedRingBuf)
    (h : c s = true) :
    UnfixedRingBuf.pop_while c (fuel + 1) s
      = (UnfixedRingBuf.pop_while c fuel s.pop.1).map (fun r => (r.1, s.pop.2 ++ r.2)) := by
  simp [UnfixedRingBuf.pop_while, h]

theorem pop_while_ringB (c : UnfixedRingBuf → Bool) (lower : List (List Nat)) (t e size w : Nat)
    (hexit : ∀ s2, RingStatic s2 → RingA s2 lower → s2.m_start = 0 → s2.m_end = e →
      c s2 = false) :
    ∀ (upper : List (List Nat)) (s : UnfixedRingBuf) (fuel : Nat), RingStatic s →
      s.m_item_num = (upper ++ lower).length → RingB s upper lower t → s.m_end = e →
      s.m_size = size → s.int_bytes = w → upper.length ≤ fuel →
      ∃ k s2, UnfixedRingBuf.pop_while c fuel s = some (s2, upper.take k) ∧ RingStatic s2 ∧
        s2.m_item_num = (upper.drop k ++ lower).length ∧ s2.m_size = size ∧
        s2.int_bytes = w ∧ s2.m_end = e ∧ c s2 = false ∧
        ((k < upper.length ∧ RingB s2 (upper.drop k) lower t ∧ s.m_start ≤ s2.m_start) ∨
          (k = upper.length ∧ RingA s2 lower ∧ s2.m_start = 0)) := by
  intro upper
  induction upper with
  | nil =>
    intro s fuel _ _ hB
    exact absurd rfl hB.upper_ne
  | cons u us ih =>
    intro s fuel hst hnum hB he hsize hw hfuel
    cases hc : c s with
    | false =>
      exact ⟨0, s, pop_while_stop c fuel s hc, hst, hnum, hsize, hw, he, hc,
        Or.inl ⟨by simp, hB, le_refl _⟩⟩
    | true =>
      cases fuel with
      | zero => simp at hfuel
      | succ f =>
        rw [pop_while_step c f s hc]
        cases us with
        | nil =>
          obtain ⟨h1, h2, h3⟩ := pop_ringB_last s u lower t hst hnum hB
          have hst2 := h3.static hst
          have hc2 := hexit s.pop.1 hst2 h2 h3.1 (h3.2.1.trans he)
          rw [pop_while_stop c f _ hc2, h1]
          exact ⟨1, s.pop.1, rfl, hst2, h3.2.2.2.1, h3.2.2.2.2.1.trans hsize,
            h3.2.2.2.2.2.2.trans hw, h3.2.1.trans he, hc2, Or.inr ⟨rfl, h2, h3.1⟩⟩
        | cons u2 us2 =>
          obtain ⟨h1, h2, h3⟩ := pop_ringB_mid s u u2 us2 lower t hst hnum hB
          have hst2 := h3.static hst
          obtain ⟨k, s2, hrun, hst3, hnum3, hsize3, hw3, he3, hc3, hcase⟩ :=
            ih s.pop.1 f hst2 h3.2.2.2.1 h2 (h3.2.1.trans he) (h3.2.2.2.2.1.trans hsize)
              (h3.2.2.2.2.2.2.trans hw) (by simp only [List.length_cons] at hfuel ⊢; omega)
          rw [hrun, h1]
          refine ⟨k + 1, s2, rfl, hst3, hnum3, hsize3, hw3, he3, hc3, ?_⟩
          rcases hcase with ⟨hk, hB3, hle⟩ | ⟨hk, hA3, h0⟩
          · refine Or.inl ⟨by simp only [List.length_cons] at hk ⊢; omega, hB3, ?_⟩
            rw [h3.1] at hle
            omega
          · exact Or.inr ⟨by simp only [List.length_cons] at hk ⊢; omega, hA3, h0⟩

theorem write_item_frame (s : UnfixedRingBuf) (d : List Nat) (tl need : Nat) :
    (s.write_item d tl need).m_size = s.m_size ∧
      (s.write_item d tl need).int_bytes = s.int_bytes :=
  ⟨rfl, rfl⟩

theorem write_item_no_wrap_frame (s : UnfixedRingBuf) (d : List Nat) (tl need : Nat) :
    (s.write_item_no_wrap d tl need).m_size = s.m_size ∧
      (s.write_item_no_wrap d tl need).int_bytes = s.int_bytes :=
  ⟨rfl, rfl⟩

theorem push_place_fit_A (again : UnfixedRingBuf → Option PushResult) (fuel : Nat)
    (s : UnfixedRingBuf) (ds : List (List Nat)) (d : List Nat) (ow : Bool) (hst : RingStatic s)
    (hA : RingA s ds) (hfit : s.m_end + (d.length + 2 * s.int_bytes) ≤ s.m_size) :
    UnfixedRingBuf.push_place again fuel s d d.length (d.length + 2 * s.int_bytes) ow
      = some { buf := s.write_item d d.length (d.length + 2 * s.int_bytes), ok := true,
               popped := [] } := by
  have h64 := hst.size_u64
  unfold UnfixedRingBuf.push_place
  rw [if_pos hA.start_le, mod_id (show s.m_end + (d.length + 2 * s.int_bytes) < UINT64_MOD by
    omega), if_pos hfit]

theorem push_place_fit_B (again : UnfixedRingBuf → Option PushResult) (fuel : Nat)
    (s : UnfixedRingBuf) (d : List Nat) (ow : Bool) (hst : RingStatic s)
    (hlt : s.m_end < s.m_start) (hs : s.m_start ≤ s.m_size)
    (hfit : s.m_end + (d.length + 2 * s.int_bytes) ≤ s.m_start) :
    UnfixedRingBuf.push_place again fuel s d d.length (d.length + 2 * s.int_bytes) ow
      = some { buf := s.write_item_no_wrap d d.length (d.length + 2 * s.int_bytes), ok := true,
               popped := [] } := by
  have h64 := hst.size_u64
  unfold UnfixedRingBuf.push_place
  rw [if_neg (by omega), mod_id (show s.m_end + (d.length + 2 * s.int_bytes) < UINT64_MOD by
    omega), if_pos hfit]

theorem push_impl_not_full (d : List Nat) (tl need : Nat) (ow : Bool) (fuel : Nat)
    (s : UnfixedRingBuf) (h : s.full = false) :
    UnfixedRingBuf.push_impl d tl need ow (fuel + 1) s
      = UnfixedRingBuf.push_place (UnfixedRingBuf.push_impl d tl need ow fuel) fuel s d tl need
          ow := by
  rw [UnfixedRingBuf.push_impl]
  simp [h]

theorem push_impl_full (d : List Nat) (tl need : Nat) (fuel : Nat)
    (s : UnfixedRingBuf) (h : s.full = true) :
    UnfixedRingBuf.push_impl d tl need true (fuel + 1) s
      = (UnfixedRingBuf.push_place (UnfixedRingBuf.push_impl d tl need true fuel) fuel s.pop.1
          d tl need true).map (PushResult.after s.pop.2) := by
  rw [UnfixedRingBuf.push_impl]
  simp [h]

theorem pushSpec_write_A (s : UnfixedRingBuf) (ds : List (List Nat)) (d : List Nat)
    (hst : RingStatic s) (hnum : s.m_item_num = ds.length) (hA : RingA s ds)
    (hfit : s.m_end + (d.length + 2 * s.int_bytes) ≤ s.m_size) :
    PushSpec { buf := s.write_item d d.length (d.length + 2 * s.int_bytes), ok := true,
               popped := [] } s.m_size s.int_bytes ds d :=
  ⟨rfl, rfl, rfl, 0, rfl, write_item_ringA s ds d hst hnum hA hfit⟩

theorem pushSpec_write_B (s : UnfixedRingBuf) (upper lower : List (List Nat)) (t : Nat)
    (d : List Nat) (hst : RingStatic s) (hnum : s.m_item_num = (upper ++ lower).length)
    (hB : RingB s upper lower t)
    (hfit : s.m_end + (d.length + 2 * s.int_bytes) ≤ s.m_start) :
    PushSpec { buf := s.write_item_no_wrap d d.length (d.length + 2 * s.int_bytes), ok := true,
               popped := [] } s.m_size s.int_bytes (upper ++ lower) d :=
  ⟨rfl, rfl, rfl, 0, rfl, write_item_no_wrap_ringB s upper lower t d hst hnum hB hfit⟩

theorem pushSpec_after (r : PushResult) (size w : Nat) (ds : List (List Nat)) (d : List Nat)
    (j : Nat) (log : List (List Nat)) (hlog : log = ds.take j)
    (h : PushSpec r size w (ds.drop j) d) : PushSpec (PushResult.after log r) size w ds d := by
  obtain ⟨h1, h2, h3, k, h4, h5⟩ := h
  refine ⟨h1, h2, h3, j + k, ?_, ?_⟩
  · show log ++ r.popped = _
    rw [hlog, h4, List.take_add]
  · rw [List.drop_drop] at h5
    exact h5

theorem RingB.not_full_iff {s : UnfixedRingBuf} {upper lower : List (List Nat)} {t : Nat}
    (h : RingB s upper lower t) : s.m_used_size < s.m_size ↔ s.m_end < s.m_start := by
  have := h.used
  have := h.end_le
  omega

theorem push_place_ringB_low (s : UnfixedRingBuf) (upper lower : List (List Nat)) (t : Nat)
    (d : List Nat) (fuel : Nat) (hst : RingStatic s)
    (hnum : s.m_item_num = (upper ++ lower).length) (hB : RingB s upper lower t)
    (hnf : s.m_used_size < s.m_size)
    (hneed : s.m_end + (d.length + 2 * s.int_bytes) ≤ s.m_size) (hfuel : upper.length ≤ fuel) :
    ∃ r, UnfixedRingBuf.push_place
        (UnfixedRingBuf.push_impl d d.length (d.length + 2 * s.int_bytes) true fuel) fuel s d
        d.length (d.length + 2 * s.int_bytes) true = some r ∧
      PushSpec r s.m_size s.int_bytes (upper ++ lower) d := by
  have hw := hst.w_pos
  have h64 := hst.size_u64
  obtain ⟨hb1, hb2, hb3, hb4, hb5⟩ := hB.bounds_wrapped hst
  have hlt : s.m_end < s.m_start := hB.not_full_iff.1 hnf
  by_cases hfit : s.m_end + (d.length + 2 * s.int_bytes) ≤ s.m_start
  · exact ⟨_, push_place_fit_B _ fuel s d true hst hlt (by omega) hfit,
      pushSpec_write_B s upper lower t d hst hnum hB hfit⟩
  · have hexit : ∀ s2, RingStatic s2 → RingA s2 lower → s2.m_start = 0 → s2.m_end = s.m_end →
        UnfixedRingBuf.overlaps (d.length + 2 * s.int_bytes) s2 = false := by
      intro s2 _ _ h0 _
      unfold UnfixedRingBuf.overlaps
      rw [h0]
      simp
    obtain ⟨k, s2, hrun, hst2, hnum2, hsize2, hw2, he2, hc2, hcase⟩ :=
      pop_while_ringB _ lower t s.m_end s.m_size s.int_bytes hexit upper s fuel hst hnum hB rfl
        rfl rfl hfuel
    have hfpos : 0 < fuel := by
      cases upper with
      | nil => exact absurd rfl hB.upper_ne
      | cons u us => simp only [List.length_cons] at hfuel; omega
    obtain ⟨f, rfl⟩ := Nat.exists_eq_succ_of_ne_zero (Nat.pos_iff_ne_zero.1 hfpos)
    have hplace : UnfixedRingBuf.push_place
        (UnfixedRingBuf.push_impl d d.length (d.length + 2 * s.int_bytes) true (f + 1)) (f + 1)
        s d d.length (d.length + 2 * s.int_bytes) true
        = (UnfixedRingBuf.push_impl d d.length (d.length + 2 * s.int_bytes) true (f + 1) s2).map
            (PushResult.after (upper.take k)) := by
      unfold UnfixedRingBuf.push_place
      rw [if_neg (by omega), mod_id (show s.m_end + (d.length + 2 * s.int_bytes) < UINT64_MOD by
        omega), if_neg hfit, if_neg (by simp), if_pos hneed, hrun]
    rw [hplace]
    rcases hcase with ⟨hk, hB2, hle⟩ | ⟨hk, hA2, h0⟩
    · have hfit2 : s2.m_end + (d.length + 2 * s2.int_bytes) ≤ s2.m_start := by
        unfold UnfixedRingBuf.overlaps at hc2
        rw [he2, mod_id (show s.m_end + (d.length + 2 * s.int_bytes) < UINT64_MOD by
          omega)] at hc2
        rw [he2, hw2]
        simp only [Bool.and_eq_false_imp, decide_eq_true_eq, decide_eq_false_iff_not,
          not_lt] at hc2
        exact hc2 (by omega)
      obtain ⟨_, hb2', _, _, _⟩ := hB2.bounds_wrapped hst2
      have hnf2 : s2.full = false := by
        rw [full_false_iff]
        have := hB2.used
        omega
      rw [push_impl_not_full _ _ _ _ f s2 hnf2]
      have hpf := push_place_fit_B
        (UnfixedRingBuf.push_impl d d.length (d.length + 2 * s.int_bytes) true f) f s2 d true
        hst2 (by omega) (by omega) hfit2
      rw [hw2] at hpf
      rw [hpf]
      refine ⟨_, rfl, pushSpec_after _ _ _ _ _ k _ ?_ ?_⟩
      · rw [List.take_append_of_le_length (by omega)]
      · rw [List.drop_append_of_le_length (by omega)]
        have := pushSpec_write_B s2 (upper.drop k) lower t d hst2 hnum2 hB2 hfit2
        rw [hsize2, hw2] at this
        exact this
    · have hfit2 : s2.m_end + (d.length + 2 * s2.int_bytes) ≤ s2.m_size := by
        rw [he2, hw2, hsize2]; exact hneed
      obtain ⟨_, _, hb3'⟩ := hA2.bounds_flat hst2
      have hnf2 : s2.full = false := by
        rw [full_false_iff]
        omega
      rw [push_impl_not_full _ _ _ _ f s2 hnf2]
      have hpf := push_place_fit_A
        (UnfixedRingBuf.push_impl d d.length (d.length + 2 * s.int_bytes) true f) f s2 lower d
        true hst2 hA2 hfit2
      rw [hw2] at hpf
      rw [hpf]
      have hnum3 : s2.m_item_num = lower.length := by
        rw [hnum2, hk]; simp
      refine ⟨_, rfl, pushSpec_after _ _ _ _ _ k _ ?_ ?_⟩
      · rw [hk, List.take_left', List.take_length]
        rfl
      · rw [hk, List.drop_left']
        · have := pushSpec_write_A s2 lower d hst2 hnum3 hA2 hfit2
          rw [hsize2, hw2] at this
          exact this
        · rfl

theorem push_place_ringA (s : UnfixedRingBuf) (ds : List (List Nat)) (d : List Nat) (fuel : Nat)
    (hst : RingStatic s) (hnum : s.m_item_num = ds.length) (hA : RingA s ds)
    (hneed : d.length + 2 * s.int_bytes ≤ s.m_size) (hfuel : ds.length ≤ fuel) :
    ∃ r, UnfixedRingBuf.push_place
        (UnfixedRingBuf.push_impl d d.length (d.length + 2 * s.int_bytes) true fuel) fuel s d
        d.length (d.length + 2 * s.int_bytes) true = some r ∧
      PushSpec r s.m_size s.int_bytes ds d := by
  have hw := hst.w_pos
  have h64 := hst.size_u64
  obtain ⟨hb1, hb2, hb3⟩ := hA.bounds_flat hst
  by_cases hfit : s.m_end + (d.length + 2 * s.int_bytes) ≤ s.m_size
  · exact ⟨_, push_place_fit_A _ fuel s ds d true hst hA hfit,
      pushSpec_write_A s ds d hst hnum hA hfit⟩
  · have hne : ds ≠ [] := by
      intro e
      have h0 := hA.reset e
      have hc := hA.contig
      rw [e] at hc
      have : s.m_start = s.m_end := hc
      omega
    obtain ⟨hB1, hst1, hnum1, hstart1, hend1, hsize1, hw1, hused1⟩ :=
      push_padding_ringA s ds hst hnum hA hne
    have hexit : ∀ s2, RingStatic s2 → RingA s2 [] → s2.m_start = 0 → s2.m_end = 0 →
        UnfixedRingBuf.start_below (d.length + 2 * s.int_bytes) s2 = false := by
      intro s2 hs2 hA2 h0 he0
      have hu := hA2.used
      have hemp : s2.isEmpty = true := (isEmpty_iff s2 hs2.size_pos).2 (by omega)
      unfold UnfixedRingBuf.start_below
      rw [hemp]
      rfl
    obtain ⟨k, s2, hrun, hst2, hnum2, hsize2, hw2, he2, hc2, hcase⟩ :=
      pop_while_ringB _ [] s.m_end 0 s.m_size s.int_bytes hexit ds s.push_padding fuel hst1
        (by rw [hnum1]; simp) hB1 hend1 hsize1 hw1 hfuel
    have hfpos : 0 < fuel := by
      cases ds with
      | nil => exact absurd rfl hne
      | cons u us => simp only [List.length_cons] at hfuel; omega
    obtain ⟨f, rfl⟩ := Nat.exists_eq_succ_of_ne_zero (Nat.pos_iff_ne_zero.1 hfpos)
    have hplace : UnfixedRingBuf.push_place
        (UnfixedRingBuf.push_impl d d.length (d.length + 2 * s.int_bytes) true (f + 1)) (f + 1)
        s d d.length (d.length + 2 * s.int_bytes) true
        = (UnfixedRingBuf.push_impl d d.length (d.length + 2 * s.int_bytes) true (f + 1) s2).map
            (PushResult.after (ds.take k)) := by
      unfold UnfixedRingBuf.push_place
      rw [if_pos hA.start_le, mod_id (show s.m_end + (d.length + 2 * s.int_bytes) < UINT64_MOD by
        omega), if_neg hfit, if_neg (by simp), if_pos rfl, hrun]
    rw [hplace]
    simp only [List.append_nil] at hnum2
    rcases hcase with ⟨hk, hB2, hle⟩ | ⟨hk, hA2, h0⟩
    · obtain ⟨_, hbt, _, _, hb5'⟩ := hB2.bounds_wrapped hst2
      have hu2 := hB2.used
      have hne2 : s2.isEmpty = false := by
        rw [isEmpty_false_iff s2 hst2.size_pos]
        have := hst2.w_pos
        omega
      have hfit2 : s2.m_end + (d.length + 2 * s2.int_bytes) ≤ s2.m_start := by
        unfold UnfixedRingBuf.start_below at hc2
        rw [hne2] at hc2
        simp only [Bool.not_false, Bool.true_and, decide_eq_false_iff_not, not_lt] at hc2
        rw [he2, hw2]
        omega
      have hnf2 : s2.full = false := by
        rw [full_false_iff]
        rw [he2, hw2] at hfit2
        omega
      rw [push_impl_not_full _ _ _ _ f s2 hnf2]
      have hpf := push_place_fit_B
        (UnfixedRingBuf.push_impl d d.length (d.length + 2 * s.int_bytes) true f) f s2 d true
        hst2 (by rw [he2, hw2] at hfit2; omega) (by omega) hfit2
      rw [hw2] at hpf
      rw [hpf]
      refine ⟨_, rfl, pushSpec_after _ _ _ _ _ k _ rfl ?_⟩
      have := pushSpec_write_B s2 (ds.drop k) [] s.m_end d hst2 (by rw [hnum2]; simp) hB2 hfit2
      rw [hsize2, hw2, List.append_nil] at this
      exact this
    · have hfit2 : s2.m_end + (d.length + 2 * s2.int_bytes) ≤ s2.m_size := by
        rw [he2, hw2, hsize2]; omega
      have hnf2 : s2.full = false := by
        rw [full_false_iff]
        have := hA2.used
        have := hst2.size_pos
        omega
      rw [push_impl_not_full _ _ _ _ f s2 hnf2]
      have hpf := push_place_fit_A
        (UnfixedRingBuf.push_impl d d.length (d.length + 2 * s.int_bytes) true f) f s2 [] d
        true hst2 hA2 hfit2
      rw [hw2] at hpf
      rw [hpf]
      have hnum3 : s2.m_item_num = ([] : List (List Nat)).length := by
        rw [hnum2, hk]; simp
      refine ⟨_, rfl, pushSpec_after _ _ _ _ _ k _ rfl ?_⟩
      rw [hk, List.drop_length]
      have := pushSpec_write_A s2 [] d hst2 hnum3 hA2 hfit2
      rw [hsize2, hw2] at this
      exact this

theorem pop_all_upper (lower : List (List Nat)) (t : Nat) :
    ∀ (upper : List (List Nat)) (s : UnfixedRingBuf) (fuel : Nat), RingStatic s →
      s.m_item_num = (upper ++ lower).length → RingB s upper lower t →
      s.m_end < s.m_start → upper.length ≤ fuel + 1 →
      ∃ s2 log, UnfixedRingBuf.pop_while UnfixedRingBuf.wrapped fuel s.pop.1 = some (s2, log) ∧
        s.pop.2 ++ log = upper ∧ RingStatic s2 ∧ RingA s2 lower ∧
        s2.m_item_num = lower.length ∧ s2.m_start = 0 ∧ s2.m_end = s.m_end ∧
        s2.m_size = s.m_size ∧ s2.int_bytes = s.int_bytes := by
  intro upper s fuel hst hnum hB hlt hfuel
  have hexit : ∀ s2, RingStatic s2 → RingA s2 lower → s2.m_start = 0 → s2.m_end = s.m_end →
      UnfixedRingBuf.wrapped s2 = false := by
    intro s2 _ _ h0 _
    unfold UnfixedRingBuf.wrapped
    rw [h0]
    simp
  cases upper with
  | nil => exact absurd rfl hB.upper_ne
  | cons u us =>
    cases us with
    | nil =>
      obtain ⟨h1, h2, h3⟩ := pop_ringB_last s u lower t hst hnum hB
      have hst2 := h3.static hst
      refine ⟨s.pop.1, [], pop_while_stop _ fuel _ (hexit _ hst2 h2 h3.1 h3.2.1), ?_, hst2, h2,
        h3.2.2.2.1, h3.1, h3.2.1, h3.2.2.2.2.1, h3.2.2.2.2.2.2⟩
      rw [h1]
      rfl
    | cons u2 us2 =>
      obtain ⟨h1, h2, h3⟩ := pop_ringB_mid s u u2 us2 lower t hst hnum hB
      have hst2 := h3.static hst
      obtain ⟨k, s2, hrun, hst3, hnum3, hsize3, hw3, he3, hc3, hcase⟩ :=
        pop_while_ringB _ lower t s.m_end s.m_size s.int_bytes hexit (u2 :: us2) s.pop.1 fuel
          hst2 h3.2.2.2.1 h2 h3.2.1 h3.2.2.2.2.1 h3.2.2.2.2.2.2
          (by simp only [List.length_cons] at hfuel ⊢; omega)
      rcases hcase with ⟨hk, hB3, hle⟩ | ⟨hk, hA3, h0⟩
      · exfalso
        unfold UnfixedRingBuf.wrapped at hc3
        rw [he3] at hc3
        rw [h3.1] at hle
        simp only [decide_eq_false_iff_not, not_lt] at hc3
        omega
      · refine ⟨s2, (u2 :: us2).take k, hrun, ?_, hst3, hA3, ?_, h0, he3, hsize3, hw3⟩
        · rw [h1, hk, List.take_length]
          rfl
        · rw [hnum3, hk, List.drop_length]
          rfl

theorem push_place_ringB_high (s : UnfixedRingBuf) (upper lower : List (List Nat)) (t : Nat)
    (d : List Nat) (fuel : Nat) (hst : RingStatic s)
    (hnum : s.m_item_num = (upper ++ lower).length) (hB : RingB s upper lower t)
    (hnf : s.m_used_size < s.m_size)
    (hhigh : s.m_size < s.m_end + (d.length + 2 * s.int_bytes))
    (hneed : d.length + 2 * s.int_bytes ≤ s.m_size)
    (hfuel : (upper ++ lower).length ≤ fuel) :
    ∃ r, UnfixedRingBuf.push_place
        (UnfixedRingBuf.push_impl d d.length (d.length + 2 * s.int_bytes) true fuel) fuel s d
        d.length (d.length + 2 * s.int_bytes) true = some r ∧
      PushSpec r s.m_size s.int_bytes (upper ++ lower) d := by
  have hw := hst.w_pos
  have h64 := hst.size_u64
  obtain ⟨hb1, hb2, hb3, hb4, hb5⟩ := hB.bounds_wrapped hst
  have hlt : s.m_end < s.m_start := hB.not_full_iff.1 hnf
  simp only [List.length_append] at hfuel
  obtain ⟨s2, log, hrun, hlog, hst2, hA2, hnum2, hstart2, hend2, hsize2, hw2⟩ :=
    pop_all_upper lower t upper s fuel hst hnum hB hlt (by omega)
  have hlne : lower ≠ [] := by
    intro e
    have hl := hB.low
    rw [e] at hl
    have : 0 = s.m_end := hl
    omega
  obtain ⟨hB3, hst3, hnum3, hstart3, hend3, hsize3, hw3, hused3⟩ :=
    push_padding_ringA s2 lower hst2 hnum2 hA2 hlne
  have hplace : UnfixedRingBuf.push_place
      (UnfixedRingBuf.push_impl d d.length (d.length + 2 * s.int_bytes) true fuel) fuel
      s d d.length (d.length + 2 * s.int_bytes) true
      = (UnfixedRingBuf.push_impl d d.length (d.length + 2 * s.int_bytes) true fuel
          s2.push_padding).map (PushResult.after upper) := by
    unfold UnfixedRingBuf.push_place
    rw [if_neg (by omega), mod_id (show s.m_end + (d.length + 2 * s.int_bytes) < UINT64_MOD by
      omega), if_neg (by omega), if_neg (by simp), if_neg (by omega), hrun]
    simp only [hlog]
  rw [hplace]
  have hfull3 : s2.push_padding.full = true := by
    rw [full_iff, hsize3]
    rw [hstart2] at hused3
    omega
  have hfpos : 0 < fuel := by
    cases lower with
    | nil => exact absurd rfl hlne
    | cons l ls => simp only [List.length_cons] at hfuel; omega
  obtain ⟨f, rfl⟩ := Nat.exists_eq_succ_of_ne_zero (Nat.pos_iff_ne_zero.1 hfpos)
  rw [push_impl_full _ _ _ f _ hfull3]
  have hnum3' : s2.push_padding.m_item_num = (lower ++ []).length := by
    rw [hnum3]; simp
  have hinner : ∃ r, UnfixedRingBuf.push_place
      (UnfixedRingBuf.push_impl d d.length (d.length + 2 * s.int_bytes) true f) f
      s2.push_padding.pop.1 d d.length (d.length + 2 * s.int_bytes) true = some r ∧
      PushSpec (PushResult.after s2.push_padding.pop.2 r) s.m_size s.int_bytes lower d := by
    cases lower with
    | nil => exact absurd rfl hlne
    | cons l ls =>
      cases ls with
      | nil =>
        obtain ⟨h1, h2, h3⟩ := pop_ringB_last s2.push_padding l [] s2.m_end hst3 hnum3 hB3
        have hst4 := h3.static hst3
        have hsz4 : s2.push_padding.pop.1.m_size = s.m_size :=
          h3.2.2.2.2.1.trans (hsize3.trans hsize2)
        have hw4 : s2.push_padding.pop.1.int_bytes = s.int_bytes :=
          h3.2.2.2.2.2.2.trans (hw3.trans hw2)
        obtain ⟨r, hr, hspec⟩ := push_place_ringA s2.push_padding.pop.1 [] d f hst4 h3.2.2.2.1
          h2 (by rw [hw4, hsz4]; exact hneed) (Nat.zero_le _)
        rw [hw4] at hr
        rw [hw4, hsz4] at hspec
        exact ⟨r, hr, pushSpec_after _ _ _ _ _ 1 _ (by rw [h1]; rfl) hspec⟩
      | cons l2 ls2 =>
        obtain ⟨h1, h2, h3⟩ :=
          pop_ringB_mid s2.push_padding l l2 ls2 [] s2.m_end hst3 hnum3' hB3
        have hst4 := h3.static hst3
        have hsz4 : s2.push_padding.pop.1.m_size = s.m_size :=
          h3.2.2.2.2.1.trans (hsize3.trans hsize2)
        have hw4 : s2.push_padding.pop.1.int_bytes = s.int_bytes :=
          h3.2.2.2.2.2.2.trans (hw3.trans hw2)
        have he4 : s2.push_padding.pop.1.m_end = 0 := h3.2.1.trans hend3
        obtain ⟨r, hr, hspec⟩ := push_place_ringB_low s2.push_padding.pop.1 (l2 :: ls2) [] s2.m_end
          d f hst4 h3.2.2.2.1 h2
          (by rw [h3.2.2.1, hsz4]
              have := hst3.size_pos
              rw [hsize3, hsize2] at this
              have := hst.w_pos
              rw [hw3, hw2]
              omega)
          (by rw [he4, hw4, hsz4]; omega)
          (by simp only [List.length_cons] at hfuel ⊢; omega)
        rw [hw4] at hr
        rw [hw4, hsz4, List.append_nil] at hspec
        exact ⟨r, hr, pushSpec_after _ _ _ _ _ 1 _ (by rw [h1]; rfl) hspec⟩
  obtain ⟨r, hr, hspec⟩ := hinner
  rw [hr]
  refine ⟨_, rfl, pushSpec_after _ _ _ _ _ upper.length _ ?_ ?_⟩
  · rw [List.take_left']
    rfl
  · rw [List.drop_left']
    · exact hspec
    · rfl

theorem RingA.not_full {s : UnfixedRingBuf} {ds : List (List Nat)} (h : RingA s ds)
    (hst : RingStatic s) : s.m_used_size < s.m_size := by
  obtain ⟨h1, h2, h3⟩ := h.bounds_flat hst
  by_cases hd : ds = []
  · have h0 := h.reset hd
    have hc := h.contig
    rw [hd] at hc
    have : s.m_start = s.m_end := hc
    have := h.used
    have := hst.size_pos
    omega
  · have := h.room hd
    have := hst.w_pos
    omega

theorem push_place_ow (s : UnfixedRingBuf) (ds : List (List Nat)) (d : List Nat) (fuel : Nat)
    (hinv : RingInv s ds) (hnf : s.m_used_size < s.m_size)
    (hneed : d.length + 2 * s.int_bytes ≤ s.m_size) (hfuel : ds.length ≤ fuel) :
    ∃ r, UnfixedRingBuf.push_place
        (UnfixedRingBuf.push_impl d d.length (d.length + 2 * s.int_bytes) true fuel) fuel s d
        d.length (d.length + 2 * s.int_bytes) true = some r ∧
      PushSpec r s.m_size s.int_bytes ds d := by
  obtain ⟨hst, hnum, hA | ⟨upper, lower, t, hds, hB⟩⟩ := hinv
  · exact push_place_ringA s ds d fuel hst hnum hA hneed hfuel
  · subst hds
    by_cases hlow : s.m_end + (d.length + 2 * s.int_bytes) ≤ s.m_size
    · exact push_place_ringB_low s upper lower t d fuel hst hnum hB hnf hlow
        (by simp only [List.length_append] at hfuel; omega)
    · exact push_place_ringB_high s upper lower t d fuel hst hnum hB hnf (by omega) hneed hfuel

theorem push_impl_ow (s : UnfixedRingBuf) (ds : List (List Nat)) (d : List Nat) (fuel : Nat)
    (hinv : RingInv s ds) (hneed : d.length + 2 * s.int_bytes ≤ s.m_size)
    (hfuel : ds.length + 1 ≤ fuel) :
    ∃ r, UnfixedRingBuf.push_impl d d.length (d.length + 2 * s.int_bytes) true fuel s = some r ∧
      PushSpec r s.m_size s.int_bytes ds d := by
  obtain ⟨f, rfl⟩ := Nat.exists_eq_succ_of_ne_zero (show fuel ≠ 0 by omega)
  cases hfull : s.full with
  | false =>
    rw [push_impl_not_full _ _ _ _ f s hfull]
    exact push_place_ow s ds d f hinv ((full_false_iff s).1 hfull) hneed (by omega)
  | true =>
    have hu := (full_iff s).1 hfull
    have hpos := hinv.1.size_pos
    cases ds with
    | nil =>
      have := hinv.used_zero_iff.2 rfl
      omega
    | cons d0 rest =>
      obtain ⟨h1, h2, h3, h4, h5⟩ := hinv.pop_cons
      have hle := hinv.used_le
      rw [push_impl_full _ _ _ f s hfull]
      obtain ⟨r, hr, hspec⟩ := push_place_ow s.pop.1 rest d f h2 (by omega)
        (by rw [h5, h4]; exact hneed) (by simp only [List.length_cons] at hfuel; omega)
      rw [h5] at hr
      rw [h5, h4] at hspec
      rw [hr]
      exact ⟨_, rfl, pushSpec_after _ _ _ _ _ 1 _ (by rw [h1]; rfl) hspec⟩

theorem push_impl_plain (s : UnfixedRingBuf) (ds : List (List Nat)) (d : List Nat) (fuel : Nat)
    (hinv : RingInv s ds) (hneed : d.length + 2 * s.int_bytes ≤ s.m_size) (hfuel : 2 ≤ fuel) :
    ∃ r, UnfixedRingBuf.push_impl d d.length (d.length + 2 * s.int_bytes) false fuel s = some r ∧
      r.popped = [] ∧ r.buf.m_size = s.m_size ∧ r.buf.int_bytes = s.int_bytes ∧
      ((r.ok = true ∧ RingInv r.buf (ds ++ [d])) ∨ (r.ok = false ∧ r.buf = s)) := by
  obtain ⟨f, rfl⟩ : ∃ f, fuel = f + 2 := ⟨fuel - 2, by omega⟩
  have h64 := hinv.1.size_u64
  have hw := hinv.1.w_pos
  cases hfull : s.full with
  | true =>
    refine ⟨{ buf := s, ok := false, popped := [] }, ?_, rfl, rfl, rfl, Or.inr ⟨rfl, rfl⟩⟩
    rw [UnfixedRingBuf.push_impl]
    simp [hfull]
  | false =>
    have hnf := (full_false_iff s).1 hfull
    rw [push_impl_not_full _ _ _ _ (f + 1) s hfull]
    obtain ⟨hst, hnum, hA | ⟨upper, lower, t, hds, hB⟩⟩ := hinv
    · obtain ⟨hb1, hb2, hb3⟩ := hA.bounds_flat hst
      by_cases hfit : s.m_end + (d.length + 2 * s.int_bytes) ≤ s.m_size
      · exact ⟨_, push_place_fit_A _ (f + 1) s ds d false hst hA hfit, rfl, rfl, rfl,
          Or.inl ⟨rfl, write_item_ringA s ds d hst hnum hA hfit⟩⟩
      · by_cases hsn : s.m_start < d.length + 2 * s.int_bytes
        · refine ⟨{ buf := s, ok := false, popped := [] }, ?_, rfl, rfl, rfl, Or.inr ⟨rfl, rfl⟩⟩
          unfold UnfixedRingBuf.push_place
          rw [if_pos hA.start_le, mod_id (show s.m_end + (d.length + 2 * s.int_bytes)
            < UINT64_MOD by omega), if_neg hfit, if_pos ⟨rfl, hsn⟩]
        · have hne : ds ≠ [] := by
            intro e
            have h0 := hA.reset e
            have hc := hA.contig
            rw [e] at hc
            have : s.m_start = s.m_end := hc
            omega
          obtain ⟨hB1, hst1, hnum1, hstart1, hend1, hsize1, hw1, hused1⟩ :=
            push_padding_ringA s ds hst hnum hA hne
          have hplace : UnfixedRingBuf.push_place
              (UnfixedRingBuf.push_impl d d.length (d.length + 2 * s.int_bytes) false (f + 1))
              (f + 1) s d d.length (d.length + 2 * s.int_bytes) false
              = UnfixedRingBuf.push_impl d d.length (d.length + 2 * s.int_bytes) false (f + 1)
                  s.push_padding := by
            unfold UnfixedRingBuf.push_place
            rw [if_pos hA.start_le, mod_id (show s.m_end + (d.length + 2 * s.int_bytes)
              < UINT64_MOD by omega), if_neg hfit, if_neg (by simp; omega), if_neg (by simp)]
          have hnf1 : s.push_padding.full = false := by
            rw [full_false_iff, hsize1]
            omega
          have hfit1 : s.push_padding.m_end + (d.length + 2 * s.push_padding.int_bytes)
              ≤ s.push_padding.m_start := by
            rw [hend1, hw1, hstart1]
            omega
          have hpf := push_place_fit_B
            (UnfixedRingBuf.push_impl d d.length (d.length + 2 * s.int_bytes) false f) f
            s.push_padding d false hst1 (by rw [hend1, hstart1]; omega)
            (by rw [hstart1, hsize1]; omega) hfit1
          rw [hw1] at hpf
          rw [hplace, push_impl_not_full _ _ _ _ f _ hnf1, hpf]
          have hfin := write_item_no_wrap_ringB s.push_padding ds [] s.m_end d hst1
            (by rw [hnum1]; simp) hB1 hfit1
          rw [hw1, List.append_nil] at hfin
          exact ⟨_, rfl, rfl, hsize1, hw1, Or.inl ⟨rfl, hfin⟩⟩
    · subst hds
      obtain ⟨hb1, hb2, hb3, hb4, hb5⟩ := hB.bounds_wrapped hst
      have hlt : s.m_end < s.m_start := hB.not_full_iff.1 hnf
      by_cases hfit : s.m_end + (d.length + 2 * s.int_bytes) ≤ s.m_start
      · exact ⟨_, push_place_fit_B _ (f + 1) s d false hst hlt (by omega) hfit, rfl, rfl, rfl,
          Or.inl ⟨rfl, write_item_no_wrap_ringB s upper lower t d hst hnum hB hfit⟩⟩
      · refine ⟨{ buf := s, ok := false, popped := [] }, ?_, rfl, rfl, rfl, Or.inr ⟨rfl, rfl⟩⟩
        unfold UnfixedRingBuf.push_place
        rw [if_neg (by omega), mod_id (show s.m_end + (d.length + 2 * s.int_bytes)
          < UINT64_MOD by omega), if_neg hfit, if_pos rfl]

theorem push_eq (s : UnfixedRingBuf) (fuel : Nat) (d : List Nat) (ow : Bool)
    (hb : d.length + 2 * s.int_bytes < UINT64_MOD) :
    s.push fuel d ow
      = if d.length + 2 * s.int_bytes > s.m_size then
          some { buf := s, ok := false, popped := [] }
        else UnfixedRingBuf.push_impl d d.length (d.length + 2 * s.int_bytes) ow fuel s := by
  unfold UnfixedRingBuf.push UnfixedRingBuf.SIZEOF_ITEM_HEADER
  rw [mod_id (show d.length < UINT64_MOD by omega), mod_id hb]

theorem RingInv.count_le {s : UnfixedRingBuf} {ds : List (List Nat)} (h : RingInv s ds) :
    ds.length ≤ s.m_size := by
  obtain ⟨hst, hnum, hA | ⟨upper, lower, t, hds, hB⟩⟩ := h
  · obtain ⟨hb1, hb2, hb3⟩ := hA.bounds_flat hst
    omega
  · obtain ⟨hb1, hb2, hb3, hb4, hb5⟩ := hB.bounds_wrapped hst
    have := hB.end_le
    rw [hds, List.length_append]
    omega

theorem RingInv.head_rec {s : UnfixedRingBuf} {d : List Nat} {rest : List (List Nat)}
    (h : RingInv s (d :: rest)) :
    IsRec s.int_bytes s.m_buf s.m_start d ∧ s.m_start + 2 * s.int_bytes ≤ s.m_size := by
  obtain ⟨hst, hnum, hA | ⟨upper, lower, t, hds, hB⟩⟩ := h
  · obtain ⟨hb1, hb2, hb3⟩ := hA.bounds_flat hst
    have := contig_cons_le _ _ _ _ _ _ hA.contig
    exact ⟨hA.contig.1, by omega⟩
  · obtain ⟨hb1, hb2, hb3, hb4, hb5⟩ := hB.bounds_wrapped hst
    cases upper with
    | nil => exact absurd rfl hB.upper_ne
    | cons u us =>
      simp only [List.cons_append, List.cons.injEq] at hds
      rw [hds.1]
      exact ⟨hB.up.1, by omega⟩

theorem RingInv.front_nil {s : UnfixedRingBuf} (h : RingInv s []) : s.front 0 = none := by
  have hu := h.used_zero_iff.2 rfl
  have hemp := (isEmpty_iff s h.1.size_pos).2 hu
  unfold UnfixedRingBuf.front UnfixedRingBuf.find_start
  simp [hemp]

theorem RingInv.front_cons {s : UnfixedRingBuf} {d : List Nat} {rest : List (List Nat)}
    (h : RingInv s (d :: rest)) : s.front 0 = some d := by
  obtain ⟨hrec, hle⟩ := h.head_rec
  have hu : s.m_used_size ≠ 0 := fun e => by
    have := h.used_zero_iff.1 e
    exact absurd this (List.cons_ne_nil _ _)
  have hne := (isEmpty_false_iff s h.1.size_pos).2 hu
  have hnum : s.m_item_num = rest.length + 1 := h.2.1
  have hw := h.1.w_pos
  have hfs : s.find_start 0 = s.m_start := by
    unfold UnfixedRingBuf.find_start
    rw [if_neg (by rw [hne, hnum]; simp), if_pos rfl]
  have hlen : s.len_at s.m_start = d.length := hrec.2.1
  unfold UnfixedRingBuf.front
  rw [hfs, if_neg (by omega), hlen]
  unfold UnfixedRingBuf.SIZEOF_ITEM_HEADER
  rw [hrec.2.2]

theorem RingInv.drainN_eq :
    ∀ (ds : List (List Nat)) (s : UnfixedRingBuf), RingInv s ds → drainN ds.length s = ds := by
  intro ds
  induction ds with
  | nil => intro s _; rfl
  | cons d rest ih =>
    intro s h
    obtain ⟨h1, h2, _⟩ := h.pop_cons
    show s.pop.2 ++ drainN rest.length s.pop.1 = _
    rw [h1, ih _ h2]
    rfl

theorem RingInv.drain_eq {s : UnfixedRingBuf} {ds : List (List Nat)} (h : RingInv s ds) :
    s.drain = ds := by
  unfold UnfixedRingBuf.drain
  rw [h.2.1]
  exact RingInv.drainN_eq ds s h

theorem ring_clear_inv (s : UnfixedRingBuf) (hst : RingStatic s) :
    RingInv s.clear [] ∧ s.clear.m_size = s.m_size ∧ s.clear.int_bytes = s.int_bytes := by
  have h0 : 0 % s.INT_MOD = 0 := Nat.zero_mod _
  have hf : RingFields s.clear s 0 0 0 0 := ⟨h0, h0, h0, h0, rfl, rfl, rfl⟩
  exact ⟨⟨hf.static hst, hf.2.2.2.1,
    Or.inl (RingA.of_fields_flat [] hf (le_refl _) rfl (fun h => absurd rfl h) rfl (fun _ => rfl))⟩,
    rfl, rfl⟩

theorem runRing_inv (fuel : Nat) :
    ∀ (ops : List ROp) (s : UnfixedRingBuf) (ds : List (List Nat)), RingInv s ds →
      (∀ op ∈ ops, op.dataLen + 2 * s.int_bytes < UINT64_MOD) → s.m_size + 1 ≤ fuel →
      ∃ s2 tr ds2, runRing fuel ops s = some (s2, tr) ∧ RingInv s2 ds2 ∧
        s2.m_size = s.m_size ∧ s2.int_bytes = s.int_bytes ∧
        handedOutBy tr ++ ds2 = ds ++ acceptedBy tr ∧ frontsMatch tr = true ∧
        ((∀ op ∈ ops, op.plain = true) → handedOutBy tr = deliveredBy tr) := by
  intro ops
  induction ops with
  | nil =>
    intro s ds hinv _ _
    exact ⟨s, [], ds, rfl, hinv, rfl, rfl, by simp [handedOutBy, acceptedBy], rfl, fun _ => rfl⟩
  | cons op ops ih =>
    intro s ds hinv hlen hfuel
    have hlen2 : ∀ op ∈ ops, op.dataLen + 2 * s.int_bytes < UINT64_MOD :=
      fun o ho => hlen o (List.mem_cons_of_mem _ ho)
    have hpl2 : (∀ o ∈ op :: ops, o.plain = true) → ∀ o ∈ ops, o.plain = true :=
      fun h o ho => h o (List.mem_cons_of_mem _ ho)
    cases op with
    | pop =>
      cases ds with
      | nil =>
        have hp := hinv.pop_nil
        have hfr := hinv.front_nil
        obtain ⟨s2, tr, ds2, hrun, hinv2, hsz, hw, hout, hfm, hpl⟩ := ih s [] hinv hlen2 hfuel
        refine ⟨s2, (ROp.pop, RRes.popped none []) :: tr, ds2, ?_, hinv2, hsz, hw, ?_, ?_, ?_⟩
        · simp only [runRing, hp, hfr, hrun, Option.map_some']
        · simpa [handedOutBy, acceptedBy] using hout
        · simpa [frontsMatch] using hfm
        · intro h
          simp only [handedOutBy, deliveredBy, List.nil_append]
          exact hpl (hpl2 h)
      | cons d rest =>
        obtain ⟨h1, h2, _, h4, h5⟩ := hinv.pop_cons
        have hfr := hinv.front_cons
        obtain ⟨s2, tr, ds2, hrun, hinv2, hsz, hw, hout, hfm, hpl⟩ :=
          ih s.pop.1 rest h2 (by rw [h5]; exact hlen2) (by rw [h4]; exact hfuel)
        refine ⟨s2, (ROp.pop, RRes.popped (some d) [d]) :: tr, ds2, ?_, hinv2, hsz.trans h4,
          hw.trans h5, ?_, ?_, ?_⟩
        · simp only [runRing, h1, hfr, hrun, Option.map_some']
        · simp only [handedOutBy, acceptedBy, List.singleton_append, List.cons_append,
            List.cons.injEq, true_and]
          exact hout
        · simpa [frontsMatch] using hfm
        · intro h
          simp only [handedOutBy, deliveredBy]
          rw [hpl (hpl2 h)]
    | push data ow =>
      have hd : data.length + 2 * s.int_bytes < UINT64_MOD :=
        hlen (ROp.push data ow) (List.mem_cons_self _ _)
      have hpe := push_eq s fuel data ow hd
      by_cases hlong : data.length + 2 * s.int_bytes > s.m_size
      · rw [if_pos hlong] at hpe
        obtain ⟨s2, tr, ds2, hrun, hinv2, hsz, hw, hout, hfm, hpl⟩ := ih s ds hinv hlen2 hfuel
        refine ⟨s2, (ROp.push data ow, RRes.pushed false []) :: tr, ds2, ?_, hinv2, hsz, hw,
          ?_, ?_, ?_⟩
        · simp only [runRing, hpe, hrun, Option.map_some']
        · simpa [handedOutBy, acceptedBy] using hout
        · simpa [frontsMatch] using hfm
        · intro h
          simp only [handedOutBy, deliveredBy, List.nil_append]
          exact hpl (hpl2 h)
      · rw [if_neg hlong] at hpe
        have hpos := hinv.1.size_pos
        cases ow with
        | true =>
          obtain ⟨r, hr, hok, hrsz, hrw, k, hpop, hinv1⟩ := push_impl_ow s ds data fuel hinv
            (by omega) (by have := hinv.count_le; omega)
          rw [hr] at hpe
          obtain ⟨s2, tr, ds2, hrun, hinv2, hsz, hw, hout, hfm, hpl⟩ :=
            ih r.buf _ hinv1 (by rw [hrw]; exact hlen2) (by rw [hrsz]; exact hfuel)
          refine ⟨s2, (ROp.push data true, RRes.pushed true (ds.take k)) :: tr, ds2, ?_, hinv2,
            hsz.trans hrsz, hw.trans hrw, ?_, ?_, ?_⟩
          · simp only [runRing, hpe, hrun, Option.map_some', hok, hpop]
          · simp only [handedOutBy, acceptedBy, List.append_assoc]
            rw [hout]
            simp only [List.append_assoc, List.singleton_append]
            rw [← List.append_assoc, List.take_append_drop]
          · simpa [frontsMatch] using hfm
          · intro h
            have := h (ROp.push data true) (List.mem_cons_self _ _)
            simp [ROp.plain] at this
        | false =>
          obtain ⟨r, hr, hpop, hrsz, hrw, hcase⟩ := push_impl_plain s ds data fuel hinv
            (by omega) (by omega)
          rw [hr] at hpe
          rcases hcase with ⟨hok, hinv1⟩ | ⟨hok, hbuf⟩
          · obtain ⟨s2, tr, ds2, hrun, hinv2, hsz, hw, hout, hfm, hpl⟩ :=
              ih r.buf _ hinv1 (by rw [hrw]; exact hlen2) (by rw [hrsz]; exact hfuel)
            refine ⟨s2, (ROp.push data false, RRes.pushed true []) :: tr, ds2, ?_, hinv2,
              hsz.trans hrsz, hw.trans hrw, ?_, ?_, ?_⟩
            · simp only [runRing, hpe, hrun, Option.map_some', hok, hpop]
            · simp only [handedOutBy, acceptedBy, List.nil_append]
              rw [hout]
              simp
            · simpa [frontsMatch] using hfm
            · intro h
              simp only [handedOutBy, deliveredBy, List.nil_append]
              exact hpl (hpl2 h)
          · obtain ⟨s2, tr, ds2, hrun, hinv2, hsz, hw, hout, hfm, hpl⟩ :=
              ih r.buf ds (by rw [hbuf]; exact hinv) (by rw [hrw]; exact hlen2)
                (by rw [hrsz]; exact hfuel)
            refine ⟨s2, (ROp.push data false, RRes.pushed false []) :: tr, ds2, ?_, hinv2,
              hsz.trans hrsz, hw.trans hrw, ?_, ?_, ?_⟩
            · simp only [runRing, hpe, hrun, Option.map_some', hok, hpop]
            · simpa [handedOutBy, acceptedBy] using hout
            · simpa [frontsMatch] using hfm
            · intro h
              simp only [handedOutBy, deliveredBy, List.nil_append]
              exact hpl (hpl2 h)

theorem runRing_reachable (s0 : UnfixedRingBuf) (ops : List ROp) (fuel : Nat)
    (hw1 : 1 ≤ s0.int_bytes) (hw8 : s0.int_bytes ≤ 8) (hsz : 0 < s0.m_size)
    (hint : s0.m_size < s0.INT_MOD) (h64 : s0.m_size + s0.m_size < UINT64_MOD)
    (hlen : ∀ op ∈ ops, op.dataLen + 2 * s0.int_bytes < UINT64_MOD)
    (hfuel : s0.m_size < fuel) :
    ∃ s tr ds, runRing fuel ops s0.clear = some (s, tr) ∧ RingInv s ds ∧
      s.m_size = s0.m_size ∧ s.int_bytes = s0.int_bytes ∧
      handedOutBy tr ++ ds = acceptedBy tr ∧ frontsMatch tr = true ∧
      ((∀ op ∈ ops, op.plain = true) → handedOutBy tr = deliveredBy tr) := by
  obtain ⟨hinv, hs, hw⟩ := ring_clear_inv s0 ⟨hw1, hw8, hsz, hint, h64⟩
  obtain ⟨s, tr, ds, hrun, hinv2, hsz2, hw2, hout, hfm, hpl⟩ :=
    runRing_inv fuel ops s0.clear [] hinv (by rw [hw]; exact hlen) (by rw [hs]; omega)
  exact ⟨s, tr, ds, hrun, hinv2, hsz2.trans hs, hw2.trans hw, by simpa using hout, hfm, hpl⟩

/-- C17: after any sequence of `push` calls without `over_write` and `pop` calls
on a cleared `UnfixedRingBuf`, the records handed to the callbacks of the `pop`
calls, followed by the records that popping the rest of the buffer hands out,
are exactly the records whose `push` returned `true`, in the same order and
with the same bytes; every `pop` hands out the record that `front(len, 0)`
returned just before it (nothing when `front` returned null), and no `push`
hands a record to its callback. -/
theorem C17_fifo_without_overwrite (s0 : UnfixedRingBuf) (ops : List ROp) (fuel : Nat)
    (hw1 : 1 ≤ s0.int_bytes) (hw8 : s0.int_bytes ≤ 8) (hsz : 0 < s0.m_size)
    (hint : s0.m_size < s0.INT_MOD) (h64 : s0.m_size + s0.m_size < UINT64_MOD)
    (hlen : ∀ op ∈ ops, op.dataLen + 2 * s0.int_bytes < UINT64_MOD)
    (hplain : ∀ op ∈ ops, op.plain = true) (hfuel : s0.m_size < fuel) :
    ∃ s tr, runRing fuel ops s0.clear = some (s, tr) ∧
      deliveredBy tr ++ s.drain = acceptedBy tr ∧ frontsMatch tr = true ∧
      handedOutBy tr = deliveredBy tr ∧ s.get_num = s.drain.length := by
  obtain ⟨s, tr, ds, hrun, hinv, _, _, hout, hfm, hpl⟩ :=
    runRing_reachable s0 ops fuel hw1 hw8 hsz hint h64 hlen hfuel
  refine ⟨s, tr, hrun, ?_, hfm, hpl hplain, ?_⟩
  · rw [hinv.drain_eq, ← hpl hplain]
    exact hout
  · rw [hinv.drain_eq]
    exact hinv.2.1

/-- C18: in every state of an `UnfixedRingBuf` reached from a cleared buffer by
`push` calls (with or without `over_write`) and `pop` calls, a `push` with
`over_write` of a record whose length plus the header is at most the size of
the buffer returns `true`; it hands to the callback a run of the oldest
records, oldest first, keeps the other records in order, and the pushed record
becomes the newest; a longer record is rejected with `false` and the buffer is
unchanged. -/
theorem C18_push_overwrite (s0 : UnfixedRingBuf) (ops : List ROp) (fuel : Nat) (d : List Nat)
    (hw1 : 1 ≤ s0.int_bytes) (hw8 : s0.int_bytes ≤ 8) (hsz : 0 < s0.m_size)
    (hint : s0.m_size < s0.INT_MOD) (h64 : s0.m_size + s0.m_size < UINT64_MOD)
    (hlen : ∀ op ∈ ops, op.dataLen + 2 * s0.int_bytes < UINT64_MOD)
    (hd : d.length + 2 * s0.int_bytes < UINT64_MOD) (hfuel : s0.m_size < fuel) :
    ∃ s tr, runRing fuel ops s0.clear = some (s, tr) ∧
      (d.length + s.SIZEOF_ITEM_HEADER ≤ s.m_size →
        ∃ r k, s.push fuel d true = some r ∧ r.ok = true ∧ r.popped = s.drain.take k ∧
          r.buf.drain = s.drain.drop k ++ [d]) ∧
      (s.m_size < d.length + s.SIZEOF_ITEM_HEADER →
        s.push fuel d true = some { buf := s, ok := false, popped := [] }) := by
  obtain ⟨s, tr, ds, hrun, hinv, hs, hw, _, _, _⟩ :=
    runRing_reachable s0 ops fuel hw1 hw8 hsz hint h64 hlen hfuel
  have hpe := push_eq s fuel d true (by rw [hw]; exact hd)
  refine ⟨s, tr, hrun, ?_, ?_⟩
  · intro hfit
    unfold UnfixedRingBuf.SIZEOF_ITEM_HEADER at hfit
    rw [if_neg (by omega)] at hpe
    obtain ⟨r, hr, hok, _, _, k, hpop, hinv1⟩ := push_impl_ow s ds d fuel hinv hfit
      (by have := hinv.count_le; omega)
    rw [hr] at hpe
    refine ⟨r, k, hpe, hok, ?_, ?_⟩
    · rw [hinv.drain_eq]; exact hpop
    · rw [hinv.drain_eq, hinv1.drain_eq]
  · intro hlong
    unfold UnfixedRingBuf.SIZEOF_ITEM_HEADER at hlong
    rw [if_pos (by omega)] at hpe
    exact hpe

/-- C17, an instance: a buffer of 12 bytes with 2-byte headers; the third
record does not fit behind the second, a padding record is written and the
record is placed at the start of the buffer. -/
theorem C17_fifo_without_overwrite_witness :
    (∀ op ∈ [ROp.push [1, 2, 3] false, ROp.push [4, 5] false, ROp.pop,
        ROp.push [6, 7, 8] false, ROp.push [9, 9, 9, 9, 9, 9, 9, 9, 9, 9, 9] false, ROp.pop],
      op.plain = true) ∧
    ∃ s tr, runRing 13 [ROp.push [1, 2, 3] false, ROp.push [4, 5] false, ROp.pop,
        ROp.push [6, 7, 8] false, ROp.push [9, 9, 9, 9, 9, 9, 9, 9, 9, 9, 9] false, ROp.pop]
        rawRing.clear = some (s, tr) ∧
      deliveredBy tr ++ s.drain = acceptedBy tr ∧ frontsMatch tr = true ∧
      handedOutBy tr = deliveredBy tr ∧ s.get_num = s.drain.length :=
  ⟨by decide,
    C17_fifo_without_overwrite rawRing
      [ROp.push [1, 2, 3] false, ROp.push [4, 5] false, ROp.pop,
        ROp.push [6, 7, 8] false, ROp.push [9, 9, 9, 9, 9, 9, 9, 9, 9, 9, 9] false, ROp.pop] 13
      (by decide) (by decide) (by decide) (by decide) (by decide) (by decide) (by decide)
      (by decide)⟩

/-- C18, an instance: a buffer of 12 bytes with 2-byte headers that holds three
records; a record of 6 bytes is pushed with `over_write`. -/
theorem C18_push_overwrite_witness :
    [6, 6, 6, 6, 6, 6].length + 2 * rawRing.int_bytes ≤ rawRing.m_size ∧
    ∃ s tr, runRing 13 [ROp.push [1, 2, 3] false, ROp.push [4, 5] false, ROp.push [7] true]
        rawRing.clear = some (s, tr) ∧
      ([6, 6, 6, 6, 6, 6].length + s.SIZEOF_ITEM_HEADER ≤ s.m_size →
        ∃ r k, s.push 13 [6, 6, 6, 6, 6, 6] true = some r ∧ r.ok = true ∧
          r.popped = s.drain.take k ∧ r.buf.drain = s.drain.drop k ++ [[6, 6, 6, 6, 6, 6]]) ∧
      (s.m_size < [6, 6, 6, 6, 6, 6].length + s.SIZEOF_ITEM_HEADER →
        s.push 13 [6, 6, 6, 6, 6, 6] true = some { buf := s, ok := false, popped := [] }) :=
  ⟨by decide,
    C18_push_overwrite rawRing
      [ROp.push [1, 2, 3] false, ROp.push [4, 5] false, ROp.push [7] true] 13
      [6, 6, 6, 6, 6, 6]
      (by decide) (by decide) (by decide) (by decide) (by decide) (by decide) (by decide)
      (by decide)⟩


/-! ## C21: the ids handed out by `Add` -/

theorem GenerateID_ne_zero {τ : Type} (q : TimeoutQueue τ) : q.GenerateID.2 ≠ 0 := by
  show (if (q.base_id_ + 1) % UINT64_MOD = 0 then ((q.base_id_ + 1) % UINT64_MOD + 1) % UINT64_MOD
    else (q.base_id_ + 1) % UINT64_MOD) ≠ 0
  split_ifs with h
  · rw [h]; decide
  · exact h

theorem mapErase_absent {β : Type} (k : Nat) (m : List (Nat × β)) (h : mapFind k m = none) :
    mapErase k m = m := by
  induction m with
  | nil => rfl
  | cons p m ih =>
    obtain ⟨k1, v⟩ := p
    by_cases h1 : k1 = k
    · simp [mapFind, h1] at h
    · simp only [mapFind, h1, if_false] at h
      simp [mapErase, h1, ih h]

theorem Add_of_live {τ : Type} (q : TimeoutQueue τ) (task : τ) (e I : Nat)
    (hc : mapContains q.GenerateID.2 q.timer_id_index_ = true) :
    q.Add task e I = (TimeoutQueue.mk q.timer_queue_ q.timer_id_index_ q.GenerateID.2, 0) := by
  have hc1 : mapContains q.GenerateID.2 q.GenerateID.1.timer_id_index_ = true := hc
  simp only [TimeoutQueue.Add, mapEmplace, hc1]
  rfl

theorem Add_of_fresh {τ : Type} (q : TimeoutQueue τ) (task : τ) (e I : Nat) (w : TimerWF q)
    (hc : mapContains q.GenerateID.2 q.timer_id_index_ = false) :
    q.Add task e I =
      (TimeoutQueue.mk (setEmplace (Timer.mk q.GenerateID.2 I e task) q.timer_queue_).1
         ((q.GenerateID.2, e) :: q.timer_id_index_) q.GenerateID.2, q.GenerateID.2) ∧
    (setEmplace (Timer.mk q.GenerateID.2 I e task) q.timer_queue_).2 = true ∧
    (∀ x ∈ q.timer_queue_, x.seq_id ≠ q.GenerateID.2) := by
  have hf : mapFind q.GenerateID.2 q.timer_id_index_ = none := (mapContains_eq_false _ _).1 hc
  have hne : ∀ x ∈ q.timer_queue_, x.seq_id ≠ q.GenerateID.2 := w.no_id hf
  have hok : (setEmplace (Timer.mk q.GenerateID.2 I e task) q.timer_queue_).2 = true :=
    setEmplace_ok _ _ hne
  refine ⟨?_, hok, hne⟩
  have hc1 : mapContains q.GenerateID.2 q.GenerateID.1.timer_id_index_ = false := hc
  have hok1 : (setEmplace (Timer.mk q.GenerateID.2 I e task)
      q.GenerateID.1.timer_queue_).2 = true := hok
  simp only [TimeoutQueue.Add, mapEmplace, hc1]
  simp only [hok1]
  rfl

/-- What `Add` does on a consistent queue, for every value of the counter. -/
theorem Add_facts {τ : Type} (q : TimeoutQueue τ) (task : τ) (e I : Nat) (w : TimerWF q) :
    (q.Add task e I).2 ≠ 0 →
      (∀ t ∈ q.timer_queue_, t.seq_id ≠ (q.Add task e I).2) ∧
      q.Exist (q.Add task e I).2 = false ∧
      (q.Add task e I).1.Exist (q.Add task e I).2 = true ∧
      List.Perm (q.Add task e I).1.timer_queue_
        (Timer.mk (q.Add task e I).2 I e task :: q.timer_queue_) := by
  intro hne
  cases hc : mapContains q.GenerateID.2 q.timer_id_index_ with
  | true =>
    rw [Add_of_live q task e I hc] at hne
    exact absurd rfl hne
  | false =>
    obtain ⟨hadd, hok, hfresh⟩ := Add_of_fresh q task e I w hc
    rw [hadd]
    refine ⟨hfresh, hc, ?_, ?_⟩
    · simp [TimeoutQueue.Exist, mapContains, mapFind]
    · exact (w.insert (Timer.mk q.GenerateID.2 I e task) q.GenerateID.2 hfresh).2

theorem Add_zero_facts {τ : Type} (q : TimeoutQueue τ) (task : τ) (e I : Nat) (w : TimerWF q) :
    ((q.Add task e I).2 = 0 ↔ q.Exist q.GenerateID.2 = true) ∧
    ((q.Add task e I).2 = 0 →
      (q.Add task e I).1 = TimeoutQueue.mk q.timer_queue_ q.timer_id_index_ q.GenerateID.2) := by
  cases hc : mapContains q.GenerateID.2 q.timer_id_index_ with
  | true =>
    rw [Add_of_live q task e I hc]
    exact ⟨⟨fun _ => hc, fun _ => rfl⟩, fun _ => rfl⟩
  | false =>
    obtain ⟨hadd, _, _⟩ := Add_of_fresh q task e I w hc
    rw [hadd]
    have hz := GenerateID_ne_zero q
    refine ⟨⟨fun h => absurd h hz, fun h => ?_⟩, fun h => absurd h hz⟩
    have : mapContains q.GenerateID.2 q.timer_id_index_ = true := h
    rw [hc] at this
    cases this

/-- The invariant of C21: the queue is consistent and id 0 is not live. -/
theorem zero_free_Add {τ : Type} (q : TimeoutQueue τ) (task : τ) (e I : Nat) (w : TimerWF q)
    (hz : q.Exist 0 = false) : (q.Add task e I).1.Exist 0 = false := by
  cases hc : mapContains q.GenerateID.2 q.timer_id_index_ with
  | true =>
    rw [Add_of_live q task e I hc]
    exact hz
  | false =>
    obtain ⟨hadd, _, _⟩ := Add_of_fresh q task e I w hc
    rw [hadd]
    have hg := GenerateID_ne_zero q
    have hz1 : mapFind 0 q.timer_id_index_ = none := (mapContains_eq_false _ _).1 hz
    apply (mapContains_eq_false _ _).2
    show mapFind 0 ((q.GenerateID.2, e) :: q.timer_id_index_) = none
    rw [mapFind_cons, if_neg hg]
    exact hz1

theorem zero_free_Cancel {τ : Type} (q : TimeoutQueue τ) (i : Nat)
    (hz : q.Exist 0 = false) : (q.Cancel i).1.Exist 0 = false := by
  have hz1 : mapFind 0 q.timer_id_index_ = none := (mapContains_eq_false _ _).1 hz
  unfold TimeoutQueue.Cancel
  cases hf : mapFind i q.timer_id_index_ with
  | none => exact hz
  | some e =>
    apply (mapContains_eq_false _ _).2
    show mapFind 0 (mapErase i q.timer_id_index_) = none
    rw [mapFind_erase]
    split_ifs
    · rfl
    · exact hz1

theorem zero_free_timers {τ : Type} (q : TimeoutQueue τ) (w : TimerWF q) :
    q.Exist 0 = false ↔ ∀ t ∈ q.timer_queue_, t.seq_id ≠ 0 := by
  constructor
  · intro hz
    exact w.no_id ((mapContains_eq_false _ _).1 hz)
  · intro h
    cases hx : q.Exist 0 with
    | false => rfl
    | true =>
      obtain ⟨t, ht, h0⟩ := (w.exist_iff 0).1 hx
      exact absurd h0 (h t ht)

theorem runCall_inv {τ : Type} (s s1 : RecState τ) (c : TCall τ) (w : TimerWF s.1)
    (hz : s.1.Exist 0 = false) (h : runCall s c = some s1) :
    TimerWF s1.1 ∧ s1.1.Exist 0 = false := by
  cases c with
  | add task e i =>
    simp only [runCall, Option.some.injEq] at h
    subst h
    exact ⟨Add_any s.1 task e i w, zero_free_Add s.1 task e i w hz⟩
  | cancel i =>
    simp only [runCall, Option.some.injEq] at h
    subst h
    exact ⟨(Cancel_any s.1 i w).2.2.2.2, zero_free_Cancel s.1 i hz⟩
  | timeOut now fuel =>
    simp only [runCall, Option.map_eq_some'] at h
    obtain ⟨r, hr, h1⟩ := h
    subst h1
    obtain ⟨s2, c2⟩ := r
    have := TimeOut_rec_safe now fuel 0 s.1 s.2 s2 c2 w hr
    obtain ⟨w2, _, hids, _⟩ := this
    refine ⟨w2, ?_⟩
    rw [zero_free_timers _ w2]
    intro u hu
    obtain ⟨t, ht, h3⟩ := hids u hu
    rw [h3]
    exact (zero_free_timers _ w).1 hz t ht
  | clear =>
    simp only [runCall, Option.some.injEq] at h
    subst h
    refine ⟨⟨List.Pairwise.nil, ?_, List.nodup_nil⟩, rfl⟩
    intro i e
    simp [TimeoutQueue.Clear, mapFind]

theorem runCalls_inv {τ : Type} (cs : List (TCall τ)) :
    ∀ (s s1 : RecState τ), TimerWF s.1 → s.1.Exist 0 = false → runCalls cs s = some s1 →
      TimerWF s1.1 ∧ s1.1.Exist 0 = false := by
  induction cs with
  | nil =>
    intro s s1 w hz h
    simp only [runCalls, Option.some.injEq] at h
    subst h
    exact ⟨w, hz⟩
  | cons c cs ih =>
    intro s s1 w hz h
    simp only [runCalls] at h
    cases hc : runCall s c with
    | none => simp [hc] at h
    | some s2 =>
      simp only [hc] at h
      obtain ⟨w2, hz2⟩ := runCall_inv s s2 c w hz hc
      exact ih s2 s1 w2 hz2 h

theorem timerWF_withCounter (τ : Type) (b : Nat) : TimerWF (TimeoutQueue.withCounter τ b) :=
  ⟨List.Pairwise.nil, by intro i e; simp [TimeoutQueue.withCounter, mapFind], List.nodup_nil⟩

/-- C21.  In every state that a `TimeoutQueue` reaches from an empty queue
with any value of its id counter by `Add`, `Cancel`, `TimeOut` and `Clear`
calls (one-shot and periodic timers, tasks that do not touch the queue):
id 0 is not live and no timer of the set has id 0; an `Add` that returns a
non-zero id returns one that no timer of the set had and that was not live,
makes `Exist(id)` true and adds exactly the new timer to the set; `Add`
returns 0 exactly when the id drawn from the counter is live already, which
needs a wrapped counter, and then the set and the index are the ones before
the call, the counter alone having advanced. -/
theorem C21_add_returns_fresh_nonzero_id {τ : Type} (b : Nat) (cs : List (TCall τ))
    (s : RecState τ) (hr : runCalls cs (TimeoutQueue.withCounter τ b, []) = some s)
    (task : τ) (e I : Nat) :
    s.1.Exist 0 = false ∧ (∀ t ∈ s.1.timer_queue_, t.seq_id ≠ 0) ∧
    ((s.1.Add task e I).2 ≠ 0 →
      (∀ t ∈ s.1.timer_queue_, t.seq_id ≠ (s.1.Add task e I).2) ∧
      s.1.Exist (s.1.Add task e I).2 = false ∧
      (s.1.Add task e I).1.Exist (s.1.Add task e I).2 = true ∧
      List.Perm (s.1.Add task e I).1.timer_queue_
        (Timer.mk (s.1.Add task e I).2 I e task :: s.1.timer_queue_)) ∧
    ((s.1.Add task e I).2 = 0 ↔ s.1.Exist s.1.GenerateID.2 = true) ∧
    ((s.1.Add task e I).2 = 0 →
      (s.1.Add task e I).1.timer_queue_ = s.1.timer_queue_ ∧
      (s.1.Add task e I).1.timer_id_index_ = s.1.timer_id_index_ ∧
      (s.1.Add task e I).1.base_id_ = s.1.GenerateID.2) ∧
    (s.1.Add task e I).1.Exist 0 = false := by
  obtain ⟨w, hz⟩ := runCalls_inv cs (TimeoutQueue.withCounter τ b, []) s
    (timerWF_withCounter τ b) rfl hr
  refine ⟨hz, (zero_free_timers _ w).1 hz, Add_facts s.1 task e I w,
    (Add_zero_facts s.1 task e I w).1, ?_, zero_free_Add s.1 task e I w hz⟩
  intro h0
  rw [(Add_zero_facts s.1 task e I w).2 h0]
  exact ⟨rfl, rfl, rfl⟩

/-- C21, an instance: a queue whose counter stands at `2^64 - 1` holds a
periodic timer and, after a `TimeOut` and a `Cancel`, a one-shot timer. -/
theorem C21_add_returns_fresh_nonzero_id_witness :
    runCalls [TCall.add 7 10 3, TCall.add 8 5 0, TCall.timeOut 12 4, TCall.cancel 2,
        TCall.add 9 20 0] (TimeoutQueue.withCounter Nat (2 ^ 64 - 1), [])
      = some (TimeoutQueue.mk [Timer.mk 1 3 13 7, Timer.mk 3 0 20 9] [(3, 20), (1, 13)] 3,
          [(8, 2, 0), (7, 1, 3)]) ∧
    (TimeoutQueue.mk [Timer.mk 1 3 13 7, Timer.mk 3 0 20 9] [(3, 20), (1, 13)] 3).Exist 0
      = false :=
  ⟨rfl,
   (@C21_add_returns_fresh_nonzero_id Nat (2 ^ 64 - 1)
      [TCall.add 7 10 3, TCall.add 8 5 0, TCall.timeOut 12 4, TCall.cancel 2, TCall.add 9 20 0]
      (TimeoutQueue.mk [Timer.mk 1 3 13 7, Timer.mk 3 0 20 9] [(3, 20), (1, 13)] 3,
        [(8, 2, 0), (7, 1, 3)]) (by rfl) 0 0 0).1⟩
/-! ## C22: `Pending` on a `seq_id` that has a row -/

theorem setErase_emplace {τ : Type} (t : Timer τ) (l : List (Timer τ))
    (hne : ∀ x ∈ l, x.seq_id ≠ t.seq_id) :
    setErase t.expire_time t.seq_id (setEmplace t l).1 = l := by
  induction l with
  | nil => simp [setEmplace, setErase]
  | cons x xs ih =>
    have hx : x.seq_id ≠ t.seq_id := hne x (List.mem_cons_self _ _)
    have ih1 := ih (fun y hy => hne y (List.mem_cons_of_mem _ hy))
    unfold setEmplace
    by_cases h1 : Timer.less t x = true
    · simp [h1, setErase]
    · by_cases h2 : Timer.less x t = true
      · simp only [h1, h2, if_true, if_false]
        show setErase t.expire_time t.seq_id (x :: (setEmplace t xs).1) = x :: xs
        unfold setErase
        rw [if_neg (fun h => hx h.2), ih1]
      · exfalso
        rw [Timer.less_iff] at h1 h2
        omega

theorem Add_then_Cancel {τ : Type} (q : TimeoutQueue τ) (task : τ) (e I : Nat) (w : TimerWF q)
    (h : (q.Add task e I).2 ≠ 0) :
    ((q.Add task e I).1.Cancel (q.Add task e I).2).1
      = TimeoutQueue.mk q.timer_queue_ q.timer_id_index_ q.GenerateID.2 := by
  cases hc : mapContains q.GenerateID.2 q.timer_id_index_ with
  | true =>
    rw [Add_of_live q task e I hc] at h
    exact absurd rfl h
  | false =>
    obtain ⟨hadd, _, hfresh⟩ := Add_of_fresh q task e I w hc
    rw [hadd]
    have hf : mapFind q.GenerateID.2 q.timer_id_index_ = none := (mapContains_eq_false _ _).1 hc
    have h1 : mapFind q.GenerateID.2 ((q.GenerateID.2, e) :: q.timer_id_index_) = some e := by
      simp [mapFind]
    have h2 : mapErase q.GenerateID.2 ((q.GenerateID.2, e) :: q.timer_id_index_)
        = q.timer_id_index_ := by
      simp only [mapErase, if_true]
      exact mapErase_absent _ _ hf
    have h3 := setErase_emplace (Timer.mk q.GenerateID.2 I e task) q.timer_queue_ hfresh
    simp only [TimeoutQueue.Cancel, h1, h2]
    simp only at h3
    rw [h3]

/-- C22.  Let `Pending` be called with a non-zero `seq_id` for which the
table has a row, on a controller whose timer queue is consistent.  The call
returns `RPC_SYS_ERR`, which is -1; the table is the one before the call, so
the row still maps to its client context; the set of timers and the id index
are the ones before the call, so the same timers are live, and the id of the
timer that the call armed is not live; the contexts other than the one passed
in are untouched and no continuation has run. -/
theorem C22_pending_collision_fails (w : World) (now_ms gen_seq seq_id timeout p p0 : Nat)
    (hs : seq_id ≠ 0) (hrow : mapFind seq_id w.ctrl.context_cache_ = some p0)
    (hq : TimerWF w.ctrl.timeout_queue_) :
    ∃ w1, ContextController.Pending w now_ms gen_seq seq_id timeout p = some (w1, RPC_SYS_ERR) ∧
      RPC_SYS_ERR = -1 ∧
      w1.ctrl.context_cache_ = w.ctrl.context_cache_ ∧
      mapFind seq_id w1.ctrl.context_cache_ = some p0 ∧
      w1.ctrl.timeout_queue_.timer_queue_ = w.ctrl.timeout_queue_.timer_queue_ ∧
      w1.ctrl.timeout_queue_.timer_id_index_ = w.ctrl.timeout_queue_.timer_id_index_ ∧
      (∀ i, w1.ctrl.timeout_queue_.Exist i = w.ctrl.timeout_queue_.Exist i) ∧
      (p ≠ 0 → (w.ctrl.timeout_queue_.Add seq_id (pendingDeadline now_ms timeout) 0).2 ≠ 0 →
        (w.ctrl.timeout_queue_.Add seq_id (pendingDeadline now_ms timeout) 0).1.Exist
          (w.ctrl.timeout_queue_.Add seq_id (pendingDeadline now_ms timeout) 0).2 = true ∧
        w1.ctrl.timeout_queue_.Exist
          (w.ctrl.timeout_queue_.Add seq_id (pendingDeadline now_ms timeout) 0).2 = false) ∧
      (∀ a, a ≠ p → w1.client a = w.client a) ∧
      w1.runs = w.runs := by
  have hcont : mapContains seq_id w.ctrl.context_cache_ = true := by
    simp [mapContains, hrow]
  unfold ContextController.Pending
  by_cases hp : p = 0
  · rw [if_pos hp]
    exact ⟨w, rfl, rfl, rfl, hrow, rfl, rfl, fun _ => rfl, fun h => absurd hp h,
      fun _ _ => rfl, rfl⟩
  · rw [if_neg hp]
    simp only [if_neg hs]
    by_cases h0 : (w.ctrl.timeout_queue_.Add seq_id ((now_ms + timeout) % UINT64_MOD) 0).2 = 0
    · rw [if_pos h0]
      have hst := (Add_zero_facts w.ctrl.timeout_queue_ seq_id
        ((now_ms + timeout) % UINT64_MOD) 0 hq).2 h0
      refine ⟨_, rfl, rfl, rfl, hrow, ?_, ?_, ?_, ?_, fun _ _ => rfl, rfl⟩
      · show (w.ctrl.timeout_queue_.Add seq_id ((now_ms + timeout) % UINT64_MOD) 0).1.timer_queue_
          = _
        rw [hst]
      · show (w.ctrl.timeout_queue_.Add seq_id
          ((now_ms + timeout) % UINT64_MOD) 0).1.timer_id_index_ = _
        rw [hst]
      · intro i
        show (w.ctrl.timeout_queue_.Add seq_id ((now_ms + timeout) % UINT64_MOD) 0).1.Exist i = _
        rw [hst]
        rfl
      · intro _ h
        exact absurd h0 h
    · rw [if_neg h0]
      have hcan := Add_then_Cancel w.ctrl.timeout_queue_ seq_id
        ((now_ms + timeout) % UINT64_MOD) 0 hq h0
      have hfacts := Add_facts w.ctrl.timeout_queue_ seq_id
        ((now_ms + timeout) % UINT64_MOD) 0 hq h0
      have he : mapEmplace seq_id p w.ctrl.context_cache_ = (w.ctrl.context_cache_, false) := by
        simp [mapEmplace, hcont]
      simp only [World.setClient, World.putQueue, he, if_true]
      refine ⟨_, rfl, rfl, rfl, hrow, ?_, ?_, ?_, ?_, ?_, rfl⟩
      · show ((w.ctrl.timeout_queue_.Add seq_id ((now_ms + timeout) % UINT64_MOD) 0).1.Cancel
          (w.ctrl.timeout_queue_.Add seq_id ((now_ms + timeout) % UINT64_MOD) 0).2).1.timer_queue_
          = _
        rw [hcan]
      · show ((w.ctrl.timeout_queue_.Add seq_id ((now_ms + timeout) % UINT64_MOD) 0).1.Cancel
          (w.ctrl.timeout_queue_.Add seq_id
            ((now_ms + timeout) % UINT64_MOD) 0).2).1.timer_id_index_ = _
        rw [hcan]
      · intro i
        show ((w.ctrl.timeout_queue_.Add seq_id ((now_ms + timeout) % UINT64_MOD) 0).1.Cancel
          (w.ctrl.timeout_queue_.Add seq_id ((now_ms + timeout) % UINT64_MOD) 0).2).1.Exist i = _
        rw [hcan]
        rfl
      · intro _ _
        refine ⟨hfacts.2.2.1, ?_⟩
        show ((w.ctrl.timeout_queue_.Add seq_id ((now_ms + timeout) % UINT64_MOD) 0).1.Cancel
          (w.ctrl.timeout_queue_.Add seq_id ((now_ms + timeout) % UINT64_MOD) 0).2).1.Exist _ = _
        rw [hcan]
        exact hfacts.2.1
      · intro a ha
        show (if a = p then _ else w.client a) = w.client a
        rw [if_neg ha]
/-- C22, an instance: a second `Pending` with `seq_id = 7`, for another
client context, while the row of the first is in the table. -/
theorem C22_pending_collision_fails_witness :
    (7 : Nat) ≠ 0 ∧ mapFind 7 World.onePending.ctrl.context_cache_ = some 1 ∧
    ∃ w1, ContextController.Pending World.onePending 5 555 7 100 2 = some (w1, RPC_SYS_ERR) ∧
      mapFind 7 w1.ctrl.context_cache_ = some 1 ∧
      w1.ctrl.timeout_queue_.timer_queue_ = World.onePending.ctrl.timeout_queue_.timer_queue_ ∧
      w1.ctrl.timeout_queue_.Exist 2 = false :=
  ⟨by decide, by decide,
    match C22_pending_collision_fails World.onePending 5 555 7 100 2 1 (by decide) (by decide)
      (Add_any (TimeoutQueue.empty Nat) 7 100 0 (timerWF_empty Nat)) with
    | ⟨w1, h1, _, _, h4, h5, _, _, h8, _⟩ => ⟨w1, h1, h4, h5, (h8 (by decide) (by decide)).2⟩⟩

/-! ## C23: the timer id kept in the client context -/

/-- C23 (what the code does).  After every successful `Pending`, the
`timer_id` of the client context is the id that `Add` returned reduced modulo
`2^32`: the `uint64_t` id is stored in a `uint32_t` member.  It is the id of
the timer exactly when that id is below `2^32`; from the `2^32`-th timer of
the queue on it is another number. -/
theorem C23_timer_id_is_truncated (w0 w1 : World) (now_ms gen_seq seq_id timeout p : Nat)
    (h : ContextController.Pending w0 now_ms gen_seq seq_id timeout p = some (w1, RPC_SUCCESS)) :
    (w1.client p).timer_id = (w0.ctrl.timeout_queue_.Add (pendingSeq seq_id gen_seq)
        (pendingDeadline now_ms timeout) 0).2 % UINT32_MOD ∧
    ((w0.ctrl.timeout_queue_.Add (pendingSeq seq_id gen_seq)
        (pendingDeadline now_ms timeout) 0).2 < UINT32_MOD →
      (w1.client p).timer_id = (w0.ctrl.timeout_queue_.Add (pendingSeq seq_id gen_seq)
        (pendingDeadline now_ms timeout) 0).2) ∧
    (UINT32_MOD ≤ (w0.ctrl.timeout_queue_.Add (pendingSeq seq_id gen_seq)
        (pendingDeadline now_ms timeout) 0).2 →
      (w1.client p).timer_id ≠ (w0.ctrl.timeout_queue_.Add (pendingSeq seq_id gen_seq)
        (pendingDeadline now_ms timeout) 0).2) := by
  have ht := (Pending_success w0 w1 now_ms gen_seq seq_id timeout p h).2.2.2.2.1
  have hpos : 0 < UINT32_MOD := by decide
  refine ⟨ht, fun hlt => ?_, fun hge => ?_⟩
  · rw [ht]
    exact Nat.mod_eq_of_lt hlt
  · rw [ht]
    have := Nat.mod_lt (w0.ctrl.timeout_queue_.Add (pendingSeq seq_id gen_seq)
        (pendingDeadline now_ms timeout) 0).2 hpos
    omega

/-- C23, the failing input: on a controller whose timer queue has handed out
`2^32 - 1` ids, `Pending` succeeds, the timer it arms gets id `2^32` and the
client context gets `timer_id = 0`.  The reply that then arrives makes `Awake`
cancel by that `timer_id`: the row is returned, and the timer of the call is
still live and fires at the next `ProcTimeOut` past its deadline. -/
theorem C23_timer_id_is_truncated_witness :
    ContextController.Pending World.manyCalls 0 555 7 100 1
      = some (World.manyCallsPending, RPC_SUCCESS) ∧
    (World.manyCalls.ctrl.timeout_queue_.Add 7 100 0).2 = 2 ^ 32 ∧
    (World.manyCallsPending.client 1).timer_id = 0 ∧
    (World.manyCallsPending.client 1).timer_id ≠ 2 ^ 32 ∧
    (ContextController.Awake World.manyCallsPending 7 RPC_SUCCESS).2 = some 1 ∧
    (ContextController.Awake World.manyCallsPending 7 RPC_SUCCESS).1.ctrl.timeout_queue_.Exist
      (2 ^ 32) = true ∧
    (ContextController.ProcTimeOut
      (ContextController.Awake World.manyCallsPending 7 RPC_SUCCESS).1 100 2).map Prod.snd
      = some 1 :=
  ⟨rfl, by decide, by decide,
    (C23_timer_id_is_truncated World.manyCalls World.manyCallsPending 0 555 7 100 1 rfl).2.2
      (by decide),
    by decide, by decide, by decide⟩
/-! ## C24: the frame limits that `CheckOption` checks -/

theorem CheckOption_iff (option : SvrOption) :
    CheckOption option = true ↔
      (option.flow_ctrl.min_num ≤ option.flow_ctrl.max_deal_pkg_num ∧
       option.flow_ctrl.max_deal_pkg_num ≤ option.flow_ctrl.max_num ∧
       option.frame.min_on_proc_ms ≤ option.frame.max_proc_ms ∧
       option.frame.max_ctx_proc_ms ≤ option.frame.max_proc_ms) := by
  unfold CheckOption
  split_ifs <;> simp <;> omega

/-- C24 (amended).  `CheckOption` returns `true` exactly when
`min_num <= max_deal_pkg_num <= max_num`, `min_on_proc_ms <= max_proc_ms` and
`max_ctx_proc_ms <= max_proc_ms`; `SvrInit` returns `true` exactly when
`CheckOption` does and the later steps of the initialisation succeed.  So
every accepted option set has both `min_on_proc_ms` and `max_ctx_proc_ms` at
most `max_proc_ms`, and every set violating one of these two inequalities is
rejected; `min_on_proc_ms` is compared neither with 0 nor with
`max_ctx_proc_ms`. -/
theorem C24_check_option_frame_limits (option : SvrOption) (a b c d : Bool) :
    (CheckOption option = true ↔
      (option.flow_ctrl.min_num ≤ option.flow_ctrl.max_deal_pkg_num ∧
       option.flow_ctrl.max_deal_pkg_num ≤ option.flow_ctrl.max_num ∧
       option.frame.min_on_proc_ms ≤ option.frame.max_proc_ms ∧
       option.frame.max_ctx_proc_ms ≤ option.frame.max_proc_ms)) ∧
    (SvrInit option a b c d = true ↔
      (CheckOption option = true ∧ a = true ∧ b = true ∧ c = true ∧ d = true)) := by
  constructor
  · exact CheckOption_iff option
  · unfold SvrInit
    cases CheckOption option <;> cases a <;> cases b <;> cases c <;> cases d <;> simp

/-- C24 fails as stated: `CheckOption` and `SvrInit` accept frame limits with
`min_on_proc_ms = 5 > max_ctx_proc_ms = 3`, and frame limits with
`min_on_proc_ms = 0`. -/
theorem C24_counterexample_unchecked_limits :
    CheckOption { frame := { max_proc_ms := 10, max_ctx_proc_ms := 3, min_on_proc_ms := 5 },
                  flow_ctrl := scenarioFlow } = true ∧
    SvrInit { frame := { max_proc_ms := 10, max_ctx_proc_ms := 3, min_on_proc_ms := 5 },
              flow_ctrl := scenarioFlow } true true true true = true ∧
    ¬ ((0 : Nat) < 5 ∧ (5 : Nat) ≤ 3 ∧ (3 : Nat) ≤ 10) ∧
    CheckOption { frame := { max_proc_ms := 10, max_ctx_proc_ms := 5, min_on_proc_ms := 0 },
                  flow_ctrl := scenarioFlow } = true ∧
    SvrInit { frame := { max_proc_ms := 10, max_ctx_proc_ms := 5, min_on_proc_ms := 0 },
              flow_ctrl := scenarioFlow } true true true true = true ∧
    ¬ ((0 : Nat) < 0 ∧ (0 : Nat) ≤ 5 ∧ (5 : Nat) ≤ 10) := by
  decide

/-! ## C25: the budget of phase 1 -/

theorem SvrProc_remain (core : ServerCore) (now_ms : Nat) (env : ProcEnv) :
    (SvrProc core now_ms env).2.on_proc_args
      = (now_ms, remainMs core.option_.frame now_ms env.end_ms, core.stop_) ∧
    (SvrProc core now_ms env).2.system_proc_args
      = (now_ms, remainMs core.option_.frame now_ms env.end_ms, core.stop_) ∧
    (SvrProc core now_ms env).2.adjust_args
      = (remainMs core.option_.frame now_ms env.end_ms,
         (env.end_ms2 + UINT64_MOD - env.end_ms) % UINT64_MOD) ∧
    (SvrProc core now_ms env).1.option_.flow_ctrl
      = AdjustParam core.option_.flow_ctrl (remainMs core.option_.frame now_ms env.end_ms)
          ((env.end_ms2 + UINT64_MOD - env.end_ms) % UINT64_MOD) :=
  ⟨rfl, rfl, rfl, rfl⟩

theorem remainMs_no_wrap (frame : FrameTimeLimit) (begin_ms end_ms : Nat)
    (h1 : end_ms + frame.min_on_proc_ms < UINT64_MOD)
    (h2 : frame.max_proc_ms + begin_ms < UINT64_MOD) :
    remainMs frame begin_ms end_ms
      = max frame.min_on_proc_ms (frame.max_proc_ms + begin_ms - end_ms) := by
  unfold remainMs
  rw [mod_id h1, mod_id h2]
  split_ifs with h
  · omega
  · rw [show frame.max_proc_ms + begin_ms + UINT64_MOD - end_ms
        = (frame.max_proc_ms + begin_ms - end_ms) + UINT64_MOD by omega,
      Nat.add_mod_right, mod_id (by omega)]
    omega

/-- The budget away from the wrap.  In a `SvrProc` call in which neither
`end_ms + min_on_proc_ms` nor `max_proc_ms + begin_ms` reaches `2^64`
(`begin_ms` is the `now_ms` passed in, `end_ms` the clock at the end of
phase 0), `OnProc` and `SystemProc` are handed the same `remain_ms`, which is
`max(min_on_proc_ms, max_proc_ms + begin_ms - end_ms)` with the subtraction
stopping at 0; when the clock has not gone backwards this is
`max(min_on_proc_ms, max_proc_ms - elapsed)` for `elapsed = end_ms - begin_ms`.
It is never below `min_on_proc_ms`, and never above `max_proc_ms` when the
clock has not gone backwards and the options passed `CheckOption`. -/
theorem SvrProc_remain_in_range (core : ServerCore) (now_ms : Nat) (env : ProcEnv)
    (h1 : env.end_ms + core.option_.frame.min_on_proc_ms < UINT64_MOD)
    (h2 : core.option_.frame.max_proc_ms + now_ms < UINT64_MOD) :
    (SvrProc core now_ms env).2.on_proc_args.2.1
      = max core.option_.frame.min_on_proc_ms
          (core.option_.frame.max_proc_ms + now_ms - env.end_ms) ∧
    (SvrProc core now_ms env).2.system_proc_args.2.1
      = (SvrProc core now_ms env).2.on_proc_args.2.1 ∧
    (now_ms ≤ env.end_ms →
      (SvrProc core now_ms env).2.on_proc_args.2.1
        = max core.option_.frame.min_on_proc_ms
            (core.option_.frame.max_proc_ms - (env.end_ms - now_ms))) ∧
    core.option_.frame.min_on_proc_ms ≤ (SvrProc core now_ms env).2.on_proc_args.2.1 ∧
    (now_ms ≤ env.end_ms → CheckOption core.option_ = true →
      (SvrProc core now_ms env).2.on_proc_args.2.1 ≤ core.option_.frame.max_proc_ms) := by
  have hr := remainMs_no_wrap core.option_.frame now_ms env.end_ms h1 h2
  have e1 : (SvrProc core now_ms env).2.on_proc_args.2.1
      = remainMs core.option_.frame now_ms env.end_ms := rfl
  have e2 : (SvrProc core now_ms env).2.system_proc_args.2.1
      = remainMs core.option_.frame now_ms env.end_ms := rfl
  rw [e1, e2, hr]
  refine ⟨rfl, rfl, ?_, ?_, ?_⟩
  · intro h
    rw [show core.option_.frame.max_proc_ms + now_ms - env.end_ms
      = core.option_.frame.max_proc_ms - (env.end_ms - now_ms) by omega]
  · exact le_max_left _ _
  · intro h hc
    have := ((CheckOption_iff core.option_).1 hc).2.2.1
    omega

/-- An instance: with `min_on_proc_ms = 1` and `max_proc_ms = 10`, a
call entered at 1000 whose phase 0 ends at 1004 hands out 6 ms, and one whose
phase 0 ends at 1050 hands out 1 ms. -/
theorem SvrProc_remain_in_range_example :
    (SvrProc (demoCore scenarioOption false none) 1000 (idleEnv 1004)).2.on_proc_args.2.1 = 6 ∧
    (SvrProc (demoCore scenarioOption false none) 1000 (idleEnv 1050)).2.on_proc_args.2.1 = 1 :=
  ⟨(SvrProc_remain_in_range (demoCore scenarioOption false none) 1000 (idleEnv 1004)
      (by decide) (by decide)).1,
   by decide⟩

theorem oneLoopNum_no_wrap (f : FlowControl) (d : Nat) (h : d + f.min_num < UINT32_MOD)
    (hm : f.max_deal_pkg_num < UINT32_MOD) :
    oneLoopNum f d = max f.min_num (f.max_deal_pkg_num - d) := by
  unfold oneLoopNum
  rw [mod_id h]
  split_ifs with h1
  · rw [show f.max_deal_pkg_num + UINT32_MOD - d = (f.max_deal_pkg_num - d) + UINT32_MOD by omega,
      Nat.add_mod_right, mod_id (by omega)]
    omega
  · omega

theorem SvrProc_loop_arg (core : ServerCore) (now_ms : Nat) (env : ProcEnv) :
    (SvrProc core now_ms env).2.loop_arg =
      if core.req_scheduler_.isSome || !core.stop_ then
        core.default_channel.map (fun _ => oneLoopNum core.option_.flow_ctrl (dealSchedulerCount core))
      else none := by
  show (if core.req_scheduler_.isSome || !core.stop_ then
      (match core.default_channel with
        | some _ => some (oneLoopNum core.option_.flow_ctrl (dealSchedulerCount core))
        | none => none)
      else none) = _
  cases core.default_channel <;> rfl

/-- The budget of phase 2 when the 32-bit sum `deal_pkg_count + min_num` does
not wrap: with a default channel, `Loop` is called unless the engine is
stopping without a scheduler, and its argument is
`max(min_num, max_deal_pkg_num - d)` for the `d` frames that the scheduler
drained. -/
theorem SvrProc_budget_no_overflow (core : ServerCore) (now_ms : Nat) (env : ProcEnv)
    (loop : Nat → Nat) (hch : core.default_channel = some loop)
    (h : dealSchedulerCount core + core.option_.flow_ctrl.min_num < UINT32_MOD)
    (hm : core.option_.flow_ctrl.max_deal_pkg_num < UINT32_MOD) :
    ((SvrProc core now_ms env).2.loop_arg = none ↔
      (core.stop_ = true ∧ core.req_scheduler_ = none)) ∧
    (¬ (core.stop_ = true ∧ core.req_scheduler_ = none) →
      (SvrProc core now_ms env).2.loop_arg
        = some (max core.option_.flow_ctrl.min_num
            (core.option_.flow_ctrl.max_deal_pkg_num - dealSchedulerCount core))) := by
  rw [SvrProc_loop_arg, hch, oneLoopNum_no_wrap _ _ h hm]
  cases hs : core.stop_ <;> cases hq : core.req_scheduler_ <;> simp

/-- C26 at the options of scenario 3 with a scheduler that drained 30 frames:
`Loop` is called with 70, as the claim says, and it is not called when the
engine is stopping without a scheduler.  At options that `CheckOption`
accepts, with `min_num = 2^31 + 1` and `max_deal_pkg_num = 2^32 - 1`, and a
scheduler that drained `2^31` frames: the 32-bit sum `deal_pkg_count +
min_num` wraps to 1 and `Loop` is called with `2^31 - 1`, below `min_num`,
where the claim says `max(min_num, max_deal_pkg_num - d) = 2^31 + 1`. -/
theorem C26_phase2_budget_overflow :
    (SvrProc (demoCore scenarioOption false (some (drainingScheduler 30))) 1000
      (idleEnv 1000)).2.loop_arg = some 70 ∧
    (SvrProc (demoCore scenarioOption true none) 1000 (idleEnv 1000)).2.loop_arg = none ∧
    (SvrProc (demoCore scenarioOption true (some (drainingScheduler 30))) 1000
      (idleEnv 1000)).2.loop_arg = some 70 ∧
    CheckOption wideOption = true ∧ wideOption.flow_ctrl.InRange ∧
    dealSchedulerCount (demoCore wideOption false (some (drainingScheduler 2147483648)))
      = 2147483648 ∧
    (SvrProc (demoCore wideOption false (some (drainingScheduler 2147483648))) 1000
      (idleEnv 1000)).2.loop_arg = some 2147483647 ∧
    max wideOption.flow_ctrl.min_num (wideOption.flow_ctrl.max_deal_pkg_num - 2147483648)
      = 2147483649 := by
  unfold FlowControl.InRange
  decide

/-! ## C27: the arguments of `AdjustParam` -/

/-- C27 (amended).  In every `SvrProc` call, `AdjustParam` is invoked with
the `remain_ms` that `OnProc` was handed and with the 64-bit difference
between the clock reading at the end of phase 2 and the one at the end of
phase 0, and the flow-control options after the call are its result.  When
the clock has not gone backwards, that time is the sum of the time elapsed in
phase 1 and the time elapsed in phase 2. -/
theorem C27_adjust_param_arguments (core : ServerCore) (now_ms : Nat) (env : ProcEnv) :
    (SvrProc core now_ms env).2.adjust_args
      = ((SvrProc core now_ms env).2.on_proc_args.2.1,
         (env.end_ms2 + UINT64_MOD - env.end_ms) % UINT64_MOD) ∧
    (SvrProc core now_ms env).1.option_.flow_ctrl
      = AdjustParam core.option_.flow_ctrl (SvrProc core now_ms env).2.adjust_args.1
          (SvrProc core now_ms env).2.adjust_args.2 ∧
    (env.end_ms ≤ env.end_ms1 ∧ env.end_ms1 ≤ env.end_ms2 ∧ env.end_ms2 < UINT64_MOD →
      (SvrProc core now_ms env).2.adjust_args.2
        = (env.end_ms1 - env.end_ms) + (env.end_ms2 - env.end_ms1)) := by
  refine ⟨rfl, rfl, ?_⟩
  rintro ⟨h1, h2, h3⟩
  show (env.end_ms2 + UINT64_MOD - env.end_ms) % UINT64_MOD = _
  rw [show env.end_ms2 + UINT64_MOD - env.end_ms = (env.end_ms2 - env.end_ms) + UINT64_MOD by omega,
    Nat.add_mod_right, mod_id (by omega)]
  omega

/-- C27 fails as stated: at the options of scenario 3, in a call entered at
1000 whose phase 0 ends at 1000, phase 1 at 1050 and phase 2 at 1052,
`AdjustParam` is invoked with `remain_ms = 10` and 52 ms, not with the 2 ms
of phase 2 alone, and shrinks `max_deal_pkg_num` from 100 to 80; invoked with
the 2 ms of phase 2 it would have left it at 100. -/
theorem C27_counterexample_phase1_counted :
    (SvrProc (demoCore scenarioOption false none) 1000
      { ctx_count := 0, timeout_count := 0, end_ms := 1000, on_proc := 0, system_proc := 0,
        end_ms1 := 1050, end_ms2 := 1052, end_ms3 := 1052 }).2.adjust_args = (10, 52) ∧
    (1052 : Nat) - 1050 = 2 ∧
    (SvrProc (demoCore scenarioOption false none) 1000
      { ctx_count := 0, timeout_count := 0, end_ms := 1000, on_proc := 0, system_proc := 0,
        end_ms1 := 1050, end_ms2 := 1052, end_ms3 := 1052 }).1.option_.flow_ctrl.max_deal_pkg_num
      = 80 ∧
    (AdjustParam scenarioOption.flow_ctrl 10 2).max_deal_pkg_num = 100 := by
  decide

/-! ## C28: when the engine may stop -/

/-- C28 (amended).  `SvrStopReady` returns `true` exactly when the engine is
stopping (`stop_` is set, which `SvrNtfQuit` does) and the pending-call table
holds no row; after `SvrNtfQuit` it returns `true` exactly when the table
holds no row. -/
theorem C28_stop_ready (core : ServerCore) (last_log_time now : Nat) :
    ((SvrStopReady core last_log_time now).1 = true ↔
      (core.stop_ = true ∧ core.context_ctrl_.PendingContextNum = 0)) ∧
    (SvrNtfQuit core).stop_ = true ∧
    (SvrNtfQuit core).context_ctrl_ = core.context_ctrl_ ∧
    ((SvrStopReady (SvrNtfQuit core) last_log_time now).1 = true ↔
      core.context_ctrl_.PendingContextNum = 0) := by
  have h1 : ∀ c : ServerCore, ((SvrStopReady c last_log_time now).1 = true ↔
      (c.stop_ = true ∧ c.context_ctrl_.PendingContextNum = 0)) := by
    intro c
    unfold SvrStopReady
    split_ifs <;> simp_all
  have h2 : (SvrNtfQuit core).stop_ = true := by
    unfold SvrNtfQuit
    cases h : core.stop_ <;> simp [h]
  have h3 : (SvrNtfQuit core).context_ctrl_ = core.context_ctrl_ := by
    unfold SvrNtfQuit
    cases h : core.stop_ <;> simp
  refine ⟨h1 core, h2, h3, ?_⟩
  rw [h1, h2, h3]
  simp

/-- C28 fails as stated: an engine that is not stopping and has no pending
call answers `false`. -/
theorem C28_counterexample_not_stopping :
    (demoCore scenarioOption false none).context_ctrl_.PendingContextNum = 0 ∧
    (SvrStopReady (demoCore scenarioOption false none) 0 1000).1 = false := by
  decide
/-! ## C29: the crash-fingerprint watchdog of `OnRecv` -/

theorem OnRecv_dropped (s : RecvState) (codec : ReadCodec)
    (h : s.shm_pkg_head_ = some codec.triple) :
    OnRecv s (some codec)
      = ({ s with shm_pkg_head_ := some { gid := 0, seq_id := 0, cmd_id := 0 } }, RPC_SUCCESS) := by
  simp [OnRecv, CheckPkgMem, ClearPkgMem, h, ReadCodec.triple]

theorem dispatch_not_intercepted (s : RecvState) (codec : ReadCodec)
    (h : s.recv_intercept codec = false) : s.dispatch codec ≠ RecvAction.intercepted := by
  unfold RecvState.dispatch
  simp only [h]
  cases decide ((codec.flag &&& FLAG_RSP_PKG) ≠ 0) <;> cases s.has_scheduler <;> simp

theorem OnRecv_passed (s : RecvState) (head : CheckHead) (codec : ReadCodec)
    (h : s.shm_pkg_head_ = some head) (hne : head ≠ codec.triple) :
    OnRecv s (some codec)
      = ({ s with
            handled := s.handled ++ [(codec, s.dispatch codec, some codec.triple)]
            shm_pkg_head_ := some { gid := 0, seq_id := 0, cmd_id := 0 } }, RPC_SUCCESS) := by
  have hc : ¬ (head.gid = codec.gid ∧ head.seq_id = codec.seq_id ∧ head.cmd_id = codec.cmd) := by
    rintro ⟨h1, h2, h3⟩
    apply hne
    cases head
    simp only [ReadCodec.triple] at *
    simp [h1, h2, h3]
  simp only [OnRecv, CheckPkgMem, h, if_neg hc, ClearPkgMem, ReadCodec.triple]
  rfl

/-- C29 (amended).  With a crash-fingerprint region attached, `OnRecv` of a
decoded frame returns `RPC_SUCCESS` and leaves the region zeroed.  The frame
is dropped at the watchdog step, with nothing handed to the interceptors, the
scheduler or a handler, exactly when the region holds the triple
`(gid, seq_id, cmd)` of the frame, the all-zero triple included.  A frame
that is not dropped is processed once, while the region holds its triple, and
is dispatched unless a receive interceptor takes it.  After a drop the next
frame with the same triple is processed, provided the triple is not the
all-zero one. -/
theorem C29_watchdog_drops_matching_frame (s : RecvState) (head : CheckHead) (codec : ReadCodec)
    (h : s.shm_pkg_head_ = some head) :
    (OnRecv s (some codec)).2 = RPC_SUCCESS ∧
    (OnRecv s (some codec)).1.shm_pkg_head_ = some { gid := 0, seq_id := 0, cmd_id := 0 } ∧
    ((OnRecv s (some codec)).1.handled = s.handled ↔ head = codec.triple) ∧
    (head ≠ codec.triple →
      (OnRecv s (some codec)).1.handled
        = s.handled ++ [(codec, s.dispatch codec, some codec.triple)]) ∧
    (s.recv_intercept codec = false → s.dispatch codec ≠ RecvAction.intercepted) ∧
    (head = codec.triple → codec.triple ≠ { gid := 0, seq_id := 0, cmd_id := 0 } →
      (OnRecv (OnRecv s (some codec)).1 (some codec)).1.handled
        = s.handled ++ [(codec, s.dispatch codec, some codec.triple)]) ∧
    (head = codec.triple → codec.triple = { gid := 0, seq_id := 0, cmd_id := 0 } →
      (OnRecv (OnRecv s (some codec)).1 (some codec)).1.handled = s.handled) := by
  by_cases he : head = codec.triple
  · have hd := OnRecv_dropped s codec (he ▸ h)
    rw [hd]
    refine ⟨rfl, rfl, ⟨fun _ => he, fun _ => rfl⟩, fun hne => absurd he hne,
      dispatch_not_intercepted s codec, ?_, ?_⟩
    · intro _ hz
      rw [OnRecv_passed { s with shm_pkg_head_ := some { gid := 0, seq_id := 0, cmd_id := 0 } }
        { gid := 0, seq_id := 0, cmd_id := 0 } codec rfl (fun h0 => hz h0.symm)]
      rfl
    · intro _ hz
      rw [OnRecv_dropped { s with shm_pkg_head_ := some { gid := 0, seq_id := 0, cmd_id := 0 } }
        codec (by rw [hz])]
  · rw [OnRecv_passed s head codec h he]
    refine ⟨rfl, rfl, ⟨fun hh => ?_, fun hh => absurd hh he⟩, fun _ => rfl,
      dispatch_not_intercepted s codec, fun hh => absurd hh he, fun hh => absurd hh he⟩
    have hl := congrArg List.length hh
    simp at hl

/-- C29, scenario 4 of the spec: the region holds `{1, 2, 3}`; the frame with
that triple is dropped and the region cleared, the next frame with the same
triple is handed to `DealRequest` while the region holds `{1, 2, 3}`, and the
region is zero afterwards. -/
theorem C29_watchdog_drops_matching_frame_witness :
    (OnRecv crashedService (some { gid := 1, seq_id := 2, cmd := 3, flag := 0 })).1.handled = [] ∧
    (OnRecv crashedService (some { gid := 1, seq_id := 2, cmd := 3, flag := 0 })).1.shm_pkg_head_
      = some { gid := 0, seq_id := 0, cmd_id := 0 } ∧
    (OnRecv (OnRecv crashedService (some { gid := 1, seq_id := 2, cmd := 3, flag := 0 })).1
        (some { gid := 1, seq_id := 2, cmd := 3, flag := 0 })).1.handled
      = [({ gid := 1, seq_id := 2, cmd := 3, flag := 0 }, RecvAction.request,
          some { gid := 1, seq_id := 2, cmd_id := 3 })] ∧
    (OnRecv (OnRecv crashedService (some { gid := 1, seq_id := 2, cmd := 3, flag := 0 })).1
        (some { gid := 1, seq_id := 2, cmd := 3, flag := 0 })).1.shm_pkg_head_
      = some { gid := 0, seq_id := 0, cmd_id := 0 } :=
  ⟨(C29_watchdog_drops_matching_frame crashedService { gid := 1, seq_id := 2, cmd_id := 3 }
      { gid := 1, seq_id := 2, cmd := 3, flag := 0 } rfl).2.2.1.2 rfl,
   by decide, by decide, by decide⟩

/-- C29 fails as stated: with a zeroed region, which holds no stale non-zero
triple, a frame whose `gid`, `seq_id` and `cmd` are all 0 is dropped, and so
is the next frame with the same triple; no such frame is ever dispatched. -/
theorem C29_counterexample_zero_triple :
    cleanService.shm_pkg_head_ = some { gid := 0, seq_id := 0, cmd_id := 0 } ∧
    (OnRecv cleanService (some { gid := 0, seq_id := 0, cmd := 0, flag := 0 })).1.handled = [] ∧
    (OnRecv (OnRecv cleanService (some { gid := 0, seq_id := 0, cmd := 0, flag := 0 })).1
      (some { gid := 0, seq_id := 0, cmd := 0, flag := 0 })).1.handled = [] ∧
    (OnRecv cleanService (some { gid := 0, seq_id := 0, cmd := 7, flag := 0 })).1.handled
      = [({ gid := 0, seq_id := 0, cmd := 7, flag := 0 }, RecvAction.request,
          some { gid := 0, seq_id := 0, cmd_id := 7 })] := by
  decide

/-! ## C30: the length check of `SendMessage` -/

theorem threshold_le (max_buf_len : Nat) (h : max_buf_len < UINT32_MOD) :
    (max_buf_len * 85) % UINT32_MOD / 100 ≤ max_buf_len := by
  have hM : UINT32_MOD = 4294967296 := by decide
  rw [hM] at h ⊢
  have h1 := Nat.mod_lt (max_buf_len * 85) (show 0 < 4294967296 by decide)
  have h2 := Nat.mod_le (max_buf_len * 85) 4294967296
  generalize (max_buf_len * 85) % 4294967296 = t at *
  omega

/-- C30 (amended).  For every 32-bit payload length `len` and capacity
`max_buf_len`, `SendMessage` returns `RPC_SEND_MSG_TOO_LONG`, which is -4,
without invoking the serializer exactly when `len >= max_buf_len`; a payload
with `len < max_buf_len`, above 85% of the capacity or not, is serialized,
and the call then returns -4 only if the channel returned that code for the
frame.  Neither outcome depends on the 32-bit product `max_buf_len * 85`,
which only decides whether the message about 85% is logged. -/
theorem C30_send_message_length_check (len max_buf_len flag : Nat) (written : Option Nat)
    (intercept encode_ok : Bool) (send_ret broadcast_ret : Int)
    (hl : len < UINT32_MOD) (hm : max_buf_len < UINT32_MOD) :
    RPC_SEND_MSG_TOO_LONG = -4 ∧
    ((SendMessage len max_buf_len flag written intercept encode_ok send_ret
        broadcast_ret).serialized = false ↔ max_buf_len ≤ len) ∧
    (max_buf_len ≤ len →
      (SendMessage len max_buf_len flag written intercept encode_ok send_ret broadcast_ret).ret
        = RPC_SEND_MSG_TOO_LONG) ∧
    (len < max_buf_len →
      (SendMessage len max_buf_len flag written intercept encode_ok send_ret broadcast_ret).ret
        = RPC_SEND_MSG_TOO_LONG →
      (SendMessage len max_buf_len flag written intercept encode_ok send_ret
        broadcast_ret).handed_to_channel = true) ∧
    ((SendMessage len max_buf_len flag written intercept encode_ok send_ret
        broadcast_ret).warned = true ↔ (max_buf_len * 85) % UINT32_MOD / 100 ≤ len) := by
  have ht := threshold_le max_buf_len hm
  have hlen : len % UINT32_MOD = len := mod_id hl
  have hne1 : RPC_MSG_SERIALIZE_ERR ≠ RPC_SEND_MSG_TOO_LONG := by decide
  have hne2 : RPC_SUCCESS ≠ RPC_SEND_MSG_TOO_LONG := by decide
  have hne3 : RPC_SYS_ERR ≠ RPC_SEND_MSG_TOO_LONG := by decide
  refine ⟨rfl, ?_⟩
  unfold SendMessage
  simp only [hlen]
  by_cases hge : max_buf_len ≤ len
  · have hw : (max_buf_len * 85) % UINT32_MOD / 100 ≤ len := le_trans ht hge
    simp [hge, hw]
  · have hlt : len < max_buf_len := by omega
    simp only [ge_iff_le, hge, decide_False, Bool.and_false, Bool.false_eq_true, if_false]
    cases written with
    | none => simp [hne1, hge]
    | some n =>
      simp only
      split_ifs <;> simp_all

/-- C30, instances: with a capacity of 100 bytes, 100 bytes are rejected with
-4 and 99 bytes are sent with the message about 85% logged; with a capacity
of `2^32 - 1` bytes, where the 32-bit product wraps, 50000000 bytes are sent
as well, the message about 85% being logged for them. -/
theorem C30_send_message_length_check_witness :
    (SendMessage 100 100 0 (some 100) false true 0 0).ret = RPC_SEND_MSG_TOO_LONG ∧
    SendMessage 99 100 0 (some 99) false true 0 0
      = { ret := RPC_SUCCESS, warned := true, serialized := true, body_len := some 99,
          handed_to_channel := true } ∧
    SendMessage 50000000 4294967295 0 (some 50000000) false true 0 0
      = { ret := RPC_SUCCESS, warned := true, serialized := true, body_len := some 50000000,
          handed_to_channel := true } :=
  ⟨(C30_send_message_length_check 100 100 0 (some 100) false true 0 0 (by decide)
      (by decide)).2.2.1 (by decide),
   by decide, by decide⟩

/-- C30 fails as stated: a payload of exactly the capacity (`len = max_len =
100`, so it does not exceed `max_len`) is rejected with -4 without being
serialized. -/
theorem C30_counterexample_exact_fit :
    (100 : Nat) ≤ 100 ∧
    SendMessage 100 100 0 (some 100) false true 0 0
      = { ret := -4, warned := true, serialized := false, body_len := none,
          handed_to_channel := false } := by
  decide


/-! ## C31, C32: the cost buckets -/

theorem GetCostBucket_cases (d : Nat) :
    GetCostBucket d =
      if d ≤ 50 then 0 else if d ≤ 100 then 50 else if d ≤ 500 then 100
      else if d ≤ 1000 then 500 else if d ≤ 3000 then 1000 else if d ≤ 5000 then 3000
      else if d ≤ 60000 then 5000 else 60000 := by
  by_cases h0 : d = 0
  · subst h0
    decide
  · unfold GetCostBucket
    simp only [h0, if_false, kLowerCostTime]
    by_cases c1 : d ≤ 50
    · have hl : lowerBound d [0, 50, 100, 500, 1000, 3000, 5000, 60000] = 1 := by
        simp [lowerBound, (show 0 < d by omega), (show ¬ 50 < d by omega), (show ¬ 100 < d by omega), (show ¬ 500 < d by omega), (show ¬ 1000 < d by omega), (show ¬ 3000 < d by omega), (show ¬ 5000 < d by omega), (show ¬ 60000 < d by omega)]
      rw [hl, if_pos c1]
      rfl
    · by_cases c2 : d ≤ 100
      · have hl : lowerBound d [0, 50, 100, 500, 1000, 3000, 5000, 60000] = 2 := by
          simp [lowerBound, (show 0 < d by omega), (show 50 < d by omega), (show ¬ 100 < d by omega), (show ¬ 500 < d by omega), (show ¬ 1000 < d by omega), (show ¬ 3000 < d by omega), (show ¬ 5000 < d by omega), (show ¬ 60000 < d by omega)]
        rw [hl, if_neg c1, if_pos c2]
        rfl
      · by_cases c3 : d ≤ 500
        · have hl : lowerBound d [0, 50, 100, 500, 1000, 3000, 5000, 60000] = 3 := by
            simp [lowerBound, (show 0 < d by omega), (show 50 < d by omega), (show 100 < d by omega), (show ¬ 500 < d by omega), (show ¬ 1000 < d by omega), (show ¬ 3000 < d by omega), (show ¬ 5000 < d by omega), (show ¬ 60000 < d by omega)]
          rw [hl, if_neg c1, if_neg c2, if_pos c3]
          rfl
        · by_cases c4 : d ≤ 1000
          · have hl : lowerBound d [0, 50, 100, 500, 1000, 3000, 5000, 60000] = 4 := by
              simp [lowerBound, (show 0 < d by omega), (show 50 < d by omega), (show 100 < d by omega), (show 500 < d by omega), (show ¬ 1000 < d by omega), (show ¬ 3000 < d by omega), (show ¬ 5000 < d by omega), (show ¬ 60000 < d by omega)]
            rw [hl, if_neg c1, if_neg c2, if_neg c3, if_pos c4]
            rfl
          · by_cases c5 : d ≤ 3000
            · have hl : lowerBound d [0, 50, 100, 500, 1000, 3000, 5000, 60000] = 5 := by
                simp [lowerBound, (show 0 < d by omega), (show 50 < d by omega), (show 100 < d by omega), (show 500 < d by omega), (show 1000 < d by omega), (show ¬ 3000 < d by omega), (show ¬ 5000 < d by omega), (show ¬ 60000 < d by omega)]
              rw [hl, if_neg c1, if_neg c2, if_neg c3, if_neg c4, if_pos c5]
              rfl
            · by_cases c6 : d ≤ 5000
              · have hl : lowerBound d [0, 50, 100, 500, 1000, 3000, 5000, 60000] = 6 := by
                  simp [lowerBound, (show 0 < d by omega), (show 50 < d by omega), (show 100 < d by omega), (show 500 < d by omega), (show 1000 < d by omega), (show 3000 < d by omega), (show ¬ 5000 < d by omega), (show ¬ 60000 < d by omega)]
                rw [hl, if_neg c1, if_neg c2, if_neg c3, if_neg c4, if_neg c5, if_pos c6]
                rfl
              · by_cases c7 : d ≤ 60000
                · have hl : lowerBound d [0, 50, 100, 500, 1000, 3000, 5000, 60000] = 7 := by
                    simp [lowerBound, (show 0 < d by omega), (show 50 < d by omega), (show 100 < d by omega), (show 500 < d by omega), (show 1000 < d by omega), (show 3000 < d by omega), (show 5000 < d by omega), (show ¬ 60000 < d by omega)]
                  rw [hl, if_neg c1, if_neg c2, if_neg c3, if_neg c4, if_neg c5, if_neg c6, if_pos c7]
                  rfl
                · have hl : lowerBound d [0, 50, 100, 500, 1000, 3000, 5000, 60000] = 8 := by
                    simp [lowerBound, (show 0 < d by omega), (show 50 < d by omega), (show 100 < d by omega), (show 500 < d by omega), (show 1000 < d by omega), (show 3000 < d by omega), (show 5000 < d by omega), (show 60000 < d by omega)]
                  rw [hl, if_neg c1, if_neg c2, if_neg c3, if_neg c4, if_neg c5, if_neg c6, if_neg c7]
                  rfl

theorem largestEdgeBelow_cases (d : Nat) :
    largestEdgeBelow d =
      if d ≤ 50 then 0 else if d ≤ 100 then 50 else if d ≤ 500 then 100
      else if d ≤ 1000 then 500 else if d ≤ 3000 then 1000 else if d ≤ 5000 then 3000
      else if d ≤ 60000 then 5000 else 60000 := by
  by_cases h0 : d = 0
  · subst h0
    decide
  · unfold largestEdgeBelow kLowerCostTime
    by_cases c1 : d ≤ 50
    · have hl : List.filter (fun e => decide (e < d)) [0, 50, 100, 500, 1000, 3000, 5000, 60000] = [0] := by
        simp [List.filter, (show 0 < d by omega), (show ¬ 50 < d by omega), (show ¬ 100 < d by omega), (show ¬ 500 < d by omega), (show ¬ 1000 < d by omega), (show ¬ 3000 < d by omega), (show ¬ 5000 < d by omega), (show ¬ 60000 < d by omega)]
      rw [hl, if_pos c1]
      rfl
    · by_cases c2 : d ≤ 100
      · have hl : List.filter (fun e => decide (e < d)) [0, 50, 100, 500, 1000, 3000, 5000, 60000] = [0, 50] := by
          simp [List.filter, (show 0 < d by omega), (show 50 < d by omega), (show ¬ 100 < d by omega), (show ¬ 500 < d by omega), (show ¬ 1000 < d by omega), (show ¬ 3000 < d by omega), (show ¬ 5000 < d by omega), (show ¬ 60000 < d by omega)]
        rw [hl, if_neg c1, if_pos c2]
        rfl
      · by_cases c3 : d ≤ 500
        · have hl : List.filter (fun e => decide (e < d)) [0, 50, 100, 500, 1000, 3000, 5000, 60000] = [0, 50, 100] := by
            simp [List.filter, (show 0 < d by omega), (show 50 < d by omega), (show 100 < d by omega), (show ¬ 500 < d by omega), (show ¬ 1000 < d by omega), (show ¬ 3000 < d by omega), (show ¬ 5000 < d by omega), (show ¬ 60000 < d by omega)]
          rw [hl, if_neg c1, if_neg c2, if_pos c3]
          rfl
        · by_cases c4 : d ≤ 1000
          · have hl : List.filter (fun e => decide (e < d)) [0, 50, 100, 500, 1000, 3000, 5000, 60000] = [0, 50, 100, 500] := by
              simp [List.filter, (show 0 < d by omega), (show 50 < d by omega), (show 100 < d by omega), (show 500 < d by omega), (show ¬ 1000 < d by omega), (show ¬ 3000 < d by omega), (show ¬ 5000 < d by omega), (show ¬ 60000 < d by omega)]
            rw [hl, if_neg c1, if_neg c2, if_neg c3, if_pos c4]
            rfl
          · by_cases c5 : d ≤ 3000
            · have hl : List.filter (fun e => decide (e < d)) [0, 50, 100, 500, 1000, 3000, 5000, 60000] = [0, 50, 100, 500, 1000] := by
                simp [List.filter, (show 0 < d by omega), (show 50 < d by omega), (show 100 < d by omega), (show 500 < d by omega), (show 1000 < d by omega), (show ¬ 3000 < d by omega), (show ¬ 5000 < d by omega), (show ¬ 60000 < d by omega)]
              rw [hl, if_neg c1, if_neg c2, if_neg c3, if_neg c4, if_pos c5]
              rfl
            · by_cases c6 : d ≤ 5000
              · have hl : List.filter (fun e => decide (e < d)) [0, 50, 100, 500, 1000, 3000, 5000, 60000] = [0, 50, 100, 500, 1000, 3000] := by
                  simp [List.filter, (show 0 < d by omega), (show 50 < d by omega), (show 100 < d by omega), (show 500 < d by omega), (show 1000 < d by omega), (show 3000 < d by omega), (show ¬ 5000 < d by omega), (show ¬ 60000 < d by omega)]
                rw [hl, if_neg c1, if_neg c2, if_neg c3, if_neg c4, if_neg c5, if_pos c6]
                rfl
              · by_cases c7 : d ≤ 60000
                · have hl : List.filter (fun e => decide (e < d)) [0, 50, 100, 500, 1000, 3000, 5000, 60000] = [0, 50, 100, 500, 1000, 3000, 5000] := by
                    simp [List.filter, (show 0 < d by omega), (show 50 < d by omega), (show 100 < d by omega), (show 500 < d by omega), (show 1000 < d by omega), (show 3000 < d by omega), (show 5000 < d by omega), (show ¬ 60000 < d by omega)]
                  rw [hl, if_neg c1, if_neg c2, if_neg c3, if_neg c4, if_neg c5, if_neg c6, if_pos c7]
                  rfl
                · have hl : List.filter (fun e => decide (e < d)) [0, 50, 100, 500, 1000, 3000, 5000, 60000] = [0, 50, 100, 500, 1000, 3000, 5000, 60000] := by
                    simp [List.filter, (show 0 < d by omega), (show 50 < d by omega), (show 100 < d by omega), (show 500 < d by omega), (show 1000 < d by omega), (show 3000 < d by omega), (show 5000 < d by omega), (show 60000 < d by omega)]
                  rw [hl, if_neg c1, if_neg c2, if_neg c3, if_neg c4, if_neg c5, if_neg c6, if_neg c7]
                  rfl

theorem largestEdgeAtMost_succ (d : Nat) : largestEdgeAtMost d = largestEdgeBelow (d + 1) := by
  simp [largestEdgeAtMost, largestEdgeBelow, Nat.lt_succ_iff]

/-- C31 (amended).  For every duration `d`, with `d = 0` treated as `d = 1`,
`GetCostBucket(d)` is the largest edge that is at most `d - 1`, that is, the
largest edge strictly below `d`; it is the largest edge that is at most `d`
exactly when `d` is not itself one of the edges. -/
theorem C31_cost_bucket_edges (d : Nat) :
    GetCostBucket d = largestEdgeAtMost ((if d = 0 then 1 else d) - 1) ∧
    (GetCostBucket d = largestEdgeAtMost (if d = 0 then 1 else d) ↔
      (if d = 0 then 1 else d) ∉ kLowerCostTime) := by
  by_cases h0 : d = 0
  · subst h0
    decide
  · have h1 : d - 1 + 1 = d := by omega
    simp only [h0, if_false]
    rw [largestEdgeAtMost_succ, largestEdgeAtMost_succ, h1]
    refine ⟨by rw [GetCostBucket_cases, largestEdgeBelow_cases], ?_⟩
    by_cases hmem : d ∈ kLowerCostTime
    · simp only [hmem, not_true_eq_false, iff_false]
      simp only [kLowerCostTime, List.mem_cons, List.mem_singleton, List.not_mem_nil,
        or_false] at hmem
      rcases hmem with e | e | e | e | e | e | e | e <;> subst e <;>
        first | exact absurd rfl h0 | decide
    · simp only [hmem, not_false_eq_true, iff_true]
      simp only [kLowerCostTime, List.mem_cons, List.mem_singleton, List.not_mem_nil,
        or_false, not_or] at hmem
      rw [GetCostBucket_cases, largestEdgeBelow_cases]
      simp only [show (d + 1 ≤ 50 ↔ d ≤ 50) by omega, show (d + 1 ≤ 100 ↔ d ≤ 100) by omega,
        show (d + 1 ≤ 500 ↔ d ≤ 500) by omega, show (d + 1 ≤ 1000 ↔ d ≤ 1000) by omega,
        show (d + 1 ≤ 3000 ↔ d ≤ 3000) by omega, show (d + 1 ≤ 5000 ↔ d ≤ 5000) by omega,
        show (d + 1 ≤ 60000 ↔ d ≤ 60000) by omega]

/-- C31 fails as stated: `GetCostBucket(50)` is 0 and `GetCostBucket(60000)`
is 5000, while the largest edges that are at most 50 and 60000 are 50 and
60000. -/
theorem C31_counterexample_duration_on_edge :
    GetCostBucket 50 = 0 ∧ largestEdgeAtMost 50 = 50 ∧
    GetCostBucket 60000 = 5000 ∧ largestEdgeAtMost 60000 = 60000 := by
  decide

/-- C32.  For every duration `d >= 1`, `GetCostBucket(d)` is the largest
edge of 0, 50, 100, 500, 1000, 3000, 5000, 60000 that is strictly smaller
than `d`: it is an edge below `d`, and no edge below `d` is larger; and
`GetCostBucket(0) = GetCostBucket(1) = 0`. -/
theorem C32_cost_bucket_strictly_below (d : Nat) (h : 1 ≤ d) :
    GetCostBucket d = largestEdgeBelow d ∧
    GetCostBucket d ∈ kLowerCostTime ∧ GetCostBucket d < d ∧
    (∀ e ∈ kLowerCostTime, e < d → e ≤ GetCostBucket d) ∧
    GetCostBucket 0 = 0 ∧ GetCostBucket 1 = 0 := by
  refine ⟨by rw [GetCostBucket_cases, largestEdgeBelow_cases], ?_, ?_, ?_, by decide, by decide⟩
  · rw [GetCostBucket_cases]
    simp only [kLowerCostTime, List.mem_cons, List.mem_singleton, List.not_mem_nil, or_false]
    split_ifs <;> simp
  · rw [GetCostBucket_cases]
    split_ifs <;> omega
  · intro e he hlt
    rw [GetCostBucket_cases]
    simp only [kLowerCostTime, List.mem_cons, List.mem_singleton, List.not_mem_nil, or_false] at he
    split_ifs <;> omega

/-- C32, the values of the test `ServerStatisticsTest.GetCostBucket`. -/
theorem C32_cost_bucket_strictly_below_witness :
    (1 : Nat) ≤ 51 ∧ GetCostBucket 51 = largestEdgeBelow 51 ∧
    GetCostBucket 1 = 0 ∧ GetCostBucket 50 = 0 ∧ GetCostBucket 51 = 50 ∧
    GetCostBucket 99 = 50 ∧ GetCostBucket 100 = 50 ∧ GetCostBucket 500 = 100 ∧
    GetCostBucket 999 = 500 ∧ GetCostBucket 1000 = 500 ∧ GetCostBucket 60000 = 5000 :=
  ⟨by decide, (C32_cost_bucket_strictly_below 51 (by decide)).1, by decide, by decide, by decide,
    by decide, by decide, by decide, by decide, by decide, by decide⟩

/-! ## C37: the ids of `IDGenerator` -/

theorem Init_base (s : Nat) (hs : s < UINT32_MOD) :
    (IDGenerator.Init s).base_seq_id_ = s * 2 ^ 32 := by
  have hs1 : s < 2 ^ 32 := hs
  have h1 : s * 2 ^ 32 % UINT64_MOD = s * 2 ^ 32 := by
    apply Nat.mod_eq_of_lt
    show s * 2 ^ 32 < 2 ^ 64
    omega
  show (s * 2 ^ 32 % UINT64_MOD) &&& 0xFFFFFFFF00000000 = s * 2 ^ 32
  rw [h1]
  have hmask : (0xFFFFFFFF00000000 : Nat) = (2 ^ 32 - 1) <<< 32 := by decide
  rw [hmask, ← Nat.shiftLeft_eq]
  apply Nat.eq_of_testBit_eq
  intro i
  rw [Nat.testBit_and, Nat.testBit_shiftLeft, Nat.testBit_shiftLeft, Nat.testBit_two_pow_sub_one]
  by_cases h32 : i - 32 < 32
  · by_cases hi : 32 ≤ i <;> simp [hi, h32]
  · have hlt : s < 2 ^ (i - 32) :=
      lt_of_lt_of_le hs1 (Nat.pow_le_pow_right (by decide) (by omega))
    simp [Nat.testBit_lt_two_pow hlt]
theorem generate_range (n : Nat) :
    ∀ g : IDGenerator, g.base_seq_id_ + n < UINT64_MOD →
      g.generate n = List.range' (g.base_seq_id_ + 1) n := by
  induction n with
  | zero => intro g _; rfl
  | succ n ih =>
    intro g h
    have h1 : (g.base_seq_id_ + 1) % UINT64_MOD = g.base_seq_id_ + 1 := mod_id (by omega)
    have h2 : g.GenerateSeqID.1.base_seq_id_ = g.base_seq_id_ + 1 := h1
    have h3 : g.GenerateSeqID.2 = g.base_seq_id_ + 1 := h1
    show g.GenerateSeqID.2 :: IDGenerator.generate g.GenerateSeqID.1 n = _
    rw [ih g.GenerateSeqID.1 (by rw [h2]; omega), h2, h3, List.range'_succ]

/-- C37.  After `Init` with the clock at epoch second `s < 2^32`, the first
`n < 2^32` calls of `GenerateSeqID` return `s * 2^32 + 1`, ..., `s * 2^32 + n`
in this order: the `k`-th id has `s` in its high 32 bits and `k` in its low 32
bits; the ids are strictly increasing, pairwise distinct and none is 0. -/
theorem C37_seq_id_layout (s n : Nat) (hs : s < UINT32_MOD) (hn : n < UINT32_MOD) :
    (IDGenerator.Init s).generate n = (List.range' 1 n).map (fun k => s * 2 ^ 32 + k) ∧
    (∀ k, 1 ≤ k → k ≤ n →
      ((IDGenerator.Init s).generate n)[k - 1]? = some (s * 2 ^ 32 + k) ∧
      (s * 2 ^ 32 + k) / 2 ^ 32 = s ∧ (s * 2 ^ 32 + k) % 2 ^ 32 = k) ∧
    ((IDGenerator.Init s).generate n).Pairwise (fun a b => a < b) ∧
    ((IDGenerator.Init s).generate n).Nodup ∧
    0 ∉ (IDGenerator.Init s).generate n := by
  have hs1 : s < 2 ^ 32 := hs
  have hn1 : n < 2 ^ 32 := hn
  have hb := Init_base s hs
  have hg : (IDGenerator.Init s).generate n = List.range' (s * 2 ^ 32 + 1) n := by
    rw [generate_range n _ (by rw [hb]; show s * 2 ^ 32 + n < 2 ^ 64; omega), hb]
  have hpw : (List.range' (s * 2 ^ 32 + 1) n).Pairwise (fun a b => a < b) :=
    List.pairwise_lt_range' _ _
  rw [hg]
  refine ⟨?_, ?_, hpw, ?_, ?_⟩
  · rw [List.map_add_range', Nat.add_comm]
  · intro k hk1 hk2
    refine ⟨?_, ?_, ?_⟩
    · rw [List.getElem?_range' _ _ (by omega),
        show s * 2 ^ 32 + 1 + 1 * (k - 1) = s * 2 ^ 32 + k by omega]
    · omega
    · omega
  · exact hpw.imp (fun h => Nat.ne_of_lt h)
  · rw [List.mem_range']
    rintro ⟨i, _, h⟩
    omega

/-- C37, an instance: the clock at second 1700000000, three ids. -/
theorem C37_seq_id_layout_witness :
    (1700000000 : Nat) < UINT32_MOD ∧ (3 : Nat) < UINT32_MOD ∧
    (IDGenerator.Init 1700000000).generate 3
      = [7301444403200000001, 7301444403200000002, 7301444403200000003] ∧
    (7301444403200000002 : Nat) / 2 ^ 32 = 1700000000 ∧
    (7301444403200000002 : Nat) % 2 ^ 32 = 2 :=
  ⟨by decide, by decide,
   (C37_seq_id_layout 1700000000 3 (by decide) (by decide)).1.trans (by decide),
   by decide, by decide⟩
/-! ## C33: attaching a `FixedMemPool` to an initialised region -/

theorem init_check_region (region : FixedMemPool) (size max_node_num node_size sizeof_T : Nat) :
    (FixedMemPool.init region size max_node_num node_size sizeof_T true).2 = region := by
  unfold FixedMemPool.init
  simp only [if_true]
  split_ifs <;> rfl

theorem init_check_iff (region : FixedMemPool) (size max_node_num node_size sizeof_T : Nat) :
    (FixedMemPool.init region size max_node_num node_size sizeof_T true).1 = true ↔
      (region.mem ≠ 0 ∧ sizeof_T ≤ node_size ∧ calc_need_size max_node_num node_size ≤ size ∧
        region.m_header.magic_num = HEADER_MAGIC_NUM ∧ region.m_header.version = VERSION ∧
        region.m_header.mem_size = calc_need_size max_node_num node_size ∧
        region.m_header.max_num = max_node_num ∧ region.m_header.raw_t_size = node_size ∧
        region.m_header.t_size = align_bytes node_size) := by
  unfold FixedMemPool.init
  simp only [if_true]
  split_ifs with h1 h2 h3
  · simp only [Bool.false_eq_true, false_iff]
    rintro ⟨a, b, _⟩
    rcases h1 with h | h
    · exact a h
    · omega
  · simp only [Bool.false_eq_true, false_iff]
    rintro ⟨_, _, c, _⟩
    omega
  · simp only [Bool.false_eq_true, false_iff]
    rintro ⟨_, _, _, a, b, c, d, e, f⟩
    rcases h3 with h | h | h | h | h | h
    · exact h a
    · exact h b
    · exact h c
    · exact h d
    · exact h e
    · exact h f
  · simp only [not_or, ne_eq, not_not, not_lt] at h1 h2 h3
    simp only [true_iff]
    exact ⟨h1.1, h1.2, by omega, h3.1, h3.2.1, h3.2.2.1, h3.2.2.2.1, h3.2.2.2.2.1, h3.2.2.2.2.2⟩

theorem init_fresh_ok (region : FixedMemPool) (size max_node_num node_size sizeof_T : Nat)
    (hm : region.mem ≠ 0) (hn : sizeof_T ≤ node_size)
    (hs : calc_need_size max_node_num node_size ≤ size) :
    (FixedMemPool.init region size max_node_num node_size sizeof_T false).1 = true ∧
    (FixedMemPool.init region size max_node_num node_size sizeof_T false).2
      = region.init_header (calc_need_size max_node_num node_size) max_node_num
          (align_bytes node_size) node_size := by
  simp only [FixedMemPool.init, Bool.false_eq_true, if_false]
  split_ifs with h1 h2 h3
  · rcases h1 with h | h
    · exact absurd h hm
    · omega
  · omega
  · exfalso
    rcases h3 with h | h | h | h | h | h <;> exact h rfl
  · exact ⟨rfl, rfl⟩

/-- The fields of the header that `init` compares, and the address of the
region, are the same in both pools. -/
theorem alloc_layout (pool : FixedMemPool) :
    pool.alloc.1.mem = pool.mem ∧
    pool.alloc.1.m_header.magic_num = pool.m_header.magic_num ∧
    pool.alloc.1.m_header.version = pool.m_header.version ∧
    pool.alloc.1.m_header.mem_size = pool.m_header.mem_size ∧
    pool.alloc.1.m_header.max_num = pool.m_header.max_num ∧
    pool.alloc.1.m_header.raw_t_size = pool.m_header.raw_t_size ∧
    pool.alloc.1.m_header.t_size = pool.m_header.t_size := by
  unfold FixedMemPool.alloc
  simp only
  split_ifs <;> exact ⟨rfl, rfl, rfl, rfl, rfl, rfl, rfl⟩

theorem free_layout (pool : FixedMemPool) (p : Nat) :
    (pool.free p).1.mem = pool.mem ∧
    (pool.free p).1.m_header.magic_num = pool.m_header.magic_num ∧
    (pool.free p).1.m_header.version = pool.m_header.version ∧
    (pool.free p).1.m_header.mem_size = pool.m_header.mem_size ∧
    (pool.free p).1.m_header.max_num = pool.m_header.max_num ∧
    (pool.free p).1.m_header.raw_t_size = pool.m_header.raw_t_size ∧
    (pool.free p).1.m_header.t_size = pool.m_header.t_size := by
  unfold FixedMemPool.free
  split_ifs <;> exact ⟨rfl, rfl, rfl, rfl, rfl, rfl, rfl⟩

theorem runPool_layout (ops : List POp) :
    ∀ pool : FixedMemPool,
      (runPool ops pool).1.mem = pool.mem ∧
      (runPool ops pool).1.m_header.magic_num = pool.m_header.magic_num ∧
      (runPool ops pool).1.m_header.version = pool.m_header.version ∧
      (runPool ops pool).1.m_header.mem_size = pool.m_header.mem_size ∧
      (runPool ops pool).1.m_header.max_num = pool.m_header.max_num ∧
      (runPool ops pool).1.m_header.raw_t_size = pool.m_header.raw_t_size ∧
      (runPool ops pool).1.m_header.t_size = pool.m_header.t_size := by
  induction ops with
  | nil => intro pool; exact ⟨rfl, rfl, rfl, rfl, rfl, rfl, rfl⟩
  | cons op ops ih =>
    intro pool
    cases op with
    | alloc =>
      obtain ⟨a0, a1, a2, a3, a4, a5, a6⟩ := alloc_layout pool
      obtain ⟨b0, b1, b2, b3, b4, b5, b6⟩ := ih pool.alloc.1
      exact ⟨b0.trans a0, b1.trans a1, b2.trans a2, b3.trans a3, b4.trans a4, b5.trans a5,
        b6.trans a6⟩
    | free p =>
      obtain ⟨a0, a1, a2, a3, a4, a5, a6⟩ := free_layout pool p
      obtain ⟨b0, b1, b2, b3, b4, b5, b6⟩ := ih (pool.free p).1
      exact ⟨b0.trans a0, b1.trans a1, b2.trans a2, b3.trans a3, b4.trans a4, b5.trans a5,
        b6.trans a6⟩

theorem init_fresh_args (region : FixedMemPool) (size max_node_num node_size sizeof_T : Nat)
    (h : (FixedMemPool.init region size max_node_num node_size sizeof_T false).1 = true) :
    region.mem ≠ 0 ∧ sizeof_T ≤ node_size ∧ calc_need_size max_node_num node_size ≤ size := by
  simp only [FixedMemPool.init, Bool.false_eq_true, if_false] at h
  split_ifs at h with h1 h2 h3
  · simp only [not_or, ne_eq, not_lt] at h1 h2
    exact ⟨h1.1, h1.2, by omega⟩

/-- C33 (amended).  `init` with `check = true` returns `true` exactly when
the region is not null, `node_size >= sizeof(T)`, `size` is at least
`calc_need_size(max_node_num, node_size)`, and the header found in the region
has the magic number and the version of the class and its `mem_size`,
`max_num`, `raw_t_size` and `t_size` are
`calc_need_size(max_node_num, node_size)`, `max_node_num`, `node_size` and
`align_bytes(node_size)`.  Whatever it returns, the region is left as found.
When `init` with `check = false` has returned `true` for a region, that
region, used by any sequence of `alloc` and `free` calls, is accepted by
`init` with `check = true` and the same arguments, and the pool so attached
is in the state that the calls left, with the same outstanding slots. -/
theorem C33_check_validates_header (region : FixedMemPool)
    (size max_node_num node_size sizeof_T : Nat) (ops : List POp) (fuel : Nat) :
    ((FixedMemPool.init region size max_node_num node_size sizeof_T true).1 = true ↔
      (region.mem ≠ 0 ∧ sizeof_T ≤ node_size ∧ calc_need_size max_node_num node_size ≤ size ∧
        region.m_header.magic_num = HEADER_MAGIC_NUM ∧ region.m_header.version = VERSION ∧
        region.m_header.mem_size = calc_need_size max_node_num node_size ∧
        region.m_header.max_num = max_node_num ∧ region.m_header.raw_t_size = node_size ∧
        region.m_header.t_size = align_bytes node_size)) ∧
    (FixedMemPool.init region size max_node_num node_size sizeof_T true).2 = region ∧
    ((FixedMemPool.init region size max_node_num node_size sizeof_T false).1 = true →
      (FixedMemPool.init
          (runPool ops (FixedMemPool.init region size max_node_num node_size sizeof_T false).2).1
          size max_node_num node_size sizeof_T true).1 = true ∧
      (FixedMemPool.init
          (runPool ops (FixedMemPool.init region size max_node_num node_size sizeof_T false).2).1
          size max_node_num node_size sizeof_T true).2
        = (runPool ops
            (FixedMemPool.init region size max_node_num node_size sizeof_T false).2).1 ∧
      (FixedMemPool.init
          (runPool ops (FixedMemPool.init region size max_node_num node_size sizeof_T false).2).1
          size max_node_num node_size sizeof_T true).2.iterate fuel
        = (runPool ops
            (FixedMemPool.init region size max_node_num node_size sizeof_T false).2).1.iterate
            fuel) := by
  refine ⟨init_check_iff _ _ _ _ _, init_check_region _ _ _ _ _, ?_⟩
  intro hinit
  obtain ⟨hm, hn, hs⟩ := init_fresh_args region size max_node_num node_size sizeof_T hinit
  have hfresh := init_fresh_ok region size max_node_num node_size sizeof_T hm hn hs
  refine ⟨?_, init_check_region _ _ _ _ _, ?_⟩
  · rw [init_check_iff]
    obtain ⟨a0, a1, a2, a3, a4, a5, a6⟩ := runPool_layout ops
      (FixedMemPool.init region size max_node_num node_size sizeof_T false).2
    rw [a0, a1, a2, a3, a4, a5, a6]
    have hh := hfresh.2
    rw [hh]
    exact ⟨hm, hn, hs, rfl, rfl, rfl, rfl, rfl, rfl⟩
  · rw [init_check_region]

/-- C33, instances: a region of zero bytes is refused by `init` with
`check = true` and left as found; the same region initialised with
`check = false` for three 16-byte slots and used (two allocations, the first
slot freed) is accepted with the same arguments and shows the one
outstanding slot; it is refused for four slots. -/
theorem C33_check_validates_header_witness :
    (FixedMemPool.init rawRegion 4096 3 16 16 true).1 = false ∧
    (FixedMemPool.init rawRegion 4096 3 16 16 false).1 = true ∧
    (FixedMemPool.init
        (runPool [POp.alloc, POp.alloc, POp.free 4248]
          (FixedMemPool.init rawRegion 4096 3 16 16 false).2).1 4096 3 16 16 true).1 = true ∧
    (FixedMemPool.init
        (runPool [POp.alloc, POp.alloc, POp.free 4248]
          (FixedMemPool.init rawRegion 4096 3 16 16 false).2).1 4096 3 16 16 true).2.iterate 4
      = some [4264] ∧
    (FixedMemPool.init
        (runPool [POp.alloc, POp.alloc, POp.free 4248]
          (FixedMemPool.init rawRegion 4096 3 16 16 false).2).1 4096 4 16 16 true).1 = false :=
  ⟨by decide, by decide,
   ((C33_check_validates_header rawRegion 4096 3 16 16 [POp.alloc, POp.alloc, POp.free 4248] 4).2.2
      (by decide)).1,
   by decide, by decide⟩

/-- C33 fails as stated: the region initialised for three 16-byte slots
carries the magic number, the version and the four sizes that the arguments
`(3, 16)` imply, `calc_need_size(3, 16)` being 200 bytes; yet `init` with
`check = true`, three slots of 16 bytes and `size = 100` returns `false`,
because `need_size > size` is tested before the header is read.  With
`size = 200` the same region is accepted. -/
theorem C33_counterexample_size_below_need :
    calc_need_size 3 16 = 200 ∧
    (FixedMemPool.init rawRegion 4096 3 16 16 false).2.mem ≠ 0 ∧
    (FixedMemPool.init rawRegion 4096 3 16 16 false).2.m_header.magic_num = HEADER_MAGIC_NUM ∧
    (FixedMemPool.init rawRegion 4096 3 16 16 false).2.m_header.version = VERSION ∧
    (FixedMemPool.init rawRegion 4096 3 16 16 false).2.m_header.mem_size = calc_need_size 3 16 ∧
    (FixedMemPool.init rawRegion 4096 3 16 16 false).2.m_header.max_num = 3 ∧
    (FixedMemPool.init rawRegion 4096 3 16 16 false).2.m_header.raw_t_size = 16 ∧
    (FixedMemPool.init rawRegion 4096 3 16 16 false).2.m_header.t_size = align_bytes 16 ∧
    (FixedMemPool.init (FixedMemPool.init rawRegion 4096 3 16 16 false).2 100 3 16 16 true).1
      = false ∧
    (FixedMemPool.init (FixedMemPool.init rawRegion 4096 3 16 16 false).2 200 3 16 16 true).1
      = true := by
  decide

/-! ## C40: the size test of `HashMemPool::init` -/

/-- C40 (what the code does).  For a non-null region and
`sizeof(InnerNode) <= sizeof(HashNode)`, `init` with `check = false` returns
`true` exactly when `mem_size` is at most `calc_mem_size(max_node,
bucket_num)`: the comparison is the wrong way round, so that every region
smaller than needed is accepted and every region larger than needed is
refused. -/
theorem C40_init_accepts_short_regions (region : HashMemPool)
    (mem max_node bucket_num mem_size sizeof_InnerNode sizeof_HashNode : Nat)
    (hm : mem ≠ 0) (hn : sizeof_InnerNode ≤ sizeof_HashNode) :
    (HashMemPool.init region mem max_node bucket_num mem_size false sizeof_InnerNode
        sizeof_HashNode).1 = true ↔
      mem_size ≤ calc_mem_size max_node bucket_num sizeof_HashNode := by
  unfold HashMemPool.init
  by_cases h : calc_mem_size max_node bucket_num sizeof_HashNode < mem_size
  · rw [if_pos (Or.inr h)]
    simp only [Bool.false_eq_true, false_iff]
    omega
  · rw [if_neg (by rintro (h1 | h1); exact hm h1; exact h h1)]
    have hi := (init_fresh_ok
      { region.m_pool with mem := mem + SIZEOF_HASH_HEADER + 8 * bucket_num }
      (calc_need_size max_node sizeof_HashNode) max_node sizeof_HashNode sizeof_InnerNode
      (by show mem + SIZEOF_HASH_HEADER + 8 * bucket_num ≠ 0; omega) hn (Nat.le_refl _)).1
    rw [if_neg (by rintro ⟨h1, _⟩; cases h1)]
    constructor
    · intro _
      omega
    · intro _
      exact hi

/-- C40, the failing inputs: a pool of three 16-byte nodes and two buckets
needs 232 bytes.  `init` returns `true` for a region of 100 bytes at address
4096, and the first slot of the pool is then at address 4096 + 184, beyond
the region; it returns `true` for 232 bytes and `false` for 4096 bytes. -/
theorem C40_init_accepts_short_regions_witness :
    calc_mem_size 3 2 16 = 232 ∧
    (HashMemPool.init rawHash 4096 3 2 100 false 8 16).1 = true ∧
    (HashMemPool.init rawHash 4096 3 2 100 false 8 16).2.m_pool.get_value 1 = 4096 + 184 ∧
    (HashMemPool.init rawHash 4096 3 2 232 false 8 16).1 = true ∧
    (HashMemPool.init rawHash 4096 3 2 4096 false 8 16).1 = false :=
  ⟨by decide,
   (C40_init_accepts_short_regions rawHash 4096 3 2 100 8 16 (by decide) (by decide)).2
      (by decide),
   by decide, by decide, by decide⟩
/-! ## Circular windows -/

theorem mod_add_inj (n s i j : Nat) (hi : i < n) (hj : j < n)
    (h : (s + i) % n = (s + j) % n) : i = j := by
  have h1 : Nat.ModEq n (s + i) (s + j) := h
  exact Nat.ModEq.eq_of_lt_of_lt (Nat.ModEq.add_left_cancel' s h1) hi hj

theorem window_nil {α : Type} (buf : Nat → α) (n start : Nat) : Window buf n start [] := by
  intro i hi
  simp at hi

theorem window_push {α : Type} (buf : Nat → α) (n start : Nat) (l : List α) (v : α)
    (w : Window buf n start l) (hl : l.length < n) :
    Window (arraySet buf ((start + l.length) % n) v) n start (l ++ [v]) := by
  intro i hi
  rw [List.length_append, List.length_singleton] at hi
  by_cases h : i < l.length
  · rw [List.getElem?_append_left h, w i h]
    have hne : (start + i) % n ≠ (start + l.length) % n := by
      intro e
      have := mod_add_inj n start i l.length (by omega) hl e
      omega
    rw [arraySet_other _ _ _ _ hne]
  · have hi2 : i = l.length := by omega
    subst hi2
    rw [List.getElem?_append_right (Nat.le_refl _), Nat.sub_self, arraySet_self]
    rfl

theorem window_pop {α : Type} (buf : Nat → α) (n start : Nat) (x : α) (l : List α)
    (w : Window buf n start (x :: l)) :
    Window buf n ((start + 1) % n) l ∧ buf (start % n) = x := by
  constructor
  · intro i hi
    have := w (i + 1) (by simp; omega)
    rw [List.getElem?_cons_succ] at this
    rw [this, Nat.mod_add_mod, Nat.add_assoc, Nat.add_comm 1 i]
  · have := w 0 (by simp)
    simp only [List.getElem?_cons_zero, Nat.add_zero, Option.some.injEq] at this
    exact this.symm

theorem window_get {α : Type} (buf : Nat → α) (n start : Nat) (l : List α)
    (w : Window buf n start l) (i : Nat) (hi : i < l.length) :
    buf ((start + i) % n) = l.get ⟨i, hi⟩ := by
  have := w i hi
  rw [List.getElem?_eq_getElem hi] at this
  exact (Option.some.inj this).symm
/-! ## C34: `FixedRingBuf` is a bounded FIFO queue -/

theorem fixIntMod_facts (n : Nat) (h : n < UINT64_MOD) :
    n < fixIntMod n ∧ fixIntMod n ≤ UINT64_MOD := by
  have hU : UINT64_MOD = 2 ^ 64 := rfl
  rw [hU] at h ⊢
  unfold fixIntMod
  split_ifs <;> omega

theorem FixedInv.moduli {α : Type} {s : FixedRingBuf α} {l : List α} (h : FixedInv s l) :
    s.MAX_SIZE < s.INT_MOD ∧ s.INT_MOD ≤ s.PROMOTED_MOD ∧ s.PROMOTED_MOD ≤ UINT64_MOD := by
  have hs := h.small
  have hp := h.pos
  have hU : UINT64_MOD = 2 ^ 64 := rfl
  have hU32 : UINT32_MOD = 2 ^ 32 := rfl
  have hI : fixIntMod s.MAX_SIZE ≤ 2 ^ 64 := by
    unfold fixIntMod
    split_ifs <;> omega
  have hP : s.PROMOTED_MOD ≤ 2 ^ 64 := by
    show max (fixIntMod s.MAX_SIZE) UINT32_MOD ≤ 2 ^ 64
    rw [hU32]
    exact max_le hI (by omega)
  have hN : s.MAX_SIZE < UINT64_MOD := by
    rw [hU]
    omega
  exact ⟨(fixIntMod_facts _ hN).1, le_max_left _ _, by rw [hU]; exact hP⟩

theorem fresh_inv {α : Type} (n : Nat) (buf : Nat → α) (hn : 0 < n)
    (hs : n + n ≤ max (fixIntMod n) UINT32_MOD) : FixedInv (FixedRingBuf.fresh n buf) [] :=
  ⟨hn, hs, hn, rfl, Nat.zero_le _, (Nat.mod_eq_of_lt hn).symm, window_nil _ _ _⟩

theorem pop_max_size {α : Type} (s : FixedRingBuf α) : s.pop.MAX_SIZE = s.MAX_SIZE := by
  unfold FixedRingBuf.pop
  split_ifs <;> rfl

theorem fixed_pop_nil {α : Type} (s : FixedRingBuf α) (h : FixedInv s []) : s.pop = s := by
  have hu : s.m_used_num = 0 := h.used
  unfold FixedRingBuf.pop FixedRingBuf.isEmpty
  simp [hu, h.pos]

theorem fixed_pop_cons {α : Type} (s : FixedRingBuf α) (x : α) (l : List α)
    (h : FixedInv s (x :: l)) :
    s.pop = { s with m_start := (s.m_start + 1) % s.MAX_SIZE, m_used_num := l.length } ∧
    FixedInv s.pop l := by
  obtain ⟨hNI, hIP, hP64⟩ := h.moduli
  have hu : s.m_used_num = l.length + 1 := h.used
  have hle : l.length + 1 ≤ s.MAX_SIZE := h.le
  have hst := h.start
  have hsm := h.small
  have hmod : (s.m_start + 1) % s.MAX_SIZE < s.MAX_SIZE := Nat.mod_lt _ h.pos
  have e : s.pop = { s with m_start := (s.m_start + 1) % s.MAX_SIZE, m_used_num := l.length } := by
    have hemp : s.isEmpty = false := by
      unfold FixedRingBuf.isEmpty
      simp [hu]
    unfold FixedRingBuf.pop
    rw [hemp]
    simp only [Bool.not_false, if_true]
    show ({ s with
        m_start := (s.m_start + 1) % s.PROMOTED_MOD % s.MAX_SIZE % s.INT_MOD
        m_used_num := (s.m_used_num + s.PROMOTED_MOD - 1) % s.PROMOTED_MOD % s.INT_MOD }
      : FixedRingBuf α) = _
    have e1 : (s.m_start + 1) % s.PROMOTED_MOD % s.MAX_SIZE % s.INT_MOD
        = (s.m_start + 1) % s.MAX_SIZE := by
      rw [mod_id (show s.m_start + 1 < s.PROMOTED_MOD by omega), mod_id (by omega)]
    have e2 : (s.m_used_num + s.PROMOTED_MOD - 1) % s.PROMOTED_MOD % s.INT_MOD = l.length := by
      rw [hu, show l.length + 1 + s.PROMOTED_MOD - 1 = l.length + s.PROMOTED_MOD by omega,
        Nat.add_mod_right, mod_id (show l.length < s.PROMOTED_MOD by omega), mod_id (by omega)]
    rw [e1, e2]
  refine ⟨e, ?_⟩
  rw [e]
  refine ⟨h.pos, h.small, hmod, rfl, Nat.le_of_succ_le hle, ?_, (window_pop _ _ _ _ _ h.win).1⟩
  show s.m_end = ((s.m_start + 1) % s.MAX_SIZE + l.length) % s.MAX_SIZE
  rw [h.stop, Nat.mod_add_mod]
  congr 1
  simp only [List.length_cons]
  omega

theorem fixed_push_room {α : Type} (s : FixedRingBuf α) (l : List α) (v : α) (ow : Bool)
    (h : FixedInv s l) (hl : l.length < s.MAX_SIZE) :
    (s.push v ow).2 = true ∧ FixedInv (s.push v ow).1 (l ++ [v]) := by
  obtain ⟨hNI, hIP, hP64⟩ := h.moduli
  have hu : s.m_used_num = l.length := h.used
  have hsm := h.small
  have hend : s.m_end < s.MAX_SIZE := by
    rw [h.stop]
    exact Nat.mod_lt _ h.pos
  have hfull : s.full = false := by
    unfold FixedRingBuf.full
    simp
    omega
  have hmod : (s.m_end + 1) % s.MAX_SIZE < s.MAX_SIZE := Nat.mod_lt _ h.pos
  have e : s.push v ow = ({ s with
      m_buf := arraySet s.m_buf s.m_end v
      m_end := (s.m_end + 1) % s.MAX_SIZE
      m_used_num := l.length + 1 }, true) := by
    unfold FixedRingBuf.push
    rw [hfull]
    simp only [Bool.false_and, Bool.false_eq_true, if_false]
    show (({ s with
        m_buf := arraySet s.m_buf s.m_end v
        m_end := (s.m_end + 1) % s.PROMOTED_MOD % s.MAX_SIZE % s.INT_MOD
        m_used_num := (s.m_used_num + 1) % s.PROMOTED_MOD % s.INT_MOD } : FixedRingBuf α), true)
      = _
    have e1 : (s.m_end + 1) % s.PROMOTED_MOD % s.MAX_SIZE % s.INT_MOD
        = (s.m_end + 1) % s.MAX_SIZE := by
      rw [mod_id (show s.m_end + 1 < s.PROMOTED_MOD by omega), mod_id (by omega)]
    have e2 : (s.m_used_num + 1) % s.PROMOTED_MOD % s.INT_MOD = l.length + 1 := by
      rw [hu, mod_id (show l.length + 1 < s.PROMOTED_MOD by omega), mod_id (by omega)]
    rw [e1, e2]
  rw [e]
  refine ⟨rfl, h.pos, h.small, h.start, by simp, by simp; omega, ?_, ?_⟩
  · show (s.m_end + 1) % s.MAX_SIZE = (s.m_start + (l ++ [v]).length) % s.MAX_SIZE
    rw [h.stop, Nat.mod_add_mod]
    simp [Nat.add_assoc]
  · show Window (arraySet s.m_buf s.m_end v) s.MAX_SIZE s.m_start (l ++ [v])
    rw [h.stop]
    exact window_push _ _ _ _ _ h.win hl

theorem fixed_push_full {α : Type} (s : FixedRingBuf α) (l : List α) (v : α)
    (h : FixedInv s l) (hl : l.length = s.MAX_SIZE) :
    s.push v false = (s, false) ∧
    (s.push v true).2 = true ∧ FixedInv (s.push v true).1 (l.tail ++ [v]) := by
  have hfull : s.full = true := by
    unfold FixedRingBuf.full
    simp [h.used, hl]
  refine ⟨by unfold FixedRingBuf.push; simp [hfull], ?_⟩
  cases l with
  | nil =>
    have := h.pos
    simp at hl
    omega
  | cons x t =>
    obtain ⟨_, hp⟩ := fixed_pop_cons s x t h
    have hm := pop_max_size s
    have ht : t.length < s.pop.MAX_SIZE := by
      rw [hm, ← hl]
      simp
    have hpf : s.pop.full = false := by
      unfold FixedRingBuf.full
      simp [hp.used]
      omega
    have e : s.push v true = s.pop.push v true := by
      unfold FixedRingBuf.push
      simp only [hfull, hpf, Bool.not_true, Bool.and_false, Bool.false_eq_true, if_false, if_true,
        Bool.false_and]
      show _ = _
      simp only [FixedRingBuf.PROMOTED_MOD, FixedRingBuf.INT_MOD, hm]
    rw [e]
    exact fixed_push_room s.pop t v true hp ht

theorem fixed_step {α : Type} (s : FixedRingBuf α) (l : List α) (h : FixedInv s l) :
    (∀ v ow, (fifoStep s.MAX_SIZE l (FOp.push v ow)).2 = some (s.push v ow).2 ∧
      FixedInv (s.push v ow).1 (fifoStep s.MAX_SIZE l (FOp.push v ow)).1 ∧
      (s.push v ow).1.MAX_SIZE = s.MAX_SIZE) ∧
    (fifoStep s.MAX_SIZE l FOp.pop).2 = none ∧
    FixedInv s.pop (fifoStep s.MAX_SIZE l FOp.pop).1 := by
  refine ⟨?_, rfl, ?_⟩
  · intro v ow
    have hmax : ∀ t : FixedRingBuf α, ∀ m : List α, FixedInv (s.push v ow).1 m →
        (s.push v ow).1.MAX_SIZE = s.MAX_SIZE := by
      intro _ _ _
      unfold FixedRingBuf.push
      split_ifs <;> first | rfl | exact pop_max_size s
    by_cases hl : l.length = s.MAX_SIZE
    · obtain ⟨h1, h2, h3⟩ := fixed_push_full s l v h hl
      cases ow with
      | false =>
        simp only [fifoStep, hl, if_true, Bool.false_eq_true, if_false]
        rw [h1]
        exact ⟨rfl, h, rfl⟩
      | true =>
        simp only [fifoStep, hl, if_true]
        rw [h2]
        exact ⟨rfl, h3, hmax s _ h3⟩
    · have hlt : l.length < s.MAX_SIZE := lt_of_le_of_ne h.le hl
      obtain ⟨h1, h2⟩ := fixed_push_room s l v ow h hlt
      simp only [fifoStep, hl, if_false]
      rw [h1]
      exact ⟨rfl, h2, hmax s _ h2⟩
  · cases l with
    | nil =>
      rw [fixed_pop_nil s h]
      exact h
    | cons x t => exact (fixed_pop_cons s x t h).2

theorem runFixedRing_refines {α : Type} (ops : List (FOp α)) :
    ∀ (s : FixedRingBuf α) (l : List α), FixedInv s l →
      (runFixedRing ops s).2 = (runFifo s.MAX_SIZE ops l).2 ∧
      FixedInv (runFixedRing ops s).1 (runFifo s.MAX_SIZE ops l).1 := by
  induction ops with
  | nil => intro s l h; exact ⟨rfl, h⟩
  | cons op ops ih =>
    intro s l h
    obtain ⟨hpush, hp1, hp2⟩ := fixed_step s l h
    cases op with
    | push v ow =>
      obtain ⟨a, b, c⟩ := hpush v ow
      obtain ⟨i1, i2⟩ := ih (s.push v ow).1 _ b
      rw [c] at i1 i2
      simp only [runFixedRing, runFifo, a]
      exact ⟨by rw [i1], i2⟩
    | pop =>
      obtain ⟨i1, i2⟩ := ih s.pop _ hp2
      rw [pop_max_size] at i1 i2
      simp only [runFixedRing, runFifo, hp1]
      exact ⟨i1, i2⟩

theorem FixedInv.front_eq {α : Type} {s : FixedRingBuf α} {l : List α} (h : FixedInv s l)
    (i : Nat) (hi : i < l.length) : s.front i = l.get ⟨i, hi⟩ := by
  obtain ⟨hNI, hIP, hP64⟩ := h.moduli
  have := h.small
  have := h.start
  have := h.le
  unfold FixedRingBuf.front
  rw [mod_id (show s.m_start + i < UINT64_MOD by omega)]
  exact window_get _ _ _ _ h.win i hi

theorem FixedInv.back_eq {α : Type} {s : FixedRingBuf α} {l : List α} (h : FixedInv s l)
    (i : Nat) (hi : i < l.length) :
    s.back i = l.get ⟨l.length - 1 - i, by omega⟩ := by
  obtain ⟨hNI, hIP, hP64⟩ := h.moduli
  have hsm := h.small
  have hle := h.le
  have hend : s.m_end < s.MAX_SIZE := by
    rw [h.stop]
    exact Nat.mod_lt _ h.pos
  unfold FixedRingBuf.back
  rw [mod_id (show s.m_end + s.MAX_SIZE < s.PROMOTED_MOD by omega),
    show s.m_end + s.MAX_SIZE + s.PROMOTED_MOD - 1 = (s.m_end + s.MAX_SIZE - 1) + s.PROMOTED_MOD
      by omega,
    Nat.add_mod_right, mod_id (show s.m_end + s.MAX_SIZE - 1 < s.PROMOTED_MOD by omega),
    show s.m_end + s.MAX_SIZE - 1 + UINT64_MOD - i = (s.m_end + (s.MAX_SIZE - 1 - i)) + UINT64_MOD
      by omega,
    Nat.add_mod_right, mod_id (show s.m_end + (s.MAX_SIZE - 1 - i) < UINT64_MOD by omega),
    h.stop, Nat.mod_add_mod,
    show s.m_start + l.length + (s.MAX_SIZE - 1 - i)
      = (s.m_start + (l.length - 1 - i)) + s.MAX_SIZE by omega,
    Nat.add_mod_right]
  exact window_get _ _ _ _ h.win _ _
/-- A `FixedRingBuf<T, N>` with `0 < N` whose index arithmetic does not
wrap (`2 N` fits the promoted index type, which holds for every `N` up to
`2^31`) refines the FIFO queue bounded by `N`: after any sequence of `push`
and `pop` calls on a fresh buffer every `push` returned what the queue
returns, `size()` is the number of retained elements, which is at most `N`,
`front(i)` is the `i`-th oldest and `back(i)` the `i`-th newest of them,
`full()` and `empty()` hold exactly when `N` and no elements are retained;
`push` without `over_write` on a full buffer returns `false` and `pop` on an
empty buffer returns the buffer unchanged. -/
theorem fixed_ring_buf_refines_fifo {α : Type} (n : Nat) (buf : Nat → α)
    (ops : List (FOp α)) (hn : 0 < n) (hsmall : n + n ≤ max (fixIntMod n) UINT32_MOD) :
    (runFixedRing ops (FixedRingBuf.fresh n buf)).2 = (runFifo n ops []).2 ∧
    (runFixedRing ops (FixedRingBuf.fresh n buf)).1.size = (runFifo n ops []).1.length ∧
    (runFifo n ops []).1.length ≤ n ∧
    (∀ i (hi : i < (runFifo n ops []).1.length),
      (runFixedRing ops (FixedRingBuf.fresh n buf)).1.front i
        = (runFifo n ops []).1.get ⟨i, hi⟩ ∧
      (runFixedRing ops (FixedRingBuf.fresh n buf)).1.back i
        = (runFifo n ops []).1.get ⟨(runFifo n ops []).1.length - 1 - i, by omega⟩) ∧
    ((runFixedRing ops (FixedRingBuf.fresh n buf)).1.full = true
      ↔ (runFifo n ops []).1.length = n) ∧
    ((runFixedRing ops (FixedRingBuf.fresh n buf)).1.isEmpty = true
      ↔ (runFifo n ops []).1 = []) ∧
    (∀ v, (runFixedRing ops (FixedRingBuf.fresh n buf)).1.full = true →
      (runFixedRing ops (FixedRingBuf.fresh n buf)).1.push v false
        = ((runFixedRing ops (FixedRingBuf.fresh n buf)).1, false)) ∧
    ((runFixedRing ops (FixedRingBuf.fresh n buf)).1.isEmpty = true →
      (runFixedRing ops (FixedRingBuf.fresh n buf)).1.pop
        = (runFixedRing ops (FixedRingBuf.fresh n buf)).1) := by
  obtain ⟨h1, h2⟩ := runFixedRing_refines ops (FixedRingBuf.fresh n buf) [] (fresh_inv n buf hn hsmall)
  have hN : (FixedRingBuf.fresh n buf).MAX_SIZE = n := rfl
  rw [hN] at h1 h2
  have hmax : ∀ (ops : List (FOp α)) (s : FixedRingBuf α),
      (runFixedRing ops s).1.MAX_SIZE = s.MAX_SIZE := by
    intro ops
    induction ops with
    | nil => intro s; rfl
    | cons op ops ih =>
      intro s
      cases op with
      | push v ow =>
        simp only [runFixedRing]
        rw [ih]
        unfold FixedRingBuf.push
        split_ifs <;> first | rfl | exact pop_max_size s
      | pop =>
        simp only [runFixedRing]
        rw [ih, pop_max_size]
  have hm : (runFixedRing ops (FixedRingBuf.fresh n buf)).1.MAX_SIZE = n := hmax ops _
  have hle : (runFifo n ops []).1.length ≤ n := by
    have := h2.le
    rwa [hm] at this
  refine ⟨h1, h2.used, hle, fun i hi => ⟨h2.front_eq i hi, h2.back_eq i hi⟩, ?_, ?_, ?_, ?_⟩
  · unfold FixedRingBuf.full
    rw [h2.used, hm]
    simp
  · unfold FixedRingBuf.isEmpty
    rw [h2.used, hm]
    simp [hn, List.length_eq_zero]
  · intro v hf
    unfold FixedRingBuf.push
    simp [hf]
  · intro he
    unfold FixedRingBuf.pop
    simp [he]

/-- An instance: a buffer of three slots is filled, refuses a fourth
element, takes it with `over_write` by dropping the oldest, and wraps
around after a `pop`. -/
theorem fixed_ring_buf_refines_fifo_example :
    (0 : Nat) < 3 ∧ 3 + 3 ≤ max (fixIntMod 3) UINT32_MOD ∧
    (runFixedRing [FOp.push 10 false, FOp.push 20 false, FOp.push 30 false, FOp.push 40 false,
        FOp.push 50 true, FOp.pop, FOp.push 60 false]
      (FixedRingBuf.fresh 3 (fun _ => (0 : Nat)))).2 = [true, true, true, false, true, true] ∧
    (runFixedRing [FOp.push 10 false, FOp.push 20 false, FOp.push 30 false, FOp.push 40 false,
        FOp.push 50 true, FOp.pop, FOp.push 60 false]
      (FixedRingBuf.fresh 3 (fun _ => (0 : Nat)))).1.size = 3 ∧
    (runFixedRing [FOp.push 10 false, FOp.push 20 false, FOp.push 30 false, FOp.push 40 false,
        FOp.push 50 true, FOp.pop, FOp.push 60 false]
      (FixedRingBuf.fresh 3 (fun _ => (0 : Nat)))).1.front 0 = 30 ∧
    (runFixedRing [FOp.push 10 false, FOp.push 20 false, FOp.push 30 false, FOp.push 40 false,
        FOp.push 50 true, FOp.pop, FOp.push 60 false]
      (FixedRingBuf.fresh 3 (fun _ => (0 : Nat)))).1.back 0 = 60 :=
  ⟨by decide, by decide,
   (fixed_ring_buf_refines_fifo 3 (fun _ => 0)
      [FOp.push 10 false, FOp.push 20 false, FOp.push 30 false, FOp.push 40 false,
        FOp.push 50 true, FOp.pop, FOp.push 60 false] (by decide) (by decide)).1.trans (by decide),
   by decide, by decide, by decide⟩
/-- C34.  For `N = 2^32 - 1` the index type of `FixedRingBuf<T, N>` is
`uint32_t`, and the sum `get_end() + get_max_num()` of `back` wraps: after
`push(10)` and `push(20)` on a fresh buffer both are accepted, `size()` is 2,
`front(0)` is 10 and `front(1)` is 20, but `back(0)` is 10, the oldest
element, where the newest of the retained elements 10, 20 is 20 (and
`back(1)` is 10).  With `N = 3` the same calls give `back(0) = 20`. -/
theorem C34_back_wraps_in_index_type :
    fixIntMod 4294967295 = 2 ^ 32 ∧
    (runFixedRing [FOp.push 10 false, FOp.push 20 false]
      (FixedRingBuf.fresh 4294967295 (fun _ => (0 : Nat)))).2 = [true, true] ∧
    (runFifo 4294967295 [FOp.push 10 false, FOp.push 20 false] ([] : List Nat)).1 = [10, 20] ∧
    (runFixedRing [FOp.push 10 false, FOp.push 20 false]
      (FixedRingBuf.fresh 4294967295 (fun _ => (0 : Nat)))).1.size = 2 ∧
    (runFixedRing [FOp.push 10 false, FOp.push 20 false]
      (FixedRingBuf.fresh 4294967295 (fun _ => (0 : Nat)))).1.front 0 = 10 ∧
    (runFixedRing [FOp.push 10 false, FOp.push 20 false]
      (FixedRingBuf.fresh 4294967295 (fun _ => (0 : Nat)))).1.front 1 = 20 ∧
    (runFixedRing [FOp.push 10 false, FOp.push 20 false]
      (FixedRingBuf.fresh 4294967295 (fun _ => (0 : Nat)))).1.back 0 = 10 ∧
    (runFixedRing [FOp.push 10 false, FOp.push 20 false]
      (FixedRingBuf.fresh 4294967295 (fun _ => (0 : Nat)))).1.back 1 = 10 ∧
    (runFixedRing [FOp.push 10 false, FOp.push 20 false]
      (FixedRingBuf.fresh 3 (fun _ => (0 : Nat)))).1.back 0 = 20 := by
  decide

/-! ## C36: `FreeLockQueue` in a single thread -/

theorem LockFreeInv.isFull_iff {α : Type} {q : FreeLockQueue α} {l : List α}
    (h : LockFreeInv q l) : q.IsFull = true ↔ l.length = q.QUEUE_SIZE - 1 := by
  have hp := h.pos
  have hl := h.len
  have h32 := h.lt32
  have hh := h.head
  have ht : q.tail_index_.index < q.QUEUE_SIZE := by
    rw [h.tail]
    exact Nat.mod_lt _ hp
  unfold FreeLockQueue.IsFull
  rw [decide_eq_true_iff, mod_id (show q.tail_index_.index + 1 < UINT32_MOD by omega), h.tail,
    Nat.mod_add_mod]
  constructor
  · intro e
    by_contra hne
    have e2 : (q.head_index_.index + (l.length + 1)) % q.QUEUE_SIZE
        = (q.head_index_.index + 0) % q.QUEUE_SIZE := by
      rw [← Nat.add_assoc, e]
      exact (mod_id hh).symm
    have := mod_add_inj _ _ _ _ (by omega) hp e2
    omega
  · intro e
    rw [show q.head_index_.index + l.length + 1 = q.head_index_.index + q.QUEUE_SIZE by omega,
      Nat.add_mod_right, mod_id hh]

theorem LockFreeInv.noItems_iff {α : Type} {q : FreeLockQueue α} {l : List α}
    (h : LockFreeInv q l) : q.IsEmpty = true ↔ l = [] := by
  have hp := h.pos
  have hh := h.head
  unfold FreeLockQueue.IsEmpty
  rw [decide_eq_true_iff, h.tail]
  constructor
  · intro e
    have e2 : (q.head_index_.index + l.length) % q.QUEUE_SIZE
        = (q.head_index_.index + 0) % q.QUEUE_SIZE := by
      rw [e]
      exact (mod_id hh).symm
    exact List.length_eq_zero.mp (mod_add_inj _ _ _ _ h.len hp e2)
  · intro e
    rw [e, List.length_nil, Nat.add_zero, mod_id hh]

theorem claim_full {α : Type} (q : FreeLockQueue α) (tries spurious : Nat)
    (hf : q.IsFull = true) : q.claim (tries + 1) spurious = .error QueueFull := by
  unfold FreeLockQueue.claim
  simp [hf]

theorem claim_room {α : Type} (q : FreeLockQueue α) (hf : q.IsFull = false) :
    ∀ (spurious tries : Nat), spurious < tries →
      q.claim tries spurious
        = .ok ({ q with
                  tail_index_ :=
                    { index := (q.tail_index_.index + 1) % UINT32_MOD % q.QUEUE_SIZE
                      version := (q.tail_index_.version + 1) % UINT32_MOD } }, q.tail_index_) := by
  intro spurious
  induction spurious with
  | zero =>
    intro tries ht
    obtain ⟨t, rfl⟩ : ∃ t, tries = t + 1 := ⟨tries - 1, by omega⟩
    unfold FreeLockQueue.claim
    simp [hf]
  | succ k ih =>
    intro tries ht
    obtain ⟨t, rfl⟩ : ∃ t, tries = t + 1 := ⟨tries - 1, by omega⟩
    unfold FreeLockQueue.claim
    simp only [hf, Bool.false_eq_true, if_false]
    exact ih t (by omega)

theorem claim_starved {α : Type} (q : FreeLockQueue α) (hf : q.IsFull = false) :
    ∀ (tries spurious : Nat), tries ≤ spurious → q.claim tries spurious = .error TryMax := by
  intro tries
  induction tries with
  | zero => intro spurious _; rfl
  | succ t ih =>
    intro spurious hs
    obtain ⟨k, rfl⟩ : ∃ k, spurious = k + 1 := ⟨spurious - 1, by omega⟩
    unfold FreeLockQueue.claim
    simp only [hf, Bool.false_eq_true, if_false]
    exact ih k (by omega)

theorem lockFree_push {α : Type} (q : FreeLockQueue α) (l : List α) (data : α) (spurious : Nat)
    (h : LockFreeInv q l) (hs : spurious < MAX_TRY_TIMES) :
    (q.Push data spurious).2 = (lockFreeSpec q.QUEUE_SIZE l (LQOp.push data spurious)).2.1 ∧
    (q.Push data spurious).1.QUEUE_SIZE = q.QUEUE_SIZE ∧
    LockFreeInv (q.Push data spurious).1 (lockFreeSpec q.QUEUE_SIZE l (LQOp.push data spurious)).1 := by
  have hp := h.pos
  have hl := h.len
  have h32 := h.lt32
  have hh := h.head
  have ht : q.tail_index_.index < q.QUEUE_SIZE := by
    rw [h.tail]
    exact Nat.mod_lt _ hp
  by_cases hf : q.IsFull = true
  · have hlen := h.isFull_iff.mp hf
    have e : q.Push data spurious = (q, QueueFull) := by
      unfold FreeLockQueue.Push
      rw [show MAX_TRY_TIMES = 99 + 1 from rfl, claim_full q 99 spurious hf]
    have e2 : lockFreeSpec q.QUEUE_SIZE l (LQOp.push data spurious) = (l, (QueueFull, none)) := by
      simp only [lockFreeSpec, if_neg (show ¬ l.length < q.QUEUE_SIZE - 1 by omega)]
    rw [e, e2]
    exact ⟨rfl, rfl, h⟩
  · have hf2 : q.IsFull = false := by simpa using hf
    have hlen : l.length ≠ q.QUEUE_SIZE - 1 := fun e => hf (h.isFull_iff.mpr e)
    have e : q.Push data spurious = ({ q with
        tail_index_ :=
          { index := (q.tail_index_.index + 1) % UINT32_MOD % q.QUEUE_SIZE
            version := (q.tail_index_.version + 1) % UINT32_MOD }
        data_ := arraySet q.data_ q.tail_index_.index data
        data_flag_ := arraySet q.data_flag_ q.tail_index_.index true }, 0) := by
      unfold FreeLockQueue.Push
      rw [claim_room q hf2 spurious MAX_TRY_TIMES hs]
    have e2 : lockFreeSpec q.QUEUE_SIZE l (LQOp.push data spurious) = (l ++ [data], (0, none)) := by
      simp only [lockFreeSpec, if_pos (show l.length < q.QUEUE_SIZE - 1 by omega)]
    rw [e, e2]
    refine ⟨rfl, rfl, hp, h32, hh, ?_, ?_, ?_, ?_⟩
    · show (l ++ [data]).length < q.QUEUE_SIZE
      simp
      omega
    · show (q.tail_index_.index + 1) % UINT32_MOD % q.QUEUE_SIZE
        = (q.head_index_.index + (l ++ [data]).length) % q.QUEUE_SIZE
      rw [mod_id (show q.tail_index_.index + 1 < UINT32_MOD by omega), h.tail, Nat.mod_add_mod]
      simp [Nat.add_assoc]
    · show Window (arraySet q.data_ q.tail_index_.index data) q.QUEUE_SIZE q.head_index_.index
        (l ++ [data])
      rw [h.tail]
      exact window_push _ _ _ _ _ h.win hl
    · intro i hi
      show arraySet q.data_flag_ q.tail_index_.index true
        ((q.head_index_.index + i) % q.QUEUE_SIZE) = true
      rw [List.length_append, List.length_singleton] at hi
      by_cases hlt : i < l.length
      · have hne : (q.head_index_.index + i) % q.QUEUE_SIZE ≠ q.tail_index_.index := by
          rw [h.tail]
          intro e
          have := mod_add_inj _ _ _ _ (by omega) hl e
          omega
        rw [arraySet_other _ _ _ _ hne]
        exact h.flags i hlt
      · have hi2 : i = l.length := by omega
        rw [hi2, ← h.tail, arraySet_self]

theorem lockFree_pop {α : Type} (q : FreeLockQueue α) (l : List α) (h : LockFreeInv q l) :
    q.Pop.2 = (lockFreeSpec q.QUEUE_SIZE l LQOp.pop).2 ∧
    q.Pop.1.QUEUE_SIZE = q.QUEUE_SIZE ∧
    LockFreeInv q.Pop.1 (lockFreeSpec q.QUEUE_SIZE l LQOp.pop).1 := by
  have hp := h.pos
  have hl := h.len
  have h32 := h.lt32
  have hh := h.head
  cases l with
  | nil =>
    have he : q.IsEmpty = true := h.noItems_iff.mpr rfl
    have e : q.Pop = (q, QueueFull, none) := by
      unfold FreeLockQueue.Pop
      simp [he]
    rw [e]
    exact ⟨rfl, rfl, h⟩
  | cons x t =>
    have he : q.IsEmpty = false := by
      have := h.noItems_iff
      cases hq : q.IsEmpty with
      | false => rfl
      | true => exact absurd (this.mp hq) (by simp)
    have hflag : q.data_flag_ q.head_index_.index = true := by
      have := h.flags 0 (by simp)
      rwa [Nat.add_zero, mod_id hh] at this
    have hx : q.data_ q.head_index_.index = x := by
      have := (window_pop _ _ _ _ _ h.win).2
      rwa [mod_id hh] at this
    have e : q.Pop = ({ q with
        data_flag_ := arraySet q.data_flag_ q.head_index_.index false
        head_index_ :=
          { index := (q.head_index_.index + 1) % q.QUEUE_SIZE
            version := (q.head_index_.version + 1) % UINT32_MOD } },
        0, some x) := by
      unfold FreeLockQueue.Pop
      simp only [he, hflag, Bool.false_eq_true, if_false, Bool.not_true, hx]
      rw [mod_id (show q.head_index_.index + 1 < UINT32_MOD by omega)]
    have hlt : t.length + 1 < q.QUEUE_SIZE := by simpa using hl
    rw [e]
    refine ⟨rfl, rfl, hp, h32, Nat.mod_lt _ hp, ?_, ?_, ?_, ?_⟩
    · show t.length < q.QUEUE_SIZE
      omega
    · show q.tail_index_.index
        = ((q.head_index_.index + 1) % q.QUEUE_SIZE + t.length) % q.QUEUE_SIZE
      rw [h.tail, Nat.mod_add_mod]
      congr 1
      simp only [List.length_cons]
      omega
    · exact (window_pop _ _ _ _ _ h.win).1
    · intro i hi
      show arraySet q.data_flag_ q.head_index_.index false
        (((q.head_index_.index + 1) % q.QUEUE_SIZE + i) % q.QUEUE_SIZE) = true
      have hi2 : i < t.length := hi
      rw [Nat.mod_add_mod, Nat.add_assoc]
      have hne : (q.head_index_.index + (1 + i)) % q.QUEUE_SIZE ≠ q.head_index_.index := by
        intro e
        have e2 : (q.head_index_.index + (1 + i)) % q.QUEUE_SIZE
            = (q.head_index_.index + 0) % q.QUEUE_SIZE := by
          rw [Nat.add_zero, mod_id hh]
          exact e
        have := mod_add_inj _ _ _ _ (by omega) hp e2
        omega
      rw [arraySet_other _ _ _ _ hne]
      exact h.flags (1 + i) (by simp only [List.length_cons]; omega)

theorem lockFree_fresh_inv {α : Type} (n : Nat) (data : Nat → α) (hn : 0 < n)
    (h32 : n < UINT32_MOD) : LockFreeInv (FreeLockQueue.fresh n data) [] :=
  ⟨hn, h32, hn, hn, (Nat.mod_eq_of_lt hn).symm, window_nil _ _ _, fun i hi => by simp at hi⟩

theorem runLockFree_refines {α : Type} (ops : List (LQOp α)) :
    ∀ (q : FreeLockQueue α) (l : List α), LockFreeInv q l → fewSpurious ops = true →
      (runLockFree ops q).2 = (runLockFreeSpec q.QUEUE_SIZE ops l).2 ∧
      (runLockFree ops q).1.QUEUE_SIZE = q.QUEUE_SIZE ∧
      LockFreeInv (runLockFree ops q).1 (runLockFreeSpec q.QUEUE_SIZE ops l).1 := by
  induction ops with
  | nil => intro q l h _; exact ⟨rfl, rfl, h⟩
  | cons op ops ih =>
    intro q l h hs
    cases op with
    | push data spurious =>
      simp only [fewSpurious, Bool.and_eq_true, decide_eq_true_eq] at hs
      obtain ⟨a, b, c⟩ := lockFree_push q l data spurious h hs.1
      obtain ⟨i1, i2, i3⟩ := ih (q.Push data spurious).1 _ c hs.2
      rw [b] at i1 i2 i3
      simp only [runLockFree, runLockFreeSpec, FreeLockQueue.step]
      refine ⟨?_, i2, i3⟩
      rw [i1]
      congr 1
      have : (lockFreeSpec q.QUEUE_SIZE l (LQOp.push data spurious)).2.2 = none := by
        unfold lockFreeSpec
        split_ifs <;> rfl
      exact Prod.ext a this.symm
    | pop =>
      obtain ⟨a, b, c⟩ := lockFree_pop q l h
      obtain ⟨i1, i2, i3⟩ := ih q.Pop.1 _ c hs
      rw [b] at i1 i2 i3
      simp only [runLockFree, runLockFreeSpec, FreeLockQueue.step]
      refine ⟨?_, i2, i3⟩
      rw [i1, a]
/-- C36.  A `FreeLockQueue<T, N>` (`N` is a non-zero `uint32_t`) used from a
single thread, each of whose `Push` calls sees fewer than `MAX_TRY_TIMES`
spurious failures of its weak compare-exchange, refines the FIFO queue that
holds at most `N - 1` items: every call returns what that queue returns, so
that `Push` returns 0 while fewer than `N - 1` items are held and `QueueFull`
when `N - 1` are, and a successful `Pop` returns the oldest item held; the
number of items held never exceeds `N - 1`, and `IsFull` and `IsEmpty` hold
exactly when `N - 1` and no items are held. -/
theorem C36_lock_free_queue_refines_fifo {α : Type} (n : Nat) (data : Nat → α)
    (ops : List (LQOp α)) (hn : 0 < n) (h32 : n < UINT32_MOD) (hs : fewSpurious ops = true) :
    (runLockFree ops (FreeLockQueue.fresh n data)).2 = (runLockFreeSpec n ops []).2 ∧
    (runLockFreeSpec n ops []).1.length ≤ n - 1 ∧
    ((runLockFree ops (FreeLockQueue.fresh n data)).1.IsFull = true
      ↔ (runLockFreeSpec n ops []).1.length = n - 1) ∧
    ((runLockFree ops (FreeLockQueue.fresh n data)).1.IsEmpty = true
      ↔ (runLockFreeSpec n ops []).1 = []) ∧
    (∀ v k, k < MAX_TRY_TIMES →
      ((runLockFree (ops ++ [LQOp.push v k]) (FreeLockQueue.fresh n data)).2.getLast?
          = some (0, none) ↔ (runLockFreeSpec n ops []).1.length < n - 1) ∧
      ((runLockFree (ops ++ [LQOp.push v k]) (FreeLockQueue.fresh n data)).2.getLast?
          = some (QueueFull, none) ↔ (runLockFreeSpec n ops []).1.length = n - 1)) ∧
    (runLockFree (ops ++ [LQOp.pop]) (FreeLockQueue.fresh n data)).2.getLast?
      = some (match (runLockFreeSpec n ops []).1 with
              | [] => (QueueFull, none)
              | x :: _ => (0, some x)) := by
  have hinv := lockFree_fresh_inv n data hn h32
  obtain ⟨h1, h2, h3⟩ := runLockFree_refines ops (FreeLockQueue.fresh n data) [] hinv hs
  have hN : (FreeLockQueue.fresh n data).QUEUE_SIZE = n := rfl
  rw [hN] at h1 h2 h3
  have hlen : (runLockFreeSpec n ops []).1.length ≤ n - 1 := by
    have := h3.len
    rw [h2] at this
    omega
  have happ : ∀ (ops : List (LQOp α)) (op : LQOp α) (q : FreeLockQueue α),
      (runLockFree (ops ++ [op]) q).2
        = (runLockFree ops q).2 ++ [((runLockFree ops q).1.step op).2] := by
    intro ops op
    induction ops with
    | nil => intro q; rfl
    | cons o os ih =>
      intro q
      show (q.step o).2 :: (runLockFree (os ++ [op]) (q.step o).1).2
        = ((q.step o).2 :: (runLockFree os (q.step o).1).2)
          ++ [((runLockFree os (q.step o).1).1.step op).2]
      rw [ih, List.cons_append]
  have hrun : ∀ (ops : List (LQOp α)) (op : LQOp α) (q : FreeLockQueue α),
      (runLockFree (ops ++ [op]) q).2.getLast? = some ((runLockFree ops q).1.step op).2 := by
    intro ops op q
    rw [happ, List.getLast?_concat]
  have hfull := h3.isFull_iff
  have hemp := h3.noItems_iff
  rw [h2] at hfull
  refine ⟨h1, hlen, hfull, hemp, ?_, ?_⟩
  · intro v k hk
    rw [hrun]
    have hp := (lockFree_push _ _ v k h3 hk).1
    rw [h2] at hp
    have hstep : ((runLockFree ops (FreeLockQueue.fresh n data)).1.step (LQOp.push v k)).2
        = ((lockFreeSpec n (runLockFreeSpec n ops []).1 (LQOp.push v k)).2.1, none) := by
      simp only [FreeLockQueue.step, hp]
    rw [hstep]
    by_cases hlt : (runLockFreeSpec n ops []).1.length < n - 1
    · simp only [lockFreeSpec, if_pos hlt]
      simp [hlt, QueueFull]
      omega
    · simp only [lockFreeSpec, if_neg hlt]
      simp [hlt, QueueFull]
      omega
  · rw [hrun]
    have hp := (lockFree_pop _ _ h3).1
    rw [h2] at hp
    simp only [FreeLockQueue.step, hp]
    cases (runLockFreeSpec n ops []).1 <;> rfl

/-- C36, an instance with `N = 4`: three pushes are accepted, the fourth is
rejected, and the items come back oldest first. -/
theorem C36_lock_free_queue_refines_fifo_witness :
    (0 : Nat) < 4 ∧ (4 : Nat) < UINT32_MOD ∧
    fewSpurious [LQOp.push (11 : Nat) 0, LQOp.push 12 2, LQOp.push 13 99, LQOp.push 14 0,
      LQOp.pop, LQOp.pop, LQOp.push 15 0, LQOp.pop, LQOp.pop, LQOp.pop] = true ∧
    (runLockFree [LQOp.push (11 : Nat) 0, LQOp.push 12 2, LQOp.push 13 99, LQOp.push 14 0,
        LQOp.pop, LQOp.pop, LQOp.push 15 0, LQOp.pop, LQOp.pop, LQOp.pop]
      (FreeLockQueue.fresh 4 (fun _ => 0))).2
      = [(0, none), (0, none), (0, none), (QueueFull, none), (0, some 11), (0, some 12),
         (0, none), (0, some 13), (0, some 15), (QueueFull, none)] :=
  ⟨by decide, by decide, by decide,
   (C36_lock_free_queue_refines_fifo 4 (fun _ => 0)
      [LQOp.push (11 : Nat) 0, LQOp.push 12 2, LQOp.push 13 99, LQOp.push 14 0,
        LQOp.pop, LQOp.pop, LQOp.push 15 0, LQOp.pop, LQOp.pop, LQOp.pop]
      (by decide) (by decide) (by decide)).1.trans (by decide)⟩
/-! ## C38: the order of the life-cycle hooks of `SystemMgr` -/

theorem mgrInv_fresh {μ : Type} : MgrInv (SystemMgr.fresh : SystemMgr μ) [] :=
  ⟨fun _ => rfl, fun r hr => by simp at hr, fun _ _ => rfl⟩

theorem toNat_inj (p q : SystemPriority) (h : p.toNat = q.toNat) : p = q := by
  cases p <;> cases q <;> first | rfl | exact absurd h (by decide)

theorem toNat_lt (p : SystemPriority) : p.toNat < SystemPriority.Max_ := by
  cases p <;> decide

theorem mgrInv_step {μ : Type} (m : SystemMgr μ) (reg : List (Registered μ)) (op : MOp μ)
    (h : MgrInv m reg) : MgrInv (m.step op).1 (regStep reg op) := by
  cases op with
  | add sys_id sys priority =>
    cases sys with
    | none => exact h
    | some obj =>
      by_cases h1 : sys_id ≥ kMaxSystemsNum
      · have e1 : (m.step (MOp.add sys_id (some obj) priority)).1 = m := by
          simp [SystemMgr.step, SystemMgr.AddSystem, h1]
        have e2 : regStep reg (MOp.add sys_id (some obj) priority) = reg := by
          simp only [regStep]
          rw [if_neg (by omega)]
        rw [e1, e2]
        exact h
      · by_cases h2 : (m.systems_ sys_id).isSome = true
        · have e1 : (m.step (MOp.add sys_id (some obj) priority)).1 = m := by
            simp [SystemMgr.step, SystemMgr.AddSystem, h1, h2]
          have e2 : regStep reg (MOp.add sys_id (some obj) priority) = reg := by
            simp only [regStep]
            rw [if_neg]
            rintro ⟨_, hall⟩
            have hf := h.free sys_id (by
              intro r hr e
              have := List.all_eq_true.mp hall r hr
              simp [e] at this)
            rw [hf] at h2
            simp at h2
          rw [e1, e2]
          exact h
        · have hnone : m.systems_ sys_id = none := by
            cases hs : m.systems_ sys_id with
            | none => rfl
            | some x => rw [hs] at h2; simp at h2
          have hfresh : ∀ r ∈ reg, r.sys_id ≠ sys_id := by
            intro r hr e
            have := (h.slot r hr).2
            rw [e, hnone] at this
            cases this
          have e1 : (m.step (MOp.add sys_id (some obj) priority)).1
              = { systems_ := arraySet m.systems_ sys_id (some obj)
                  sys_index_vec_ := arraySet m.sys_index_vec_ priority.toNat
                    (m.sys_index_vec_ priority.toNat ++ [sys_id]) } := by
            simp [SystemMgr.step, SystemMgr.AddSystem, h1, h2]
          have e2 : regStep reg (MOp.add sys_id (some obj) priority)
              = reg ++ [{ sys_id := sys_id, priority := priority, sys := obj }] := by
            simp only [regStep]
            rw [if_pos]
            refine ⟨by omega, List.all_eq_true.mpr ?_⟩
            intro r hr
            simpa using hfresh r hr
          rw [e1, e2]
          refine ⟨?_, ?_, ?_⟩
          · intro p
            show arraySet m.sys_index_vec_ priority.toNat
              (m.sys_index_vec_ priority.toNat ++ [sys_id]) p.toNat = _
            by_cases hp : p = priority
            · subst hp
              rw [arraySet_self, h.vec p]
              simp [ofPriority, List.filter_append]
            · have hne : p.toNat ≠ priority.toNat := fun e => hp (toNat_inj _ _ e)
              rw [arraySet_other _ _ _ _ hne, h.vec p]
              have hp2 : ¬ priority = p := fun e => hp e.symm
              simp [ofPriority, List.filter_append, hp2]
          · intro r hr
            rw [List.mem_append, List.mem_singleton] at hr
            rcases hr with hr | hr
            · refine ⟨(h.slot r hr).1, ?_⟩
              show arraySet m.systems_ sys_id (some obj) r.sys_id = some r.sys
              rw [arraySet_other _ _ _ _ (hfresh r hr)]
              exact (h.slot r hr).2
            · subst hr
              exact ⟨by show sys_id < kMaxSystemsNum; omega, arraySet_self _ _ _⟩
          · intro id hid
            have hne : id ≠ sys_id := by
              intro e
              exact hid { sys_id := sys_id, priority := priority, sys := obj }
                (List.mem_append_right _ (List.mem_singleton.mpr rfl)) e.symm
            show arraySet m.systems_ sys_id (some obj) id = none
            rw [arraySet_other _ _ _ _ hne]
            exact h.free id (fun r hr => hid r (List.mem_append_left _ hr))
  | remove sys_id =>
    by_cases hreg : ∀ r ∈ reg, r.sys_id ≠ sys_id
    · have hnone := h.free sys_id hreg
      have e1 : (m.step (MOp.remove sys_id)).1 = m := by
        simp [SystemMgr.step, SystemMgr.RemoveSystem, hnone]
      have e2 : regStep reg (MOp.remove sys_id) = reg := by
        simp only [regStep]
        rw [List.filter_eq_self]
        intro r hr
        simpa using hreg r hr
      rw [e1, e2]
      exact h
    · push_neg at hreg
      obtain ⟨r0, hr0, e0⟩ := hreg
      have hs := h.slot r0 hr0
      rw [e0] at hs
      have e1 : (m.step (MOp.remove sys_id)).1
          = { systems_ := arraySet m.systems_ sys_id none
              sys_index_vec_ := fun p =>
                if p < SystemPriority.Max_ then
                  (m.sys_index_vec_ p).filter (fun i => i != sys_id)
                else m.sys_index_vec_ p } := by
        simp [SystemMgr.step, SystemMgr.RemoveSystem, hs.2, Nat.not_le.mpr hs.1]
      rw [e1]
      refine ⟨?_, ?_, ?_⟩
      · intro p
        show (if p.toNat < SystemPriority.Max_ then
            (m.sys_index_vec_ p.toNat).filter (fun i => i != sys_id)
          else m.sys_index_vec_ p.toNat) = _
        rw [if_pos (toNat_lt p), h.vec p]
        simp only [regStep, ofPriority, List.filter_map, List.filter_filter]
        congr 1
        apply List.filter_congr
        intro r _
        simp [Bool.and_comm]
      · intro r hr
        simp only [regStep, List.mem_filter] at hr
        have hne : r.sys_id ≠ sys_id := by simpa using hr.2
        refine ⟨(h.slot r hr.1).1, ?_⟩
        show arraySet m.systems_ sys_id none r.sys_id = some r.sys
        rw [arraySet_other _ _ _ _ hne]
        exact (h.slot r hr.1).2
      · intro id hid
        show arraySet m.systems_ sys_id none id = none
        by_cases hne : id = sys_id
        · rw [hne, arraySet_self]
        · rw [arraySet_other _ _ _ _ hne]
          apply h.free
          intro r hr e
          refine hid r ?_ e
          simp only [regStep, List.mem_filter]
          refine ⟨hr, ?_⟩
          rw [e]
          simpa using hne

theorem mgrInv_run {μ : Type} (ops : List (MOp μ)) :
    ∀ (m : SystemMgr μ) (reg : List (Registered μ)), MgrInv m reg →
      MgrInv (runMgr ops m) (ops.foldl regStep reg) := by
  induction ops with
  | nil => intro m reg h; exact h
  | cons op ops ih =>
    intro m reg h
    exact ih _ _ (mgrInv_step m reg op h)

theorem eachVec_slots {μ ω : Type} (m : SystemMgr μ) (hook : ω → μ → ω) :
    ∀ (l : List (Registered μ)) (w : ω), (∀ r ∈ l, m.systems_ r.sys_id = some r.sys) →
      m.eachVec hook (l.map (fun r => r.sys_id)) w = (l.map (fun r => r.sys)).foldl hook w := by
  intro l
  induction l with
  | nil => intro w _; rfl
  | cons r l ih =>
    intro w h
    have hr := h r (List.mem_cons_self _ _)
    simp only [List.map_cons, SystemMgr.eachVec, hr, List.foldl_cons]
    exact ih _ (fun r2 h2 => h r2 (List.mem_cons_of_mem _ h2))

theorem initVec_slots {μ ω : Type} (m : SystemMgr μ) (OnInit : ω → μ → ω × Bool) :
    ∀ (l : List (Registered μ)) (w : ω), (∀ r ∈ l, m.systems_ r.sys_id = some r.sys) →
      m.initVec OnInit (l.map (fun r => r.sys_id)) w
        = initInOrder OnInit (l.map (fun r => r.sys)) w := by
  intro l
  induction l with
  | nil => intro w _; rfl
  | cons r l ih =>
    intro w h
    have hr := h r (List.mem_cons_self _ _)
    simp only [List.map_cons, SystemMgr.initVec, hr, initInOrder]
    by_cases hb : (OnInit w r.sys).2 = true
    · simp only [hb, Bool.not_true, Bool.false_eq_true, if_false, if_true]
      exact ih _ (fun r2 h2 => h r2 (List.mem_cons_of_mem _ h2))
    · simp [hb]

theorem initInOrder_append {μ ω : Type} (OnInit : ω → μ → ω × Bool) :
    ∀ (a b : List μ) (w : ω),
      initInOrder OnInit (a ++ b) w
        = if (initInOrder OnInit a w).2 then initInOrder OnInit b (initInOrder OnInit a w).1
          else ((initInOrder OnInit a w).1, false) := by
  intro a
  induction a with
  | nil => intro b w; simp [initInOrder]
  | cons x a ih =>
    intro b w
    simp only [List.cons_append, initInOrder]
    by_cases hb : (OnInit w x).2 = true
    · simp only [hb, if_true]
      exact ih b _
    · simp [hb]

theorem ofPriority_slots {μ : Type} {m : SystemMgr μ} {reg : List (Registered μ)}
    (h : MgrInv m reg) (p : SystemPriority) :
    ∀ r ∈ ofPriority reg p, m.systems_ r.sys_id = some r.sys := by
  intro r hr
  exact (h.slot r (List.mem_filter.mp hr).1).2

theorem eachLoop_order {μ ω : Type} {m : SystemMgr μ} {reg : List (Registered μ)}
    (h : MgrInv m reg) (hook : ω → μ → ω) (w : ω) :
    m.eachLoop hook SystemMgr.rorder w = (hookOrder reg).foldl hook w := by
  have e : SystemMgr.rorder
      = [SystemPriority.High.toNat, SystemPriority.Mid.toNat, SystemPriority.Low.toNat] := rfl
  rw [e]
  simp only [SystemMgr.eachLoop, h.vec, hookOrder, List.map_append, List.foldl_append]
  rw [eachVec_slots m hook _ _ (ofPriority_slots h _),
    eachVec_slots m hook _ _ (ofPriority_slots h _),
    eachVec_slots m hook _ _ (ofPriority_slots h _)]

theorem initLoop_order {μ ω : Type} {m : SystemMgr μ} {reg : List (Registered μ)}
    (h : MgrInv m reg) (OnInit : ω → μ → ω × Bool) (w : ω) :
    m.SystemInit OnInit w = initInOrder OnInit (hookOrder reg) w := by
  have e : SystemMgr.rorder
      = [SystemPriority.High.toNat, SystemPriority.Mid.toNat, SystemPriority.Low.toNat] := rfl
  unfold SystemMgr.SystemInit
  rw [e]
  simp only [SystemMgr.initLoop, h.vec, hookOrder, List.map_append, initInOrder_append]
  rw [initVec_slots m OnInit _ _ (ofPriority_slots h _)]
  by_cases h1 : (initInOrder OnInit ((ofPriority reg .High).map (fun r => r.sys)) w).2 = true
  · simp only [h1, Bool.not_true, Bool.false_eq_true, if_false, if_true]
    rw [initVec_slots m OnInit _ _ (ofPriority_slots h _)]
    by_cases h2 : (initInOrder OnInit ((ofPriority reg .Mid).map (fun r => r.sys))
        (initInOrder OnInit ((ofPriority reg .High).map (fun r => r.sys)) w).1).2 = true
    · simp only [h2, Bool.not_true, Bool.false_eq_true, if_false, if_true]
      rw [initVec_slots m OnInit _ _ (ofPriority_slots h _)]
      by_cases h3 : (initInOrder OnInit ((ofPriority reg .Low).map (fun r => r.sys))
          (initInOrder OnInit ((ofPriority reg .Mid).map (fun r => r.sys))
            (initInOrder OnInit ((ofPriority reg .High).map (fun r => r.sys)) w).1).1).2 = true
      · simp [h3]
        exact Prod.ext rfl h3.symm
      · simp [h3]
        exact Prod.ext rfl (Bool.eq_false_iff.mpr h3).symm
    · simp [h2]
  · simp [h1]
theorem foldl_recordHook {μ : Type} (l : List μ) :
    ∀ w : List μ, l.foldl recordHook w = w ++ l := by
  induction l with
  | nil => intro w; simp
  | cons x l ih =>
    intro w
    rw [List.foldl_cons, ih]
    simp [recordHook]

/-- C38.  After any sequence of `AddSystem` and `RemoveSystem` calls on a
fresh `SystemMgr`, `SystemInit`, `SystemTick`, `SystemProc` and
`SystemFinish` invoke the hook of the registered modules in the order: all
modules of priority `High`, then all of `Mid`, then all of `Low`, each group
in the order of registration (`SystemInit` up to the first module whose
`OnInit` returns `false`), whatever the hooks do to the state they share; a
module that has been removed is not among the registered modules, hence
invoked by none of the four.  The hooks do not call back into the
manager. -/
theorem C38_hooks_run_in_priority_order {μ ω : Type} (ops : List (MOp μ)) :
    (∀ (OnInit : ω → μ → ω × Bool) (w : ω),
      (runMgr ops SystemMgr.fresh).SystemInit OnInit w
        = initInOrder OnInit (hookOrder (registered ops)) w) ∧
    (∀ (OnTick : ω → μ → Nat → Nat → ω) (now_ms tick_count : Nat) (w : ω),
      (runMgr ops SystemMgr.fresh).SystemTick OnTick now_ms tick_count w
        = (hookOrder (registered ops)).foldl (fun w sys => OnTick w sys now_ms tick_count) w) ∧
    (∀ (OnProc : ω → μ → Nat → Nat → Bool → ω × Nat) (now_ms remain_ms : Nat) (stop : Bool)
        (w : ω),
      (runMgr ops SystemMgr.fresh).SystemProc OnProc now_ms remain_ms stop w
        = (hookOrder (registered ops)).foldl
            (SystemMgr.procOne OnProc now_ms
              ((runMgr ops SystemMgr.fresh).sys_per_ms remain_ms) stop) (w, 0)) ∧
    (∀ (OnFinish : ω → μ → ω × Bool) (w : ω),
      (runMgr ops SystemMgr.fresh).SystemFinish OnFinish w
        = (hookOrder (registered ops)).foldl (fun w sys => (OnFinish w sys).1) w) ∧
    (runMgr ops SystemMgr.fresh).SystemTick (fun w sys _ _ => recordHook w sys) 0 0 []
      = hookOrder (registered ops) ∧
    (∀ id, (runMgr (ops ++ [MOp.remove id]) SystemMgr.fresh).systems_ id = none ∧
      (∀ p, id ∉ (runMgr (ops ++ [MOp.remove id]) SystemMgr.fresh).sys_index_vec_ p) ∧
      ∀ r ∈ registered (ops ++ [MOp.remove id]), r.sys_id ≠ id) := by
  have h : MgrInv (runMgr ops (SystemMgr.fresh : SystemMgr μ)) (registered ops) :=
    mgrInv_run ops _ _ mgrInv_fresh
  have hrec : (runMgr ops (SystemMgr.fresh : SystemMgr μ)).SystemTick
      (fun w sys _ _ => recordHook w sys) 0 0 [] = hookOrder (registered ops) := by
    unfold SystemMgr.SystemTick
    rw [eachLoop_order h, foldl_recordHook]
    rfl
  refine ⟨fun OnInit w => initLoop_order h OnInit w,
    fun OnTick now_ms tick_count w => eachLoop_order h _ w,
    fun OnProc now_ms remain_ms stop w => eachLoop_order h _ (w, 0),
    fun OnFinish w => eachLoop_order h _ w, hrec, ?_⟩
  intro id
  have h2 : MgrInv (runMgr (ops ++ [MOp.remove id]) (SystemMgr.fresh : SystemMgr μ))
      (registered (ops ++ [MOp.remove id])) := mgrInv_run _ _ _ mgrInv_fresh
  have hreg : ∀ r ∈ registered (ops ++ [MOp.remove id]), r.sys_id ≠ id := by
    intro r hr
    simp only [registered, List.foldl_append, List.foldl_cons, List.foldl_nil, regStep,
      List.mem_filter] at hr
    simpa using hr.2
  refine ⟨h2.free id hreg, ?_, hreg⟩
  intro p hmem
  have hrun : runMgr (ops ++ [MOp.remove id]) (SystemMgr.fresh : SystemMgr μ)
      = ((runMgr ops SystemMgr.fresh).RemoveSystem id).1 := by
    simp [runMgr, List.foldl_append, SystemMgr.step]
  rw [hrun] at hmem
  by_cases hp : p < SystemPriority.Max_
  · have hp3 : p = 0 ∨ p = 1 ∨ p = 2 := by
      have : p < 3 := hp
      omega
    have hq : ∃ q : SystemPriority, q.toNat = p := by
      rcases hp3 with e | e | e
      · exact ⟨.Low, e.symm⟩
      · exact ⟨.Mid, e.symm⟩
      · exact ⟨.High, e.symm⟩
    obtain ⟨q, rfl⟩ := hq
    rw [← hrun, h2.vec q, List.mem_map] at hmem
    obtain ⟨r, hr, e⟩ := hmem
    exact hreg r (List.mem_filter.mp hr).1 e
  · have hvec : ∀ (ops : List (MOp μ)) (m : SystemMgr μ), m.sys_index_vec_ p = [] →
        (runMgr ops m).sys_index_vec_ p = [] := by
      intro ops
      induction ops with
      | nil => intro m hm; exact hm
      | cons op ops ih =>
        intro m hm
        apply ih
        cases op with
        | add sys_id sys priority =>
          cases sys with
          | none => exact hm
          | some obj =>
            simp only [SystemMgr.step, SystemMgr.AddSystem]
            split_ifs
            · exact hm
            · exact hm
            · show arraySet m.sys_index_vec_ priority.toNat _ p = []
              rw [arraySet_other _ _ _ _ (fun e : p = priority.toNat => hp (by rw [e]; exact toNat_lt priority))]
              exact hm
        | remove sys_id =>
          simp only [SystemMgr.step, SystemMgr.RemoveSystem]
          split_ifs
          · exact hm
          · exact hm
          · show (if p < SystemPriority.Max_ then _ else m.sys_index_vec_ p) = []
            rw [if_neg hp]
            exact hm
    rw [← hrun, hvec _ _ rfl] at hmem
    simp at hmem

/-- C38, an instance: five registrations, one of them of a type that is
registered already, and a removal. -/
theorem C38_hooks_run_in_priority_order_witness :
    (runMgr [MOp.add 0 (some 100) .Low, MOp.add 1 (some 101) .High, MOp.add 2 (some 102) .Mid,
        MOp.add 3 (some 103) .High, MOp.add 1 (some 111) .Low, MOp.add 4 (some 104) .Mid,
        MOp.remove 2]
      (SystemMgr.fresh : SystemMgr Nat)).SystemTick (fun w sys _ _ => recordHook w sys) 0 0 []
      = [101, 103, 104, 100] :=
  (@C38_hooks_run_in_priority_order Nat (List Nat)
    [MOp.add 0 (some 100) .Low, MOp.add 1 (some 101) .High, MOp.add 2 (some 102) .Mid,
      MOp.add 3 (some 103) .High, MOp.add 1 (some 111) .Low, MOp.add 4 (some 104) .Mid,
      MOp.remove 2]).2.2.2.2.1.trans (by decide)
/-! ## C39: the index and the ordered set of a `TimeoutQueue` agree -/

theorem Clear_any {τ : Type} (q : TimeoutQueue τ) : TimerWF q.Clear :=
  ⟨List.Pairwise.nil, by intro i e; simp [TimeoutQueue.Clear, mapFind], List.nodup_nil⟩

theorem call_any {τ : Type} (q : TimeoutQueue τ) (c : QCall τ) (w : TimerWF q) :
    TimerWF (q.call c) := by
  cases c with
  | add task e i => exact Add_any q task e i w
  | cancel i => exact (Cancel_any q i w).2.2.2.2
  | clear => exact Clear_any q

theorem calls_any {τ : Type} (cs : List (QCall τ)) :
    ∀ q : TimeoutQueue τ, TimerWF q → TimerWF (cs.foldl TimeoutQueue.call q) := by
  induction cs with
  | nil => intro q w; exact w
  | cons c cs ih => intro q w; exact ih _ (call_any q c w)

theorem TimeOut_any {τ σ : Type} (view : σ → TimeoutQueue τ) (put : TimeoutQueue τ → σ → σ)
    (run : τ → Nat → Nat → σ → σ) (now : Nat)
    (hput : ∀ q s, view (put q s) = q)
    (hrun : ∀ task i iv s, TimerWF (view s) → TimerWF (view (run task i iv s))) :
    ∀ (fuel : Nat) (s : σ) (count : Nat) (r : σ × Nat), TimerWF (view s) →
      TimeoutQueue.TimeOut view put run now fuel s count = some r → TimerWF (view r.1) := by
  intro fuel
  induction fuel with
  | zero =>
    intro s count r _ h
    simp [TimeoutQueue.TimeOut] at h
  | succ fuel ih =>
    intro s count r w h
    cases hq : (view s).timer_queue_ with
    | nil =>
      simp only [TimeoutQueue.TimeOut, hq, Option.some.injEq] at h
      rw [← h]
      exact w
    | cons t rest =>
      simp only [TimeoutQueue.TimeOut, hq] at h
      by_cases hd : t.expire_time > now
      · rw [if_pos hd, Option.some.injEq] at h
        rw [← h]
        exact w
      · rw [if_neg hd] at h
        refine ih _ _ r (hrun _ _ _ _ ?_) h
        rw [hput]
        exact (popFront_any (view s) t rest w hq).1

theorem runTaskCall_any {τ ω : Type}
    (plan : τ → Nat → Nat → TaskState τ ω → ω × List (QCall τ)) (s s1 : TaskState τ ω)
    (c : TCall τ) (w : TimerWF s.1) (h : runTaskCall plan s c = some s1) : TimerWF s1.1 := by
  cases c with
  | add task e i =>
    simp only [runTaskCall, Option.some.injEq] at h
    rw [← h]
    exact Add_any _ _ _ _ w
  | cancel i =>
    simp only [runTaskCall, Option.some.injEq] at h
    rw [← h]
    exact (Cancel_any _ i w).2.2.2.2
  | clear =>
    simp only [runTaskCall, Option.some.injEq] at h
    rw [← h]
    exact Clear_any _
  | timeOut now fuel =>
    have h2 : (TimeOutTasks plan now fuel s).map Prod.fst = some s1 := h
    cases hr : TimeOutTasks plan now fuel s with
    | none => rw [hr] at h2; cases h2
    | some r =>
    rw [hr] at h2
    have e : r.1 = s1 := Option.some.inj h2
    rw [← e]
    exact TimeOut_any Prod.fst (fun q (s : TaskState τ ω) => (q, s.2)) (taskRun plan) now
      (fun _ _ => rfl) (fun task i iv s ws => calls_any _ _ ws) fuel s 0 r w hr

theorem runTaskCalls_any {τ ω : Type}
    (plan : τ → Nat → Nat → TaskState τ ω → ω × List (QCall τ)) (cs : List (TCall τ)) :
    ∀ (s s1 : TaskState τ ω), TimerWF s.1 → runTaskCalls plan cs s = some s1 → TimerWF s1.1 := by
  induction cs with
  | nil =>
    intro s s1 w h
    simp only [runTaskCalls, Option.some.injEq] at h
    rw [← h]
    exact w
  | cons c cs ih =>
    intro s s1 w h
    simp only [runTaskCalls] at h
    cases hc : runTaskCall plan s c with
    | none => rw [hc] at h; cases h
    | some s2 =>
      rw [hc] at h
      exact ih s2 s1 (runTaskCall_any plan s s2 c w hc) h

theorem filter_id_length {τ : Type} (i : Nat) :
    ∀ l : List (Timer τ), (l.map Timer.seq_id).Nodup →
      (l.filter (fun t => decide (t.seq_id = i))).length
        = if ∃ t ∈ l, t.seq_id = i then 1 else 0 := by
  intro l
  induction l with
  | nil => intro _; simp
  | cons x l ih =>
    intro hnd
    rw [List.map_cons, List.nodup_cons] at hnd
    by_cases hx : x.seq_id = i
    · have hno : ¬ ∃ t ∈ l, t.seq_id = i := by
        rintro ⟨t, ht, e⟩
        exact hnd.1 (List.mem_map.mpr ⟨t, ht, by rw [e, hx]⟩)
      have := ih hnd.2
      rw [if_neg hno] at this
      rw [List.filter_cons_of_pos (by simpa using hx), List.length_cons, this,
        if_pos ⟨x, List.mem_cons_self _ _, hx⟩]
    · rw [List.filter_cons_of_neg (by simpa using hx), ih hnd.2]
      have : (∃ t ∈ x :: l, t.seq_id = i) ↔ ∃ t ∈ l, t.seq_id = i := by
        constructor
        · rintro ⟨t, ht, e⟩
          rcases List.mem_cons.mp ht with rfl | ht
          · exact absurd e hx
          · exact ⟨t, ht, e⟩
        · rintro ⟨t, ht, e⟩
          exact ⟨t, List.mem_cons_of_mem _ ht, e⟩
      simp only [this]

/-- C39.  Whenever a sequence of `Add`, `Cancel`, `TimeOut` and `Clear` calls
on a `TimeoutQueue` without timers (any value of the id counter) returns,
where the tasks that `TimeOut` invokes may themselves add timers, cancel
timers (their own included) and clear the queue, and where periodic timers
are re-armed, the index and the ordered set describe the same timers: an id
is a key of the index exactly when one timer of the set has that id, no
timer of the set has an id that is not a key, the deadline that the index
keeps for an id is the deadline of the timer with that id, and the set is
strictly ascending. -/
theorem C39_index_agrees_with_timer_set {τ ω : Type}
    (plan : τ → Nat → Nat → TaskState τ ω → ω × List (QCall τ)) (calls : List (TCall τ))
    (base_id : Nat) (w0 : ω) (s : TaskState τ ω)
    (h : runTaskCalls plan calls (TimeoutQueue.withCounter τ base_id, w0) = some s) :
    (∀ i, s.1.Exist i = true ↔ s.1.timersWithId i = 1) ∧
    (∀ i, s.1.Exist i = false ↔ s.1.timersWithId i = 0) ∧
    (∀ i e, mapFind i s.1.timer_id_index_ = some e ↔
      ∃ t ∈ s.1.timer_queue_, t.seq_id = i ∧ t.expire_time = e) ∧
    (∀ i e, mapFind i s.1.timer_id_index_ = some e →
      ∀ t ∈ s.1.timer_queue_, t.seq_id = i → t.expire_time = e) ∧
    SortedTimers s.1.timer_queue_ := by
  have w : TimerWF s.1 :=
    runTaskCalls_any plan calls _ s (timerWF_withCounter τ base_id) h
  have hlen := fun i => filter_id_length i s.1.timer_queue_ w.nodup
  refine ⟨?_, ?_, w.index, ?_, w.sorted⟩
  · intro i
    unfold TimeoutQueue.timersWithId
    rw [w.exist_iff i, hlen i]
    by_cases hex : ∃ t ∈ s.1.timer_queue_, t.seq_id = i
    · simp [hex]
    · simp [hex]
  · intro i
    unfold TimeoutQueue.timersWithId
    rw [hlen i, ← Bool.not_eq_true, w.exist_iff i]
    by_cases hex : ∃ t ∈ s.1.timer_queue_, t.seq_id = i
    · simp [hex]
    · simp [hex]
  · intro i e hf t ht hi
    obtain ⟨t2, ht2, hi2, he2⟩ := (w.index i e).mp hf
    have hfind := (w.index i t.expire_time).mpr ⟨t, ht, hi, rfl⟩
    rw [hf] at hfind
    exact (Option.some.inj hfind).symm
/-- C39, an instance: a periodic timer whose task cancels it and a one-shot
timer whose task adds two timers, one of them due at once, periodic and
cancelling itself; `TimeOut(20)` returns after three invocations and leaves
the timer with id 3, due at 50, in the index and in the set. -/
theorem C39_index_agrees_with_timer_set_witness :
    runTaskCalls demoPlan [TCall.add 1 10 5, TCall.add 2 10 0, TCall.timeOut 20 10]
        (TimeoutQueue.withCounter Nat 0, 0)
      = some ({ timer_queue_ := [{ seq_id := 3, interval_time := 0, expire_time := 50, task := 3 }],
                timer_id_index_ := [(3, 50)], base_id_ := 4 }, 3) ∧
    (∀ i, TimeoutQueue.Exist
        ({ timer_queue_ := [{ seq_id := 3, interval_time := 0, expire_time := 50, task := 3 }],
           timer_id_index_ := [(3, 50)], base_id_ := 4 } : TimeoutQueue Nat) i = true ↔
      TimeoutQueue.timersWithId
        ({ timer_queue_ := [{ seq_id := 3, interval_time := 0, expire_time := 50, task := 3 }],
           timer_id_index_ := [(3, 50)], base_id_ := 4 } : TimeoutQueue Nat) i = 1) :=
  ⟨rfl,
   (@C39_index_agrees_with_timer_set Nat Nat demoPlan
      [TCall.add 1 10 5, TCall.add 2 10 0, TCall.timeOut 20 10] 0 0
      ({ timer_queue_ := [{ seq_id := 3, interval_time := 0, expire_time := 50, task := 3 }],
         timer_id_index_ := [(3, 50)], base_id_ := 4 }, 3) rfl).1⟩


/-! ## C35: `MemSet` is a bounded finite set -/

theorem fresh_setInv (n bn : Nat) (hash : Nat → Nat) (value : Nat → Pair) (hb : 0 < bn) :
    SetInv (BaseMemSet.fresh n bn hash value) [] [] := by
  refine ⟨hb, rfl, Nat.zero_le _, ?_, List.nodup_nil, rfl, ?_, ?_⟩
  · intro i
    show (1 ≤ i ∧ i ≤ 0) ↔ _
    simp
    omega
  · intro i hi
    simp at hi
  · intro b _
    exact ⟨[], rfl, List.nodup_nil, by intro i; simp⟩

theorem fresh_setRel (n bn : Nat) (hash : Nat → Nat) (value : Nat → Pair) (hb : 0 < bn) :
    SetRel (BaseMemSet.fresh n bn hash value) n ∅ :=
  ⟨⟨[], [], fresh_setInv n bn hash value hb, rfl⟩, rfl⟩

theorem SetInv.keys_nodup {s : BaseMemSet} {A Fr : List Nat} (h : SetInv s A Fr) :
    (A.map s.key).Nodup :=
  List.Nodup.map_on (fun i hi j hj e => h.keys i hi j hj e) (List.nodup_append.1 h.nodup).1

theorem SetInv.card_keys {s : BaseMemSet} {A Fr : List Nat} (h : SetInv s A Fr) :
    (A.map s.key).toFinset.card = A.length := by
  rw [List.toFinset_card_of_nodup h.keys_nodup, List.length_map]

theorem SetInv.mem_keys {s : BaseMemSet} {A Fr : List Nat} (_h : SetInv s A Fr) (x : Nat) :
    x ∈ (A.map s.key).toFinset ↔ ∃ i ∈ A, s.key i = x := by
  rw [List.mem_toFinset, List.mem_map]

theorem set_walk_zero (s : BaseMemSet) (fuel : Nat) : s.walk fuel 0 = some [] := by
  cases fuel <;> rfl

theorem set_walk_chain (s : BaseMemSet) (b : Nat) (R : List Nat)
    (hR : ∀ fuel, R.length < fuel →
      s.walk fuel (s.scan_buckets (s.m_buckets_num - (b + 1)) (b + 1)) = some R) :
    ∀ (l : List Nat) (i fuel : Nat), HChain s.m_next i (i :: l) →
      (∀ j ∈ i :: l, s.get_bucket_index (s.key j) = b) →
      (i :: l).length + R.length < fuel → s.walk fuel i = some ((i :: l) ++ R) := by
  intro l
  induction l with
  | nil =>
    intro i fuel hc hb hf
    obtain ⟨k, rfl⟩ := Nat.exists_eq_succ_of_ne_zero hc.2.1
    obtain ⟨f, rfl⟩ : ∃ f, fuel = f + 1 := ⟨fuel - 1, by simp at hf; omega⟩
    have hnext : s.m_next k = 0 := hc.2.2
    have hbk : s.get_bucket_index (s.deref (k + 1)).first = b :=
      hb (k + 1) (List.mem_cons_self _ _)
    have hstep : s.iter_next (k + 1)
        = s.scan_buckets (s.m_buckets_num - (b + 1)) (b + 1) := by
      unfold BaseMemSet.iter_next
      rw [Nat.add_sub_cancel, if_pos hnext, hbk]
    simp only [BaseMemSet.walk, hstep]
    rw [hR f (by simp at hf; omega)]
    rfl
  | cons j l ih =>
    intro i fuel hc hb hf
    obtain ⟨k, rfl⟩ := Nat.exists_eq_succ_of_ne_zero hc.2.1
    obtain ⟨f, rfl⟩ : ∃ f, fuel = f + 1 := ⟨fuel - 1, by simp at hf; omega⟩
    have hc2 : HChain s.m_next (s.m_next k) (j :: l) := hc.2.2
    have hnext : s.m_next k = j := hc2.1
    have hj : j ≠ 0 := hc2.2.1
    have hstep : s.iter_next (k + 1) = j := by
      unfold BaseMemSet.iter_next
      rw [Nat.add_sub_cancel, hnext, if_neg hj]
    have hc3 : HChain s.m_next j (j :: l) := by
      have hc4 := hc2
      rw [hnext] at hc4
      exact hc4
    simp only [BaseMemSet.walk, hstep]
    rw [ih j f hc3 (fun x hx => hb x (List.mem_cons_of_mem _ hx))
      (by simp only [List.length_cons] at hf ⊢; omega)]
    rfl

theorem set_walk_buckets {s : BaseMemSet} {A Fr : List Nat} (h : SetInv s A Fr) :
    ∀ (k b : Nat), b + k = s.m_buckets_num →
      ∃ vis : List Nat, vis.Nodup ∧
        (∀ i, i ∈ vis ↔ (i ∈ A ∧ b ≤ s.get_bucket_index (s.key i))) ∧
        ∀ fuel, vis.length < fuel → s.walk fuel (s.scan_buckets k b) = some vis := by
  intro k
  induction k with
  | zero =>
    intro b hb
    refine ⟨[], List.nodup_nil, ?_, fun fuel _ => set_walk_zero s fuel⟩
    intro i
    have : s.get_bucket_index (s.key i) < s.m_buckets_num := Nat.mod_lt _ h.bn
    simp only [List.not_mem_nil, false_iff, not_and]
    intro _
    omega
  | succ k ih =>
    intro b hb
    have hlt : b < s.m_buckets_num := by omega
    obtain ⟨l, hc, hnd, hl⟩ := h.chains b hlt
    obtain ⟨vis, hvnd, hvmem, hvwalk⟩ := ih (b + 1) (by omega)
    have hk : s.m_buckets_num - (b + 1) = k := by omega
    cases l with
    | nil =>
      have h0 : s.m_buckets b = 0 := hc
      refine ⟨vis, hvnd, ?_, ?_⟩
      · intro i
        rw [hvmem i]
        constructor
        · rintro ⟨hi, hle⟩
          exact ⟨hi, by omega⟩
        · rintro ⟨hi, hle⟩
          refine ⟨hi, ?_⟩
          by_contra hn
          have : s.get_bucket_index (s.key i) = b := by omega
          have := (hl i).2 ⟨hi, this⟩
          simp at this
      · intro fuel hf
        have : s.scan_buckets (k + 1) b = s.scan_buckets k (b + 1) := by
          simp only [BaseMemSet.scan_buckets, h0, ne_eq, not_true_eq_false, if_false]
        rw [this]
        exact hvwalk fuel hf
    | cons i l =>
      have hhead : s.m_buckets b = i := hc.1
      have hi0 : i ≠ 0 := hc.2.1
      refine ⟨(i :: l) ++ vis, ?_, ?_, ?_⟩
      · refine List.nodup_append.2 ⟨hnd, hvnd, ?_⟩
        intro x hx1 hx2
        have e1 := ((hl x).1 hx1).2
        have e2 := ((hvmem x).1 hx2).2
        omega
      · intro x
        rw [List.mem_append, hl x, hvmem x]
        constructor
        · rintro (⟨hx, e⟩ | ⟨hx, e⟩)
          · exact ⟨hx, by omega⟩
          · exact ⟨hx, by omega⟩
        · rintro ⟨hx, e⟩
          by_cases hb2 : s.get_bucket_index (s.key x) = b
          · exact Or.inl ⟨hx, hb2⟩
          · exact Or.inr ⟨hx, by omega⟩
      · intro fuel hf
        have : s.scan_buckets (k + 1) b = i := by
          simp only [BaseMemSet.scan_buckets, hhead, ne_eq, hi0, not_false_eq_true, if_true]
        rw [this]
        have hc2 : HChain s.m_next i (i :: l) := by
          have hc3 := hc
          rw [hhead] at hc3
          exact hc3
        refine set_walk_chain s b vis ?_ l i fuel hc2 (fun j hj => ((hl j).1 hj).2) ?_
        · rw [hk]
          exact hvwalk
        · rw [List.length_append] at hf
          exact hf

theorem SetInv.iterate_members {s : BaseMemSet} {A Fr : List Nat} (h : SetInv s A Fr) (fuel : Nat)
    (hf : s.m_max_num < fuel) :
    ∃ vis : List Nat, s.iterate fuel = some vis ∧ vis.Nodup ∧
      ∀ x, x ∈ vis ↔ ∃ i ∈ A, s.key i = x := by
  obtain ⟨vis, hnd, hmem, hwalk⟩ := set_walk_buckets h s.m_buckets_num 0 (by omega)
  have hmem2 : ∀ i, i ∈ vis ↔ i ∈ A := by
    intro i
    rw [hmem i]
    simp
  have hsub : vis ⊆ A := fun i hi => (hmem2 i).1 hi
  have hlen : vis.length ≤ A.length := (List.subperm_of_subset hnd hsub).length_le
  have hA := h.length_le
  have hraw := h.raw_le
  refine ⟨vis.map s.key, ?_, ?_, ?_⟩
  · unfold BaseMemSet.iterate BaseMemSet.find_first_used_bucket
    rw [hwalk fuel (by omega)]
    rfl
  · exact List.Nodup.map_on
      (fun i hi j hj e => h.keys i ((hmem2 i).1 hi) j ((hmem2 j).1 hj) e) hnd
  · intro x
    rw [List.mem_map]
    constructor
    · rintro ⟨i, hi, e⟩
      exact ⟨i, (hmem2 i).1 hi, e⟩
    · rintro ⟨i, hi, e⟩
      exact ⟨i, (hmem2 i).2 hi, e⟩
theorem key_congr (s s2 : BaseMemSet) (h : s2.m_value = s.m_value) (i : Nat) :
    s2.key i = s.key i := by
  unfold BaseMemSet.key BaseMemSet.deref
  rw [h]

theorem SetRel.insert_refines {s : BaseMemSet} {n : Nat} {m : Finset Nat} (h : SetRel s n m)
    (fuel x : Nat) (hf : n < fuel) :
    ∃ s2 r, s.insert fuel { first := x, second := 0 } = some (s2, r, (setStep n m (SOp.insert x)).2) ∧
      SetRel s2 n (setStep n m (SOp.insert x)).1 ∧
      (x ∈ m → s2 = s ∧ r ≠ 0) ∧ (x ∉ m → m.card = n → s2 = s ∧ r = 0) := by
  obtain ⟨⟨A, Fr, hinv, hm⟩, hmax⟩ := h
  obtain ⟨r, hfind, hr⟩ := hinv.find_index fuel x (by omega)
  have hfind2 : s.find_index_impl fuel (s.get_bucket_index x) x = some r := hfind
  have hcard : m.card = A.length := by rw [hm]; exact hinv.card_keys
  rcases hr with ⟨hr0, hrA, hrk⟩ | ⟨hr0, hnone⟩
  · have hxm : x ∈ m := by
      rw [hm, hinv.mem_keys]
      exact ⟨r, hrA, hrk⟩
    refine ⟨s, r, ?_, ?_, fun _ => ⟨rfl, hr0⟩, fun hn => absurd hxm hn⟩
    · simp only [BaseMemSet.insert, hfind2, setStep, hxm, if_true, ne_eq, hr0,
        not_false_eq_true]
    · simp only [setStep, hxm, if_true]
      exact ⟨⟨A, Fr, hinv, hm⟩, hmax⟩
  · have hxm : x ∉ m := by
      rw [hm, hinv.mem_keys]
      rintro ⟨i, hi, e⟩
      exact hnone i hi e
    by_cases hfull : s.full = true
    · have hc : m.card = n := by
        unfold BaseMemSet.full at hfull
        rw [decide_eq_true_iff, hinv.used, hmax] at hfull
        rw [hcard, hfull]
      refine ⟨s, 0, ?_, ?_, fun hx => absurd hx hxm, fun _ _ => ⟨rfl, rfl⟩⟩
      · simp only [BaseMemSet.insert, hfind2, hr0, setStep, hxm, if_false, hc, if_true, ne_eq,
          not_true_eq_false, hfull]
      · simp only [setStep, hxm, if_false, hc, if_true]
        exact ⟨⟨A, Fr, hinv, hm⟩, hmax⟩
    · have hfull2 : s.full = false := by simpa using hfull
      have hc : m.card ≠ n := by
        unfold BaseMemSet.full at hfull2
        rw [decide_eq_false_iff_not, hinv.used, hmax] at hfull2
        rw [hcard]
        exact hfull2
      obtain ⟨hnotin, hne0, ⟨Fr2, hinv2⟩, hval, hold, hmax2, _, _⟩ :=
        insert_impl_inv s A Fr hinv { first := x, second := 0 } hfull2 hnone
      refine ⟨(s.insert_impl (s.get_bucket_index x) { first := x, second := 0 }).1,
        (s.insert_impl (s.get_bucket_index x) { first := x, second := 0 }).2, ?_, ?_,
        fun hx => absurd hx hxm, fun _ hcn => absurd hcn hc⟩
      · simp only [BaseMemSet.insert, hfind2, hr0, setStep, hxm, if_false, hc, ne_eq,
          not_true_eq_false, hfull2, Bool.false_eq_true]
      · simp only [setStep, hxm, if_false, hc]
        refine ⟨⟨_, Fr2, hinv2, ?_⟩, by rw [hmax2, hmax]⟩
        rw [List.map_cons, List.toFinset_cons, hm]
        have hk : BaseMemSet.key (s.insert_impl (s.get_bucket_index x)
            { first := x, second := 0 }).1 (s.insert_impl (s.get_bucket_index x)
            { first := x, second := 0 }).2 = x := by
          unfold BaseMemSet.key
          rw [hval]
        rw [hk]
        congr 2
        apply List.map_congr_left
        intro i hi
        unfold BaseMemSet.key
        rw [hold i hi]

theorem SetRel.erase_refines {s : BaseMemSet} {n : Nat} {m : Finset Nat} (h : SetRel s n m)
    (fuel x : Nat) (hf : n < fuel) :
    ∃ s2 r, s.erase fuel x = some (s2, r) ∧ decide (r ≠ 0) = (setStep n m (SOp.erase x)).2 ∧
      SetRel s2 n (setStep n m (SOp.erase x)).1 := by
  obtain ⟨⟨A, Fr, hinv, hm⟩, hmax⟩ := h
  obtain ⟨s2, r, he, hr⟩ := hinv.erase fuel x (by omega)
  refine ⟨s2, r, he, ?_⟩
  rcases hr with ⟨hr0, hrA, hrk, hinv2, hval, hmax2, _, _⟩ | ⟨hr0, hs2, hnone⟩
  · have hxm : x ∈ m := by
      rw [hm, hinv.mem_keys]
      exact ⟨r, hrA, hrk⟩
    have hndA := (List.nodup_append.1 hinv.nodup).1
    refine ⟨by simp [setStep, hxm, hr0], ⟨⟨_, _, hinv2, ?_⟩, by rw [hmax2, hmax]⟩⟩
    simp only [setStep]
    ext y
    rw [Finset.mem_erase, hm, hinv.mem_keys, List.mem_toFinset, List.mem_map]
    constructor
    · rintro ⟨hne, i, hi, e⟩
      refine ⟨i, (hndA.mem_erase_iff).2 ⟨?_, hi⟩, by rw [key_congr s s2 hval, e]⟩
      intro hir
      rw [hir, hrk] at e
      exact hne e.symm
    · rintro ⟨i, hi, e⟩
      rw [key_congr s s2 hval] at e
      obtain ⟨hir, hiA⟩ := (hndA.mem_erase_iff).1 hi
      refine ⟨?_, i, hiA, e⟩
      intro hyx
      apply hir
      apply hinv.keys i hiA r hrA
      rw [e, hrk, hyx]
  · have hxm : x ∉ m := by
      rw [hm, hinv.mem_keys]
      rintro ⟨i, hi, e⟩
      exact hnone i hi e
    refine ⟨by simp [setStep, hxm, hr0], ?_⟩
    simp only [setStep]
    rw [Finset.erase_eq_of_not_mem hxm, hs2]
    exact ⟨⟨A, Fr, hinv, hm⟩, hmax⟩

theorem SetRel.step_refines {s : BaseMemSet} {n : Nat} {m : Finset Nat} (h : SetRel s n m)
    (fuel : Nat) (op : SOp) (hf : n < fuel) :
    ∃ s2, s.stepSet fuel op = some (s2, (setStep n m op).2) ∧
      SetRel s2 n (setStep n m op).1 := by
  cases op with
  | insert x =>
    obtain ⟨s2, r, he, hrel, _, _⟩ := h.insert_refines fuel x hf
    exact ⟨s2, by simp only [BaseMemSet.stepSet, he, Option.map_some'], hrel⟩
  | erase x =>
    obtain ⟨s2, r, he, hres, hrel⟩ := h.erase_refines fuel x hf
    exact ⟨s2, by simp only [BaseMemSet.stepSet, he, Option.map_some', hres], hrel⟩

theorem runMemSet_refines (fuel n : Nat) (hf : n < fuel) (ops : List SOp) :
    ∀ (s : BaseMemSet) (m : Finset Nat), SetRel s n m →
      ∃ s2, runMemSet fuel ops s = some (s2, (runSetSpec n ops m).2) ∧
        SetRel s2 n (runSetSpec n ops m).1 := by
  induction ops with
  | nil => intro s m h; exact ⟨s, rfl, h⟩
  | cons op ops ih =>
    intro s m h
    obtain ⟨s1, hstep, hrel⟩ := h.step_refines fuel op hf
    obtain ⟨s2, hrun, hrel2⟩ := ih s1 _ hrel
    exact ⟨s2, by simp only [runMemSet, hstep, hrun, runSetSpec], hrel2⟩

theorem SetRel.exist_eq {s : BaseMemSet} {n : Nat} {m : Finset Nat} (h : SetRel s n m)
    (fuel x : Nat) (hf : n < fuel) : s.exist fuel x = some (decide (x ∈ m)) := by
  obtain ⟨⟨A, Fr, hinv, hm⟩, hmax⟩ := h
  obtain ⟨r, hfind, hr⟩ := hinv.find_index fuel x (by omega)
  have hfind2 : s.find fuel x = some r := hfind
  unfold BaseMemSet.exist
  rw [hfind2, Option.map_some', hm]
  congr 1
  rcases hr with ⟨hr0, hrA, hrk⟩ | ⟨hr0, hnone⟩
  · have : x ∈ (A.map s.key).toFinset := (hinv.mem_keys x).2 ⟨r, hrA, hrk⟩
    simp [hr0, this]
  · have : x ∉ (A.map s.key).toFinset := by
      rw [hinv.mem_keys]
      rintro ⟨i, hi, e⟩
      exact hnone i hi e
    simp [hr0, this]

/-- C35.  A `MemSet` of numbers with capacity `N`, any number of buckets
other than 0 and any hash function refines the finite set bounded by `N`:
every sequence of `insert` and `erase` calls on a fresh set returns, call by
call, what the finite set returns (searches bounded by more than `N` steps
end).  In the state reached: `size()` is the number of members, at most `N`;
`exist(x)` holds exactly for the members; iteration from `begin()` to
`end()` ends and visits every member exactly once; `full()` holds exactly
with `N` members; `insert` of a member and `insert` of a new value into a
full set return `false` and the set as it was. -/
theorem C35_mem_set_refines_finite_set (n buckets_num : Nat) (hash : Nat → Nat)
    (value : Nat → Pair) (ops : List SOp) (fuel : Nat)
    (hb : 0 < buckets_num) (hf : n < fuel) :
    ∃ s vis,
      runMemSet fuel ops (BaseMemSet.fresh n buckets_num hash value)
        = some (s, (runSetSpec n ops ∅).2) ∧
      s.size = (runSetSpec n ops ∅).1.card ∧
      (runSetSpec n ops ∅).1.card ≤ n ∧
      (∀ x, s.exist fuel x = some (decide (x ∈ (runSetSpec n ops ∅).1))) ∧
      s.iterate fuel = some vis ∧ vis.Nodup ∧
      (∀ x, x ∈ vis ↔ x ∈ (runSetSpec n ops ∅).1) ∧
      (s.full = true ↔ (runSetSpec n ops ∅).1.card = n) ∧
      (∀ x, x ∈ (runSetSpec n ops ∅).1 →
        ∃ r, s.insert fuel { first := x, second := 0 } = some (s, r, false)) ∧
      (∀ x, x ∉ (runSetSpec n ops ∅).1 → (runSetSpec n ops ∅).1.card = n →
        s.insert fuel { first := x, second := 0 } = some (s, 0, false)) := by
  obtain ⟨s, hrun, hrel⟩ := runMemSet_refines fuel n hf ops _ ∅
    (fresh_setRel n buckets_num hash value hb)
  obtain ⟨⟨A, Fr, hinv, hm⟩, hmax⟩ := hrel
  have hrel : SetRel s n (runSetSpec n ops ∅).1 := ⟨⟨A, Fr, hinv, hm⟩, hmax⟩
  obtain ⟨vis, hit, hnd, hmem⟩ := hinv.iterate_members fuel (by omega)
  have hcard : (runSetSpec n ops ∅).1.card = A.length := by rw [hm]; exact hinv.card_keys
  have hA := hinv.length_le
  have hraw := hinv.raw_le
  refine ⟨s, vis, hrun, ?_, by omega, fun x => hrel.exist_eq fuel x hf, hit, hnd, ?_, ?_, ?_, ?_⟩
  · rw [hcard]
    exact hinv.used
  · intro x
    rw [hmem x, hm, hinv.mem_keys]
  · unfold BaseMemSet.full
    rw [decide_eq_true_iff, hinv.used, hmax, hcard]
  · intro x hx
    obtain ⟨s2, r, he, _, h1, _⟩ := hrel.insert_refines fuel x hf
    have hs := (h1 hx).1
    refine ⟨r, ?_⟩
    rw [he, hs]
    simp [setStep, hx]
  · intro x hx hc
    obtain ⟨s2, r, he, _, _, h2⟩ := hrel.insert_refines fuel x hf
    obtain ⟨hs, hr⟩ := h2 hx hc
    rw [he, hs, hr]
    simp [setStep, hx, hc]
/-- C35, an instance: a `MemSet` of capacity 3 (one bucket) after the calls
`demoSetOps` holds 5, 7 and 9 and iterates over them as 9, 7, 5; and a set of
capacity 60 with 59 buckets iterates over its five members bucket by
bucket. -/
theorem C35_mem_set_refines_finite_set_witness :
    (0 : Nat) < 1 ∧ (3 : Nat) < 4 ∧
    (∃ s vis,
      runMemSet 4 demoSetOps (BaseMemSet.fresh 3 1 id (fun _ => { first := 0, second := 0 }))
        = some (s, (runSetSpec 3 demoSetOps ∅).2) ∧
      s.size = (runSetSpec 3 demoSetOps ∅).1.card ∧
      (runSetSpec 3 demoSetOps ∅).1.card ≤ 3 ∧
      (∀ x, s.exist 4 x = some (decide (x ∈ (runSetSpec 3 demoSetOps ∅).1))) ∧
      s.iterate 4 = some vis ∧ vis.Nodup ∧
      (∀ x, x ∈ vis ↔ x ∈ (runSetSpec 3 demoSetOps ∅).1) ∧
      (s.full = true ↔ (runSetSpec 3 demoSetOps ∅).1.card = 3) ∧
      (∀ x, x ∈ (runSetSpec 3 demoSetOps ∅).1 →
        ∃ r, s.insert 4 { first := x, second := 0 } = some (s, r, false)) ∧
      (∀ x, x ∉ (runSetSpec 3 demoSetOps ∅).1 → (runSetSpec 3 demoSetOps ∅).1.card = 3 →
        s.insert 4 { first := x, second := 0 } = some (s, 0, false))) ∧
    (runSetSpec 3 demoSetOps ∅).2 = [true, true, false, true, false, true, false, true] ∧
    (runSetSpec 3 demoSetOps ∅).1 = {5, 7, 9} ∧
    (runMemSet 4 demoSetOps
        (BaseMemSet.fresh 3 1 id (fun _ => { first := 0, second := 0 }))).bind
      (fun r => r.1.iterate 4) = some [9, 7, 5] ∧
    (runMemSet 61
        [SOp.insert 5, SOp.insert 8, SOp.insert 5, SOp.insert 7, SOp.insert 9, SOp.insert 120,
          SOp.insert 61, SOp.erase 8]
        (BaseMemSet.fresh 60 59 id (fun _ => { first := 0, second := 0 }))).bind
      (fun r => r.1.iterate 61) = some [61, 120, 5, 7, 9] :=
  ⟨by decide, by decide,
   C35_mem_set_refines_finite_set 3 1 id (fun _ => { first := 0, second := 0 }) demoSetOps 4
     (by decide) (by decide),
   by decide, by decide, by rfl, by rfl⟩

/-! ## Tasks that add timers during `TimeOut` -/

/-- A task that adds a timer while `TimeOut` runs: the task of the timer
with id 1 and deadline 10 adds a timer with deadline 3, which gets id 2;
`TimeOut(20)` invokes the task of timer 1 and then, in the same call, that
of timer 2, whose deadline is the earlier one. -/
theorem task_added_timer_fires_later :
    (runTaskCalls
        (fun task timer_id _ (s : TaskState Nat (List Nat)) =>
          (s.2 ++ [timer_id], if task = 1 then [QCall.add 0 3 0] else []))
        [TCall.add 1 10 0, TCall.timeOut 20 5]
        (TimeoutQueue.withCounter Nat 0, [])).map Prod.snd = some [1, 2] := by
  rfl

end ua
